import Mathlib

/-!
# MPLS Label Information Base of zebra (`zebra/mpls_lib.c`)

A shallow embedding of the per-prefix label-binding engine of
`zebra/mpls_lib.c` and of the declarations of `zebra/mpls_lib.h`.

* Labels, addresses and flag words are natural numbers.
* A `struct route_lsp *` is a `route_lsp` value that carries the address
  `ptr` it was allocated at; comparing two pointers is comparing `ptr`.
  `XCALLOC` hands out the address `alloc` and increments it.
* Calls that leave the engine (forwarding-plane driver, client messages,
  RIB queue) are appended to a log in program order.  The value a driver
  call returns is read from a `driver`, a function of the log up to and
  including that call.
* The macro `CHECK_FLAG` and the constants that come from `zebra.h` and
  `rib.h`, outside `zebra/mpls_*`, are the fields of a `zebra_consts`
  parameter.
-/

namespace Mpls

/-! ## Declarations of `mpls_lib.h` -/

/-- The sentinel `NO_LABEL`, defined as `UINT_MAX` (32-bit unsigned). -/
def NO_LABEL : Nat := 4294967295

/-- The constant `MPLS_IPV4_EXPLICIT_NULL`. -/
def MPLS_IPV4_EXPLICIT_NULL : Nat := 0

/-- The constant `MPLS_IMPLICIT_NULL`. -/
def MPLS_IMPLICIT_NULL : Nat := 3

/-- The record `struct route_lsp`; `ptr` is the address of the object. -/
structure route_lsp where
  ptr : Nat
  ifp : Option Nat
  nexthop : Nat
  remote_label : Nat
  nhlfe_index : Nat
  deriving DecidableEq, Repr

/-- The record `struct label_bindings`; a null pointer is `none`. -/
structure label_bindings where
  static_in_label : Nat
  ldp_in_label : Nat
  selected_in_label : Nat
  static_lsps : List route_lsp
  ldp_lsp : Option route_lsp
  selected_lsp : Option route_lsp
  deriving DecidableEq, Repr

/-- The record `struct mpls_crossconnect`; `ptr` is the address of the
object, `lsp` the object its `lsp` pointer refers to. -/
structure mpls_crossconnect where
  ptr : Nat
  in_label : Nat
  lsp : route_lsp
  deriving DecidableEq, Repr

/-! ## The environment of the engine -/

/-- The key of a route node (`struct prefix`): family, length, address. -/
structure Prefix where
  family : Nat
  prefixlen : Nat
  addr : Nat
  deriving DecidableEq, Repr

/-- The fields of `struct nexthop` the engine reads, `flags` and `gate.ipv4`,
and the field `type` that holds the kind of next hop (one of the
`NEXTHOP_TYPE_*` values), which the engine does not read. -/
structure nexthop where
  type : Nat
  flags : Nat
  gate_ipv4 : Nat
  deriving DecidableEq, Repr

/-- The fields of `struct rib` the engine reads. -/
structure rib where
  flags : Nat
  distance : Nat
  nexthop : List nexthop
  deriving DecidableEq, Repr

/-- The fields of `struct zserv` the engine reads; `sock` names the client. -/
structure zserv where
  sock : Nat
  redist_mpls : Bool
  deriving DecidableEq, Repr

/-- The macro and the constants that `mpls_lib.c` takes from headers outside
`zebra/mpls_*` (`zebra.h`, `rib.h`): the truth value of
`CHECK_FLAG (V, F)`, the RIB flag and distance that make a route active, and
the next-hop flag and types `get_prefix_nexthop` tests.  They are parameters
of the model. -/
structure zebra_consts where
  CHECK_FLAG : Nat → Nat → Bool
  ZEBRA_FLAG_SELECTED : Nat
  DISTANCE_INFINITY : Nat
  NEXTHOP_FLAG_ACTIVE : Nat
  NEXTHOP_TYPE_IPV4 : Nat
  NEXTHOP_TYPE_IPV4_IFINDEX : Nat
  NEXTHOP_TYPE_IPV4_IFNAME : Nat

/-- A call that leaves the engine, in the order the engine makes them. -/
inductive event where
  | ilm_register (label : Nat)
  | ilm_unregister (label : Nat)
  | nhlfe_register (lsp : route_lsp)
  | nhlfe_unregister (lsp : route_lsp)
  | xc_register (label : Nat) (lsp : route_lsp)
  | xc_unregister (label : Nat) (lsp : route_lsp)
  | set_interface_labelspace (ifp : Nat) (labelspace : Int)
  | zsend_prefix_in_label (client : Nat) (p : Prefix) (label : Nat)
  | rib_queue_add (p : Prefix)
  deriving DecidableEq, Repr

/-- The forwarding-plane driver as seen by the engine: the value returned by
the call that was logged last, given the whole log. -/
abbrev driver := List event → Int

/-- The driver of `mpls_null.c`: every call returns 0. -/
def null_driver : driver := fun _ => 0

/-- A route node (`struct route_node`): its RIB entries `info` and its
bindings record `mpls` (`none` is the null pointer). -/
structure route_node where
  info : List rib
  mpls : Option label_bindings
  deriving DecidableEq, Repr

/-- The process state the engine works on: the IPv4 unicast route table,
`zebrad.client_list`, the globals of `mpls_lib.c`, the next address
`XCALLOC` returns, and the log of outgoing calls. -/
structure zebra where
  table : Prefix → route_node
  client_list : List zserv
  mpls_enabled : Nat
  mpls_crossconnect_list : List mpls_crossconnect
  alloc : Nat
  log : List event

/-- A route node whose bindings record exists, seen from inside an engine
function: `lb` is `*rn->mpls`, the other fields are the parts of the
process state the function can read or change. -/
structure mpls_rn where
  p : Prefix
  info : List rib
  lb : label_bindings
  client_list : List zserv
  alloc : Nat
  log : List event
  deriving DecidableEq, Repr

/-- The value of a `struct route_lsp *` variable: its address, if any. -/
def ptr_of (l : Option route_lsp) : Option Nat := l.map (fun x => x.ptr)

/-- Appends one outgoing call to the log. -/
def emit (c : mpls_rn) (e : event) : mpls_rn := { c with log := c.log ++ [e] }

/-! ## `mpls_lib.c` -/

/-- The record `route_node_get_mpls` allocates for a node without one. -/
def label_bindings_new : label_bindings :=
  { static_in_label := NO_LABEL, ldp_in_label := NO_LABEL, selected_in_label := NO_LABEL,
    static_lsps := [], ldp_lsp := none, selected_lsp := none }

/-- The function `route_node_get_mpls`: the node of `p`, with a bindings
record created if it had none.  The route table is taken to exist. -/
def route_node_get_mpls (s : zebra) (p : Prefix) : zebra :=
  match (s.table p).mpls with
  | some _ => s
  | none =>
    { s with table := Function.update s.table p { s.table p with mpls := some label_bindings_new } }

/-- The function `zebra_route_node_active`. -/
def zebra_route_node_active (K : zebra_consts) (info : List rib) : Bool :=
  info.any (fun r => K.CHECK_FLAG r.flags K.ZEBRA_FLAG_SELECTED && r.distance != K.DISTANCE_INFINITY)

/-- The first loop of `get_prefix_nexthop`: the last RIB entry that is
selected and not at infinite distance. -/
def get_prefix_nexthop_active (K : zebra_consts) : List rib → Option rib → Option rib
  | [], active => active
  | r :: rest, active =>
    if K.CHECK_FLAG r.flags K.ZEBRA_FLAG_SELECTED && r.distance != K.DISTANCE_INFINITY then
      get_prefix_nexthop_active K rest (some r)
    else
      get_prefix_nexthop_active K rest active

/-- The function `get_prefix_nexthop`. -/
def get_prefix_nexthop (K : zebra_consts) (info : List rib) : Option Nat :=
  match get_prefix_nexthop_active K info none with
  | none => none
  | some active =>
    (active.nexthop.find? (fun nh =>
      K.CHECK_FLAG nh.flags K.NEXTHOP_FLAG_ACTIVE
        && (K.CHECK_FLAG nh.flags K.NEXTHOP_TYPE_IPV4
            || K.CHECK_FLAG nh.flags K.NEXTHOP_TYPE_IPV4_IFINDEX
            || K.CHECK_FLAG nh.flags K.NEXTHOP_TYPE_IPV4_IFNAME))).map (fun nh => nh.gate_ipv4)

/-- The function `mpls_prefix_remove_lsp`. -/
def mpls_prefix_remove_lsp (K : zebra_consts) (c : mpls_rn) (lsp : route_lsp) : mpls_rn :=
  if ptr_of c.lb.selected_lsp ≠ some lsp.ptr then c
  else
    let c := { c with lb := { c.lb with selected_lsp := none } }
    if zebra_route_node_active K c.info then
      let c := if c.lb.selected_in_label ≠ NO_LABEL then
          emit c (event.xc_unregister c.lb.selected_in_label lsp) else c
      emit c (event.nhlfe_unregister lsp)
    else c

/-- The candidate computed by `mpls_prefix_select_lsp` before the label
`install_lsp`: the LDP LSP if its next hop matches, else the first static
LSP whose next hop matches. -/
def select_candidate (lb : label_bindings) (nexthop : Nat) : Option route_lsp :=
  match lb.ldp_lsp with
  | some l =>
    if l.nexthop = nexthop then some l
    else lb.static_lsps.find? (fun x => x.nexthop == nexthop)
  | none => lb.static_lsps.find? (fun x => x.nexthop == nexthop)

/-- The function `mpls_prefix_select_lsp` (the warning it logs when no next
hop can be read is not recorded). -/
def mpls_prefix_select_lsp (K : zebra_consts) (drv : driver) (c : mpls_rn) : mpls_rn :=
  match get_prefix_nexthop K c.info with
  | none => c
  | some nexthop =>
    let selected := select_candidate c.lb nexthop
    if c.lb.selected_lsp.isSome ∧ ptr_of c.lb.selected_lsp = ptr_of selected then c
    else
      let c := match c.lb.selected_lsp with
        | some old => mpls_prefix_remove_lsp K c old
        | none => c
      let c := { c with lb := { c.lb with selected_lsp := selected } }
      match selected with
      | none => c
      | some sel =>
        let c := emit c (event.nhlfe_register sel)
        if drv c.log < 0 then c
        else
          let c := if c.lb.selected_in_label ≠ NO_LABEL then
              emit c (event.xc_register c.lb.selected_in_label sel) else c
          emit c (event.rib_queue_add c.p)

/-- The loop `for (ALL_LIST_ELEMENTS_RO (zebrad.client_list, node, client))`
that sends the prefix's in-label to every client with `redist_mpls`. -/
def zsend_all (c : mpls_rn) : mpls_rn :=
  let sends := (c.client_list.filter (fun cl => cl.redist_mpls)).map
    (fun cl => event.zsend_prefix_in_label cl.sock c.p c.lb.selected_in_label)
  { c with log := c.log ++ sends }

/-- The body of `mpls_prefix_set_static_input_label` after the node lookup. -/
def set_static_input_label_rn (K : zebra_consts) (c : mpls_rn) (label : Nat) : mpls_rn :=
  if c.lb.static_in_label = label then c
  else
    let c := if c.lb.selected_in_label ≠ NO_LABEL ∧ zebra_route_node_active K c.info then
        let c := match c.lb.selected_lsp with
          | some sel => emit c (event.xc_unregister c.lb.selected_in_label sel)
          | none => c
        emit c (event.ilm_unregister c.lb.selected_in_label)
      else c
    let c := { c with lb := { c.lb with static_in_label := label, selected_in_label := label } }
    if ¬ zebra_route_node_active K c.info then c
    else
      let c := emit c (event.ilm_register c.lb.selected_in_label)
      let c := match c.lb.selected_lsp with
        | some sel => emit c (event.xc_register c.lb.selected_in_label sel)
        | none => c
      zsend_all c

/-- The body of `mpls_prefix_remove_static_input_label` after the node lookup. -/
def remove_static_input_label_rn (K : zebra_consts) (c : mpls_rn) (label : Nat) : mpls_rn :=
  if c.lb.static_in_label = NO_LABEL then c
  else if label ≠ NO_LABEL ∧ c.lb.static_in_label ≠ label then c
  else
    let c := if zebra_route_node_active K c.info then
        let c := match c.lb.selected_lsp with
          | some sel => emit c (event.xc_unregister c.lb.selected_in_label sel)
          | none => c
        emit c (event.ilm_unregister c.lb.selected_in_label)
      else c
    let c := { c with lb := { c.lb with static_in_label := NO_LABEL } }
    let c := if c.lb.ldp_in_label = NO_LABEL then
        { c with lb := { c.lb with selected_in_label := NO_LABEL } }
      else if zebra_route_node_active K c.info then
        let c := { c with lb := { c.lb with selected_in_label := c.lb.ldp_in_label } }
        let c := emit c (event.ilm_register c.lb.selected_in_label)
        match c.lb.selected_lsp with
        | some sel => emit c (event.xc_register c.lb.selected_in_label sel)
        | none => c
      else c
    if ¬ zebra_route_node_active K c.info then c
    else zsend_all c

/-- The body of `mpls_prefix_set_ldp_input_label` after the node lookup. -/
def set_ldp_input_label_rn (K : zebra_consts) (c : mpls_rn) (label : Nat) : mpls_rn :=
  let c := { c with lb := { c.lb with ldp_in_label := label } }
  if c.lb.static_in_label ≠ NO_LABEL then c
  else if label ≠ NO_LABEL ∧ label = c.lb.selected_in_label then c
  else if zebra_route_node_active K c.info then
    let c := if c.lb.selected_in_label ≠ NO_LABEL then
        let c := match c.lb.selected_lsp with
          | some sel => emit c (event.xc_unregister c.lb.selected_in_label sel)
          | none => c
        let c := emit c (event.ilm_unregister c.lb.selected_in_label)
        { c with lb := { c.lb with selected_in_label := NO_LABEL } }
      else c
    if label ≠ NO_LABEL then
      let c := { c with lb := { c.lb with selected_in_label := c.lb.ldp_in_label } }
      let c := emit c (event.ilm_register c.lb.selected_in_label)
      match c.lb.selected_lsp with
      | some sel => emit c (event.xc_register c.lb.selected_in_label sel)
      | none => c
    else c
  else c

/-- Modelled from the spec: `listnode_delete` is defined in `linklist.c`,
outside `zebra/mpls_*`; the spec has the LSP removed from the set.  The call
`listnode_delete (list, val)` drops the first node whose data pointer is
`val`. -/
def listnode_delete (l : List route_lsp) (val : route_lsp) : List route_lsp :=
  l.eraseP (fun x => x.ptr == val.ptr)

/-- The body of `mpls_prefix_remove_static_lsp` after the node lookup. -/
def remove_static_lsp_rn (K : zebra_consts) (drv : driver) (c : mpls_rn) (nexthop : Nat) :
    mpls_rn :=
  match c.lb.static_lsps.find? (fun x => x.nexthop == nexthop) with
  | none => c
  | some lsp =>
    let c := mpls_prefix_remove_lsp K c lsp
    let c := { c with lb := { c.lb with static_lsps := listnode_delete c.lb.static_lsps lsp } }
    if zebra_route_node_active K c.info then mpls_prefix_select_lsp K drv c else c

/-- The loop of `mpls_prefix_add_static_lsp` over the nodes the list had when
the loop was entered (`ALL_LIST_ELEMENTS` reads the next node before the body
runs, and the body deletes no node but the current one).  The flag tells
whether the function returned from inside the loop.  The nested
`mpls_prefix_remove_static_lsp (p, &lsp->nexthop)` looks up the same node. -/
def add_static_lsp_loop (K : zebra_consts) (drv : driver) (nexthop label : Nat) :
    List route_lsp → mpls_rn → Bool × mpls_rn
  | [], c => (false, c)
  | lsp :: rest, c =>
    if lsp.nexthop = nexthop then
      if lsp.remote_label = label then (true, c)
      else add_static_lsp_loop K drv nexthop label rest (remove_static_lsp_rn K drv c lsp.nexthop)
    else add_static_lsp_loop K drv nexthop label rest c

/-- The result of `XCALLOC (MTYPE_MPLS_LSP, ...)` followed by the two
assignments to `nexthop` and `remote_label`: a zeroed object at `ptr`. -/
def route_lsp_new (ptr nexthop label : Nat) : route_lsp :=
  { ptr := ptr, ifp := none, nexthop := nexthop, remote_label := label, nhlfe_index := 0 }

/-- Modelled from the spec: `listnode_add` is defined in `linklist.c`,
outside `zebra/mpls_*`; the spec has the new LSP record appended.  The call
`listnode_add (list, val)` links `val` at the tail. -/
def listnode_add (l : List route_lsp) (val : route_lsp) : List route_lsp := l ++ [val]

/-- Modelled from the spec: the macro `XFREE` is defined in `memory.h`,
outside `zebra/mpls_*`; the spec has the dynamic LSP discarded, the record
having none afterwards.  `XFREE (MTYPE_MPLS_LSP, lb->ldp_lsp)` releases the object and
leaves a null pointer in `lb->ldp_lsp`. -/
def XFREE_ldp_lsp (lb : label_bindings) : label_bindings := { lb with ldp_lsp := none }

/-- The statements of `mpls_prefix_add_static_lsp` under `Create MPLS LSP`:
the new object is allocated and linked into the static list. -/
def create_static_lsp (c : mpls_rn) (nexthop label : Nat) : mpls_rn :=
  let lsp := route_lsp_new c.alloc nexthop label
  { c with alloc := c.alloc + 1,
           lb := { c.lb with static_lsps := listnode_add c.lb.static_lsps lsp } }

/-- The statements of `mpls_prefix_set_ldp_lsp` under `Create MPLS LSP`: the
new object is allocated and stored in `ldp_lsp`. -/
def create_ldp_lsp (c : mpls_rn) (nexthop label : Nat) : mpls_rn :=
  let lsp := route_lsp_new c.alloc nexthop label
  { c with alloc := c.alloc + 1, lb := { c.lb with ldp_lsp := some lsp } }

/-- The body of `mpls_prefix_add_static_lsp` after the node lookup. -/
def add_static_lsp_rn (K : zebra_consts) (drv : driver) (c : mpls_rn) (nexthop label : Nat) :
    mpls_rn :=
  match add_static_lsp_loop K drv nexthop label c.lb.static_lsps c with
  | (true, c) => c
  | (false, c) =>
    let c := create_static_lsp c nexthop label
    if zebra_route_node_active K c.info then mpls_prefix_select_lsp K drv c else c

/-- The first test of `mpls_prefix_set_ldp_lsp`: there is an LDP LSP and it
has this next hop and this label. -/
def ldp_lsp_is (l : Option route_lsp) (nexthop label : Nat) : Bool :=
  match l with
  | some l => l.nexthop == nexthop && l.remote_label == label
  | none => false

/-- The body of `mpls_prefix_set_ldp_lsp` after the node lookup. -/
def set_ldp_lsp_rn (K : zebra_consts) (drv : driver) (c : mpls_rn) (nexthop label : Nat) :
    mpls_rn :=
  if ldp_lsp_is c.lb.ldp_lsp nexthop label then c
  else
    let c := match c.lb.ldp_lsp with
      | some l =>
        let c := mpls_prefix_remove_lsp K c l
        { c with lb := XFREE_ldp_lsp c.lb }
      | none => c
    let c := create_ldp_lsp c nexthop label
    if zebra_route_node_active K c.info then mpls_prefix_select_lsp K drv c else c

/-- The body of `mpls_prefix_remove_ldp_lsp` after the node lookup. -/
def remove_ldp_lsp_rn (K : zebra_consts) (drv : driver) (c : mpls_rn) (nexthop label : Nat) :
    mpls_rn :=
  match c.lb.ldp_lsp with
  | none => c
  | some l =>
    if l.nexthop ≠ nexthop ∨ l.remote_label ≠ label then c
    else
      let c := mpls_prefix_remove_lsp K c l
      let c := { c with lb := XFREE_ldp_lsp c.lb }
      if zebra_route_node_active K c.info then mpls_prefix_select_lsp K drv c else c

/-- The body of `mpls_route_install_hook` for a node with a bindings record. -/
def route_install_hook_rn (K : zebra_consts) (drv : driver) (c : mpls_rn) : mpls_rn :=
  let c := if c.lb.selected_in_label ≠ NO_LABEL then
      emit c (event.ilm_register c.lb.selected_in_label) else c
  mpls_prefix_select_lsp K drv c

/-- The body of `mpls_route_uninstall_hook` for a node with a bindings record. -/
def route_uninstall_hook_rn (K : zebra_consts) (c : mpls_rn) : mpls_rn :=
  let c := match c.lb.selected_lsp with
    | some sel => mpls_prefix_remove_lsp K c sel
    | none => c
  if c.lb.selected_in_label ≠ NO_LABEL then
    emit c (event.ilm_unregister c.lb.selected_in_label) else c

/-- Runs the body `f` of an engine function on the node of `p`: nothing
happens when the node has no bindings record (`if (! lb) return;`),
otherwise the node and the threaded process state are written back. -/
def with_rn (f : mpls_rn → mpls_rn) (s : zebra) (p : Prefix) : zebra :=
  match (s.table p).mpls with
  | none => s
  | some lb =>
    let c := f { p := p, info := (s.table p).info, lb := lb, client_list := s.client_list,
                 alloc := s.alloc, log := s.log }
    { s with table := Function.update s.table p { info := (s.table p).info, mpls := some c.lb },
             alloc := c.alloc, log := c.log }

/-- The function `mpls_prefix_set_static_input_label`. -/
def mpls_prefix_set_static_input_label (K : zebra_consts) (s : zebra) (p : Prefix)
    (label : Nat) : zebra :=
  with_rn (fun c => set_static_input_label_rn K c label) (route_node_get_mpls s p) p

/-- The function `mpls_prefix_remove_static_input_label`. -/
def mpls_prefix_remove_static_input_label (K : zebra_consts) (s : zebra) (p : Prefix)
    (label : Nat) : zebra :=
  with_rn (fun c => remove_static_input_label_rn K c label) (route_node_get_mpls s p) p

/-- The function `mpls_prefix_set_ldp_input_label`. -/
def mpls_prefix_set_ldp_input_label (K : zebra_consts) (s : zebra) (p : Prefix)
    (label : Nat) : zebra :=
  with_rn (fun c => set_ldp_input_label_rn K c label) (route_node_get_mpls s p) p

/-- The function `mpls_prefix_add_static_lsp`. -/
def mpls_prefix_add_static_lsp (K : zebra_consts) (drv : driver) (s : zebra) (p : Prefix)
    (nexthop label : Nat) : zebra :=
  with_rn (fun c => add_static_lsp_rn K drv c nexthop label) (route_node_get_mpls s p) p

/-- The function `mpls_prefix_remove_static_lsp`. -/
def mpls_prefix_remove_static_lsp (K : zebra_consts) (drv : driver) (s : zebra) (p : Prefix)
    (nexthop : Nat) : zebra :=
  with_rn (fun c => remove_static_lsp_rn K drv c nexthop) (route_node_get_mpls s p) p

/-- The function `mpls_prefix_set_ldp_lsp`. -/
def mpls_prefix_set_ldp_lsp (K : zebra_consts) (drv : driver) (s : zebra) (p : Prefix)
    (nexthop label : Nat) : zebra :=
  with_rn (fun c => set_ldp_lsp_rn K drv c nexthop label) (route_node_get_mpls s p) p

/-- The function `mpls_prefix_remove_ldp_lsp`. -/
def mpls_prefix_remove_ldp_lsp (K : zebra_consts) (drv : driver) (s : zebra) (p : Prefix)
    (nexthop label : Nat) : zebra :=
  with_rn (fun c => remove_ldp_lsp_rn K drv c nexthop label) (route_node_get_mpls s p) p

/-- The function `mpls_route_install_hook`, for the node of `p`. -/
def mpls_route_install_hook (K : zebra_consts) (drv : driver) (s : zebra) (p : Prefix) : zebra :=
  with_rn (route_install_hook_rn K drv) s p

/-- The function `mpls_route_uninstall_hook`, for the node of `p`. -/
def mpls_route_uninstall_hook (K : zebra_consts) (s : zebra) (p : Prefix) : zebra :=
  with_rn (route_uninstall_hook_rn K) s p

/-- The function `mpls_init`. -/
def mpls_init (s : zebra) : zebra :=
  { s with mpls_enabled := 0, mpls_crossconnect_list := [] }

/-! ## Runs of the engine -/

/-- The process state at start-up, after `mpls_init`: no route, no bindings
record, nothing allocated (addresses start at 1, 0 being the null pointer),
nothing logged; `cl` is `zebrad.client_list`. -/
def zebra_start (cl : List zserv) : zebra :=
  mpls_init { table := fun _ => { info := [], mpls := none }, client_list := cl,
              mpls_enabled := 0, mpls_crossconnect_list := [], alloc := 1, log := [] }

/-- The bindings record of `p` as an engine function finds it: the stored
record, or the one `route_node_get_mpls` creates. -/
def bindings (s : zebra) (p : Prefix) : label_bindings :=
  ((s.table p).mpls).getD label_bindings_new

/-- The RIB rewrites the entries of the node of `p` (no engine code runs). -/
def rib_update (s : zebra) (p : Prefix) (info : List rib) : zebra :=
  { s with table := Function.update s.table p { s.table p with info := info } }

/-- What can happen to the engine: a call of one of the seven public
mutators, a call of one of the two RIB hooks, or a change of the RIB. -/
inductive op where
  | set_static_input_label (p : Prefix) (label : Nat)
  | remove_static_input_label (p : Prefix) (label : Nat)
  | set_ldp_input_label (p : Prefix) (label : Nat)
  | add_static_lsp (p : Prefix) (nexthop label : Nat)
  | remove_static_lsp (p : Prefix) (nexthop : Nat)
  | set_ldp_lsp (p : Prefix) (nexthop label : Nat)
  | remove_ldp_lsp (p : Prefix) (nexthop label : Nat)
  | route_install_hook (p : Prefix)
  | route_uninstall_hook (p : Prefix)
  | rib_update (p : Prefix) (info : List rib)
  deriving DecidableEq, Repr

/-- The state after one operation. -/
def step (K : zebra_consts) (drv : driver) (s : zebra) : op → zebra
  | op.set_static_input_label p label => mpls_prefix_set_static_input_label K s p label
  | op.remove_static_input_label p label => mpls_prefix_remove_static_input_label K s p label
  | op.set_ldp_input_label p label => mpls_prefix_set_ldp_input_label K s p label
  | op.add_static_lsp p nexthop label => mpls_prefix_add_static_lsp K drv s p nexthop label
  | op.remove_static_lsp p nexthop => mpls_prefix_remove_static_lsp K drv s p nexthop
  | op.set_ldp_lsp p nexthop label => mpls_prefix_set_ldp_lsp K drv s p nexthop label
  | op.remove_ldp_lsp p nexthop label => mpls_prefix_remove_ldp_lsp K drv s p nexthop label
  | op.route_install_hook p => mpls_route_install_hook K drv s p
  | op.route_uninstall_hook p => mpls_route_uninstall_hook K s p
  | op.rib_update p info => rib_update s p info

/-- The operation is one of the seven public mutators. -/
def op.is_mutator : op → Bool
  | op.route_install_hook _ => false
  | op.route_uninstall_hook _ => false
  | op.rib_update _ _ => false
  | _ => true

/-- The states reachable from start-up by operations that each satisfy the
guard `G` in the state they run in. -/
inductive reachable_by (K : zebra_consts) (drv : driver) (G : zebra → op → Prop) :
    zebra → Prop where
  | start (cl : List zserv) : reachable_by K drv G (zebra_start cl)
  | step (s : zebra) (o : op) :
      reachable_by K drv G s → G s o → reachable_by K drv G (step K drv s o)

/-- The states reachable from start-up by any sequence of mutator calls, hook
calls and RIB changes, in any order and with any arguments. -/
def reachable (K : zebra_consts) (drv : driver) : zebra → Prop :=
  reachable_by K drv (fun _ _ => True)

/-- The states reachable from start-up when every change of the RIB is
notified through the hooks: the RIB gives routes to a node that has no active
route and then calls the install hook; it takes the active route of a node
away and calls the uninstall hook, just before or just after. -/
inductive notified (K : zebra_consts) (drv : driver) : zebra → Prop where
  | start (cl : List zserv) : notified K drv (zebra_start cl)
  | mutator (s : zebra) (o : op) :
      notified K drv s → o.is_mutator = true → notified K drv (step K drv s o)
  | route_install (s : zebra) (p : Prefix) (info : List rib) :
      notified K drv s → zebra_route_node_active K (s.table p).info = false →
      notified K drv (step K drv (step K drv s (op.rib_update p info)) (op.route_install_hook p))
  | route_uninstall (s : zebra) (p : Prefix) (info : List rib) :
      notified K drv s → zebra_route_node_active K info = false →
      notified K drv (step K drv (step K drv s (op.route_uninstall_hook p)) (op.rib_update p info))
  | route_withdrawn (s : zebra) (p : Prefix) (info : List rib) :
      notified K drv s → zebra_route_node_active K info = false →
      notified K drv (step K drv (step K drv s (op.rib_update p info)) (op.route_uninstall_hook p))

/-- The guard under which the selected in-label follows the dynamic label:
the static label that is set is a label, the static label is cleared on an
inactive route only when no dynamic label is recorded, and the dynamic label
is set on an inactive route only when a static label shadows it. -/
def in_label_edit_ok (K : zebra_consts) (s : zebra) : op → Prop
  | op.set_static_input_label _ label => label ≠ NO_LABEL
  | op.remove_static_input_label p _ =>
      zebra_route_node_active K (s.table p).info = true ∨ (bindings s p).ldp_in_label = NO_LABEL
  | op.set_ldp_input_label p _ =>
      zebra_route_node_active K (s.table p).info = true ∨ (bindings s p).static_in_label ≠ NO_LABEL
  | _ => True

/-- The header macro and constants as Quagga defines them (`CHECK_FLAG (V, F)`
is `(V) & (F)`, `ZEBRA_FLAG_SELECTED` 0x04, `DISTANCE_INFINITY` 255,
`NEXTHOP_FLAG_ACTIVE` 1, and the next-hop types 3, 4 and 5), used for
concrete runs. -/
def quagga_consts : zebra_consts :=
  { CHECK_FLAG := fun v f => (v &&& f) != 0,
    ZEBRA_FLAG_SELECTED := 4, DISTANCE_INFINITY := 255, NEXTHOP_FLAG_ACTIVE := 1,
    NEXTHOP_TYPE_IPV4 := 3, NEXTHOP_TYPE_IPV4_IFINDEX := 4, NEXTHOP_TYPE_IPV4_IFNAME := 5 }

/-- The state after a list of operations, first to last. -/
def run (K : zebra_consts) (drv : driver) (s : zebra) (os : List op) : zebra :=
  os.foldl (step K drv) s

/-- The event is a message to a client. -/
def event.is_zsend : event → Bool
  | event.zsend_prefix_in_label _ _ _ => true
  | _ => false

/-- The client messages in a log. -/
def sends (log : List event) : List event := log.filter event.is_zsend

/-- The messages `zsend_all` sends for prefix `p` and in-label `label`. -/
def broadcast (cl : List zserv) (p : Prefix) (label : Nat) : List event :=
  (cl.filter (fun c => c.redist_mpls)).map (fun c => event.zsend_prefix_in_label c.sock p label)

/-- The LSPs a bindings record owns: the static list and the LDP LSP. -/
def lsps (lb : label_bindings) : List route_lsp := lb.static_lsps ++ lb.ldp_lsp.toList

/-- The node of `p` as an engine function sees it after the lookup. -/
def rn_of (s : zebra) (p : Prefix) : mpls_rn :=
  { p := p, info := (s.table p).info, lb := bindings s p, client_list := s.client_list,
    alloc := s.alloc, log := s.log }

/-- The process state with the node of `p` and the threaded state of `c`
written back. -/
def put_rn (s : zebra) (p : Prefix) (c : mpls_rn) : zebra :=
  { s with table := Function.update s.table p { info := (s.table p).info, mpls := some c.lb },
           alloc := c.alloc, log := c.log }

/-- The prefix an edit of the static in-label is about. -/
def op.static_edit : op → Option Prefix
  | op.set_static_input_label p _ => some p
  | op.remove_static_input_label p _ => some p
  | _ => none

/-- What the first operation of a run leaves in the log beyond `log`. -/
def emitted (log : List event) (s' : zebra) : List event := s'.log.drop log.length

/-! ## Definitions used to state and prove the properties -/

/-- Nothing but the bindings record, the allocation counter and the log
changes, and the log grows at its end by calls that are not client
messages. -/
def quiet_frame (c c' : mpls_rn) : Prop :=
  c'.p = c.p ∧ c'.info = c.info ∧ c'.client_list = c.client_list ∧ c.alloc ≤ c'.alloc ∧
    ∃ es, c'.log = c.log ++ es ∧ sends es = []

/-- The selected LSP, if any, is one of the LSPs the record owns. -/
def sel_owned (lb : label_bindings) : Prop :=
  ∀ l, lb.selected_lsp = some l → l ∈ lsps lb

/-- The record is well formed with respect to the allocation counter `a`:
its LSPs live at distinct addresses below `a`, the selected LSP is one of
them, and no two static LSPs have the same next hop. -/
def lb_wf (a : Nat) (lb : label_bindings) : Prop :=
  ((lsps lb).map (fun x => x.ptr)).Nodup ∧ (∀ l ∈ lsps lb, l.ptr < a) ∧ sel_owned lb ∧
    (lb.static_lsps.map (fun x => x.nexthop)).Nodup

/-- What `mpls_prefix_select_lsp` leaves in `selected_lsp`. -/
def select_target (K : zebra_consts) (info : List rib) (lb : label_bindings) : Option route_lsp :=
  match get_prefix_nexthop K info with
  | none => lb.selected_lsp
  | some n => select_candidate lb n

/-- The two records agree on the three in-labels. -/
def same_in_labels (lb lb' : label_bindings) : Prop :=
  lb'.static_in_label = lb.static_in_label ∧ lb'.ldp_in_label = lb.ldp_in_label ∧
    lb'.selected_in_label = lb.selected_in_label

/-- The two records agree on the LSPs they own. -/
def same_owned (lb lb' : label_bindings) : Prop :=
  lb'.static_lsps = lb.static_lsps ∧ lb'.ldp_lsp = lb.ldp_lsp

/-- The selected LSP is the one `mpls_prefix_select_lsp` would pick now:
none when no next hop can be read, else the candidate for that next hop. -/
def sel_ok (K : zebra_consts) (info : List rib) (lb : label_bindings) : Prop :=
  lb.selected_lsp = match get_prefix_nexthop K info with
    | none => none
    | some n => select_candidate lb n

/-- The record after its LDP LSP `l` was unselected and freed. -/
def drop_ldp (K : zebra_consts) (c : mpls_rn) (l : route_lsp) : mpls_rn :=
  { mpls_prefix_remove_lsp K c l with lb := XFREE_ldp_lsp (mpls_prefix_remove_lsp K c l).lb }

/-- The call `mpls_kernel_xc_unregister (label, lsp)` guarded by `if (lsp)`. -/
def xc_unregister_if (sel : Option route_lsp) (label : Nat) : List event :=
  match sel with
  | some l => [event.xc_unregister label l]
  | none => []

/-- The call `mpls_kernel_xc_register (label, lsp)` guarded by `if (lsp)`. -/
def xc_register_if (sel : Option route_lsp) (label : Nat) : List event :=
  match sel with
  | some l => [event.xc_register label l]
  | none => []

/-- The calls `mpls_prefix_set_static_input_label` makes when it changes the
static in-label to `label`, in order. -/
def set_static_events (K : zebra_consts) (c : mpls_rn) (label : Nat) : List event :=
  if zebra_route_node_active K c.info then
    (if c.lb.selected_in_label ≠ NO_LABEL then
      xc_unregister_if c.lb.selected_lsp c.lb.selected_in_label
        ++ [event.ilm_unregister c.lb.selected_in_label]
     else [])
    ++ [event.ilm_register label] ++ xc_register_if c.lb.selected_lsp label
    ++ broadcast c.client_list c.p label
  else []

/-- The in-label `mpls_prefix_remove_static_input_label` leaves selected
when it clears the static in-label. -/
def remove_static_selected (K : zebra_consts) (c : mpls_rn) : Nat :=
  if c.lb.ldp_in_label = NO_LABEL then NO_LABEL
  else if zebra_route_node_active K c.info then c.lb.ldp_in_label
  else c.lb.selected_in_label

/-- The calls `mpls_prefix_remove_static_input_label` makes when it clears the
static in-label, in order. -/
def remove_static_events (K : zebra_consts) (c : mpls_rn) : List event :=
  if zebra_route_node_active K c.info then
    xc_unregister_if c.lb.selected_lsp c.lb.selected_in_label
      ++ [event.ilm_unregister c.lb.selected_in_label]
      ++ (if c.lb.ldp_in_label = NO_LABEL then []
          else [event.ilm_register c.lb.ldp_in_label]
            ++ xc_register_if c.lb.selected_lsp c.lb.ldp_in_label)
      ++ broadcast c.client_list c.p (remove_static_selected K c)
  else []

/-- The calls `mpls_prefix_set_ldp_input_label` makes when it moves the
selected in-label of an active route to `label`, in order. -/
def set_ldp_events (c : mpls_rn) (label : Nat) : List event :=
  (if c.lb.selected_in_label ≠ NO_LABEL then
    xc_unregister_if c.lb.selected_lsp c.lb.selected_in_label
      ++ [event.ilm_unregister c.lb.selected_in_label]
   else [])
  ++ (if label ≠ NO_LABEL then
    [event.ilm_register label] ++ xc_register_if c.lb.selected_lsp label
   else [])

/-- What an in-label mutator leaves alone: everything but the three
in-labels and the log. -/
def in_label_frame (c c' : mpls_rn) : Prop :=
  c'.p = c.p ∧ c'.info = c.info ∧ c'.client_list = c.client_list ∧ c'.alloc = c.alloc ∧
    c'.lb.static_lsps = c.lb.static_lsps ∧ c'.lb.ldp_lsp = c.lb.ldp_lsp ∧
    c'.lb.selected_lsp = c.lb.selected_lsp

/-- Every bindings record of the route table is well formed. -/
def zebra_wf (s : zebra) : Prop :=
  ∀ p lb, (s.table p).mpls = some lb → lb_wf s.alloc lb

/-- In every bindings record the selection is up to date with the routes of
its node. -/
def zebra_sel_ok (K : zebra_consts) (s : zebra) : Prop :=
  ∀ p lb, (s.table p).mpls = some lb → sel_ok K (s.table p).info lb

/-- A set static in-label is the selected in-label. -/
def in_static_ok (lb : label_bindings) : Prop :=
  lb.static_in_label ≠ NO_LABEL → lb.selected_in_label = lb.static_in_label

/-- Without a static in-label, the dynamic in-label is the selected one. -/
def in_ldp_ok (lb : label_bindings) : Prop :=
  lb.static_in_label = NO_LABEL → lb.selected_in_label = lb.ldp_in_label

/-- The operation is one of the three in-label mutators. -/
def op.is_in_label_edit : op → Bool
  | op.set_static_input_label _ _ => true
  | op.remove_static_input_label _ _ => true
  | op.set_ldp_input_label _ _ => true
  | _ => false

/-- The prefix and the outcome of an operation that sends client messages:
it is an edit of the static in-label of `p` that changes it while the route
of `p` is active. -/
def broadcasts_for (K : zebra_consts) (s s' : zebra) (o : op) (p : Prefix) : Prop :=
  o.static_edit = some p ∧
    (bindings s' p).static_in_label ≠ (bindings s p).static_in_label ∧
    zebra_route_node_active K (s.table p).info = true

/-- What a node-level edit of the static in-label sends. -/
def static_edit_sends (K : zebra_consts) (c c' : mpls_rn) : Prop :=
  ∃ es, c'.log = c.log ++ es ∧
    ((c'.lb.static_in_label ≠ c.lb.static_in_label ∧
        zebra_route_node_active K c.info = true ∧
        sends es = broadcast c.client_list c.p c'.lb.selected_in_label) ∨
     (¬ (c'.lb.static_in_label ≠ c.lb.static_in_label ∧
          zebra_route_node_active K c.info = true) ∧ sends es = []))

/-- The conclusion of `step_sends` for an operation `o` with result `s'`. -/
def sends_rule (K : zebra_consts) (s s' : zebra) (o : op) : Prop :=
  s'.log = s.log ++ emitted s.log s' ∧
    ((∃ p, broadcasts_for K s s' o p ∧
        sends (emitted s.log s') =
          broadcast s.client_list p (bindings s' p).selected_in_label) ∨
     ((∀ p, ¬ broadcasts_for K s s' o p) ∧ sends (emitted s.log s') = []))

/-- The prefix 10.0.0.0/8 (`AF_INET` is 2). -/
def demo_prefix : Prefix := { family := 2, prefixlen := 8, addr := 167772160 }

/-- The next hop 192.0.2.1. -/
def demo_nexthop : Nat := 3221225985

/-- A RIB with one selected route at distance 1 whose only next hop is active,
of type `NEXTHOP_TYPE_IPV4`, with gateway `gate`. -/
def demo_route (gate : Nat) : List rib :=
  [{ flags := 4, distance := 1,
     nexthop := [{ type := 3, flags := 1, gate_ipv4 := gate }] }]

/-- Two clients, the first of which subscribed to MPLS updates. -/
def demo_clients : List zserv :=
  [{ sock := 7, redist_mpls := true }, { sock := 8, redist_mpls := false }]

/-- A run in which the route comes up, LDP and the operator bind in-labels
200 and 100, the route goes down, and the operator removes the static
in-label. -/
def stale_run : List op :=
  [op.rib_update demo_prefix (demo_route demo_nexthop), op.route_install_hook demo_prefix,
   op.set_ldp_input_label demo_prefix 200, op.set_static_input_label demo_prefix 100,
   op.route_uninstall_hook demo_prefix, op.rib_update demo_prefix [],
   op.remove_static_input_label demo_prefix NO_LABEL]

/-- The state after `stale_run`. -/
def stale_state : zebra :=
  run quagga_consts null_driver (zebra_start demo_clients) stale_run

/-- A run in which the route comes up and LDP binds in-label 200. -/
def ldp_run : List op :=
  [op.rib_update demo_prefix (demo_route demo_nexthop), op.route_install_hook demo_prefix,
   op.set_ldp_input_label demo_prefix 200]

/-- The state after `ldp_run`. -/
def ldp_state : zebra :=
  run quagga_consts null_driver (zebra_start demo_clients) ldp_run

/-- A run that ends on an active route with static in-label 100, dynamic
in-label 200, a static LSP and an LDP LSP to the route's next hop, and a
static LSP to another next hop. -/
def bound_run : List op :=
  ldp_run ++ [op.set_static_input_label demo_prefix 100,
   op.add_static_lsp demo_prefix demo_nexthop 300, op.add_static_lsp demo_prefix 5 301,
   op.set_ldp_lsp demo_prefix demo_nexthop 400]

/-- The state after `bound_run`. -/
def bound_state : zebra :=
  run quagga_consts null_driver (zebra_start demo_clients) bound_run

/-! ## The static cross-connect table of `mpls_lib.c` -/

/-- Appends one outgoing call to the log of the process state. -/
def zemit (s : zebra) (e : event) : zebra := { s with log := s.log ++ [e] }

/-- Modelled from the spec: `listnode_delete` is defined in `linklist.c`,
outside `zebra/mpls_*`; the spec has the entry freed from the table.  The
call `listnode_delete (mpls_crossconnect_list, mc)` drops the first node whose
data pointer is `mc`. -/
def listnode_delete_mc (l : List mpls_crossconnect) (val : mpls_crossconnect) :
    List mpls_crossconnect :=
  l.eraseP (fun x => x.ptr == val.ptr)

/-- Modelled from the spec: `listnode_add` is defined in `linklist.c`, outside
`zebra/mpls_*`; the spec has a new entry created in the table, a sequence.
The call `listnode_add (mpls_crossconnect_list, mc)` links `mc` at the tail. -/
def listnode_add_mc (l : List mpls_crossconnect) (val : mpls_crossconnect) :
    List mpls_crossconnect :=
  l ++ [val]

/-- The function `mpls_static_crossconnect_remove`: the value it returns and
the state it leaves. -/
def mpls_static_crossconnect_remove (s : zebra) (in_label : Nat) : Int × zebra :=
  match s.mpls_crossconnect_list.find? (fun mc => mc.in_label == in_label) with
  | none => (-1, s)
  | some mc =>
    let s := zemit s (event.xc_unregister mc.in_label mc.lsp)
    let s := zemit s (event.ilm_unregister mc.in_label)
    let s := zemit s (event.nhlfe_unregister mc.lsp)
    let s := { s with mpls_crossconnect_list := listnode_delete_mc s.mpls_crossconnect_list mc }
    (0, s)

/-- The test of `mpls_static_crossconnect_add` on an entry with the incoming
label: same interface pointer, next hop and outgoing label. -/
def crossconnect_same (mc : mpls_crossconnect) (ifp : Option Nat) (nexthop out_label : Nat) :
    Bool :=
  mc.lsp.ifp == ifp && mc.lsp.nexthop == nexthop && mc.lsp.remote_label == out_label

/-- The loop of `mpls_static_crossconnect_add` over the nodes the list had
when the loop was entered (`ALL_LIST_ELEMENTS` reads the next node before the
body runs, and the body deletes no node but the current one).  The flag tells
whether the function returned 0 from inside the loop. -/
def crossconnect_add_loop (in_label : Nat) (ifp : Option Nat) (nexthop out_label : Nat) :
    List mpls_crossconnect → zebra → Bool × zebra
  | [], s => (false, s)
  | mc :: rest, s =>
    if mc.in_label = in_label then
      if crossconnect_same mc ifp nexthop out_label then (true, s)
      else crossconnect_add_loop in_label ifp nexthop out_label rest
        (mpls_static_crossconnect_remove s in_label).2
    else crossconnect_add_loop in_label ifp nexthop out_label rest s

/-- The entry `mpls_static_crossconnect_add` creates: two `XCALLOC`s, the
entry at `ptr` and its LSP at the next address, and the five assignments. -/
def mpls_crossconnect_new (ptr in_label : Nat) (ifp : Option Nat) (nexthop out_label : Nat) :
    mpls_crossconnect :=
  { ptr := ptr, in_label := in_label,
    lsp := { ptr := ptr + 1, ifp := ifp, nexthop := nexthop, remote_label := out_label,
             nhlfe_index := 0 } }

/-- The function `mpls_static_crossconnect_add`: the value it returns and the
state it leaves.  `ifp` is the interface pointer, `nexthop` the address the
pointer argument refers to. -/
def mpls_static_crossconnect_add (drv : driver) (s : zebra) (in_label : Nat) (ifp : Option Nat)
    (nexthop out_label : Nat) : Int × zebra :=
  match crossconnect_add_loop in_label ifp nexthop out_label s.mpls_crossconnect_list s with
  | (true, s) => (0, s)
  | (false, s) =>
    let mc := mpls_crossconnect_new s.alloc in_label ifp nexthop out_label
    let s := { s with alloc := s.alloc + 2,
                      mpls_crossconnect_list := listnode_add_mc s.mpls_crossconnect_list mc }
    let s := zemit s (event.nhlfe_register mc.lsp)
    if drv s.log < 0 then (-1, s)
    else
      let s := zemit s (event.ilm_register mc.in_label)
      if drv s.log < 0 then (-1, zemit s (event.nhlfe_unregister mc.lsp))
      else
        let s := zemit s (event.xc_register mc.in_label mc.lsp)
        if drv s.log < 0 then
          (-1, zemit (zemit s (event.ilm_unregister mc.in_label))
            (event.nhlfe_unregister mc.lsp))
        else (0, s)

/-- The interface pointer `if0` of the cross-connect scenario. -/
def demo_ifp : Option Nat := some 1

/-- The next hop 192.0.2.2 of the cross-connect scenario. -/
def demo_xc_nexthop : Nat := 3221225986

/-- The state after the cross-connect (100, if0, 192.0.2.2, 300) was added at
start-up with the driver of `mpls_null.c`. -/
def xc_state : zebra :=
  (mpls_static_crossconnect_add null_driver (zebra_start demo_clients) 100 demo_ifp
    demo_xc_nexthop 300).2

/-- A driver whose third call fails and whose other calls succeed. -/
def third_call_fails : driver := fun log => if log.length = 3 then -1 else 0

/-! ## Scenario 1 and the calls expected of a route flap -/

/-- The run of scenario 1: the operator binds in-label 100 to 10.0.0.0/8, the
route comes up with next hop 192.0.2.1, and the operator adds the static LSP
to 192.0.2.1 with label 200. -/
def scenario1_run : List op :=
  [op.set_static_input_label demo_prefix 100,
   op.rib_update demo_prefix (demo_route demo_nexthop), op.route_install_hook demo_prefix,
   op.add_static_lsp demo_prefix demo_nexthop 200]

/-- The state after `scenario1_run`. -/
def scenario1_state : zebra :=
  run quagga_consts null_driver (zebra_start demo_clients) scenario1_run

/-- The event is a call of the forwarding-plane driver. -/
def event.is_driver_call : event → Bool
  | event.zsend_prefix_in_label _ _ _ => false
  | event.rib_queue_add _ => false
  | _ => true

/-- A call of one of the two cross-connect functions. -/
inductive xc_op where
  | add (in_label : Nat) (ifp : Option Nat) (nexthop out_label : Nat)
  | remove (in_label : Nat)
  deriving DecidableEq, Repr

/-- The state after one cross-connect call (the value returned is dropped). -/
def xc_step (drv : driver) (s : zebra) : xc_op → zebra
  | xc_op.add in_label ifp nexthop out_label =>
      (mpls_static_crossconnect_add drv s in_label ifp nexthop out_label).2
  | xc_op.remove in_label => (mpls_static_crossconnect_remove s in_label).2

/-- The states reachable from `mpls_init` by calls of
`mpls_static_crossconnect_add` and `mpls_static_crossconnect_remove`, each
call with a driver of its own, so that every combination of driver results
is covered. -/
inductive xc_reachable : zebra → Prop where
  | init (s0 : zebra) : xc_reachable (mpls_init s0)
  | step (drv : driver) (s : zebra) (o : xc_op) :
      xc_reachable s → xc_reachable (xc_step drv s o)

/-- The cross-connect table is well formed: one entry per incoming label,
entries at distinct addresses, all below the allocation counter. -/
def xc_wf (s : zebra) : Prop :=
  (s.mpls_crossconnect_list.map (fun mc => mc.in_label)).Nodup ∧
  (s.mpls_crossconnect_list.map (fun mc => mc.ptr)).Nodup ∧
  ∀ mc ∈ s.mpls_crossconnect_list, mc.ptr < s.alloc

/-- A driver whose ILM installs fail and whose other calls succeed. -/
def ilm_register_fails : driver := fun log =>
  match log.getLast? with
  | some (event.ilm_register _) => -1
  | _ => 0

/-- A run of cross-connect calls after `xc_state`: the entry for 100 is
replaced while the ILM install fails, then an entry for 200 is added. -/
def xc_run_state : zebra :=
  xc_step null_driver
    (xc_step ilm_register_fails xc_state (xc_op.add 100 demo_ifp demo_xc_nexthop 400))
    (xc_op.add 200 demo_ifp demo_xc_nexthop 500)

/-! ## `mpls_netlink.c` -/

/-- The constants of `<linux/mpls.h>`, `<linux/netlink.h>` and
`<sys/socket.h>` that `mpls_netlink.c` uses; the headers are not part of the
sources, so the values are parameters. -/
structure netlink_consts where
  MPLS_CMD_SETLABELSPACE : Nat
  MPLS_CMD_NEWILM : Nat
  MPLS_CMD_DELILM : Nat
  MPLS_CMD_NEWNHLFE : Nat
  MPLS_CMD_DELNHLFE : Nat
  MPLS_CMD_NEWXC : Nat
  MPLS_CMD_DELXC : Nat
  MPLS_ATTR_LABELSPACE : Nat
  MPLS_ATTR_ILM : Nat
  MPLS_ATTR_NHLFE : Nat
  MPLS_ATTR_INSTR : Nat
  MPLS_ATTR_XC : Nat
  MPLS_LABEL_GEN : Nat
  MPLS_LABEL_KEY : Nat
  MPLS_OP_PUSH : Nat
  MPLS_OP_SET : Nat
  MPLS_CHANGE_INSTR : Nat
  NLM_F_REQUEST : Nat
  NLM_F_CREATE : Nat
  AF_INET : Nat
  AF_MPLS : Nat

/-- A label as the kernel takes it (`struct mpls_label`): its type and the
member of the union `u` that was written (`ml_gen` or `ml_key`). -/
structure mpls_label where
  ml_type : Nat
  u : Nat
  deriving DecidableEq, Repr

/-- The address `struct sockaddr_in` holds, as far as it is written. -/
structure sockaddr_in where
  sin_family : Nat
  sin_addr : Nat
  deriving DecidableEq, Repr

/-- The member of the union `mir_data` an instruction carries. -/
inductive mpls_instr_data where
  | push (label : mpls_label)
  | set (mni_if : Nat) (mni_addr : sockaddr_in)
  deriving DecidableEq, Repr

/-- One element of `mir_instr` (`struct mpls_instr_elem`). -/
structure mpls_instr_elem where
  mir_opcode : Nat
  mir_data : mpls_instr_data
  deriving DecidableEq, Repr

/-- The structure an attribute of a request carries. -/
inductive nl_payload where
  | labelspace (mls_ifindex : Nat) (mls_labelspace : Int)
  | in_label (mil_proto : Nat) (mil_label : mpls_label)
  | out_label (mol_label : mpls_label) (mol_change_flag : Nat)
  | instr (mir_instr : List mpls_instr_elem) (mir_instr_length : Nat)
  | xconnect (mx_in mx_out : mpls_label)
  deriving DecidableEq, Repr

/-- An attribute added by `addattr_l`: its type and its data. -/
structure nl_attr where
  rta_type : Nat
  data : nl_payload
  deriving DecidableEq, Repr

/-- A generic-netlink request as the functions of `mpls_netlink.c` build it
(the message length is left out). -/
structure nl_request where
  nlmsg_flags : Nat
  nlmsg_type : Nat
  cmd : Nat
  attrs : List nl_attr
  deriving DecidableEq, Repr

/-- The two sockets of `mpls_netlink.c`. -/
inductive rtnl_handle where
  | rth_mpls_nhlfe
  | rth_mpls_cmd
  deriving DecidableEq, Repr

/-- What lies outside `mpls_netlink.c`: `rtnl_talk` (the value it returns for
the request sent last, given all requests sent so far, and the key the
kernel writes into the answer to an NHLFE request), `if_lookup_address`, and
the two things read through an interface pointer. -/
structure netlink_env where
  rtnl_talk : List (rtnl_handle × nl_request) → Int
  answer_key : List (rtnl_handle × nl_request) → Nat
  if_lookup_address : Nat → Option Nat
  ifindex : Nat → Nat
  if_is_pointopoint : Nat → Bool

/-- The function `mpls_kernel_set_interface_labelspace`, for the interface
at `ifp`: the value returned and the requests sent so far. -/
def mpls_kernel_set_interface_labelspace (M : netlink_consts) (E : netlink_env)
    (sent : List (rtnl_handle × nl_request)) (ifp : Nat) (labelspace : Int) :
    Int × List (rtnl_handle × nl_request) :=
  let ls := nl_payload.labelspace (E.ifindex ifp) (if labelspace < 0 then -1 else labelspace)
  let req : nl_request :=
    { nlmsg_flags := M.NLM_F_REQUEST, nlmsg_type := M.AF_MPLS,
      cmd := M.MPLS_CMD_SETLABELSPACE,
      attrs := [{ rta_type := M.MPLS_ATTR_LABELSPACE, data := ls }] }
  let sent := sent ++ [(rtnl_handle.rth_mpls_cmd, req)]
  (E.rtnl_talk sent, sent)

/-- The request `mpls_kernel_ilm` builds. -/
def ilm_request (M : netlink_consts) (cmd label : Nat) : nl_request :=
  let mil := nl_payload.in_label M.AF_INET { ml_type := M.MPLS_LABEL_GEN, u := label }
  { nlmsg_flags := M.NLM_F_CREATE ||| M.NLM_F_REQUEST, nlmsg_type := M.AF_MPLS, cmd := cmd,
    attrs := [{ rta_type := M.MPLS_ATTR_ILM, data := mil }] }

/-- The function `mpls_kernel_ilm`. -/
def mpls_kernel_ilm (M : netlink_consts) (E : netlink_env)
    (sent : List (rtnl_handle × nl_request)) (cmd label : Nat) :
    Int × List (rtnl_handle × nl_request) :=
  let sent := sent ++ [(rtnl_handle.rth_mpls_cmd, ilm_request M cmd label)]
  (E.rtnl_talk sent, sent)

/-- The function `mpls_kernel_ilm_register` of `mpls_netlink.c`. -/
def mpls_kernel_ilm_register (M : netlink_consts) (E : netlink_env)
    (sent : List (rtnl_handle × nl_request)) (label : Nat) :
    Int × List (rtnl_handle × nl_request) :=
  if label = MPLS_IMPLICIT_NULL then (0, sent)
  else mpls_kernel_ilm M E sent M.MPLS_CMD_NEWILM label

/-- The function `mpls_kernel_ilm_unregister` of `mpls_netlink.c`. -/
def mpls_kernel_ilm_unregister (M : netlink_consts) (E : netlink_env)
    (sent : List (rtnl_handle × nl_request)) (label : Nat) :
    Int × List (rtnl_handle × nl_request) :=
  if label = MPLS_IMPLICIT_NULL then (0, sent)
  else mpls_kernel_ilm M E sent M.MPLS_CMD_DELILM label

/-- The counter `c` of `mpls_kernel_nhlfe_register` when the SET instruction
is written: 1 after a PUSH, 0 without. -/
def nhlfe_push_count (lsp : route_lsp) : Nat :=
  if lsp.remote_label ≠ MPLS_IMPLICIT_NULL then 1 else 0

/-- The elements of `mir.mir_instr` that `mpls_kernel_nhlfe_register` writes,
in index order, for an LSP whose interface pointer is `ifp`: a PUSH at index
0 unless the label is Implicit Null, then a SET at index `c`, whose address
is written only for an interface that is not point-to-point (`mir` was
zeroed by `memset`). -/
def nhlfe_instr (M : netlink_consts) (E : netlink_env) (lsp : route_lsp) (ifp : Nat) :
    List mpls_instr_elem :=
  let mir : List mpls_instr_elem :=
    if lsp.remote_label ≠ MPLS_IMPLICIT_NULL then
      [{ mir_opcode := M.MPLS_OP_PUSH,
         mir_data := mpls_instr_data.push { ml_type := M.MPLS_LABEL_GEN, u := lsp.remote_label } }]
    else []
  let addr : sockaddr_in :=
    if ¬ E.if_is_pointopoint ifp then { sin_family := M.AF_INET, sin_addr := lsp.nexthop }
    else { sin_family := 0, sin_addr := 0 }
  mir ++ [{ mir_opcode := M.MPLS_OP_SET, mir_data := mpls_instr_data.set (E.ifindex ifp) addr }]

/-- The request `mpls_kernel_nhlfe_register` builds for an LSP whose
interface pointer is `ifp`. -/
def nhlfe_request (M : netlink_consts) (E : netlink_env) (lsp : route_lsp) (ifp : Nat) :
    nl_request :=
  let mol := nl_payload.out_label { ml_type := M.MPLS_LABEL_KEY, u := 0 } M.MPLS_CHANGE_INSTR
  let mir := nl_payload.instr (nhlfe_instr M E lsp ifp) (nhlfe_push_count lsp + 1)
  { nlmsg_flags := M.NLM_F_CREATE ||| M.NLM_F_REQUEST, nlmsg_type := M.AF_MPLS,
    cmd := M.MPLS_CMD_NEWNHLFE,
    attrs := [{ rta_type := M.MPLS_ATTR_NHLFE, data := mol },
              { rta_type := M.MPLS_ATTR_INSTR, data := mir }] }

/-- The function `mpls_kernel_nhlfe_register` of `mpls_netlink.c`: the value
returned, the LSP as the function leaves it (interface and `nhlfe_index`
written) and the requests sent so far; `none` when no interface is found for
the next hop, where the function reads through a null pointer. -/
def mpls_kernel_nhlfe_register (M : netlink_consts) (E : netlink_env)
    (sent : List (rtnl_handle × nl_request)) (lsp : route_lsp) :
    Option (Int × route_lsp × List (rtnl_handle × nl_request)) :=
  let lsp := if lsp.ifp = none then { lsp with ifp := E.if_lookup_address lsp.nexthop } else lsp
  match lsp.ifp with
  | none => none
  | some ifp =>
    let sent := sent ++ [(rtnl_handle.rth_mpls_nhlfe, nhlfe_request M E lsp ifp)]
    some (E.rtnl_talk sent, { lsp with nhlfe_index := E.answer_key sent }, sent)

/-- Sample values for the constants of the kernel headers, pairwise distinct
within each group, used for concrete runs. -/
def demo_netlink_consts : netlink_consts :=
  { MPLS_CMD_SETLABELSPACE := 1, MPLS_CMD_NEWILM := 2, MPLS_CMD_DELILM := 3,
    MPLS_CMD_NEWNHLFE := 4, MPLS_CMD_DELNHLFE := 5, MPLS_CMD_NEWXC := 6, MPLS_CMD_DELXC := 7,
    MPLS_ATTR_LABELSPACE := 1, MPLS_ATTR_ILM := 2, MPLS_ATTR_NHLFE := 3, MPLS_ATTR_INSTR := 4,
    MPLS_ATTR_XC := 5, MPLS_LABEL_GEN := 1, MPLS_LABEL_KEY := 2, MPLS_OP_PUSH := 1,
    MPLS_OP_SET := 2, MPLS_CHANGE_INSTR := 1, NLM_F_REQUEST := 1, NLM_F_CREATE := 1024,
    AF_INET := 2, AF_MPLS := 28 }

/-- A kernel that accepts every request and numbers its NHLFEs, with one
broadcast interface (pointer 1, index 11) that reaches 192.0.2.1 and one
point-to-point interface (pointer 2, index 12). -/
def demo_netlink_env : netlink_env :=
  { rtnl_talk := fun _ => 0, answer_key := fun sent => sent.length,
    if_lookup_address := fun a => if a = demo_nexthop then some 1 else none,
    ifindex := fun ifp => ifp + 10, if_is_pointopoint := fun ifp => ifp == 2 }

/-! ## Label text in `mpls_vty.c` -/

/-- The digits `sprintf` writes for `%u`, most significant first, in front of
`acc`; `fuel` bounds the number of digits. -/
def sprintf_u_digits : Nat → Nat → List Char → List Char
  | 0, _, acc => acc
  | fuel + 1, n, acc =>
    if n / 10 = 0 then Nat.digitChar (n % 10) :: acc
    else sprintf_u_digits fuel (n / 10) (Nat.digitChar (n % 10) :: acc)

/-- The text `sprintf (str, "%u", label)` leaves in `str` (C library): the
decimal numeral of `label`, without sign and without leading zeros. -/
def sprintf_u (label : Nat) : String := String.mk (sprintf_u_digits (label + 1) label [])

/-- The function `vty_label_str`; `brief` is its third argument. -/
def vty_label_str (label : Nat) (brief : Bool) : String :=
  if label = MPLS_IMPLICIT_NULL then
    if brief then "imp-null" else "implicit-null"
  else if label = MPLS_IPV4_EXPLICIT_NULL then
    if brief then "exp-null" else "explicit-null"
  else sprintf_u label

/-- The test `isspace` of the C library in the C locale. -/
def isspace (c : Char) : Bool :=
  c = ' ' || c = '\t' || c = '\n' || c = Char.ofNat 11 || c = Char.ofNat 12 || c = '\r'

/-- The digits `strtoul` consumes in base 10: the value of the longest run
of decimal digits at the head of the text, on top of `acc`. -/
def strtoul_digits : List Char → Nat → Nat
  | [], acc => acc
  | c :: cs, acc =>
    if c.isDigit then strtoul_digits cs (acc * 10 + (c.toNat - '0'.toNat)) else acc

/-- The value `strtoul (str, NULL, 10)` returns (C library), `ulong_max`
being `ULONG_MAX`: white space is skipped, a sign is accepted, the digits are
converted; a value out of range gives `ULONG_MAX` whatever the sign, and a
minus sign in front of a value in range negates in the unsigned type. -/
def strtoul (ulong_max : Nat) (str : List Char) : Nat :=
  let str := str.dropWhile isspace
  let v (digits : List Char) : Nat := min (strtoul_digits digits 0) ulong_max
  match str with
  | '-' :: digits =>
    if ulong_max < strtoul_digits digits 0 then ulong_max
    else (ulong_max + 1 - strtoul_digits digits 0) % (ulong_max + 1)
  | '+' :: digits => v digits
  | digits => v digits

/-- The function `vty_label_value`; the value of `strtoul` is converted to
`uint32_t` by the `return`. -/
def vty_label_value (ulong_max : Nat) (label_str : String) : Nat :=
  if label_str = "explicit-null" then 0
  else if label_str = "implicit-null" then 3
  else strtoul ulong_max label_str.toList % 4294967296

/-! ## The commands of `mpls_vty.c` -/

/-- The part of `struct zebra_if` (`zebra/interface.h`) that `mpls_vty.c`
reads. -/
structure zebra_if where
  mpls_enabled : Nat
  deriving DecidableEq, Repr

/-- The part of `struct interface` (`lib/if.h`) that `mpls_vty.c` reads, and
the address `ptr` of the object. -/
structure interface where
  ptr : Nat
  name : String
  ifindex : Nat
  info : zebra_if
  deriving DecidableEq, Repr

/-- The value `CMD_SUCCESS` of `lib/command.h`. -/
def CMD_SUCCESS : Int := 0

/-- The value `CMD_WARNING` of `lib/command.h`. -/
def CMD_WARNING : Int := 1

/-- The loop of `mpls_ip` and `no_mpls_ip` over `iflist`: the label space is
set on every interface whose `zebra_if` has `mpls_enabled`; the value the
driver returns is not read. -/
def set_labelspace_loop (labelspace : Int) : List interface → zebra → zebra
  | [], s => s
  | ifp :: rest, s =>
    if ifp.info.mpls_enabled = 0 then set_labelspace_loop labelspace rest s
    else set_labelspace_loop labelspace rest
      (zemit s (event.set_interface_labelspace ifp.ptr labelspace))

/-- The command `mpls ip`; `iflist` is the global interface list. -/
def mpls_ip (iflist : List interface) (s : zebra) : Int × zebra :=
  if s.mpls_enabled ≠ 0 then (CMD_SUCCESS, s)
  else
    let s := set_labelspace_loop 0 iflist s
    (CMD_SUCCESS, { s with mpls_enabled := 1 })

/-- The command `no mpls ip`. -/
def no_mpls_ip (iflist : List interface) (s : zebra) : Int × zebra :=
  if s.mpls_enabled = 0 then (CMD_SUCCESS, s)
  else
    let s := set_labelspace_loop (-1) iflist s
    (CMD_SUCCESS, { s with mpls_enabled := 0 })

/-- One `set_interface_labelspace` call for each interface of `iflist` that
has MPLS configured, in list order. -/
def labelspace_calls (iflist : List interface) (labelspace : Int) : List event :=
  (iflist.filter (fun i => i.info.mpls_enabled != 0)).map
    (fun i => event.set_interface_labelspace i.ptr labelspace)

/-- Three interfaces, the first and the third with MPLS configured. -/
def demo_iflist : List interface :=
  [{ ptr := 1, name := "if0", ifindex := 11, info := { mpls_enabled := 1 } },
   { ptr := 2, name := "if1", ifindex := 12, info := { mpls_enabled := 0 } },
   { ptr := 3, name := "if2", ifindex := 13, info := { mpls_enabled := 1 } }]

/-- What lies outside `mpls_vty.c` on the way between text and addresses:
`prefix2str`, `str2prefix`, `inet_ntoa`, `inet_aton`, `ip_masklen` and
`apply_mask` of the library (`str2prefix` and `inet_aton` give `none` where
the C functions report a malformed text). -/
structure vty_env where
  prefix2str : Prefix → String
  str2prefix : String → Option Prefix
  inet_ntoa : Nat → String
  inet_aton : String → Option Nat
  ip_masklen : Nat → Nat
  apply_mask : Prefix → Prefix

/-- The interface object an interface pointer refers to, among the objects
of `iflist`. -/
def if_deref (iflist : List interface) (ifp : Nat) : Option interface :=
  iflist.find? (fun i => i.ptr == ifp)

/-- Modelled from the spec: `if_lookup_by_name` is defined in `lib/if.c`,
outside `zebra/mpls_*`; the spec has an unknown interface reported as an
input error.  The call gives the first interface of `iflist` with the name,
or the null pointer. -/
def if_lookup_by_name (iflist : List interface) (name : String) : Option interface :=
  iflist.find? (fun i => i.name == name)

/-- The line `vty_out (vty, "mpls static binding ipv4 %s %u%s", ...)` writes.
A line is kept as the sequence of its words: the words of the format string
and one word for each `%s` and `%u`. -/
def config_input_line (V : vty_env) (p : Prefix) (label : Nat) : List String :=
  ["mpls", "static", "binding", "ipv4", V.prefix2str p, sprintf_u label]

/-- The line `vty_out (vty, "mpls static binding ipv4 %s output %s %s%s",
...)` writes. -/
def config_output_line (V : vty_env) (p : Prefix) (lsp : route_lsp) : List String :=
  ["mpls", "static", "binding", "ipv4", V.prefix2str p, "output", V.inet_ntoa lsp.nexthop,
   vty_label_str lsp.remote_label false]

/-- The line `vty_out (vty, "mpls static crossconnect %u %s %s %s%s", ...)`
writes for an entry whose interface has the name `name`. -/
def config_crossconnect_line (V : vty_env) (name : String) (mc : mpls_crossconnect) :
    List String :=
  ["mpls", "static", "crossconnect", sprintf_u mc.in_label, name, V.inet_ntoa mc.lsp.nexthop,
   vty_label_str mc.lsp.remote_label false]

/-- The loop of `mpls_config_write` over the static LSPs of `p`, after the
lines `out` written so far. -/
def config_write_lsps (V : vty_env) (p : Prefix) :
    List route_lsp → List (List String) → List (List String)
  | [], out => out
  | lsp :: rest, out => config_write_lsps V p rest (out ++ [config_output_line V p lsp])

/-- The loop of `mpls_config_write` over the route table; `nodes` are the
prefixes of the nodes that remain to be visited, in the order of `route_top`
and `route_next`. -/
def config_write_bindings (V : vty_env) (s : zebra) :
    List Prefix → List (List String) → List (List String)
  | [], out => out
  | p :: rest, out =>
    match (s.table p).mpls with
    | none => config_write_bindings V s rest out
    | some lb =>
      if lb.static_in_label = NO_LABEL ∧ lb.static_lsps.isEmpty then
        config_write_bindings V s rest out
      else
        let out := if lb.static_in_label ≠ NO_LABEL then
            out ++ [config_input_line V p lb.static_in_label]
          else out
        if lb.static_lsps.isEmpty then config_write_bindings V s rest out
        else config_write_bindings V s rest (config_write_lsps V p lb.static_lsps out)

/-- The loop of `mpls_config_write` over `mpls_crossconnect_list`; `none`
when an entry's LSP has no interface object, where the function reads
through a null pointer. -/
def config_write_crossconnects (V : vty_env) (iflist : List interface) :
    List mpls_crossconnect → List (List String) → Option (List (List String))
  | [], out => some out
  | mc :: rest, out =>
    match mc.lsp.ifp.bind (if_deref iflist) with
    | none => none
    | some ifp =>
      config_write_crossconnects V iflist rest (out ++ [config_crossconnect_line V ifp.name mc])

/-- The function `mpls_config_write`: the value returned and the lines
written to the terminal.  `nodes` are the prefixes of the nodes of the route
table in the order of `route_top` and `route_next`. -/
def mpls_config_write (V : vty_env) (iflist : List interface) (nodes : List Prefix)
    (s : zebra) : Option (Int × List (List String)) :=
  let out := if s.mpls_enabled ≠ 0 then [["mpls", "ip"], ["!"]] else []
  let out := config_write_bindings V s nodes out
  match config_write_crossconnects V iflist s.mpls_crossconnect_list out with
  | none => none
  | some out => some (0, out ++ [["!"]])

/-- The lines of the configuration that belong to the node of `p`: the line
of its static in-label, if it has one, then one line for each static LSP, in
list order. -/
def config_block (V : vty_env) (s : zebra) (p : Prefix) : List (List String) :=
  match (s.table p).mpls with
  | none => []
  | some lb =>
    (if lb.static_in_label ≠ NO_LABEL then [config_input_line V p lb.static_in_label] else [])
      ++ lb.static_lsps.map (config_output_line V p)

/-- The name of the interface object behind an LSP's interface pointer (the
empty text when there is none). -/
def ifp_name (iflist : List interface) (ifp : Option Nat) : String :=
  match ifp.bind (if_deref iflist) with
  | some i => i.name
  | none => ""

/-- The text of an IPv4 address in dotted-decimal form. -/
def demo_inet_ntoa (a : Nat) : String :=
  sprintf_u (a / 16777216 % 256) ++ "." ++ sprintf_u (a / 65536 % 256) ++ "."
    ++ sprintf_u (a / 256 % 256) ++ "." ++ sprintf_u (a % 256)

/-- The pieces of a text between the occurrences of `sep`; `cur` is the piece
being read, last character first. -/
def split_on (sep : Char) : List Char → List Char → List (List Char)
  | [], cur => [cur.reverse]
  | c :: cs, cur => if c = sep then cur.reverse :: split_on sep cs [] else split_on sep cs (c :: cur)

/-- The number a text of decimal digits denotes, if it is one. -/
def demo_number (str : List Char) : Option Nat :=
  if str ≠ [] ∧ str.all Char.isDigit then some (strtoul_digits str 0) else none

/-- The address a dotted-decimal text denotes, if it is one. -/
def demo_inet_aton (str : String) : Option Nat :=
  match (split_on '.' str.toList []).map demo_number with
  | [some a, some b, some c, some d] =>
    if a < 256 ∧ b < 256 ∧ c < 256 ∧ d < 256 then some (a * 16777216 + b * 65536 + c * 256 + d)
    else none
  | _ => none

/-- The address with the host bits of a prefix of length `len` cleared. -/
def demo_mask (addr len : Nat) : Nat := addr / 2 ^ (32 - len) * 2 ^ (32 - len)

/-- A sample of the library functions between text and addresses, for IPv4:
`A.B.C.D/M` for a prefix and `A.B.C.D` for an address. -/
def demo_vty_env : vty_env :=
  { prefix2str := fun p => demo_inet_ntoa p.addr ++ "/" ++ sprintf_u p.prefixlen,
    str2prefix := fun str =>
      match (split_on '/' str.toList []) with
      | [a, m] =>
        match demo_inet_aton (String.mk a), demo_number m with
        | some addr, some len =>
          if len ≤ 32 then some { family := 2, prefixlen := len, addr := addr } else none
        | _, _ => none
      | _ => none,
    inet_ntoa := demo_inet_ntoa,
    inet_aton := demo_inet_aton,
    ip_masklen := fun m => (List.range 32).countP (fun i => m.testBit i),
    apply_mask := fun p => { p with addr := demo_mask p.addr p.prefixlen } }

/-- A state with `mpls ip` given, the bindings of `bound_state`, and a
cross-connect from label 500 to 192.0.2.2 over `if0` with label
implicit-null. -/
def config_state : zebra :=
  xc_step null_driver (mpls_ip demo_iflist bound_state).2
    (xc_op.add 500 demo_ifp demo_xc_nexthop 3)

/-! ## The ILM table of a recording driver -/

/-- The effect of one call on the entry for label `L` in the ILM table of a
driver that records installs and removals and, like the functions of
`mpls_netlink.c`, does nothing for Implicit Null. -/
def ilm_step (L : Nat) (b : Bool) : event → Bool
  | event.ilm_register x => if x = L ∧ x ≠ MPLS_IMPLICIT_NULL then true else b
  | event.ilm_unregister x => if x = L ∧ x ≠ MPLS_IMPLICIT_NULL then false else b
  | _ => b

/-- The event is an ILM install or an ILM remove. -/
def event.is_ilm : event → Bool
  | event.ilm_register _ => true
  | event.ilm_unregister _ => true
  | _ => false

/-- The entry for `L` after the calls `es`, `b` telling whether it was there
before. -/
def ilm_run (L : Nat) (es : List event) (b : Bool) : Bool := es.foldl (ilm_step L) b

/-- Label `L` has an ILM entry in the recording driver after the calls of
`log`. -/
def ilm_installed (log : List event) (L : Nat) : Bool := ilm_run L log false

/-- A value that stands for a label the driver programs: neither `NO_LABEL`
nor Implicit Null. -/
def real_label (L : Nat) : Prop := L ≠ NO_LABEL ∧ L ≠ MPLS_IMPLICIT_NULL

/-- The record holds `L` as its static, dynamic or selected in-label. -/
def label_held (lb : label_bindings) (L : Nat) : Prop :=
  lb.static_in_label = L ∨ lb.ldp_in_label = L ∨ lb.selected_in_label = L

/-- The node has an active route and `L` is its selected in-label. -/
def node_on (K : zebra_consts) (info : List rib) (lb : label_bindings) (L : Nat) : Prop :=
  zebra_route_node_active K info = true ∧ lb.selected_in_label = L

/-- The set the ILM table is claimed to equal: the selected in-labels, other
than `NO_LABEL` and Implicit Null, of the prefixes with an active route,
and the incoming labels of the cross-connects. -/
def ilm_claimed (K : zebra_consts) (s : zebra) (L : Nat) : Prop :=
  (real_label L ∧ ∃ p, node_on K (s.table p).info (bindings s p) L) ∨
  (∃ mc ∈ s.mpls_crossconnect_list, mc.in_label = L)

/-- The set of `ilm_claimed` without Implicit Null as the incoming label of
a cross-connect. -/
def ilm_programmed (K : zebra_consts) (s : zebra) (L : Nat) : Prop :=
  (real_label L ∧ ∃ p, node_on K (s.table p).info (bindings s p) L) ∨
  (L ≠ MPLS_IMPLICIT_NULL ∧ ∃ mc ∈ s.mpls_crossconnect_list, mc.in_label = L)

/-- No label the driver programs is held by two prefixes, or by a prefix and
a cross-connect. -/
def labels_apart (s : zebra) : Prop :=
  (∀ p q L, p ≠ q → real_label L → label_held (bindings s p) L →
    ¬ label_held (bindings s q) L) ∧
  (∀ p L, real_label L → label_held (bindings s p) L →
    ∀ mc ∈ s.mpls_crossconnect_list, mc.in_label ≠ L)

/-- The label is free for the prefix `p`: if it is a label the driver
programs, no other prefix and no cross-connect holds it. -/
def label_free (s : zebra) (p : Prefix) (L : Nat) : Prop :=
  real_label L →
    (∀ q, q ≠ p → ¬ label_held (bindings s q) L) ∧
    (∀ mc ∈ s.mpls_crossconnect_list, mc.in_label ≠ L)

/-- The condition on a mutator call under which in-labels stay apart:
`mpls_prefix_set_static_input_label` is given a label, not `NO_LABEL`, and a
label given to a prefix is free for it. -/
def op.label_guard (s : zebra) : op → Prop
  | op.set_static_input_label p label => label ≠ NO_LABEL ∧ label_free s p label
  | op.set_ldp_input_label p label => label_free s p label
  | _ => True

/-- The condition on a cross-connect call under which in-labels stay apart:
no prefix holds the incoming label of an added cross-connect. -/
def xc_op.label_guard (s : zebra) : xc_op → Prop
  | xc_op.add in_label _ _ _ => real_label in_label → ∀ q, ¬ label_held (bindings s q) in_label
  | xc_op.remove _ => True

/-- The states reached from start-up by mutator calls and cross-connect calls
that keep in-labels apart, with the RIB calling the install hook right after
it gave an active route to a node, and the uninstall hook right before or
right after it took the active route of a node away. -/
inductive disciplined (K : zebra_consts) (drv : driver) : zebra → Prop where
  | start (cl : List zserv) : disciplined K drv (zebra_start cl)
  | mutator (s : zebra) (o : op) :
      disciplined K drv s → o.is_mutator = true → o.label_guard s →
      disciplined K drv (step K drv s o)
  | crossconnect (s : zebra) (o : xc_op) :
      disciplined K drv s → o.label_guard s → disciplined K drv (xc_step drv s o)
  | route_install (s : zebra) (p : Prefix) (info : List rib) :
      disciplined K drv s → zebra_route_node_active K info = true →
      disciplined K drv
        (step K drv (step K drv s (op.rib_update p info)) (op.route_install_hook p))
  | route_uninstall (s : zebra) (p : Prefix) (info : List rib) :
      disciplined K drv s → zebra_route_node_active K info = false →
      disciplined K drv
        (step K drv (step K drv s (op.route_uninstall_hook p)) (op.rib_update p info))
  | route_withdrawn (s : zebra) (p : Prefix) (info : List rib) :
      disciplined K drv s → zebra_route_node_active K info = false →
      disciplined K drv
        (step K drv (step K drv s (op.rib_update p info)) (op.route_uninstall_hook p))

/-- What is kept along disciplined runs: in-labels are apart, the
cross-connect table is well formed, a set static in-label is the selected
one, and the ILM table of the recording driver holds the labels of
`ilm_programmed`. -/
def ilm_inv (K : zebra_consts) (s : zebra) : Prop :=
  labels_apart s ∧ xc_wf s ∧ (∀ p, in_static_ok (bindings s p)) ∧
  ∀ L, ilm_installed s.log L = true ↔ ilm_programmed K s L

/-- The effect of an engine function on the ILM table, seen from its node:
for a label the node holds before or after, the entry is there afterwards
exactly if the node is on for it, provided this was so before; no other
entry changes. -/
def ilm_effect (K : zebra_consts) (info : List rib) (lb : label_bindings) (log : List event)
    (info' : List rib) (lb' : label_bindings) (log' : List event) : Prop :=
  (∀ L, real_label L → label_held lb L ∨ label_held lb' L →
    (ilm_installed log L = true ↔ node_on K info lb L) →
    (ilm_installed log' L = true ↔ node_on K info' lb' L)) ∧
  (∀ L, ¬ (real_label L ∧ (label_held lb L ∨ label_held lb' L)) →
    ilm_installed log' L = ilm_installed log L)

/-! ## Runs for the ILM invariant -/

/-- The prefix 11.0.0.0/8. -/
def demo_prefix2 : Prefix := { family := 2, prefixlen := 8, addr := 184549376 }

/-- A run in which two routes come up, the operator binds in-label 100 to
both prefixes and then removes the static in-label of the first. -/
def shared_label_run : List op :=
  [op.rib_update demo_prefix (demo_route demo_nexthop), op.route_install_hook demo_prefix,
   op.rib_update demo_prefix2 (demo_route demo_nexthop), op.route_install_hook demo_prefix2,
   op.set_static_input_label demo_prefix 100, op.set_static_input_label demo_prefix2 100,
   op.remove_static_input_label demo_prefix 100]

/-- The state after `shared_label_run`. -/
def shared_label_state : zebra :=
  run quagga_consts null_driver (zebra_start demo_clients) shared_label_run

/-- The state after a cross-connect with incoming label Implicit Null was
added at start-up. -/
def null_xc_state : zebra :=
  xc_step null_driver (zebra_start demo_clients)
    (xc_op.add MPLS_IMPLICIT_NULL demo_ifp demo_xc_nexthop 300)

/-- A run in which the route comes up, the operator binds in-label 100 and
the static in-label is then set to the sentinel `NO_LABEL`. -/
def no_label_run : List op :=
  [op.rib_update demo_prefix (demo_route demo_nexthop), op.route_install_hook demo_prefix,
   op.set_static_input_label demo_prefix 100, op.set_static_input_label demo_prefix NO_LABEL]

/-- The state after `no_label_run`. -/
def no_label_state : zebra :=
  run quagga_consts null_driver (zebra_start demo_clients) no_label_run

/-- The state after the cross-connect (200, if0, 192.0.2.2, 300) was added at
start-up. -/
def ilm_demo_state0 : zebra :=
  xc_step null_driver (zebra_start demo_clients) (xc_op.add 200 demo_ifp demo_xc_nexthop 300)

/-- The state after, from `ilm_demo_state0`, the operator bound in-label 100
to 10.0.0.0/8 and the route came up. -/
def ilm_demo_state : zebra :=
  step quagga_consts null_driver
    (step quagga_consts null_driver
      (step quagga_consts null_driver ilm_demo_state0
        (op.set_static_input_label demo_prefix 100))
      (op.rib_update demo_prefix (demo_route demo_nexthop)))
    (op.route_install_hook demo_prefix)

/-! ## The configuration commands of `mpls_vty.c` -/

/-- What the configuration commands run in: the library between text and
addresses, the global interface list, the constants of the engine, the
driver, `ULONG_MAX`, and the two tests the command reader of `lib/command.c`
has for the words `A.B.C.D` and `A.B.C.D/M`. -/
structure command_env where
  V : vty_env
  iflist : List interface
  K : zebra_consts
  drv : driver
  ulong_max : Nat
  cmd_ipv4_match : String → Bool
  cmd_ipv4_prefix_match : String → Bool

/-- The function `vty_get_prefix`: the prefix left in `p`, or `none` where it
returns -1.  `mask_str` is `none` for the null pointer. -/
def vty_get_prefix (V : vty_env) (prefix_str : String) (mask_str : Option String) :
    Option Prefix :=
  match V.str2prefix prefix_str with
  | none => none
  | some p =>
    match mask_str with
    | none => some (V.apply_mask p)
    | some m =>
      match V.inet_aton m with
      | none => none
      | some mask => some (V.apply_mask { p with prefixlen := V.ip_masklen mask })

/-- The function `vty_mpls_static_binding_input`: the value returned and the
state left; `none` where `vty_label_value` would read through the null
pointer `label_str`. -/
def vty_mpls_static_binding_input (E : command_env) (s : zebra) (add_cmd : Bool)
    (prefix_str : String) (mask_str label_str : Option String) : Option (Int × zebra) :=
  match vty_get_prefix E.V prefix_str mask_str with
  | none => some (CMD_WARNING, s)
  | some p =>
    if add_cmd then
      match label_str with
      | none => none
      | some l =>
        some (CMD_SUCCESS,
          mpls_prefix_set_static_input_label E.K s p (vty_label_value E.ulong_max l))
    else
      match label_str with
      | some l =>
        some (CMD_SUCCESS,
          mpls_prefix_remove_static_input_label E.K s p (vty_label_value E.ulong_max l))
      | none => some (CMD_SUCCESS, mpls_prefix_remove_static_input_label E.K s p NO_LABEL)

/-- The function `vty_mpls_static_binding_output`; `none` where
`vty_label_value` would read through the null pointer `label_str`. -/
def vty_mpls_static_binding_output (E : command_env) (s : zebra) (add_cmd : Bool)
    (prefix_str : String) (mask_str : Option String) (nexthop_str : String)
    (label_str : Option String) : Option (Int × zebra) :=
  match vty_get_prefix E.V prefix_str mask_str with
  | none => some (CMD_WARNING, s)
  | some p =>
    match E.V.inet_aton nexthop_str with
    | none => some (CMD_WARNING, s)
    | some nexthop =>
      if add_cmd then
        match label_str with
        | none => none
        | some l =>
          some (CMD_SUCCESS,
            mpls_prefix_add_static_lsp E.K E.drv s p nexthop (vty_label_value E.ulong_max l))
      else some (CMD_SUCCESS, mpls_prefix_remove_static_lsp E.K E.drv s p nexthop)

/-- The loop of `vty_mpls_static_binding_output_remove_all` over the nodes the
list of static LSPs had when the loop was entered (`ALL_LIST_ELEMENTS` reads
the next node before the body runs). -/
def remove_all_loop (E : command_env) (p : Prefix) : List route_lsp → zebra → zebra
  | [], s => s
  | lsp :: rest, s =>
    remove_all_loop E p rest (mpls_prefix_remove_static_lsp E.K E.drv s p lsp.nexthop)

/-- The function `vty_mpls_static_binding_output_remove_all`. -/
def vty_mpls_static_binding_output_remove_all (E : command_env) (s : zebra)
    (prefix_str : String) (mask_str : Option String) : Int × zebra :=
  match vty_get_prefix E.V prefix_str mask_str with
  | none => (CMD_WARNING, s)
  | some p =>
    let s := route_node_get_mpls s p
    (CMD_SUCCESS, remove_all_loop E p (bindings s p).static_lsps s)

/-- The function `vty_mpls_static_crossconnect_add`. -/
def vty_mpls_static_crossconnect_add (E : command_env) (s : zebra)
    (in_label_str ifname nexthop_str out_label_str : String) : Int × zebra :=
  match if_lookup_by_name E.iflist ifname with
  | none => (CMD_WARNING, s)
  | some ifp =>
    match E.V.inet_aton nexthop_str with
    | none => (CMD_WARNING, s)
    | some nexthop =>
      (CMD_SUCCESS,
        (mpls_static_crossconnect_add E.drv s (vty_label_value E.ulong_max in_label_str)
          (some ifp.ptr) nexthop (vty_label_value E.ulong_max out_label_str)).2)

/-- The body shared by `no_mpls_static_binding` and
`no_mpls_static_binding_mask`: the static in-label is removed, then all
static LSPs. -/
def no_binding_body (E : command_env) (s : zebra) (prefix_str : String)
    (mask_str : Option String) : Option (Int × zebra) :=
  match vty_mpls_static_binding_input E s false prefix_str mask_str none with
  | none => none
  | some (ret1, s) =>
    let r2 := vty_mpls_static_binding_output_remove_all E s prefix_str mask_str
    if ret1 = CMD_SUCCESS ∧ r2.1 = CMD_SUCCESS then some (CMD_SUCCESS, r2.2)
    else some (CMD_WARNING, r2.2)

/-- The functions `DEFUN` defines for the configuration commands (an `ALIAS`
shares the function of its `DEFUN`). -/
inductive defun where
  | mpls_ip
  | no_mpls_ip
  | mpls_static_binding_input
  | no_mpls_static_binding_input_label
  | no_mpls_static_binding_input
  | mpls_static_binding_mask_input
  | no_mpls_static_binding_mask_input_label
  | no_mpls_static_binding_mask_input
  | mpls_static_binding_output
  | no_mpls_static_binding_output
  | no_mpls_static_binding_output2
  | no_mpls_static_binding_output3
  | no_mpls_static_binding
  | mpls_static_binding_mask_output
  | no_mpls_static_binding_mask_output
  | no_mpls_static_binding_mask_output2
  | no_mpls_static_binding_mask_output3
  | no_mpls_static_binding_mask
  | mpls_static_crossconnect
  | no_mpls_static_crossconnect
  deriving DecidableEq, Repr

/-- The body of each `DEFUN` on its `argv`; `none` where the body reads an
element `argv` does not have. -/
def defun.run (E : command_env) (s : zebra) : defun → List String → Option (Int × zebra)
  | defun.mpls_ip, _ => some (Mpls.mpls_ip E.iflist s)
  | defun.no_mpls_ip, _ => some (Mpls.no_mpls_ip E.iflist s)
  | defun.mpls_static_binding_input, a0 :: a1 :: _ =>
    vty_mpls_static_binding_input E s true a0 none (some a1)
  | defun.no_mpls_static_binding_input_label, a0 :: a1 :: _ =>
    vty_mpls_static_binding_input E s false a0 none (some a1)
  | defun.no_mpls_static_binding_input, a0 :: _ =>
    vty_mpls_static_binding_input E s false a0 none none
  | defun.mpls_static_binding_mask_input, a0 :: a1 :: a2 :: _ =>
    vty_mpls_static_binding_input E s true a0 (some a1) (some a2)
  | defun.no_mpls_static_binding_mask_input_label, a0 :: a1 :: a2 :: _ =>
    vty_mpls_static_binding_input E s false a0 (some a1) (some a2)
  | defun.no_mpls_static_binding_mask_input, a0 :: a1 :: _ =>
    vty_mpls_static_binding_input E s false a0 (some a1) none
  | defun.mpls_static_binding_output, a0 :: a1 :: a2 :: _ =>
    vty_mpls_static_binding_output E s true a0 none a1 (some a2)
  | defun.no_mpls_static_binding_output, a0 :: a1 :: _ =>
    vty_mpls_static_binding_output E s false a0 none a1 none
  | defun.no_mpls_static_binding_output2, a0 :: a1 :: _ =>
    vty_mpls_static_binding_output E s false a0 none a1 none
  | defun.no_mpls_static_binding_output3, a0 :: _ =>
    some (vty_mpls_static_binding_output_remove_all E s a0 none)
  | defun.no_mpls_static_binding, a0 :: _ => no_binding_body E s a0 none
  | defun.mpls_static_binding_mask_output, a0 :: a1 :: a2 :: a3 :: _ =>
    vty_mpls_static_binding_output E s true a0 (some a1) a2 (some a3)
  | defun.no_mpls_static_binding_mask_output, a0 :: a1 :: a2 :: _ =>
    vty_mpls_static_binding_output E s false a0 (some a1) a2 none
  | defun.no_mpls_static_binding_mask_output2, a0 :: a1 :: a2 :: _ =>
    vty_mpls_static_binding_output E s false a0 (some a1) a2 none
  | defun.no_mpls_static_binding_mask_output3, a0 :: a1 :: _ =>
    some (vty_mpls_static_binding_output_remove_all E s a0 (some a1))
  | defun.no_mpls_static_binding_mask, a0 :: a1 :: _ => no_binding_body E s a0 (some a1)
  | defun.mpls_static_crossconnect, a0 :: a1 :: a2 :: a3 :: _ =>
    some (vty_mpls_static_crossconnect_add E s a0 a1 a2 a3)
  | defun.no_mpls_static_crossconnect, a0 :: _ =>
    some (CMD_SUCCESS,
      (mpls_static_crossconnect_remove s (vty_label_value E.ulong_max a0)).2)
  | _, _ => none
/-- The words a command string of `mpls_vty.c` is made of: a keyword,
`A.B.C.D`, `A.B.C.D/M`, a range `<lo-hi>`, the choice
`(<lo-hi>|explicit-null|implicit-null)`, and `IFNAME`. -/
inductive cmd_token where
  | keyword (word : String)
  | ipv4
  | ipv4_net
  | range (lo hi : Nat)
  | range_or_null (lo hi : Nat)
  | ifname
  deriving DecidableEq, Repr

/-- What `strtoul` takes for the digits of a word: the text after white space
and one sign. -/
def range_digits (word : String) : List Char :=
  match word.toList.dropWhile isspace with
  | '-' :: d => d
  | '+' :: d => d
  | d => d

/-- Modelled from the spec: the test `cmd_range_match` is defined in
`lib/command.c`, outside `zebra/mpls_*`; the spec has user-entered decimals
constrained to 16…1,048,575.  The word is a decimal numeral for `strtoul`
with nothing after its digits, and its value lies between `lo` and `hi`. -/
def cmd_range_match (ulong_max lo hi : Nat) (word : String) : Bool :=
  (range_digits word).all Char.isDigit && decide (lo ≤ strtoul ulong_max word.toList)
    && decide (strtoul ulong_max word.toList ≤ hi)

/-- Modelled from the spec: the command reader is defined in `lib/command.c`,
outside `zebra/mpls_*`.  A word of the line matches a keyword when it is the
keyword, written in full; it matches `A.B.C.D` and `A.B.C.D/M` by the tests of
the reader, a range by `cmd_range_match`, and `IFNAME` always. -/
def token_match (E : command_env) : cmd_token → String → Bool
  | cmd_token.keyword k, w => w == k
  | cmd_token.ipv4, w => E.cmd_ipv4_match w
  | cmd_token.ipv4_net, w => E.cmd_ipv4_prefix_match w
  | cmd_token.range lo hi, w => cmd_range_match E.ulong_max lo hi w
  | cmd_token.range_or_null lo hi, w =>
    cmd_range_match E.ulong_max lo hi w || w == "explicit-null" || w == "implicit-null"
  | cmd_token.ifname, _ => true

/-- A line matches a command string when it has as many words and each word
matches. -/
def tokens_match (E : command_env) : List cmd_token → List String → Bool
  | [], [] => true
  | t :: ts, w :: ws => token_match E t w && tokens_match E ts ws
  | _, _ => false

/-- The `argv` of a matched line: the words at the places other than
keywords, in order. -/
def cmd_args : List cmd_token → List String → List String
  | cmd_token.keyword _ :: ts, _ :: ws => cmd_args ts ws
  | _ :: ts, w :: ws => w :: cmd_args ts ws
  | _, _ => []

/-- The words `mpls static binding ipv4`. -/
def binding_head : List cmd_token :=
  [cmd_token.keyword "mpls", cmd_token.keyword "static", cmd_token.keyword "binding",
   cmd_token.keyword "ipv4"]

/-- The words `mpls static crossconnect`. -/
def crossconnect_head : List cmd_token :=
  [cmd_token.keyword "mpls", cmd_token.keyword "static", cmd_token.keyword "crossconnect"]

/-- The label choice `(<16-1048575>|explicit-null|implicit-null)`. -/
def out_label_token : cmd_token := cmd_token.range_or_null 16 1048575

/-- The in-label range `<16-1048575>`. -/
def in_label_token : cmd_token := cmd_token.range 16 1048575

/-- The command strings `mpls_vty_init` installs in `CONFIG_NODE`, in its
order, each with the function of its `DEFUN`. -/
def mpls_vty_commands : List (List cmd_token × defun) :=
  [([cmd_token.keyword "mpls", cmd_token.keyword "ip"], defun.mpls_ip),
   ([cmd_token.keyword "no", cmd_token.keyword "mpls", cmd_token.keyword "ip"],
     defun.no_mpls_ip),
   (binding_head ++ [cmd_token.ipv4_net, cmd_token.keyword "input", in_label_token],
     defun.mpls_static_binding_input),
   (binding_head ++ [cmd_token.ipv4_net, in_label_token], defun.mpls_static_binding_input),
   (cmd_token.keyword "no" :: binding_head
      ++ [cmd_token.ipv4_net, cmd_token.keyword "input", in_label_token],
     defun.no_mpls_static_binding_input_label),
   (cmd_token.keyword "no" :: binding_head ++ [cmd_token.ipv4_net, in_label_token],
     defun.no_mpls_static_binding_input_label),
   (cmd_token.keyword "no" :: binding_head ++ [cmd_token.ipv4_net, cmd_token.keyword "input"],
     defun.no_mpls_static_binding_input),
   (binding_head ++ [cmd_token.ipv4, cmd_token.ipv4, cmd_token.keyword "input", in_label_token],
     defun.mpls_static_binding_mask_input),
   (binding_head ++ [cmd_token.ipv4, cmd_token.ipv4, in_label_token],
     defun.mpls_static_binding_mask_input),
   (cmd_token.keyword "no" :: binding_head
      ++ [cmd_token.ipv4, cmd_token.ipv4, cmd_token.keyword "input", in_label_token],
     defun.no_mpls_static_binding_mask_input_label),
   (cmd_token.keyword "no" :: binding_head ++ [cmd_token.ipv4, cmd_token.ipv4, in_label_token],
     defun.no_mpls_static_binding_mask_input_label),
   (cmd_token.keyword "no" :: binding_head
      ++ [cmd_token.ipv4, cmd_token.ipv4, cmd_token.keyword "input"],
     defun.no_mpls_static_binding_mask_input),
   (binding_head
      ++ [cmd_token.ipv4_net, cmd_token.keyword "output", cmd_token.ipv4, out_label_token],
     defun.mpls_static_binding_output),
   (cmd_token.keyword "no" :: binding_head
      ++ [cmd_token.ipv4_net, cmd_token.keyword "output", cmd_token.ipv4, out_label_token],
     defun.no_mpls_static_binding_output),
   (cmd_token.keyword "no" :: binding_head
      ++ [cmd_token.ipv4_net, cmd_token.keyword "output", cmd_token.ipv4],
     defun.no_mpls_static_binding_output2),
   (cmd_token.keyword "no" :: binding_head ++ [cmd_token.ipv4_net, cmd_token.keyword "output"],
     defun.no_mpls_static_binding_output3),
   (cmd_token.keyword "no" :: binding_head ++ [cmd_token.ipv4_net],
     defun.no_mpls_static_binding),
   (binding_head
      ++ [cmd_token.ipv4, cmd_token.ipv4, cmd_token.keyword "output", cmd_token.ipv4,
          out_label_token],
     defun.mpls_static_binding_mask_output),
   (cmd_token.keyword "no" :: binding_head
      ++ [cmd_token.ipv4, cmd_token.ipv4, cmd_token.keyword "output", cmd_token.ipv4,
          out_label_token],
     defun.no_mpls_static_binding_mask_output),
   (cmd_token.keyword "no" :: binding_head
      ++ [cmd_token.ipv4, cmd_token.ipv4, cmd_token.keyword "output", cmd_token.ipv4],
     defun.no_mpls_static_binding_mask_output2),
   (cmd_token.keyword "no" :: binding_head
      ++ [cmd_token.ipv4, cmd_token.ipv4, cmd_token.keyword "output"],
     defun.no_mpls_static_binding_mask_output3),
   (cmd_token.keyword "no" :: binding_head ++ [cmd_token.ipv4, cmd_token.ipv4],
     defun.no_mpls_static_binding_mask),
   (crossconnect_head
      ++ [in_label_token, cmd_token.ifname, cmd_token.ipv4, out_label_token],
     defun.mpls_static_crossconnect),
   (cmd_token.keyword "no" :: crossconnect_head
      ++ [in_label_token, cmd_token.ifname, cmd_token.ipv4, out_label_token],
     defun.no_mpls_static_crossconnect),
   (cmd_token.keyword "no" :: crossconnect_head
      ++ [in_label_token, cmd_token.ifname, cmd_token.ipv4],
     defun.no_mpls_static_crossconnect),
   (cmd_token.keyword "no" :: crossconnect_head ++ [in_label_token, cmd_token.ifname],
     defun.no_mpls_static_crossconnect),
   (cmd_token.keyword "no" :: crossconnect_head ++ [in_label_token],
     defun.no_mpls_static_crossconnect)]

/-- Modelled from the spec: the command reader is defined in `lib/command.c`,
outside `zebra/mpls_*`.  A line runs the command whose string it matches,
when it matches one string only; `argv` holds the words at the places other
than keywords. -/
def cmd_match (E : command_env) (words : List String) : Option (defun × List String) :=
  match mpls_vty_commands.filter (fun c => tokens_match E c.1 words) with
  | [c] => some (c.2, cmd_args c.1 words)
  | _ => none

/-- The state after one line of configuration: the matched command runs, and
a line that is no command of `mpls_vty.c` (such as the comment `!`) leaves the
state as it is.  `none` where the command reads through a null pointer. -/
def config_line (E : command_env) (s : zebra) (words : List String) : Option zebra :=
  match cmd_match E words with
  | none => some s
  | some (d, argv) => (d.run E s argv).map Prod.snd

/-- The state after the lines of a configuration, read in order. -/
def config_replay (E : command_env) : List (List String) → zebra → Option zebra
  | [], s => some s
  | l :: rest, s => (config_line E s l).bind (config_replay E rest)

/-- The engine after start-up, with the routes `rt` in the RIB and no
bindings record (the state of `zebra_start` after the routes came up: the
hooks return at once on a node without bindings record). -/
def fresh_engine (cl : List zserv) (rt : Prefix → List rib) : zebra :=
  { zebra_start cl with table := fun p => { info := rt p, mpls := none } }

/-- The states reached from the fresh engine by lines of configuration. -/
inductive config_reachable (E : command_env) (cl : List zserv) (rt : Prefix → List rib) :
    zebra → Prop where
  | start : config_reachable E cl rt (fresh_engine cl rt)
  | command (s s' : zebra) (words : List String) :
      config_reachable E cl rt s → config_line E s words = some s' →
      config_reachable E cl rt s'

/-- The next hop and the outgoing label of each static LSP, in list order. -/
def static_lsp_config (lb : label_bindings) : List (Nat × Nat) :=
  lb.static_lsps.map (fun l => (l.nexthop, l.remote_label))

/-- The incoming label, interface, next hop and outgoing label of each
cross-connect, in list order. -/
def crossconnect_config (s : zebra) : List (Nat × Option Nat × Nat × Nat) :=
  s.mpls_crossconnect_list.map
    (fun mc => (mc.in_label, mc.lsp.ifp, mc.lsp.nexthop, mc.lsp.remote_label))

/-- The two states hold the same configuration: the `mpls_enabled` flag, the
static in-label and the static LSPs of every prefix, and the cross-connects. -/
def same_config (s s' : zebra) : Prop :=
  s'.mpls_enabled = s.mpls_enabled ∧
  (∀ p, (bindings s' p).static_in_label = (bindings s p).static_in_label ∧
    static_lsp_config (bindings s' p) = static_lsp_config (bindings s p)) ∧
  crossconnect_config s' = crossconnect_config s

/-- The library reads back what it wrote for the prefixes of `nodes` and for
the next hops of the state: the text of a prefix is a word `A.B.C.D/M` and
not a word `A.B.C.D`, `str2prefix` gives the prefix back and `apply_mask`
leaves it; the text of a next hop is a word `A.B.C.D` and `inet_aton` gives
the address back. -/
def text_round_trip (E : command_env) (nodes : List Prefix) (s : zebra) : Prop :=
  (∀ p ∈ nodes,
    E.cmd_ipv4_prefix_match (E.V.prefix2str p) = true ∧
    E.cmd_ipv4_match (E.V.prefix2str p) = false ∧
    E.V.str2prefix (E.V.prefix2str p) = some p ∧ E.V.apply_mask p = p ∧
    ∀ lsp ∈ (bindings s p).static_lsps,
      E.cmd_ipv4_match (E.V.inet_ntoa lsp.nexthop) = true ∧
      E.V.inet_aton (E.V.inet_ntoa lsp.nexthop) = some lsp.nexthop) ∧
  ∀ mc ∈ s.mpls_crossconnect_list,
    E.cmd_ipv4_match (E.V.inet_ntoa mc.lsp.nexthop) = true ∧
    E.V.inet_aton (E.V.inet_ntoa mc.lsp.nexthop) = some mc.lsp.nexthop

/-- A label of the range `<16-1048575>` of the command strings. -/
def in_label_ok (L : Nat) : Prop := 16 ≤ L ∧ L ≤ 1048575

/-- A label of the choice `(<16-1048575>|explicit-null|implicit-null)` of the
command strings. -/
def out_label_ok (L : Nat) : Prop := in_label_ok L ∨ L = 0 ∨ L = 3

/-- The labels of the record are labels the command strings admit: the static
in-label is unset or of the range, the labels of the static LSPs are of the
choice. -/
def lb_config_ok (lb : label_bindings) : Prop :=
  (lb.static_in_label = NO_LABEL ∨ in_label_ok lb.static_in_label) ∧
  ∀ l ∈ lb.static_lsps, out_label_ok l.remote_label

/-- What the configuration commands keep: well-formed records and
cross-connect table, a flag that is 0 or 1, labels the command strings admit,
and for every cross-connect an interface that `if_lookup_by_name` finds by
its name. -/
def config_wf (E : command_env) (s : zebra) : Prop :=
  zebra_wf s ∧ xc_wf s ∧ (s.mpls_enabled = 0 ∨ s.mpls_enabled = 1) ∧
  (∀ p lb, (s.table p).mpls = some lb → lb_config_ok lb) ∧
  ∀ mc ∈ s.mpls_crossconnect_list,
    in_label_ok mc.in_label ∧ out_label_ok mc.lsp.remote_label ∧
    ∃ i, if_lookup_by_name E.iflist i.name = some i ∧ mc.lsp.ifp = some i.ptr

/-! ## Runs of configuration commands -/

/-- A sample of what the commands run in: the library of `demo_vty_env`, the
interfaces of `demo_iflist`, the driver of `mpls_null.c`, a 64-bit
`unsigned long`, and a command reader that takes for `A.B.C.D` what
`inet_aton` reads and for `A.B.C.D/M` what `str2prefix` reads. -/
def demo_command_env : command_env :=
  { V := demo_vty_env, iflist := demo_iflist, K := quagga_consts, drv := null_driver,
    ulong_max := 18446744073709551615,
    cmd_ipv4_match := fun w => (demo_inet_aton w).isSome,
    cmd_ipv4_prefix_match := fun w => (demo_vty_env.str2prefix w).isSome }

/-- Routes to 10.0.0.0/8 and 11.0.0.0/8 over 192.0.2.1, and no other. -/
def demo_routes (p : Prefix) : List rib :=
  if p = demo_prefix ∨ p = demo_prefix2 then demo_route demo_nexthop else []

/-- Lines that enable MPLS, bind in-label 100 and two static LSPs to
10.0.0.0/8, and add a cross-connect from label 500. -/
def demo_config_lines : List (List String) :=
  [["mpls", "ip"],
   ["mpls", "static", "binding", "ipv4", "10.0.0.0/8", "input", "100"],
   ["mpls", "static", "binding", "ipv4", "10.0.0.0/8", "output", "192.0.2.1", "300"],
   ["mpls", "static", "binding", "ipv4", "10.0.0.0/8", "output", "192.0.2.9",
    "implicit-null"],
   ["mpls", "static", "crossconnect", "500", "if0", "192.0.2.2", "explicit-null"]]

/-- Lines that bind in-label 100 to 10.0.0.0/8 and to 11.0.0.0/8 and then
remove the binding of 10.0.0.0/8. -/
def shared_config_lines : List (List String) :=
  [["mpls", "static", "binding", "ipv4", "10.0.0.0/8", "100"],
   ["mpls", "static", "binding", "ipv4", "11.0.0.0/8", "100"],
   ["no", "mpls", "static", "binding", "ipv4", "10.0.0.0/8", "100"]]

/-- The state after the first line of `demo_config_lines`, by the call the
command makes. -/
def demo_config_state1 : zebra := (mpls_ip demo_iflist (fresh_engine demo_clients demo_routes)).2

/-- The state after the second line of `demo_config_lines`. -/
def demo_config_state2 : zebra :=
  mpls_prefix_set_static_input_label quagga_consts demo_config_state1 demo_prefix 100

/-- The state after the third line of `demo_config_lines`. -/
def demo_config_state3 : zebra :=
  mpls_prefix_add_static_lsp quagga_consts null_driver demo_config_state2 demo_prefix
    demo_nexthop 300

/-- The state after the fourth line of `demo_config_lines`. -/
def demo_config_state4 : zebra :=
  mpls_prefix_add_static_lsp quagga_consts null_driver demo_config_state3 demo_prefix
    3221225993 3

/-- The state after `demo_config_lines`. -/
def demo_config_state : zebra :=
  (mpls_static_crossconnect_add null_driver demo_config_state4 500 (some 1) demo_xc_nexthop
    0).2

/-- The labels `t` holds are held by `s`, prefix by prefix, and the incoming
label of every cross-connect of `t` is one of a cross-connect of `s`. -/
def held_within (s t : zebra) : Prop :=
  (∀ q L, real_label L → label_held (bindings t q) L → label_held (bindings s q) L) ∧
  ∀ mc ∈ t.mpls_crossconnect_list, ∃ x ∈ s.mpls_crossconnect_list, x.in_label = mc.in_label

/-- The state after `shared_config_lines`, by the calls the commands make. -/
def shared_config_state : zebra :=
  mpls_prefix_remove_static_input_label quagga_consts
    (mpls_prefix_set_static_input_label quagga_consts
      (mpls_prefix_set_static_input_label quagga_consts
        (fresh_engine demo_clients demo_routes) demo_prefix 100)
      demo_prefix2 100)
    demo_prefix 100

/-- The state after the configuration written for `shared_config_state` was
read by a fresh engine. -/
def shared_replay_state : zebra :=
  mpls_prefix_set_static_input_label quagga_consts (fresh_engine demo_clients demo_routes)
    demo_prefix2 100

/-- What a command other than the binding of an in-label and the addition of
a cross-connect does to the state: nothing, one call of an engine function
that takes no in-label, or several such calls in a row. -/
inductive quiet_effect (E : command_env) : zebra → zebra → Prop where
  | same (s : zebra) : quiet_effect E s s
  | enable (s : zebra) : quiet_effect E s (mpls_ip E.iflist s).2
  | disable (s : zebra) : quiet_effect E s (no_mpls_ip E.iflist s).2
  | remove_in (s : zebra) (p : Prefix) (L : Nat) :
      quiet_effect E s (mpls_prefix_remove_static_input_label E.K s p L)
  | add_out (s : zebra) (p : Prefix) (N L : Nat) :
      out_label_ok L → quiet_effect E s (mpls_prefix_add_static_lsp E.K E.drv s p N L)
  | remove_out (s : zebra) (p : Prefix) (N : Nat) :
      quiet_effect E s (mpls_prefix_remove_static_lsp E.K E.drv s p N)
  | get (s : zebra) (p : Prefix) : quiet_effect E s (route_node_get_mpls s p)
  | xc_remove (s : zebra) (L : Nat) :
      quiet_effect E s (mpls_static_crossconnect_remove s L).2
  | trans (s1 s2 s3 : zebra) : quiet_effect E s1 s2 → quiet_effect E s2 s3 → quiet_effect E s1 s3

/-- What one line of configuration does to the state: a quiet effect, the
binding of an in-label of the range, or the addition of a cross-connect with
labels the command string admits over an interface found by its name. -/
inductive config_effect (E : command_env) : zebra → zebra → Prop where
  | quiet (s s' : zebra) : quiet_effect E s s' → config_effect E s s'
  | set_in (s : zebra) (p : Prefix) (L : Nat) :
      in_label_ok L → config_effect E s (mpls_prefix_set_static_input_label E.K s p L)
  | xc_add (s : zebra) (in_label : Nat) (i : interface) (nexthop out_label : Nat) :
      in_label_ok in_label → out_label_ok out_label →
      if_lookup_by_name E.iflist i.name = some i →
      config_effect E s
        (mpls_static_crossconnect_add E.drv s in_label (some i.ptr) nexthop out_label).2

/-- The runs of configuration lines along which in-labels stay apart: after
every line, no label other than `NO_LABEL` and Implicit Null is held by two
prefixes or by a prefix and a cross-connect. -/
inductive config_disciplined (E : command_env) (cl : List zserv) (rt : Prefix → List rib) :
    zebra → Prop where
  | start : config_disciplined E cl rt (fresh_engine cl rt)
  | command (s s' : zebra) (words : List String) :
      config_disciplined E cl rt s → config_line E s words = some s' → labels_apart s' →
      config_disciplined E cl rt s'

/-- The state is one the configuration commands alone have formed: no prefix
has a dynamic in-label, the selected in-label of every prefix is its static
in-label, and the RIB holds the routes `rt`. -/
def static_only (rt : Prefix → List rib) (s : zebra) : Prop :=
  (∀ p, (bindings s p).ldp_in_label = NO_LABEL ∧
    (bindings s p).selected_in_label = (bindings s p).static_in_label) ∧
  ∀ p, (s.table p).info = rt p

/-! ## The calls of `mpls_prefix_select_lsp` -/

/-- The calls `mpls_prefix_remove_lsp` makes for the selected LSP `old` of an
active route whose selected in-label is `label`: XC remove when an in-label
is selected, then NHLFE remove; nothing when no LSP was selected. -/
def unselect_events (label : Nat) (old : Option route_lsp) : List event :=
  match old with
  | some lsp =>
    (if label ≠ NO_LABEL then [event.xc_unregister label lsp] else [])
      ++ [event.nhlfe_unregister lsp]
  | none => []

/-- The calls `mpls_prefix_select_lsp` makes for the candidate `sel` after
the calls of `log`: NHLFE install and, only if the driver accepts it, XC
install when an in-label is selected, followed by one request to the RIB;
nothing when there is no candidate. -/
def select_events (drv : driver) (log : List event) (p : Prefix) (label : Nat)
    (sel : Option route_lsp) : List event :=
  match sel with
  | some lsp =>
    [event.nhlfe_register lsp] ++
      (if drv (log ++ [event.nhlfe_register lsp]) < 0 then []
       else (if label ≠ NO_LABEL then [event.xc_register label lsp] else [])
         ++ [event.rib_queue_add p])
  | none => []
/-- A driver whose NHLFE installs fail and whose other calls succeed. -/
def nhlfe_register_fails : driver := fun log =>
  match log.getLast? with
  | some (event.nhlfe_register _) => -1
  | _ => 0

/-- A run after which the route of 10.0.0.0/8 has moved from next hop 5 to
192.0.2.1 and the install hook has not run yet: in-label 100 is selected, the
static LSP to 5 is still selected, and a static LSP to 192.0.2.1 exists. -/
def reroute_run : List op :=
  [op.set_static_input_label demo_prefix 100,
   op.rib_update demo_prefix (demo_route 5), op.route_install_hook demo_prefix,
   op.add_static_lsp demo_prefix 5 301, op.add_static_lsp demo_prefix demo_nexthop 300,
   op.rib_update demo_prefix (demo_route demo_nexthop)]

/-- The node of 10.0.0.0/8 after `reroute_run`. -/
def reroute_rn : mpls_rn :=
  rn_of (run quagga_consts null_driver (zebra_start demo_clients) reroute_run) demo_prefix
/-- A run after which the route of 10.0.0.0/8 was taken away with in-label 100
and a static LSP selected, the uninstall hook not having run yet. -/
def withdrawn_run : List op :=
  scenario1_run ++ [op.rib_update demo_prefix []]

/-- The state after `withdrawn_run`. -/
def withdrawn_state : zebra :=
  run quagga_consts null_driver (zebra_start demo_clients) withdrawn_run
/-- The state after `mpls_static_crossconnect_add (100, if0, 192.0.2.2, 300)`
at start-up with a driver whose third call, the XC install, fails. -/
def failed_xc_state : zebra :=
  (mpls_static_crossconnect_add third_call_fails (zebra_start demo_clients) 100 demo_ifp
    demo_xc_nexthop 300).2

/-- The request `mpls_kernel_xc` builds: the incoming label and the key of
the LSP's NHLFE. -/
def xc_request (M : netlink_consts) (cmd ilm_label : Nat) (lsp : route_lsp) : nl_request :=
  let mx := nl_payload.xconnect { ml_type := M.MPLS_LABEL_GEN, u := ilm_label }
    { ml_type := M.MPLS_LABEL_KEY, u := lsp.nhlfe_index }
  { nlmsg_flags := M.NLM_F_CREATE ||| M.NLM_F_REQUEST, nlmsg_type := M.AF_MPLS, cmd := cmd,
    attrs := [{ rta_type := M.MPLS_ATTR_XC, data := mx }] }

/-- The function `mpls_kernel_xc`. -/
def mpls_kernel_xc (M : netlink_consts) (E : netlink_env)
    (sent : List (rtnl_handle × nl_request)) (cmd ilm_label : Nat) (lsp : route_lsp) :
    Int × List (rtnl_handle × nl_request) :=
  let sent := sent ++ [(rtnl_handle.rth_mpls_cmd, xc_request M cmd ilm_label lsp)]
  (E.rtnl_talk sent, sent)

/-- The function `mpls_kernel_xc_register` of `mpls_netlink.c`. -/
def mpls_kernel_xc_register (M : netlink_consts) (E : netlink_env)
    (sent : List (rtnl_handle × nl_request)) (ilm_label : Nat) (lsp : route_lsp) :
    Int × List (rtnl_handle × nl_request) :=
  mpls_kernel_xc M E sent M.MPLS_CMD_NEWXC ilm_label lsp

/-- The function `mpls_kernel_xc_unregister` of `mpls_netlink.c`. -/
def mpls_kernel_xc_unregister (M : netlink_consts) (E : netlink_env)
    (sent : List (rtnl_handle × nl_request)) (ilm_label : Nat) (lsp : route_lsp) :
    Int × List (rtnl_handle × nl_request) :=
  mpls_kernel_xc M E sent M.MPLS_CMD_DELXC ilm_label lsp

/-- A run after which the route of 10.0.0.0/8 is up with next hop 192.0.2.1,
Implicit Null is the static in-label, and no LSP exists yet. -/
def null_label_run : List op :=
  [op.rib_update demo_prefix (demo_route demo_nexthop), op.route_install_hook demo_prefix,
   op.set_static_input_label demo_prefix MPLS_IMPLICIT_NULL]

/-- The state after `null_label_run`. -/
def null_label_state : zebra :=
  run quagga_consts null_driver (zebra_start demo_clients) null_label_run

/-- Stated from the spec's words, to compare with the test of
`get_prefix_nexthop`: the next hop is an IPv4 gateway next hop, that is, its
type is one of the three types that carry an IPv4 gateway address. -/
def spec_ipv4_gateway (K : zebra_consts) (nh : nexthop) : Bool :=
  nh.type == K.NEXTHOP_TYPE_IPV4 || nh.type == K.NEXTHOP_TYPE_IPV4_IFINDEX
    || nh.type == K.NEXTHOP_TYPE_IPV4_IFNAME

/-- Stated from the spec's words: the RIB entries give the prefix no IPv4
gateway next hop, that is, no selected entry at finite distance has an active
next hop that is an IPv4 gateway next hop. -/
def spec_no_ipv4_gateway (K : zebra_consts) (info : List rib) : Bool :=
  info.all (fun r =>
    !(K.CHECK_FLAG r.flags K.ZEBRA_FLAG_SELECTED && r.distance != K.DISTANCE_INFINITY)
      || r.nexthop.all (fun nh =>
          !(K.CHECK_FLAG nh.flags K.NEXTHOP_FLAG_ACTIVE && spec_ipv4_gateway K nh)))

/-- A RIB with one selected route at distance 1 whose only next hop is an
active interface-only next hop: type `NEXTHOP_TYPE_IFINDEX` (1), the flags
word holding `NEXTHOP_FLAG_ACTIVE` alone, and no gateway address. -/
def iface_route : List rib :=
  [{ flags := 4, distance := 1, nexthop := [{ type := 1, flags := 1, gate_ipv4 := 0 }] }]

/-- The node of 10.0.0.0/8 after scenario 1, when the RIB has replaced the
route over 192.0.2.1 by a directly connected one: in-label 100 and the static
LSP to 192.0.2.1 are selected. -/
def iface_rn : mpls_rn :=
  rn_of (run quagga_consts null_driver (zebra_start demo_clients)
    (scenario1_run ++ [op.rib_update demo_prefix iface_route])) demo_prefix

/-! ## The NHLFE table of a recording driver -/

/-- The effect of one call on the entry of the LSP at address `x` in the
NHLFE table of a driver that records installs and removals. -/
def nhlfe_step (x : Nat) (b : Bool) : event → Bool
  | event.nhlfe_register l => if l.ptr = x then true else b
  | event.nhlfe_unregister l => if l.ptr = x then false else b
  | _ => b

/-- The event is an NHLFE install or an NHLFE remove. -/
def event.is_nhlfe : event → Bool
  | event.nhlfe_register _ => true
  | event.nhlfe_unregister _ => true
  | _ => false

/-- The entry of the LSP at `x` after the calls `es`, `b` telling whether it
was there before. -/
def nhlfe_run (x : Nat) (es : List event) (b : Bool) : Bool := es.foldl (nhlfe_step x) b

/-- The LSP at address `x` has an NHLFE in the recording driver after the
calls of `log`. -/
def nhlfe_installed (log : List event) (x : Nat) : Bool := nhlfe_run x log false

/-- The node has an active route and its selected LSP is the one at `x`. -/
def lsp_on (K : zebra_consts) (info : List rib) (lb : label_bindings) (x : Nat) : Prop :=
  zebra_route_node_active K info = true ∧ ptr_of lb.selected_lsp = some x

/-- The record refers to the LSP at `x`: as one of its LSPs or as its
selected LSP. -/
def lsp_held (lb : label_bindings) (x : Nat) : Prop :=
  x ∈ (lsps lb).map (fun l => l.ptr) ∨ ptr_of lb.selected_lsp = some x

/-- The set the NHLFE table is claimed to equal: the selected LSPs of the
prefixes with an active route, and the LSPs of the cross-connects. -/
def nhlfe_claimed (K : zebra_consts) (s : zebra) (x : Nat) : Prop :=
  (∃ p, lsp_on K (s.table p).info (bindings s p) x) ∨
  (∃ mc ∈ s.mpls_crossconnect_list, mc.lsp.ptr = x)

/-- The states reached from start-up by mutator calls and cross-connect
calls, with the RIB calling the install hook right after it gave an active
route to a node, and the uninstall hook right before it takes the active
route of a node away. -/
inductive orderly (K : zebra_consts) (drv : driver) : zebra → Prop where
  | start (cl : List zserv) : orderly K drv (zebra_start cl)
  | mutator (s : zebra) (o : op) :
      orderly K drv s → o.is_mutator = true → orderly K drv (step K drv s o)
  | crossconnect (s : zebra) (o : xc_op) :
      orderly K drv s → orderly K drv (xc_step drv s o)
  | route_install (s : zebra) (p : Prefix) (info : List rib) :
      orderly K drv s → zebra_route_node_active K info = true →
      orderly K drv
        (step K drv (step K drv s (op.rib_update p info)) (op.route_install_hook p))
  | route_uninstall (s : zebra) (p : Prefix) (info : List rib) :
      orderly K drv s → zebra_route_node_active K info = false →
      orderly K drv
        (step K drv (step K drv s (op.route_uninstall_hook p)) (op.rib_update p info))

/-- What an engine function keeps of the NHLFE table, seen from its node: the
route is not touched, addresses are only taken from the allocation counter,
entries of LSPs the node does not refer to stay, an entry that was there
exactly for the selected LSP of an active route is so afterwards, and a node
without active route that had no selected LSP has none afterwards. -/
def nhlfe_keeps (K : zebra_consts) (c c' : mpls_rn) : Prop :=
  c'.info = c.info ∧ c.alloc ≤ c'.alloc ∧
  (∀ x, lsp_held c'.lb x → lsp_held c.lb x ∨ c.alloc ≤ x) ∧
  (∀ x, x < c.alloc → ¬ lsp_held c.lb x →
    nhlfe_installed c'.log x = nhlfe_installed c.log x) ∧
  (∀ x, (nhlfe_installed c.log x = true ↔ lsp_on K c.info c.lb x) →
    (nhlfe_installed c'.log x = true ↔ lsp_on K c'.info c'.lb x)) ∧
  ((zebra_route_node_active K c.info = false → c.lb.selected_lsp = none) →
    (zebra_route_node_active K c'.info = false → c'.lb.selected_lsp = none))

/-- What is kept along orderly runs with a driver that accepts every call:
records and cross-connect table are well formed, no two of them refer to the
same LSP, a node without active route has no selected LSP, and the NHLFE
table of the recording driver holds the LSPs of `nhlfe_claimed`. -/
def nhlfe_inv (K : zebra_consts) (s : zebra) : Prop :=
  zebra_wf s ∧ xc_wf s ∧
  (∀ mc ∈ s.mpls_crossconnect_list, mc.lsp.ptr < s.alloc) ∧
  (s.mpls_crossconnect_list.map (fun mc => mc.lsp.ptr)).Nodup ∧
  (∀ p q x, p ≠ q → lsp_held (bindings s p) x → ¬ lsp_held (bindings s q) x) ∧
  (∀ p x, lsp_held (bindings s p) x → ∀ mc ∈ s.mpls_crossconnect_list, mc.lsp.ptr ≠ x) ∧
  (∀ p, zebra_route_node_active K (s.table p).info = false →
    (bindings s p).selected_lsp = none) ∧
  (∀ x, nhlfe_installed s.log x = true ↔ nhlfe_claimed K s x)
/-- The prefix an operation is about. -/
def op.node : op → Prefix
  | op.set_static_input_label p _ => p
  | op.remove_static_input_label p _ => p
  | op.set_ldp_input_label p _ => p
  | op.add_static_lsp p _ _ => p
  | op.remove_static_lsp p _ => p
  | op.set_ldp_lsp p _ _ => p
  | op.remove_ldp_lsp p _ _ => p
  | op.route_install_hook p => p
  | op.route_uninstall_hook p => p
  | op.rib_update p _ => p

/-- A run in which the route of 10.0.0.0/8 is taken away after scenario 1 and
the uninstall hook runs on the node that has no active route any more. -/
def late_withdrawal_run : List op :=
  withdrawn_run ++ [op.route_uninstall_hook demo_prefix]

/-- The state after `late_withdrawal_run`. -/
def late_withdrawal_state : zebra :=
  run quagga_consts null_driver (zebra_start demo_clients) late_withdrawal_run

/-- The state after scenario 1 run in the order of `orderly`, followed by the
addition of the cross-connect (500, if0, 192.0.2.2, 300). -/
def nhlfe_demo_state : zebra :=
  xc_step null_driver
    (step quagga_consts null_driver
      (step quagga_consts null_driver
        (step quagga_consts null_driver
          (step quagga_consts null_driver (zebra_start demo_clients)
            (op.set_static_input_label demo_prefix 100))
          (op.rib_update demo_prefix (demo_route demo_nexthop)))
        (op.route_install_hook demo_prefix))
      (op.add_static_lsp demo_prefix demo_nexthop 200))
    (xc_op.add 500 demo_ifp demo_xc_nexthop 300)

/-! ## Comparing runs up to the addresses of LSP records -/

/-- The LSP record moved to the address `f ptr`. -/
def route_lsp.rename (f : Nat → Nat) (l : route_lsp) : route_lsp := { l with ptr := f l.ptr }

/-- The bindings record with its LSP records moved by `f`. -/
def label_bindings.rename (f : Nat → Nat) (lb : label_bindings) : label_bindings :=
  { lb with static_lsps := lb.static_lsps.map (route_lsp.rename f),
            ldp_lsp := lb.ldp_lsp.map (route_lsp.rename f),
            selected_lsp := lb.selected_lsp.map (route_lsp.rename f) }

/-- The call with the LSP record it names moved by `f`. -/
def event.rename (f : Nat → Nat) : event → event
  | event.nhlfe_register l => event.nhlfe_register (l.rename f)
  | event.nhlfe_unregister l => event.nhlfe_unregister (l.rename f)
  | event.xc_register label l => event.xc_register label (l.rename f)
  | event.xc_unregister label l => event.xc_unregister label (l.rename f)
  | e => e

/-- The address map that exchanges `a` and `b`. -/
def swap_addr (a b : Nat) (x : Nat) : Nat := if x = a then b else if x = b then a else x

/-- The node `c'` is the node `c` with its LSP records moved by `f`; and, if
`D` holds, what `c'` logged after `lg'` is what `c` logged after `lg`, moved
by `f`. -/
def renamed (f : Nat → Nat) (D : Prop) (lg lg' : List event) (c c' : mpls_rn) : Prop :=
  c'.p = c.p ∧ c'.info = c.info ∧ c'.client_list = c.client_list ∧
  c'.lb = c.lb.rename f ∧
  (D → ∃ es, c.log = lg ++ es ∧ c'.log = lg' ++ es.map (event.rename f))

/-- The driver answers a call made after `lg` and further calls as it answers
the same call, moved by `f`, made after `lg'` and the same further calls. -/
def answers_alike (drv : driver) (f : Nat → Nat) (lg lg' : List event) : Prop :=
  ∀ es e, drv (lg ++ es ++ [e]) = drv (lg' ++ es.map (event.rename f) ++ [e.rename f])

/-- The node-level body of an operation (a change of the RIB has none). -/
def op.body (K : zebra_consts) (drv : driver) : op → mpls_rn → mpls_rn
  | op.set_static_input_label _ label => fun c => set_static_input_label_rn K c label
  | op.remove_static_input_label _ label => fun c => remove_static_input_label_rn K c label
  | op.set_ldp_input_label _ label => fun c => set_ldp_input_label_rn K c label
  | op.add_static_lsp _ nexthop label => fun c => add_static_lsp_rn K drv c nexthop label
  | op.remove_static_lsp _ nexthop => fun c => remove_static_lsp_rn K drv c nexthop
  | op.set_ldp_lsp _ nexthop label => fun c => set_ldp_lsp_rn K drv c nexthop label
  | op.remove_ldp_lsp _ nexthop label => fun c => remove_ldp_lsp_rn K drv c nexthop label
  | op.route_install_hook _ => route_install_hook_rn K drv
  | op.route_uninstall_hook _ => route_uninstall_hook_rn K
  | op.rib_update _ _ => fun c => c

/-- The operation is a call of the engine: a mutator or a hook. -/
def op.is_call : op → Bool
  | op.rib_update _ _ => false
  | _ => true

/-- The state in which 10.0.0.0/8 and 11.0.0.0/8 both have an active route to
192.0.2.1 and no bindings record yet. -/
def two_routes_state : zebra :=
  run quagga_consts null_driver (zebra_start demo_clients)
    [op.rib_update demo_prefix (demo_route demo_nexthop),
     op.rib_update demo_prefix2 (demo_route demo_nexthop)]

/-- A driver whose first NHLFE call fails when it is an install, and whose
other calls succeed. -/
def first_nhlfe_fails : driver := fun log =>
  match log.getLast? with
  | some (event.nhlfe_register _) => if (log.filter event.is_nhlfe).length = 1 then -1 else 0
  | _ => 0

/-- The state in which 10.0.0.0/8 and 11.0.0.0/8 both got an active route to
192.0.2.1, announced by the install hook, and then the static in-labels 100
and 101: both in-labels are installed, and no LSP exists yet. -/
def two_labelled_routes_state : zebra :=
  run quagga_consts null_driver (zebra_start demo_clients)
    [op.rib_update demo_prefix (demo_route demo_nexthop), op.route_install_hook demo_prefix,
     op.rib_update demo_prefix2 (demo_route demo_nexthop), op.route_install_hook demo_prefix2,
     op.set_static_input_label demo_prefix 100, op.set_static_input_label demo_prefix2 101]

/-- The state after the static LSP (192.0.2.1, 200) was added to 10.0.0.0/8 in
`two_labelled_routes_state`, with the driver `first_nhlfe_fails`. -/
def lsp_first_state : zebra :=
  step quagga_consts first_nhlfe_fails two_labelled_routes_state
    (op.add_static_lsp demo_prefix demo_nexthop 200)

/-- The state after the static LSP (192.0.2.1, 300) was added to 11.0.0.0/8 in
`two_labelled_routes_state`, with the driver `first_nhlfe_fails`. -/
def other_first_state : zebra :=
  step quagga_consts first_nhlfe_fails two_labelled_routes_state
    (op.add_static_lsp demo_prefix2 demo_nexthop 300)

/-- The state after the static LSP (192.0.2.1, 200) was added to 10.0.0.0/8 in
`other_first_state`. -/
def lsp_second_state : zebra :=
  step quagga_consts first_nhlfe_fails other_first_state
    (op.add_static_lsp demo_prefix demo_nexthop 200)

/-- Stated from the spec's words, to compare with `get_prefix_nexthop`: the
IPv4 next hop of the active route, that is, the gateway address of the first
active next hop of an IPv4 gateway type in the RIB entry that is selected and
not at infinite distance; `none` when there is no such next hop. -/
def spec_ipv4_nexthop (K : zebra_consts) (info : List rib) : Option Nat :=
  match get_prefix_nexthop_active K info none with
  | none => none
  | some active =>
    (active.nexthop.find? (fun nh =>
      K.CHECK_FLAG nh.flags K.NEXTHOP_FLAG_ACTIVE && spec_ipv4_gateway K nh)).map
      (fun nh => nh.gate_ipv4)

/-- A run in which the RIB gives 10.0.0.0/8 a directly connected route (its
only next hop is an active interface-only next hop), announces it through the
install hook, and a static LSP to 0.0.0.0 with label 777 is added. -/
def no_gateway_run : List op :=
  [op.rib_update demo_prefix iface_route, op.route_install_hook demo_prefix,
   op.add_static_lsp demo_prefix 0 777]

/-- The state after `no_gateway_run`. -/
def no_gateway_state : zebra :=
  run quagga_consts null_driver (zebra_start demo_clients) no_gateway_run

/-! ## The XC table and the label spaces of a recording driver -/

/-- The effect of one call on the entry that wires in-label `L` to the LSP at
address `x` in the XC table of a driver that records installs and removals. -/
def xc_entry_step (L x : Nat) (b : Bool) : event → Bool
  | event.xc_register label l => if label = L ∧ l.ptr = x then true else b
  | event.xc_unregister label l => if label = L ∧ l.ptr = x then false else b
  | _ => b

/-- The event is an XC install or an XC remove. -/
def event.is_xc : event → Bool
  | event.xc_register _ _ => true
  | event.xc_unregister _ _ => true
  | _ => false

/-- The entry (`L`, `x`) after the calls `es`, `b` telling whether it was
there before. -/
def xc_entry_run (L x : Nat) (es : List event) (b : Bool) : Bool :=
  es.foldl (xc_entry_step L x) b

/-- In-label `L` is wired to the LSP at address `x` in the recording driver
after the calls of `log`. -/
def xc_installed (log : List event) (L x : Nat) : Bool := xc_entry_run L x log false

/-- The effect of one call on the label space of the interface at address
`i`; as `mpls_kernel_set_interface_labelspace` does, a negative value is
recorded as -1 (no label space: MPLS is off on the interface). -/
def labelspace_step (i : Nat) (v : Int) : event → Int
  | event.set_interface_labelspace ifp labelspace =>
    if ifp = i then (if labelspace < 0 then -1 else labelspace) else v
  | _ => v

/-- The event is a label-space call. -/
def event.is_labelspace : event → Bool
  | event.set_interface_labelspace _ _ => true
  | _ => false

/-- The label space of the interface at `i` after the calls `es`, `v` being
the one before. -/
def labelspace_run (i : Nat) (es : List event) (v : Int) : Int :=
  es.foldl (labelspace_step i) v

/-- The label space of the interface at address `i` in the recording driver
after the calls of `log`; an interface has none (-1) until one is set. -/
def labelspace_of (log : List event) (i : Nat) : Int := labelspace_run i log (-1)

/-- The node has an active route, `L` is its selected in-label and is a
label, and its selected LSP is the one at `x`. -/
def xc_on (K : zebra_consts) (info : List rib) (lb : label_bindings) (L x : Nat) : Prop :=
  zebra_route_node_active K info = true ∧ lb.selected_in_label = L ∧ L ≠ NO_LABEL ∧
    ptr_of lb.selected_lsp = some x

/-- The set the XC table is claimed to equal: the pairs of selected in-label
and selected LSP of the prefixes with an active route, and the pairs of
incoming label and LSP of the cross-connects. -/
def xc_claimed (K : zebra_consts) (s : zebra) (L x : Nat) : Prop :=
  (∃ p, xc_on K (s.table p).info (bindings s p) L x) ∨
  (∃ mc ∈ s.mpls_crossconnect_list, mc.in_label = L ∧ mc.lsp.ptr = x)

/-- The label space the commands `mpls ip` and `no mpls ip` leave on the
interface at `i`: 0 when MPLS is enabled and an interface of the list at `i`
has MPLS configured, and none otherwise. -/
def labelspace_claimed (iflist : List interface) (s : zebra) (i : Nat) : Int :=
  if s.mpls_enabled ≠ 0 ∧ ∃ ifp ∈ iflist, ifp.ptr = i ∧ ifp.info.mpls_enabled ≠ 0 then 0
  else -1

/-- What a function of the static configuration keeps, seen from its node:
what `nhlfe_keeps` says of the NHLFE table; XC entries of LSPs the node does
not refer to stay; the XC entries of an LSP that were there exactly for the
selected in-label and the selected LSP of an active route are so afterwards;
no label space changes; and no LDP LSP appears. -/
def xc_keeps (K : zebra_consts) (c c' : mpls_rn) : Prop :=
  nhlfe_keeps K c c' ∧
  (∀ x, x < c.alloc → ¬ lsp_held c.lb x →
    ∀ L, xc_installed c'.log L x = xc_installed c.log L x) ∧
  (∀ x, (∀ L, xc_installed c.log L x = true ↔ xc_on K c.info c.lb L x) →
    (∀ L, xc_installed c'.log L x = true ↔ xc_on K c'.info c'.lb L x)) ∧
  (∀ i, labelspace_of c'.log i = labelspace_of c.log i) ∧
  (c.lb.ldp_lsp = none → c'.lb.ldp_lsp = none)

/-- What is kept along runs of configuration commands with a driver that
accepts every call: the invariant of the NHLFE table, a selection that is up
to date, no LDP LSP, an XC table of the recording driver that holds the pairs
of `xc_claimed`, and the label spaces of `labelspace_claimed`. -/
def driver_inv (K : zebra_consts) (iflist : List interface) (s : zebra) : Prop :=
  nhlfe_inv K s ∧ zebra_sel_ok K s ∧ (∀ p, (bindings s p).ldp_lsp = none) ∧
  (∀ L x, xc_installed s.log L x = true ↔ xc_claimed K s L x) ∧
  (∀ i, labelspace_of s.log i = labelspace_claimed iflist s i)

/-- The LSP at address `x` is a static LSP of some prefix or the LSP of a
cross-connect. -/
def lsp_known (s : zebra) (x : Nat) : Prop :=
  (∃ p, ∃ l ∈ (bindings s p).static_lsps, l.ptr = x) ∨
  (∃ mc ∈ s.mpls_crossconnect_list, mc.lsp.ptr = x)

/-- The recording driver holds after the calls of `s'` the state it holds
after the calls of `s`: every interface has the same label space; the ILM
table has the same entries; the NHLFE table and the XC table have the same
entries for LSPs that correspond, that is, for the static LSPs of each prefix
and for the LSPs of the cross-connects taken in list order (the engine hands
LSPs to the driver by address, and the two states hold their LSPs at
addresses of their own); and neither table has an entry for any other LSP. -/
def same_driver_state (s s' : zebra) : Prop :=
  (∀ i, labelspace_of s'.log i = labelspace_of s.log i) ∧
  (∀ L, ilm_installed s'.log L = ilm_installed s.log L) ∧
  (∀ p, ∀ ll ∈ List.zip (bindings s p).static_lsps (bindings s' p).static_lsps,
    nhlfe_installed s'.log ll.2.ptr = nhlfe_installed s.log ll.1.ptr ∧
    ∀ L, xc_installed s'.log L ll.2.ptr = xc_installed s.log L ll.1.ptr) ∧
  (∀ mm ∈ List.zip s.mpls_crossconnect_list s'.mpls_crossconnect_list,
    nhlfe_installed s'.log mm.2.lsp.ptr = nhlfe_installed s.log mm.1.lsp.ptr ∧
    ∀ L, xc_installed s'.log L mm.2.lsp.ptr = xc_installed s.log L mm.1.lsp.ptr) ∧
  (∀ x, (nhlfe_installed s.log x = true ∨ ∃ L, xc_installed s.log L x = true) →
    lsp_known s x) ∧
  (∀ x, (nhlfe_installed s'.log x = true ∨ ∃ L, xc_installed s'.log L x = true) →
    lsp_known s' x)

/-! ## Frame lemmas for the node-level functions -/

theorem quiet_frame_refl (c : mpls_rn) : quiet_frame c c :=
  ⟨rfl, rfl, rfl, le_refl _, [], by simp, rfl⟩

theorem quiet_frame_trans {a b c : mpls_rn} (h1 : quiet_frame a b) (h2 : quiet_frame b c) :
    quiet_frame a c := by
  obtain ⟨p1, i1, c1, a1, es1, l1, q1⟩ := h1
  obtain ⟨p2, i2, c2, a2, es2, l2, q2⟩ := h2
  refine ⟨p2.trans p1, i2.trans i1, c2.trans c1, le_trans a1 a2, es1 ++ es2, ?_, ?_⟩
  · rw [l2, l1, List.append_assoc]
  · simp [sends] at q1 q2 ⊢
    exact ⟨q1, q2⟩

theorem quiet_frame_emit (c : mpls_rn) (e : event) (h : e.is_zsend = false) :
    quiet_frame c (emit c e) :=
  ⟨rfl, rfl, rfl, le_refl _, [e], rfl, by simp [sends, h]⟩

theorem quiet_frame_lb (c : mpls_rn) (lb : label_bindings) :
    quiet_frame c { c with lb := lb } :=
  ⟨rfl, rfl, rfl, le_refl _, [], by simp, rfl⟩

theorem remove_lsp_frame (K : zebra_consts) (c : mpls_rn) (lsp : route_lsp) :
    quiet_frame c (mpls_prefix_remove_lsp K c lsp) ∧
    (mpls_prefix_remove_lsp K c lsp).alloc = c.alloc := by
  unfold mpls_prefix_remove_lsp
  split
  · exact ⟨quiet_frame_refl c, rfl⟩
  · dsimp only
    split
    · split
      · refine ⟨quiet_frame_trans (quiet_frame_trans (quiet_frame_lb c _)
          (quiet_frame_emit _ _ (by rfl))) (quiet_frame_emit _ _ (by rfl)), rfl⟩
      · exact ⟨quiet_frame_trans (quiet_frame_lb c _) (quiet_frame_emit _ _ (by rfl)), rfl⟩
    · exact ⟨quiet_frame_lb c _, rfl⟩

theorem remove_lsp_lb (K : zebra_consts) (c : mpls_rn) (lsp : route_lsp) :
    (mpls_prefix_remove_lsp K c lsp).lb =
      { c.lb with selected_lsp :=
          if ptr_of c.lb.selected_lsp = some lsp.ptr then none else c.lb.selected_lsp } := by
  unfold mpls_prefix_remove_lsp
  by_cases h : ptr_of c.lb.selected_lsp = some lsp.ptr
  · simp only [h, ne_eq, not_true_eq_false, if_false, if_true]
    split
    · split <;> rfl
    · rfl
  · simp [h]

theorem select_candidate_mem {lb : label_bindings} {n : Nat} {l : route_lsp}
    (h : select_candidate lb n = some l) : l ∈ lsps lb ∧ l.nexthop = n := by
  unfold select_candidate at h
  have hfind : ∀ {x : route_lsp}, lb.static_lsps.find? (fun x => x.nexthop == n) = some x →
      x ∈ lsps lb ∧ x.nexthop = n := by
    intro x hx
    have h1 := List.mem_of_find?_eq_some hx
    have h2 := List.find?_some hx
    simp at h2
    exact ⟨by simp [lsps, h1], h2⟩
  cases hl : lb.ldp_lsp with
  | none =>
    rw [hl] at h
    exact hfind h
  | some d =>
    rw [hl] at h
    dsimp only at h
    split at h
    · injection h with h
      subst h
      refine ⟨by simp [lsps, hl], by assumption⟩
    · exact hfind h

theorem select_lsp_frame (K : zebra_consts) (drv : driver) (c : mpls_rn) :
    quiet_frame c (mpls_prefix_select_lsp K drv c) ∧
    (mpls_prefix_select_lsp K drv c).alloc = c.alloc := by
  unfold mpls_prefix_select_lsp
  split
  · exact ⟨quiet_frame_refl c, rfl⟩
  · rename_i nexthop _
    dsimp only
    split
    · exact ⟨quiet_frame_refl c, rfl⟩
    · have hr : ∃ c1, (match c.lb.selected_lsp with
          | some old => mpls_prefix_remove_lsp K c old
          | none => c) = c1 ∧ quiet_frame c c1 ∧ c1.alloc = c.alloc := by
        cases c.lb.selected_lsp with
        | none => exact ⟨c, rfl, quiet_frame_refl c, rfl⟩
        | some old => exact ⟨_, rfl, (remove_lsp_frame K c old).1, (remove_lsp_frame K c old).2⟩
      obtain ⟨c1, hc1, hf1, ha1⟩ := hr
      rw [hc1]
      split
      · exact ⟨quiet_frame_trans hf1 (quiet_frame_lb c1 _), ha1⟩
      · rename_i sel _
        have hf2 := quiet_frame_trans hf1 (quiet_frame_lb c1
          { c1.lb with selected_lsp := select_candidate c.lb nexthop })
        split
        · exact ⟨quiet_frame_trans hf2 (quiet_frame_emit _ _ (by rfl)), ha1⟩
        · split
          · exact ⟨quiet_frame_trans (quiet_frame_trans (quiet_frame_trans hf2
              (quiet_frame_emit _ _ (by rfl))) (quiet_frame_emit _ _ (by rfl)))
              (quiet_frame_emit _ _ (by rfl)), ha1⟩
          · exact ⟨quiet_frame_trans (quiet_frame_trans hf2
              (quiet_frame_emit _ _ (by rfl))) (quiet_frame_emit _ _ (by rfl)), ha1⟩

/-! ## Well-formed bindings records -/

theorem ptr_inj_of_nodup {lb : label_bindings}
    (h : ((lsps lb).map (fun x => x.ptr)).Nodup) {a b : route_lsp}
    (ha : a ∈ lsps lb) (hb : b ∈ lsps lb) (hab : a.ptr = b.ptr) : a = b :=
  List.inj_on_of_nodup_map h ha hb hab

theorem select_lsp_lb (K : zebra_consts) (drv : driver) (c : mpls_rn)
    (hnd : ((lsps c.lb).map (fun x => x.ptr)).Nodup) (hsel : sel_owned c.lb) :
    (mpls_prefix_select_lsp K drv c).lb =
      { c.lb with selected_lsp := select_target K c.info c.lb } := by
  unfold mpls_prefix_select_lsp select_target
  cases hn : get_prefix_nexthop K c.info with
  | none => rfl
  | some n =>
    dsimp only
    split
    · rename_i hret
      obtain ⟨h1, h2⟩ := hret
      cases hs : c.lb.selected_lsp with
      | none => simp [hs] at h1
      | some l =>
        cases hc : select_candidate c.lb n with
        | none => simp [hs, hc, ptr_of] at h2
        | some l' =>
          simp [hs, hc, ptr_of] at h2
          have : l = l' := ptr_inj_of_nodup hnd (hsel l hs) (select_candidate_mem hc).1 h2
          subst this
          cases hlb : c.lb
          rw [hlb] at hs
          simp at hs
          simp [hs]
    · have hr : (match c.lb.selected_lsp with
          | some old => mpls_prefix_remove_lsp K c old
          | none => c).lb.static_in_label = c.lb.static_in_label ∧
          (match c.lb.selected_lsp with
          | some old => mpls_prefix_remove_lsp K c old
          | none => c).lb.ldp_in_label = c.lb.ldp_in_label ∧
          (match c.lb.selected_lsp with
          | some old => mpls_prefix_remove_lsp K c old
          | none => c).lb.selected_in_label = c.lb.selected_in_label ∧
          (match c.lb.selected_lsp with
          | some old => mpls_prefix_remove_lsp K c old
          | none => c).lb.static_lsps = c.lb.static_lsps ∧
          (match c.lb.selected_lsp with
          | some old => mpls_prefix_remove_lsp K c old
          | none => c).lb.ldp_lsp = c.lb.ldp_lsp := by
        cases c.lb.selected_lsp with
        | none => exact ⟨rfl, rfl, rfl, rfl, rfl⟩
        | some old => simp [remove_lsp_lb]
      generalize (match c.lb.selected_lsp with
          | some old => mpls_prefix_remove_lsp K c old
          | none => c) = c1 at hr ⊢
      obtain ⟨r1, r2, r3, r4, r5⟩ := hr
      have hlb : ({ c1.lb with selected_lsp := select_candidate c.lb n } : label_bindings) =
          { c.lb with selected_lsp := select_candidate c.lb n } := by
        cases h1 : c1.lb
        cases h2 : c.lb
        simp [h1, h2] at r1 r2 r3 r4 r5 ⊢
        exact ⟨r1, r2, r3, r4, r5⟩
      split
      · exact hlb
      · split
        · exact hlb
        · split <;> exact hlb

theorem same_in_labels_refl (lb : label_bindings) : same_in_labels lb lb := ⟨rfl, rfl, rfl⟩

theorem same_in_labels_trans {a b c : label_bindings} (h1 : same_in_labels a b)
    (h2 : same_in_labels b c) : same_in_labels a c :=
  ⟨h2.1.trans h1.1, h2.2.1.trans h1.2.1, h2.2.2.trans h1.2.2⟩

theorem same_owned_refl (lb : label_bindings) : same_owned lb lb := ⟨rfl, rfl⟩

theorem same_owned_lsps {a b : label_bindings} (h : same_owned a b) : lsps b = lsps a := by
  simp [lsps, h.1, h.2]

theorem same_owned_candidate {a b : label_bindings} (h : same_owned a b) (n : Nat) :
    select_candidate b n = select_candidate a n := by
  simp [select_candidate, h.1, h.2]

theorem remove_lsp_same (K : zebra_consts) (c : mpls_rn) (lsp : route_lsp) :
    same_in_labels c.lb (mpls_prefix_remove_lsp K c lsp).lb ∧
    same_owned c.lb (mpls_prefix_remove_lsp K c lsp).lb := by
  rw [remove_lsp_lb]
  exact ⟨⟨rfl, rfl, rfl⟩, rfl, rfl⟩

theorem select_lsp_same (K : zebra_consts) (drv : driver) (c : mpls_rn) :
    same_in_labels c.lb (mpls_prefix_select_lsp K drv c).lb ∧
    same_owned c.lb (mpls_prefix_select_lsp K drv c).lb := by
  unfold mpls_prefix_select_lsp
  split
  · exact ⟨same_in_labels_refl _, same_owned_refl _⟩
  · rename_i nexthop _
    dsimp only
    split
    · exact ⟨same_in_labels_refl _, same_owned_refl _⟩
    · have hr : same_in_labels c.lb (match c.lb.selected_lsp with
          | some old => mpls_prefix_remove_lsp K c old
          | none => c).lb ∧ same_owned c.lb (match c.lb.selected_lsp with
          | some old => mpls_prefix_remove_lsp K c old
          | none => c).lb := by
        cases c.lb.selected_lsp with
        | none => exact ⟨same_in_labels_refl _, same_owned_refl _⟩
        | some old => exact remove_lsp_same K c old
      generalize (match c.lb.selected_lsp with
          | some old => mpls_prefix_remove_lsp K c old
          | none => c) = c1 at hr ⊢
      split
      · exact hr
      · split
        · exact hr
        · split <;> exact hr

theorem get_prefix_nexthop_active_some (K : zebra_consts) (info : List rib) (acc : Option rib)
    (r : rib) (h : get_prefix_nexthop_active K info acc = some r) :
    acc = some r ∨ zebra_route_node_active K info = true := by
  induction info generalizing acc with
  | nil => exact Or.inl h
  | cons a rest ih =>
    unfold get_prefix_nexthop_active at h
    unfold zebra_route_node_active
    by_cases ha : (K.CHECK_FLAG a.flags K.ZEBRA_FLAG_SELECTED && a.distance != K.DISTANCE_INFINITY) = true
    · right
      simp only [List.any_cons, ha, Bool.true_or]
    · simp only [ha] at h
      rcases ih acc h with h1 | h1
      · exact Or.inl h1
      · right
        unfold zebra_route_node_active at h1
        simp only [List.any_cons, h1, Bool.or_true]

theorem nexthop_some_active (K : zebra_consts) (info : List rib) (n : Nat)
    (h : get_prefix_nexthop K info = some n) : zebra_route_node_active K info = true := by
  unfold get_prefix_nexthop at h
  split at h
  · cases h
  · rename_i active hact
    rcases get_prefix_nexthop_active_some K info none active hact with h1 | h1
    · cases h1
    · exact h1

theorem nexthop_none_of_inactive (K : zebra_consts) (info : List rib)
    (h : zebra_route_node_active K info = false) : get_prefix_nexthop K info = none := by
  cases hn : get_prefix_nexthop K info with
  | none => rfl
  | some n => rw [nexthop_some_active K info n hn] at h; cases h

theorem lb_wf_mono {a b : Nat} {lb : label_bindings} (hab : a ≤ b) (h : lb_wf a lb) :
    lb_wf b lb :=
  ⟨h.1, fun l hl => lt_of_lt_of_le (h.2.1 l hl) hab, h.2.2.1, h.2.2.2⟩

theorem lb_wf_new (a : Nat) : lb_wf a label_bindings_new := by
  refine ⟨by simp [lsps, label_bindings_new], by simp [lsps, label_bindings_new], ?_,
    by simp [label_bindings_new]⟩
  intro l hl
  simp [label_bindings_new] at hl

/-- Changing only `selected_lsp`, to an LSP the record owns, keeps the
record well formed. -/
theorem lb_wf_selected {a : Nat} {lb lb' : label_bindings} (h : lb_wf a lb)
    (ho : same_owned lb lb') (hs : sel_owned lb') : lb_wf a lb' := by
  have hl := same_owned_lsps ho
  refine ⟨by rw [hl]; exact h.1, by rw [hl]; exact h.2.1, hs, by rw [ho.1]; exact h.2.2.2⟩

theorem remove_lsp_wf (K : zebra_consts) (c : mpls_rn) (lsp : route_lsp)
    (h : lb_wf c.alloc c.lb) :
    lb_wf (mpls_prefix_remove_lsp K c lsp).alloc (mpls_prefix_remove_lsp K c lsp).lb := by
  rw [(remove_lsp_frame K c lsp).2]
  refine lb_wf_selected h (remove_lsp_same K c lsp).2 ?_
  intro l hl
  rw [same_owned_lsps (remove_lsp_same K c lsp).2]
  rw [remove_lsp_lb] at hl
  dsimp only at hl
  split at hl
  · cases hl
  · exact h.2.2.1 l hl

theorem select_lsp_wf (K : zebra_consts) (drv : driver) (c : mpls_rn)
    (h : lb_wf c.alloc c.lb) :
    lb_wf (mpls_prefix_select_lsp K drv c).alloc (mpls_prefix_select_lsp K drv c).lb := by
  rw [(select_lsp_frame K drv c).2]
  refine lb_wf_selected h (select_lsp_same K drv c).2 ?_
  intro l hl
  rw [same_owned_lsps (select_lsp_same K drv c).2]
  rw [select_lsp_lb K drv c h.1 h.2.2.1] at hl
  dsimp only [select_target] at hl
  split at hl
  · exact h.2.2.1 l hl
  · exact (select_candidate_mem hl).1

/-- After `mpls_prefix_select_lsp` on a well-formed record whose selected LSP
is null whenever no next hop can be read, the selection is up to date. -/
theorem select_lsp_sel_ok (K : zebra_consts) (drv : driver) (c : mpls_rn)
    (h : lb_wf c.alloc c.lb)
    (hnone : get_prefix_nexthop K c.info = none → c.lb.selected_lsp = none) :
    sel_ok K c.info (mpls_prefix_select_lsp K drv c).lb := by
  unfold sel_ok
  rw [select_lsp_lb K drv c h.1 h.2.2.1]
  unfold select_target
  cases hn : get_prefix_nexthop K c.info with
  | none => exact hnone hn
  | some n => simp [select_candidate]

/-- The same for the guarded call
`if (zebra_route_node_active (rn)) mpls_prefix_select_lsp (rn);`. -/
theorem maybe_select_sel_ok (K : zebra_consts) (drv : driver) (c : mpls_rn)
    (h : lb_wf c.alloc c.lb)
    (hnone : get_prefix_nexthop K c.info = none → c.lb.selected_lsp = none) :
    sel_ok K c.info
      (if zebra_route_node_active K c.info then mpls_prefix_select_lsp K drv c else c).lb := by
  split
  · exact select_lsp_sel_ok K drv c h hnone
  · rename_i hact
    have hn := nexthop_none_of_inactive K c.info (by simpa using hact)
    unfold sel_ok
    rw [hn]
    exact hnone hn

/-! ## The static-LSP mutators at node level -/

theorem maybe_select_frame (K : zebra_consts) (drv : driver) (c : mpls_rn) :
    quiet_frame c
      (if zebra_route_node_active K c.info then mpls_prefix_select_lsp K drv c else c) ∧
    (if zebra_route_node_active K c.info then mpls_prefix_select_lsp K drv c else c).alloc
      = c.alloc := by
  split
  · exact select_lsp_frame K drv c
  · exact ⟨quiet_frame_refl c, rfl⟩

theorem maybe_select_same (K : zebra_consts) (drv : driver) (c : mpls_rn) :
    same_in_labels c.lb
      (if zebra_route_node_active K c.info then mpls_prefix_select_lsp K drv c else c).lb ∧
    same_owned c.lb
      (if zebra_route_node_active K c.info then mpls_prefix_select_lsp K drv c else c).lb := by
  split
  · exact select_lsp_same K drv c
  · exact ⟨same_in_labels_refl _, same_owned_refl _⟩

theorem maybe_select_wf (K : zebra_consts) (drv : driver) (c : mpls_rn)
    (h : lb_wf c.alloc c.lb) :
    lb_wf (if zebra_route_node_active K c.info then mpls_prefix_select_lsp K drv c else c).alloc
      (if zebra_route_node_active K c.info then mpls_prefix_select_lsp K drv c else c).lb := by
  split
  · exact select_lsp_wf K drv c h
  · exact h

/-- In a list of LSPs at distinct addresses, deleting the node at address `q`
leaves no LSP at `q`. -/
theorem eraseP_ptr_ne (l : List route_lsp) (q : Nat)
    (hnd : (l.map (fun x => x.ptr)).Nodup) :
    ∀ x ∈ l.eraseP (fun x => x.ptr == q), x.ptr ≠ q := by
  induction l with
  | nil => intro x hx; simp at hx
  | cons a t ih =>
    intro x hx
    rw [List.map_cons, List.nodup_cons] at hnd
    by_cases ha : a.ptr = q
    · have he : (a :: t).eraseP (fun x => x.ptr == q) = t := by
        simp [List.eraseP_cons, ha]
      rw [he] at hx
      intro hxq
      apply hnd.1
      rw [ha, ← hxq]
      exact List.mem_map_of_mem _ hx
    · have he : (a :: t).eraseP (fun x => x.ptr == q) =
          a :: t.eraseP (fun x => x.ptr == q) := by
        simp [List.eraseP_cons, ha]
      rw [he] at hx
      rcases List.mem_cons.1 hx with hx | hx
      · rw [hx]; exact ha
      · exact ih hnd.2 x hx

/-- In a list with distinct addresses and distinct next hops, deleting the
first LSP with next hop `n` by its address leaves no LSP with next hop `n`. -/
theorem eraseP_nexthop_ne (l : List route_lsp) (n : Nat) (lsp : route_lsp)
    (hpd : (l.map (fun x => x.ptr)).Nodup)
    (hnd : (l.map (fun x => x.nexthop)).Nodup)
    (hf : l.find? (fun x => x.nexthop == n) = some lsp) :
    ∀ x ∈ l.eraseP (fun x => x.ptr == lsp.ptr), x.nexthop ≠ n := by
  have hmem : lsp ∈ l := List.mem_of_find?_eq_some hf
  have hn : lsp.nexthop = n := by simpa using List.find?_some hf
  intro x hx hxn
  have hxl : x ∈ l := List.mem_of_mem_eraseP hx
  have hxe : x = lsp := List.inj_on_of_nodup_map hnd hxl hmem (hxn.trans hn.symm)
  exact eraseP_ptr_ne l lsp.ptr hpd x hx (by rw [hxe])

theorem remove_static_lsp_rn_frame (K : zebra_consts) (drv : driver) (c : mpls_rn) (n : Nat) :
    quiet_frame c (remove_static_lsp_rn K drv c n) ∧
    (remove_static_lsp_rn K drv c n).alloc = c.alloc ∧
    same_in_labels c.lb (remove_static_lsp_rn K drv c n).lb ∧
    (remove_static_lsp_rn K drv c n).lb.ldp_lsp = c.lb.ldp_lsp ∧
    (remove_static_lsp_rn K drv c n).lb.static_lsps =
      (match c.lb.static_lsps.find? (fun x => x.nexthop == n) with
       | none => c.lb.static_lsps
       | some lsp => listnode_delete c.lb.static_lsps lsp) := by
  unfold remove_static_lsp_rn
  cases hf : c.lb.static_lsps.find? (fun x => x.nexthop == n) with
  | none => exact ⟨quiet_frame_refl c, rfl, same_in_labels_refl _, rfl, rfl⟩
  | some lsp =>
    dsimp only
    have h1 := remove_lsp_frame K c lsp
    have h2 := remove_lsp_same K c lsp
    generalize mpls_prefix_remove_lsp K c lsp = c1 at h1 h2 ⊢
    have hf2 := maybe_select_frame K drv
      { c1 with lb := { c1.lb with static_lsps := listnode_delete c1.lb.static_lsps lsp } }
    have hs2 := maybe_select_same K drv
      { c1 with lb := { c1.lb with static_lsps := listnode_delete c1.lb.static_lsps lsp } }
    dsimp only at hf2 hs2
    refine ⟨quiet_frame_trans (quiet_frame_trans h1.1 (quiet_frame_lb c1 _)) hf2.1,
      hf2.2.trans h1.2, same_in_labels_trans h2.1 hs2.1, ?_, ?_⟩
    · rw [hs2.2.2]; exact h2.2.2
    · rw [hs2.2.1, h2.2.1]

theorem remove_static_lsp_rn_wf (K : zebra_consts) (drv : driver) (c : mpls_rn) (n : Nat)
    (h : lb_wf c.alloc c.lb) :
    lb_wf (remove_static_lsp_rn K drv c n).alloc (remove_static_lsp_rn K drv c n).lb ∧
    (∀ x ∈ (remove_static_lsp_rn K drv c n).lb.static_lsps, x.nexthop ≠ n) ∧
    (∀ lsp, c.lb.static_lsps.find? (fun x => x.nexthop == n) = some lsp →
      ptr_of (remove_static_lsp_rn K drv c n).lb.selected_lsp ≠ some lsp.ptr) ∧
    (sel_ok K c.info c.lb → sel_ok K c.info (remove_static_lsp_rn K drv c n).lb) := by
  have hfr := remove_static_lsp_rn_frame K drv c n
  cases hf : c.lb.static_lsps.find? (fun x => x.nexthop == n) with
  | none =>
    have he : remove_static_lsp_rn K drv c n = c := by
      unfold remove_static_lsp_rn; rw [hf]
    rw [he]
    refine ⟨h, ?_, ?_, fun hs => hs⟩
    · intro x hx
      have := List.find?_eq_none.1 hf x hx
      simpa using this
    · intro lsp hl; cases hl
  | some lsp =>
    have hmem : lsp ∈ c.lb.static_lsps := List.mem_of_find?_eq_some hf
    have hmeml : lsp ∈ lsps c.lb := by simp [lsps, hmem]
    -- the record after the LSP was unselected and unlinked
    have hc2 : ∃ c2 : mpls_rn, remove_static_lsp_rn K drv c n =
        (if zebra_route_node_active K c2.info then mpls_prefix_select_lsp K drv c2 else c2) ∧
        c2.info = c.info ∧ c2.alloc = c.alloc ∧
        c2.lb = { c.lb with
          static_lsps := c.lb.static_lsps.eraseP (fun x => x.ptr == lsp.ptr),
          selected_lsp :=
            if ptr_of c.lb.selected_lsp = some lsp.ptr then none else c.lb.selected_lsp } := by
      refine ⟨{ mpls_prefix_remove_lsp K c lsp with
        lb := { (mpls_prefix_remove_lsp K c lsp).lb with
          static_lsps := listnode_delete (mpls_prefix_remove_lsp K c lsp).lb.static_lsps lsp } },
        ?_, (remove_lsp_frame K c lsp).1.2.1, (remove_lsp_frame K c lsp).2, ?_⟩
      · unfold remove_static_lsp_rn; rw [hf]
      · simp [remove_lsp_lb, listnode_delete]
    obtain ⟨c2, hres, hinfo, halloc, hlb⟩ := hc2
    have hlsps : lsps c2.lb = (lsps c.lb).eraseP (fun x => x.ptr == lsp.ptr) := by
      rw [hlb]
      simp only [lsps]
      exact (@List.eraseP_append_left _ (fun x : route_lsp => x.ptr == lsp.ptr) lsp
        (by simp) _ _ hmem).symm
    have hne : ∀ x ∈ lsps c2.lb, x.ptr ≠ lsp.ptr := by
      rw [hlsps]; exact eraseP_ptr_ne _ _ h.1
    have hwf2 : lb_wf c2.alloc c2.lb := by
      refine ⟨?_, ?_, ?_, ?_⟩
      · rw [hlsps]
        exact List.Nodup.sublist ((List.eraseP_sublist _).map _) h.1
      · intro l hl
        rw [hlsps] at hl
        rw [halloc]
        exact h.2.1 l (List.mem_of_mem_eraseP hl)
      · intro l hl
        rw [hlsps]
        rw [hlb] at hl
        dsimp only at hl
        split at hl
        · cases hl
        · rename_i hp
          have hl' := h.2.2.1 l hl
          have : ¬ ((fun x : route_lsp => x.ptr == lsp.ptr) l = true) := by
            intro hq
            apply hp
            simp at hq
            simp [hl, ptr_of, hq]
          exact (@List.mem_eraseP_of_neg _ (fun x : route_lsp => x.ptr == lsp.ptr) l _ this).2 hl'
      · rw [hlb]
        exact List.Nodup.sublist ((List.eraseP_sublist _).map _) h.2.2.2
    have hwf := maybe_select_wf K drv c2 hwf2
    have hsame := maybe_select_same K drv c2
    rw [← hres] at hwf hsame
    refine ⟨hwf, ?_, ?_, ?_⟩
    · intro x hx
      rw [hsame.2.1, hlb] at hx
      exact eraseP_nexthop_ne c.lb.static_lsps n lsp
        (List.Nodup.sublist ((List.sublist_append_left _ _).map _) h.1) h.2.2.2 hf x hx
    · intro lsp' hl'
      cases hl'
      intro hq
      cases hs : (remove_static_lsp_rn K drv c n).lb.selected_lsp with
      | none => rw [hs] at hq; cases hq
      | some l =>
        rw [hs] at hq
        have hown := hwf.2.2.1 l hs
        rw [same_owned_lsps hsame.2] at hown
        simp [ptr_of] at hq
        exact hne l hown hq
    · intro hok
      have := maybe_select_sel_ok K drv c2 hwf2 (by
        intro hn
        rw [hinfo] at hn
        unfold sel_ok at hok
        rw [hn] at hok
        rw [hlb]
        dsimp only
        rw [hok]
        simp [ptr_of])
      rw [← hres, hinfo] at this
      exact this

theorem add_static_lsp_loop_preserves (K : zebra_consts) (drv : driver) (nexthop label : Nat)
    (P : mpls_rn → Prop) (hP : ∀ c n, P c → P (remove_static_lsp_rn K drv c n))
    (l : List route_lsp) (c : mpls_rn) (h : P c) :
    P (add_static_lsp_loop K drv nexthop label l c).2 := by
  induction l generalizing c with
  | nil => exact h
  | cons a t ih =>
    unfold add_static_lsp_loop
    split
    · split
      · exact h
      · exact ih _ (hP c a.nexthop h)
    · exact ih c h

/-- When the loop of `mpls_prefix_add_static_lsp` runs to its end, no static
LSP with the next hop is left. -/
theorem add_static_lsp_loop_clears (K : zebra_consts) (drv : driver) (nexthop label : Nat)
    (l : List route_lsp) (c : mpls_rn) (h : lb_wf c.alloc c.lb)
    (hl : ∀ x ∈ c.lb.static_lsps, x.nexthop = nexthop → x ∈ l)
    (hr : (add_static_lsp_loop K drv nexthop label l c).1 = false) :
    ∀ x ∈ (add_static_lsp_loop K drv nexthop label l c).2.lb.static_lsps,
      x.nexthop ≠ nexthop := by
  induction l generalizing c with
  | nil =>
    intro x hx hn
    have := hl x hx hn
    simp at this
  | cons a t ih =>
    unfold add_static_lsp_loop at hr ⊢
    by_cases ha : a.nexthop = nexthop
    · rw [if_pos ha] at hr ⊢
      by_cases hlab : a.remote_label = label
      · rw [if_pos hlab] at hr; cases hr
      · rw [if_neg hlab] at hr ⊢
        have hw := remove_static_lsp_rn_wf K drv c a.nexthop h
        refine ih _ hw.1 ?_ hr
        intro x hx hn
        exact absurd (hn.trans ha.symm) (hw.2.1 x hx)
    · rw [if_neg ha] at hr ⊢
      refine ih c h ?_ hr
      intro x hx hn
      rcases List.mem_cons.1 (hl x hx hn) with hxa | hxt
      · rw [hxa] at hn; exact absurd hn ha
      · exact hxt

theorem add_static_lsp_rn_frame (K : zebra_consts) (drv : driver) (c : mpls_rn)
    (nexthop label : Nat) :
    quiet_frame c (add_static_lsp_rn K drv c nexthop label) ∧
    same_in_labels c.lb (add_static_lsp_rn K drv c nexthop label).lb ∧
    (add_static_lsp_rn K drv c nexthop label).lb.ldp_lsp = c.lb.ldp_lsp := by
  have hloop := add_static_lsp_loop_preserves K drv nexthop label
    (fun c' => quiet_frame c c' ∧ same_in_labels c.lb c'.lb ∧ c'.lb.ldp_lsp = c.lb.ldp_lsp)
    (fun c1 n h1 => by
      have hf := remove_static_lsp_rn_frame K drv c1 n
      exact ⟨quiet_frame_trans h1.1 hf.1, same_in_labels_trans h1.2.1 hf.2.2.1,
        hf.2.2.2.1.trans h1.2.2⟩)
    c.lb.static_lsps c ⟨quiet_frame_refl c, same_in_labels_refl _, rfl⟩
  unfold add_static_lsp_rn
  generalize add_static_lsp_loop K drv nexthop label c.lb.static_lsps c = r at hloop ⊢
  obtain ⟨b, c'⟩ := r
  cases b with
  | true => exact hloop
  | false =>
    dsimp only at hloop ⊢
    have hq : quiet_frame c' (create_static_lsp c' nexthop label) :=
      ⟨rfl, rfl, rfl, Nat.le_succ _, [], by simp [create_static_lsp], rfl⟩
    have hf := maybe_select_frame K drv (create_static_lsp c' nexthop label)
    have hs := maybe_select_same K drv (create_static_lsp c' nexthop label)
    refine ⟨quiet_frame_trans (quiet_frame_trans hloop.1 hq) hf.1,
      same_in_labels_trans hloop.2.1 hs.1, ?_⟩
    rw [hs.2.2]; exact hloop.2.2

/-- Appending a new LSP at the next free address, with a next hop the list
does not have, keeps the record well formed. -/
theorem lb_wf_append (a : Nat) (lb : label_bindings) (nexthop label : Nat)
    (h : lb_wf a lb) (hn : ∀ x ∈ lb.static_lsps, x.nexthop ≠ nexthop) :
    lb_wf (a + 1)
      { lb with static_lsps := lb.static_lsps ++ [route_lsp_new a nexthop label] } := by
  obtain ⟨h1, h2, h3, h4⟩ := h
  have hfresh : ∀ x ∈ lsps lb, x.ptr ≠ a := fun x hx => Nat.ne_of_lt (h2 x hx)
  refine ⟨?_, ?_, ?_, ?_⟩
  · simp only [lsps, List.map_append, List.map_cons, List.map_nil, List.append_assoc,
      List.singleton_append]
    rw [List.nodup_middle, List.nodup_cons]
    refine ⟨?_, by simpa [lsps] using h1⟩
    intro hmem
    rw [← List.map_append] at hmem
    obtain ⟨x, hx, hxa⟩ := List.mem_map.1 hmem
    exact hfresh x (by simpa [lsps] using hx) hxa
  · intro l hl
    simp only [lsps, List.mem_append, List.mem_singleton] at hl
    rcases hl with (hl | hl) | hl
    · exact Nat.lt_succ_of_lt (h2 l (by simp [lsps, hl]))
    · rw [hl]; exact Nat.lt_succ_self a
    · exact Nat.lt_succ_of_lt (h2 l (by simp [lsps, hl]))
  · intro l hl
    have := h3 l hl
    simp only [lsps, List.mem_append] at this ⊢
    rcases this with this | this
    · exact Or.inl (Or.inl this)
    · exact Or.inr this
  · simp only [List.map_append, List.map_cons, List.map_nil]
    rw [List.nodup_append]
    refine ⟨h4, by simp, ?_⟩
    intro x hx1 hx2
    simp only [List.mem_singleton] at hx2
    obtain ⟨y, hy, hyx⟩ := List.mem_map.1 hx1
    exact hn y hy (hyx.trans (by rw [hx2]; rfl))

theorem add_static_lsp_rn_wf (K : zebra_consts) (drv : driver) (c : mpls_rn)
    (nexthop label : Nat) (h : lb_wf c.alloc c.lb) :
    lb_wf (add_static_lsp_rn K drv c nexthop label).alloc
      (add_static_lsp_rn K drv c nexthop label).lb ∧
    (sel_ok K c.info c.lb → sel_ok K c.info (add_static_lsp_rn K drv c nexthop label).lb) := by
  have hloop := add_static_lsp_loop_preserves K drv nexthop label
    (fun c' => lb_wf c'.alloc c'.lb ∧ c'.info = c.info ∧
      (sel_ok K c.info c.lb → sel_ok K c.info c'.lb))
    (fun c1 n h1 => by
      have hw := remove_static_lsp_rn_wf K drv c1 n h1.1
      have hf := remove_static_lsp_rn_frame K drv c1 n
      refine ⟨hw.1, hf.1.2.1.trans h1.2.1, fun hs => ?_⟩
      have := hw.2.2.2 (by rw [h1.2.1]; exact h1.2.2 hs)
      rw [h1.2.1] at this
      exact this)
    c.lb.static_lsps c ⟨h, rfl, fun hs => hs⟩
  have hclear := add_static_lsp_loop_clears K drv nexthop label c.lb.static_lsps c h
    (fun x hx _ => hx)
  unfold add_static_lsp_rn
  generalize add_static_lsp_loop K drv nexthop label c.lb.static_lsps c = r at hloop hclear ⊢
  obtain ⟨b, c'⟩ := r
  cases b with
  | true => exact ⟨hloop.1, hloop.2.2⟩
  | false =>
    dsimp only at hloop hclear ⊢
    have hwf3 : lb_wf (create_static_lsp c' nexthop label).alloc
        (create_static_lsp c' nexthop label).lb :=
      lb_wf_append c'.alloc c'.lb nexthop label hloop.1 (hclear rfl)
    have hinfo3 : (create_static_lsp c' nexthop label).info = c.info := hloop.2.1
    have hsel3 : (create_static_lsp c' nexthop label).lb.selected_lsp = c'.lb.selected_lsp := rfl
    have hw := maybe_select_wf K drv (create_static_lsp c' nexthop label) hwf3
    refine ⟨hw, fun hs => ?_⟩
    have hok := hloop.2.2 hs
    have := maybe_select_sel_ok K drv (create_static_lsp c' nexthop label) hwf3 (by
      intro hn
      rw [hinfo3] at hn
      unfold sel_ok at hok
      rw [hn] at hok
      rw [hsel3]
      exact hok)
    rw [hinfo3] at this ⊢
    exact this

/-! ## The LDP-LSP mutators at node level -/

theorem drop_ldp_frame (K : zebra_consts) (c : mpls_rn) (l : route_lsp) :
    quiet_frame c (drop_ldp K c l) ∧ (drop_ldp K c l).alloc = c.alloc ∧
    same_in_labels c.lb (drop_ldp K c l).lb ∧
    (drop_ldp K c l).lb.static_lsps = c.lb.static_lsps ∧
    (drop_ldp K c l).lb.ldp_lsp = none ∧
    (drop_ldp K c l).lb.selected_lsp =
      (if ptr_of c.lb.selected_lsp = some l.ptr then none else c.lb.selected_lsp) := by
  have h1 := remove_lsp_frame K c l
  have h2 := remove_lsp_same K c l
  have h3 := remove_lsp_lb K c l
  unfold drop_ldp
  generalize mpls_prefix_remove_lsp K c l = c1 at h1 h2 h3 ⊢
  refine ⟨quiet_frame_trans h1.1 (quiet_frame_lb c1 _), h1.2, h2.1, h2.2.1, rfl, ?_⟩
  show c1.lb.selected_lsp = _
  rw [h3]

theorem drop_ldp_wf (K : zebra_consts) (c : mpls_rn) (l : route_lsp)
    (hl : c.lb.ldp_lsp = some l) (h : lb_wf c.alloc c.lb) :
    lb_wf (drop_ldp K c l).alloc (drop_ldp K c l).lb ∧
    (∀ x ∈ lsps (drop_ldp K c l).lb, x.ptr ≠ l.ptr) := by
  obtain ⟨-, ha, -, hst, hldp, hsel⟩ := drop_ldp_frame K c l
  obtain ⟨h1, h2, h3, h4⟩ := h
  have hlsps : lsps (drop_ldp K c l).lb = c.lb.static_lsps := by simp [lsps, hst, hldp]
  have hold : lsps c.lb = c.lb.static_lsps ++ [l] := by simp [lsps, hl]
  rw [hold, List.map_append, List.nodup_append] at h1
  have hne : ∀ x ∈ c.lb.static_lsps, x.ptr ≠ l.ptr := by
    intro x hx hq
    exact h1.2.2 (List.mem_map_of_mem _ hx) (by simp [hq])
  refine ⟨⟨?_, ?_, ?_, ?_⟩, ?_⟩
  · rw [hlsps]; exact h1.1
  · intro x hx
    rw [hlsps] at hx
    rw [ha]
    exact h2 x (by simp [hold, hx])
  · intro x hx
    rw [hlsps]
    rw [hsel] at hx
    split at hx
    · cases hx
    · rename_i hp
      have hm := h3 x hx
      rw [hold] at hm
      rcases List.mem_append.1 hm with hm | hm
      · exact hm
      · exfalso
        apply hp
        simp only [List.mem_singleton] at hm
        simp [hx, ptr_of, hm]
  · rw [hst]; exact h4
  · rw [hlsps]; exact hne

theorem create_ldp_lsp_wf (c : mpls_rn) (nexthop label : Nat) (hl : c.lb.ldp_lsp = none)
    (h : lb_wf c.alloc c.lb) :
    lb_wf (create_ldp_lsp c nexthop label).alloc (create_ldp_lsp c nexthop label).lb ∧
    (∀ x ∈ lsps (create_ldp_lsp c nexthop label).lb, x ∈ lsps c.lb ∨ x.ptr = c.alloc) := by
  obtain ⟨h1, h2, h3, h4⟩ := h
  have hold : lsps c.lb = c.lb.static_lsps := by simp [lsps, hl]
  have hnew : lsps (create_ldp_lsp c nexthop label).lb =
      c.lb.static_lsps ++ [route_lsp_new c.alloc nexthop label] := by
    simp [lsps, create_ldp_lsp]
  refine ⟨⟨?_, ?_, ?_, h4⟩, ?_⟩
  · rw [hnew, List.map_append, List.nodup_append]
    rw [hold] at h1
    refine ⟨h1, by simp, ?_⟩
    intro x hx1 hx2
    obtain ⟨y, hy, hyx⟩ := List.mem_map.1 hx1
    simp only [List.map_cons, List.map_nil, List.mem_singleton] at hx2
    have := h2 y (by rw [hold]; exact hy)
    rw [hyx, hx2] at this
    exact absurd this (by simp [route_lsp_new])
  · intro x hx
    rw [hnew] at hx
    rcases List.mem_append.1 hx with hx | hx
    · exact Nat.lt_succ_of_lt (h2 x (by rw [hold]; exact hx))
    · simp only [List.mem_singleton] at hx
      rw [hx]
      exact Nat.lt_succ_self _
  · intro x hx
    rw [hnew]
    have := h3 x hx
    rw [hold] at this
    exact List.mem_append_left _ this
  · intro x hx
    rw [hnew] at hx
    rcases List.mem_append.1 hx with hx | hx
    · left; rw [hold]; exact hx
    · right
      simp only [List.mem_singleton] at hx
      rw [hx]; rfl

theorem set_ldp_lsp_rn_frame (K : zebra_consts) (drv : driver) (c : mpls_rn)
    (nexthop label : Nat) :
    quiet_frame c (set_ldp_lsp_rn K drv c nexthop label) ∧
    same_in_labels c.lb (set_ldp_lsp_rn K drv c nexthop label).lb ∧
    (set_ldp_lsp_rn K drv c nexthop label).lb.static_lsps = c.lb.static_lsps := by
  unfold set_ldp_lsp_rn
  split
  · exact ⟨quiet_frame_refl c, same_in_labels_refl _, rfl⟩
  · have hr : ∃ c1, (match c.lb.ldp_lsp with
        | some l =>
          let c := mpls_prefix_remove_lsp K c l
          { c with lb := XFREE_ldp_lsp c.lb }
        | none => c) = c1 ∧ quiet_frame c c1 ∧ same_in_labels c.lb c1.lb ∧
        c1.lb.static_lsps = c.lb.static_lsps := by
      cases c.lb.ldp_lsp with
      | none => exact ⟨c, rfl, quiet_frame_refl c, same_in_labels_refl _, rfl⟩
      | some l =>
        have := drop_ldp_frame K c l
        exact ⟨drop_ldp K c l, rfl, this.1, this.2.2.1, this.2.2.2.1⟩
    obtain ⟨c1, hc1, hf1, hs1, hst1⟩ := hr
    rw [hc1]
    dsimp only
    have hq : quiet_frame c1 (create_ldp_lsp c1 nexthop label) :=
      ⟨rfl, rfl, rfl, Nat.le_succ _, [], by simp [create_ldp_lsp], rfl⟩
    have hf := maybe_select_frame K drv (create_ldp_lsp c1 nexthop label)
    have hs := maybe_select_same K drv (create_ldp_lsp c1 nexthop label)
    refine ⟨quiet_frame_trans (quiet_frame_trans hf1 hq) hf.1,
      same_in_labels_trans hs1 hs.1, ?_⟩
    rw [hs.2.1]; exact hst1

theorem set_ldp_lsp_rn_wf (K : zebra_consts) (drv : driver) (c : mpls_rn)
    (nexthop label : Nat) (h : lb_wf c.alloc c.lb) :
    lb_wf (set_ldp_lsp_rn K drv c nexthop label).alloc
      (set_ldp_lsp_rn K drv c nexthop label).lb ∧
    (∀ l, c.lb.ldp_lsp = some l → ldp_lsp_is c.lb.ldp_lsp nexthop label = false →
      ptr_of (set_ldp_lsp_rn K drv c nexthop label).lb.selected_lsp ≠ some l.ptr) ∧
    (sel_ok K c.info c.lb → sel_ok K c.info (set_ldp_lsp_rn K drv c nexthop label).lb) := by
  unfold set_ldp_lsp_rn
  split
  · rename_i his
    refine ⟨h, ?_, fun hs => hs⟩
    intro l _ hn
    rw [his] at hn; cases hn
  · have hr : ∃ c1, (match c.lb.ldp_lsp with
        | some l =>
          let c := mpls_prefix_remove_lsp K c l
          { c with lb := XFREE_ldp_lsp c.lb }
        | none => c) = c1 ∧ lb_wf c1.alloc c1.lb ∧ c1.lb.ldp_lsp = none ∧ c1.info = c.info ∧
        c.alloc ≤ c1.alloc ∧
        (∀ l, c.lb.ldp_lsp = some l → ∀ x ∈ lsps c1.lb, x.ptr ≠ l.ptr) ∧
        (∀ l, c.lb.ldp_lsp = some l → l.ptr < c.alloc) ∧
        (c.lb.selected_lsp = none → c1.lb.selected_lsp = none) := by
      cases hl : c.lb.ldp_lsp with
      | none =>
        refine ⟨c, rfl, h, hl, rfl, le_refl _, ?_, ?_, fun hs => hs⟩
        · intro l hl'; cases hl'
        · intro l hl'; cases hl'
      | some l =>
        have hf := drop_ldp_frame K c l
        have hw := drop_ldp_wf K c l hl h
        refine ⟨drop_ldp K c l, rfl, hw.1, hf.2.2.2.2.1, hf.1.2.1, le_of_eq hf.2.1.symm,
          ?_, ?_, ?_⟩
        · intro l' hl'
          cases hl'
          exact hw.2
        · intro l' hl'
          cases hl'
          exact h.2.1 l (by simp [lsps, hl])
        · intro hs
          rw [hf.2.2.2.2.2, hs]
          simp
    obtain ⟨c1, hc1, hw1, hl1, hi1, ha1, hne1, hlt1, hsn1⟩ := hr
    rw [hc1]
    dsimp only
    have hw2 := create_ldp_lsp_wf c1 nexthop label hl1 hw1
    have hwf := maybe_select_wf K drv (create_ldp_lsp c1 nexthop label) hw2.1
    have hsame := maybe_select_same K drv (create_ldp_lsp c1 nexthop label)
    have hinfo2 : (create_ldp_lsp c1 nexthop label).info = c.info := hi1
    refine ⟨hwf, ?_, ?_⟩
    · intro l hl _ hq
      cases hs : (if zebra_route_node_active K (create_ldp_lsp c1 nexthop label).info = true
          then mpls_prefix_select_lsp K drv (create_ldp_lsp c1 nexthop label)
          else create_ldp_lsp c1 nexthop label).lb.selected_lsp with
      | none => rw [hs] at hq; cases hq
      | some x =>
        rw [hs] at hq
        simp only [ptr_of, Option.map_some', Option.some.injEq] at hq
        have hown := hwf.2.2.1 x hs
        rw [same_owned_lsps hsame.2] at hown
        rcases hw2.2 x hown with hx | hx
        · exact hne1 l hl x hx hq
        · have := hlt1 l hl
          omega
    · intro hok
      have := maybe_select_sel_ok K drv (create_ldp_lsp c1 nexthop label) hw2.1 (by
        intro hn
        rw [hinfo2] at hn
        unfold sel_ok at hok
        rw [hn] at hok
        exact hsn1 hok)
      rw [hinfo2] at this ⊢
      exact this

theorem sel_ok_congr_info {K : zebra_consts} {info info' : List rib} {lb : label_bindings}
    (h : info = info') (hs : sel_ok K info lb) : sel_ok K info' lb := by
  subst h; exact hs

theorem remove_ldp_lsp_rn_frame (K : zebra_consts) (drv : driver) (c : mpls_rn)
    (nexthop label : Nat) :
    quiet_frame c (remove_ldp_lsp_rn K drv c nexthop label) ∧
    same_in_labels c.lb (remove_ldp_lsp_rn K drv c nexthop label).lb ∧
    (remove_ldp_lsp_rn K drv c nexthop label).lb.static_lsps = c.lb.static_lsps := by
  unfold remove_ldp_lsp_rn
  split
  · exact ⟨quiet_frame_refl c, same_in_labels_refl _, rfl⟩
  · rename_i l hl
    split
    · exact ⟨quiet_frame_refl c, same_in_labels_refl _, rfl⟩
    · have hd := drop_ldp_frame K c l
      have hf := maybe_select_frame K drv (drop_ldp K c l)
      have hs := maybe_select_same K drv (drop_ldp K c l)
      refine ⟨quiet_frame_trans hd.1 hf.1, same_in_labels_trans hd.2.2.1 hs.1, ?_⟩
      exact hs.2.1.trans hd.2.2.2.1

theorem remove_ldp_lsp_rn_wf (K : zebra_consts) (drv : driver) (c : mpls_rn)
    (nexthop label : Nat) (h : lb_wf c.alloc c.lb) :
    lb_wf (remove_ldp_lsp_rn K drv c nexthop label).alloc
      (remove_ldp_lsp_rn K drv c nexthop label).lb ∧
    (∀ l, c.lb.ldp_lsp = some l → l.nexthop = nexthop → l.remote_label = label →
      (remove_ldp_lsp_rn K drv c nexthop label).lb.ldp_lsp = none ∧
      ptr_of (remove_ldp_lsp_rn K drv c nexthop label).lb.selected_lsp ≠ some l.ptr) ∧
    (sel_ok K c.info c.lb → sel_ok K c.info (remove_ldp_lsp_rn K drv c nexthop label).lb) := by
  unfold remove_ldp_lsp_rn
  split
  · rename_i hl
    refine ⟨h, ?_, fun hs => hs⟩
    intro l hl'
    rw [hl] at hl'; cases hl'
  · rename_i l hl
    split
    · rename_i hne
      refine ⟨h, ?_, fun hs => hs⟩
      intro l' hl' h1 h2
      rw [hl] at hl'
      cases hl'
      rcases hne with hne | hne
      · exact absurd h1 hne
      · exact absurd h2 hne
    · have hd := drop_ldp_frame K c l
      have hw := drop_ldp_wf K c l hl h
      have hwf := maybe_select_wf K drv (drop_ldp K c l) hw.1
      have hsame := maybe_select_same K drv (drop_ldp K c l)
      refine ⟨hwf, ?_, ?_⟩
      · intro l' hl' _ _
        rw [hl] at hl'
        cases hl'
        refine ⟨hsame.2.2.trans hd.2.2.2.2.1, ?_⟩
        intro hq0
        have hq : ptr_of (if zebra_route_node_active K (drop_ldp K c l).info = true
            then mpls_prefix_select_lsp K drv (drop_ldp K c l)
            else drop_ldp K c l).lb.selected_lsp = some l.ptr := hq0
        cases hs : (if zebra_route_node_active K (drop_ldp K c l).info = true
            then mpls_prefix_select_lsp K drv (drop_ldp K c l)
            else drop_ldp K c l).lb.selected_lsp with
        | none => rw [hs] at hq; cases hq
        | some x =>
          rw [hs] at hq
          simp only [ptr_of, Option.map_some', Option.some.injEq] at hq
          have hown := hwf.2.2.1 x hs
          rw [same_owned_lsps hsame.2] at hown
          exact hw.2 x hown hq
      · intro hok
        have := maybe_select_sel_ok K drv (drop_ldp K c l) hw.1 (by
          intro hn
          rw [hd.1.2.1] at hn
          unfold sel_ok at hok
          rw [hn] at hok
          rw [hd.2.2.2.2.2, hok]
          simp)
        exact sel_ok_congr_info hd.1.2.1 this

/-! ## The in-label mutators at node level, in closed form -/

theorem set_static_input_label_rn_eq (K : zebra_consts) (c : mpls_rn) (label : Nat) :
    set_static_input_label_rn K c label =
      if c.lb.static_in_label = label then c
      else { c with lb := { c.lb with static_in_label := label, selected_in_label := label },
                    log := c.log ++ set_static_events K c label } := by
  unfold set_static_input_label_rn set_static_events
  by_cases h1 : c.lb.static_in_label = label
  · simp [h1]
  · simp only [h1, if_false]
    by_cases ha : zebra_route_node_active K c.info = true
    · by_cases hs : c.lb.selected_in_label = NO_LABEL
      · cases hl : c.lb.selected_lsp <;>
          simp [ha, hs, hl, emit, zsend_all, broadcast, xc_register_if, xc_unregister_if]
      · cases hl : c.lb.selected_lsp <;>
          simp [ha, hs, hl, emit, zsend_all, broadcast, xc_register_if, xc_unregister_if]
    · simp [ha]

theorem remove_static_input_label_rn_eq (K : zebra_consts) (c : mpls_rn) (label : Nat) :
    remove_static_input_label_rn K c label =
      if c.lb.static_in_label = NO_LABEL then c
      else if label ≠ NO_LABEL ∧ c.lb.static_in_label ≠ label then c
      else { c with lb := { c.lb with static_in_label := NO_LABEL,
                                      selected_in_label := remove_static_selected K c },
                    log := c.log ++ remove_static_events K c } := by
  unfold remove_static_input_label_rn remove_static_events remove_static_selected
  by_cases h1 : c.lb.static_in_label = NO_LABEL
  · simp [h1]
  · simp only [h1, if_false]
    by_cases h2 : label ≠ NO_LABEL ∧ c.lb.static_in_label ≠ label
    · simp [h2]
    · simp only [h2, if_false]
      by_cases ha : zebra_route_node_active K c.info = true
      · by_cases hd : c.lb.ldp_in_label = NO_LABEL
        · cases hl : c.lb.selected_lsp <;>
            simp [ha, hd, hl, emit, zsend_all, broadcast, xc_register_if, xc_unregister_if]
        · cases hl : c.lb.selected_lsp <;>
            simp [ha, hd, hl, emit, zsend_all, broadcast, xc_register_if, xc_unregister_if]
      · by_cases hd : c.lb.ldp_in_label = NO_LABEL
        · simp [ha, hd]
        · simp [ha, hd]

theorem set_ldp_input_label_rn_eq (K : zebra_consts) (c : mpls_rn) (label : Nat) :
    set_ldp_input_label_rn K c label =
      if c.lb.static_in_label ≠ NO_LABEL then
        { c with lb := { c.lb with ldp_in_label := label } }
      else if label ≠ NO_LABEL ∧ label = c.lb.selected_in_label then
        { c with lb := { c.lb with ldp_in_label := label } }
      else if zebra_route_node_active K c.info then
        { c with lb := { c.lb with ldp_in_label := label, selected_in_label := label },
                 log := c.log ++ set_ldp_events c label }
      else { c with lb := { c.lb with ldp_in_label := label } } := by
  unfold set_ldp_input_label_rn set_ldp_events
  by_cases h1 : c.lb.static_in_label = NO_LABEL
  · by_cases h2 : label ≠ NO_LABEL ∧ label = c.lb.selected_in_label
    · have h2' : ¬ label = NO_LABEL ∧ label = c.lb.selected_in_label := h2
      simp only [h1, ne_eq, not_true_eq_false, if_false, if_pos h2']
    · by_cases ha : zebra_route_node_active K c.info = true
      · by_cases hs : c.lb.selected_in_label = NO_LABEL
        · by_cases hl : label = NO_LABEL
          · cases hsel : c.lb.selected_lsp <;>
              simp [h1, ha, hs, hl, hsel, emit, xc_register_if, xc_unregister_if]
          · cases hsel : c.lb.selected_lsp <;>
              simp [h1, h2, ha, hs, hl, hsel, emit, xc_register_if, xc_unregister_if]
        · by_cases hl : label = NO_LABEL
          · cases hsel : c.lb.selected_lsp <;>
              simp [h1, ha, hs, hl, hsel, emit, xc_register_if, xc_unregister_if]
          · cases hsel : c.lb.selected_lsp <;>
              simp [h1, h2, ha, hs, hl, hsel, emit, xc_register_if, xc_unregister_if]
      · simp [h1, h2, ha]
  · simp [h1]

/-! ## The RIB hooks at node level -/

theorem route_install_hook_rn_frame (K : zebra_consts) (drv : driver) (c : mpls_rn) :
    quiet_frame c (route_install_hook_rn K drv c) ∧
    (route_install_hook_rn K drv c).alloc = c.alloc ∧
    same_in_labels c.lb (route_install_hook_rn K drv c).lb ∧
    same_owned c.lb (route_install_hook_rn K drv c).lb := by
  unfold route_install_hook_rn
  dsimp only
  split
  · have hf := select_lsp_frame K drv (emit c (event.ilm_register c.lb.selected_in_label))
    have hs := select_lsp_same K drv (emit c (event.ilm_register c.lb.selected_in_label))
    exact ⟨quiet_frame_trans (quiet_frame_emit _ _ (by rfl)) hf.1, hf.2, hs.1, hs.2⟩
  · have hf := select_lsp_frame K drv c
    have hs := select_lsp_same K drv c
    exact ⟨hf.1, hf.2, hs.1, hs.2⟩

theorem route_install_hook_rn_wf (K : zebra_consts) (drv : driver) (c : mpls_rn)
    (h : lb_wf c.alloc c.lb) :
    lb_wf (route_install_hook_rn K drv c).alloc (route_install_hook_rn K drv c).lb ∧
    ((get_prefix_nexthop K c.info = none → c.lb.selected_lsp = none) →
      sel_ok K c.info (route_install_hook_rn K drv c).lb) := by
  unfold route_install_hook_rn
  dsimp only
  split
  · exact ⟨select_lsp_wf K drv (emit c (event.ilm_register c.lb.selected_in_label)) h,
      fun hn => select_lsp_sel_ok K drv (emit c (event.ilm_register c.lb.selected_in_label)) h hn⟩
  · exact ⟨select_lsp_wf K drv c h, fun hn => select_lsp_sel_ok K drv c h hn⟩

theorem route_uninstall_hook_rn_frame (K : zebra_consts) (c : mpls_rn) :
    quiet_frame c (route_uninstall_hook_rn K c) ∧
    (route_uninstall_hook_rn K c).alloc = c.alloc ∧
    same_in_labels c.lb (route_uninstall_hook_rn K c).lb ∧
    same_owned c.lb (route_uninstall_hook_rn K c).lb ∧
    (route_uninstall_hook_rn K c).lb.selected_lsp = none := by
  unfold route_uninstall_hook_rn
  have hr : ∃ c1, (match c.lb.selected_lsp with
      | some sel => mpls_prefix_remove_lsp K c sel
      | none => c) = c1 ∧ quiet_frame c c1 ∧ c1.alloc = c.alloc ∧ same_in_labels c.lb c1.lb ∧
      same_owned c.lb c1.lb ∧ c1.lb.selected_lsp = none := by
    cases hs : c.lb.selected_lsp with
    | none =>
      exact ⟨c, rfl, quiet_frame_refl c, rfl, same_in_labels_refl _, same_owned_refl _, hs⟩
    | some sel =>
      refine ⟨_, rfl, (remove_lsp_frame K c sel).1, (remove_lsp_frame K c sel).2,
        (remove_lsp_same K c sel).1, (remove_lsp_same K c sel).2, ?_⟩
      rw [remove_lsp_lb]
      simp [hs, ptr_of]
  obtain ⟨c1, hc1, hf, ha, hi, ho, hs⟩ := hr
  rw [hc1]
  dsimp only
  split
  · exact ⟨quiet_frame_trans hf (quiet_frame_emit _ _ (by rfl)), ha, hi, ho, hs⟩
  · exact ⟨hf, ha, hi, ho, hs⟩

theorem route_uninstall_hook_rn_wf (K : zebra_consts) (c : mpls_rn)
    (h : lb_wf c.alloc c.lb) :
    lb_wf (route_uninstall_hook_rn K c).alloc (route_uninstall_hook_rn K c).lb := by
  obtain ⟨-, ha, -, ho, hs⟩ := route_uninstall_hook_rn_frame K c
  rw [ha]
  refine lb_wf_selected h ho ?_
  intro l hl
  rw [hs] at hl
  cases hl

/-! ## From the node to the process state -/

theorem route_node_get_mpls_table (s : zebra) (p q : Prefix) :
    (route_node_get_mpls s p).table q =
      if q = p then { info := (s.table p).info, mpls := some (bindings s p) } else s.table q := by
  unfold route_node_get_mpls bindings
  cases hm : (s.table p).mpls with
  | some lb =>
    by_cases hq : q = p
    · subst hq
      simp only [if_true, Option.getD_some]
      cases ht : s.table q
      rw [ht] at hm
      simp at hm
      simp [hm]
    · simp [hq]
  | none =>
    by_cases hq : q = p
    · subst hq
      simp
    · simp [hq, Function.update_noteq hq]

/-- A public mutator is its body run on the node that the lookup returns. -/
theorem with_rn_get (f : mpls_rn → mpls_rn) (s : zebra) (p : Prefix) :
    with_rn f (route_node_get_mpls s p) p = put_rn s p (f (rn_of s p)) := by
  have ht := route_node_get_mpls_table s p
  have hc : (route_node_get_mpls s p).client_list = s.client_list ∧
      (route_node_get_mpls s p).alloc = s.alloc ∧ (route_node_get_mpls s p).log = s.log ∧
      (route_node_get_mpls s p).mpls_enabled = s.mpls_enabled ∧
      (route_node_get_mpls s p).mpls_crossconnect_list = s.mpls_crossconnect_list := by
    unfold route_node_get_mpls
    split <;> exact ⟨rfl, rfl, rfl, rfl, rfl⟩
  unfold with_rn
  have htp := ht p
  simp only [if_true] at htp
  rw [htp]
  dsimp only
  unfold put_rn rn_of
  rw [hc.1, hc.2.1, hc.2.2.1, hc.2.2.2.1, hc.2.2.2.2]
  have htab : ∀ x : route_node, Function.update (route_node_get_mpls s p).table p x =
      Function.update s.table p x := by
    intro x
    funext q
    by_cases hq : q = p
    · subst hq; simp
    · simp [Function.update_noteq hq, ht q, hq]
  rw [htab]

/-- A hook is its body run on the node, if the node has a bindings record. -/
theorem with_rn_hook (f : mpls_rn → mpls_rn) (s : zebra) (p : Prefix) :
    with_rn f s p = match (s.table p).mpls with
      | none => s
      | some _ => put_rn s p (f (rn_of s p)) := by
  unfold with_rn
  cases hm : (s.table p).mpls with
  | none => rfl
  | some lb =>
    dsimp only
    unfold put_rn rn_of bindings
    rw [hm]
    rfl

theorem put_rn_table (s : zebra) (p q : Prefix) (c : mpls_rn) :
    (put_rn s p c).table q =
      if q = p then { info := (s.table p).info, mpls := some c.lb } else s.table q := by
  unfold put_rn
  by_cases hq : q = p
  · subst hq; simp
  · simp [hq, Function.update_noteq hq]

theorem put_rn_bindings (s : zebra) (p : Prefix) (c : mpls_rn) :
    bindings (put_rn s p c) p = c.lb := by
  unfold bindings
  rw [put_rn_table]
  simp

theorem put_rn_log (s : zebra) (p : Prefix) (c : mpls_rn) : (put_rn s p c).log = c.log := rfl

theorem put_rn_alloc (s : zebra) (p : Prefix) (c : mpls_rn) :
    (put_rn s p c).alloc = c.alloc := rfl

theorem put_rn_client_list (s : zebra) (p : Prefix) (c : mpls_rn) :
    (put_rn s p c).client_list = s.client_list := rfl

theorem set_static_input_label_rn_frame (K : zebra_consts) (c : mpls_rn) (label : Nat) :
    in_label_frame c (set_static_input_label_rn K c label) := by
  rw [set_static_input_label_rn_eq]
  split <;> exact ⟨rfl, rfl, rfl, rfl, rfl, rfl, rfl⟩

theorem remove_static_input_label_rn_frame (K : zebra_consts) (c : mpls_rn) (label : Nat) :
    in_label_frame c (remove_static_input_label_rn K c label) := by
  rw [remove_static_input_label_rn_eq]
  split
  · exact ⟨rfl, rfl, rfl, rfl, rfl, rfl, rfl⟩
  · split <;> exact ⟨rfl, rfl, rfl, rfl, rfl, rfl, rfl⟩

theorem set_ldp_input_label_rn_frame (K : zebra_consts) (c : mpls_rn) (label : Nat) :
    in_label_frame c (set_ldp_input_label_rn K c label) := by
  rw [set_ldp_input_label_rn_eq]
  split
  · exact ⟨rfl, rfl, rfl, rfl, rfl, rfl, rfl⟩
  · split
    · exact ⟨rfl, rfl, rfl, rfl, rfl, rfl, rfl⟩
    · split <;> exact ⟨rfl, rfl, rfl, rfl, rfl, rfl, rfl⟩

theorem in_label_frame_wf {c c' : mpls_rn} (hf : in_label_frame c c')
    (h : lb_wf c.alloc c.lb) : lb_wf c'.alloc c'.lb := by
  obtain ⟨-, -, -, ha, h1, h2, h3⟩ := hf
  rw [ha]
  refine lb_wf_selected h ⟨h1, h2⟩ ?_
  intro l hl
  rw [same_owned_lsps ⟨h1, h2⟩]
  rw [h3] at hl
  exact h.2.2.1 l hl

theorem in_label_frame_sel_ok {K : zebra_consts} {c c' : mpls_rn} (hf : in_label_frame c c')
    (h : sel_ok K c.info c.lb) : sel_ok K c'.info c'.lb := by
  obtain ⟨-, hi, -, -, h1, h2, h3⟩ := hf
  unfold sel_ok at h ⊢
  rw [hi, h3, h]
  cases get_prefix_nexthop K c.info with
  | none => rfl
  | some n => exact (same_owned_candidate ⟨h1, h2⟩ n).symm

/-! ## Invariants of the process state -/

theorem bindings_of_some {s : zebra} {p : Prefix} {lb : label_bindings}
    (h : (s.table p).mpls = some lb) : bindings s p = lb := by
  unfold bindings; rw [h]; rfl

theorem rn_of_wf (s : zebra) (p : Prefix) (hs : zebra_wf s) :
    lb_wf (rn_of s p).alloc (rn_of s p).lb := by
  show lb_wf s.alloc (bindings s p)
  cases hm : (s.table p).mpls with
  | none =>
    have : bindings s p = label_bindings_new := by unfold bindings; rw [hm]; rfl
    rw [this]
    exact lb_wf_new _
  | some lb =>
    rw [bindings_of_some hm]
    exact hs p lb hm

theorem put_rn_wf (s : zebra) (p : Prefix) (c : mpls_rn) (hs : zebra_wf s)
    (ha : s.alloc ≤ c.alloc) (hc : lb_wf c.alloc c.lb) : zebra_wf (put_rn s p c) := by
  intro q lb hq
  rw [put_rn_table] at hq
  rw [put_rn_alloc]
  by_cases hqp : q = p
  · rw [if_pos hqp] at hq
    simp only [Option.some.injEq] at hq
    rw [← hq]
    exact hc
  · rw [if_neg hqp] at hq
    exact lb_wf_mono ha (hs q lb hq)

theorem rib_update_table (s : zebra) (p q : Prefix) (info : List rib) :
    (rib_update s p info).table q =
      if q = p then { info := info, mpls := (s.table p).mpls } else s.table q := by
  unfold rib_update
  by_cases hq : q = p
  · subst hq; simp
  · simp [hq, Function.update_noteq hq]

theorem rib_update_mpls (s : zebra) (p q : Prefix) (info : List rib) :
    ((rib_update s p info).table q).mpls = (s.table q).mpls := by
  rw [rib_update_table]
  by_cases hq : q = p
  · subst hq; simp
  · simp [hq]

theorem step_wf (K : zebra_consts) (drv : driver) (s : zebra) (o : op) (hs : zebra_wf s) :
    zebra_wf (step K drv s o) := by
  have hrn := fun p => rn_of_wf s p hs
  cases o with
  | set_static_input_label p label =>
    show zebra_wf (with_rn _ (route_node_get_mpls s p) p)
    rw [with_rn_get]
    have hf := set_static_input_label_rn_frame K (rn_of s p) label
    exact put_rn_wf s p _ hs (le_of_eq hf.2.2.2.1.symm) (in_label_frame_wf hf (hrn p))
  | remove_static_input_label p label =>
    show zebra_wf (with_rn _ (route_node_get_mpls s p) p)
    rw [with_rn_get]
    have hf := remove_static_input_label_rn_frame K (rn_of s p) label
    exact put_rn_wf s p _ hs (le_of_eq hf.2.2.2.1.symm) (in_label_frame_wf hf (hrn p))
  | set_ldp_input_label p label =>
    show zebra_wf (with_rn _ (route_node_get_mpls s p) p)
    rw [with_rn_get]
    have hf := set_ldp_input_label_rn_frame K (rn_of s p) label
    exact put_rn_wf s p _ hs (le_of_eq hf.2.2.2.1.symm) (in_label_frame_wf hf (hrn p))
  | add_static_lsp p nexthop label =>
    show zebra_wf (with_rn _ (route_node_get_mpls s p) p)
    rw [with_rn_get]
    exact put_rn_wf s p _ hs (add_static_lsp_rn_frame K drv (rn_of s p) nexthop label).1.2.2.2.1
      (add_static_lsp_rn_wf K drv (rn_of s p) nexthop label (hrn p)).1
  | remove_static_lsp p nexthop =>
    show zebra_wf (with_rn _ (route_node_get_mpls s p) p)
    rw [with_rn_get]
    exact put_rn_wf s p _ hs (remove_static_lsp_rn_frame K drv (rn_of s p) nexthop).1.2.2.2.1
      (remove_static_lsp_rn_wf K drv (rn_of s p) nexthop (hrn p)).1
  | set_ldp_lsp p nexthop label =>
    show zebra_wf (with_rn _ (route_node_get_mpls s p) p)
    rw [with_rn_get]
    exact put_rn_wf s p _ hs (set_ldp_lsp_rn_frame K drv (rn_of s p) nexthop label).1.2.2.2.1
      (set_ldp_lsp_rn_wf K drv (rn_of s p) nexthop label (hrn p)).1
  | remove_ldp_lsp p nexthop label =>
    show zebra_wf (with_rn _ (route_node_get_mpls s p) p)
    rw [with_rn_get]
    exact put_rn_wf s p _ hs (remove_ldp_lsp_rn_frame K drv (rn_of s p) nexthop label).1.2.2.2.1
      (remove_ldp_lsp_rn_wf K drv (rn_of s p) nexthop label (hrn p)).1
  | route_install_hook p =>
    show zebra_wf (with_rn _ s p)
    rw [with_rn_hook]
    split
    · exact hs
    · exact put_rn_wf s p _ hs (route_install_hook_rn_frame K drv (rn_of s p)).1.2.2.2.1
        (route_install_hook_rn_wf K drv (rn_of s p) (hrn p)).1
  | route_uninstall_hook p =>
    show zebra_wf (with_rn _ s p)
    rw [with_rn_hook]
    split
    · exact hs
    · exact put_rn_wf s p _ hs (route_uninstall_hook_rn_frame K (rn_of s p)).1.2.2.2.1
        (route_uninstall_hook_rn_wf K (rn_of s p) (hrn p))
  | rib_update p info =>
    intro q lb hq
    show lb_wf s.alloc lb
    have : ((rib_update s p info).table q).mpls = some lb := hq
    rw [rib_update_mpls] at this
    exact hs q lb this

theorem zebra_start_wf (cl : List zserv) : zebra_wf (zebra_start cl) := by
  intro p lb h
  simp [zebra_start, mpls_init] at h

theorem reachable_by_wf {K : zebra_consts} {drv : driver} {G : zebra → op → Prop} {s : zebra}
    (h : reachable_by K drv G s) : zebra_wf s := by
  induction h with
  | start cl => exact zebra_start_wf cl
  | step s o _ _ ih => exact step_wf K drv s o ih

/-! ## The public mutators on the process state -/

theorem route_node_get_mpls_of_some {s : zebra} {p : Prefix} {lb : label_bindings}
    (h : (s.table p).mpls = some lb) : route_node_get_mpls s p = s := by
  unfold route_node_get_mpls; rw [h]

theorem put_rn_rn_of (s : zebra) (p : Prefix) : put_rn s p (rn_of s p) = route_node_get_mpls s p := by
  have := with_rn_get (fun c => c) s p
  rw [← this]
  unfold with_rn
  have ht := route_node_get_mpls_table s p p
  simp only [if_true] at ht
  rw [ht]
  dsimp only
  have hself : Function.update (route_node_get_mpls s p).table p
      { info := (s.table p).info, mpls := some (bindings s p) } = (route_node_get_mpls s p).table := by
    rw [← ht]; exact Function.update_eq_self _ _
  rw [hself]

theorem rn_of_put_rn (s : zebra) (p : Prefix) (c : mpls_rn) (h1 : c.p = p)
    (h2 : c.info = (s.table p).info) (h3 : c.client_list = s.client_list) :
    rn_of (put_rn s p c) p = c := by
  unfold rn_of
  rw [put_rn_bindings, put_rn_table]
  simp only [if_true]
  cases c
  simp only at h1 h2 h3
  subst h1 h2 h3
  rfl

theorem put_rn_mpls (s : zebra) (p : Prefix) (c : mpls_rn) :
    ((put_rn s p c).table p).mpls = some c.lb := by
  rw [put_rn_table]; simp

theorem set_static_input_label_put (K : zebra_consts) (s : zebra) (p : Prefix) (label : Nat) :
    mpls_prefix_set_static_input_label K s p label =
      put_rn s p (set_static_input_label_rn K (rn_of s p) label) :=
  with_rn_get _ s p

theorem remove_static_input_label_put (K : zebra_consts) (s : zebra) (p : Prefix) (label : Nat) :
    mpls_prefix_remove_static_input_label K s p label =
      put_rn s p (remove_static_input_label_rn K (rn_of s p) label) :=
  with_rn_get _ s p

theorem set_ldp_input_label_put (K : zebra_consts) (s : zebra) (p : Prefix) (label : Nat) :
    mpls_prefix_set_ldp_input_label K s p label =
      put_rn s p (set_ldp_input_label_rn K (rn_of s p) label) :=
  with_rn_get _ s p

/-- C4: a second `mpls_prefix_set_static_input_label (p, label)` right after a
first one with the same arguments returns the state it was given: the log
(driver calls and client messages) gets no new entry and the bindings record
is unchanged. -/
theorem C4_set_static_input_label_idempotent (K : zebra_consts) (s : zebra) (p : Prefix)
    (label : Nat) :
    mpls_prefix_set_static_input_label K (mpls_prefix_set_static_input_label K s p label) p label
      = mpls_prefix_set_static_input_label K s p label ∧
    (mpls_prefix_set_static_input_label K
      (mpls_prefix_set_static_input_label K s p label) p label).log
      = (mpls_prefix_set_static_input_label K s p label).log ∧
    bindings (mpls_prefix_set_static_input_label K
      (mpls_prefix_set_static_input_label K s p label) p label) p
      = bindings (mpls_prefix_set_static_input_label K s p label) p := by
  have key : mpls_prefix_set_static_input_label K
      (mpls_prefix_set_static_input_label K s p label) p label
      = mpls_prefix_set_static_input_label K s p label := by
    have hf := set_static_input_label_rn_frame K (rn_of s p) label
    have hst : (set_static_input_label_rn K (rn_of s p) label).lb.static_in_label = label := by
      rw [set_static_input_label_rn_eq]
      split
      · assumption
      · rfl
    rw [set_static_input_label_put K s p label]
    generalize set_static_input_label_rn K (rn_of s p) label = c1 at hf hst
    rw [set_static_input_label_put, rn_of_put_rn s p c1 hf.1 hf.2.1 hf.2.2.1]
    have hc1 : set_static_input_label_rn K c1 label = c1 := by
      rw [set_static_input_label_rn_eq, if_pos hst]
    rw [hc1]
    have := put_rn_rn_of (put_rn s p c1) p
    rw [rn_of_put_rn s p c1 hf.1 hf.2.1 hf.2.2.1] at this
    rw [this]
    exact route_node_get_mpls_of_some (put_rn_mpls s p c1)
  exact ⟨key, by rw [key], by rw [key]⟩

/-- C5: for a label other than the current static in-label,
`mpls_prefix_set_static_input_label` ends with `static_in_label` and
`selected_in_label` equal to the label.  On an active route the calls it
makes are, in order: if an in-label was selected, XC remove (old label,
selected LSP) when an LSP is selected and ILM remove (old label); then ILM
install (label); then XC install (label, selected LSP) when an LSP is
selected; then the message to every subscribed client.  On an inactive route
it makes no call. -/
theorem C5_set_static_input_label_effect (K : zebra_consts) (s : zebra) (p : Prefix)
    (label : Nat) (h : label ≠ (bindings s p).static_in_label) :
    (bindings (mpls_prefix_set_static_input_label K s p label) p).static_in_label = label ∧
    (bindings (mpls_prefix_set_static_input_label K s p label) p).selected_in_label = label ∧
    (zebra_route_node_active K (s.table p).info = true →
      (mpls_prefix_set_static_input_label K s p label).log = s.log
        ++ (if (bindings s p).selected_in_label ≠ NO_LABEL then
              xc_unregister_if (bindings s p).selected_lsp (bindings s p).selected_in_label
                ++ [event.ilm_unregister (bindings s p).selected_in_label]
            else [])
        ++ [event.ilm_register label]
        ++ xc_register_if (bindings s p).selected_lsp label
        ++ broadcast s.client_list p label) ∧
    (zebra_route_node_active K (s.table p).info = false →
      (mpls_prefix_set_static_input_label K s p label).log = s.log) := by
  rw [set_static_input_label_put, put_rn_bindings, put_rn_log, set_static_input_label_rn_eq]
  have h' : ¬ (rn_of s p).lb.static_in_label = label := fun e => h e.symm
  rw [if_neg h']
  refine ⟨rfl, rfl, ?_, ?_⟩
  · intro ha
    show s.log ++ set_static_events K (rn_of s p) label = _
    unfold set_static_events
    rw [if_pos (show zebra_route_node_active K (rn_of s p).info = true from ha)]
    simp only [rn_of, List.append_assoc]
  · intro ha
    show s.log ++ set_static_events K (rn_of s p) label = _
    unfold set_static_events
    rw [if_neg (show ¬ zebra_route_node_active K (rn_of s p).info = true by
      rw [show (rn_of s p).info = (s.table p).info from rfl, ha]; simp)]
    simp

/-- C6: `mpls_prefix_remove_static_input_label (p, label)` does nothing but
the node lookup (no field of the bindings record changes, the log gets no
entry) when no static in-label is set, or when a label is given and it is
not the static in-label; when no label is given, or the given label is the
static in-label, the static in-label is `NO_LABEL` afterwards. -/
theorem C6_remove_static_input_label_guards (K : zebra_consts) (s : zebra) (p : Prefix)
    (label : Nat) :
    ((bindings s p).static_in_label = NO_LABEL ∨
        (label ≠ NO_LABEL ∧ label ≠ (bindings s p).static_in_label) →
      bindings (mpls_prefix_remove_static_input_label K s p label) p = bindings s p ∧
      (mpls_prefix_remove_static_input_label K s p label).log = s.log ∧
      mpls_prefix_remove_static_input_label K s p label = route_node_get_mpls s p) ∧
    (label = NO_LABEL ∨ label = (bindings s p).static_in_label →
      (bindings (mpls_prefix_remove_static_input_label K s p label) p).static_in_label
        = NO_LABEL) := by
  rw [remove_static_input_label_put, put_rn_bindings, put_rn_log]
  constructor
  · intro hg
    have hc : remove_static_input_label_rn K (rn_of s p) label = rn_of s p := by
      rw [remove_static_input_label_rn_eq]
      rcases hg with hg | hg
      · rw [if_pos (show (rn_of s p).lb.static_in_label = NO_LABEL from hg)]
      · split
        · rfl
        · rw [if_pos (show label ≠ NO_LABEL ∧ (rn_of s p).lb.static_in_label ≠ label from
            ⟨hg.1, fun e => hg.2 e.symm⟩)]
    rw [hc]
    exact ⟨rfl, rfl, put_rn_rn_of s p⟩
  · intro hg
    rw [remove_static_input_label_rn_eq]
    split
    · assumption
    · split
      · rename_i h1 h2
        rcases hg with hg | hg
        · exact absurd hg h2.1
        · exact absurd hg.symm h2.2
      · rfl

/-- C7: on an active route with static in-label `S`, dynamic in-label `D`
(both set) and `S` selected, clearing the static in-label makes these calls
in order: XC remove (`S`, selected LSP) when an LSP is selected, ILM remove
(`S`), ILM install (`D`), XC install (`D`, selected LSP) when an LSP is
selected, then the message to every subscribed client; it ends with
`selected_in_label = D` and `static_in_label = NO_LABEL`. -/
theorem C7_remove_static_falls_back_to_ldp (K : zebra_consts) (s : zebra) (p : Prefix)
    (label S D : Nat)
    (hact : zebra_route_node_active K (s.table p).info = true)
    (hS : (bindings s p).static_in_label = S) (hSn : S ≠ NO_LABEL)
    (hD : (bindings s p).ldp_in_label = D) (hDn : D ≠ NO_LABEL)
    (hsel : (bindings s p).selected_in_label = S)
    (hlabel : label = NO_LABEL ∨ label = S) :
    (mpls_prefix_remove_static_input_label K s p label).log = s.log
      ++ xc_unregister_if (bindings s p).selected_lsp S
      ++ [event.ilm_unregister S, event.ilm_register D]
      ++ xc_register_if (bindings s p).selected_lsp D
      ++ broadcast s.client_list p D ∧
    (bindings (mpls_prefix_remove_static_input_label K s p label) p).selected_in_label = D ∧
    (bindings (mpls_prefix_remove_static_input_label K s p label) p).static_in_label
      = NO_LABEL := by
  rw [remove_static_input_label_put, put_rn_bindings, put_rn_log,
    remove_static_input_label_rn_eq]
  have h1 : ¬ (rn_of s p).lb.static_in_label = NO_LABEL := by
    show ¬ (bindings s p).static_in_label = NO_LABEL
    rw [hS]; exact hSn
  have h2 : ¬ (label ≠ NO_LABEL ∧ (rn_of s p).lb.static_in_label ≠ label) := by
    show ¬ (label ≠ NO_LABEL ∧ (bindings s p).static_in_label ≠ label)
    rw [hS]
    rintro ⟨ha, hb⟩
    rcases hlabel with hl | hl
    · exact ha hl
    · exact hb hl.symm
  rw [if_neg h1, if_neg h2]
  have ha : zebra_route_node_active K (rn_of s p).info = true := hact
  have hd : ¬ (rn_of s p).lb.ldp_in_label = NO_LABEL := by
    show ¬ (bindings s p).ldp_in_label = NO_LABEL
    rw [hD]; exact hDn
  have hselD : remove_static_selected K (rn_of s p) = D := by
    unfold remove_static_selected
    rw [if_neg hd, if_pos ha]
    exact hD
  refine ⟨?_, hselD, rfl⟩
  show s.log ++ remove_static_events K (rn_of s p) = _
  unfold remove_static_events
  rw [if_pos ha, if_neg hd, hselD]
  simp only [rn_of, hsel, hD, List.append_assoc, List.cons_append, List.nil_append]

/-- C8: while a static in-label is set, `mpls_prefix_set_ldp_input_label`
stores the label in `ldp_in_label` and changes nothing else in the bindings
record (static and selected in-label, LSPs, selected LSP), and the log gets
no entry. -/
theorem C8_static_shadows_ldp (K : zebra_consts) (s : zebra) (p : Prefix) (label : Nat)
    (h : (bindings s p).static_in_label ≠ NO_LABEL) :
    bindings (mpls_prefix_set_ldp_input_label K s p label) p
      = { bindings s p with ldp_in_label := label } ∧
    (mpls_prefix_set_ldp_input_label K s p label).log = s.log := by
  rw [set_ldp_input_label_put, put_rn_bindings, put_rn_log, set_ldp_input_label_rn_eq]
  rw [if_pos (show (rn_of s p).lb.static_in_label ≠ NO_LABEL from h)]
  exact ⟨rfl, rfl⟩

theorem remove_static_lsp_put (K : zebra_consts) (drv : driver) (s : zebra) (p : Prefix)
    (nexthop : Nat) :
    mpls_prefix_remove_static_lsp K drv s p nexthop =
      put_rn s p (remove_static_lsp_rn K drv (rn_of s p) nexthop) :=
  with_rn_get _ s p

theorem add_static_lsp_put (K : zebra_consts) (drv : driver) (s : zebra) (p : Prefix)
    (nexthop label : Nat) :
    mpls_prefix_add_static_lsp K drv s p nexthop label =
      put_rn s p (add_static_lsp_rn K drv (rn_of s p) nexthop label) :=
  with_rn_get _ s p

theorem set_ldp_lsp_put (K : zebra_consts) (drv : driver) (s : zebra) (p : Prefix)
    (nexthop label : Nat) :
    mpls_prefix_set_ldp_lsp K drv s p nexthop label =
      put_rn s p (set_ldp_lsp_rn K drv (rn_of s p) nexthop label) :=
  with_rn_get _ s p

theorem remove_ldp_lsp_put (K : zebra_consts) (drv : driver) (s : zebra) (p : Prefix)
    (nexthop label : Nat) :
    mpls_prefix_remove_ldp_lsp K drv s p nexthop label =
      put_rn s p (remove_ldp_lsp_rn K drv (rn_of s p) nexthop label) :=
  with_rn_get _ s p

theorem reachable_by_run {K : zebra_consts} {drv : driver} {s : zebra}
    (h : reachable_by K drv (fun _ _ => True) s) (os : List op) :
    reachable_by K drv (fun _ _ => True) (run K drv s os) := by
  induction os generalizing s with
  | nil => exact h
  | cons o t ih => exact ih (reachable_by.step s o h trivial)

/-- C2: in every reachable state the selected LSP of a bindings record is
null, or the record's LDP LSP, or a member of its static list; and after a
mutator discards an LSP (`mpls_prefix_remove_static_lsp` the static LSP with
the next hop, `mpls_prefix_set_ldp_lsp` the LDP LSP it replaces,
`mpls_prefix_remove_ldp_lsp` the LDP LSP it matches) the selected LSP is not
the discarded one. -/
theorem C2_selected_lsp_is_owned (K : zebra_consts) (drv : driver) (s : zebra)
    (h : reachable K drv s) :
    (∀ p lb, (s.table p).mpls = some lb →
      lb.selected_lsp = none ∨ lb.selected_lsp = lb.ldp_lsp ∨
        ∃ l ∈ lb.static_lsps, lb.selected_lsp = some l) ∧
    (∀ p nexthop l,
      (bindings s p).static_lsps.find? (fun x => x.nexthop == nexthop) = some l →
      ptr_of (bindings (mpls_prefix_remove_static_lsp K drv s p nexthop) p).selected_lsp
        ≠ some l.ptr) ∧
    (∀ p nexthop label l, (bindings s p).ldp_lsp = some l →
      ¬ (l.nexthop = nexthop ∧ l.remote_label = label) →
      ptr_of (bindings (mpls_prefix_set_ldp_lsp K drv s p nexthop label) p).selected_lsp
        ≠ some l.ptr) ∧
    (∀ p l, (bindings s p).ldp_lsp = some l →
      (bindings (mpls_prefix_remove_ldp_lsp K drv s p l.nexthop l.remote_label) p).ldp_lsp
        = none ∧
      ptr_of (bindings
        (mpls_prefix_remove_ldp_lsp K drv s p l.nexthop l.remote_label) p).selected_lsp
        ≠ some l.ptr) := by
  have hwf : zebra_wf s := reachable_by_wf h
  refine ⟨?_, ?_, ?_, ?_⟩
  · intro p lb hlb
    have hw := hwf p lb hlb
    cases hs : lb.selected_lsp with
    | none => exact Or.inl rfl
    | some l =>
      right
      have hm := hw.2.2.1 l hs
      simp only [lsps, List.mem_append, Option.mem_toList, Option.mem_def] at hm
      rcases hm with hm | hm
      · exact Or.inr ⟨l, hm, rfl⟩
      · exact Or.inl hm.symm
  · intro p nexthop l hl
    rw [remove_static_lsp_put, put_rn_bindings]
    exact (remove_static_lsp_rn_wf K drv (rn_of s p) nexthop (rn_of_wf s p hwf)).2.2.1 l hl
  · intro p nexthop label l hl hne
    rw [set_ldp_lsp_put, put_rn_bindings]
    refine (set_ldp_lsp_rn_wf K drv (rn_of s p) nexthop label (rn_of_wf s p hwf)).2.1 l hl ?_
    show ldp_lsp_is (bindings s p).ldp_lsp nexthop label = false
    rw [hl]
    simp only [ldp_lsp_is, Bool.and_eq_false_imp, beq_iff_eq, beq_eq_false_iff_ne]
    intro h1 h2
    exact hne ⟨h1, h2⟩
  · intro p l hl
    rw [remove_ldp_lsp_put, put_rn_bindings]
    exact (remove_ldp_lsp_rn_wf K drv (rn_of s p) l.nexthop l.remote_label
      (rn_of_wf s p hwf)).2.1 l hl rfl rfl

/-- C10: in every reachable state, no two LSPs of the static list of a
bindings record have the same next-hop address. -/
theorem C10_static_lsps_nexthop_unique (K : zebra_consts) (drv : driver) (s : zebra)
    (h : reachable K drv s) (p : Prefix) (lb : label_bindings)
    (hlb : (s.table p).mpls = some lb) :
    (lb.static_lsps.map (fun x => x.nexthop)).Nodup ∧
    ∀ a ∈ lb.static_lsps, ∀ b ∈ lb.static_lsps, a.nexthop = b.nexthop → a = b := by
  have hw := (reachable_by_wf h) p lb hlb
  exact ⟨hw.2.2.2, fun a ha b hb hab => List.inj_on_of_nodup_map hw.2.2.2 ha hb hab⟩

/-! ## The in-label invariants -/

theorem put_rn_same_in_labels (s : zebra) (p : Prefix) (c : mpls_rn)
    (hc : same_in_labels (bindings s p) c.lb) (q : Prefix) (lb' : label_bindings)
    (hq : ((put_rn s p c).table q).mpls = some lb') : same_in_labels (bindings s q) lb' := by
  rw [put_rn_table] at hq
  by_cases hqp : q = p
  · rw [if_pos hqp] at hq
    simp only [Option.some.injEq] at hq
    rw [← hq, hqp]
    exact hc
  · rw [if_neg hqp] at hq
    rw [bindings_of_some hq]
    exact same_in_labels_refl _

/-- Operations other than the in-label mutators leave the three in-labels of
every bindings record as they were. -/
theorem step_same_in_labels (K : zebra_consts) (drv : driver) (s : zebra) (o : op)
    (ho : o.is_in_label_edit = false) (q : Prefix) (lb' : label_bindings)
    (hq : ((step K drv s o).table q).mpls = some lb') : same_in_labels (bindings s q) lb' := by
  cases o with
  | set_static_input_label p label => cases ho
  | remove_static_input_label p label => cases ho
  | set_ldp_input_label p label => cases ho
  | add_static_lsp p nexthop label =>
    have hq' : ((mpls_prefix_add_static_lsp K drv s p nexthop label).table q).mpls = some lb' := hq
    rw [add_static_lsp_put] at hq'
    exact put_rn_same_in_labels s p _
      (add_static_lsp_rn_frame K drv (rn_of s p) nexthop label).2.1 q lb' hq'
  | remove_static_lsp p nexthop =>
    have hq' : ((mpls_prefix_remove_static_lsp K drv s p nexthop).table q).mpls = some lb' := hq
    rw [remove_static_lsp_put] at hq'
    exact put_rn_same_in_labels s p _
      (remove_static_lsp_rn_frame K drv (rn_of s p) nexthop).2.2.1 q lb' hq'
  | set_ldp_lsp p nexthop label =>
    have hq' : ((mpls_prefix_set_ldp_lsp K drv s p nexthop label).table q).mpls = some lb' := hq
    rw [set_ldp_lsp_put] at hq'
    exact put_rn_same_in_labels s p _
      (set_ldp_lsp_rn_frame K drv (rn_of s p) nexthop label).2.1 q lb' hq'
  | remove_ldp_lsp p nexthop label =>
    have hq' : ((mpls_prefix_remove_ldp_lsp K drv s p nexthop label).table q).mpls
        = some lb' := hq
    rw [remove_ldp_lsp_put] at hq'
    exact put_rn_same_in_labels s p _
      (remove_ldp_lsp_rn_frame K drv (rn_of s p) nexthop label).2.1 q lb' hq'
  | route_install_hook p =>
    have hq' : ((with_rn (route_install_hook_rn K drv) s p).table q).mpls = some lb' := hq
    rw [with_rn_hook] at hq'
    split at hq'
    · rw [bindings_of_some hq']; exact same_in_labels_refl _
    · exact put_rn_same_in_labels s p _
        (route_install_hook_rn_frame K drv (rn_of s p)).2.2.1 q lb' hq'
  | route_uninstall_hook p =>
    have hq' : ((with_rn (route_uninstall_hook_rn K) s p).table q).mpls = some lb' := hq
    rw [with_rn_hook] at hq'
    split at hq'
    · rw [bindings_of_some hq']; exact same_in_labels_refl _
    · exact put_rn_same_in_labels s p _
        (route_uninstall_hook_rn_frame K (rn_of s p)).2.2.1 q lb' hq'
  | rib_update p info =>
    have hq' : ((rib_update s p info).table q).mpls = some lb' := hq
    rw [rib_update_mpls] at hq'
    rw [bindings_of_some hq']; exact same_in_labels_refl _

theorem in_static_ok_same {lb lb' : label_bindings} (h : same_in_labels lb lb')
    (hs : in_static_ok lb) : in_static_ok lb' := by
  unfold in_static_ok at hs ⊢
  rw [h.1, h.2.2]; exact hs

theorem in_ldp_ok_same {lb lb' : label_bindings} (h : same_in_labels lb lb')
    (hs : in_ldp_ok lb) : in_ldp_ok lb' := by
  unfold in_ldp_ok at hs ⊢
  rw [h.1, h.2.1, h.2.2]; exact hs

theorem set_static_rn_in_static_ok (K : zebra_consts) (c : mpls_rn) (label : Nat)
    (h : in_static_ok c.lb) : in_static_ok (set_static_input_label_rn K c label).lb := by
  rw [set_static_input_label_rn_eq]
  split
  · exact h
  · intro _; rfl

theorem remove_static_rn_in_static_ok (K : zebra_consts) (c : mpls_rn) (label : Nat)
    (h : in_static_ok c.lb) : in_static_ok (remove_static_input_label_rn K c label).lb := by
  rw [remove_static_input_label_rn_eq]
  split
  · exact h
  · split
    · exact h
    · intro hne; exact absurd rfl hne

theorem set_ldp_rn_in_static_ok (K : zebra_consts) (c : mpls_rn) (label : Nat)
    (h : in_static_ok c.lb) : in_static_ok (set_ldp_input_label_rn K c label).lb := by
  rw [set_ldp_input_label_rn_eq]
  split
  · exact h
  · rename_i hst
    split
    · exact h
    · split
      · intro hne; exact absurd hne hst
      · exact h

theorem set_static_rn_in_ldp_ok (K : zebra_consts) (c : mpls_rn) (label : Nat)
    (hl : label ≠ NO_LABEL) (h : in_ldp_ok c.lb) :
    in_ldp_ok (set_static_input_label_rn K c label).lb := by
  rw [set_static_input_label_rn_eq]
  split
  · exact h
  · intro he; exact absurd he hl

theorem remove_static_rn_in_ldp_ok (K : zebra_consts) (c : mpls_rn) (label : Nat)
    (hg : zebra_route_node_active K c.info = true ∨ c.lb.ldp_in_label = NO_LABEL)
    (h : in_ldp_ok c.lb) : in_ldp_ok (remove_static_input_label_rn K c label).lb := by
  rw [remove_static_input_label_rn_eq]
  split
  · exact h
  · split
    · exact h
    · intro _
      show remove_static_selected K c = c.lb.ldp_in_label
      unfold remove_static_selected
      split
      · rename_i hd; exact hd.symm
      · rename_i hd
        rcases hg with hg | hg
        · rw [if_pos hg]
        · exact absurd hg hd

theorem set_ldp_rn_in_ldp_ok (K : zebra_consts) (c : mpls_rn) (label : Nat)
    (hg : zebra_route_node_active K c.info = true ∨ c.lb.static_in_label ≠ NO_LABEL) :
    in_ldp_ok (set_ldp_input_label_rn K c label).lb := by
  rw [set_ldp_input_label_rn_eq]
  split
  · rename_i hst
    intro he; exact absurd he hst
  · rename_i hst
    split
    · rename_i h2
      intro _
      exact h2.2.symm
    · rcases hg with hg | hg
      · rw [if_pos hg]
        intro _; rfl
      · exact absurd hg hst

theorem in_static_ok_new : in_static_ok label_bindings_new := fun h => absurd rfl h

theorem in_ldp_ok_new : in_ldp_ok label_bindings_new := fun _ => rfl

theorem bindings_cases (P : label_bindings → Prop) (hnew : P label_bindings_new) (s : zebra)
    (hs : ∀ p lb, (s.table p).mpls = some lb → P lb) (p : Prefix) : P (bindings s p) := by
  cases hm : (s.table p).mpls with
  | none =>
    have : bindings s p = label_bindings_new := by unfold bindings; rw [hm]; rfl
    rw [this]; exact hnew
  | some lb => rw [bindings_of_some hm]; exact hs p lb hm

theorem put_rn_all (P : label_bindings → Prop) (s : zebra) (p : Prefix) (c : mpls_rn)
    (hs : ∀ q lb, (s.table q).mpls = some lb → P lb) (hc : P c.lb) :
    ∀ q lb, ((put_rn s p c).table q).mpls = some lb → P lb := by
  intro q lb hq
  rw [put_rn_table] at hq
  by_cases hqp : q = p
  · rw [if_pos hqp] at hq
    simp only [Option.some.injEq] at hq
    rw [← hq]; exact hc
  · rw [if_neg hqp] at hq
    exact hs q lb hq

theorem step_in_static_ok (K : zebra_consts) (drv : driver) (s : zebra) (o : op)
    (hs : ∀ p lb, (s.table p).mpls = some lb → in_static_ok lb) :
    ∀ p lb, ((step K drv s o).table p).mpls = some lb → in_static_ok lb := by
  have hb := bindings_cases in_static_ok in_static_ok_new s hs
  cases ho : o.is_in_label_edit with
  | false =>
    intro q lb' hq
    exact in_static_ok_same (step_same_in_labels K drv s o ho q lb' hq) (hb q)
  | true =>
    cases o with
    | set_static_input_label p label =>
      show ∀ q lb, ((mpls_prefix_set_static_input_label K s p label).table q).mpls = some lb → _
      rw [set_static_input_label_put]
      exact put_rn_all _ s p _ hs (set_static_rn_in_static_ok K _ label (hb p))
    | remove_static_input_label p label =>
      show ∀ q lb, ((mpls_prefix_remove_static_input_label K s p label).table q).mpls = some lb → _
      rw [remove_static_input_label_put]
      exact put_rn_all _ s p _ hs (remove_static_rn_in_static_ok K _ label (hb p))
    | set_ldp_input_label p label =>
      show ∀ q lb, ((mpls_prefix_set_ldp_input_label K s p label).table q).mpls = some lb → _
      rw [set_ldp_input_label_put]
      exact put_rn_all _ s p _ hs (set_ldp_rn_in_static_ok K _ label (hb p))
    | add_static_lsp p nexthop label => cases ho
    | remove_static_lsp p nexthop => cases ho
    | set_ldp_lsp p nexthop label => cases ho
    | remove_ldp_lsp p nexthop label => cases ho
    | route_install_hook p => cases ho
    | route_uninstall_hook p => cases ho
    | rib_update p info => cases ho

theorem step_in_ldp_ok (K : zebra_consts) (drv : driver) (s : zebra) (o : op)
    (hg : in_label_edit_ok K s o)
    (hs : ∀ p lb, (s.table p).mpls = some lb → in_ldp_ok lb) :
    ∀ p lb, ((step K drv s o).table p).mpls = some lb → in_ldp_ok lb := by
  have hb := bindings_cases in_ldp_ok in_ldp_ok_new s hs
  cases ho : o.is_in_label_edit with
  | false =>
    intro q lb' hq
    exact in_ldp_ok_same (step_same_in_labels K drv s o ho q lb' hq) (hb q)
  | true =>
    cases o with
    | set_static_input_label p label =>
      show ∀ q lb, ((mpls_prefix_set_static_input_label K s p label).table q).mpls = some lb → _
      rw [set_static_input_label_put]
      exact put_rn_all _ s p _ hs (set_static_rn_in_ldp_ok K _ label hg (hb p))
    | remove_static_input_label p label =>
      show ∀ q lb, ((mpls_prefix_remove_static_input_label K s p label).table q).mpls = some lb → _
      rw [remove_static_input_label_put]
      exact put_rn_all _ s p _ hs (remove_static_rn_in_ldp_ok K _ label hg (hb p))
    | set_ldp_input_label p label =>
      show ∀ q lb, ((mpls_prefix_set_ldp_input_label K s p label).table q).mpls = some lb → _
      rw [set_ldp_input_label_put]
      exact put_rn_all _ s p _ hs (set_ldp_rn_in_ldp_ok K _ label hg)
    | add_static_lsp p nexthop label => cases ho
    | remove_static_lsp p nexthop => cases ho
    | set_ldp_lsp p nexthop label => cases ho
    | remove_ldp_lsp p nexthop label => cases ho
    | route_install_hook p => cases ho
    | route_uninstall_hook p => cases ho
    | rib_update p info => cases ho

/-- C1 (as amended): in every reachable state a bindings record whose static
in-label is set has it as selected in-label; and in every state reached by
operations that set only real labels as static in-label, clear the static
in-label of an inactive route only when no dynamic in-label is recorded, and
set the dynamic in-label of an inactive route only under a static in-label,
a bindings record without static in-label has the dynamic in-label as
selected in-label. -/
theorem C1_selected_in_label_invariant (K : zebra_consts) (drv : driver) :
    (∀ s, reachable K drv s → ∀ p lb, (s.table p).mpls = some lb →
      lb.static_in_label ≠ NO_LABEL → lb.selected_in_label = lb.static_in_label) ∧
    (∀ s, reachable_by K drv (in_label_edit_ok K) s → ∀ p lb, (s.table p).mpls = some lb →
      lb.static_in_label = NO_LABEL → lb.selected_in_label = lb.ldp_in_label) := by
  constructor
  · intro s h
    have : ∀ p lb, (s.table p).mpls = some lb → in_static_ok lb := by
      induction h with
      | start cl => intro p lb hlb; simp [zebra_start, mpls_init] at hlb
      | step s o _ _ ih => exact step_in_static_ok K drv s o ih
    exact this
  · intro s h
    have : ∀ p lb, (s.table p).mpls = some lb → in_ldp_ok lb := by
      induction h with
      | start cl => intro p lb hlb; simp [zebra_start, mpls_init] at hlb
      | step s o _ hg ih => exact step_in_ldp_ok K drv s o hg ih
    exact this

/-! ## The selection invariant under notified RIB changes -/

theorem sel_ok_new (K : zebra_consts) (info : List rib) : sel_ok K info label_bindings_new := by
  unfold sel_ok
  cases get_prefix_nexthop K info with
  | none => rfl
  | some n => simp [label_bindings_new, select_candidate]

theorem sel_ok_of_none {K : zebra_consts} {info : List rib} {lb : label_bindings}
    (hn : get_prefix_nexthop K info = none) (hs : lb.selected_lsp = none) : sel_ok K info lb := by
  unfold sel_ok; rw [hn, hs]

theorem rn_of_sel_ok (K : zebra_consts) (s : zebra) (p : Prefix) (hs : zebra_sel_ok K s) :
    sel_ok K (rn_of s p).info (rn_of s p).lb := by
  show sel_ok K (s.table p).info (bindings s p)
  cases hm : (s.table p).mpls with
  | none =>
    have : bindings s p = label_bindings_new := by unfold bindings; rw [hm]; rfl
    rw [this]; exact sel_ok_new K _
  | some lb => rw [bindings_of_some hm]; exact hs p lb hm

theorem put_rn_sel_ok (K : zebra_consts) (s : zebra) (p : Prefix) (c : mpls_rn)
    (hs : ∀ q lb, q ≠ p → (s.table q).mpls = some lb → sel_ok K (s.table q).info lb)
    (hc : sel_ok K (s.table p).info c.lb) : zebra_sel_ok K (put_rn s p c) := by
  intro q lb hq
  rw [put_rn_table] at hq ⊢
  by_cases hqp : q = p
  · rw [if_pos hqp] at hq ⊢
    simp only [Option.some.injEq] at hq
    rw [← hq]; exact hc
  · rw [if_neg hqp] at hq ⊢
    exact hs q lb hqp hq

theorem step_mutator_sel_ok (K : zebra_consts) (drv : driver) (s : zebra) (o : op)
    (hm : o.is_mutator = true) (hw : zebra_wf s) (hs : zebra_sel_ok K s) :
    zebra_sel_ok K (step K drv s o) := by
  have hrn := fun p => rn_of_wf s p hw
  have hok := fun p => rn_of_sel_ok K s p hs
  have hex : ∀ p q lb, q ≠ p → (s.table q).mpls = some lb → sel_ok K (s.table q).info lb :=
    fun _ q lb _ hq => hs q lb hq
  cases o with
  | set_static_input_label p label =>
    show zebra_sel_ok K (mpls_prefix_set_static_input_label K s p label)
    rw [set_static_input_label_put]
    exact put_rn_sel_ok K s p _ (hex p)
      (sel_ok_congr_info (set_static_input_label_rn_frame K (rn_of s p) label).2.1
        (in_label_frame_sel_ok (set_static_input_label_rn_frame K (rn_of s p) label) (hok p)))
  | remove_static_input_label p label =>
    show zebra_sel_ok K (mpls_prefix_remove_static_input_label K s p label)
    rw [remove_static_input_label_put]
    exact put_rn_sel_ok K s p _ (hex p)
      (sel_ok_congr_info (remove_static_input_label_rn_frame K (rn_of s p) label).2.1
        (in_label_frame_sel_ok (remove_static_input_label_rn_frame K (rn_of s p) label) (hok p)))
  | set_ldp_input_label p label =>
    show zebra_sel_ok K (mpls_prefix_set_ldp_input_label K s p label)
    rw [set_ldp_input_label_put]
    exact put_rn_sel_ok K s p _ (hex p)
      (sel_ok_congr_info (set_ldp_input_label_rn_frame K (rn_of s p) label).2.1
        (in_label_frame_sel_ok (set_ldp_input_label_rn_frame K (rn_of s p) label) (hok p)))
  | add_static_lsp p nexthop label =>
    show zebra_sel_ok K (mpls_prefix_add_static_lsp K drv s p nexthop label)
    rw [add_static_lsp_put]
    exact put_rn_sel_ok K s p _ (hex p)
      ((add_static_lsp_rn_wf K drv (rn_of s p) nexthop label (hrn p)).2 (hok p))
  | remove_static_lsp p nexthop =>
    show zebra_sel_ok K (mpls_prefix_remove_static_lsp K drv s p nexthop)
    rw [remove_static_lsp_put]
    exact put_rn_sel_ok K s p _ (hex p)
      ((remove_static_lsp_rn_wf K drv (rn_of s p) nexthop (hrn p)).2.2.2 (hok p))
  | set_ldp_lsp p nexthop label =>
    show zebra_sel_ok K (mpls_prefix_set_ldp_lsp K drv s p nexthop label)
    rw [set_ldp_lsp_put]
    exact put_rn_sel_ok K s p _ (hex p)
      ((set_ldp_lsp_rn_wf K drv (rn_of s p) nexthop label (hrn p)).2.2 (hok p))
  | remove_ldp_lsp p nexthop label =>
    show zebra_sel_ok K (mpls_prefix_remove_ldp_lsp K drv s p nexthop label)
    rw [remove_ldp_lsp_put]
    exact put_rn_sel_ok K s p _ (hex p)
      ((remove_ldp_lsp_rn_wf K drv (rn_of s p) nexthop label (hrn p)).2.2 (hok p))
  | route_install_hook p => cases hm
  | route_uninstall_hook p => cases hm
  | rib_update p info => cases hm

/-- The install hook brings the selection of its node up to date when the
node had no LSP selected. -/
theorem install_hook_sel_ok (K : zebra_consts) (drv : driver) (s : zebra) (p : Prefix)
    (hw : zebra_wf s)
    (hs : ∀ q lb, q ≠ p → (s.table q).mpls = some lb → sel_ok K (s.table q).info lb)
    (hp : ∀ lb, (s.table p).mpls = some lb → lb.selected_lsp = none) :
    zebra_sel_ok K (mpls_route_install_hook K drv s p) := by
  unfold mpls_route_install_hook
  rw [with_rn_hook]
  split
  · rename_i hm
    intro q lb hq
    by_cases hqp : q = p
    · rw [hqp, hm] at hq; cases hq
    · exact hs q lb hqp hq
  · rename_i lb0 hm
    refine put_rn_sel_ok K s p _ hs ?_
    refine (route_install_hook_rn_wf K drv (rn_of s p) (rn_of_wf s p hw)).2 ?_
    intro _
    show (bindings s p).selected_lsp = none
    rw [bindings_of_some hm]
    exact hp lb0 hm

/-- After the uninstall hook the node has no LSP selected. -/
theorem uninstall_hook_selected (K : zebra_consts) (s : zebra) (p : Prefix) :
    (∀ lb, ((mpls_route_uninstall_hook K s p).table p).mpls = some lb →
      lb.selected_lsp = none) ∧
    (∀ q, q ≠ p → (mpls_route_uninstall_hook K s p).table q = s.table q) ∧
    ((mpls_route_uninstall_hook K s p).table p).info = (s.table p).info := by
  unfold mpls_route_uninstall_hook
  rw [with_rn_hook]
  split
  · rename_i hm
    refine ⟨?_, fun _ _ => rfl, rfl⟩
    intro lb hlb
    rw [hm] at hlb; cases hlb
  · refine ⟨?_, ?_, ?_⟩
    · intro lb hlb
      rw [put_rn_mpls] at hlb
      simp only [Option.some.injEq] at hlb
      rw [← hlb]
      exact (route_uninstall_hook_rn_frame K (rn_of s p)).2.2.2.2
    · intro q hq
      rw [put_rn_table, if_neg hq]
    · rw [put_rn_table]; simp

theorem notified_reachable {K : zebra_consts} {drv : driver} {s : zebra}
    (h : notified K drv s) : reachable K drv s := by
  induction h with
  | start cl => exact reachable_by.start cl
  | mutator s o _ _ ih => exact reachable_by.step s o ih trivial
  | route_install s p info _ _ ih =>
    exact reachable_by.step _ _ (reachable_by.step s _ ih trivial) trivial
  | route_uninstall s p info _ _ ih =>
    exact reachable_by.step _ _ (reachable_by.step s _ ih trivial) trivial
  | route_withdrawn s p info _ _ ih =>
    exact reachable_by.step _ _ (reachable_by.step s _ ih trivial) trivial

theorem notified_sel_ok {K : zebra_consts} {drv : driver} {s : zebra}
    (h : notified K drv s) : zebra_sel_ok K s := by
  induction h with
  | start cl => intro p lb hlb; simp [zebra_start, mpls_init] at hlb
  | mutator s o hn hm ih =>
    exact step_mutator_sel_ok K drv s o hm (reachable_by_wf (notified_reachable hn)) ih
  | route_install s p info hn hina ih =>
    have hw : zebra_wf (rib_update s p info) :=
      step_wf K drv s (op.rib_update p info) (reachable_by_wf (notified_reachable hn))
    show zebra_sel_ok K (mpls_route_install_hook K drv (rib_update s p info) p)
    refine install_hook_sel_ok K drv _ p hw ?_ ?_
    · intro q lb hqp hq
      rw [rib_update_table, if_neg hqp] at hq ⊢
      exact ih q lb hq
    · intro lb hlb
      rw [rib_update_mpls] at hlb
      have := ih p lb hlb
      unfold sel_ok at this
      rw [nexthop_none_of_inactive K _ hina] at this
      exact this
  | route_uninstall s p info hn hina ih =>
    show zebra_sel_ok K (rib_update (mpls_route_uninstall_hook K s p) p info)
    obtain ⟨h1, h2, -⟩ := uninstall_hook_selected K s p
    intro q lb hq
    by_cases hqp : q = p
    · subst hqp
      rw [rib_update_mpls] at hq
      have hinfo : ((rib_update (mpls_route_uninstall_hook K s q) q info).table q).info
          = info := by
        rw [rib_update_table]; simp
      rw [hinfo]
      exact sel_ok_of_none (nexthop_none_of_inactive K _ hina) (h1 lb hq)
    · rw [rib_update_table, if_neg hqp] at hq ⊢
      rw [h2 q hqp] at hq ⊢
      exact ih q lb hq
  | route_withdrawn s p info hn hina ih =>
    show zebra_sel_ok K (mpls_route_uninstall_hook K (rib_update s p info) p)
    obtain ⟨h1, h2, h3⟩ := uninstall_hook_selected K (rib_update s p info) p
    intro q lb hq
    by_cases hqp : q = p
    · subst hqp
      have hinfo : ((mpls_route_uninstall_hook K (rib_update s q info) q).table q).info
          = info := by
        rw [h3, rib_update_table]; simp
      rw [hinfo]
      exact sel_ok_of_none (nexthop_none_of_inactive K _ hina) (h1 lb hq)
    · rw [h2 q hqp] at hq ⊢
      rw [rib_update_table, if_neg hqp] at hq ⊢
      exact ih q lb hq

theorem select_candidate_ne_none (lb : label_bindings) (n : Nat) :
    select_candidate lb n ≠ none ↔ ∃ l ∈ lsps lb, l.nexthop = n := by
  constructor
  · intro h
    cases hc : select_candidate lb n with
    | none => exact absurd hc h
    | some l => exact ⟨l, (select_candidate_mem hc).1, (select_candidate_mem hc).2⟩
  · rintro ⟨l, hl, hn⟩ hc
    have hfind : lb.static_lsps.find? (fun x => x.nexthop == n) = none →
        ∀ x ∈ lb.static_lsps, x.nexthop ≠ n := by
      intro hf x hx
      have := List.find?_eq_none.1 hf x hx
      simpa using this
    unfold select_candidate at hc
    simp only [lsps, List.mem_append, Option.mem_toList, Option.mem_def] at hl
    cases hd : lb.ldp_lsp with
    | none =>
      rw [hd] at hc hl
      rcases hl with hl | hl
      · exact hfind hc l hl hn
      · cases hl
    | some d =>
      rw [hd] at hc hl
      dsimp only at hc
      split at hc
      · cases hc
      · rename_i hdn
        rcases hl with hl | hl
        · exact hfind hc l hl hn
        · simp only [Option.some.injEq] at hl
          rw [hl] at hdn
          exact hdn hn

/-- What the engine keeps of the relation between selection and route: in
every state reached with all RIB changes notified through the hooks, a
bindings record has a selected LSP if and only if its prefix has an active
route and one of its LSPs (the LDP LSP or a static LSP) has the address that
`get_prefix_nexthop` returns for the route; and when both the LDP LSP and a
static LSP have that address, the selected LSP is the LDP LSP. -/
theorem selected_lsp_follows_get_prefix_nexthop (K : zebra_consts) (drv : driver) (s : zebra)
    (h : notified K drv s) (p : Prefix) (lb : label_bindings)
    (hlb : (s.table p).mpls = some lb) :
    (lb.selected_lsp ≠ none ↔
      zebra_route_node_active K (s.table p).info = true ∧
      ∃ n, get_prefix_nexthop K (s.table p).info = some n ∧
        ∃ l, (lb.ldp_lsp = some l ∨ l ∈ lb.static_lsps) ∧ l.nexthop = n) ∧
    (∀ n d l, get_prefix_nexthop K (s.table p).info = some n →
      lb.ldp_lsp = some d → d.nexthop = n → l ∈ lb.static_lsps → l.nexthop = n →
      lb.selected_lsp = some d) := by
  have hok := notified_sel_ok h p lb hlb
  unfold sel_ok at hok
  have hmem : ∀ l, l ∈ lsps lb ↔ (lb.ldp_lsp = some l ∨ l ∈ lb.static_lsps) := by
    intro l
    simp only [lsps, List.mem_append, Option.mem_toList, Option.mem_def]
    exact Or.comm
  constructor
  · constructor
    · intro hne
      cases hn : get_prefix_nexthop K (s.table p).info with
      | none => rw [hn] at hok; exact absurd hok hne
      | some n =>
        rw [hn] at hok
        dsimp only at hok
        rw [hok] at hne
        obtain ⟨l, hl, hln⟩ := (select_candidate_ne_none lb n).1 hne
        exact ⟨nexthop_some_active K _ n hn, n, rfl, l, (hmem l).1 hl, hln⟩
    · rintro ⟨-, n, hn, l, hl, hln⟩
      rw [hn] at hok
      dsimp only at hok
      rw [hok]
      exact (select_candidate_ne_none lb n).2 ⟨l, (hmem l).2 hl, hln⟩
  · intro n d l hn hd hdn _ _
    rw [hn] at hok
    dsimp only at hok
    rw [hok]
    unfold select_candidate
    rw [hd]
    dsimp only
    rw [if_pos hdn]

/-! ## Client messages -/

theorem sends_append (a b : List event) : sends (a ++ b) = sends a ++ sends b := by
  simp [sends]

theorem sends_xc_unregister_if (sel : Option route_lsp) (label : Nat) :
    sends (xc_unregister_if sel label) = [] := by
  cases sel <;> rfl

theorem sends_xc_register_if (sel : Option route_lsp) (label : Nat) :
    sends (xc_register_if sel label) = [] := by
  cases sel <;> rfl

theorem sends_broadcast (cl : List zserv) (p : Prefix) (label : Nat) :
    sends (broadcast cl p label) = broadcast cl p label := by
  unfold sends broadcast
  rw [List.filter_eq_self]
  intro e he
  obtain ⟨c, -, hc⟩ := List.mem_map.1 he
  rw [← hc]; rfl

theorem sends_set_static_events (K : zebra_consts) (c : mpls_rn) (label : Nat) :
    sends (set_static_events K c label) =
      if zebra_route_node_active K c.info = true then broadcast c.client_list c.p label
      else [] := by
  unfold set_static_events
  split
  · rw [sends_append, sends_append, sends_append, sends_broadcast, sends_xc_register_if]
    split
    · rw [sends_append, sends_xc_unregister_if]; rfl
    · rfl
  · rfl

theorem sends_remove_static_events (K : zebra_consts) (c : mpls_rn) :
    sends (remove_static_events K c) =
      if zebra_route_node_active K c.info = true then
        broadcast c.client_list c.p (remove_static_selected K c)
      else [] := by
  unfold remove_static_events
  split
  · rw [sends_append, sends_append, sends_append, sends_broadcast, sends_xc_unregister_if]
    split
    · rfl
    · rw [sends_append, sends_xc_register_if]; rfl
  · rfl

theorem sends_set_ldp_events (c : mpls_rn) (label : Nat) :
    sends (set_ldp_events c label) = [] := by
  unfold set_ldp_events
  rw [sends_append]
  split
  · rw [sends_append, sends_xc_unregister_if]
    split
    · rw [sends_append, sends_xc_register_if]; rfl
    · rfl
  · split
    · rw [sends_append, sends_xc_register_if]; rfl
    · rfl

theorem emitted_put_rn (s : zebra) (p : Prefix) (c : mpls_rn) (es : List event)
    (h : c.log = s.log ++ es) : emitted s.log (put_rn s p c) = es := by
  unfold emitted
  rw [put_rn_log, h, List.drop_left]

theorem quiet_step (s : zebra) (p : Prefix) (c : mpls_rn) (hq : quiet_frame (rn_of s p) c) :
    (put_rn s p c).log = s.log ++ emitted s.log (put_rn s p c) ∧
    sends (emitted s.log (put_rn s p c)) = [] := by
  obtain ⟨-, -, -, -, es, hl, hs⟩ := hq
  have hl' : c.log = s.log ++ es := hl
  rw [emitted_put_rn s p c es hl', put_rn_log]
  exact ⟨hl', hs⟩

theorem set_static_rn_sends (K : zebra_consts) (c : mpls_rn) (label : Nat) :
    static_edit_sends K c (set_static_input_label_rn K c label) := by
  rw [set_static_input_label_rn_eq]
  by_cases h1 : c.lb.static_in_label = label
  · rw [if_pos h1]
    exact ⟨[], by simp, Or.inr ⟨fun h => h.1 rfl, rfl⟩⟩
  · rw [if_neg h1]
    refine ⟨set_static_events K c label, rfl, ?_⟩
    rw [sends_set_static_events]
    by_cases ha : zebra_route_node_active K c.info = true
    · rw [if_pos ha]
      exact Or.inl ⟨fun e => h1 e.symm, ha, rfl⟩
    · rw [if_neg ha]
      exact Or.inr ⟨fun h => ha h.2, rfl⟩

theorem remove_static_rn_sends (K : zebra_consts) (c : mpls_rn) (label : Nat) :
    static_edit_sends K c (remove_static_input_label_rn K c label) := by
  rw [remove_static_input_label_rn_eq]
  by_cases h1 : c.lb.static_in_label = NO_LABEL
  · rw [if_pos h1]
    exact ⟨[], by simp, Or.inr ⟨fun h => h.1 rfl, rfl⟩⟩
  · rw [if_neg h1]
    by_cases h2 : label ≠ NO_LABEL ∧ c.lb.static_in_label ≠ label
    · rw [if_pos h2]
      exact ⟨[], by simp, Or.inr ⟨fun h => h.1 rfl, rfl⟩⟩
    · rw [if_neg h2]
      refine ⟨remove_static_events K c, rfl, ?_⟩
      rw [sends_remove_static_events]
      by_cases ha : zebra_route_node_active K c.info = true
      · rw [if_pos ha]
        exact Or.inl ⟨fun e => h1 e.symm, ha, rfl⟩
      · rw [if_neg ha]
        exact Or.inr ⟨fun h => ha h.2, rfl⟩

theorem sends_rule_quiet (K : zebra_consts) (s : zebra) (o : op) (p : Prefix) (c : mpls_rn)
    (ho : o.static_edit = none) (hq : quiet_frame (rn_of s p) c) :
    sends_rule K s (put_rn s p c) o := by
  have := quiet_step s p c hq
  refine ⟨this.1, Or.inr ⟨?_, this.2⟩⟩
  intro q hb
  have h1 := hb.1
  rw [ho] at h1
  cases h1

theorem sends_rule_same (K : zebra_consts) (s : zebra) (o : op) (ho : o.static_edit = none) :
    sends_rule K s s o := by
  have hem : emitted s.log s = [] := by simp [emitted]
  unfold sends_rule
  rw [hem]
  refine ⟨by simp, Or.inr ⟨?_, rfl⟩⟩
  intro q hb
  have h1 := hb.1
  rw [ho] at h1
  cases h1

theorem sends_rule_static_edit (K : zebra_consts) (s : zebra) (o : op) (p : Prefix)
    (c : mpls_rn) (ho : o.static_edit = some p) (hc : static_edit_sends K (rn_of s p) c) :
    sends_rule K s (put_rn s p c) o := by
  obtain ⟨es, hl, hcases⟩ := hc
  have hl' : c.log = s.log ++ es := hl
  unfold sends_rule
  rw [emitted_put_rn s p c es hl', put_rn_log]
  refine ⟨hl', ?_⟩
  rcases hcases with ⟨hne, ha, hs⟩ | ⟨hn, hs⟩
  · left
    refine ⟨p, ⟨ho, ?_, ha⟩, ?_⟩
    · rw [put_rn_bindings]; exact hne
    · rw [put_rn_bindings]; exact hs
  · right
    refine ⟨?_, hs⟩
    intro q hb
    obtain ⟨hq, hne, hact⟩ := hb
    rw [ho] at hq
    simp only [Option.some.injEq] at hq
    subst hq
    rw [put_rn_bindings] at hne
    exact hn ⟨hne, hact⟩

theorem step_sends (K : zebra_consts) (drv : driver) (s : zebra) (o : op) :
    sends_rule K s (step K drv s o) o := by
  cases o with
  | set_static_input_label p label =>
    show sends_rule K s (mpls_prefix_set_static_input_label K s p label) _
    rw [set_static_input_label_put]
    exact sends_rule_static_edit K s _ p _ rfl (set_static_rn_sends K (rn_of s p) label)
  | remove_static_input_label p label =>
    show sends_rule K s (mpls_prefix_remove_static_input_label K s p label) _
    rw [remove_static_input_label_put]
    exact sends_rule_static_edit K s _ p _ rfl (remove_static_rn_sends K (rn_of s p) label)
  | set_ldp_input_label p label =>
    show sends_rule K s (mpls_prefix_set_ldp_input_label K s p label) _
    rw [set_ldp_input_label_put]
    refine sends_rule_quiet K s _ p _ rfl ?_
    rw [set_ldp_input_label_rn_eq]
    split
    · exact quiet_frame_lb _ _
    · split
      · exact quiet_frame_lb _ _
      · split
        · exact ⟨rfl, rfl, rfl, le_refl _, set_ldp_events (rn_of s p) label, rfl,
            sends_set_ldp_events _ _⟩
        · exact quiet_frame_lb _ _
  | add_static_lsp p nexthop label =>
    show sends_rule K s (mpls_prefix_add_static_lsp K drv s p nexthop label) _
    rw [add_static_lsp_put]
    exact sends_rule_quiet K s _ p _ rfl
      (add_static_lsp_rn_frame K drv (rn_of s p) nexthop label).1
  | remove_static_lsp p nexthop =>
    show sends_rule K s (mpls_prefix_remove_static_lsp K drv s p nexthop) _
    rw [remove_static_lsp_put]
    exact sends_rule_quiet K s _ p _ rfl
      (remove_static_lsp_rn_frame K drv (rn_of s p) nexthop).1
  | set_ldp_lsp p nexthop label =>
    show sends_rule K s (mpls_prefix_set_ldp_lsp K drv s p nexthop label) _
    rw [set_ldp_lsp_put]
    exact sends_rule_quiet K s _ p _ rfl
      (set_ldp_lsp_rn_frame K drv (rn_of s p) nexthop label).1
  | remove_ldp_lsp p nexthop label =>
    show sends_rule K s (mpls_prefix_remove_ldp_lsp K drv s p nexthop label) _
    rw [remove_ldp_lsp_put]
    exact sends_rule_quiet K s _ p _ rfl
      (remove_ldp_lsp_rn_frame K drv (rn_of s p) nexthop label).1
  | route_install_hook p =>
    show sends_rule K s (with_rn (route_install_hook_rn K drv) s p) _
    rw [with_rn_hook]
    split
    · exact sends_rule_same K s _ rfl
    · exact sends_rule_quiet K s _ p _ rfl (route_install_hook_rn_frame K drv (rn_of s p)).1
  | route_uninstall_hook p =>
    show sends_rule K s (with_rn (route_uninstall_hook_rn K) s p) _
    rw [with_rn_hook]
    split
    · exact sends_rule_same K s _ rfl
    · exact sends_rule_quiet K s _ p _ rfl (route_uninstall_hook_rn_frame K (rn_of s p)).1
  | rib_update p info =>
    show sends_rule K s (rib_update s p info) _
    have hem : emitted s.log (rib_update s p info) = [] := by
      simp [emitted, rib_update]
    unfold sends_rule
    rw [hem]
    refine ⟨by simp [rib_update], Or.inr ⟨?_, rfl⟩⟩
    intro q hb
    cases hb.1

/-- C9: the client messages an operation sends are the in-label message to
every subscribed client when the operation is an edit of the static in-label
(set or clear) that changes `static_in_label` while the route is active, and
none otherwise: the dynamic in-label mutator, the LSP mutators, the hooks,
static edits on an inactive route and static edits that return early send
nothing.  With a subscribed client, a message is sent exactly in the first
case. -/
theorem C9_client_broadcast_rule (K : zebra_consts) (drv : driver) (s : zebra) (o : op) :
    (step K drv s o).log = s.log ++ emitted s.log (step K drv s o) ∧
    (∀ p, broadcasts_for K s (step K drv s o) o p →
      sends (emitted s.log (step K drv s o)) =
        broadcast s.client_list p (bindings (step K drv s o) p).selected_in_label) ∧
    ((∀ p, ¬ broadcasts_for K s (step K drv s o) o p) →
      sends (emitted s.log (step K drv s o)) = []) ∧
    ((∃ c ∈ s.client_list, c.redist_mpls = true) →
      (sends (emitted s.log (step K drv s o)) ≠ [] ↔
        ∃ p, broadcasts_for K s (step K drv s o) o p)) := by
  obtain ⟨hlog, hcases⟩ := step_sends K drv s o
  refine ⟨hlog, ?_, ?_, ?_⟩
  · intro p hb
    rcases hcases with ⟨q, hq, hs⟩ | ⟨hn, -⟩
    · have : q = p := by
        have h1 := hq.1
        rw [hb.1] at h1
        simp only [Option.some.injEq] at h1
        exact h1.symm
      rw [← this]; exact hs
    · exact absurd hb (hn p)
  · intro hn
    rcases hcases with ⟨q, hq, -⟩ | ⟨-, hs⟩
    · exact absurd hq (hn q)
    · exact hs
  · rintro ⟨c, hc, hr⟩
    rcases hcases with ⟨q, hq, hs⟩ | ⟨hn, hs⟩
    · constructor
      · intro _; exact ⟨q, hq⟩
      · intro _
        rw [hs]
        intro he
        have hm : event.zsend_prefix_in_label c.sock q
            (bindings (step K drv s o) q).selected_in_label ∈
            broadcast s.client_list q (bindings (step K drv s o) q).selected_in_label := by
          unfold broadcast
          exact List.mem_map.2 ⟨c, List.mem_filter.2 ⟨hc, hr⟩, rfl⟩
        rw [he] at hm
        cases hm
    · constructor
      · intro h; exact absurd hs h
      · rintro ⟨p, hp⟩; exact absurd hp (hn p)

/-! ## Concrete runs -/

theorem ldp_state_notified : notified quagga_consts null_driver ldp_state :=
  notified.mutator _ (op.set_ldp_input_label demo_prefix 200)
    (notified.route_install _ demo_prefix (demo_route demo_nexthop)
      (notified.start demo_clients) rfl) rfl

theorem bound_state_notified : notified quagga_consts null_driver bound_state :=
  notified.mutator _ (op.set_ldp_lsp demo_prefix demo_nexthop 400)
    (notified.mutator _ (op.add_static_lsp demo_prefix 5 301)
      (notified.mutator _ (op.add_static_lsp demo_prefix demo_nexthop 300)
        (notified.mutator _ (op.set_static_input_label demo_prefix 100)
          ldp_state_notified rfl) rfl) rfl) rfl

theorem stale_state_notified : notified quagga_consts null_driver stale_state :=
  notified.mutator _ (op.remove_static_input_label demo_prefix NO_LABEL)
    (notified.route_uninstall _ demo_prefix []
      (notified.mutator _ (op.set_static_input_label demo_prefix 100)
        ldp_state_notified rfl) rfl) rfl

/-- C1 (counterexample): after the route of 10.0.0.0/8 came up, LDP bound
in-label 200, the operator bound static in-label 100, the route went down and
the operator removed the static in-label, the record has no static in-label
and dynamic in-label 200, but selected in-label 100. -/
theorem C1_counterexample :
    reachable quagga_consts null_driver stale_state ∧
    notified quagga_consts null_driver stale_state ∧
    (stale_state.table demo_prefix).mpls = some (bindings stale_state demo_prefix) ∧
    (bindings stale_state demo_prefix).static_in_label = NO_LABEL ∧
    (bindings stale_state demo_prefix).ldp_in_label = 200 ∧
    (bindings stale_state demo_prefix).selected_in_label = 100 ∧
    (bindings stale_state demo_prefix).selected_in_label
      ≠ (bindings stale_state demo_prefix).ldp_in_label :=
  ⟨notified_reachable stale_state_notified, stale_state_notified, rfl, rfl, rfl, rfl,
    by decide⟩

/-- C1 (witness): after `ldp_run`, all of whose in-label edits happen on an
active route, the record has no static in-label and its selected in-label is
the dynamic one. -/
theorem C1_selected_in_label_invariant_witness :
    reachable_by quagga_consts null_driver (in_label_edit_ok quagga_consts) ldp_state ∧
    (ldp_state.table demo_prefix).mpls = some (bindings ldp_state demo_prefix) ∧
    (bindings ldp_state demo_prefix).static_in_label = NO_LABEL ∧
    (bindings ldp_state demo_prefix).selected_in_label
      = (bindings ldp_state demo_prefix).ldp_in_label :=
  have hr : reachable_by quagga_consts null_driver (in_label_edit_ok quagga_consts) ldp_state :=
    reachable_by.step _ (op.set_ldp_input_label demo_prefix 200)
      (reachable_by.step _ (op.route_install_hook demo_prefix)
        (reachable_by.step _ (op.rib_update demo_prefix (demo_route demo_nexthop))
          (reachable_by.start demo_clients) trivial) trivial) (Or.inl rfl)
  ⟨hr, rfl, rfl,
    (C1_selected_in_label_invariant quagga_consts null_driver).2 ldp_state hr demo_prefix
      (bindings ldp_state demo_prefix) rfl rfl⟩

/-- C2 (witness): in the state after `bound_run` the selected LSP is the LDP
LSP of the record. -/
theorem C2_selected_lsp_is_owned_witness :
    reachable quagga_consts null_driver bound_state ∧
    (bound_state.table demo_prefix).mpls = some (bindings bound_state demo_prefix) ∧
    ((bindings bound_state demo_prefix).selected_lsp = none ∨
      (bindings bound_state demo_prefix).selected_lsp
        = (bindings bound_state demo_prefix).ldp_lsp ∨
      ∃ l ∈ (bindings bound_state demo_prefix).static_lsps,
        (bindings bound_state demo_prefix).selected_lsp = some l) :=
  ⟨notified_reachable bound_state_notified, rfl,
    (C2_selected_lsp_is_owned quagga_consts null_driver bound_state
      (notified_reachable bound_state_notified)).1 demo_prefix
      (bindings bound_state demo_prefix) rfl⟩

/-- In the state after `bound_run` the route is active with next hop
192.0.2.1 and an LSP is selected. -/
theorem bound_state_selected_lsp :
    notified quagga_consts null_driver bound_state ∧
    (bound_state.table demo_prefix).mpls = some (bindings bound_state demo_prefix) ∧
    ((bindings bound_state demo_prefix).selected_lsp ≠ none ↔
      zebra_route_node_active quagga_consts (bound_state.table demo_prefix).info = true ∧
      ∃ n, get_prefix_nexthop quagga_consts (bound_state.table demo_prefix).info = some n ∧
        ∃ l, ((bindings bound_state demo_prefix).ldp_lsp = some l ∨
          l ∈ (bindings bound_state demo_prefix).static_lsps) ∧ l.nexthop = n) :=
  ⟨bound_state_notified, rfl,
    (selected_lsp_follows_get_prefix_nexthop quagga_consts null_driver bound_state
      bound_state_notified
      demo_prefix (bindings bound_state demo_prefix) rfl).1⟩

/-- C5 (witness): setting static in-label 101 in the state after `bound_run`,
where 100 is selected on an active route with a selected LSP. -/
theorem C5_set_static_input_label_effect_witness :
    (101 : Nat) ≠ (bindings bound_state demo_prefix).static_in_label ∧
    (bindings (mpls_prefix_set_static_input_label quagga_consts bound_state demo_prefix 101)
      demo_prefix).static_in_label = 101 ∧
    (bindings (mpls_prefix_set_static_input_label quagga_consts bound_state demo_prefix 101)
      demo_prefix).selected_in_label = 101 :=
  ⟨by decide,
    (C5_set_static_input_label_effect quagga_consts bound_state demo_prefix 101
      (by decide)).1,
    (C5_set_static_input_label_effect quagga_consts bound_state demo_prefix 101
      (by decide)).2.1⟩

/-- C7 (witness): static in-label 100 and dynamic in-label 200, then the
static in-label is cleared: ILM 100 off, ILM 200 on, 200 selected. -/
theorem C7_remove_static_falls_back_to_ldp_witness :
    zebra_route_node_active quagga_consts (bound_state.table demo_prefix).info = true ∧
    (bindings bound_state demo_prefix).static_in_label = 100 ∧
    (bindings bound_state demo_prefix).ldp_in_label = 200 ∧
    (bindings bound_state demo_prefix).selected_in_label = 100 ∧
    (mpls_prefix_remove_static_input_label quagga_consts bound_state demo_prefix NO_LABEL).log
      = bound_state.log
        ++ xc_unregister_if (bindings bound_state demo_prefix).selected_lsp 100
        ++ [event.ilm_unregister 100, event.ilm_register 200]
        ++ xc_register_if (bindings bound_state demo_prefix).selected_lsp 200
        ++ broadcast bound_state.client_list demo_prefix 200 ∧
    (bindings (mpls_prefix_remove_static_input_label quagga_consts bound_state demo_prefix
      NO_LABEL) demo_prefix).selected_in_label = 200 :=
  ⟨rfl, rfl, rfl, rfl,
    (C7_remove_static_falls_back_to_ldp quagga_consts bound_state demo_prefix NO_LABEL 100 200
      rfl rfl (by decide) rfl (by decide) rfl (Or.inl rfl)).1,
    (C7_remove_static_falls_back_to_ldp quagga_consts bound_state demo_prefix NO_LABEL 100 200
      rfl rfl (by decide) rfl (by decide) rfl (Or.inl rfl)).2.1⟩

/-- C8 (witness): in the state after `bound_run` the static in-label 100
shadows a new dynamic in-label 201. -/
theorem C8_static_shadows_ldp_witness :
    (bindings bound_state demo_prefix).static_in_label ≠ NO_LABEL ∧
    (mpls_prefix_set_ldp_input_label quagga_consts bound_state demo_prefix 201).log
      = bound_state.log :=
  ⟨by decide,
    (C8_static_shadows_ldp quagga_consts bound_state demo_prefix 201 (by decide)).2⟩

/-- C10 (witness): the two static LSPs after `bound_run` have different next
hops. -/
theorem C10_static_lsps_nexthop_unique_witness :
    reachable quagga_consts null_driver bound_state ∧
    (bound_state.table demo_prefix).mpls = some (bindings bound_state demo_prefix) ∧
    ((bindings bound_state demo_prefix).static_lsps.map (fun x => x.nexthop)).Nodup :=
  ⟨notified_reachable bound_state_notified, rfl,
    (C10_static_lsps_nexthop_unique quagga_consts null_driver bound_state
      (notified_reachable bound_state_notified) demo_prefix
      (bindings bound_state demo_prefix) rfl).1⟩

/-! ## The static cross-connect table -/

theorem crossconnect_add_loop_absent (in_label : Nat) (ifp : Option Nat)
    (nexthop out_label : Nat) (l : List mpls_crossconnect) (s : zebra)
    (h : ∀ mc ∈ l, mc.in_label ≠ in_label) :
    crossconnect_add_loop in_label ifp nexthop out_label l s = (false, s) := by
  induction l with
  | nil => rfl
  | cons a t ih =>
    unfold crossconnect_add_loop
    rw [if_neg (h a (List.mem_cons_self _ _))]
    exact ih (fun mc hmc => h mc (List.mem_cons_of_mem _ hmc))

/-- With one entry per incoming label at most, the loop of
`mpls_static_crossconnect_add` returns at an identical entry, removes an
entry with other content, and does nothing without an entry. -/
theorem crossconnect_add_loop_eq (in_label : Nat) (ifp : Option Nat)
    (nexthop out_label : Nat) (l : List mpls_crossconnect) (s : zebra)
    (hnd : (l.map (fun mc => mc.in_label)).Nodup) :
    crossconnect_add_loop in_label ifp nexthop out_label l s =
      match l.find? (fun mc => mc.in_label == in_label) with
      | none => (false, s)
      | some mc =>
        if crossconnect_same mc ifp nexthop out_label then (true, s)
        else (false, (mpls_static_crossconnect_remove s in_label).2) := by
  induction l with
  | nil => rfl
  | cons a t ih =>
    rw [List.map_cons, List.nodup_cons] at hnd
    unfold crossconnect_add_loop
    by_cases ha : a.in_label = in_label
    · rw [if_pos ha]
      have hf : (a :: t).find? (fun mc => mc.in_label == in_label) = some a := by
        simp [List.find?_cons, ha]
      rw [hf]
      dsimp only
      split
      · rfl
      · refine crossconnect_add_loop_absent in_label ifp nexthop out_label t _ ?_
        intro mc hmc hq
        apply hnd.1
        rw [ha, ← hq]
        exact List.mem_map_of_mem _ hmc
    · rw [if_neg ha]
      have hf : (a :: t).find? (fun mc => mc.in_label == in_label) =
          t.find? (fun mc => mc.in_label == in_label) := by
        simp [List.find?_cons, ha]
      rw [hf]
      exact ih hnd.2

theorem find_of_mem_nodup (l : List mpls_crossconnect) (in_label : Nat)
    (hnd : (l.map (fun mc => mc.in_label)).Nodup) (mc : mpls_crossconnect) (hm : mc ∈ l)
    (hl : mc.in_label = in_label) :
    l.find? (fun x => x.in_label == in_label) = some mc := by
  cases hf : l.find? (fun x => x.in_label == in_label) with
  | none =>
    have := List.find?_eq_none.1 hf mc hm
    simp [hl] at this
  | some x =>
    have hx : x ∈ l := List.mem_of_find?_eq_some hf
    have hxl : x.in_label = in_label := by simpa using List.find?_some hf
    rw [List.inj_on_of_nodup_map hnd hx hm (hxl.trans hl.symm)]

/-- C18: on a table (one entry per incoming label) that has an entry with
incoming label `in_label` whose LSP has the interface, next hop and outgoing
label given, `mpls_static_crossconnect_add` returns 0 and leaves the process
state as it was: no call is made and the table is unchanged. -/
theorem C18_crossconnect_add_idempotent (drv : driver) (s : zebra) (in_label : Nat)
    (ifp : Option Nat) (nexthop out_label : Nat)
    (hnd : (s.mpls_crossconnect_list.map (fun mc => mc.in_label)).Nodup)
    (h : ∃ mc ∈ s.mpls_crossconnect_list, mc.in_label = in_label ∧ mc.lsp.ifp = ifp ∧
      mc.lsp.nexthop = nexthop ∧ mc.lsp.remote_label = out_label) :
    (mpls_static_crossconnect_add drv s in_label ifp nexthop out_label).1 = 0 ∧
    (mpls_static_crossconnect_add drv s in_label ifp nexthop out_label).2 = s ∧
    (mpls_static_crossconnect_add drv s in_label ifp nexthop out_label).2.log = s.log ∧
    (mpls_static_crossconnect_add drv s in_label ifp nexthop out_label).2.mpls_crossconnect_list
      = s.mpls_crossconnect_list := by
  obtain ⟨mc, hm, hl, h1, h2, h3⟩ := h
  have key : mpls_static_crossconnect_add drv s in_label ifp nexthop out_label = (0, s) := by
    unfold mpls_static_crossconnect_add
    rw [crossconnect_add_loop_eq in_label ifp nexthop out_label _ s hnd,
      find_of_mem_nodup _ in_label hnd mc hm hl]
    have hs : crossconnect_same mc ifp nexthop out_label = true := by
      simp [crossconnect_same, h1, h2, h3]
    simp only [hs, if_true]
  rw [key]
  exact ⟨rfl, rfl, rfl, rfl⟩

/-- C18 (witness): adding (100, if0, 192.0.2.2, 300) again to the table that
holds it. -/
theorem C18_crossconnect_add_idempotent_witness :
    (xc_state.mpls_crossconnect_list.map (fun mc => mc.in_label)).Nodup ∧
    (∃ mc ∈ xc_state.mpls_crossconnect_list, mc.in_label = 100 ∧ mc.lsp.ifp = demo_ifp ∧
      mc.lsp.nexthop = demo_xc_nexthop ∧ mc.lsp.remote_label = 300) ∧
    (mpls_static_crossconnect_add null_driver xc_state 100 demo_ifp demo_xc_nexthop 300).1 = 0 ∧
    (mpls_static_crossconnect_add null_driver xc_state 100 demo_ifp demo_xc_nexthop 300).2.log
      = xc_state.log :=
  have hnd : (xc_state.mpls_crossconnect_list.map (fun mc => mc.in_label)).Nodup := by decide
  have hex : ∃ mc ∈ xc_state.mpls_crossconnect_list, mc.in_label = 100 ∧
      mc.lsp.ifp = demo_ifp ∧ mc.lsp.nexthop = demo_xc_nexthop ∧ mc.lsp.remote_label = 300 :=
    ⟨mpls_crossconnect_new 1 100 demo_ifp demo_xc_nexthop 300, by decide, rfl, rfl, rfl, rfl⟩
  ⟨hnd, hex,
    (C18_crossconnect_add_idempotent null_driver xc_state 100 demo_ifp demo_xc_nexthop 300
      hnd hex).1,
    (C18_crossconnect_add_idempotent null_driver xc_state 100 demo_ifp demo_xc_nexthop 300
      hnd hex).2.2.1⟩

theorem zemit_log (s : zebra) (e : event) : (zemit s e).log = s.log ++ [e] := rfl

/-- The part of `mpls_static_crossconnect_add` after its loop, for a state
`s` the loop left: the entry is created and linked, then programmed. -/
theorem crossconnect_add_of_loop (drv : driver) (s s1 : zebra) (in_label : Nat)
    (ifp : Option Nat) (nexthop out_label : Nat)
    (hloop : crossconnect_add_loop in_label ifp nexthop out_label s.mpls_crossconnect_list s
      = (false, s1)) :
    (mpls_static_crossconnect_add drv s in_label ifp nexthop out_label).2.mpls_crossconnect_list
      = s1.mpls_crossconnect_list
        ++ [mpls_crossconnect_new s1.alloc in_label ifp nexthop out_label] ∧
    (drv (s1.log ++ [event.nhlfe_register
        (mpls_crossconnect_new s1.alloc in_label ifp nexthop out_label).lsp]) < 0 →
      (mpls_static_crossconnect_add drv s in_label ifp nexthop out_label).1 = -1 ∧
      (mpls_static_crossconnect_add drv s in_label ifp nexthop out_label).2.log = s1.log
        ++ [event.nhlfe_register
            (mpls_crossconnect_new s1.alloc in_label ifp nexthop out_label).lsp]) ∧
    (¬ drv (s1.log ++ [event.nhlfe_register
        (mpls_crossconnect_new s1.alloc in_label ifp nexthop out_label).lsp]) < 0 →
      drv (s1.log ++ [event.nhlfe_register
        (mpls_crossconnect_new s1.alloc in_label ifp nexthop out_label).lsp,
        event.ilm_register in_label]) < 0 →
      (mpls_static_crossconnect_add drv s in_label ifp nexthop out_label).1 = -1 ∧
      (mpls_static_crossconnect_add drv s in_label ifp nexthop out_label).2.log = s1.log
        ++ [event.nhlfe_register
            (mpls_crossconnect_new s1.alloc in_label ifp nexthop out_label).lsp,
          event.ilm_register in_label,
          event.nhlfe_unregister
            (mpls_crossconnect_new s1.alloc in_label ifp nexthop out_label).lsp]) ∧
    (¬ drv (s1.log ++ [event.nhlfe_register
        (mpls_crossconnect_new s1.alloc in_label ifp nexthop out_label).lsp]) < 0 →
      ¬ drv (s1.log ++ [event.nhlfe_register
        (mpls_crossconnect_new s1.alloc in_label ifp nexthop out_label).lsp,
        event.ilm_register in_label]) < 0 →
      drv (s1.log ++ [event.nhlfe_register
        (mpls_crossconnect_new s1.alloc in_label ifp nexthop out_label).lsp,
        event.ilm_register in_label,
        event.xc_register in_label
          (mpls_crossconnect_new s1.alloc in_label ifp nexthop out_label).lsp]) < 0 →
      (mpls_static_crossconnect_add drv s in_label ifp nexthop out_label).1 = -1 ∧
      (mpls_static_crossconnect_add drv s in_label ifp nexthop out_label).2.log = s1.log
        ++ [event.nhlfe_register
            (mpls_crossconnect_new s1.alloc in_label ifp nexthop out_label).lsp,
          event.ilm_register in_label,
          event.xc_register in_label
            (mpls_crossconnect_new s1.alloc in_label ifp nexthop out_label).lsp,
          event.ilm_unregister in_label,
          event.nhlfe_unregister
            (mpls_crossconnect_new s1.alloc in_label ifp nexthop out_label).lsp]) ∧
    (¬ drv (s1.log ++ [event.nhlfe_register
        (mpls_crossconnect_new s1.alloc in_label ifp nexthop out_label).lsp]) < 0 →
      ¬ drv (s1.log ++ [event.nhlfe_register
        (mpls_crossconnect_new s1.alloc in_label ifp nexthop out_label).lsp,
        event.ilm_register in_label]) < 0 →
      ¬ drv (s1.log ++ [event.nhlfe_register
        (mpls_crossconnect_new s1.alloc in_label ifp nexthop out_label).lsp,
        event.ilm_register in_label,
        event.xc_register in_label
          (mpls_crossconnect_new s1.alloc in_label ifp nexthop out_label).lsp]) < 0 →
      (mpls_static_crossconnect_add drv s in_label ifp nexthop out_label).1 = 0 ∧
      (mpls_static_crossconnect_add drv s in_label ifp nexthop out_label).2.log = s1.log
        ++ [event.nhlfe_register
            (mpls_crossconnect_new s1.alloc in_label ifp nexthop out_label).lsp,
          event.ilm_register in_label,
          event.xc_register in_label
            (mpls_crossconnect_new s1.alloc in_label ifp nexthop out_label).lsp]) := by
  unfold mpls_static_crossconnect_add
  rw [hloop]
  simp only [zemit_log, List.append_assoc, List.singleton_append, List.cons_append,
    List.nil_append]
  have hin : (mpls_crossconnect_new s1.alloc in_label ifp nexthop out_label).in_label
      = in_label := rfl
  rw [hin]
  refine ⟨?_, ?_, ?_, ?_, ?_⟩
  · split
    · rfl
    · split
      · rfl
      · split <;> rfl
  · intro h1
    rw [if_pos h1]
    exact ⟨rfl, by simp [zemit_log]⟩
  · intro h1 h2
    rw [if_neg h1, if_pos h2]
    exact ⟨rfl, by simp [zemit_log]⟩
  · intro h1 h2 h3
    rw [if_neg h1, if_neg h2, if_pos h3]
    exact ⟨rfl, by simp [zemit_log]⟩
  · intro h1 h2 h3
    rw [if_neg h1, if_neg h2, if_neg h3]
    exact ⟨rfl, by simp [zemit_log]⟩
theorem crossconnect_remove_found (s : zebra) (in_label : Nat) (mc : mpls_crossconnect)
    (hf : s.mpls_crossconnect_list.find? (fun x => x.in_label == in_label) = some mc) :
    (mpls_static_crossconnect_remove s in_label).1 = 0 ∧
    (mpls_static_crossconnect_remove s in_label).2.log = s.log
      ++ [event.xc_unregister in_label mc.lsp, event.ilm_unregister in_label,
          event.nhlfe_unregister mc.lsp] ∧
    (mpls_static_crossconnect_remove s in_label).2.mpls_crossconnect_list
      = listnode_delete_mc s.mpls_crossconnect_list mc ∧
    (mpls_static_crossconnect_remove s in_label).2.alloc = s.alloc := by
  have hl : mc.in_label = in_label := by simpa using List.find?_some hf
  unfold mpls_static_crossconnect_remove
  rw [hf]
  refine ⟨rfl, ?_, rfl, rfl⟩
  simp [zemit_log, hl]

/-- In a list of entries at distinct addresses, deleting the node that holds
`mc` by its address deletes `mc`. -/
theorem listnode_delete_mc_erase (l : List mpls_crossconnect) (mc : mpls_crossconnect)
    (hpd : (l.map (fun x => x.ptr)).Nodup) (hm : mc ∈ l) :
    listnode_delete_mc l mc = l.erase mc := by
  unfold listnode_delete_mc
  induction l with
  | nil => cases hm
  | cons a t ih =>
    rw [List.map_cons, List.nodup_cons] at hpd
    by_cases ha : a = mc
    · subst ha
      simp
    · have hmt : mc ∈ t := by
        rcases List.mem_cons.1 hm with h | h
        · exact absurd h.symm ha
        · exact h
      have hp : a.ptr ≠ mc.ptr := by
        intro hq
        apply hpd.1
        rw [hq]
        exact List.mem_map_of_mem _ hmt
      rw [List.eraseP_cons_of_neg (by simpa using hp), List.erase_cons_tail (by simpa using ha),
        ih hpd.2 hmt]

/-- C19: with a driver whose calls succeed, `mpls_static_crossconnect_add`
on a table without an entry for `in_label` makes exactly the calls NHLFE
install (LSP), ILM install (`in_label`), XC install (`in_label`, LSP) in that
order, returns 0 and appends an entry with the given content.  On a table
(one entry per incoming label, entries at distinct addresses) whose entry for
`in_label` has other content, it first makes the calls XC remove, ILM remove,
NHLFE remove for the old entry, then the three installs for the new one,
returns 0, and the table ends without the old entry and with the new one as
its only entry for `in_label`. -/
theorem C19_crossconnect_add_replace (drv : driver) (s : zebra) (in_label : Nat)
    (ifp : Option Nat) (nexthop out_label : Nat) (hdrv : ∀ log, 0 ≤ drv log) :
    ((∀ mc ∈ s.mpls_crossconnect_list, mc.in_label ≠ in_label) →
      ∃ mc, mc.in_label = in_label ∧ mc.lsp.ifp = ifp ∧ mc.lsp.nexthop = nexthop ∧
        mc.lsp.remote_label = out_label ∧
        (mpls_static_crossconnect_add drv s in_label ifp nexthop out_label).1 = 0 ∧
        (mpls_static_crossconnect_add drv s in_label ifp nexthop out_label).2.log = s.log
          ++ [event.nhlfe_register mc.lsp, event.ilm_register in_label,
              event.xc_register in_label mc.lsp] ∧
        (mpls_static_crossconnect_add drv s in_label ifp nexthop
          out_label).2.mpls_crossconnect_list = s.mpls_crossconnect_list ++ [mc]) ∧
    ((s.mpls_crossconnect_list.map (fun mc => mc.in_label)).Nodup →
      (s.mpls_crossconnect_list.map (fun mc => mc.ptr)).Nodup →
      ∀ old ∈ s.mpls_crossconnect_list, old.in_label = in_label →
      ¬ (old.lsp.ifp = ifp ∧ old.lsp.nexthop = nexthop ∧ old.lsp.remote_label = out_label) →
      ∃ mc, mc.in_label = in_label ∧ mc.lsp.ifp = ifp ∧ mc.lsp.nexthop = nexthop ∧
        mc.lsp.remote_label = out_label ∧
        (mpls_static_crossconnect_add drv s in_label ifp nexthop out_label).1 = 0 ∧
        (mpls_static_crossconnect_add drv s in_label ifp nexthop out_label).2.log = s.log
          ++ [event.xc_unregister in_label old.lsp, event.ilm_unregister in_label,
              event.nhlfe_unregister old.lsp,
              event.nhlfe_register mc.lsp, event.ilm_register in_label,
              event.xc_register in_label mc.lsp] ∧
        (mpls_static_crossconnect_add drv s in_label ifp nexthop
          out_label).2.mpls_crossconnect_list = s.mpls_crossconnect_list.erase old ++ [mc] ∧
        (mpls_static_crossconnect_add drv s in_label ifp nexthop
          out_label).2.mpls_crossconnect_list.filter (fun x => x.in_label == in_label)
          = [mc]) := by
  have hok : ∀ log, ¬ drv log < 0 := fun log => not_lt.2 (hdrv log)
  constructor
  · intro hno
    have hloop := crossconnect_add_loop_absent in_label ifp nexthop out_label
      s.mpls_crossconnect_list s hno
    obtain ⟨hlist, -, -, -, hall⟩ :=
      crossconnect_add_of_loop drv s s in_label ifp nexthop out_label hloop
    obtain ⟨hr, hlog⟩ := hall (hok _) (hok _) (hok _)
    exact ⟨mpls_crossconnect_new s.alloc in_label ifp nexthop out_label, rfl, rfl, rfl, rfl,
      hr, hlog, hlist⟩
  · intro hnd hpd old hold hl hdiff
    have hf := find_of_mem_nodup _ in_label hnd old hold hl
    have hsame : crossconnect_same old ifp nexthop out_label = false := by
      cases hc : crossconnect_same old ifp nexthop out_label with
      | false => rfl
      | true =>
        exfalso
        apply hdiff
        simp [crossconnect_same] at hc
        exact ⟨hc.1.1, hc.1.2, hc.2⟩
    have hloop : crossconnect_add_loop in_label ifp nexthop out_label
        s.mpls_crossconnect_list s = (false, (mpls_static_crossconnect_remove s in_label).2) := by
      rw [crossconnect_add_loop_eq in_label ifp nexthop out_label _ s hnd, hf]
      simp [hsame]
    obtain ⟨-, hlog1, hlist1, halloc1⟩ := crossconnect_remove_found s in_label old hf
    obtain ⟨hlist, -, -, -, hall⟩ :=
      crossconnect_add_of_loop drv s _ in_label ifp nexthop out_label hloop
    obtain ⟨hr, hlog⟩ := hall (hok _) (hok _) (hok _)
    rw [hlist1, listnode_delete_mc_erase _ old hpd hold] at hlist
    refine ⟨mpls_crossconnect_new (mpls_static_crossconnect_remove s in_label).2.alloc
      in_label ifp nexthop out_label, rfl, rfl, rfl, rfl, hr, ?_, hlist, ?_⟩
    · rw [hlog, hlog1]
      simp
    · rw [hlist, List.filter_append]
      have hnone : (s.mpls_crossconnect_list.erase old).filter
          (fun x => x.in_label == in_label) = [] := by
        rw [List.filter_eq_nil_iff]
        intro x hx
        have hndl : s.mpls_crossconnect_list.Nodup := List.Nodup.of_map _ hnd
        have hx' := (List.Nodup.mem_erase_iff hndl).1 hx
        intro hq
        have hxl : x.in_label = in_label := by simpa using hq
        exact hx'.1 (List.inj_on_of_nodup_map hnd hx'.2 hold (hxl.trans hl.symm))
      rw [hnone]
      simp [mpls_crossconnect_new]

/-- C19 (witness): (100, if0, 192.0.2.2, 300) is added to the empty table,
then (100, if0, 192.0.2.2, 400) replaces it. -/
theorem C19_crossconnect_add_replace_witness :
    (∀ log, 0 ≤ null_driver log) ∧
    (∀ mc ∈ (zebra_start demo_clients).mpls_crossconnect_list, mc.in_label ≠ 100) ∧
    xc_state.log = [event.nhlfe_register (mpls_crossconnect_new 1 100 demo_ifp
        demo_xc_nexthop 300).lsp, event.ilm_register 100,
      event.xc_register 100 (mpls_crossconnect_new 1 100 demo_ifp demo_xc_nexthop 300).lsp] ∧
    (∃ mc, mc.in_label = 100 ∧ mc.lsp.ifp = demo_ifp ∧ mc.lsp.nexthop = demo_xc_nexthop ∧
        mc.lsp.remote_label = 400 ∧
        (mpls_static_crossconnect_add null_driver xc_state 100 demo_ifp demo_xc_nexthop 400).1
          = 0 ∧
        (mpls_static_crossconnect_add null_driver xc_state 100 demo_ifp demo_xc_nexthop
          400).2.log = xc_state.log
          ++ [event.xc_unregister 100
                (mpls_crossconnect_new 1 100 demo_ifp demo_xc_nexthop 300).lsp,
              event.ilm_unregister 100,
              event.nhlfe_unregister
                (mpls_crossconnect_new 1 100 demo_ifp demo_xc_nexthop 300).lsp,
              event.nhlfe_register mc.lsp, event.ilm_register 100,
              event.xc_register 100 mc.lsp] ∧
        (mpls_static_crossconnect_add null_driver xc_state 100 demo_ifp demo_xc_nexthop
          400).2.mpls_crossconnect_list
          = xc_state.mpls_crossconnect_list.erase
              (mpls_crossconnect_new 1 100 demo_ifp demo_xc_nexthop 300) ++ [mc] ∧
        (mpls_static_crossconnect_add null_driver xc_state 100 demo_ifp demo_xc_nexthop
          400).2.mpls_crossconnect_list.filter (fun x => x.in_label == 100) = [mc]) :=
  ⟨fun _ => le_refl _, by decide, rfl,
    (C19_crossconnect_add_replace null_driver xc_state 100 demo_ifp demo_xc_nexthop 400
      (fun _ => le_refl _)).2 (by decide) (by decide)
      (mpls_crossconnect_new 1 100 demo_ifp demo_xc_nexthop 300) (by decide) rfl (by decide)⟩

/-- C20: `mpls_static_crossconnect_add` for an incoming label the table does
not have, whatever the driver returns: when NHLFE install fails it returns -1
after that call; when ILM install fails it returns -1 after NHLFE remove;
when XC install fails it returns -1 after ILM remove and NHLFE remove; in
each case the log holds the installs up to the failing one followed by these
removals and nothing else.  When the three installs succeed it returns 0
after them. -/
theorem C20_crossconnect_add_unwinds (drv : driver) (s : zebra) (in_label : Nat)
    (ifp : Option Nat) (nexthop out_label : Nat)
    (hnew : ∀ mc ∈ s.mpls_crossconnect_list, mc.in_label ≠ in_label) :
    (drv (s.log ++ [event.nhlfe_register
        (mpls_crossconnect_new s.alloc in_label ifp nexthop out_label).lsp]) < 0 →
      (mpls_static_crossconnect_add drv s in_label ifp nexthop out_label).1 = -1 ∧
      (mpls_static_crossconnect_add drv s in_label ifp nexthop out_label).2.log = s.log
        ++ [event.nhlfe_register
            (mpls_crossconnect_new s.alloc in_label ifp nexthop out_label).lsp]) ∧
    (¬ drv (s.log ++ [event.nhlfe_register
        (mpls_crossconnect_new s.alloc in_label ifp nexthop out_label).lsp]) < 0 →
      drv (s.log ++ [event.nhlfe_register
        (mpls_crossconnect_new s.alloc in_label ifp nexthop out_label).lsp,
        event.ilm_register in_label]) < 0 →
      (mpls_static_crossconnect_add drv s in_label ifp nexthop out_label).1 = -1 ∧
      (mpls_static_crossconnect_add drv s in_label ifp nexthop out_label).2.log = s.log
        ++ [event.nhlfe_register
            (mpls_crossconnect_new s.alloc in_label ifp nexthop out_label).lsp,
          event.ilm_register in_label,
          event.nhlfe_unregister
            (mpls_crossconnect_new s.alloc in_label ifp nexthop out_label).lsp]) ∧
    (¬ drv (s.log ++ [event.nhlfe_register
        (mpls_crossconnect_new s.alloc in_label ifp nexthop out_label).lsp]) < 0 →
      ¬ drv (s.log ++ [event.nhlfe_register
        (mpls_crossconnect_new s.alloc in_label ifp nexthop out_label).lsp,
        event.ilm_register in_label]) < 0 →
      drv (s.log ++ [event.nhlfe_register
        (mpls_crossconnect_new s.alloc in_label ifp nexthop out_label).lsp,
        event.ilm_register in_label,
        event.xc_register in_label
          (mpls_crossconnect_new s.alloc in_label ifp nexthop out_label).lsp]) < 0 →
      (mpls_static_crossconnect_add drv s in_label ifp nexthop out_label).1 = -1 ∧
      (mpls_static_crossconnect_add drv s in_label ifp nexthop out_label).2.log = s.log
        ++ [event.nhlfe_register
            (mpls_crossconnect_new s.alloc in_label ifp nexthop out_label).lsp,
          event.ilm_register in_label,
          event.xc_register in_label
            (mpls_crossconnect_new s.alloc in_label ifp nexthop out_label).lsp,
          event.ilm_unregister in_label,
          event.nhlfe_unregister
            (mpls_crossconnect_new s.alloc in_label ifp nexthop out_label).lsp]) ∧
    (¬ drv (s.log ++ [event.nhlfe_register
        (mpls_crossconnect_new s.alloc in_label ifp nexthop out_label).lsp]) < 0 →
      ¬ drv (s.log ++ [event.nhlfe_register
        (mpls_crossconnect_new s.alloc in_label ifp nexthop out_label).lsp,
        event.ilm_register in_label]) < 0 →
      ¬ drv (s.log ++ [event.nhlfe_register
        (mpls_crossconnect_new s.alloc in_label ifp nexthop out_label).lsp,
        event.ilm_register in_label,
        event.xc_register in_label
          (mpls_crossconnect_new s.alloc in_label ifp nexthop out_label).lsp]) < 0 →
      (mpls_static_crossconnect_add drv s in_label ifp nexthop out_label).1 = 0 ∧
      (mpls_static_crossconnect_add drv s in_label ifp nexthop out_label).2.log = s.log
        ++ [event.nhlfe_register
            (mpls_crossconnect_new s.alloc in_label ifp nexthop out_label).lsp,
          event.ilm_register in_label,
          event.xc_register in_label
            (mpls_crossconnect_new s.alloc in_label ifp nexthop out_label).lsp]) :=
  (crossconnect_add_of_loop drv s s in_label ifp nexthop out_label
    (crossconnect_add_loop_absent in_label ifp nexthop out_label
      s.mpls_crossconnect_list s hnew)).2

/-- C20 (witness): adding (100, if0, 192.0.2.2, 300) at start-up with a
driver whose third call, the XC install, fails. -/
theorem C20_crossconnect_add_unwinds_witness :
    (∀ mc ∈ (zebra_start demo_clients).mpls_crossconnect_list, mc.in_label ≠ 100) ∧
    (mpls_static_crossconnect_add third_call_fails (zebra_start demo_clients) 100 demo_ifp
      demo_xc_nexthop 300).1 = -1 ∧
    (mpls_static_crossconnect_add third_call_fails (zebra_start demo_clients) 100 demo_ifp
      demo_xc_nexthop 300).2.log = (zebra_start demo_clients).log
        ++ [event.nhlfe_register
            (mpls_crossconnect_new (zebra_start demo_clients).alloc 100 demo_ifp
              demo_xc_nexthop 300).lsp,
          event.ilm_register 100,
          event.xc_register 100
            (mpls_crossconnect_new (zebra_start demo_clients).alloc 100 demo_ifp
              demo_xc_nexthop 300).lsp,
          event.ilm_unregister 100,
          event.nhlfe_unregister
            (mpls_crossconnect_new (zebra_start demo_clients).alloc 100 demo_ifp
              demo_xc_nexthop 300).lsp] :=
  ⟨by decide,
    (C20_crossconnect_add_unwinds third_call_fails (zebra_start demo_clients) 100 demo_ifp
      demo_xc_nexthop 300 (by decide)).2.2.1 (by decide) (by decide) (by decide)⟩

/-! ## Exact results of the selection functions -/

/-- `mpls_prefix_remove_lsp` on the selected LSP: the pointer is cleared and,
on an active route, XC (if an in-label is selected) and NHLFE are removed. -/
theorem remove_lsp_selected (K : zebra_consts) (c : mpls_rn) (lsp : route_lsp)
    (hs : c.lb.selected_lsp = some lsp) :
    mpls_prefix_remove_lsp K c lsp =
      { c with lb := { c.lb with selected_lsp := none },
               log := c.log ++
                 (if zebra_route_node_active K c.info = true then
                    (if c.lb.selected_in_label ≠ NO_LABEL then
                       [event.xc_unregister c.lb.selected_in_label lsp] else [])
                    ++ [event.nhlfe_unregister lsp]
                  else []) } := by
  unfold mpls_prefix_remove_lsp
  have hp : ¬ ptr_of c.lb.selected_lsp ≠ some lsp.ptr := by simp [hs, ptr_of]
  rw [if_neg hp]
  by_cases ha : zebra_route_node_active K c.info = true
  · by_cases hl : c.lb.selected_in_label = NO_LABEL
    · simp [ha, hl, emit]
    · simp [ha, hl, emit]
  · simp [ha]

/-- `mpls_prefix_select_lsp` with nothing selected and no candidate does
nothing. -/
theorem select_lsp_noop (K : zebra_consts) (drv : driver) (c : mpls_rn)
    (hs : c.lb.selected_lsp = none)
    (hc : ∀ n, get_prefix_nexthop K c.info = some n → select_candidate c.lb n = none) :
    mpls_prefix_select_lsp K drv c = c := by
  unfold mpls_prefix_select_lsp
  cases hn : get_prefix_nexthop K c.info with
  | none => rfl
  | some n =>
    dsimp only
    rw [hc n hn, hs]
    simp only [Option.isSome_none, Bool.false_eq_true, false_and, if_false]
    cases c with
    | mk p info lb cl al lg =>
      simp only at hs
      cases lb
      simp only at hs
      subst hs
      rfl

/-- What `mpls_prefix_select_lsp` leaves selected is what was selected or the
candidate for the next hop it read. -/
theorem select_lsp_selected_cases (K : zebra_consts) (drv : driver) (c : mpls_rn) :
    (mpls_prefix_select_lsp K drv c).lb.selected_lsp = c.lb.selected_lsp ∨
    ∃ n, (mpls_prefix_select_lsp K drv c).lb.selected_lsp = select_candidate c.lb n := by
  unfold mpls_prefix_select_lsp
  split
  · exact Or.inl rfl
  · rename_i n _
    dsimp only
    split
    · exact Or.inl rfl
    · right
      refine ⟨n, ?_⟩
      generalize (match c.lb.selected_lsp with
          | some old => mpls_prefix_remove_lsp K c old
          | none => c) = c1
      split
      · rename_i h; rw [h]
      · rename_i sel h
        rw [h]
        split
        · rfl
        · split <;> rfl

/-! ## Route withdrawal -/

/-- C16: for a prefix with a bindings record whose `selected_in_label` is
`L ≠ NO_LABEL` and whose `selected_lsp` is `lsp`, the route-uninstall hook,
run while `zebra_route_node_active` still holds, appends exactly XC remove
`(L, lsp)`, NHLFE remove `lsp`, ILM remove `L` to the log, in that order, and
leaves the record as it was but for `selected_lsp`, which is none. -/
theorem C16_uninstall_hook_withdraws (K : zebra_consts) (s : zebra) (p : Prefix)
    (lb : label_bindings) (L : Nat) (lsp : route_lsp)
    (hrec : (s.table p).mpls = some lb)
    (hL : lb.selected_in_label = L) (hne : L ≠ NO_LABEL)
    (hsel : lb.selected_lsp = some lsp)
    (hact : zebra_route_node_active K (s.table p).info = true) :
    (mpls_route_uninstall_hook K s p).log =
      s.log ++ [event.xc_unregister L lsp, event.nhlfe_unregister lsp, event.ilm_unregister L] ∧
    bindings (mpls_route_uninstall_hook K s p) p = { lb with selected_lsp := none } ∧
    (bindings (mpls_route_uninstall_hook K s p) p).selected_lsp = none ∧
    (bindings (mpls_route_uninstall_hook K s p) p).static_in_label = lb.static_in_label ∧
    (bindings (mpls_route_uninstall_hook K s p) p).ldp_in_label = lb.ldp_in_label ∧
    (bindings (mpls_route_uninstall_hook K s p) p).selected_in_label = L ∧
    (bindings (mpls_route_uninstall_hook K s p) p).static_lsps = lb.static_lsps ∧
    (bindings (mpls_route_uninstall_hook K s p) p).ldp_lsp = lb.ldp_lsp ∧
    (∀ q, q ≠ p → (mpls_route_uninstall_hook K s p).table q = s.table q) := by
  have hb : bindings s p = lb := bindings_of_some hrec
  have hc : route_uninstall_hook_rn K (rn_of s p) =
      { rn_of s p with lb := { lb with selected_lsp := none },
                       log := s.log ++ [event.xc_unregister L lsp, event.nhlfe_unregister lsp,
                         event.ilm_unregister L] } := by
    have hlb : (rn_of s p).lb = lb := hb
    have hinfo : (rn_of s p).info = (s.table p).info := rfl
    have hlog : (rn_of s p).log = s.log := rfl
    unfold route_uninstall_hook_rn
    rw [hlb, hsel]
    dsimp only
    rw [remove_lsp_selected K (rn_of s p) lsp (by rw [hlb]; exact hsel)]
    rw [hinfo, hact, hlb, hL, hlog]
    simp [hne, emit, hL]
  have hput : mpls_route_uninstall_hook K s p = put_rn s p (route_uninstall_hook_rn K (rn_of s p)) := by
    unfold mpls_route_uninstall_hook
    rw [with_rn_hook, hrec]
  rw [hput, put_rn_bindings, put_rn_log, hc]
  refine ⟨rfl, rfl, rfl, rfl, rfl, hL, rfl, rfl, ?_⟩
  intro q hq
  rw [put_rn_table, if_neg hq]

/-- C16 (witness): in the state after `bound_run` in-label 100 and the LDP
LSP to 192.0.2.1 with label 400 are selected; the withdrawal removes
XC (100, that LSP), the NHLFE of that LSP and ILM 100. -/
theorem C16_uninstall_hook_withdraws_witness :
    (bound_state.table demo_prefix).mpls = some (bindings bound_state demo_prefix) ∧
    (bindings bound_state demo_prefix).selected_in_label = 100 ∧
    (bindings bound_state demo_prefix).selected_lsp = some (route_lsp_new 3 demo_nexthop 400) ∧
    zebra_route_node_active quagga_consts (bound_state.table demo_prefix).info = true ∧
    (mpls_route_uninstall_hook quagga_consts bound_state demo_prefix).log =
      bound_state.log ++ [event.xc_unregister 100 (route_lsp_new 3 demo_nexthop 400),
        event.nhlfe_unregister (route_lsp_new 3 demo_nexthop 400), event.ilm_unregister 100] ∧
    (bindings (mpls_route_uninstall_hook quagga_consts bound_state demo_prefix)
      demo_prefix).selected_lsp = none :=
  ⟨rfl, rfl, rfl, rfl,
    (C16_uninstall_hook_withdraws quagga_consts bound_state demo_prefix
      (bindings bound_state demo_prefix) 100 (route_lsp_new 3 demo_nexthop 400)
      rfl rfl (by decide) rfl rfl).1,
    (C16_uninstall_hook_withdraws quagga_consts bound_state demo_prefix
      (bindings bound_state demo_prefix) 100 (route_lsp_new 3 demo_nexthop 400)
      rfl rfl (by decide) rfl rfl).2.2.1⟩

/-! ## The LDP LSP of a prefix -/

/-- A prefix whose bindings differ from a fresh record has a record. -/
theorem route_node_get_mpls_of_ldp {s : zebra} {p : Prefix} {l : route_lsp}
    (h : (bindings s p).ldp_lsp = some l) : route_node_get_mpls s p = s := by
  cases hm : (s.table p).mpls with
  | some lb => exact route_node_get_mpls_of_some hm
  | none =>
    unfold bindings at h
    rw [hm] at h
    simp [label_bindings_new] at h

/-- After `mpls_prefix_set_ldp_lsp` the LDP LSP has the next hop and the
label of the call. -/
theorem set_ldp_lsp_rn_ldp (K : zebra_consts) (drv : driver) (c : mpls_rn) (n label : Nat) :
    ldp_lsp_is (set_ldp_lsp_rn K drv c n label).lb.ldp_lsp n label = true := by
  unfold set_ldp_lsp_rn
  split
  · assumption
  · generalize (match c.lb.ldp_lsp with
      | some l => { mpls_prefix_remove_lsp K c l with
                    lb := XFREE_ldp_lsp (mpls_prefix_remove_lsp K c l).lb }
      | none => c) = c1
    dsimp only
    have hs := maybe_select_same K drv (create_ldp_lsp c1 n label)
    rw [hs.2.2]
    simp [create_ldp_lsp, ldp_lsp_is, route_lsp_new]

/-- C14: if the LDP LSP of the prefix already has next hop `N` and label `L`,
`mpls_prefix_set_ldp_lsp (P, N, L)` returns the state it was given (so the
log of outgoing calls is the same); and for every state, a second call with
the same arguments returns the state the first call produced. -/
theorem C14_set_ldp_lsp_idempotent (K : zebra_consts) (drv : driver) (p : Prefix) (N L : Nat) :
    (∀ s : zebra, ∀ l : route_lsp, (bindings s p).ldp_lsp = some l → l.nexthop = N →
      l.remote_label = L →
      mpls_prefix_set_ldp_lsp K drv s p N L = s ∧
      (mpls_prefix_set_ldp_lsp K drv s p N L).log = s.log) ∧
    (∀ s : zebra,
      mpls_prefix_set_ldp_lsp K drv (mpls_prefix_set_ldp_lsp K drv s p N L) p N L =
        mpls_prefix_set_ldp_lsp K drv s p N L ∧
      (mpls_prefix_set_ldp_lsp K drv (mpls_prefix_set_ldp_lsp K drv s p N L) p N L).log =
        (mpls_prefix_set_ldp_lsp K drv s p N L).log) := by
  have h1 : ∀ s : zebra, ldp_lsp_is (bindings s p).ldp_lsp N L = true →
      mpls_prefix_set_ldp_lsp K drv s p N L = s := by
    intro s h
    have hc : set_ldp_lsp_rn K drv (rn_of s p) N L = rn_of s p := by
      unfold set_ldp_lsp_rn
      have hlb : (rn_of s p).lb = bindings s p := rfl
      rw [hlb, if_pos h]
    rw [set_ldp_lsp_put, hc, put_rn_rn_of]
    cases hl : (bindings s p).ldp_lsp with
    | none => rw [hl] at h; simp [ldp_lsp_is] at h
    | some l => exact route_node_get_mpls_of_ldp hl
  constructor
  · intro s l hl hn hlab
    have h := h1 s (by rw [hl]; simp [ldp_lsp_is, hn, hlab])
    exact ⟨h, by rw [h]⟩
  · intro s
    have h := h1 (mpls_prefix_set_ldp_lsp K drv s p N L) (by
      rw [set_ldp_lsp_put, put_rn_bindings]
      exact set_ldp_lsp_rn_ldp K drv (rn_of s p) N L)
    exact ⟨h, by rw [h]⟩

/-- C14 (witness): in the state after `bound_run` the LDP LSP goes to
192.0.2.1 with label 400; setting it again changes nothing. -/
theorem C14_set_ldp_lsp_idempotent_witness :
    (bindings bound_state demo_prefix).ldp_lsp = some (route_lsp_new 3 demo_nexthop 400) ∧
    mpls_prefix_set_ldp_lsp quagga_consts null_driver bound_state demo_prefix demo_nexthop 400
      = bound_state ∧
    (mpls_prefix_set_ldp_lsp quagga_consts null_driver bound_state demo_prefix demo_nexthop
      400).log = bound_state.log :=
  ⟨rfl,
    ((C14_set_ldp_lsp_idempotent quagga_consts null_driver demo_prefix demo_nexthop 400).1
      bound_state (route_lsp_new 3 demo_nexthop 400) rfl rfl rfl).1,
    ((C14_set_ldp_lsp_idempotent quagga_consts null_driver demo_prefix demo_nexthop 400).1
      bound_state (route_lsp_new 3 demo_nexthop 400) rfl rfl rfl).2⟩

/-- C15: `mpls_prefix_remove_ldp_lsp (P, N, L)` does nothing but the node
lookup (bindings and log unchanged) unless the record has an LDP LSP with
next hop `N` and label `L`; when it has one (the LSPs of the record being
distinct objects), the record has no LDP LSP afterwards and `selected_lsp`
does not point to the discarded LSP. -/
theorem C15_remove_ldp_lsp_guard (K : zebra_consts) (drv : driver) (s : zebra) (p : Prefix)
    (N L : Nat) :
    ((∀ l, (bindings s p).ldp_lsp = some l → l.nexthop ≠ N ∨ l.remote_label ≠ L) →
      mpls_prefix_remove_ldp_lsp K drv s p N L = route_node_get_mpls s p ∧
      bindings (mpls_prefix_remove_ldp_lsp K drv s p N L) p = bindings s p ∧
      (mpls_prefix_remove_ldp_lsp K drv s p N L).log = s.log) ∧
    (∀ l, (bindings s p).ldp_lsp = some l → l.nexthop = N → l.remote_label = L →
      ((lsps (bindings s p)).map (fun x => x.ptr)).Nodup →
      (bindings (mpls_prefix_remove_ldp_lsp K drv s p N L) p).ldp_lsp = none ∧
      ptr_of (bindings (mpls_prefix_remove_ldp_lsp K drv s p N L) p).selected_lsp
        ≠ some l.ptr) := by
  have hlb : (rn_of s p).lb = bindings s p := rfl
  constructor
  · intro hg
    have hc : remove_ldp_lsp_rn K drv (rn_of s p) N L = rn_of s p := by
      unfold remove_ldp_lsp_rn
      cases hl : (rn_of s p).lb.ldp_lsp with
      | none => rfl
      | some l =>
        dsimp only
        rw [if_pos (hg l (by rw [← hlb]; exact hl))]
    rw [remove_ldp_lsp_put, hc, put_rn_bindings, put_rn_log, put_rn_rn_of]
    exact ⟨rfl, rfl, rfl⟩
  · intro l hl hn hlab hnd
    rw [remove_ldp_lsp_put, put_rn_bindings]
    unfold remove_ldp_lsp_rn
    rw [hlb, hl]
    dsimp only
    rw [if_neg (by simp [hn, hlab])]
    have h1 := remove_lsp_lb K (rn_of s p) l
    generalize mpls_prefix_remove_lsp K (rn_of s p) l = c1 at h1 ⊢
    have hs := maybe_select_same K drv { c1 with lb := XFREE_ldp_lsp c1.lb }
    have hsel1 : ptr_of c1.lb.selected_lsp ≠ some l.ptr := by
      rw [h1]
      dsimp only
      split
      · simp [ptr_of]
      · assumption
    have hstat : c1.lb.static_lsps = (bindings s p).static_lsps := by rw [h1]; rfl
    refine ⟨by rw [hs.2.2]; rfl, ?_⟩
    split
    · rcases select_lsp_selected_cases K drv { c1 with lb := XFREE_ldp_lsp c1.lb } with h | ⟨n, h⟩
      · rw [h]; exact hsel1
      · rw [h]
        cases hcand : select_candidate (XFREE_ldp_lsp c1.lb) n with
        | none => simp [ptr_of]
        | some x =>
          have hx := (select_candidate_mem hcand).1
          have hx2 : x ∈ (bindings s p).static_lsps := by
            simpa [lsps, XFREE_ldp_lsp, hstat] using hx
          intro hp
          have hp2 : x.ptr = l.ptr := by simpa [ptr_of] using hp
          have hxl : x ∈ lsps (bindings s p) := by simp [lsps, hx2]
          have hll : l ∈ lsps (bindings s p) := by simp [lsps, hl]
          have hxe : x = l := List.inj_on_of_nodup_map hnd hxl hll hp2
          unfold lsps at hnd
          rw [hl, List.map_append, List.nodup_append] at hnd
          exact hnd.2.2 (List.mem_map_of_mem _ hx2) (by rw [hxe]; simp)
    · exact hsel1

/-- C15 (witness): in the state after `bound_run` the LDP LSP goes to
192.0.2.1 with label 400: a call with label 401 changes nothing, a call with
label 400 discards it. -/
theorem C15_remove_ldp_lsp_guard_witness :
    (bindings bound_state demo_prefix).ldp_lsp = some (route_lsp_new 3 demo_nexthop 400) ∧
    (mpls_prefix_remove_ldp_lsp quagga_consts null_driver bound_state demo_prefix demo_nexthop
      401).log = bound_state.log ∧
    (bindings (mpls_prefix_remove_ldp_lsp quagga_consts null_driver bound_state demo_prefix
      demo_nexthop 400) demo_prefix).ldp_lsp = none :=
  ⟨rfl,
    ((C15_remove_ldp_lsp_guard quagga_consts null_driver bound_state demo_prefix demo_nexthop
      401).1 (by
        intro l hl
        have h : l = route_lsp_new 3 demo_nexthop 400 := by
          have h2 : (bindings bound_state demo_prefix).ldp_lsp
              = some (route_lsp_new 3 demo_nexthop 400) := rfl
          rw [h2] at hl
          exact (Option.some.inj hl).symm
        right
        rw [h]
        decide)).2.2,
    ((C15_remove_ldp_lsp_guard quagga_consts null_driver bound_state demo_prefix demo_nexthop
      400).2 (route_lsp_new 3 demo_nexthop 400) rfl rfl rfl (by decide)).1⟩

/-! ## Removing a static LSP -/

/-- In a list of distinct objects, `listnode_delete` of a member removes that
member and nothing else. -/
theorem listnode_delete_erase (l : List route_lsp) (x : route_lsp) (hx : x ∈ l)
    (hnd : (l.map (fun y => y.ptr)).Nodup) : listnode_delete l x = l.erase x := by
  unfold listnode_delete
  induction l with
  | nil => simp at hx
  | cons a t ih =>
    rw [List.map_cons, List.nodup_cons] at hnd
    by_cases ha : a = x
    · subst ha
      simp
    · have hxt : x ∈ t := by
        rcases List.mem_cons.1 hx with h | h
        · exact absurd h.symm ha
        · exact h
      have hp : a.ptr ≠ x.ptr := by
        intro h
        apply hnd.1
        rw [h]
        exact List.mem_map_of_mem _ hxt
      have hax : (a == x) = false := by simpa using ha
      rw [List.erase_cons, hax]
      simp only [Bool.false_eq_true, if_false]
      rw [← ih hxt hnd.2]
      simp [List.eraseP_cons, hp]

/-- Once the only LSP to next hop `n` is deleted from the static list, there
is no candidate for `n`. -/
theorem candidate_after_delete (lb lb2 : label_bindings) (lsp : route_lsp) (n : Nat)
    (hm : lsp ∈ lb.static_lsps)
    (hnd : ((lsps lb).map (fun x => x.ptr)).Nodup)
    (hother : ∀ x ∈ lsps lb, x.nexthop = n → x = lsp)
    (h1 : lb2.static_lsps = listnode_delete lb.static_lsps lsp)
    (h2 : lb2.ldp_lsp = lb.ldp_lsp) : select_candidate lb2 n = none := by
  cases hcand : select_candidate lb2 n with
  | none => rfl
  | some y =>
    exfalso
    have hy := select_candidate_mem hcand
    have hz2 : y ∈ (lsps lb).eraseP (fun x => x.ptr == lsp.ptr) := by
      have hy1 := hy.1
      unfold lsps at hy1 ⊢
      rw [@List.eraseP_append_left _ (fun x => x.ptr == lsp.ptr) lsp (by simp) _ _ hm]
      rw [h1, h2] at hy1
      exact hy1
    have hmem := List.mem_of_mem_eraseP hz2
    exact eraseP_ptr_ne _ lsp.ptr hnd y hz2 (by rw [hother y hmem hy.2])

/-- The node-level form of C13. -/
theorem remove_static_lsp_rn_selected (K : zebra_consts) (drv : driver) (c : mpls_rn)
    (N : Nat) (lsp : route_lsp)
    (hact : zebra_route_node_active K c.info = true)
    (hne : c.lb.selected_in_label ≠ NO_LABEL)
    (hf : c.lb.static_lsps.find? (fun x => x.nexthop == N) = some lsp)
    (hsel : c.lb.selected_lsp = some lsp)
    (hnd : ((lsps c.lb).map (fun x => x.ptr)).Nodup)
    (hother : ∀ n, get_prefix_nexthop K c.info = some n →
      ∀ x ∈ lsps c.lb, x.nexthop = n → x = lsp) :
    remove_static_lsp_rn K drv c N =
      { c with lb := { c.lb with selected_lsp := none,
                                 static_lsps := listnode_delete c.lb.static_lsps lsp },
               log := c.log ++ [event.xc_unregister c.lb.selected_in_label lsp,
                                event.nhlfe_unregister lsp] } := by
  unfold remove_static_lsp_rn
  rw [hf]
  dsimp only
  rw [remove_lsp_selected K c lsp hsel]
  dsimp only
  rw [if_pos hact, if_pos hact]
  rw [select_lsp_noop]
  · simp [hne]
  · rfl
  · intro n hn
    exact candidate_after_delete c.lb _ lsp n (List.mem_of_find?_eq_some hf) hnd
      (hother n hn) rfl rfl

/-- C13: on a prefix with an active route, `selected_in_label = L ≠ NO_LABEL`
and `selected_lsp` the static LSP `lsp` with next hop `N`, the LSPs of the
record being distinct objects and no other LSP having the route's next hop,
`mpls_prefix_remove_static_lsp (P, N)` appends exactly XC remove `(L, lsp)`
and NHLFE remove `lsp` to the log (so no ILM remove), takes `lsp` out of
`static_lsps`, and ends with no selected LSP and `selected_in_label = L`.  If
no static LSP has next hop `N`, the call does nothing but the node lookup:
bindings and log are unchanged. -/
theorem C13_remove_selected_static_lsp (K : zebra_consts) (drv : driver) (s : zebra)
    (p : Prefix) (N : Nat) :
    (∀ (L : Nat) (lsp : route_lsp),
      zebra_route_node_active K (s.table p).info = true →
      (bindings s p).selected_in_label = L → L ≠ NO_LABEL →
      (bindings s p).static_lsps.find? (fun x => x.nexthop == N) = some lsp →
      (bindings s p).selected_lsp = some lsp →
      ((lsps (bindings s p)).map (fun x => x.ptr)).Nodup →
      (∀ n, get_prefix_nexthop K (s.table p).info = some n →
        ∀ x ∈ lsps (bindings s p), x.nexthop = n → x = lsp) →
      (mpls_prefix_remove_static_lsp K drv s p N).log =
        s.log ++ [event.xc_unregister L lsp, event.nhlfe_unregister lsp] ∧
      (bindings (mpls_prefix_remove_static_lsp K drv s p N) p).static_lsps =
        (bindings s p).static_lsps.erase lsp ∧
      lsp ∉ (bindings (mpls_prefix_remove_static_lsp K drv s p N) p).static_lsps ∧
      (bindings (mpls_prefix_remove_static_lsp K drv s p N) p).selected_lsp = none ∧
      (bindings (mpls_prefix_remove_static_lsp K drv s p N) p).selected_in_label = L ∧
      (bindings (mpls_prefix_remove_static_lsp K drv s p N) p).static_in_label =
        (bindings s p).static_in_label ∧
      (bindings (mpls_prefix_remove_static_lsp K drv s p N) p).ldp_in_label =
        (bindings s p).ldp_in_label ∧
      (bindings (mpls_prefix_remove_static_lsp K drv s p N) p).ldp_lsp =
        (bindings s p).ldp_lsp) ∧
    ((bindings s p).static_lsps.find? (fun x => x.nexthop == N) = none →
      mpls_prefix_remove_static_lsp K drv s p N = route_node_get_mpls s p ∧
      bindings (mpls_prefix_remove_static_lsp K drv s p N) p = bindings s p ∧
      (mpls_prefix_remove_static_lsp K drv s p N).log = s.log) := by
  have hlb : (rn_of s p).lb = bindings s p := rfl
  constructor
  · intro L lsp hact hL hne hf hsel hnd hother
    have hm : lsp ∈ (bindings s p).static_lsps := List.mem_of_find?_eq_some hf
    have hnds : ((bindings s p).static_lsps.map (fun x => x.ptr)).Nodup := by
      unfold lsps at hnd
      rw [List.map_append] at hnd
      exact (List.nodup_append.1 hnd).1
    have hc := remove_static_lsp_rn_selected K drv (rn_of s p) N lsp hact
      (by rw [hlb, hL]; exact hne) hf hsel hnd hother
    rw [remove_static_lsp_put, put_rn_bindings, put_rn_log, hc]
    have he := listnode_delete_erase _ lsp hm hnds
    refine ⟨by rw [hlb, hL]; rfl, he, ?_, rfl, hL, rfl, rfl, rfl⟩
    show lsp ∉ listnode_delete (bindings s p).static_lsps lsp
    rw [he]
    intro hmem
    exact ((List.Nodup.mem_erase_iff (List.Nodup.of_map _ hnds)).1 hmem).1 rfl
  · intro hf
    have hc : remove_static_lsp_rn K drv (rn_of s p) N = rn_of s p := by
      unfold remove_static_lsp_rn
      rw [hlb, hf]
    rw [remove_static_lsp_put, hc, put_rn_bindings, put_rn_log, put_rn_rn_of]
    exact ⟨rfl, rfl, rfl⟩

/-- C13 (witness): scenario 2.  After scenario 1, removing the static LSP to
192.0.2.1 takes XC (100, LSP) and the NHLFE off and leaves in-label 100
selected. -/
theorem C13_remove_selected_static_lsp_witness :
    zebra_route_node_active quagga_consts (scenario1_state.table demo_prefix).info = true ∧
    (bindings scenario1_state demo_prefix).selected_in_label = 100 ∧
    (bindings scenario1_state demo_prefix).selected_lsp
      = some (route_lsp_new 1 demo_nexthop 200) ∧
    (mpls_prefix_remove_static_lsp quagga_consts null_driver scenario1_state demo_prefix
      demo_nexthop).log =
      scenario1_state.log ++ [event.xc_unregister 100 (route_lsp_new 1 demo_nexthop 200),
        event.nhlfe_unregister (route_lsp_new 1 demo_nexthop 200)] ∧
    (bindings (mpls_prefix_remove_static_lsp quagga_consts null_driver scenario1_state
      demo_prefix demo_nexthop) demo_prefix).selected_lsp = none :=
  ⟨rfl, rfl, rfl,
    ((C13_remove_selected_static_lsp quagga_consts null_driver scenario1_state demo_prefix
      demo_nexthop).1 100 (route_lsp_new 1 demo_nexthop 200) rfl rfl (by decide) rfl rfl
      (by decide) (by
        intro n _ x hx _
        have h : lsps (bindings scenario1_state demo_prefix)
            = [route_lsp_new 1 demo_nexthop 200] := rfl
        rw [h] at hx
        simpa using hx)).1,
    ((C13_remove_selected_static_lsp quagga_consts null_driver scenario1_state demo_prefix
      demo_nexthop).1 100 (route_lsp_new 1 demo_nexthop 200) rfl rfl (by decide) rfl rfl
      (by decide) (by
        intro n _ x hx _
        have h : lsps (bindings scenario1_state demo_prefix)
            = [route_lsp_new 1 demo_nexthop 200] := rfl
        rw [h] at hx
        simpa using hx)).2.2.2.1⟩

/-! ## Adding a static LSP -/

theorem add_static_lsp_loop_absent (K : zebra_consts) (drv : driver) (nexthop label : Nat)
    (l : List route_lsp) (c : mpls_rn) (h : ∀ x ∈ l, x.nexthop ≠ nexthop) :
    add_static_lsp_loop K drv nexthop label l c = (false, c) := by
  induction l with
  | nil => rfl
  | cons a t ih =>
    unfold add_static_lsp_loop
    rw [if_neg (h a (List.mem_cons_self _ _))]
    exact ih (fun x hx => h x (List.mem_cons_of_mem _ hx))

/-- Over a list with distinct next hops, the loop of
`mpls_prefix_add_static_lsp` acts on the first LSP with the next hop only:
it returns if the label is the same, and removes the LSP otherwise. -/
theorem add_static_lsp_loop_eq (K : zebra_consts) (drv : driver) (nexthop label : Nat)
    (l : List route_lsp) (c : mpls_rn) (hnd : (l.map (fun x => x.nexthop)).Nodup) :
    add_static_lsp_loop K drv nexthop label l c =
      match l.find? (fun x => x.nexthop == nexthop) with
      | none => (false, c)
      | some x =>
        if x.remote_label = label then (true, c)
        else (false, remove_static_lsp_rn K drv c nexthop) := by
  induction l with
  | nil => rfl
  | cons a t ih =>
    rw [List.map_cons, List.nodup_cons] at hnd
    unfold add_static_lsp_loop
    by_cases ha : a.nexthop = nexthop
    · rw [if_pos ha]
      have hf : (a :: t).find? (fun x => x.nexthop == nexthop) = some a := by
        simp [List.find?_cons, ha]
      rw [hf]
      dsimp only
      split
      · rfl
      · rw [ha]
        refine add_static_lsp_loop_absent K drv nexthop label t _ ?_
        intro x hx hq
        apply hnd.1
        rw [ha, ← hq]
        exact List.mem_map_of_mem _ hx
    · rw [if_neg ha]
      have hf : (a :: t).find? (fun x => x.nexthop == nexthop) =
          t.find? (fun x => x.nexthop == nexthop) := by
        simp [List.find?_cons, ha]
      rw [hf]
      exact ih hnd.2

/-- In a list with distinct next hops the first LSP with next hop `n` is the
only one. -/
theorem filter_nexthop_of_find (l : List route_lsp) (n : Nat) (x : route_lsp)
    (hnd : (l.map (fun y => y.nexthop)).Nodup)
    (hf : l.find? (fun y => y.nexthop == n) = some x) :
    l.filter (fun y => y.nexthop == n) = [x] := by
  induction l with
  | nil => simp at hf
  | cons a t ih =>
    rw [List.map_cons, List.nodup_cons] at hnd
    by_cases ha : a.nexthop = n
    · have hax : a = x := by simpa [List.find?_cons, ha] using hf
      subst hax
      have ht : t.filter (fun y => y.nexthop == n) = [] := by
        rw [List.filter_eq_nil_iff]
        intro y hy hq
        apply hnd.1
        have hq2 : y.nexthop = n := by simpa using hq
        rw [ha, ← hq2]
        exact List.mem_map_of_mem _ hy
      simp [List.filter_cons, ha, ht]
    · have hf2 : t.find? (fun y => y.nexthop == n) = some x := by
        simpa [List.find?_cons, ha] using hf
      simp [List.filter_cons, ha, ih hnd.2 hf2]

/-- In a list of distinct objects with distinct next hops, deleting the first
LSP with next hop `n` leaves the LSPs with other next hops, in their order. -/
theorem listnode_delete_filter (l : List route_lsp) (n : Nat) (x : route_lsp)
    (hpd : (l.map (fun y => y.ptr)).Nodup)
    (hnd : (l.map (fun y => y.nexthop)).Nodup)
    (hf : l.find? (fun y => y.nexthop == n) = some x) :
    listnode_delete l x = l.filter (fun y => y.nexthop != n) := by
  unfold listnode_delete
  induction l with
  | nil => simp at hf
  | cons a t ih =>
    rw [List.map_cons, List.nodup_cons] at hpd hnd
    by_cases ha : a.nexthop = n
    · have hax : a = x := by simpa [List.find?_cons, ha] using hf
      subst hax
      have ht : t.filter (fun y => y.nexthop != n) = t := by
        rw [List.filter_eq_self]
        intro y hy
        have : y.nexthop ≠ n := by
          intro hq
          apply hnd.1
          rw [ha, ← hq]
          exact List.mem_map_of_mem _ hy
        simpa using this
      simp [List.filter_cons, ha, ht]
    · have hf2 : t.find? (fun y => y.nexthop == n) = some x := by
        simpa [List.find?_cons, ha] using hf
      have hxt : x ∈ t := List.mem_of_find?_eq_some hf2
      have hp : a.ptr ≠ x.ptr := by
        intro h
        apply hpd.1
        rw [h]
        exact List.mem_map_of_mem _ hxt
      simp [List.eraseP_cons, List.filter_cons, ha, hp, ih hpd.2 hnd.2 hf2]

/-- The static list after `mpls_prefix_add_static_lsp`, for a list of
distinct objects with distinct next hops. -/
theorem add_static_lsp_rn_static (K : zebra_consts) (drv : driver) (c : mpls_rn) (N L : Nat)
    (hpd : (c.lb.static_lsps.map (fun y => y.ptr)).Nodup)
    (hnd : (c.lb.static_lsps.map (fun y => y.nexthop)).Nodup) :
    ((∃ x ∈ c.lb.static_lsps, x.nexthop = N ∧ x.remote_label = L) ∧
      add_static_lsp_rn K drv c N L = c) ∨
    ((¬ ∃ x ∈ c.lb.static_lsps, x.nexthop = N ∧ x.remote_label = L) ∧
      (add_static_lsp_rn K drv c N L).lb.static_lsps =
        c.lb.static_lsps.filter (fun y => y.nexthop != N) ++ [route_lsp_new c.alloc N L]) := by
  unfold add_static_lsp_rn
  rw [add_static_lsp_loop_eq K drv N L _ c hnd]
  cases hf : c.lb.static_lsps.find? (fun x => x.nexthop == N) with
  | none =>
    right
    have hno : ∀ x ∈ c.lb.static_lsps, x.nexthop ≠ N := by
      intro x hx hq
      have := List.find?_eq_none.1 hf x hx
      simp [hq] at this
    refine ⟨fun ⟨x, hx, hq, _⟩ => hno x hx hq, ?_⟩
    dsimp only
    have hs := maybe_select_same K drv (create_static_lsp c N L)
    rw [hs.2.1]
    have hfil : c.lb.static_lsps.filter (fun y => y.nexthop != N) = c.lb.static_lsps := by
      rw [List.filter_eq_self]
      intro y hy
      simpa using hno y hy
    rw [hfil]
    rfl
  | some x =>
    have hxm : x ∈ c.lb.static_lsps := List.mem_of_find?_eq_some hf
    have hxn : x.nexthop = N := by simpa using List.find?_some hf
    dsimp only
    by_cases hlab : x.remote_label = L
    · left
      rw [if_pos hlab]
      exact ⟨⟨x, hxm, hxn, hlab⟩, rfl⟩
    · right
      rw [if_neg hlab]
      refine ⟨?_, ?_⟩
      · rintro ⟨y, hy, hyn, hyl⟩
        have : y = x := List.inj_on_of_nodup_map hnd hy hxm (hyn.trans hxn.symm)
        rw [this] at hyl
        exact hlab hyl
      · dsimp only
        have hr := remove_static_lsp_rn_frame K drv c N
        rw [hf] at hr
        dsimp only at hr
        have hs := maybe_select_same K drv
          (create_static_lsp (remove_static_lsp_rn K drv c N) N L)
        rw [hs.2.1]
        unfold create_static_lsp
        dsimp only
        rw [hr.2.2.2.2, hr.2.1, listnode_delete_filter _ N x hpd hnd hf]
        rfl

/-- A prefix whose record has a static LSP has a record. -/
theorem route_node_get_mpls_of_static {s : zebra} {p : Prefix} {x : route_lsp}
    (h : x ∈ (bindings s p).static_lsps) : route_node_get_mpls s p = s := by
  cases hm : (s.table p).mpls with
  | some lb => exact route_node_get_mpls_of_some hm
  | none =>
    unfold bindings at h
    rw [hm] at h
    simp [label_bindings_new] at h

/-- C11: for a record whose static LSPs have distinct next hops (and are
distinct objects), after `mpls_prefix_add_static_lsp (P, N, L)` exactly one
static LSP has next hop `N`, its label is `L`, and the static LSPs with
other next hops are those of before, in the same order; if an LSP `(N, L)`
was already in the list the call returns the state it was given, so the log
has no new entry. -/
theorem C11_add_static_lsp_postcondition (K : zebra_consts) (drv : driver) (s : zebra)
    (p : Prefix) (N L : Nat)
    (hnd : ((bindings s p).static_lsps.map (fun y => y.nexthop)).Nodup)
    (hpd : ((bindings s p).static_lsps.map (fun y => y.ptr)).Nodup) :
    (∃ l, (bindings (mpls_prefix_add_static_lsp K drv s p N L) p).static_lsps.filter
        (fun y => y.nexthop == N) = [l] ∧ l.nexthop = N ∧ l.remote_label = L) ∧
    (bindings (mpls_prefix_add_static_lsp K drv s p N L) p).static_lsps.filter
        (fun y => y.nexthop != N) =
      (bindings s p).static_lsps.filter (fun y => y.nexthop != N) ∧
    ((∃ x ∈ (bindings s p).static_lsps, x.nexthop = N ∧ x.remote_label = L) →
      mpls_prefix_add_static_lsp K drv s p N L = s ∧
      (mpls_prefix_add_static_lsp K drv s p N L).log = s.log ∧
      bindings (mpls_prefix_add_static_lsp K drv s p N L) p = bindings s p) := by
  have hlb : (rn_of s p).lb = bindings s p := rfl
  rw [add_static_lsp_put, put_rn_bindings]
  rcases add_static_lsp_rn_static K drv (rn_of s p) N L hpd hnd with ⟨⟨x, hx, hxn, hxl⟩, he⟩ | ⟨hno, hst⟩
  · rw [he, hlb]
    have hfil : (bindings s p).static_lsps.filter (fun y => y.nexthop == N) = [x] := by
      cases hf : (bindings s p).static_lsps.find? (fun y => y.nexthop == N) with
      | none =>
        have := List.find?_eq_none.1 hf x hx
        simp [hxn] at this
      | some y =>
        have hym : y ∈ (bindings s p).static_lsps := List.mem_of_find?_eq_some hf
        have hyn : y.nexthop = N := by simpa using List.find?_some hf
        have hyx : y = x := List.inj_on_of_nodup_map hnd hym hx (hyn.trans hxn.symm)
        rw [← hyx]
        exact filter_nexthop_of_find _ N y hnd hf
    refine ⟨⟨x, hfil, hxn, hxl⟩, rfl, fun _ => ?_⟩
    rw [put_rn_rn_of, route_node_get_mpls_of_static hx]
    exact ⟨rfl, rfl, rfl⟩
  · rw [hst, hlb]
    refine ⟨⟨route_lsp_new (rn_of s p).alloc N L, ?_, rfl, rfl⟩, ?_, fun h => absurd h hno⟩
    · simp [List.filter_append, List.filter_filter, route_lsp_new]
    · simp [List.filter_append, List.filter_filter, route_lsp_new]

/-- C11 (witness): in the state after `bound_run` the static LSPs go to
192.0.2.1 (label 300) and to next hop 5 (label 301).  Adding (192.0.2.1, 300)
again changes nothing; adding (192.0.2.1, 302) leaves one LSP to 192.0.2.1,
with label 302, and the LSP to next hop 5 as it was. -/
theorem C11_add_static_lsp_postcondition_witness :
    ((bindings bound_state demo_prefix).static_lsps.map (fun y => y.nexthop)).Nodup ∧
    ((bindings bound_state demo_prefix).static_lsps.map (fun y => y.ptr)).Nodup ∧
    mpls_prefix_add_static_lsp quagga_consts null_driver bound_state demo_prefix
      demo_nexthop 300 = bound_state ∧
    (bindings (mpls_prefix_add_static_lsp quagga_consts null_driver bound_state demo_prefix
      demo_nexthop 302) demo_prefix).static_lsps.filter (fun y => y.nexthop != demo_nexthop)
      = [route_lsp_new 2 5 301] :=
  ⟨by decide, by decide,
    ((C11_add_static_lsp_postcondition quagga_consts null_driver bound_state demo_prefix
      demo_nexthop 300 (by decide) (by decide)).2.2
      ⟨route_lsp_new 1 demo_nexthop 300, by decide, rfl, rfl⟩).1,
    (C11_add_static_lsp_postcondition quagga_consts null_driver bound_state demo_prefix
      demo_nexthop 302 (by decide) (by decide)).2.1⟩

/-! ## Scenario 1 -/

theorem rn_of_rib_update (s : zebra) (p : Prefix) (info : List rib) :
    rn_of (rib_update s p info) p = { rn_of s p with info := info } := by
  unfold rn_of bindings
  rw [rib_update_table]
  simp only [if_true]
  rfl

theorem label_bindings_ext_fields (a b : label_bindings)
    (h1 : same_in_labels a b) (h2 : same_owned a b) (h3 : b.selected_lsp = a.selected_lsp) :
    b = a := by
  cases a
  cases b
  obtain ⟨h11, h12, h13⟩ := h1
  obtain ⟨h21, h22⟩ := h2
  simp only at h11 h12 h13 h21 h22 h3
  subst h11 h12 h13 h21 h22 h3
  rfl

/-- C21: on a table with no entry for incoming label `L`,
`mpls_static_crossconnect_remove (L)` returns -1 and the state it was given:
the log has no new call and the table is the same. -/
theorem C21_crossconnect_remove_absent (s : zebra) (L : Nat)
    (habs : ∀ mc ∈ s.mpls_crossconnect_list, mc.in_label ≠ L) :
    (mpls_static_crossconnect_remove s L).1 = -1 ∧
    (mpls_static_crossconnect_remove s L).2 = s ∧
    (mpls_static_crossconnect_remove s L).2.log = s.log ∧
    (mpls_static_crossconnect_remove s L).2.mpls_crossconnect_list
      = s.mpls_crossconnect_list := by
  have hf : s.mpls_crossconnect_list.find? (fun mc => mc.in_label == L) = none := by
    rw [List.find?_eq_none]
    intro mc hmc
    simpa using habs mc hmc
  unfold mpls_static_crossconnect_remove
  rw [hf]
  exact ⟨rfl, rfl, rfl, rfl⟩

/-- C21 (witness): the table of `xc_state` has an entry for 100 only;
removing 200 returns -1 and changes nothing. -/
theorem C21_crossconnect_remove_absent_witness :
    (mpls_static_crossconnect_remove xc_state 200).1 = -1 ∧
    (mpls_static_crossconnect_remove xc_state 200).2.log = xc_state.log :=
  ⟨(C21_crossconnect_remove_absent xc_state 200 (by decide)).1,
    (C21_crossconnect_remove_absent xc_state 200 (by decide)).2.2.1⟩

/-- C22: on a table that holds an entry `mc` for incoming label `L` (one
entry per incoming label, entries being distinct objects),
`mpls_static_crossconnect_remove (L)` appends exactly XC remove `(L, lsp)`,
ILM remove `L`, NHLFE remove `lsp` to the log, in that order, returns 0, and
leaves the table without `mc` and with every other entry in its place.  The
function reads no result of a driver call, so this holds whatever the driver
returns. -/
theorem C22_crossconnect_remove_present (s : zebra) (L : Nat) (mc : mpls_crossconnect)
    (hnd : (s.mpls_crossconnect_list.map (fun x => x.in_label)).Nodup)
    (hpd : (s.mpls_crossconnect_list.map (fun x => x.ptr)).Nodup)
    (hm : mc ∈ s.mpls_crossconnect_list) (hL : mc.in_label = L) :
    (mpls_static_crossconnect_remove s L).1 = 0 ∧
    (mpls_static_crossconnect_remove s L).2.log = s.log
      ++ [event.xc_unregister L mc.lsp, event.ilm_unregister L,
          event.nhlfe_unregister mc.lsp] ∧
    (mpls_static_crossconnect_remove s L).2.mpls_crossconnect_list
      = s.mpls_crossconnect_list.erase mc ∧
    mc ∉ (mpls_static_crossconnect_remove s L).2.mpls_crossconnect_list ∧
    (∀ x, x ≠ mc → (x ∈ (mpls_static_crossconnect_remove s L).2.mpls_crossconnect_list ↔
      x ∈ s.mpls_crossconnect_list)) ∧
    (mpls_static_crossconnect_remove s L).2.mpls_crossconnect_list.filter (fun x => x != mc)
      = s.mpls_crossconnect_list.filter (fun x => x != mc) := by
  have hf := find_of_mem_nodup s.mpls_crossconnect_list L hnd mc hm hL
  have h := crossconnect_remove_found s L mc hf
  have he := listnode_delete_mc_erase s.mpls_crossconnect_list mc hpd hm
  have hnodup : s.mpls_crossconnect_list.Nodup := List.Nodup.of_map _ hpd
  rw [h.2.2.1, he]
  refine ⟨h.1, h.2.1, rfl, ?_, ?_, ?_⟩
  · intro hmem
    exact ((List.Nodup.mem_erase_iff hnodup).1 hmem).1 rfl
  · intro x hx
    rw [List.Nodup.mem_erase_iff hnodup]
    exact ⟨fun h => h.2, fun h => ⟨hx, h⟩⟩
  · rw [List.Nodup.erase_eq_filter hnodup, List.filter_filter]
    congr 1
    funext x
    simp

/-- C22 (witness): removing the entry for 100 from the table of `xc_state`
takes XC, ILM and NHLFE off and empties the table. -/
theorem C22_crossconnect_remove_present_witness :
    (mpls_static_crossconnect_remove xc_state 100).1 = 0 ∧
    (mpls_static_crossconnect_remove xc_state 100).2.log = xc_state.log
      ++ [event.xc_unregister 100 (mpls_crossconnect_new 1 100 demo_ifp demo_xc_nexthop 300).lsp,
          event.ilm_unregister 100,
          event.nhlfe_unregister (mpls_crossconnect_new 1 100 demo_ifp demo_xc_nexthop 300).lsp] ∧
    (mpls_static_crossconnect_remove xc_state 100).2.mpls_crossconnect_list = [] :=
  ⟨(C22_crossconnect_remove_present xc_state 100
      (mpls_crossconnect_new 1 100 demo_ifp demo_xc_nexthop 300) (by decide) (by decide)
      (by decide) rfl).1,
    (C22_crossconnect_remove_present xc_state 100
      (mpls_crossconnect_new 1 100 demo_ifp demo_xc_nexthop 300) (by decide) (by decide)
      (by decide) rfl).2.1,
    (C22_crossconnect_remove_present xc_state 100
      (mpls_crossconnect_new 1 100 demo_ifp demo_xc_nexthop 300) (by decide) (by decide)
      (by decide) rfl).2.2.1⟩

/-! ## Uniqueness of the incoming labels of cross-connects -/

theorem crossconnect_remove_wf (s : zebra) (L : Nat) (h : xc_wf s) :
    xc_wf (mpls_static_crossconnect_remove s L).2 ∧
    (mpls_static_crossconnect_remove s L).2.alloc = s.alloc ∧
    ∀ mc ∈ (mpls_static_crossconnect_remove s L).2.mpls_crossconnect_list, mc.in_label ≠ L := by
  cases hf : s.mpls_crossconnect_list.find? (fun x => x.in_label == L) with
  | none =>
    have hs : (mpls_static_crossconnect_remove s L).2 = s := by
      unfold mpls_static_crossconnect_remove; rw [hf]
    rw [hs]
    refine ⟨h, rfl, ?_⟩
    intro mc hmc
    simpa using List.find?_eq_none.1 hf mc hmc
  | some mc =>
    have hr := crossconnect_remove_found s L mc hf
    have hm : mc ∈ s.mpls_crossconnect_list := List.mem_of_find?_eq_some hf
    have hl : mc.in_label = L := by simpa using List.find?_some hf
    have he := listnode_delete_mc_erase s.mpls_crossconnect_list mc h.2.1 hm
    have hsub : (s.mpls_crossconnect_list.erase mc).Sublist s.mpls_crossconnect_list :=
      List.erase_sublist _ _
    have hnodup : s.mpls_crossconnect_list.Nodup := List.Nodup.of_map _ h.2.1
    refine ⟨⟨?_, ?_, ?_⟩, hr.2.2.2, ?_⟩
    · rw [hr.2.2.1, he]
      exact List.Nodup.sublist (List.Sublist.map _ hsub) h.1
    · rw [hr.2.2.1, he]
      exact List.Nodup.sublist (List.Sublist.map _ hsub) h.2.1
    · rw [hr.2.2.1, he, hr.2.2.2]
      intro x hx
      exact h.2.2 x (List.mem_of_mem_erase hx)
    · rw [hr.2.2.1, he]
      intro x hx hxl
      have hx2 := (List.Nodup.mem_erase_iff hnodup).1 hx
      exact hx2.1 (List.inj_on_of_nodup_map h.1 hx2.2 hm (hxl.trans hl.symm))
theorem crossconnect_add_alloc (drv : driver) (s s1 : zebra) (in_label : Nat)
    (ifp : Option Nat) (nexthop out_label : Nat)
    (hloop : crossconnect_add_loop in_label ifp nexthop out_label s.mpls_crossconnect_list s
      = (false, s1)) :
    (mpls_static_crossconnect_add drv s in_label ifp nexthop out_label).2.alloc
      = s1.alloc + 2 := by
  unfold mpls_static_crossconnect_add
  rw [hloop]
  dsimp only
  split
  · rfl
  · split
    · rfl
    · split <;> rfl

theorem crossconnect_add_wf (drv : driver) (s : zebra) (in_label : Nat) (ifp : Option Nat)
    (nexthop out_label : Nat) (h : xc_wf s) :
    xc_wf (mpls_static_crossconnect_add drv s in_label ifp nexthop out_label).2 := by
  have hloop := crossconnect_add_loop_eq in_label ifp nexthop out_label
    s.mpls_crossconnect_list s h.1
  have key : ∀ s1 : zebra, xc_wf s1 →
      (∀ mc ∈ s1.mpls_crossconnect_list, mc.in_label ≠ in_label) →
      crossconnect_add_loop in_label ifp nexthop out_label s.mpls_crossconnect_list s
        = (false, s1) →
      xc_wf (mpls_static_crossconnect_add drv s in_label ifp nexthop out_label).2 := by
    intro s1 h1 hno hl
    have hlist := (crossconnect_add_of_loop drv s s1 in_label ifp nexthop out_label hl).1
    have halloc := crossconnect_add_alloc drv s s1 in_label ifp nexthop out_label hl
    unfold xc_wf
    rw [hlist, halloc]
    refine ⟨?_, ?_, ?_⟩
    · rw [List.map_append, List.nodup_append]
      refine ⟨h1.1, by simp, ?_⟩
      intro a ha hb
      simp only [List.map_cons, List.map_nil, List.mem_singleton] at hb
      obtain ⟨mc, hmc, hmca⟩ := List.mem_map.1 ha
      apply hno mc hmc
      rw [hmca, hb]
      rfl
    · rw [List.map_append, List.nodup_append]
      refine ⟨h1.2.1, by simp, ?_⟩
      intro a ha hb
      simp only [List.map_cons, List.map_nil, List.mem_singleton] at hb
      obtain ⟨mc, hmc, hmca⟩ := List.mem_map.1 ha
      have hlt := h1.2.2 mc hmc
      rw [hmca, hb] at hlt
      exact Nat.lt_irrefl _ hlt
    · intro mc hmc
      rcases List.mem_append.1 hmc with hmc | hmc
      · exact Nat.lt_of_lt_of_le (h1.2.2 mc hmc) (Nat.le_add_right _ _)
      · simp only [List.mem_singleton] at hmc
        rw [hmc]
        show s1.alloc < s1.alloc + 2
        omega
  cases hf : s.mpls_crossconnect_list.find? (fun mc => mc.in_label == in_label) with
  | none =>
    rw [hf] at hloop
    refine key s h ?_ hloop
    intro mc hmc
    simpa using List.find?_eq_none.1 hf mc hmc
  | some mc =>
    rw [hf] at hloop
    dsimp only at hloop
    by_cases hsame : crossconnect_same mc ifp nexthop out_label = true
    · rw [if_pos hsame] at hloop
      have hs : (mpls_static_crossconnect_add drv s in_label ifp nexthop out_label).2 = s := by
        unfold mpls_static_crossconnect_add
        rw [hloop]
      rw [hs]
      exact h
    · rw [if_neg hsame] at hloop
      have hr := crossconnect_remove_wf s in_label h
      exact key _ hr.1 hr.2.2 hloop

theorem xc_step_wf (drv : driver) (s : zebra) (o : xc_op) (h : xc_wf s) :
    xc_wf (xc_step drv s o) := by
  cases o with
  | add in_label ifp nexthop out_label => exact crossconnect_add_wf drv s in_label ifp nexthop out_label h
  | remove in_label => exact (crossconnect_remove_wf s in_label h).1

theorem xc_reachable_wf {s : zebra} (h : xc_reachable s) : xc_wf s := by
  induction h with
  | init s0 => exact ⟨List.nodup_nil, List.nodup_nil, fun mc hmc => by simp [mpls_init] at hmc⟩
  | step drv s o _ ih => exact xc_step_wf drv s o ih

/-- C23: in every state reached from `mpls_init` by calls of
`mpls_static_crossconnect_add` and `mpls_static_crossconnect_remove`, with
any driver results, the incoming labels of the cross-connect table are
pairwise distinct: for every label the table has at most one entry.  (The
entries are also distinct objects.) -/
theorem C23_crossconnect_in_label_unique (s : zebra) (h : xc_reachable s) :
    (s.mpls_crossconnect_list.map (fun mc => mc.in_label)).Nodup ∧
    (∀ L, (s.mpls_crossconnect_list.filter (fun mc => mc.in_label == L)).length ≤ 1) ∧
    (∀ a ∈ s.mpls_crossconnect_list, ∀ b ∈ s.mpls_crossconnect_list,
      a.in_label = b.in_label → a = b) ∧
    (s.mpls_crossconnect_list.map (fun mc => mc.ptr)).Nodup := by
  have hw := xc_reachable_wf h
  refine ⟨hw.1, ?_, ?_, hw.2.1⟩
  · intro L
    have hc := List.nodup_iff_count_le_one.1 hw.1 L
    rw [List.count, List.countP_map, List.countP_eq_length_filter] at hc
    exact hc
  · intro a ha b hb hab
    exact List.inj_on_of_nodup_map hw.1 ha hb hab

/-- C23 (witness): after the entry for 100 was added, replaced while the
ILM install failed, and an entry for 200 was added, the table has one entry
for 100 and one for 200. -/
theorem C23_crossconnect_in_label_unique_witness :
    xc_reachable xc_run_state ∧
    xc_run_state.mpls_crossconnect_list.map (fun mc => mc.in_label) = [100, 200] ∧
    (xc_run_state.mpls_crossconnect_list.map (fun mc => mc.in_label)).Nodup :=
  ⟨xc_reachable.step _ _ _ (xc_reachable.step _ _ _
      (xc_reachable.step null_driver _ (xc_op.add 100 demo_ifp demo_xc_nexthop 300)
        (xc_reachable.init _))),
    rfl,
    (C23_crossconnect_in_label_unique xc_run_state
      (xc_reachable.step _ _ _ (xc_reachable.step _ _ _
        (xc_reachable.step null_driver _ (xc_op.add 100 demo_ifp demo_xc_nexthop 300)
          (xc_reachable.init _))))).1⟩

/-! ## The driver of `mpls_netlink.c` -/

/-- C24: `mpls_kernel_ilm_register (3)` and `mpls_kernel_ilm_unregister (3)`
return 0 and send nothing; for every other label each sends exactly one
request, on the command socket, with command `MPLS_CMD_NEWILM` (respectively
`MPLS_CMD_DELILM`) and one ILM attribute carrying the label, and returns what
`rtnl_talk` returns for it. -/
theorem C24_ilm_calls_skip_implicit_null (M : netlink_consts) (E : netlink_env)
    (sent : List (rtnl_handle × nl_request)) :
    mpls_kernel_ilm_register M E sent 3 = (0, sent) ∧
    mpls_kernel_ilm_unregister M E sent 3 = (0, sent) ∧
    (∀ label, label ≠ 3 →
      mpls_kernel_ilm_register M E sent label =
        (E.rtnl_talk (sent ++ [(rtnl_handle.rth_mpls_cmd, ilm_request M M.MPLS_CMD_NEWILM label)]),
         sent ++ [(rtnl_handle.rth_mpls_cmd, ilm_request M M.MPLS_CMD_NEWILM label)])) ∧
    (∀ label, label ≠ 3 →
      mpls_kernel_ilm_unregister M E sent label =
        (E.rtnl_talk (sent ++ [(rtnl_handle.rth_mpls_cmd, ilm_request M M.MPLS_CMD_DELILM label)]),
         sent ++ [(rtnl_handle.rth_mpls_cmd, ilm_request M M.MPLS_CMD_DELILM label)])) ∧
    (∀ cmd label, (ilm_request M cmd label).cmd = cmd ∧
      (ilm_request M cmd label).attrs =
        [{ rta_type := M.MPLS_ATTR_ILM,
           data := nl_payload.in_label M.AF_INET { ml_type := M.MPLS_LABEL_GEN, u := label } }]) := by
  refine ⟨rfl, rfl, ?_, ?_, fun _ _ => ⟨rfl, rfl⟩⟩
  · intro label hl
    unfold mpls_kernel_ilm_register
    rw [if_neg (by simpa [MPLS_IMPLICIT_NULL] using hl)]
    rfl
  · intro label hl
    unfold mpls_kernel_ilm_unregister
    rw [if_neg (by simpa [MPLS_IMPLICIT_NULL] using hl)]
    rfl

/-- C25: for an LSP whose outgoing interface is resolved (its interface
pointer is set, or `if_lookup_address` finds one for the next hop),
`mpls_kernel_nhlfe_register` sends one request whose instruction attribute
is, for outgoing label 3, the single SET instruction with `mir_instr_length`
1, and for any other label PUSH (label) followed by that SET with length 2.
The SET carries the interface index, and the next-hop address exactly when
the interface is not point-to-point (a zeroed address otherwise).  For label
3 no element of the list is a PUSH. -/
theorem C25_nhlfe_instruction_list (M : netlink_consts) (E : netlink_env)
    (sent : List (rtnl_handle × nl_request)) (lsp : route_lsp) (ifp : Nat)
    (hif : lsp.ifp = some ifp ∨ (lsp.ifp = none ∧ E.if_lookup_address lsp.nexthop = some ifp)) :
    (∃ lsp1 : route_lsp,
      lsp1.remote_label = lsp.remote_label ∧ lsp1.nexthop = lsp.nexthop ∧ lsp1.ifp = some ifp ∧
      mpls_kernel_nhlfe_register M E sent lsp =
        some (E.rtnl_talk (sent ++ [(rtnl_handle.rth_mpls_nhlfe, nhlfe_request M E lsp1 ifp)]),
          { lsp1 with nhlfe_index :=
              E.answer_key (sent ++ [(rtnl_handle.rth_mpls_nhlfe, nhlfe_request M E lsp1 ifp)]) },
          sent ++ [(rtnl_handle.rth_mpls_nhlfe, nhlfe_request M E lsp1 ifp)]) ∧
      (nhlfe_request M E lsp1 ifp).attrs =
        [{ rta_type := M.MPLS_ATTR_NHLFE,
           data := nl_payload.out_label { ml_type := M.MPLS_LABEL_KEY, u := 0 }
             M.MPLS_CHANGE_INSTR },
         { rta_type := M.MPLS_ATTR_INSTR,
           data := nl_payload.instr (nhlfe_instr M E lsp ifp) (nhlfe_instr M E lsp ifp).length }]) ∧
    (lsp.remote_label = 3 →
      nhlfe_instr M E lsp ifp =
        [{ mir_opcode := M.MPLS_OP_SET,
           mir_data := mpls_instr_data.set (E.ifindex ifp)
             (if E.if_is_pointopoint ifp = true then { sin_family := 0, sin_addr := 0 }
              else { sin_family := M.AF_INET, sin_addr := lsp.nexthop }) }] ∧
      (nhlfe_instr M E lsp ifp).length = 1 ∧
      ∀ e ∈ nhlfe_instr M E lsp ifp, ∀ l, e.mir_data ≠ mpls_instr_data.push l) ∧
    (lsp.remote_label ≠ 3 →
      nhlfe_instr M E lsp ifp =
        [{ mir_opcode := M.MPLS_OP_PUSH,
           mir_data := mpls_instr_data.push
             { ml_type := M.MPLS_LABEL_GEN, u := lsp.remote_label } },
         { mir_opcode := M.MPLS_OP_SET,
           mir_data := mpls_instr_data.set (E.ifindex ifp)
             (if E.if_is_pointopoint ifp = true then { sin_family := 0, sin_addr := 0 }
              else { sin_family := M.AF_INET, sin_addr := lsp.nexthop }) }] ∧
      (nhlfe_instr M E lsp ifp).length = 2) := by
  have hinstr3 : lsp.remote_label = 3 → nhlfe_instr M E lsp ifp =
      [{ mir_opcode := M.MPLS_OP_SET,
         mir_data := mpls_instr_data.set (E.ifindex ifp)
           (if E.if_is_pointopoint ifp = true then { sin_family := 0, sin_addr := 0 }
            else { sin_family := M.AF_INET, sin_addr := lsp.nexthop }) }] := by
    intro h3
    unfold nhlfe_instr
    by_cases hp : E.if_is_pointopoint ifp = true
    · simp [h3, hp, MPLS_IMPLICIT_NULL]
    · simp [h3, hp, MPLS_IMPLICIT_NULL]
  have hinstr : lsp.remote_label ≠ 3 → nhlfe_instr M E lsp ifp =
      [{ mir_opcode := M.MPLS_OP_PUSH,
         mir_data := mpls_instr_data.push
           { ml_type := M.MPLS_LABEL_GEN, u := lsp.remote_label } },
       { mir_opcode := M.MPLS_OP_SET,
         mir_data := mpls_instr_data.set (E.ifindex ifp)
           (if E.if_is_pointopoint ifp = true then { sin_family := 0, sin_addr := 0 }
            else { sin_family := M.AF_INET, sin_addr := lsp.nexthop }) }] := by
    intro h3
    unfold nhlfe_instr
    by_cases hp : E.if_is_pointopoint ifp = true
    · simp [h3, hp, MPLS_IMPLICIT_NULL]
    · simp [h3, hp, MPLS_IMPLICIT_NULL]
  have hlen : nhlfe_push_count lsp + 1 = (nhlfe_instr M E lsp ifp).length := by
    by_cases h3 : lsp.remote_label = 3
    · rw [hinstr3 h3]; simp [nhlfe_push_count, h3, MPLS_IMPLICIT_NULL]
    · rw [hinstr h3]; simp [nhlfe_push_count, h3, MPLS_IMPLICIT_NULL]
  refine ⟨?_, ?_, ?_⟩
  · refine ⟨{ lsp with ifp := some ifp }, rfl, rfl, rfl, ?_, ?_⟩
    · unfold mpls_kernel_nhlfe_register
      rcases hif with h | ⟨h, hlook⟩
      · have hne : ¬ lsp.ifp = none := by rw [h]; simp
        have hl : ({ lsp with ifp := some ifp } : route_lsp) = lsp := by
          cases lsp; simp only at h; subst h; rfl
        simp [h, hl]
      · simp [h, hlook]
    · show [_, _] = [_, _]
      have hi : nhlfe_instr M E { lsp with ifp := some ifp } ifp = nhlfe_instr M E lsp ifp := rfl
      have hc : nhlfe_push_count { lsp with ifp := some ifp } = nhlfe_push_count lsp := rfl
      rw [hi, hc, hlen]
  · intro h3
    refine ⟨hinstr3 h3, by rw [hinstr3 h3]; rfl, ?_⟩
    intro e he l
    rw [hinstr3 h3] at he
    simp only [List.mem_singleton] at he
    rw [he]
    simp
  · intro h3
    exact ⟨hinstr h3, by rw [hinstr h3]; rfl⟩

/-- C25 (witness): scenario 3.  For the static LSP to 192.0.2.1 with label
implicit-null, whose interface is found by address, the instruction list is
the SET alone, with interface index 11 and the next-hop address. -/
theorem C25_nhlfe_instruction_list_witness :
    nhlfe_instr demo_netlink_consts demo_netlink_env (route_lsp_new 1 demo_nexthop 3) 1 =
      [{ mir_opcode := 2,
         mir_data := mpls_instr_data.set 11 { sin_family := 2, sin_addr := demo_nexthop } }] ∧
    (nhlfe_instr demo_netlink_consts demo_netlink_env (route_lsp_new 1 demo_nexthop 3) 1).length
      = 1 :=
  ⟨((C25_nhlfe_instruction_list demo_netlink_consts demo_netlink_env []
      (route_lsp_new 1 demo_nexthop 3) 1 (Or.inr ⟨rfl, rfl⟩)).2.1 rfl).1,
    ((C25_nhlfe_instruction_list demo_netlink_consts demo_netlink_env []
      (route_lsp_new 1 demo_nexthop 3) 1 (Or.inr ⟨rfl, rfl⟩)).2.1 rfl).2.1⟩

/-! ## Label text -/

theorem digitChar_isDigit (d : Nat) (h : d < 10) :
    (Nat.digitChar d).isDigit = true ∧ (Nat.digitChar d).toNat - '0'.toNat = d ∧
    isspace (Nat.digitChar d) = false ∧ Nat.digitChar d ≠ '-' ∧ Nat.digitChar d ≠ '+' ∧
    Nat.digitChar d ≠ 'e' ∧ Nat.digitChar d ≠ 'i' := by
  interval_cases d <;> decide

/-- A text of decimal digits. -/
theorem sprintf_u_digits_all (fuel n : Nat) (acc : List Char)
    (hacc : ∀ c ∈ acc, ∃ d, d < 10 ∧ c = Nat.digitChar d) :
    ∀ c ∈ sprintf_u_digits fuel n acc, ∃ d, d < 10 ∧ c = Nat.digitChar d := by
  induction fuel generalizing n acc with
  | zero => exact hacc
  | succ f ih =>
    have hcons : ∀ c ∈ Nat.digitChar (n % 10) :: acc, ∃ d, d < 10 ∧ c = Nat.digitChar d := by
      intro c hc
      rcases List.mem_cons.1 hc with h | h
      · exact ⟨n % 10, Nat.mod_lt _ (by decide), h⟩
      · exact hacc c h
    unfold sprintf_u_digits
    split
    · exact hcons
    · exact ih (n / 10) _ hcons

theorem sprintf_u_digits_ne_nil (fuel n : Nat) (acc : List Char) (hf : 0 < fuel) :
    sprintf_u_digits fuel n acc ≠ [] := by
  induction fuel generalizing n acc with
  | zero => omega
  | succ f ih =>
    unfold sprintf_u_digits
    split
    · simp
    · cases f with
      | zero => simp [sprintf_u_digits]
      | succ g => exact ih (n / 10) _ (Nat.succ_pos _)

/-- Reading back the digits written for `n` in front of `acc` continues, with
`n` appended to the value read so far, as reading `acc` does (`k`). -/
theorem strtoul_digits_sprintf (fuel n : Nat) (acc : List Char) (hn : n < 10 ^ fuel)
    (k : Nat → Nat) (hk : ∀ a, strtoul_digits acc a = k a) (a : Nat) :
    ∃ m, strtoul_digits (sprintf_u_digits fuel n acc) a = k (a * 10 ^ m + n) := by
  induction fuel generalizing n acc k a with
  | zero =>
    have h0 : n = 0 := by simpa using hn
    exact ⟨0, by simp [sprintf_u_digits, h0, hk]⟩
  | succ f ih =>
    have hd := digitChar_isDigit (n % 10) (Nat.mod_lt _ (by decide))
    have hcons : ∀ b, strtoul_digits (Nat.digitChar (n % 10) :: acc) b = k (b * 10 + n % 10) := by
      intro b
      simp only [strtoul_digits, hd.1, if_true, hd.2.1]
      exact hk _
    unfold sprintf_u_digits
    split
    · rename_i h0
      refine ⟨1, ?_⟩
      rw [hcons]
      have : n % 10 = n := by omega
      rw [this, pow_one]
    · have hlt : n / 10 < 10 ^ f := by
        rw [pow_succ] at hn
        exact Nat.div_lt_of_lt_mul (by rw [Nat.mul_comm]; exact hn)
      obtain ⟨m, he⟩ := ih (n / 10) _ hlt (fun b => k (b * 10 + n % 10)) hcons a
      refine ⟨m + 1, ?_⟩
      rw [he]
      congr 1
      rw [pow_succ]
      nlinarith [Nat.div_add_mod n 10]

theorem strtoul_sprintf_u (ulong_max n : Nat) (hn : n ≤ ulong_max) :
    strtoul ulong_max (sprintf_u n).toList = n := by
  have hval : strtoul_digits (sprintf_u_digits (n + 1) n []) 0 = n := by
    obtain ⟨m, hm⟩ := strtoul_digits_sprintf (n + 1) n []
      (Nat.lt_trans (Nat.lt_pow_self (by decide) n) (Nat.pow_lt_pow_right (by decide) (Nat.lt_succ_self n)))
      id (fun a => rfl) 0
    rw [hm]
    simp
  have hall := sprintf_u_digits_all (n + 1) n [] (fun c hc => by simp at hc)
  have hne := sprintf_u_digits_ne_nil (n + 1) n [] (Nat.succ_pos _)
  unfold strtoul sprintf_u
  show (match (sprintf_u_digits (n + 1) n []).dropWhile isspace with
    | '-' :: digits => _
    | '+' :: digits => _
    | digits => _) = n
  cases hl : sprintf_u_digits (n + 1) n [] with
  | nil => exact absurd hl hne
  | cons c cs =>
    obtain ⟨d, hd, hc⟩ := hall c (by rw [hl]; exact List.mem_cons_self _ _)
    have hdc := digitChar_isDigit d hd
    rw [← hc] at hdc
    have hdrop : (c :: cs).dropWhile isspace = c :: cs := by
      simp [List.dropWhile, hdc.2.2.1]
    rw [hdrop]
    split
    · rename_i h; injection h with h1 _; exact absurd h1 hdc.2.2.2.1
    · rename_i h; injection h with h1 _; exact absurd h1 hdc.2.2.2.2.1
    · rw [← hl, hval]
      exact Nat.min_eq_left hn

theorem sprintf_u_not_keyword (n : Nat) :
    sprintf_u n ≠ "explicit-null" ∧ sprintf_u n ≠ "implicit-null" := by
  have hall := sprintf_u_digits_all (n + 1) n [] (fun c hc => by simp at hc)
  have key : ∀ (c : Char) (cs : List Char), (∀ d, d < 10 → c ≠ Nat.digitChar d) →
      sprintf_u n ≠ String.mk (c :: cs) := by
    intro c cs hc h
    have h2 : sprintf_u_digits (n + 1) n [] = c :: cs := congrArg String.data h
    obtain ⟨d, hd, hcd⟩ := hall c (by rw [h2]; exact List.mem_cons_self _ _)
    exact hc d hd hcd
  constructor
  · exact key 'e' _ (fun d hd h => (digitChar_isDigit d hd).2.2.2.2.2.1 h.symm)
  · exact key 'i' _ (fun d hd h => (digitChar_isDigit d hd).2.2.2.2.2.2 h.symm)

/-- C26: `vty_label_value` gives 0 for "explicit-null", 3 for
"implicit-null", and for any other text what `strtoul` reads in base 10, so
the decimal numeral of `n` gives `n`; the long form `vty_label_str` writes is
"explicit-null" for 0, "implicit-null" for 3 and the decimal numeral for any
other label; and `vty_label_value` reads the long form of every label `L`
below 2^32, so of every label in 0..1048575, back as `L`.  (`ulong_max` is
`ULONG_MAX`, at least 2^32 - 1.) -/
theorem C26_label_text_round_trip (ulong_max : Nat) (hmax : 4294967295 ≤ ulong_max) :
    vty_label_value ulong_max "explicit-null" = 0 ∧
    vty_label_value ulong_max "implicit-null" = 3 ∧
    (∀ s : String, s ≠ "explicit-null" → s ≠ "implicit-null" →
      vty_label_value ulong_max s = strtoul ulong_max s.toList % 4294967296) ∧
    (∀ n, n < 4294967296 → vty_label_value ulong_max (sprintf_u n) = n) ∧
    vty_label_str 0 false = "explicit-null" ∧
    vty_label_str 3 false = "implicit-null" ∧
    (∀ L, L ≠ 0 → L ≠ 3 → vty_label_str L false = sprintf_u L) ∧
    (∀ L, L < 4294967296 → vty_label_value ulong_max (vty_label_str L false) = L) ∧
    (∀ L, L ≤ 1048575 → vty_label_value ulong_max (vty_label_str L false) = L) := by
  have hother : ∀ s : String, s ≠ "explicit-null" → s ≠ "implicit-null" →
      vty_label_value ulong_max s = strtoul ulong_max s.toList % 4294967296 := by
    intro s h1 h2
    unfold vty_label_value
    rw [if_neg h1, if_neg h2]
  have hdec : ∀ n, n < 4294967296 → vty_label_value ulong_max (sprintf_u n) = n := by
    intro n hn
    rw [hother _ (sprintf_u_not_keyword n).1 (sprintf_u_not_keyword n).2,
      strtoul_sprintf_u ulong_max n (by omega)]
    exact Nat.mod_eq_of_lt hn
  have hstr : ∀ L, L ≠ 0 → L ≠ 3 → vty_label_str L false = sprintf_u L := by
    intro L h0 h3
    unfold vty_label_str
    rw [if_neg (by simpa [MPLS_IMPLICIT_NULL] using h3),
      if_neg (by simpa [MPLS_IPV4_EXPLICIT_NULL] using h0)]
  have hround : ∀ L, L < 4294967296 →
      vty_label_value ulong_max (vty_label_str L false) = L := by
    intro L hL
    by_cases h0 : L = 0
    · subst h0; rfl
    · by_cases h3 : L = 3
      · subst h3; rfl
      · rw [hstr L h0 h3]
        exact hdec L hL
  exact ⟨rfl, rfl, hother, hdec, rfl, rfl, hstr, hround, fun L hL => hround L (by omega)⟩

/-- C26 (witness): with a 64-bit `unsigned long`, the long forms of 0, 3 and
1048575 are read back as 0, 3 and 1048575. -/
theorem C26_label_text_round_trip_witness :
    vty_label_str 1048575 false = "1048575" ∧
    vty_label_value 18446744073709551615 (vty_label_str 1048575 false) = 1048575 ∧
    vty_label_value 18446744073709551615 (vty_label_str 0 false) = 0 ∧
    vty_label_value 18446744073709551615 (vty_label_str 3 false) = 3 :=
  ⟨by decide,
    (C26_label_text_round_trip 18446744073709551615 (by decide)).2.2.2.2.2.2.2.2 1048575
      (by decide),
    (C26_label_text_round_trip 18446744073709551615 (by decide)).2.2.2.2.2.2.2.2 0 (by decide),
    (C26_label_text_round_trip 18446744073709551615 (by decide)).2.2.2.2.2.2.2.2 3 (by decide)⟩

/-- C24 (witness): with the sample kernel, ILM install of label 100 sends one
request with command `MPLS_CMD_NEWILM` and returns the kernel's 0; ILM
install of label 3 sends nothing. -/
theorem C24_ilm_calls_skip_implicit_null_witness :
    mpls_kernel_ilm_register demo_netlink_consts demo_netlink_env [] 100 =
      (0, [(rtnl_handle.rth_mpls_cmd, ilm_request demo_netlink_consts 2 100)]) ∧
    mpls_kernel_ilm_register demo_netlink_consts demo_netlink_env [] 3 = (0, []) :=
  ⟨(C24_ilm_calls_skip_implicit_null demo_netlink_consts demo_netlink_env []).2.2.1 100
      (by decide),
    (C24_ilm_calls_skip_implicit_null demo_netlink_consts demo_netlink_env []).1⟩

/-! ## The commands `mpls ip` and `no mpls ip` -/

theorem set_labelspace_loop_eq (labelspace : Int) (iflist : List interface) (s : zebra) :
    set_labelspace_loop labelspace iflist s =
      { s with log := s.log ++ labelspace_calls iflist labelspace } := by
  induction iflist generalizing s with
  | nil => simp [set_labelspace_loop, labelspace_calls]
  | cons i rest ih =>
    unfold set_labelspace_loop
    by_cases h : i.info.mpls_enabled = 0
    · rw [if_pos h, ih]
      simp [labelspace_calls, List.filter_cons, h]
    · rw [if_neg h, ih]
      simp [labelspace_calls, List.filter_cons, h, zemit]

/-- C29: `mpls_init` leaves `mpls_enabled` at 0.  With `mpls_enabled = 0`,
`mpls ip` appends to the log one `set_interface_labelspace (ifp, 0)` for each
interface of `iflist` whose `mpls_enabled` is set, in list order, and nothing
else, and sets `mpls_enabled` to 1; with `mpls_enabled` set, `no mpls ip`
appends the same calls with label space -1 and sets `mpls_enabled` to 0;
`mpls ip` when enabled and `no mpls ip` when disabled return the state they
were given.  All four return `CMD_SUCCESS`. -/
theorem C29_mpls_ip_enable_disable (iflist : List interface) (s : zebra) :
    (mpls_init s).mpls_enabled = 0 ∧
    (s.mpls_enabled = 0 →
      mpls_ip iflist s =
        (CMD_SUCCESS,
          { s with mpls_enabled := 1, log := s.log ++ labelspace_calls iflist 0 })) ∧
    (s.mpls_enabled ≠ 0 →
      no_mpls_ip iflist s =
        (CMD_SUCCESS,
          { s with mpls_enabled := 0, log := s.log ++ labelspace_calls iflist (-1) })) ∧
    (s.mpls_enabled ≠ 0 → mpls_ip iflist s = (CMD_SUCCESS, s)) ∧
    (s.mpls_enabled = 0 → no_mpls_ip iflist s = (CMD_SUCCESS, s)) ∧
    (∀ labelspace, labelspace_calls iflist labelspace =
      (iflist.filter (fun i => i.info.mpls_enabled != 0)).map
        (fun i => event.set_interface_labelspace i.ptr labelspace)) ∧
    (∀ i labelspace, event.set_interface_labelspace i labelspace ∈
        labelspace_calls iflist labelspace ↔
      ∃ ifp ∈ iflist, ifp.info.mpls_enabled ≠ 0 ∧ ifp.ptr = i) := by
  refine ⟨rfl, ?_, ?_, ?_, ?_, fun _ => rfl, ?_⟩
  · intro h
    unfold mpls_ip
    rw [if_neg (by simpa using h), set_labelspace_loop_eq]
  · intro h
    unfold no_mpls_ip
    rw [if_neg h, set_labelspace_loop_eq]
  · intro h
    unfold mpls_ip
    rw [if_pos h]
  · intro h
    unfold no_mpls_ip
    rw [if_pos h]
  · intro i labelspace
    simp only [labelspace_calls, List.mem_map, List.mem_filter, bne_iff_ne, ne_eq, event.set_interface_labelspace.injEq,
      and_true]
    constructor
    · rintro ⟨ifp, ⟨hm, he⟩, hp⟩
      exact ⟨ifp, hm, he, hp⟩
    · rintro ⟨ifp, hm, he, hp⟩
      exact ⟨ifp, ⟨hm, he⟩, hp⟩

/-- C29 (witness): from start-up, `mpls ip` sets label space 0 on the two
interfaces with MPLS configured and a second `mpls ip` changes nothing; then
`no mpls ip` sets label space -1 on the same two. -/
theorem C29_mpls_ip_enable_disable_witness :
    (mpls_ip demo_iflist (zebra_start demo_clients)).2.log =
      [event.set_interface_labelspace 1 0, event.set_interface_labelspace 3 0] ∧
    (mpls_ip demo_iflist (zebra_start demo_clients)).2.mpls_enabled = 1 ∧
    mpls_ip demo_iflist (mpls_ip demo_iflist (zebra_start demo_clients)).2 =
      (CMD_SUCCESS, (mpls_ip demo_iflist (zebra_start demo_clients)).2) ∧
    (no_mpls_ip demo_iflist (mpls_ip demo_iflist (zebra_start demo_clients)).2).2.log =
      [event.set_interface_labelspace 1 0, event.set_interface_labelspace 3 0,
       event.set_interface_labelspace 1 (-1), event.set_interface_labelspace 3 (-1)] :=
  ⟨congrArg (fun r => r.2.log)
      ((C29_mpls_ip_enable_disable demo_iflist (zebra_start demo_clients)).2.1 rfl),
    congrArg (fun r => r.2.mpls_enabled)
      ((C29_mpls_ip_enable_disable demo_iflist (zebra_start demo_clients)).2.1 rfl),
    (C29_mpls_ip_enable_disable demo_iflist
      (mpls_ip demo_iflist (zebra_start demo_clients)).2).2.2.2.1 (by decide),
    congrArg (fun r => r.2.log)
      ((C29_mpls_ip_enable_disable demo_iflist
        (mpls_ip demo_iflist (zebra_start demo_clients)).2).2.2.1 (by decide))⟩

/-! ## The written configuration -/

theorem config_write_lsps_eq (V : vty_env) (p : Prefix) (l : List route_lsp)
    (out : List (List String)) :
    config_write_lsps V p l out = out ++ l.map (config_output_line V p) := by
  induction l generalizing out with
  | nil => simp [config_write_lsps]
  | cons a t ih => simp [config_write_lsps, ih]

theorem config_write_bindings_eq (V : vty_env) (s : zebra) (nodes : List Prefix)
    (out : List (List String)) :
    config_write_bindings V s nodes out = out ++ (nodes.map (config_block V s)).flatten := by
  induction nodes generalizing out with
  | nil => simp [config_write_bindings]
  | cons p rest ih =>
    unfold config_write_bindings
    cases hm : (s.table p).mpls with
    | none => simp [ih, config_block, hm]
    | some lb =>
      dsimp only
      by_cases hl : lb.static_in_label = NO_LABEL
      · cases hs : lb.static_lsps with
        | nil => simp [hl, hs, ih, config_block, hm]
        | cons a t => simp [hl, hs, ih, config_block, hm, config_write_lsps_eq]
      · cases hs : lb.static_lsps with
        | nil => simp [hl, hs, ih, config_block, hm]
        | cons a t => simp [hl, hs, ih, config_block, hm, config_write_lsps_eq]

theorem config_write_crossconnects_eq (V : vty_env) (iflist : List interface)
    (l : List mpls_crossconnect) (out : List (List String))
    (hif : ∀ mc ∈ l, mc.lsp.ifp.bind (if_deref iflist) ≠ none) :
    config_write_crossconnects V iflist l out =
      some (out ++ l.map (fun mc => config_crossconnect_line V (ifp_name iflist mc.lsp.ifp) mc)) := by
  induction l generalizing out with
  | nil => simp [config_write_crossconnects]
  | cons mc rest ih =>
    unfold config_write_crossconnects
    cases hd : mc.lsp.ifp.bind (if_deref iflist) with
    | none => exact absurd hd (hif mc (List.mem_cons_self _ _))
    | some i =>
      dsimp only
      rw [ih _ (fun x hx => hif x (List.mem_cons_of_mem _ hx))]
      simp [ifp_name, hd]

/-- C27: when every cross-connect entry has an interface object,
`mpls_config_write` returns 0 and writes, in this order: the lines of
`mpls ip` (if enabled); for each node of the route table, in table order,
the block of its prefix; one line for each cross-connect, in list order; and
a closing `!`.  The block of a prefix is the line of its static in-label, if
it has one, followed by one output line for each static LSP in the order of
`static_lsps`; it is empty for a prefix without record or with neither a
static in-label nor a static LSP.  So every binding line precedes every
cross-connect line. -/
theorem C27_config_write_order (V : vty_env) (iflist : List interface) (nodes : List Prefix)
    (s : zebra)
    (hif : ∀ mc ∈ s.mpls_crossconnect_list, mc.lsp.ifp.bind (if_deref iflist) ≠ none) :
    mpls_config_write V iflist nodes s =
      some (0, (if s.mpls_enabled ≠ 0 then [["mpls", "ip"], ["!"]] else [])
        ++ (nodes.map (config_block V s)).flatten
        ++ s.mpls_crossconnect_list.map
            (fun mc => config_crossconnect_line V (ifp_name iflist mc.lsp.ifp) mc)
        ++ [["!"]]) ∧
    (∀ p lb, (s.table p).mpls = some lb →
      config_block V s p =
        (if lb.static_in_label ≠ NO_LABEL then [config_input_line V p lb.static_in_label]
         else []) ++ lb.static_lsps.map (config_output_line V p)) ∧
    (∀ p, (bindings s p).static_in_label = NO_LABEL → (bindings s p).static_lsps = [] →
      config_block V s p = []) ∧
    (∀ p, ∀ l ∈ config_block V s p,
      l.take 5 = ["mpls", "static", "binding", "ipv4", V.prefix2str p]) ∧
    (∀ mc name, (config_crossconnect_line V name mc).take 3 = ["mpls", "static", "crossconnect"]) := by
  refine ⟨?_, ?_, ?_, ?_, fun _ _ => rfl⟩
  · unfold mpls_config_write
    dsimp only
    rw [config_write_bindings_eq, config_write_crossconnects_eq V iflist _ _ hif]
  · intro p lb hm
    unfold config_block
    rw [hm]
  · intro p h1 h2
    unfold config_block
    cases hm : (s.table p).mpls with
    | none => rfl
    | some lb =>
      rw [bindings_of_some hm] at h1 h2
      simp [h1, h2]
  · intro p l hl
    unfold config_block at hl
    cases hm : (s.table p).mpls with
    | none => rw [hm] at hl; simp at hl
    | some lb =>
      rw [hm] at hl
      dsimp only at hl
      rcases List.mem_append.1 hl with h | h
      · split at h
        · simp only [List.mem_singleton] at h
          rw [h]; rfl
        · simp at h
      · obtain ⟨lsp, _, he⟩ := List.mem_map.1 h
        rw [← he]; rfl

/-- C27 (witness): the configuration written for `config_state`. -/
theorem C27_config_write_order_witness :
    mpls_config_write demo_vty_env demo_iflist [ demo_prefix] config_state =
      some (0,
        [["mpls", "ip"], ["!"],
         ["mpls", "static", "binding", "ipv4", "10.0.0.0/8", "100"],
         ["mpls", "static", "binding", "ipv4", "10.0.0.0/8", "output", "192.0.2.1", "300"],
         ["mpls", "static", "binding", "ipv4", "10.0.0.0/8", "output", "0.0.0.5", "301"],
         ["mpls", "static", "crossconnect", "500", "if0", "192.0.2.2", "implicit-null"],
         ["!"]]) :=
  (C27_config_write_order demo_vty_env demo_iflist [ demo_prefix] config_state (by decide)).1

/-! ## The ILM table of the recording driver -/

theorem ilm_installed_append (log es : List event) (L : Nat) :
    ilm_installed (log ++ es) L = ilm_run L es (ilm_installed log L) := by
  unfold ilm_installed ilm_run
  rw [List.foldl_append]

theorem ilm_run_append (L : Nat) (es fs : List event) (b : Bool) :
    ilm_run L (es ++ fs) b = ilm_run L fs (ilm_run L es b) := by
  unfold ilm_run
  rw [List.foldl_append]

theorem ilm_run_nil (L : Nat) (b : Bool) : ilm_run L [] b = b := rfl

theorem ilm_run_cons (L : Nat) (e : event) (es : List event) (b : Bool) :
    ilm_run L (e :: es) b = ilm_run L es (ilm_step L b e) := rfl

/-- Calls other than ILM install and ILM remove leave the ILM table alone. -/
theorem ilm_run_quiet (L : Nat) (es : List event) (b : Bool)
    (h : ∀ e ∈ es, e.is_ilm = false) :
    ilm_run L es b = b := by
  induction es generalizing b with
  | nil => rfl
  | cons e t ih =>
    rw [ilm_run_cons, ih _ (fun x hx => h x (List.mem_cons_of_mem _ hx))]
    have he := h e (List.mem_cons_self _ _)
    cases e with
    | ilm_register x => cases he
    | ilm_unregister x => cases he
    | _ => rfl

theorem ilm_run_broadcast (L : Nat) (cl : List zserv) (p : Prefix) (label : Nat) (b : Bool) :
    ilm_run L (broadcast cl p label) b = b := by
  apply ilm_run_quiet
  intro e he
  unfold broadcast at he
  obtain ⟨c, _, hc⟩ := List.mem_map.1 he
  rw [← hc]
  rfl

theorem ilm_run_xc_unregister_if (L : Nat) (sel : Option route_lsp) (label : Nat) (b : Bool) :
    ilm_run L (xc_unregister_if sel label) b = b := by
  cases sel <;> rfl

theorem ilm_run_xc_register_if (L : Nat) (sel : Option route_lsp) (label : Nat) (b : Bool) :
    ilm_run L (xc_register_if sel label) b = b := by
  cases sel <;> rfl

/-- Implicit Null never has an entry. -/
theorem ilm_run_implicit_null (es : List event) :
    ilm_run MPLS_IMPLICIT_NULL es false = false := by
  induction es using List.reverseRecOn with
  | nil => rfl
  | append_singleton t e ih =>
    rw [ilm_run_append, ih]
    cases e with
    | ilm_register x =>
      show (if x = MPLS_IMPLICIT_NULL ∧ x ≠ MPLS_IMPLICIT_NULL then true else false) = false
      rw [if_neg (fun h => h.2 h.1)]
    | ilm_unregister x =>
      show (if x = MPLS_IMPLICIT_NULL ∧ x ≠ MPLS_IMPLICIT_NULL then false else false) = false
      split <;> rfl
    | _ => rfl

theorem ilm_installed_implicit_null (log : List event) :
    ilm_installed log MPLS_IMPLICIT_NULL = false := ilm_run_implicit_null log

theorem ilm_step_register (L x : Nat) (b : Bool) :
    ilm_step L b (event.ilm_register x) = if x = L ∧ x ≠ MPLS_IMPLICIT_NULL then true else b :=
  rfl

theorem ilm_step_unregister (L x : Nat) (b : Bool) :
    ilm_step L b (event.ilm_unregister x) =
      if x = L ∧ x ≠ MPLS_IMPLICIT_NULL then false else b :=
  rfl

/-- The log of the node gets no ILM call. -/
theorem ilm_installed_emit (c : mpls_rn) (e : event) (L : Nat)
    (h : e.is_ilm = false) :
    ilm_installed (emit c e).log L = ilm_installed c.log L := by
  show ilm_installed (c.log ++ [e]) L = _
  rw [ilm_installed_append]
  exact ilm_run_quiet L [e] _ (fun x hx => by rw [List.mem_singleton.1 hx]; exact h)

theorem remove_lsp_ilm (K : zebra_consts) (c : mpls_rn) (lsp : route_lsp) (L : Nat) :
    ilm_installed (mpls_prefix_remove_lsp K c lsp).log L = ilm_installed c.log L := by
  unfold mpls_prefix_remove_lsp
  split
  · rfl
  · dsimp only
    split
    · rw [ilm_installed_emit _ _ _ (by rfl)]
      split
      · rw [ilm_installed_emit _ _ _ (by rfl)]
      · rfl
    · rfl

theorem select_lsp_ilm (K : zebra_consts) (drv : driver) (c : mpls_rn) (L : Nat) :
    ilm_installed (mpls_prefix_select_lsp K drv c).log L = ilm_installed c.log L := by
  unfold mpls_prefix_select_lsp
  split
  · rfl
  · dsimp only
    split
    · rfl
    · have hr : ilm_installed (match c.lb.selected_lsp with
          | some old => mpls_prefix_remove_lsp K c old
          | none => c).log L = ilm_installed c.log L := by
        cases c.lb.selected_lsp with
        | none => rfl
        | some old => exact remove_lsp_ilm K c old L
      generalize (match c.lb.selected_lsp with
          | some old => mpls_prefix_remove_lsp K c old
          | none => c) = c1 at hr ⊢
      split
      · exact hr
      · split
        · rw [← hr]
          exact ilm_installed_emit _ _ _ (by rfl)
        · rw [ilm_installed_emit _ _ _ (by rfl)]
          split
          · rw [ilm_installed_emit _ _ _ (by rfl)]
            rw [← hr]
            exact ilm_installed_emit _ _ _ (by rfl)
          · rw [← hr]
            exact ilm_installed_emit _ _ _ (by rfl)

theorem maybe_select_ilm (K : zebra_consts) (drv : driver) (c : mpls_rn) (L : Nat) :
    ilm_installed
      (if zebra_route_node_active K c.info then mpls_prefix_select_lsp K drv c else c).log L =
      ilm_installed c.log L := by
  split
  · exact select_lsp_ilm K drv c L
  · rfl
theorem remove_static_lsp_rn_ilm (K : zebra_consts) (drv : driver) (c : mpls_rn) (n : Nat)
    (L : Nat) :
    ilm_installed (remove_static_lsp_rn K drv c n).log L = ilm_installed c.log L := by
  unfold remove_static_lsp_rn
  split
  · rfl
  · rename_i lsp _
    exact (maybe_select_ilm K drv _ L).trans (remove_lsp_ilm K c lsp L)

theorem add_static_lsp_rn_ilm (K : zebra_consts) (drv : driver) (c : mpls_rn)
    (nexthop label : Nat) (L : Nat) :
    ilm_installed (add_static_lsp_rn K drv c nexthop label).log L = ilm_installed c.log L := by
  have hloop := add_static_lsp_loop_preserves K drv nexthop label
    (fun c' => ilm_installed c'.log L = ilm_installed c.log L)
    (fun c1 n h1 => (remove_static_lsp_rn_ilm K drv c1 n L).trans h1)
    c.lb.static_lsps c rfl
  unfold add_static_lsp_rn
  generalize add_static_lsp_loop K drv nexthop label c.lb.static_lsps c = r at hloop ⊢
  obtain ⟨b, c'⟩ := r
  cases b with
  | true => exact hloop
  | false =>
    dsimp only at hloop ⊢
    rw [maybe_select_ilm]
    exact hloop

theorem set_ldp_lsp_rn_ilm (K : zebra_consts) (drv : driver) (c : mpls_rn)
    (nexthop label : Nat) (L : Nat) :
    ilm_installed (set_ldp_lsp_rn K drv c nexthop label).log L = ilm_installed c.log L := by
  unfold set_ldp_lsp_rn
  split
  · rfl
  · dsimp only
    rw [maybe_select_ilm]
    show ilm_installed (match c.lb.ldp_lsp with
      | some l => { mpls_prefix_remove_lsp K c l with
                    lb := XFREE_ldp_lsp (mpls_prefix_remove_lsp K c l).lb }
      | none => c).log L = _
    cases c.lb.ldp_lsp with
    | none => rfl
    | some l => exact remove_lsp_ilm K c l L

theorem remove_ldp_lsp_rn_ilm (K : zebra_consts) (drv : driver) (c : mpls_rn)
    (nexthop label : Nat) (L : Nat) :
    ilm_installed (remove_ldp_lsp_rn K drv c nexthop label).log L = ilm_installed c.log L := by
  unfold remove_ldp_lsp_rn
  split
  · rfl
  · rename_i l _
    split
    · rfl
    · exact (maybe_select_ilm K drv _ L).trans (remove_lsp_ilm K c l L)

/-- An engine function that makes no ILM call and leaves the in-labels and
the routes of its node alone has the effect on the ILM table that
`ilm_effect` asks for. -/
theorem ilm_effect_of_same (K : zebra_consts) (info : List rib) (lb lb' : label_bindings)
    (log log' : List event) (hl : same_in_labels lb lb')
    (hi : ∀ L, ilm_installed log' L = ilm_installed log L) :
    ilm_effect K info lb log info lb' log' := by
  constructor
  · intro L _ _ h
    rw [hi L, h]
    unfold node_on
    rw [hl.2.2]
  · intro L _
    exact hi L

/-! ## The effect of the in-label mutators on the ILM table -/

theorem ilm_set_static_events (K : zebra_consts) (c : mpls_rn) (label L : Nat) (b : Bool) :
    ilm_run L (set_static_events K c label) b =
      if zebra_route_node_active K c.info = true then
        (if label = L ∧ label ≠ MPLS_IMPLICIT_NULL then true
         else if c.lb.selected_in_label ≠ NO_LABEL ∧ c.lb.selected_in_label = L
             ∧ c.lb.selected_in_label ≠ MPLS_IMPLICIT_NULL then false
         else b)
      else b := by
  unfold set_static_events
  by_cases ha : zebra_route_node_active K c.info = true
  · rw [if_pos ha, if_pos ha]
    by_cases hs : c.lb.selected_in_label = NO_LABEL
    · simp [hs, ilm_run_append, ilm_run_cons, ilm_run_nil, ilm_step_register,
        ilm_run_broadcast, ilm_run_xc_register_if]
    · simp only [ne_eq, hs, not_false_eq_true, if_true, true_and, ilm_run_append, ilm_run_cons,
        ilm_run_nil, ilm_step_register, ilm_step_unregister, ilm_run_broadcast,
        ilm_run_xc_register_if, ilm_run_xc_unregister_if]
  · rw [if_neg ha, if_neg ha]
    rfl

theorem set_static_input_label_rn_ilm (K : zebra_consts) (c : mpls_rn) (label : Nat)
    (hl : label ≠ NO_LABEL) :
    ilm_effect K c.info c.lb c.log (set_static_input_label_rn K c label).info
      (set_static_input_label_rn K c label).lb (set_static_input_label_rn K c label).log := by
  rw [set_static_input_label_rn_eq]
  by_cases h1 : c.lb.static_in_label = label
  · rw [if_pos h1]
    exact ⟨fun L _ _ h => h, fun L _ => rfl⟩
  · rw [if_neg h1]
    dsimp only
    constructor
    · intro L hr _ hpre
      rw [ilm_installed_append, ilm_set_static_events]
      unfold node_on at hpre ⊢
      dsimp only
      by_cases ha : zebra_route_node_active K c.info = true
      · rw [if_pos ha]
        by_cases hlab : label = L
        · rw [if_pos ⟨hlab, by rw [hlab]; exact hr.2⟩]
          exact ⟨fun _ => ⟨ha, hlab⟩, fun _ => rfl⟩
        · rw [if_neg (fun h => hlab h.1)]
          by_cases hs : c.lb.selected_in_label = L
          · rw [if_pos ⟨by rw [hs]; exact hr.1, hs, by rw [hs]; exact hr.2⟩]
            exact ⟨fun h => (by cases h), fun h => absurd h.2 hlab⟩
          · rw [if_neg (fun h => hs h.2.1)]
            exact ⟨fun h => absurd (hpre.1 h).2 hs, fun h => absurd h.2 hlab⟩
      · rw [if_neg ha]
        exact ⟨fun h => absurd (hpre.1 h).1 ha, fun h => absurd h.1 ha⟩
    · intro L hn
      rw [ilm_installed_append, ilm_set_static_events]
      by_cases ha : zebra_route_node_active K c.info = true
      · rw [if_pos ha]
        by_cases h3 : L = MPLS_IMPLICIT_NULL
        · subst h3
          rw [ilm_installed_implicit_null]
          split
          · rename_i h; exact absurd h.1 h.2
          · split <;> rfl
        · have hnh : ¬ (L ≠ NO_LABEL ∧ (label_held c.lb L ∨ label_held
              { c.lb with static_in_label := label, selected_in_label := label } L)) :=
            fun h => hn ⟨⟨h.1, h3⟩, h.2⟩
          by_cases hlab : label = L
          · exact absurd ⟨by rw [← hlab]; exact hl, Or.inr (Or.inl hlab)⟩ hnh
          · rw [if_neg (fun h => hlab h.1)]
            by_cases hs : c.lb.selected_in_label = L
            · by_cases hno : L = NO_LABEL
              · rw [if_neg (fun h => h.1 (hs.trans hno))]
              · exact absurd ⟨hno, Or.inl (Or.inr (Or.inr hs))⟩ hnh
            · rw [if_neg (fun h => hs h.2.1)]
      · rw [if_neg ha]

theorem ilm_remove_static_events (K : zebra_consts) (c : mpls_rn) (L : Nat) (b : Bool) :
    ilm_run L (remove_static_events K c) b =
      if zebra_route_node_active K c.info = true then
        (if c.lb.ldp_in_label ≠ NO_LABEL ∧ c.lb.ldp_in_label = L
            ∧ c.lb.ldp_in_label ≠ MPLS_IMPLICIT_NULL then true
         else if c.lb.selected_in_label = L ∧ c.lb.selected_in_label ≠ MPLS_IMPLICIT_NULL
           then false
         else b)
      else b := by
  unfold remove_static_events
  by_cases ha : zebra_route_node_active K c.info = true
  · rw [if_pos ha, if_pos ha]
    by_cases hs : c.lb.ldp_in_label = NO_LABEL
    · simp [hs, ilm_run_append, ilm_run_cons, ilm_run_nil, ilm_step_unregister,
        ilm_run_broadcast, ilm_run_xc_unregister_if]
    · simp only [ne_eq, hs, not_false_eq_true, if_false, true_and, ilm_run_append, ilm_run_cons,
        ilm_run_nil, ilm_step_register, ilm_step_unregister, ilm_run_broadcast,
        ilm_run_xc_register_if, ilm_run_xc_unregister_if]
  · rw [if_neg ha, if_neg ha]
    rfl

theorem remove_static_input_label_rn_ilm (K : zebra_consts) (c : mpls_rn) (label : Nat)
    (hok : in_static_ok c.lb) :
    ilm_effect K c.info c.lb c.log (remove_static_input_label_rn K c label).info
      (remove_static_input_label_rn K c label).lb
      (remove_static_input_label_rn K c label).log := by
  rw [remove_static_input_label_rn_eq]
  by_cases h1 : c.lb.static_in_label = NO_LABEL
  · rw [if_pos h1]
    exact ⟨fun L _ _ h => h, fun L _ => rfl⟩
  · rw [if_neg h1]
    by_cases h2 : label ≠ NO_LABEL ∧ c.lb.static_in_label ≠ label
    · rw [if_pos h2]
      exact ⟨fun L _ _ h => h, fun L _ => rfl⟩
    · rw [if_neg h2]
      have hsel : c.lb.selected_in_label ≠ NO_LABEL := by rw [hok h1]; exact h1
      dsimp only
      constructor
      · intro L hr _ hpre
        rw [ilm_installed_append, ilm_remove_static_events]
        unfold node_on at hpre ⊢
        unfold remove_static_selected
        dsimp only
        by_cases ha : zebra_route_node_active K c.info = true
        · rw [if_pos ha]
          by_cases hldp : c.lb.ldp_in_label = NO_LABEL
          · rw [if_neg (fun h => h.1 hldp), if_pos hldp]
            by_cases hs : c.lb.selected_in_label = L
            · rw [if_pos ⟨hs, by rw [hs]; exact hr.2⟩]
              exact ⟨fun h => (by cases h), fun h => absurd h.2.symm hr.1⟩
            · rw [if_neg (fun h => hs h.1)]
              exact ⟨fun h => absurd (hpre.1 h).2 hs, fun h => absurd h.2.symm hr.1⟩
          · rw [if_neg hldp, if_pos ha]
            by_cases hl : c.lb.ldp_in_label = L
            · rw [if_pos ⟨hldp, hl, by rw [hl]; exact hr.2⟩]
              exact ⟨fun _ => ⟨ha, hl⟩, fun _ => rfl⟩
            · rw [if_neg (fun h => hl h.2.1)]
              by_cases hs : c.lb.selected_in_label = L
              · rw [if_pos ⟨hs, by rw [hs]; exact hr.2⟩]
                exact ⟨fun h => (by cases h), fun h => absurd h.2 hl⟩
              · rw [if_neg (fun h => hs h.1)]
                exact ⟨fun h => absurd (hpre.1 h).2 hs, fun h => absurd h.2 hl⟩
        · rw [if_neg ha]
          exact ⟨fun h => absurd (hpre.1 h).1 ha, fun h => absurd h.1 ha⟩
      · intro L hn
        rw [ilm_installed_append, ilm_remove_static_events]
        by_cases ha : zebra_route_node_active K c.info = true
        · rw [if_pos ha]
          by_cases h3 : L = MPLS_IMPLICIT_NULL
          · subst h3
            rw [ilm_installed_implicit_null]
            split
            · rename_i h; exact absurd h.2.1 h.2.2
            · split <;> rfl
          · have hnh : ∀ x, x ≠ NO_LABEL → x = L → ¬ label_held c.lb x := by
              intro x hx hxl hh
              exact hn ⟨⟨by rw [← hxl]; exact hx, h3⟩, Or.inl (by rw [← hxl]; exact hh)⟩
            by_cases hl : c.lb.ldp_in_label ≠ NO_LABEL ∧ c.lb.ldp_in_label = L
            · exact absurd (Or.inr (Or.inl rfl)) (hnh _ hl.1 hl.2)
            · rw [if_neg (fun h => hl ⟨h.1, h.2.1⟩)]
              by_cases hs : c.lb.selected_in_label = L
              · exact absurd (Or.inr (Or.inr rfl)) (hnh _ hsel hs)
              · rw [if_neg (fun h => hs h.1)]
        · rw [if_neg ha]

theorem ilm_set_ldp_events (c : mpls_rn) (label L : Nat) (b : Bool) :
    ilm_run L (set_ldp_events c label) b =
      if label ≠ NO_LABEL ∧ label = L ∧ label ≠ MPLS_IMPLICIT_NULL then true
      else if c.lb.selected_in_label ≠ NO_LABEL ∧ c.lb.selected_in_label = L
          ∧ c.lb.selected_in_label ≠ MPLS_IMPLICIT_NULL then false
      else b := by
  unfold set_ldp_events
  by_cases hs : c.lb.selected_in_label = NO_LABEL
  · by_cases hl : label = NO_LABEL
    · simp [hs, hl, ilm_run_nil]
    · simp [hs, hl, ilm_run_append, ilm_run_cons, ilm_run_nil, ilm_step_register,
        ilm_run_xc_register_if]
  · by_cases hl : label = NO_LABEL
    · simp [hs, hl, ilm_run_append, ilm_run_cons, ilm_run_nil, ilm_step_unregister,
        ilm_run_xc_unregister_if]
    · simp only [ne_eq, hs, hl, not_false_eq_true, if_true, true_and, ilm_run_append,
        ilm_run_cons, ilm_run_nil, ilm_step_register, ilm_step_unregister,
        ilm_run_xc_register_if, ilm_run_xc_unregister_if]

theorem set_ldp_input_label_rn_ilm (K : zebra_consts) (c : mpls_rn) (label : Nat) :
    ilm_effect K c.info c.lb c.log (set_ldp_input_label_rn K c label).info
      (set_ldp_input_label_rn K c label).lb (set_ldp_input_label_rn K c label).log := by
  rw [set_ldp_input_label_rn_eq]
  have hsame : ilm_effect K c.info c.lb c.log c.info { c.lb with ldp_in_label := label }
      c.log :=
    ⟨fun L _ _ h => h, fun L _ => rfl⟩
  by_cases h1 : c.lb.static_in_label ≠ NO_LABEL
  · rw [if_pos h1]; exact hsame
  · rw [if_neg h1]
    by_cases h2 : label ≠ NO_LABEL ∧ label = c.lb.selected_in_label
    · rw [if_pos h2]; exact hsame
    · rw [if_neg h2]
      by_cases ha : zebra_route_node_active K c.info = true
      · rw [if_pos ha]
        dsimp only
        constructor
        · intro L hr _ hpre
          rw [ilm_installed_append, ilm_set_ldp_events]
          unfold node_on at hpre ⊢
          dsimp only
          by_cases hlab : label = L
          · rw [if_pos ⟨by rw [hlab]; exact hr.1, hlab, by rw [hlab]; exact hr.2⟩]
            exact ⟨fun _ => ⟨ha, hlab⟩, fun _ => rfl⟩
          · rw [if_neg (fun h => hlab h.2.1)]
            by_cases hs : c.lb.selected_in_label = L
            · rw [if_pos ⟨by rw [hs]; exact hr.1, hs, by rw [hs]; exact hr.2⟩]
              exact ⟨fun h => (by cases h), fun h => absurd h.2 hlab⟩
            · rw [if_neg (fun h => hs h.2.1)]
              exact ⟨fun h => absurd (hpre.1 h).2 hs, fun h => absurd h.2 hlab⟩
        · intro L hn
          rw [ilm_installed_append, ilm_set_ldp_events]
          by_cases h3 : L = MPLS_IMPLICIT_NULL
          · subst h3
            rw [ilm_installed_implicit_null]
            split
            · rename_i h; exact absurd h.2.1 h.2.2
            · split <;> rfl
          · by_cases hlab : label ≠ NO_LABEL ∧ label = L
            · exact absurd ⟨⟨by rw [← hlab.2]; exact hlab.1, h3⟩,
                Or.inr (Or.inr (Or.inl hlab.2))⟩ hn
            · rw [if_neg (fun h => hlab ⟨h.1, h.2.1⟩)]
              by_cases hs : c.lb.selected_in_label ≠ NO_LABEL ∧ c.lb.selected_in_label = L
              · exact absurd ⟨⟨by rw [← hs.2]; exact hs.1, h3⟩,
                  Or.inl (Or.inr (Or.inr hs.2))⟩ hn
              · rw [if_neg (fun h => hs ⟨h.1, h.2.1⟩)]
      · rw [if_neg ha]; exact hsame

/-! ## The effect of the hooks on the ILM table -/

theorem route_install_hook_rn_ilm (K : zebra_consts) (drv : driver) (c : mpls_rn) (L : Nat) :
    ilm_installed (route_install_hook_rn K drv c).log L =
      if c.lb.selected_in_label ≠ NO_LABEL ∧ c.lb.selected_in_label = L
          ∧ c.lb.selected_in_label ≠ MPLS_IMPLICIT_NULL then true
      else ilm_installed c.log L := by
  unfold route_install_hook_rn
  dsimp only
  rw [select_lsp_ilm]
  by_cases hs : c.lb.selected_in_label = NO_LABEL
  · rw [if_neg (fun h => h hs), if_neg (fun h => h.1 hs)]
  · rw [if_pos hs]
    show ilm_installed (c.log ++ [event.ilm_register c.lb.selected_in_label]) L = _
    rw [ilm_installed_append, ilm_run_cons, ilm_run_nil, ilm_step_register]
    simp only [ne_eq, hs, not_false_eq_true, true_and]

theorem route_uninstall_hook_rn_ilm (K : zebra_consts) (c : mpls_rn) (L : Nat) :
    ilm_installed (route_uninstall_hook_rn K c).log L =
      if c.lb.selected_in_label ≠ NO_LABEL ∧ c.lb.selected_in_label = L
          ∧ c.lb.selected_in_label ≠ MPLS_IMPLICIT_NULL then false
      else ilm_installed c.log L := by
  unfold route_uninstall_hook_rn
  have hr : ∀ L, ilm_installed (match c.lb.selected_lsp with
      | some sel => mpls_prefix_remove_lsp K c sel
      | none => c).log L = ilm_installed c.log L := by
    intro L
    cases c.lb.selected_lsp with
    | none => rfl
    | some sel => exact remove_lsp_ilm K c sel L
  have hlb : (match c.lb.selected_lsp with
      | some sel => mpls_prefix_remove_lsp K c sel
      | none => c).lb.selected_in_label = c.lb.selected_in_label := by
    cases c.lb.selected_lsp with
    | none => rfl
    | some sel => exact (remove_lsp_same K c sel).1.2.2
  generalize (match c.lb.selected_lsp with
      | some sel => mpls_prefix_remove_lsp K c sel
      | none => c) = c1 at hr hlb ⊢
  dsimp only
  rw [hlb]
  by_cases hs : c.lb.selected_in_label = NO_LABEL
  · rw [if_neg (fun h => h hs), if_neg (fun h => h.1 hs)]
    exact hr L
  · rw [if_pos hs]
    show ilm_installed (c1.log ++ [event.ilm_unregister c.lb.selected_in_label]) L = _
    rw [ilm_installed_append, ilm_run_cons, ilm_run_nil, ilm_step_unregister, hr L]
    simp only [ne_eq, hs, not_false_eq_true, true_and]

/-- The install hook, run after the RIB gave an active route to the node. -/
theorem install_hook_ilm_effect (K : zebra_consts) (drv : driver) (c : mpls_rn)
    (info : List rib) (hact : zebra_route_node_active K c.info = true) :
    ilm_effect K info c.lb c.log c.info (route_install_hook_rn K drv c).lb
      (route_install_hook_rn K drv c).log := by
  have hlb := (route_install_hook_rn_frame K drv c).2.2.1
  constructor
  · intro L hr _ hpre
    rw [route_install_hook_rn_ilm]
    unfold node_on at hpre ⊢
    rw [hlb.2.2]
    by_cases hs : c.lb.selected_in_label = L
    · rw [if_pos ⟨by rw [hs]; exact hr.1, hs, by rw [hs]; exact hr.2⟩]
      exact ⟨fun _ => ⟨hact, hs⟩, fun _ => rfl⟩
    · rw [if_neg (fun h => hs h.2.1)]
      exact ⟨fun h => absurd (hpre.1 h).2 hs, fun h => absurd h.2 hs⟩
  · intro L hn
    rw [route_install_hook_rn_ilm]
    by_cases h3 : L = MPLS_IMPLICIT_NULL
    · subst h3
      rw [ilm_installed_implicit_null]
      split
      · rename_i h; exact absurd h.2.1 h.2.2
      · rfl
    · by_cases hs : c.lb.selected_in_label ≠ NO_LABEL ∧ c.lb.selected_in_label = L
      · exact absurd ⟨⟨by rw [← hs.2]; exact hs.1, h3⟩, Or.inl (Or.inr (Or.inr hs.2))⟩ hn
      · rw [if_neg (fun h => hs ⟨h.1, h.2.1⟩)]

/-- The uninstall hook, run right before or right after the RIB took the
active route of the node away. -/
theorem uninstall_hook_ilm_effect (K : zebra_consts) (c : mpls_rn) (info info' : List rib)
    (hina : zebra_route_node_active K info' = false) :
    ilm_effect K info c.lb c.log info' (route_uninstall_hook_rn K c).lb
      (route_uninstall_hook_rn K c).log := by
  have hlb := (route_uninstall_hook_rn_frame K c).2.2.1
  constructor
  · intro L hr _ hpre
    rw [route_uninstall_hook_rn_ilm]
    unfold node_on at hpre ⊢
    by_cases hs : c.lb.selected_in_label = L
    · rw [if_pos ⟨by rw [hs]; exact hr.1, hs, by rw [hs]; exact hr.2⟩]
      exact ⟨fun h => (by cases h), fun h => (by rw [hina] at h; cases h.1)⟩
    · rw [if_neg (fun h => hs h.2.1)]
      exact ⟨fun h => absurd (hpre.1 h).2 hs, fun h => (by rw [hina] at h; cases h.1)⟩
  · intro L hn
    rw [route_uninstall_hook_rn_ilm]
    by_cases h3 : L = MPLS_IMPLICIT_NULL
    · subst h3
      rw [ilm_installed_implicit_null]
      split <;> rfl
    · by_cases hs : c.lb.selected_in_label ≠ NO_LABEL ∧ c.lb.selected_in_label = L
      · exact absurd ⟨⟨by rw [← hs.2]; exact hs.1, h3⟩, Or.inl (Or.inr (Or.inr hs.2))⟩ hn
      · rw [if_neg (fun h => hs ⟨h.1, h.2.1⟩)]

/-! ## The ILM table along disciplined runs -/

theorem bindings_congr {s s' : zebra} {q : Prefix} (h : s'.table q = s.table q) :
    bindings s' q = bindings s q := by
  unfold bindings; rw [h]

/-- A step that changes nothing but the node of `p`, the allocation counter
and the log keeps the invariant, when the node takes no label another
prefix or a cross-connect holds and its effect on the ILM table is the one
`ilm_effect` asks for. -/
theorem ilm_inv_step (K : zebra_consts) (s s' : zebra) (p : Prefix)
    (hinv : ilm_inv K s)
    (hother : ∀ q, q ≠ p → s'.table q = s.table q)
    (hxc : s'.mpls_crossconnect_list = s.mpls_crossconnect_list)
    (halloc : s.alloc ≤ s'.alloc)
    (hstat : in_static_ok (bindings s' p))
    (hheld : ∀ L, real_label L → label_held (bindings s' p) L →
      label_held (bindings s p) L ∨
        ((∀ q, q ≠ p → ¬ label_held (bindings s q) L) ∧
         ∀ mc ∈ s.mpls_crossconnect_list, mc.in_label ≠ L))
    (heff : ilm_effect K (s.table p).info (bindings s p) s.log (s'.table p).info
      (bindings s' p) s'.log) :
    ilm_inv K s' := by
  obtain ⟨hap, hwf, hso, hilm⟩ := hinv
  have hb : ∀ q, q ≠ p → bindings s' q = bindings s q := fun q hq => bindings_congr (hother q hq)
  have key : ∀ L, real_label L → label_held (bindings s p) L ∨ label_held (bindings s' p) L →
      (∀ q, q ≠ p → ¬ label_held (bindings s q) L) ∧
      ∀ mc ∈ s.mpls_crossconnect_list, mc.in_label ≠ L := by
    intro L hr h
    have hbefore : label_held (bindings s p) L →
        (∀ q, q ≠ p → ¬ label_held (bindings s q) L) ∧
        ∀ mc ∈ s.mpls_crossconnect_list, mc.in_label ≠ L :=
      fun h1 => ⟨fun q hq => hap.1 p q L (Ne.symm hq) hr h1, hap.2 p L hr h1⟩
    rcases h with h | h
    · exact hbefore h
    · rcases hheld L hr h with h1 | h1
      · exact hbefore h1
      · exact h1
  refine ⟨⟨?_, ?_⟩, ?_, ?_, ?_⟩
  · intro a b L hab hr ha hbL
    by_cases hap' : a = p
    · subst hap'
      rw [hb b (Ne.symm hab)] at hbL
      exact (key L hr (Or.inr ha)).1 b (Ne.symm hab) hbL
    · rw [hb a hap'] at ha
      by_cases hbp : b = p
      · subst hbp
        exact (key L hr (Or.inr hbL)).1 a hap' ha
      · rw [hb b hbp] at hbL
        exact hap.1 a b L hab hr ha hbL
  · intro a L hr ha mc hmc
    rw [hxc] at hmc
    by_cases hap' : a = p
    · subst hap'
      exact (key L hr (Or.inr ha)).2 mc hmc
    · rw [hb a hap'] at ha
      exact hap.2 a L hr ha mc hmc
  · refine ⟨by rw [hxc]; exact hwf.1, by rw [hxc]; exact hwf.2.1, ?_⟩
    intro mc hmc
    rw [hxc] at hmc
    exact Nat.lt_of_lt_of_le (hwf.2.2 mc hmc) halloc
  · intro q
    by_cases hq : q = p
    · subst hq; exact hstat
    · rw [hb q hq]; exact hso q
  · intro L
    by_cases ht : real_label L ∧ (label_held (bindings s p) L ∨ label_held (bindings s' p) L)
    · obtain ⟨hr, hh⟩ := ht
      have hk := key L hr hh
      have hpre : ilm_installed s.log L = true ↔ node_on K (s.table p).info (bindings s p) L := by
        rw [hilm L]
        constructor
        · rintro (⟨_, q, hq⟩ | ⟨_, mc, hmc, hl⟩)
          · by_cases hqp : q = p
            · subst hqp; exact hq
            · exact absurd (Or.inr (Or.inr hq.2)) (hk.1 q hqp)
          · exact absurd hl (hk.2 mc hmc)
        · intro h
          exact Or.inl ⟨hr, p, h⟩
      rw [heff.1 L hr hh hpre]
      constructor
      · intro h
        exact Or.inl ⟨hr, p, h⟩
      · rintro (⟨_, q, hq⟩ | ⟨_, mc, hmc, hl⟩)
        · by_cases hqp : q = p
          · subst hqp; exact hq
          · rw [hother q hqp, hb q hqp] at hq
            exact absurd (Or.inr (Or.inr hq.2)) (hk.1 q hqp)
        · rw [hxc] at hmc
          exact absurd hl (hk.2 mc hmc)
    · rw [heff.2 L ht, hilm L]
      unfold ilm_programmed
      rw [hxc]
      have hl : (real_label L ∧ ∃ q, node_on K (s.table q).info (bindings s q) L) ↔
          (real_label L ∧ ∃ q, node_on K (s'.table q).info (bindings s' q) L) := by
        constructor
        · rintro ⟨hr, q, hq⟩
          by_cases hqp : q = p
          · subst hqp
            exact absurd ⟨hr, Or.inl (Or.inr (Or.inr hq.2))⟩ ht
          · exact ⟨hr, q, by rw [hother q hqp, hb q hqp]; exact hq⟩
        · rintro ⟨hr, q, hq⟩
          by_cases hqp : q = p
          · subst hqp
            exact absurd ⟨hr, Or.inr (Or.inr (Or.inr hq.2))⟩ ht
          · exact ⟨hr, q, by rw [hother q hqp, hb q hqp] at hq; exact hq⟩
      rw [hl]

theorem in_static_ok_step (K : zebra_consts) (drv : driver) (s : zebra) (o : op)
    (h : ∀ p, in_static_ok (bindings s p)) : ∀ p, in_static_ok (bindings (step K drv s o) p) := by
  have hs : ∀ p lb, (s.table p).mpls = some lb → in_static_ok lb := by
    intro p lb hm
    rw [← bindings_of_some hm]
    exact h p
  exact bindings_cases in_static_ok in_static_ok_new _ (step_in_static_ok K drv s o hs)

/-- The lifting of `ilm_inv_step` to a function run on the node of `p`. -/
theorem put_rn_ilm_inv (K : zebra_consts) (s : zebra) (p : Prefix) (c' : mpls_rn)
    (hinv : ilm_inv K s) (halloc : s.alloc ≤ c'.alloc) (hstat : in_static_ok c'.lb)
    (hheld : ∀ L, real_label L → label_held c'.lb L →
      label_held (bindings s p) L ∨
        ((∀ q, q ≠ p → ¬ label_held (bindings s q) L) ∧
         ∀ mc ∈ s.mpls_crossconnect_list, mc.in_label ≠ L))
    (heff : ilm_effect K (s.table p).info (bindings s p) s.log (s.table p).info c'.lb c'.log) :
    ilm_inv K (put_rn s p c') := by
  refine ilm_inv_step K s (put_rn s p c') p hinv ?_ rfl halloc ?_ ?_ ?_
  · intro q hq
    rw [put_rn_table, if_neg hq]
  · rw [put_rn_bindings]; exact hstat
  · rw [put_rn_bindings]; exact hheld
  · rw [put_rn_bindings, put_rn_log, put_rn_table, if_pos rfl]
    exact heff

/-- A function that makes no ILM call and leaves the in-labels alone keeps
the invariant. -/
theorem put_rn_ilm_inv_same (K : zebra_consts) (s : zebra) (p : Prefix) (c' : mpls_rn)
    (hinv : ilm_inv K s) (halloc : s.alloc ≤ c'.alloc)
    (hl : same_in_labels (bindings s p) c'.lb)
    (hi : ∀ L, ilm_installed c'.log L = ilm_installed s.log L) :
    ilm_inv K (put_rn s p c') := by
  refine put_rn_ilm_inv K s p c' hinv halloc (in_static_ok_same hl (hinv.2.2.1 p)) ?_
    (ilm_effect_of_same K _ _ _ _ _ hl hi)
  intro L _ h
  left
  unfold label_held at h ⊢
  rw [hl.1, hl.2.1, hl.2.2] at h
  exact h
theorem set_static_ilm_inv (K : zebra_consts) (s : zebra) (p : Prefix) (label : Nat)
    (hinv : ilm_inv K s) (hl : label ≠ NO_LABEL) (hfree : label_free s p label) :
    ilm_inv K (mpls_prefix_set_static_input_label K s p label) := by
  rw [set_static_input_label_put]
  have hf := set_static_input_label_rn_frame K (rn_of s p) label
  have he := set_static_input_label_rn_ilm K (rn_of s p) label hl
  rw [hf.2.1] at he
  refine put_rn_ilm_inv K s p _ hinv (Nat.le_of_eq hf.2.2.2.1.symm)
    (set_static_rn_in_static_ok K (rn_of s p) label (hinv.2.2.1 p)) ?_ he
  intro L hr h
  rw [set_static_input_label_rn_eq] at h
  split at h
  · exact Or.inl h
  · rcases h with h | h | h
    · exact Or.inr (by rw [← show label = L from h]; exact hfree (by rw [show label = L from h]; exact hr))
    · exact Or.inl (Or.inr (Or.inl h))
    · exact Or.inr (by rw [← show label = L from h]; exact hfree (by rw [show label = L from h]; exact hr))

theorem remove_static_ilm_inv (K : zebra_consts) (s : zebra) (p : Prefix) (label : Nat)
    (hinv : ilm_inv K s) :
    ilm_inv K (mpls_prefix_remove_static_input_label K s p label) := by
  rw [remove_static_input_label_put]
  have hf := remove_static_input_label_rn_frame K (rn_of s p) label
  have he := remove_static_input_label_rn_ilm K (rn_of s p) label (hinv.2.2.1 p)
  rw [hf.2.1] at he
  refine put_rn_ilm_inv K s p _ hinv (Nat.le_of_eq hf.2.2.2.1.symm)
    (remove_static_rn_in_static_ok K (rn_of s p) label (hinv.2.2.1 p)) ?_ he
  intro L hr h
  left
  rw [remove_static_input_label_rn_eq] at h
  split at h
  · exact h
  · split at h
    · exact h
    · rcases h with h | h | h
      · exact absurd (show NO_LABEL = L from h).symm hr.1
      · exact Or.inr (Or.inl h)
      · have h' : remove_static_selected K (rn_of s p) = L := h
        unfold remove_static_selected at h'
        split at h'
        · exact absurd h'.symm hr.1
        · split at h'
          · exact Or.inr (Or.inl h')
          · exact Or.inr (Or.inr h')

theorem set_ldp_ilm_inv (K : zebra_consts) (s : zebra) (p : Prefix) (label : Nat)
    (hinv : ilm_inv K s) (hfree : label_free s p label) :
    ilm_inv K (mpls_prefix_set_ldp_input_label K s p label) := by
  rw [set_ldp_input_label_put]
  have hf := set_ldp_input_label_rn_frame K (rn_of s p) label
  have he := set_ldp_input_label_rn_ilm K (rn_of s p) label
  rw [hf.2.1] at he
  refine put_rn_ilm_inv K s p _ hinv (Nat.le_of_eq hf.2.2.2.1.symm)
    (set_ldp_rn_in_static_ok K (rn_of s p) label (hinv.2.2.1 p)) ?_ he
  intro L hr h
  have hnew : label = L → label_held (bindings s p) L ∨
      ((∀ q, q ≠ p → ¬ label_held (bindings s q) L) ∧
       ∀ mc ∈ s.mpls_crossconnect_list, mc.in_label ≠ L) := by
    intro hlab
    exact Or.inr (by rw [← hlab]; exact hfree (by rw [hlab]; exact hr))
  rw [set_ldp_input_label_rn_eq] at h
  split at h
  · rcases h with h | h | h
    · exact Or.inl (Or.inl h)
    · exact hnew h
    · exact Or.inl (Or.inr (Or.inr h))
  · split at h
    · rcases h with h | h | h
      · exact Or.inl (Or.inl h)
      · exact hnew h
      · exact Or.inl (Or.inr (Or.inr h))
    · split at h
      · rcases h with h | h | h
        · exact Or.inl (Or.inl h)
        · exact hnew h
        · exact hnew h
      · rcases h with h | h | h
        · exact Or.inl (Or.inl h)
        · exact hnew h
        · exact Or.inl (Or.inr (Or.inr h))
theorem mutator_ilm_inv (K : zebra_consts) (drv : driver) (s : zebra) (o : op)
    (hinv : ilm_inv K s) (hm : o.is_mutator = true) (hg : o.label_guard s) :
    ilm_inv K (step K drv s o) := by
  cases o with
  | set_static_input_label p label => exact set_static_ilm_inv K s p label hinv hg.1 hg.2
  | remove_static_input_label p label => exact remove_static_ilm_inv K s p label hinv
  | set_ldp_input_label p label => exact set_ldp_ilm_inv K s p label hinv hg
  | add_static_lsp p nexthop label =>
    show ilm_inv K (mpls_prefix_add_static_lsp K drv s p nexthop label)
    rw [add_static_lsp_put]
    have hf := add_static_lsp_rn_frame K drv (rn_of s p) nexthop label
    exact put_rn_ilm_inv_same K s p _ hinv hf.1.2.2.2.1 hf.2.1
      (add_static_lsp_rn_ilm K drv (rn_of s p) nexthop label)
  | remove_static_lsp p nexthop =>
    show ilm_inv K (mpls_prefix_remove_static_lsp K drv s p nexthop)
    rw [remove_static_lsp_put]
    have hf := remove_static_lsp_rn_frame K drv (rn_of s p) nexthop
    exact put_rn_ilm_inv_same K s p _ hinv hf.1.2.2.2.1 hf.2.2.1
      (remove_static_lsp_rn_ilm K drv (rn_of s p) nexthop)
  | set_ldp_lsp p nexthop label =>
    show ilm_inv K (mpls_prefix_set_ldp_lsp K drv s p nexthop label)
    rw [set_ldp_lsp_put]
    have hf := set_ldp_lsp_rn_frame K drv (rn_of s p) nexthop label
    exact put_rn_ilm_inv_same K s p _ hinv hf.1.2.2.2.1 hf.2.1
      (set_ldp_lsp_rn_ilm K drv (rn_of s p) nexthop label)
  | remove_ldp_lsp p nexthop label =>
    show ilm_inv K (mpls_prefix_remove_ldp_lsp K drv s p nexthop label)
    rw [remove_ldp_lsp_put]
    have hf := remove_ldp_lsp_rn_frame K drv (rn_of s p) nexthop label
    exact put_rn_ilm_inv_same K s p _ hinv hf.1.2.2.2.1 hf.2.1
      (remove_ldp_lsp_rn_ilm K drv (rn_of s p) nexthop label)
  | route_install_hook p => cases hm
  | route_uninstall_hook p => cases hm
  | rib_update p info => cases hm

/-! ### The RIB hooks -/

theorem route_install_ilm_inv (K : zebra_consts) (drv : driver) (s : zebra) (p : Prefix)
    (info : List rib) (hinv : ilm_inv K s) (hact : zebra_route_node_active K info = true) :
    ilm_inv K (mpls_route_install_hook K drv (rib_update s p info) p) := by
  have hother : ∀ q, q ≠ p →
      (mpls_route_install_hook K drv (rib_update s p info) p).table q = s.table q := by
    intro q hq
    unfold mpls_route_install_hook
    rw [with_rn_hook]
    split
    · rw [rib_update_table, if_neg hq]
    · rw [put_rn_table, if_neg hq, rib_update_table, if_neg hq]
  have hinfo : ((mpls_route_install_hook K drv (rib_update s p info) p).table p).info = info := by
    unfold mpls_route_install_hook
    rw [with_rn_hook]
    split
    · rw [rib_update_table, if_pos rfl]
    · rw [put_rn_table, if_pos rfl, rib_update_table, if_pos rfl]
  cases hm : (s.table p).mpls with
  | none =>
    have hs : mpls_route_install_hook K drv (rib_update s p info) p = rib_update s p info := by
      unfold mpls_route_install_hook
      rw [with_rn_hook, rib_update_mpls, hm]
    have hb : bindings (rib_update s p info) p = bindings s p := by
      unfold bindings; rw [rib_update_mpls]
    have hbn : bindings s p = label_bindings_new := by unfold bindings; rw [hm]; rfl
    rw [hs] at hother hinfo ⊢
    refine ilm_inv_step K s (rib_update s p info) p hinv hother rfl (le_refl _)
      (by rw [hb]; exact hinv.2.2.1 p) (fun L _ h => Or.inl (by rw [hb] at h; exact h)) ?_
    rw [hb, hbn]
    constructor
    · intro L hr hh _
      rcases hh with (h | h | h) | (h | h | h) <;> exact absurd h.symm hr.1
    · intro L _; rfl
  | some lb =>
    have hb : bindings s p = lb := bindings_of_some hm
    have hm2 : ((rib_update s p info).table p).mpls = some lb := by rw [rib_update_mpls, hm]
    have hs : mpls_route_install_hook K drv (rib_update s p info) p =
        put_rn (rib_update s p info) p
          (route_install_hook_rn K drv (rn_of (rib_update s p info) p)) := by
      unfold mpls_route_install_hook
      rw [with_rn_hook, hm2]
    have hf := route_install_hook_rn_frame K drv (rn_of (rib_update s p info) p)
    have he := install_hook_ilm_effect K drv (rn_of (rib_update s p info) p) (s.table p).info
      (by rw [rn_of_rib_update]; exact hact)
    have hlb : (rn_of (rib_update s p info) p).lb = lb := by
      rw [rn_of_rib_update]; exact hb
    rw [hlb] at hf he
    rw [hs] at hother hinfo ⊢
    refine ilm_inv_step K s _ p hinv hother rfl hf.1.2.2.2.1 ?_ ?_ ?_
    · rw [put_rn_bindings]
      exact in_static_ok_same hf.2.2.1 (by rw [← hb]; exact hinv.2.2.1 p)
    · intro L _ h
      left
      rw [put_rn_bindings] at h
      rw [hb]
      unfold label_held at h ⊢
      rw [hf.2.2.1.1, hf.2.2.1.2.1, hf.2.2.1.2.2] at h
      exact h
    · rw [put_rn_bindings, put_rn_log, hinfo, hb]
      have hinfo2 : (rn_of (rib_update s p info) p).info = info := by rw [rn_of_rib_update]
      rw [hinfo2] at he
      exact he
theorem ilm_effect_new (K : zebra_consts) (info info' : List rib) (log : List event) :
    ilm_effect K info label_bindings_new log info' label_bindings_new log := by
  constructor
  · intro L hr hh _
    rcases hh with (h | h | h) | (h | h | h) <;> exact absurd h.symm hr.1
  · intro L _; rfl

theorem route_uninstall_ilm_inv (K : zebra_consts) (s : zebra) (p : Prefix) (info : List rib)
    (hinv : ilm_inv K s) (hina : zebra_route_node_active K info = false) :
    ilm_inv K (rib_update (mpls_route_uninstall_hook K s p) p info) := by
  cases hm : (s.table p).mpls with
  | none =>
    have hs : mpls_route_uninstall_hook K s p = s := by
      unfold mpls_route_uninstall_hook
      rw [with_rn_hook, hm]
    have hb : bindings (rib_update s p info) p = bindings s p := by
      unfold bindings; rw [rib_update_mpls]
    have hbn : bindings s p = label_bindings_new := by unfold bindings; rw [hm]; rfl
    rw [hs]
    refine ilm_inv_step K s (rib_update s p info) p hinv
      (fun q hq => by rw [rib_update_table, if_neg hq]) rfl (le_refl _)
      (by rw [hb]; exact hinv.2.2.1 p) (fun L _ h => Or.inl (by rw [hb] at h; exact h)) ?_
    rw [hb, hbn]
    exact ilm_effect_new K _ _ _
  | some lb =>
    have hb : bindings s p = lb := bindings_of_some hm
    have hs : mpls_route_uninstall_hook K s p =
        put_rn s p (route_uninstall_hook_rn K (rn_of s p)) := by
      unfold mpls_route_uninstall_hook
      rw [with_rn_hook, hm]
    have hf := route_uninstall_hook_rn_frame K (rn_of s p)
    have he := uninstall_hook_ilm_effect K (rn_of s p) (s.table p).info info hina
    have hlb : (rn_of s p).lb = lb := hb
    rw [hlb] at hf he
    rw [hs]
    have hb2 : bindings (rib_update (put_rn s p (route_uninstall_hook_rn K (rn_of s p))) p info) p
        = (route_uninstall_hook_rn K (rn_of s p)).lb := by
      unfold bindings
      rw [rib_update_mpls, put_rn_mpls]
      rfl
    refine ilm_inv_step K s _ p hinv ?_ rfl (Nat.le_of_eq hf.2.1.symm) ?_ ?_ ?_
    · intro q hq
      rw [rib_update_table, if_neg hq, put_rn_table, if_neg hq]
    · rw [hb2]
      exact in_static_ok_same hf.2.2.1 (by rw [← hb]; exact hinv.2.2.1 p)
    · intro L _ h
      left
      rw [hb2] at h
      rw [hb]
      unfold label_held at h ⊢
      rw [hf.2.2.1.1, hf.2.2.1.2.1, hf.2.2.1.2.2] at h
      exact h
    · rw [hb2, hb]
      have hi : ((rib_update (put_rn s p (route_uninstall_hook_rn K (rn_of s p))) p info).table
          p).info = info := by
        rw [rib_update_table, if_pos rfl]
      rw [hi]
      exact he

theorem route_withdrawn_ilm_inv (K : zebra_consts) (s : zebra) (p : Prefix) (info : List rib)
    (hinv : ilm_inv K s) (hina : zebra_route_node_active K info = false) :
    ilm_inv K (mpls_route_uninstall_hook K (rib_update s p info) p) := by
  cases hm : (s.table p).mpls with
  | none =>
    have hs : mpls_route_uninstall_hook K (rib_update s p info) p = rib_update s p info := by
      unfold mpls_route_uninstall_hook
      rw [with_rn_hook, rib_update_mpls, hm]
    have hb : bindings (rib_update s p info) p = bindings s p := by
      unfold bindings; rw [rib_update_mpls]
    have hbn : bindings s p = label_bindings_new := by unfold bindings; rw [hm]; rfl
    rw [hs]
    refine ilm_inv_step K s (rib_update s p info) p hinv
      (fun q hq => by rw [rib_update_table, if_neg hq]) rfl (le_refl _)
      (by rw [hb]; exact hinv.2.2.1 p) (fun L _ h => Or.inl (by rw [hb] at h; exact h)) ?_
    rw [hb, hbn]
    exact ilm_effect_new K _ _ _
  | some lb =>
    have hb : bindings s p = lb := bindings_of_some hm
    have hm2 : ((rib_update s p info).table p).mpls = some lb := by rw [rib_update_mpls, hm]
    have hs : mpls_route_uninstall_hook K (rib_update s p info) p =
        put_rn (rib_update s p info) p
          (route_uninstall_hook_rn K (rn_of (rib_update s p info) p)) := by
      unfold mpls_route_uninstall_hook
      rw [with_rn_hook, hm2]
    have hf := route_uninstall_hook_rn_frame K (rn_of (rib_update s p info) p)
    have he := uninstall_hook_ilm_effect K (rn_of (rib_update s p info) p) (s.table p).info info
      hina
    have hlb : (rn_of (rib_update s p info) p).lb = lb := by
      rw [rn_of_rib_update]; exact hb
    rw [hlb] at hf he
    rw [hs]
    refine ilm_inv_step K s _ p hinv ?_ rfl (Nat.le_of_eq hf.2.1.symm) ?_ ?_ ?_
    · intro q hq
      rw [put_rn_table, if_neg hq, rib_update_table, if_neg hq]
    · rw [put_rn_bindings]
      exact in_static_ok_same hf.2.2.1 (by rw [← hb]; exact hinv.2.2.1 p)
    · intro L _ h
      left
      rw [put_rn_bindings] at h
      rw [hb]
      unfold label_held at h ⊢
      rw [hf.2.2.1.1, hf.2.2.1.2.1, hf.2.2.1.2.2] at h
      exact h
    · rw [put_rn_bindings, put_rn_log, hb]
      have hi : ((put_rn (rib_update s p info) p
          (route_uninstall_hook_rn K (rn_of (rib_update s p info) p))).table p).info = info := by
        rw [put_rn_table, if_pos rfl, rib_update_table, if_pos rfl]
      rw [hi]
      exact he

theorem crossconnect_remove_table (s : zebra) (L : Nat) :
    (mpls_static_crossconnect_remove s L).2.table = s.table := by
  unfold mpls_static_crossconnect_remove
  split <;> rfl

theorem crossconnect_add_table (drv : driver) (s s1 : zebra) (in_label : Nat)
    (ifp : Option Nat) (nexthop out_label : Nat)
    (hloop : crossconnect_add_loop in_label ifp nexthop out_label s.mpls_crossconnect_list s
      = (false, s1)) :
    (mpls_static_crossconnect_add drv s in_label ifp nexthop out_label).2.table = s1.table := by
  unfold mpls_static_crossconnect_add
  rw [hloop]
  dsimp only
  split
  · rfl
  · split
    · rfl
    · split <;> rfl

/-- The node part of `ilm_programmed` reads the route table only. -/
theorem node_part_congr (K : zebra_consts) (s s' : zebra) (L : Nat) (h : s'.table = s.table) :
    (real_label L ∧ ∃ p, node_on K (s'.table p).info (bindings s' p) L) ↔
    (real_label L ∧ ∃ p, node_on K (s.table p).info (bindings s p) L) := by
  have hb : ∀ p, bindings s' p = bindings s p := fun p => bindings_congr (by rw [h])
  constructor
  · rintro ⟨hr, p, hp⟩
    exact ⟨hr, p, by rw [h, hb p] at hp; exact hp⟩
  · rintro ⟨hr, p, hp⟩
    exact ⟨hr, p, by rw [h, hb p]; exact hp⟩

/-- The invariant after `mpls_static_crossconnect_remove`, with what the
table is left without. -/
theorem crossconnect_remove_ilm_inv (K : zebra_consts) (s : zebra) (L : Nat)
    (hinv : ilm_inv K s) :
    ilm_inv K (mpls_static_crossconnect_remove s L).2 := by
  cases hf : s.mpls_crossconnect_list.find? (fun x => x.in_label == L) with
  | none =>
    have hs : (mpls_static_crossconnect_remove s L).2 = s := by
      unfold mpls_static_crossconnect_remove; rw [hf]
    rw [hs]; exact hinv
  | some mc =>
    obtain ⟨hap, hwf, hso, hilm⟩ := hinv
    have hr := crossconnect_remove_found s L mc hf
    have ht := crossconnect_remove_table s L
    have hw := crossconnect_remove_wf s L hwf
    have hm : mc ∈ s.mpls_crossconnect_list := List.mem_of_find?_eq_some hf
    have hl : mc.in_label = L := by simpa using List.find?_some hf
    have he := listnode_delete_mc_erase s.mpls_crossconnect_list mc hwf.2.1 hm
    have hb : ∀ q, bindings (mpls_static_crossconnect_remove s L).2 q = bindings s q :=
      fun q => bindings_congr (by rw [ht])
    have hsub : ∀ x ∈ (mpls_static_crossconnect_remove s L).2.mpls_crossconnect_list,
        x ∈ s.mpls_crossconnect_list := by
      intro x hx
      rw [hr.2.2.1, he] at hx
      exact List.mem_of_mem_erase hx
    refine ⟨⟨?_, ?_⟩, hw.1, ?_, ?_⟩
    · intro a b L' hab hrl ha hbL
      rw [hb a] at ha
      rw [hb b] at hbL
      exact hap.1 a b L' hab hrl ha hbL
    · intro a L' hrl ha x hx
      rw [hb a] at ha
      exact hap.2 a L' hrl ha x (hsub x hx)
    · intro q
      rw [hb q]; exact hso q
    · intro L'
      rw [hr.2.1, ilm_installed_append]
      unfold ilm_programmed
      rw [node_part_congr K s _ L' ht]
      have hrun : ilm_run L' [event.xc_unregister L mc.lsp, event.ilm_unregister L,
          event.nhlfe_unregister mc.lsp] (ilm_installed s.log L') =
          if L = L' ∧ L ≠ MPLS_IMPLICIT_NULL then false else ilm_installed s.log L' := rfl
      rw [hrun]
      by_cases hLL : L = L'
      · subst hLL
        have hno : ¬ ∃ x ∈ (mpls_static_crossconnect_remove s L).2.mpls_crossconnect_list,
            x.in_label = L := by
          rintro ⟨x, hx, hxl⟩
          exact hw.2.2 x hx hxl
        by_cases h3 : L = MPLS_IMPLICIT_NULL
        · rw [if_neg (fun h => h.2 h3), h3, ilm_installed_implicit_null]
          constructor
          · intro h; cases h
          · rintro (⟨hrl, _⟩ | ⟨hne, _⟩)
            · exact absurd rfl hrl.2
            · exact absurd rfl hne
        · rw [if_pos ⟨rfl, h3⟩]
          constructor
          · intro h; cases h
          · rintro (⟨hrl, q, hq⟩ | ⟨_, hx⟩)
            · exact absurd hl (hap.2 q L hrl (Or.inr (Or.inr hq.2)) mc hm)
            · exact absurd hx hno
      · rw [if_neg (fun h => hLL h.1), hilm L']
        unfold ilm_programmed
        have hxc : (∃ x ∈ (mpls_static_crossconnect_remove s L).2.mpls_crossconnect_list,
            x.in_label = L') ↔ ∃ x ∈ s.mpls_crossconnect_list, x.in_label = L' := by
          constructor
          · rintro ⟨x, hx, hxl⟩
            exact ⟨x, hsub x hx, hxl⟩
          · rintro ⟨x, hx, hxl⟩
            refine ⟨x, ?_, hxl⟩
            rw [hr.2.2.1, he]
            refine (List.mem_erase_of_ne ?_).2 hx
            intro hxm
            apply hLL
            rw [← hl, ← hxm, hxl]
        rw [hxc]
/-- The invariant after the part of `mpls_static_crossconnect_add` that
follows its loop, when the three installs succeed. -/
theorem crossconnect_add_new_ilm_inv (K : zebra_consts) (drv : driver)
    (hdrv : ∀ log, 0 ≤ drv log) (s s1 : zebra) (in_label : Nat) (ifp : Option Nat)
    (nexthop out_label : Nat) (h1 : ilm_inv K s1)
    (hno : ∀ mc ∈ s1.mpls_crossconnect_list, mc.in_label ≠ in_label)
    (hg : real_label in_label → ∀ q, ¬ label_held (bindings s1 q) in_label)
    (hloop : crossconnect_add_loop in_label ifp nexthop out_label s.mpls_crossconnect_list s
      = (false, s1)) :
    ilm_inv K (mpls_static_crossconnect_add drv s in_label ifp nexthop out_label).2 := by
  obtain ⟨hap, hwf, hso, hilm⟩ := h1
  have hof := crossconnect_add_of_loop drv s s1 in_label ifp nexthop out_label hloop
  have hlist := hof.1
  have hlog := (hof.2.2.2.2 (not_lt.2 (hdrv _)) (not_lt.2 (hdrv _)) (not_lt.2 (hdrv _))).2
  have ht := crossconnect_add_table drv s s1 in_label ifp nexthop out_label hloop
  have hloop2 := crossconnect_add_loop_eq in_label ifp nexthop out_label
    s.mpls_crossconnect_list s
  have hb : ∀ q, bindings (mpls_static_crossconnect_add drv s in_label ifp nexthop out_label).2 q
      = bindings s1 q := fun q => bindings_congr (by rw [ht])
  have hmem : ∀ x, x ∈ (mpls_static_crossconnect_add drv s in_label ifp nexthop
      out_label).2.mpls_crossconnect_list ↔
      x ∈ s1.mpls_crossconnect_list ∨
        x = mpls_crossconnect_new s1.alloc in_label ifp nexthop out_label := by
    intro x
    rw [hlist, List.mem_append, List.mem_singleton]
  have hwf2 : xc_wf (mpls_static_crossconnect_add drv s in_label ifp nexthop out_label).2 := by
    have halloc := crossconnect_add_alloc drv s s1 in_label ifp nexthop out_label hloop
    unfold xc_wf
    rw [hlist, halloc]
    refine ⟨?_, ?_, ?_⟩
    · rw [List.map_append, List.nodup_append]
      refine ⟨hwf.1, by simp, ?_⟩
      intro a ha hb
      simp only [List.map_cons, List.map_nil, List.mem_singleton] at hb
      obtain ⟨mc, hmc, hmca⟩ := List.mem_map.1 ha
      apply hno mc hmc
      rw [hmca, hb]
      rfl
    · rw [List.map_append, List.nodup_append]
      refine ⟨hwf.2.1, by simp, ?_⟩
      intro a ha hb
      simp only [List.map_cons, List.map_nil, List.mem_singleton] at hb
      obtain ⟨mc, hmc, hmca⟩ := List.mem_map.1 ha
      have hlt := hwf.2.2 mc hmc
      rw [hmca, hb] at hlt
      exact Nat.lt_irrefl _ hlt
    · intro mc hmc
      rcases List.mem_append.1 hmc with hmc | hmc
      · exact Nat.lt_of_lt_of_le (hwf.2.2 mc hmc) (Nat.le_add_right _ _)
      · simp only [List.mem_singleton] at hmc
        rw [hmc]
        show s1.alloc < s1.alloc + 2
        omega
  refine ⟨⟨?_, ?_⟩, hwf2, ?_, ?_⟩
  · intro a b L' hab hrl ha hbL
    rw [hb a] at ha
    rw [hb b] at hbL
    exact hap.1 a b L' hab hrl ha hbL
  · intro a L' hrl ha x hx
    rw [hb a] at ha
    rcases (hmem x).1 hx with hx | hx
    · exact hap.2 a L' hrl ha x hx
    · rw [hx]
      intro hxl
      have hxl2 : in_label = L' := hxl
      subst hxl2
      exact hg hrl a ha
  · intro q
    rw [hb q]; exact hso q
  · intro L'
    rw [hlog, ilm_installed_append]
    unfold ilm_programmed
    rw [node_part_congr K s1 _ L' ht]
    have hrun : ilm_run L' [event.nhlfe_register
        (mpls_crossconnect_new s1.alloc in_label ifp nexthop out_label).lsp,
        event.ilm_register in_label,
        event.xc_register in_label
          (mpls_crossconnect_new s1.alloc in_label ifp nexthop out_label).lsp]
        (ilm_installed s1.log L') =
        if in_label = L' ∧ in_label ≠ MPLS_IMPLICIT_NULL then true
        else ilm_installed s1.log L' := rfl
    rw [hrun]
    by_cases hLL : in_label = L'
    · subst hLL
      by_cases h3 : in_label = MPLS_IMPLICIT_NULL
      · rw [if_neg (fun h => h.2 h3), h3, ilm_installed_implicit_null]
        constructor
        · intro h; cases h
        · rintro (⟨hrl, _⟩ | ⟨hne, _⟩)
          · exact absurd rfl hrl.2
          · exact absurd rfl hne
      · rw [if_pos ⟨rfl, h3⟩]
        constructor
        · intro _
          exact Or.inr ⟨h3, _, (hmem _).2 (Or.inr rfl), rfl⟩
        · intro _; rfl
    · rw [if_neg (fun h => hLL h.1), hilm L']
      unfold ilm_programmed
      have hxc : (∃ x ∈ (mpls_static_crossconnect_add drv s in_label ifp nexthop
          out_label).2.mpls_crossconnect_list, x.in_label = L') ↔
          ∃ x ∈ s1.mpls_crossconnect_list, x.in_label = L' := by
        constructor
        · rintro ⟨x, hx, hxl⟩
          rcases (hmem x).1 hx with hx | hx
          · exact ⟨x, hx, hxl⟩
          · rw [hx] at hxl
            exact absurd hxl hLL
        · rintro ⟨x, hx, hxl⟩
          exact ⟨x, (hmem x).2 (Or.inl hx), hxl⟩
      rw [hxc]

theorem crossconnect_add_ilm_inv (K : zebra_consts) (drv : driver)
    (hdrv : ∀ log, 0 ≤ drv log) (s : zebra) (in_label : Nat) (ifp : Option Nat)
    (nexthop out_label : Nat) (hinv : ilm_inv K s)
    (hg : real_label in_label → ∀ q, ¬ label_held (bindings s q) in_label) :
    ilm_inv K (mpls_static_crossconnect_add drv s in_label ifp nexthop out_label).2 := by
  have hloop := crossconnect_add_loop_eq in_label ifp nexthop out_label
    s.mpls_crossconnect_list s hinv.2.1.1
  cases hf : s.mpls_crossconnect_list.find? (fun mc => mc.in_label == in_label) with
  | none =>
    rw [hf] at hloop
    refine crossconnect_add_new_ilm_inv K drv hdrv s s in_label ifp nexthop out_label hinv ?_ hg
      hloop
    intro mc hmc
    simpa using List.find?_eq_none.1 hf mc hmc
  | some mc =>
    rw [hf] at hloop
    dsimp only at hloop
    by_cases hsame : crossconnect_same mc ifp nexthop out_label = true
    · rw [if_pos hsame] at hloop
      have hs : (mpls_static_crossconnect_add drv s in_label ifp nexthop out_label).2 = s := by
        unfold mpls_static_crossconnect_add
        rw [hloop]
      rw [hs]
      exact hinv
    · rw [if_neg hsame] at hloop
      have hr := crossconnect_remove_wf s in_label hinv.2.1
      have hri := crossconnect_remove_ilm_inv K s in_label hinv
      refine crossconnect_add_new_ilm_inv K drv hdrv s _ in_label ifp nexthop out_label hri
        hr.2.2 ?_ hloop
      intro hrl q
      have hbq : bindings (mpls_static_crossconnect_remove s in_label).2 q = bindings s q :=
        bindings_congr (by rw [crossconnect_remove_table])
      rw [hbq]
      exact hg hrl q

theorem xc_step_ilm_inv (K : zebra_consts) (drv : driver) (hdrv : ∀ log, 0 ≤ drv log)
    (s : zebra) (o : xc_op) (hinv : ilm_inv K s) (hg : o.label_guard s) :
    ilm_inv K (xc_step drv s o) := by
  cases o with
  | add in_label ifp nexthop out_label =>
    exact crossconnect_add_ilm_inv K drv hdrv s in_label ifp nexthop out_label hinv hg
  | remove in_label => exact crossconnect_remove_ilm_inv K s in_label hinv

theorem zebra_start_ilm_inv (K : zebra_consts) (cl : List zserv) :
    ilm_inv K (zebra_start cl) := by
  have hb : ∀ q, bindings (zebra_start cl) q = label_bindings_new := fun _ => rfl
  refine ⟨⟨?_, ?_⟩, ⟨List.nodup_nil, List.nodup_nil, ?_⟩, ?_, ?_⟩
  · intro a b L _ hr ha _
    rw [hb a] at ha
    rcases ha with h | h | h <;> exact hr.1 h.symm
  · intro a L hr ha
    rw [hb a] at ha
    rcases ha with h | h | h <;> exact absurd h.symm hr.1
  · intro mc hmc
    cases hmc
  · intro q
    rw [hb q]
    intro h
    exact absurd rfl h
  · intro L
    constructor
    · intro h; cases h
    · rintro (⟨hr, q, hq⟩ | ⟨_, mc, hmc, _⟩)
      · rw [hb q] at hq
        exact absurd hq.2.symm hr.1
      · cases hmc

theorem disciplined_ilm_inv (K : zebra_consts) (drv : driver) (hdrv : ∀ log, 0 ≤ drv log)
    {s : zebra} (h : disciplined K drv s) : ilm_inv K s := by
  induction h with
  | start cl => exact zebra_start_ilm_inv K cl
  | mutator s o _ hm hg ih => exact mutator_ilm_inv K drv s o ih hm hg
  | crossconnect s o _ hg ih => exact xc_step_ilm_inv K drv hdrv s o ih hg
  | route_install s p info _ hact ih => exact route_install_ilm_inv K drv s p info ih hact
  | route_uninstall s p info _ hina ih => exact route_uninstall_ilm_inv K s p info ih hina
  | route_withdrawn s p info _ hina ih => exact route_withdrawn_ilm_inv K s p info ih hina

/-! ## The ILM-programmed set -/

/-- C30 (as amended): with a driver whose calls all succeed, in every state
of a disciplined run (from start-up by prefix mutators, cross-connect add and
remove, and RIB changes with their hooks, where no label other than
`NO_LABEL` and Implicit Null is bound while another prefix or a cross-connect
holds it, and the static in-label set is not `NO_LABEL`), the ILM table of the
recording driver holds a label `L` exactly when some prefix has an active
route and `selected_in_label = L` with `L` neither `NO_LABEL` nor Implicit
Null, or `L` is the incoming label of a cross-connect entry and not Implicit
Null. -/
theorem C30_ilm_programmed_set (K : zebra_consts) (drv : driver) (s : zebra)
    (hdrv : ∀ log, 0 ≤ drv log) (h : disciplined K drv s) (L : Nat) :
    ilm_installed s.log L = true ↔ ilm_programmed K s L :=
  (disciplined_ilm_inv K drv hdrv h).2.2.2 L

theorem label_bindings_new_free (L : Nat) (hr : real_label L) :
    ¬ label_held label_bindings_new L := by
  rintro (h | h | h) <;> exact hr.1 h.symm

theorem ilm_demo_state_disciplined : disciplined quagga_consts null_driver ilm_demo_state :=
  disciplined.route_install _ demo_prefix (demo_route demo_nexthop)
    (disciplined.mutator _ (op.set_static_input_label demo_prefix 100)
      (disciplined.crossconnect _ (xc_op.add 200 demo_ifp demo_xc_nexthop 300)
        (disciplined.start demo_clients)
        (fun hr q => label_bindings_new_free 200 hr))
      rfl
      ⟨by decide, fun hr => ⟨fun _ _ => label_bindings_new_free 100 hr, by decide⟩⟩)
    (by decide)

/-- C30 (witness): after the cross-connect (200, if0, 192.0.2.2, 300) was
added, in-label 100 was bound to 10.0.0.0/8 and its route came up, a
disciplined run with the driver of `mpls_null.c`, the ILM table and the
programmed set agree on the labels 100 and 200. -/
theorem C30_ilm_programmed_set_witness :
    (∀ log, 0 ≤ null_driver log) ∧ disciplined quagga_consts null_driver ilm_demo_state ∧
    (ilm_installed ilm_demo_state.log 100 = true ↔
      ilm_programmed quagga_consts ilm_demo_state 100) ∧
    (ilm_installed ilm_demo_state.log 200 = true ↔
      ilm_programmed quagga_consts ilm_demo_state 200) :=
  ⟨fun _ => le_refl _, ilm_demo_state_disciplined,
    C30_ilm_programmed_set quagga_consts null_driver ilm_demo_state (fun _ => le_refl _)
      ilm_demo_state_disciplined 100,
    C30_ilm_programmed_set quagga_consts null_driver ilm_demo_state (fun _ => le_refl _)
      ilm_demo_state_disciplined 200⟩

/-- C30 (counterexample): after two routes came up, in-label 100 was bound to
both prefixes and the static in-label of the first was removed, the second
prefix has an active route and selected in-label 100, and the ILM table has
no entry for 100.  After a cross-connect with incoming label Implicit Null
was added, the label is the incoming label of a cross-connect entry and has
no ILM entry.  After the static in-label of a prefix with an active route was
set to `NO_LABEL`, the ILM table has an entry for `NO_LABEL`, which is not in
the set. -/
theorem C30_ilm_set_counterexample :
    (reachable quagga_consts null_driver shared_label_state ∧
      ilm_claimed quagga_consts shared_label_state 100 ∧
      ilm_installed shared_label_state.log 100 = false) ∧
    (ilm_claimed quagga_consts null_xc_state MPLS_IMPLICIT_NULL ∧
      ilm_installed null_xc_state.log MPLS_IMPLICIT_NULL = false) ∧
    (reachable quagga_consts null_driver no_label_state ∧
      ¬ ilm_claimed quagga_consts no_label_state NO_LABEL ∧
      ilm_installed no_label_state.log NO_LABEL = true) := by
  refine ⟨⟨reachable_by_run (reachable_by.start demo_clients) _, ?_, by decide⟩,
    ⟨?_, by decide⟩, ⟨reachable_by_run (reachable_by.start demo_clients) _, ?_, by decide⟩⟩
  · exact Or.inl ⟨⟨by decide, by decide⟩, demo_prefix2, by decide, by decide⟩
  · exact Or.inr ⟨mpls_crossconnect_new 1 MPLS_IMPLICIT_NULL demo_ifp demo_xc_nexthop 300,
      by decide, rfl⟩
  · rintro (⟨hr, _⟩ | ⟨mc, hmc, _⟩)
    · exact hr.1 rfl
    · have hl : no_label_state.mpls_crossconnect_list = [] := rfl
      rw [hl] at hmc
      cases hmc

/-! ## Label words of the command reader -/

theorem label_value_sprintf (ulong_max n : Nat) (hmax : 4294967295 ≤ ulong_max)
    (hn : n < 4294967296) : vty_label_value ulong_max (sprintf_u n) = n := by
  unfold vty_label_value
  rw [if_neg (sprintf_u_not_keyword n).1, if_neg (sprintf_u_not_keyword n).2,
    strtoul_sprintf_u ulong_max n (by omega)]
  exact Nat.mod_eq_of_lt hn

theorem label_value_str (ulong_max L : Nat) (hmax : 4294967295 ≤ ulong_max)
    (hL : L < 4294967296) : vty_label_value ulong_max (vty_label_str L false) = L := by
  by_cases h0 : L = 0
  · subst h0; rfl
  · by_cases h3 : L = 3
    · subst h3; rfl
    · have hstr : vty_label_str L false = sprintf_u L := by
        unfold vty_label_str
        rw [if_neg (by simpa [MPLS_IMPLICIT_NULL] using h3),
          if_neg (by simpa [MPLS_IPV4_EXPLICIT_NULL] using h0)]
      rw [hstr]
      exact label_value_sprintf ulong_max L hmax hL

theorem cmd_range_match_sprintf (ulong_max lo hi n : Nat) (hn : n ≤ ulong_max)
    (hlo : lo ≤ n) (hhi : n ≤ hi) : cmd_range_match ulong_max lo hi (sprintf_u n) = true := by
  have hall := sprintf_u_digits_all (n + 1) n [] (fun c hc => by simp at hc)
  have hne := sprintf_u_digits_ne_nil (n + 1) n [] (Nat.succ_pos _)
  have hv := strtoul_sprintf_u ulong_max n hn
  unfold cmd_range_match range_digits
  rw [hv]
  have hdig : ∀ c ∈ sprintf_u_digits (n + 1) n [], c.isDigit = true := by
    intro c hc
    obtain ⟨d, hd, hcd⟩ := hall c hc
    rw [hcd]
    exact (digitChar_isDigit d hd).1
  have hl : (sprintf_u n).toList = sprintf_u_digits (n + 1) n [] := rfl
  rw [hl]
  cases hd : sprintf_u_digits (n + 1) n [] with
  | nil => exact absurd hd hne
  | cons c cs =>
    obtain ⟨d, hd2, hc⟩ := hall c (by rw [hd]; exact List.mem_cons_self _ _)
    have hdc := digitChar_isDigit d hd2
    rw [← hc] at hdc
    have hdrop : (c :: cs).dropWhile isspace = c :: cs := by
      simp [List.dropWhile, hdc.2.2.1]
    rw [hdrop]
    have hall2 : (c :: cs).all Char.isDigit = true := by
      rw [List.all_eq_true]
      intro x hx
      exact hdig x (by rw [hd]; exact hx)
    split
    · rename_i h; injection h with h1 _; exact absurd h1 hdc.2.2.2.1
    · rename_i h; injection h with h1 _; exact absurd h1 hdc.2.2.2.2.1
    · simp [hall2, hlo, hhi]

theorem cmd_range_match_value (ulong_max lo hi : Nat) (w : String) (hhi : hi < 4294967296)
    (h : cmd_range_match ulong_max lo hi w = true) :
    lo ≤ vty_label_value ulong_max w ∧ vty_label_value ulong_max w ≤ hi := by
  have h1 : w ≠ "explicit-null" := by
    intro hw
    subst hw
    unfold cmd_range_match at h
    rw [show (range_digits "explicit-null").all Char.isDigit = false by decide] at h
    simp at h
  have h2 : w ≠ "implicit-null" := by
    intro hw
    subst hw
    unfold cmd_range_match at h
    rw [show (range_digits "implicit-null").all Char.isDigit = false by decide] at h
    simp at h
  unfold vty_label_value
  rw [if_neg h1, if_neg h2]
  unfold cmd_range_match at h
  simp only [Bool.and_eq_true, decide_eq_true_eq] at h
  rw [Nat.mod_eq_of_lt (by omega)]
  exact ⟨h.1.2, h.2⟩
/-! ## The lines of the written configuration, as commands -/

theorem cmd_match_mpls_ip (E : command_env) :
    cmd_match E ["mpls", "ip"] = some (defun.mpls_ip, []) := by
  simp [cmd_match, mpls_vty_commands, binding_head, crossconnect_head, in_label_token,
    out_label_token, List.filter, tokens_match, token_match, cmd_args]

theorem cmd_match_comment (E : command_env) : cmd_match E ["!"] = none := by
  simp [cmd_match, mpls_vty_commands, binding_head, crossconnect_head, in_label_token,
    out_label_token, List.filter, tokens_match, token_match, cmd_args]

theorem cmd_match_input_line (E : command_env) (pw lw : String)
    (hp : E.cmd_ipv4_prefix_match pw = true)
    (hl : cmd_range_match E.ulong_max 16 1048575 lw = true) :
    cmd_match E ["mpls", "static", "binding", "ipv4", pw, lw] =
      some (defun.mpls_static_binding_input, [pw, lw]) := by
  simp [cmd_match, mpls_vty_commands, binding_head, crossconnect_head, in_label_token,
    out_label_token, List.filter, tokens_match, token_match, cmd_args, hp, hl]

theorem cmd_match_output_line (E : command_env) (pw nw lw : String)
    (hp : E.cmd_ipv4_prefix_match pw = true) (hp2 : E.cmd_ipv4_match pw = false)
    (hn : E.cmd_ipv4_match nw = true)
    (hl : token_match E out_label_token lw = true) :
    cmd_match E ["mpls", "static", "binding", "ipv4", pw, "output", nw, lw] =
      some (defun.mpls_static_binding_output, [pw, nw, lw]) := by
  unfold out_label_token at hl
  simp [cmd_match, mpls_vty_commands, binding_head, crossconnect_head, in_label_token,
    out_label_token, List.filter, tokens_match, cmd_args, hp, hl, hp2, hn,
    token_match.eq_1, token_match.eq_2, token_match.eq_3, token_match.eq_4, token_match.eq_6]

theorem cmd_match_crossconnect_line (E : command_env) (iw name nw lw : String)
    (hi : cmd_range_match E.ulong_max 16 1048575 iw = true)
    (hn : E.cmd_ipv4_match nw = true)
    (hl : token_match E out_label_token lw = true) :
    cmd_match E ["mpls", "static", "crossconnect", iw, name, nw, lw] =
      some (defun.mpls_static_crossconnect, [iw, name, nw, lw]) := by
  unfold out_label_token at hl
  simp [cmd_match, mpls_vty_commands, binding_head, crossconnect_head, in_label_token,
    out_label_token, List.filter, tokens_match, cmd_args, hi, hl, hn,
    token_match.eq_1, token_match.eq_2, token_match.eq_3, token_match.eq_4, token_match.eq_6]

/-! ## What the configuration commands keep -/

theorem lb_config_ok_new : lb_config_ok label_bindings_new :=
  ⟨Or.inl rfl, fun l hl => by cases hl⟩

theorem set_static_rn_config (K : zebra_consts) (c : mpls_rn) (label : Nat) :
    (set_static_input_label_rn K c label).lb.static_in_label = label ∧
    (set_static_input_label_rn K c label).lb.static_lsps = c.lb.static_lsps := by
  refine ⟨?_, (set_static_input_label_rn_frame K c label).2.2.2.2.1⟩
  rw [set_static_input_label_rn_eq]
  split
  · assumption
  · rfl

theorem remove_static_rn_config (K : zebra_consts) (c : mpls_rn) (label : Nat) :
    ((remove_static_input_label_rn K c label).lb.static_in_label = NO_LABEL ∨
      (remove_static_input_label_rn K c label).lb.static_in_label = c.lb.static_in_label) ∧
    (remove_static_input_label_rn K c label).lb.static_lsps = c.lb.static_lsps := by
  refine ⟨?_, (remove_static_input_label_rn_frame K c label).2.2.2.2.1⟩
  rw [remove_static_input_label_rn_eq]
  split
  · exact Or.inr rfl
  · split
    · exact Or.inr rfl
    · exact Or.inl rfl

theorem remove_static_lsp_rn_config (K : zebra_consts) (drv : driver) (c : mpls_rn) (n : Nat)
    (h : lb_config_ok c.lb) : lb_config_ok (remove_static_lsp_rn K drv c n).lb := by
  have hf := remove_static_lsp_rn_frame K drv c n
  refine ⟨by rw [hf.2.2.1.1]; exact h.1, ?_⟩
  intro l hl
  rw [hf.2.2.2.2] at hl
  split at hl
  · exact h.2 l hl
  · exact h.2 l (List.mem_of_mem_eraseP hl)

theorem add_static_lsp_rn_config (K : zebra_consts) (drv : driver) (c : mpls_rn) (N L : Nat)
    (hwf : lb_wf c.alloc c.lb) (hL : out_label_ok L) (h : lb_config_ok c.lb) :
    lb_config_ok (add_static_lsp_rn K drv c N L).lb := by
  have hf := add_static_lsp_rn_frame K drv c N L
  refine ⟨by rw [hf.2.1.1]; exact h.1, ?_⟩
  have hpd : (c.lb.static_lsps.map (fun y => y.ptr)).Nodup := by
    have := hwf.1
    unfold lsps at this
    exact (List.nodup_append.1 (by simpa [List.map_append] using this)).1
  rcases add_static_lsp_rn_static K drv c N L hpd hwf.2.2.2 with ⟨_, he⟩ | ⟨_, he⟩
  · rw [he]; exact h.2
  · intro l hl
    rw [he] at hl
    rcases List.mem_append.1 hl with hl | hl
    · exact h.2 l (List.mem_of_mem_filter hl)
    · rw [List.mem_singleton.1 hl]
      exact hL
theorem config_wf_bindings {E : command_env} {s : zebra} (h : config_wf E s) (p : Prefix) :
    lb_config_ok (bindings s p) :=
  bindings_cases lb_config_ok lb_config_ok_new s h.2.2.2.1 p

theorem config_wf_put (E : command_env) (s : zebra) (p : Prefix) (c : mpls_rn)
    (h : config_wf E s) (ha : s.alloc ≤ c.alloc) (hwf : lb_wf c.alloc c.lb)
    (hc : lb_config_ok c.lb) : config_wf E (put_rn s p c) := by
  obtain ⟨h1, h2, h3, h4, h5⟩ := h
  refine ⟨put_rn_wf s p c h1 ha hwf, ⟨h2.1, h2.2.1, ?_⟩, h3, put_rn_all lb_config_ok s p c h4 hc,
    h5⟩
  intro mc hmc
  exact Nat.lt_of_lt_of_le (h2.2.2 mc hmc) ha

theorem set_static_config_wf (E : command_env) (s : zebra) (p : Prefix) (L : Nat)
    (h : config_wf E s) (hL : in_label_ok L) :
    config_wf E (mpls_prefix_set_static_input_label E.K s p L) := by
  rw [set_static_input_label_put]
  have hf := set_static_input_label_rn_frame E.K (rn_of s p) L
  have hc := set_static_rn_config E.K (rn_of s p) L
  refine config_wf_put E s p _ h (Nat.le_of_eq hf.2.2.2.1.symm)
    (in_label_frame_wf hf (rn_of_wf s p h.1)) ⟨?_, ?_⟩
  · rw [hc.1]; exact Or.inr hL
  · rw [hc.2]; exact (config_wf_bindings h p).2

theorem remove_static_config_wf (E : command_env) (s : zebra) (p : Prefix) (L : Nat)
    (h : config_wf E s) :
    config_wf E (mpls_prefix_remove_static_input_label E.K s p L) := by
  rw [remove_static_input_label_put]
  have hf := remove_static_input_label_rn_frame E.K (rn_of s p) L
  have hc := remove_static_rn_config E.K (rn_of s p) L
  refine config_wf_put E s p _ h (Nat.le_of_eq hf.2.2.2.1.symm)
    (in_label_frame_wf hf (rn_of_wf s p h.1)) ⟨?_, ?_⟩
  · rcases hc.1 with h1 | h1
    · exact Or.inl h1
    · rw [h1]; exact (config_wf_bindings h p).1
  · rw [hc.2]; exact (config_wf_bindings h p).2

theorem add_static_lsp_config_wf (E : command_env) (s : zebra) (p : Prefix) (N L : Nat)
    (h : config_wf E s) (hL : out_label_ok L) :
    config_wf E (mpls_prefix_add_static_lsp E.K E.drv s p N L) := by
  rw [add_static_lsp_put]
  have hf := add_static_lsp_rn_frame E.K E.drv (rn_of s p) N L
  exact config_wf_put E s p _ h hf.1.2.2.2.1
    (add_static_lsp_rn_wf E.K E.drv (rn_of s p) N L (rn_of_wf s p h.1)).1
    (add_static_lsp_rn_config E.K E.drv (rn_of s p) N L (rn_of_wf s p h.1) hL
      (config_wf_bindings h p))

theorem remove_static_lsp_config_wf (E : command_env) (s : zebra) (p : Prefix) (N : Nat)
    (h : config_wf E s) :
    config_wf E (mpls_prefix_remove_static_lsp E.K E.drv s p N) := by
  rw [remove_static_lsp_put]
  have hf := remove_static_lsp_rn_frame E.K E.drv (rn_of s p) N
  exact config_wf_put E s p _ h hf.1.2.2.2.1
    (remove_static_lsp_rn_wf E.K E.drv (rn_of s p) N (rn_of_wf s p h.1)).1
    (remove_static_lsp_rn_config E.K E.drv (rn_of s p) N (config_wf_bindings h p))

theorem remove_all_loop_config_wf (E : command_env) (p : Prefix) (l : List route_lsp)
    (s : zebra) (h : config_wf E s) : config_wf E (remove_all_loop E p l s) := by
  induction l generalizing s with
  | nil => exact h
  | cons a t ih => exact ih _ (remove_static_lsp_config_wf E s p a.nexthop h)

theorem route_node_get_mpls_config_wf (E : command_env) (s : zebra) (p : Prefix)
    (h : config_wf E s) : config_wf E (route_node_get_mpls s p) := by
  rw [← put_rn_rn_of]
  exact config_wf_put E s p _ h (le_refl _) (rn_of_wf s p h.1) (config_wf_bindings h p)

/-- A change of the flag, the log and the allocation counter keeps what the
commands keep. -/
theorem config_wf_congr (E : command_env) (s s' : zebra) (h : config_wf E s)
    (ht : s'.table = s.table) (hx : s'.mpls_crossconnect_list = s.mpls_crossconnect_list)
    (ha : s.alloc ≤ s'.alloc) (he : s'.mpls_enabled = 0 ∨ s'.mpls_enabled = 1) :
    config_wf E s' := by
  obtain ⟨h1, h2, _, h4, h5⟩ := h
  refine ⟨?_, ⟨by rw [hx]; exact h2.1, by rw [hx]; exact h2.2.1, ?_⟩, he, ?_, ?_⟩
  · intro p lb hp
    rw [ht] at hp
    exact lb_wf_mono ha (h1 p lb hp)
  · intro mc hmc
    rw [hx] at hmc
    exact Nat.lt_of_lt_of_le (h2.2.2 mc hmc) ha
  · intro p lb hp
    rw [ht] at hp
    exact h4 p lb hp
  · intro mc hmc
    rw [hx] at hmc
    exact h5 mc hmc

theorem set_labelspace_loop_frame (labelspace : Int) (l : List interface) (s : zebra) :
    (set_labelspace_loop labelspace l s).table = s.table ∧
    (set_labelspace_loop labelspace l s).mpls_crossconnect_list = s.mpls_crossconnect_list ∧
    (set_labelspace_loop labelspace l s).alloc = s.alloc ∧
    (set_labelspace_loop labelspace l s).mpls_enabled = s.mpls_enabled := by
  induction l generalizing s with
  | nil => exact ⟨rfl, rfl, rfl, rfl⟩
  | cons a t ih =>
    unfold set_labelspace_loop
    split
    · exact ih s
    · exact ih _

theorem mpls_ip_frame (iflist : List interface) (s : zebra) :
    (mpls_ip iflist s).2.table = s.table ∧
    (mpls_ip iflist s).2.mpls_crossconnect_list = s.mpls_crossconnect_list ∧
    (mpls_ip iflist s).2.alloc = s.alloc ∧
    (mpls_ip iflist s).2.mpls_enabled = (if s.mpls_enabled ≠ 0 then s.mpls_enabled else 1) := by
  have hf := set_labelspace_loop_frame 0 iflist s
  unfold mpls_ip
  split
  · exact ⟨rfl, rfl, rfl, rfl⟩
  · exact ⟨hf.1, hf.2.1, hf.2.2.1, rfl⟩

theorem no_mpls_ip_frame (iflist : List interface) (s : zebra) :
    (no_mpls_ip iflist s).2.table = s.table ∧
    (no_mpls_ip iflist s).2.mpls_crossconnect_list = s.mpls_crossconnect_list ∧
    (no_mpls_ip iflist s).2.alloc = s.alloc ∧
    (no_mpls_ip iflist s).2.mpls_enabled = 0 := by
  have hf := set_labelspace_loop_frame (-1) iflist s
  unfold no_mpls_ip
  split
  · rename_i he
    exact ⟨rfl, rfl, rfl, he⟩
  · exact ⟨hf.1, hf.2.1, hf.2.2.1, rfl⟩

theorem mpls_ip_config_wf (E : command_env) (s : zebra) (h : config_wf E s) :
    config_wf E (mpls_ip E.iflist s).2 := by
  have hf := mpls_ip_frame E.iflist s
  refine config_wf_congr E s _ h hf.1 hf.2.1 (Nat.le_of_eq hf.2.2.1.symm) ?_
  rw [hf.2.2.2]
  split
  · exact h.2.2.1
  · exact Or.inr rfl

theorem no_mpls_ip_config_wf (E : command_env) (s : zebra) (h : config_wf E s) :
    config_wf E (no_mpls_ip E.iflist s).2 := by
  have hf := no_mpls_ip_frame E.iflist s
  exact config_wf_congr E s _ h hf.1 hf.2.1 (Nat.le_of_eq hf.2.2.1.symm) (Or.inl hf.2.2.2)

theorem crossconnect_remove_enabled (s : zebra) (L : Nat) :
    (mpls_static_crossconnect_remove s L).2.mpls_enabled = s.mpls_enabled := by
  unfold mpls_static_crossconnect_remove
  split <;> rfl

theorem crossconnect_add_enabled (drv : driver) (s s1 : zebra) (in_label : Nat)
    (ifp : Option Nat) (nexthop out_label : Nat)
    (hloop : crossconnect_add_loop in_label ifp nexthop out_label s.mpls_crossconnect_list s
      = (false, s1)) :
    (mpls_static_crossconnect_add drv s in_label ifp nexthop out_label).2.mpls_enabled
      = s1.mpls_enabled := by
  unfold mpls_static_crossconnect_add
  rw [hloop]
  dsimp only
  split
  · rfl
  · split
    · rfl
    · split <;> rfl

theorem crossconnect_remove_config_wf (E : command_env) (s : zebra) (L : Nat)
    (h : config_wf E s) : config_wf E (mpls_static_crossconnect_remove s L).2 := by
  have hw := crossconnect_remove_wf s L h.2.1
  have ht := crossconnect_remove_table s L
  have he := crossconnect_remove_enabled s L
  obtain ⟨h1, h2, h3, h4, h5⟩ := h
  refine ⟨?_, hw.1, by rw [he]; exact h3, ?_, ?_⟩
  · intro p lb hp
    rw [ht] at hp
    rw [hw.2.1]
    exact h1 p lb hp
  · intro p lb hp
    rw [ht] at hp
    exact h4 p lb hp
  · intro mc hmc
    apply h5 mc
    cases hf : s.mpls_crossconnect_list.find? (fun x => x.in_label == L) with
    | none =>
      have hs : (mpls_static_crossconnect_remove s L).2 = s := by
        unfold mpls_static_crossconnect_remove; rw [hf]
      rw [hs] at hmc
      exact hmc
    | some x =>
      rw [(crossconnect_remove_found s L x hf).2.2.1] at hmc
      exact List.mem_of_mem_eraseP hmc

theorem crossconnect_add_config_wf (E : command_env) (s : zebra) (in_label : Nat) (i : interface)
    (nexthop out_label : Nat) (h : config_wf E s) (hin : in_label_ok in_label)
    (hout : out_label_ok out_label) (hi : if_lookup_by_name E.iflist i.name = some i) :
    config_wf E
      (mpls_static_crossconnect_add E.drv s in_label (some i.ptr) nexthop out_label).2 := by
  have hloop := crossconnect_add_loop_eq in_label (some i.ptr) nexthop out_label
    s.mpls_crossconnect_list s h.2.1.1
  have hwf := crossconnect_add_wf E.drv s in_label (some i.ptr) nexthop out_label h.2.1
  have key : ∀ s1 : zebra, config_wf E s1 →
      crossconnect_add_loop in_label (some i.ptr) nexthop out_label s.mpls_crossconnect_list s
        = (false, s1) →
      config_wf E
        (mpls_static_crossconnect_add E.drv s in_label (some i.ptr) nexthop out_label).2 := by
    intro s1 h1 hl
    have hlist := (crossconnect_add_of_loop E.drv s s1 in_label (some i.ptr) nexthop out_label
      hl).1
    have halloc := crossconnect_add_alloc E.drv s s1 in_label (some i.ptr) nexthop out_label hl
    have ht := crossconnect_add_table E.drv s s1 in_label (some i.ptr) nexthop out_label hl
    have he := crossconnect_add_enabled E.drv s s1 in_label (some i.ptr) nexthop out_label hl
    obtain ⟨g1, _, g3, g4, g5⟩ := h1
    refine ⟨?_, hwf, by rw [he]; exact g3, ?_, ?_⟩
    · intro p lb hp
      rw [ht] at hp
      rw [halloc]
      exact lb_wf_mono (Nat.le_add_right _ _) (g1 p lb hp)
    · intro p lb hp
      rw [ht] at hp
      exact g4 p lb hp
    · intro mc hmc
      rw [hlist] at hmc
      rcases List.mem_append.1 hmc with hmc | hmc
      · exact g5 mc hmc
      · rw [List.mem_singleton.1 hmc]
        exact ⟨hin, hout, i, hi, rfl⟩
  cases hf : s.mpls_crossconnect_list.find? (fun mc => mc.in_label == in_label) with
  | none =>
    rw [hf] at hloop
    exact key s h hloop
  | some mc =>
    rw [hf] at hloop
    dsimp only at hloop
    by_cases hsame : crossconnect_same mc (some i.ptr) nexthop out_label = true
    · rw [if_pos hsame] at hloop
      have hs : (mpls_static_crossconnect_add E.drv s in_label (some i.ptr) nexthop
          out_label).2 = s := by
        unfold mpls_static_crossconnect_add
        rw [hloop]
      rw [hs]
      exact h
    · rw [if_neg hsame] at hloop
      exact key _ (crossconnect_remove_config_wf E s in_label h) hloop

theorem fresh_engine_config_wf (E : command_env) (cl : List zserv) (rt : Prefix → List rib) :
    config_wf E (fresh_engine cl rt) := by
  refine ⟨?_, ⟨List.nodup_nil, List.nodup_nil, ?_⟩, Or.inl rfl, ?_, ?_⟩
  · intro p lb hp
    cases hp
  · intro mc hmc
    cases hmc
  · intro p lb hp
    cases hp
  · intro mc hmc
    cases hmc

/-! ## Every command keeps the configuration well formed -/

theorem in_token_value (E : command_env) (w : String)
    (h : token_match E in_label_token w = true) :
    in_label_ok (vty_label_value E.ulong_max w) :=
  cmd_range_match_value E.ulong_max 16 1048575 w (by decide) h

theorem out_token_value (E : command_env) (w : String)
    (h : token_match E out_label_token w = true) :
    out_label_ok (vty_label_value E.ulong_max w) := by
  have h2 : (cmd_range_match E.ulong_max 16 1048575 w || w == "explicit-null"
      || w == "implicit-null") = true := h
  simp only [Bool.or_eq_true, beq_iff_eq] at h2
  rcases h2 with (h2 | h2) | h2
  · exact Or.inl (cmd_range_match_value E.ulong_max 16 1048575 w (by decide) h2)
  · subst h2; exact Or.inr (Or.inl rfl)
  · subst h2; exact Or.inr (Or.inr rfl)

theorem tokens_match_cons_iff (E : command_env) (t : cmd_token) (ts : List cmd_token)
    (words : List String) :
    tokens_match E (t :: ts) words = true ↔
      ∃ w ws, words = w :: ws ∧ token_match E t w = true ∧ tokens_match E ts ws = true := by
  cases words with
  | nil => simp [tokens_match]
  | cons w ws =>
    simp only [tokens_match, Bool.and_eq_true, List.cons.injEq]
    constructor
    · intro h
      exact ⟨w, ws, ⟨rfl, rfl⟩, h⟩
    · rintro ⟨w1, ws1, ⟨rfl, rfl⟩, h⟩
      exact h

theorem tokens_match_nil_iff (E : command_env) (words : List String) :
    tokens_match E [] words = true ↔ words = [] := by
  cases words with
  | nil => simp [tokens_match]
  | cons w ws => simp [tokens_match]

theorem cmd_match_cases (E : command_env) (P : defun → List String → Prop)
    (words : List String)
    (h : ∀ c ∈ mpls_vty_commands, tokens_match E c.1 words = true →
      P c.2 (cmd_args c.1 words))
    (d : defun) (argv : List String) (hm : cmd_match E words = some (d, argv)) : P d argv := by
  unfold cmd_match at hm
  split at hm
  · rename_i c hc
    have hmem : c ∈ mpls_vty_commands.filter (fun c => tokens_match E c.1 words) := by
      rw [hc]; exact List.mem_singleton_self c
    rw [List.mem_filter] at hmem
    simp only [Option.some.injEq, Prod.mk.injEq] at hm
    rw [← hm.1, ← hm.2]
    exact h c hmem.1 hmem.2
  · cases hm

theorem vty_input_add_effect (E : command_env) (s : zebra) (a : String) (m : Option String)
    (l : String) (r : Int × zebra) (hl : token_match E in_label_token l = true)
    (hr : vty_mpls_static_binding_input E s true a m (some l) = some r) :
    config_effect E s r.2 := by
  unfold vty_mpls_static_binding_input at hr
  split at hr
  · simp only [Option.some.injEq] at hr
    rw [← hr]; exact config_effect.quiet _ _ (quiet_effect.same s)
  · simp only [if_true, Option.some.injEq] at hr
    rw [← hr]
    exact config_effect.set_in s _ _ (in_token_value E l hl)

theorem vty_input_remove_effect (E : command_env) (s : zebra) (a : String)
    (m l : Option String) (r : Int × zebra)
    (hr : vty_mpls_static_binding_input E s false a m l = some r) : quiet_effect E s r.2 := by
  unfold vty_mpls_static_binding_input at hr
  split at hr
  · simp only [Option.some.injEq] at hr
    rw [← hr]; exact quiet_effect.same s
  · simp only [Bool.false_eq_true, if_false] at hr
    split at hr
    · simp only [Option.some.injEq] at hr
      rw [← hr]
      exact quiet_effect.remove_in s _ _
    · simp only [Option.some.injEq] at hr
      rw [← hr]
      exact quiet_effect.remove_in s _ _

theorem vty_output_add_effect (E : command_env) (s : zebra) (a : String) (m : Option String)
    (n l : String) (r : Int × zebra) (hl : token_match E out_label_token l = true)
    (hr : vty_mpls_static_binding_output E s true a m n (some l) = some r) :
    quiet_effect E s r.2 := by
  unfold vty_mpls_static_binding_output at hr
  split at hr
  · simp only [Option.some.injEq] at hr
    rw [← hr]; exact quiet_effect.same s
  · split at hr
    · simp only [Option.some.injEq] at hr
      rw [← hr]; exact quiet_effect.same s
    · simp only [if_true, Option.some.injEq] at hr
      rw [← hr]
      exact quiet_effect.add_out s _ _ _ (out_token_value E l hl)

theorem vty_output_remove_effect (E : command_env) (s : zebra) (a : String)
    (m : Option String) (n : String) (l : Option String) (r : Int × zebra)
    (hr : vty_mpls_static_binding_output E s false a m n l = some r) :
    quiet_effect E s r.2 := by
  unfold vty_mpls_static_binding_output at hr
  split at hr
  · simp only [Option.some.injEq] at hr
    rw [← hr]; exact quiet_effect.same s
  · split at hr
    · simp only [Option.some.injEq] at hr
      rw [← hr]; exact quiet_effect.same s
    · simp only [Bool.false_eq_true, if_false, Option.some.injEq] at hr
      rw [← hr]
      exact quiet_effect.remove_out s _ _

theorem remove_all_loop_effect (E : command_env) (p : Prefix) (l : List route_lsp)
    (s : zebra) : quiet_effect E s (remove_all_loop E p l s) := by
  induction l generalizing s with
  | nil => exact quiet_effect.same s
  | cons a t ih => exact quiet_effect.trans _ _ _ (quiet_effect.remove_out s p a.nexthop) (ih _)

theorem vty_remove_all_effect (E : command_env) (s : zebra) (a : String) (m : Option String) :
    quiet_effect E s (vty_mpls_static_binding_output_remove_all E s a m).2 := by
  unfold vty_mpls_static_binding_output_remove_all
  split
  · exact quiet_effect.same s
  · exact quiet_effect.trans _ _ _ (quiet_effect.get s _) (remove_all_loop_effect E _ _ _)

theorem no_binding_body_effect (E : command_env) (s : zebra) (a : String) (m : Option String)
    (r : Int × zebra) (hr : no_binding_body E s a m = some r) : quiet_effect E s r.2 := by
  unfold no_binding_body at hr
  split at hr
  · cases hr
  · rename_i ret1 s1 h1
    have hs1 : quiet_effect E s s1 := vty_input_remove_effect E s a m none (ret1, s1) h1
    have h2 := vty_remove_all_effect E s1 a m
    dsimp only at hr
    split at hr
    · simp only [Option.some.injEq] at hr
      rw [← hr]; exact quiet_effect.trans _ _ _ hs1 h2
    · simp only [Option.some.injEq] at hr
      rw [← hr]; exact quiet_effect.trans _ _ _ hs1 h2

theorem vty_crossconnect_add_effect (E : command_env) (s : zebra) (a0 a1 a2 a3 : String)
    (h0 : token_match E in_label_token a0 = true)
    (h3 : token_match E out_label_token a3 = true) :
    config_effect E s (vty_mpls_static_crossconnect_add E s a0 a1 a2 a3).2 := by
  unfold vty_mpls_static_crossconnect_add
  split
  · exact config_effect.quiet _ _ (quiet_effect.same s)
  · rename_i ifp hifp
    split
    · exact config_effect.quiet _ _ (quiet_effect.same s)
    · have hname : ifp.name = a1 := by
        have := List.find?_some hifp
        simpa using this
      exact config_effect.xc_add s _ ifp _ _ (in_token_value E a0 h0)
        (out_token_value E a3 h3) (by rw [hname]; exact hifp)

/-- The body of every command, on the `argv` of a line that matches its
command string, has one of the effects of `config_effect`. -/
theorem defun_run_effect (E : command_env) (words : List String) :
    ∀ c ∈ mpls_vty_commands, tokens_match E c.1 words = true →
      ∀ s r, c.2.run E s (cmd_args c.1 words) = some r → config_effect E s r.2 := by
  intro c hc
  simp only [mpls_vty_commands, List.mem_cons, List.mem_singleton, List.not_mem_nil,
    or_false] at hc
  rcases hc with rfl | rfl | rfl | rfl | rfl | rfl | rfl | rfl | rfl | rfl | rfl | rfl | rfl | rfl | rfl | rfl | rfl | rfl | rfl | rfl | rfl | rfl | rfl | rfl | rfl | rfl | rfl
  · intro hm s r hr
    simp only [binding_head, crossconnect_head, List.cons_append, List.nil_append,
      tokens_match_cons_iff, tokens_match_nil_iff] at hm
    obtain ⟨w1, _, rfl, h1, w2, _, rfl, h2, rfl⟩ := hm
    simp only [defun.run] at hr
    injection hr with hr
    rw [← hr]
    exact config_effect.quiet _ _ (quiet_effect.enable s)
  · intro hm s r hr
    simp only [binding_head, crossconnect_head, List.cons_append, List.nil_append,
      tokens_match_cons_iff, tokens_match_nil_iff] at hm
    obtain ⟨w1, _, rfl, h1, w2, _, rfl, h2, w3, _, rfl, h3, rfl⟩ := hm
    simp only [defun.run] at hr
    injection hr with hr
    rw [← hr]
    exact config_effect.quiet _ _ (quiet_effect.disable s)
  · intro hm s r hr
    simp only [binding_head, crossconnect_head, List.cons_append, List.nil_append,
      tokens_match_cons_iff, tokens_match_nil_iff] at hm
    obtain ⟨w1, _, rfl, h1, w2, _, rfl, h2, w3, _, rfl, h3, w4, _, rfl, h4, w5, _, rfl, h5, w6, _, rfl, h6, w7, _, rfl, h7, rfl⟩ := hm
    simp only [cmd_args, in_label_token, out_label_token, defun.run] at hr
    exact vty_input_add_effect E s _ _ _ r (by assumption) hr
  · intro hm s r hr
    simp only [binding_head, crossconnect_head, List.cons_append, List.nil_append,
      tokens_match_cons_iff, tokens_match_nil_iff] at hm
    obtain ⟨w1, _, rfl, h1, w2, _, rfl, h2, w3, _, rfl, h3, w4, _, rfl, h4, w5, _, rfl, h5, w6, _, rfl, h6, rfl⟩ := hm
    simp only [cmd_args, in_label_token, out_label_token, defun.run] at hr
    exact vty_input_add_effect E s _ _ _ r (by assumption) hr
  · intro hm s r hr
    simp only [binding_head, crossconnect_head, List.cons_append, List.nil_append,
      tokens_match_cons_iff, tokens_match_nil_iff] at hm
    obtain ⟨w1, _, rfl, h1, w2, _, rfl, h2, w3, _, rfl, h3, w4, _, rfl, h4, w5, _, rfl, h5, w6, _, rfl, h6, w7, _, rfl, h7, w8, _, rfl, h8, rfl⟩ := hm
    simp only [cmd_args, in_label_token, out_label_token, defun.run] at hr
    exact config_effect.quiet _ _ (vty_input_remove_effect E s _ _ _ r hr)
  · intro hm s r hr
    simp only [binding_head, crossconnect_head, List.cons_append, List.nil_append,
      tokens_match_cons_iff, tokens_match_nil_iff] at hm
    obtain ⟨w1, _, rfl, h1, w2, _, rfl, h2, w3, _, rfl, h3, w4, _, rfl, h4, w5, _, rfl, h5, w6, _, rfl, h6, w7, _, rfl, h7, rfl⟩ := hm
    simp only [cmd_args, in_label_token, out_label_token, defun.run] at hr
    exact config_effect.quiet _ _ (vty_input_remove_effect E s _ _ _ r hr)
  · intro hm s r hr
    simp only [binding_head, crossconnect_head, List.cons_append, List.nil_append,
      tokens_match_cons_iff, tokens_match_nil_iff] at hm
    obtain ⟨w1, _, rfl, h1, w2, _, rfl, h2, w3, _, rfl, h3, w4, _, rfl, h4, w5, _, rfl, h5, w6, _, rfl, h6, w7, _, rfl, h7, rfl⟩ := hm
    simp only [cmd_args, in_label_token, out_label_token, defun.run] at hr
    exact config_effect.quiet _ _ (vty_input_remove_effect E s _ _ _ r hr)
  · intro hm s r hr
    simp only [binding_head, crossconnect_head, List.cons_append, List.nil_append,
      tokens_match_cons_iff, tokens_match_nil_iff] at hm
    obtain ⟨w1, _, rfl, h1, w2, _, rfl, h2, w3, _, rfl, h3, w4, _, rfl, h4, w5, _, rfl, h5, w6, _, rfl, h6, w7, _, rfl, h7, w8, _, rfl, h8, rfl⟩ := hm
    simp only [cmd_args, in_label_token, out_label_token, defun.run] at hr
    exact vty_input_add_effect E s _ _ _ r (by assumption) hr
  · intro hm s r hr
    simp only [binding_head, crossconnect_head, List.cons_append, List.nil_append,
      tokens_match_cons_iff, tokens_match_nil_iff] at hm
    obtain ⟨w1, _, rfl, h1, w2, _, rfl, h2, w3, _, rfl, h3, w4, _, rfl, h4, w5, _, rfl, h5, w6, _, rfl, h6, w7, _, rfl, h7, rfl⟩ := hm
    simp only [cmd_args, in_label_token, out_label_token, defun.run] at hr
    exact vty_input_add_effect E s _ _ _ r (by assumption) hr
  · intro hm s r hr
    simp only [binding_head, crossconnect_head, List.cons_append, List.nil_append,
      tokens_match_cons_iff, tokens_match_nil_iff] at hm
    obtain ⟨w1, _, rfl, h1, w2, _, rfl, h2, w3, _, rfl, h3, w4, _, rfl, h4, w5, _, rfl, h5, w6, _, rfl, h6, w7, _, rfl, h7, w8, _, rfl, h8, w9, _, rfl, h9, rfl⟩ := hm
    simp only [cmd_args, in_label_token, out_label_token, defun.run] at hr
    exact config_effect.quiet _ _ (vty_input_remove_effect E s _ _ _ r hr)
  · intro hm s r hr
    simp only [binding_head, crossconnect_head, List.cons_append, List.nil_append,
      tokens_match_cons_iff, tokens_match_nil_iff] at hm
    obtain ⟨w1, _, rfl, h1, w2, _, rfl, h2, w3, _, rfl, h3, w4, _, rfl, h4, w5, _, rfl, h5, w6, _, rfl, h6, w7, _, rfl, h7, w8, _, rfl, h8, rfl⟩ := hm
    simp only [cmd_args, in_label_token, out_label_token, defun.run] at hr
    exact config_effect.quiet _ _ (vty_input_remove_effect E s _ _ _ r hr)
  · intro hm s r hr
    simp only [binding_head, crossconnect_head, List.cons_append, List.nil_append,
      tokens_match_cons_iff, tokens_match_nil_iff] at hm
    obtain ⟨w1, _, rfl, h1, w2, _, rfl, h2, w3, _, rfl, h3, w4, _, rfl, h4, w5, _, rfl, h5, w6, _, rfl, h6, w7, _, rfl, h7, w8, _, rfl, h8, rfl⟩ := hm
    simp only [cmd_args, in_label_token, out_label_token, defun.run] at hr
    exact config_effect.quiet _ _ (vty_input_remove_effect E s _ _ _ r hr)
  · intro hm s r hr
    simp only [binding_head, crossconnect_head, List.cons_append, List.nil_append,
      tokens_match_cons_iff, tokens_match_nil_iff] at hm
    obtain ⟨w1, _, rfl, h1, w2, _, rfl, h2, w3, _, rfl, h3, w4, _, rfl, h4, w5, _, rfl, h5, w6, _, rfl, h6, w7, _, rfl, h7, w8, _, rfl, h8, rfl⟩ := hm
    simp only [cmd_args, in_label_token, out_label_token, defun.run] at hr
    exact config_effect.quiet _ _ (vty_output_add_effect E s _ _ _ _ r (by assumption) hr)
  · intro hm s r hr
    simp only [binding_head, crossconnect_head, List.cons_append, List.nil_append,
      tokens_match_cons_iff, tokens_match_nil_iff] at hm
    obtain ⟨w1, _, rfl, h1, w2, _, rfl, h2, w3, _, rfl, h3, w4, _, rfl, h4, w5, _, rfl, h5, w6, _, rfl, h6, w7, _, rfl, h7, w8, _, rfl, h8, w9, _, rfl, h9, rfl⟩ := hm
    simp only [cmd_args, in_label_token, out_label_token, defun.run] at hr
    exact config_effect.quiet _ _ (vty_output_remove_effect E s _ _ _ _ r hr)
  · intro hm s r hr
    simp only [binding_head, crossconnect_head, List.cons_append, List.nil_append,
      tokens_match_cons_iff, tokens_match_nil_iff] at hm
    obtain ⟨w1, _, rfl, h1, w2, _, rfl, h2, w3, _, rfl, h3, w4, _, rfl, h4, w5, _, rfl, h5, w6, _, rfl, h6, w7, _, rfl, h7, w8, _, rfl, h8, rfl⟩ := hm
    simp only [cmd_args, in_label_token, out_label_token, defun.run] at hr
    exact config_effect.quiet _ _ (vty_output_remove_effect E s _ _ _ _ r hr)
  · intro hm s r hr
    simp only [binding_head, crossconnect_head, List.cons_append, List.nil_append,
      tokens_match_cons_iff, tokens_match_nil_iff] at hm
    obtain ⟨w1, _, rfl, h1, w2, _, rfl, h2, w3, _, rfl, h3, w4, _, rfl, h4, w5, _, rfl, h5, w6, _, rfl, h6, w7, _, rfl, h7, rfl⟩ := hm
    simp only [cmd_args, in_label_token, out_label_token, defun.run] at hr
    injection hr with hr
    rw [← hr]
    exact config_effect.quiet _ _ (vty_remove_all_effect E s _ _)
  · intro hm s r hr
    simp only [binding_head, crossconnect_head, List.cons_append, List.nil_append,
      tokens_match_cons_iff, tokens_match_nil_iff] at hm
    obtain ⟨w1, _, rfl, h1, w2, _, rfl, h2, w3, _, rfl, h3, w4, _, rfl, h4, w5, _, rfl, h5, w6, _, rfl, h6, rfl⟩ := hm
    simp only [cmd_args, in_label_token, out_label_token, defun.run] at hr
    exact config_effect.quiet _ _ (no_binding_body_effect E s _ _ r hr)
  · intro hm s r hr
    simp only [binding_head, crossconnect_head, List.cons_append, List.nil_append,
      tokens_match_cons_iff, tokens_match_nil_iff] at hm
    obtain ⟨w1, _, rfl, h1, w2, _, rfl, h2, w3, _, rfl, h3, w4, _, rfl, h4, w5, _, rfl, h5, w6, _, rfl, h6, w7, _, rfl, h7, w8, _, rfl, h8, w9, _, rfl, h9, rfl⟩ := hm
    simp only [cmd_args, in_label_token, out_label_token, defun.run] at hr
    exact config_effect.quiet _ _ (vty_output_add_effect E s _ _ _ _ r (by assumption) hr)
  · intro hm s r hr
    simp only [binding_head, crossconnect_head, List.cons_append, List.nil_append,
      tokens_match_cons_iff, tokens_match_nil_iff] at hm
    obtain ⟨w1, _, rfl, h1, w2, _, rfl, h2, w3, _, rfl, h3, w4, _, rfl, h4, w5, _, rfl, h5, w6, _, rfl, h6, w7, _, rfl, h7, w8, _, rfl, h8, w9, _, rfl, h9, w10, _, rfl, h10, rfl⟩ := hm
    simp only [cmd_args, in_label_token, out_label_token, defun.run] at hr
    exact config_effect.quiet _ _ (vty_output_remove_effect E s _ _ _ _ r hr)
  · intro hm s r hr
    simp only [binding_head, crossconnect_head, List.cons_append, List.nil_append,
      tokens_match_cons_iff, tokens_match_nil_iff] at hm
    obtain ⟨w1, _, rfl, h1, w2, _, rfl, h2, w3, _, rfl, h3, w4, _, rfl, h4, w5, _, rfl, h5, w6, _, rfl, h6, w7, _, rfl, h7, w8, _, rfl, h8, w9, _, rfl, h9, rfl⟩ := hm
    simp only [cmd_args, in_label_token, out_label_token, defun.run] at hr
    exact config_effect.quiet _ _ (vty_output_remove_effect E s _ _ _ _ r hr)
  · intro hm s r hr
    simp only [binding_head, crossconnect_head, List.cons_append, List.nil_append,
      tokens_match_cons_iff, tokens_match_nil_iff] at hm
    obtain ⟨w1, _, rfl, h1, w2, _, rfl, h2, w3, _, rfl, h3, w4, _, rfl, h4, w5, _, rfl, h5, w6, _, rfl, h6, w7, _, rfl, h7, w8, _, rfl, h8, rfl⟩ := hm
    simp only [cmd_args, in_label_token, out_label_token, defun.run] at hr
    injection hr with hr
    rw [← hr]
    exact config_effect.quiet _ _ (vty_remove_all_effect E s _ _)
  · intro hm s r hr
    simp only [binding_head, crossconnect_head, List.cons_append, List.nil_append,
      tokens_match_cons_iff, tokens_match_nil_iff] at hm
    obtain ⟨w1, _, rfl, h1, w2, _, rfl, h2, w3, _, rfl, h3, w4, _, rfl, h4, w5, _, rfl, h5, w6, _, rfl, h6, w7, _, rfl, h7, rfl⟩ := hm
    simp only [cmd_args, in_label_token, out_label_token, defun.run] at hr
    exact config_effect.quiet _ _ (no_binding_body_effect E s _ _ r hr)
  · intro hm s r hr
    simp only [binding_head, crossconnect_head, List.cons_append, List.nil_append,
      tokens_match_cons_iff, tokens_match_nil_iff] at hm
    obtain ⟨w1, _, rfl, h1, w2, _, rfl, h2, w3, _, rfl, h3, w4, _, rfl, h4, w5, _, rfl, h5, w6, _, rfl, h6, w7, _, rfl, h7, rfl⟩ := hm
    simp only [cmd_args, in_label_token, out_label_token, defun.run] at hr
    injection hr with hr
    rw [← hr]
    exact vty_crossconnect_add_effect E s _ _ _ _ (by assumption) (by assumption)
  · intro hm s r hr
    simp only [binding_head, crossconnect_head, List.cons_append, List.nil_append,
      tokens_match_cons_iff, tokens_match_nil_iff] at hm
    obtain ⟨w1, _, rfl, h1, w2, _, rfl, h2, w3, _, rfl, h3, w4, _, rfl, h4, w5, _, rfl, h5, w6, _, rfl, h6, w7, _, rfl, h7, w8, _, rfl, h8, rfl⟩ := hm
    simp only [cmd_args, in_label_token, out_label_token, defun.run] at hr
    injection hr with hr
    rw [← hr]
    exact config_effect.quiet _ _ (quiet_effect.xc_remove s _)
  · intro hm s r hr
    simp only [binding_head, crossconnect_head, List.cons_append, List.nil_append,
      tokens_match_cons_iff, tokens_match_nil_iff] at hm
    obtain ⟨w1, _, rfl, h1, w2, _, rfl, h2, w3, _, rfl, h3, w4, _, rfl, h4, w5, _, rfl, h5, w6, _, rfl, h6, w7, _, rfl, h7, rfl⟩ := hm
    simp only [cmd_args, in_label_token, out_label_token, defun.run] at hr
    injection hr with hr
    rw [← hr]
    exact config_effect.quiet _ _ (quiet_effect.xc_remove s _)
  · intro hm s r hr
    simp only [binding_head, crossconnect_head, List.cons_append, List.nil_append,
      tokens_match_cons_iff, tokens_match_nil_iff] at hm
    obtain ⟨w1, _, rfl, h1, w2, _, rfl, h2, w3, _, rfl, h3, w4, _, rfl, h4, w5, _, rfl, h5, w6, _, rfl, h6, rfl⟩ := hm
    simp only [cmd_args, in_label_token, out_label_token, defun.run] at hr
    injection hr with hr
    rw [← hr]
    exact config_effect.quiet _ _ (quiet_effect.xc_remove s _)
  · intro hm s r hr
    simp only [binding_head, crossconnect_head, List.cons_append, List.nil_append,
      tokens_match_cons_iff, tokens_match_nil_iff] at hm
    obtain ⟨w1, _, rfl, h1, w2, _, rfl, h2, w3, _, rfl, h3, w4, _, rfl, h4, w5, _, rfl, h5, rfl⟩ := hm
    simp only [cmd_args, in_label_token, out_label_token, defun.run] at hr
    injection hr with hr
    rw [← hr]
    exact config_effect.quiet _ _ (quiet_effect.xc_remove s _)

theorem config_line_effect (E : command_env) (s s' : zebra) (words : List String)
    (h : config_line E s words = some s') : config_effect E s s' := by
  unfold config_line at h
  split at h
  · injection h with h
    rw [← h]; exact config_effect.quiet _ _ (quiet_effect.same s)
  · rename_i d argv hm
    have key := cmd_match_cases E
      (fun d argv => ∀ s r, d.run E s argv = some r → config_effect E s r.2)
      words (defun_run_effect E words) d argv hm
    cases hr : d.run E s argv with
    | none => rw [hr] at h; cases h
    | some r =>
      rw [hr] at h
      simp only [Option.map_some', Option.some.injEq] at h
      rw [← h]
      exact key s r hr

theorem quiet_effect_config_wf (E : command_env) {s s' : zebra} (h : quiet_effect E s s')
    (hs : config_wf E s) : config_wf E s' := by
  induction h with
  | same s => exact hs
  | enable s => exact mpls_ip_config_wf E s hs
  | disable s => exact no_mpls_ip_config_wf E s hs
  | remove_in s p L => exact remove_static_config_wf E s p L hs
  | add_out s p N L hL => exact add_static_lsp_config_wf E s p N L hs hL
  | remove_out s p N => exact remove_static_lsp_config_wf E s p N hs
  | get s p => exact route_node_get_mpls_config_wf E s p hs
  | xc_remove s L => exact crossconnect_remove_config_wf E s L hs
  | trans s1 s2 s3 _ _ ih1 ih2 => exact ih2 (ih1 hs)

theorem config_effect_config_wf (E : command_env) {s s' : zebra} (h : config_effect E s s')
    (hs : config_wf E s) : config_wf E s' := by
  cases h with
  | quiet _ hq => exact quiet_effect_config_wf E hq hs
  | set_in p L hL => exact set_static_config_wf E s p L hs hL
  | xc_add in_label i nexthop out_label hin hout hi =>
    exact crossconnect_add_config_wf E s in_label i nexthop out_label hs hin hout hi

theorem config_line_wf (E : command_env) (s s' : zebra) (words : List String)
    (hs : config_wf E s) (h : config_line E s words = some s') : config_wf E s' :=
  config_effect_config_wf E (config_line_effect E s s' words h) hs

theorem config_reachable_wf {E : command_env} {cl : List zserv} {rt : Prefix → List rib}
    {s : zebra} (h : config_reachable E cl rt s) : config_wf E s := by
  induction h with
  | start => exact fresh_engine_config_wf E cl rt
  | command s s' words _ hl ih => exact config_line_wf E s s' words ih hl

/-! ## Replaying the lines of the written configuration -/

theorem config_replay_append (E : command_env) (a b : List (List String)) (s : zebra) :
    config_replay E (a ++ b) s = (config_replay E a s).bind (config_replay E b) := by
  induction a generalizing s with
  | nil => rfl
  | cons l t ih =>
    show (config_line E s l).bind (config_replay E (t ++ b)) =
      ((config_line E s l).bind (config_replay E t)).bind (config_replay E b)
    cases config_line E s l with
    | none => rfl
    | some s1 => exact ih s1

theorem config_line_mpls_ip (E : command_env) (s : zebra) :
    config_line E s ["mpls", "ip"] = some (mpls_ip E.iflist s).2 := by
  unfold config_line
  rw [cmd_match_mpls_ip]
  rfl

theorem config_line_comment (E : command_env) (s : zebra) :
    config_line E s ["!"] = some s := by
  unfold config_line
  rw [cmd_match_comment]

theorem vty_get_prefix_text (V : vty_env) (p : Prefix)
    (h1 : V.str2prefix (V.prefix2str p) = some p) (h2 : V.apply_mask p = p) :
    vty_get_prefix V (V.prefix2str p) none = some p := by
  unfold vty_get_prefix
  rw [h1]
  dsimp only
  rw [h2]

theorem config_line_input (E : command_env) (s : zebra) (p : Prefix) (L : Nat)
    (hmax : 4294967295 ≤ E.ulong_max) (hL : in_label_ok L)
    (hp : E.cmd_ipv4_prefix_match (E.V.prefix2str p) = true)
    (h1 : E.V.str2prefix (E.V.prefix2str p) = some p) (h2 : E.V.apply_mask p = p) :
    config_line E s (config_input_line E.V p L) =
      some (mpls_prefix_set_static_input_label E.K s p L) := by
  unfold config_line config_input_line
  rw [cmd_match_input_line E _ _ hp
    (cmd_range_match_sprintf E.ulong_max 16 1048575 L (by have := hL.2; omega) hL.1 hL.2)]
  show (vty_mpls_static_binding_input E s true _ none (some _)).map Prod.snd = _
  unfold vty_mpls_static_binding_input
  rw [vty_get_prefix_text E.V p h1 h2]
  simp only [if_true, Option.map_some']
  rw [label_value_sprintf E.ulong_max L hmax (by have := hL.2; omega)]

theorem out_token_str (E : command_env) (L : Nat) (hmax : 4294967295 ≤ E.ulong_max)
    (hL : out_label_ok L) :
    token_match E out_label_token (vty_label_str L false) = true := by
  show (cmd_range_match E.ulong_max 16 1048575 (vty_label_str L false)
    || vty_label_str L false == "explicit-null"
    || vty_label_str L false == "implicit-null") = true
  rcases hL with hL | hL | hL
  · have h0 : L ≠ 0 := by have := hL.1; omega
    have h3 : L ≠ 3 := by have := hL.1; omega
    have hstr : vty_label_str L false = sprintf_u L := by
      unfold vty_label_str
      rw [if_neg (by simpa [MPLS_IMPLICIT_NULL] using h3),
        if_neg (by simpa [MPLS_IPV4_EXPLICIT_NULL] using h0)]
    rw [hstr, cmd_range_match_sprintf E.ulong_max 16 1048575 L (by have := hL.2; omega)
      hL.1 hL.2]
    rfl
  · subst hL
    simp [vty_label_str, MPLS_IMPLICIT_NULL, MPLS_IPV4_EXPLICIT_NULL]
  · subst hL
    simp [vty_label_str, MPLS_IMPLICIT_NULL]

theorem out_label_ok_lt {L : Nat} (h : out_label_ok L) : L < 4294967296 := by
  rcases h with h | h | h
  · have := h.2; omega
  · omega
  · omega

theorem config_line_output (E : command_env) (s : zebra) (p : Prefix) (lsp : route_lsp)
    (hmax : 4294967295 ≤ E.ulong_max) (hL : out_label_ok lsp.remote_label)
    (hp : E.cmd_ipv4_prefix_match (E.V.prefix2str p) = true)
    (hp2 : E.cmd_ipv4_match (E.V.prefix2str p) = false)
    (h1 : E.V.str2prefix (E.V.prefix2str p) = some p) (h2 : E.V.apply_mask p = p)
    (hn : E.cmd_ipv4_match (E.V.inet_ntoa lsp.nexthop) = true)
    (hn2 : E.V.inet_aton (E.V.inet_ntoa lsp.nexthop) = some lsp.nexthop) :
    config_line E s (config_output_line E.V p lsp) =
      some (mpls_prefix_add_static_lsp E.K E.drv s p lsp.nexthop lsp.remote_label) := by
  unfold config_line config_output_line
  rw [cmd_match_output_line E _ _ _ hp hp2 hn (out_token_str E _ hmax hL)]
  show (vty_mpls_static_binding_output E s true _ none _ (some _)).map Prod.snd = _
  unfold vty_mpls_static_binding_output
  rw [vty_get_prefix_text E.V p h1 h2]
  dsimp only
  rw [hn2]
  simp only [if_true, Option.map_some']
  rw [label_value_str E.ulong_max _ hmax (out_label_ok_lt hL)]

theorem config_line_crossconnect (E : command_env) (s : zebra) (mc : mpls_crossconnect)
    (i : interface) (hmax : 4294967295 ≤ E.ulong_max) (hin : in_label_ok mc.in_label)
    (hL : out_label_ok mc.lsp.remote_label)
    (hi : if_lookup_by_name E.iflist i.name = some i)
    (hn : E.cmd_ipv4_match (E.V.inet_ntoa mc.lsp.nexthop) = true)
    (hn2 : E.V.inet_aton (E.V.inet_ntoa mc.lsp.nexthop) = some mc.lsp.nexthop) :
    config_line E s (config_crossconnect_line E.V i.name mc) =
      some (mpls_static_crossconnect_add E.drv s mc.in_label (some i.ptr) mc.lsp.nexthop
        mc.lsp.remote_label).2 := by
  unfold config_line config_crossconnect_line
  rw [cmd_match_crossconnect_line E _ _ _ _
    (cmd_range_match_sprintf E.ulong_max 16 1048575 _ (by have := hin.2; omega) hin.1 hin.2)
    hn (out_token_str E _ hmax hL)]
  show (some (vty_mpls_static_crossconnect_add E s _ _ _ _)).map Prod.snd = _
  unfold vty_mpls_static_crossconnect_add
  rw [hi]
  dsimp only
  rw [hn2]
  simp only [Option.map_some']
  rw [label_value_str E.ulong_max _ hmax (out_label_ok_lt hL),
    label_value_sprintf E.ulong_max _ hmax (by have := hin.2; omega)]

theorem put_rn_frame (s : zebra) (p : Prefix) (c : mpls_rn) :
    (put_rn s p c).mpls_enabled = s.mpls_enabled ∧
    (put_rn s p c).mpls_crossconnect_list = s.mpls_crossconnect_list ∧
    ∀ q, q ≠ p → (put_rn s p c).table q = s.table q := by
  refine ⟨rfl, rfl, ?_⟩
  intro q hq
  rw [put_rn_table, if_neg hq]

/-- On a node without a static LSP to the next hop, `mpls_prefix_add_static_lsp`
appends the LSP and leaves the static in-label. -/
theorem add_static_lsp_fresh (K : zebra_consts) (drv : driver) (s : zebra) (p : Prefix)
    (N L : Nat) (hwf : zebra_wf s)
    (hN : ∀ x ∈ (bindings s p).static_lsps, x.nexthop ≠ N) :
    static_lsp_config (bindings (mpls_prefix_add_static_lsp K drv s p N L) p) =
      static_lsp_config (bindings s p) ++ [(N, L)] ∧
    (bindings (mpls_prefix_add_static_lsp K drv s p N L) p).static_in_label =
      (bindings s p).static_in_label ∧
    zebra_wf (mpls_prefix_add_static_lsp K drv s p N L) ∧
    (mpls_prefix_add_static_lsp K drv s p N L).mpls_enabled = s.mpls_enabled ∧
    (mpls_prefix_add_static_lsp K drv s p N L).mpls_crossconnect_list
      = s.mpls_crossconnect_list ∧
    ∀ q, q ≠ p → (mpls_prefix_add_static_lsp K drv s p N L).table q = s.table q := by
  have hw : zebra_wf (mpls_prefix_add_static_lsp K drv s p N L) :=
    step_wf K drv s (op.add_static_lsp p N L) hwf
  rw [add_static_lsp_put] at hw ⊢
  have hf := put_rn_frame s p (add_static_lsp_rn K drv (rn_of s p) N L)
  have hfr := add_static_lsp_rn_frame K drv (rn_of s p) N L
  have hlb := rn_of_wf s p hwf
  have hpd : ((rn_of s p).lb.static_lsps.map (fun y => y.ptr)).Nodup := by
    have := hlb.1
    unfold lsps at this
    exact (List.nodup_append.1 (by simpa [List.map_append] using this)).1
  refine ⟨?_, ?_, hw, hf.1, hf.2.1, hf.2.2⟩
  · rw [put_rn_bindings]
    rcases add_static_lsp_rn_static K drv (rn_of s p) N L hpd hlb.2.2.2 with ⟨⟨x, hx, hxn, _⟩, _⟩ |
      ⟨_, he⟩
    · exact absurd hxn (hN x hx)
    · unfold static_lsp_config
      rw [he, List.map_append]
      have hfil : (rn_of s p).lb.static_lsps.filter (fun y => y.nexthop != N) =
          (rn_of s p).lb.static_lsps := by
        rw [List.filter_eq_self]
        intro x hx
        simpa using hN x hx
      rw [hfil]
      rfl
  · rw [put_rn_bindings]
    exact hfr.2.1.1

theorem set_static_fresh (K : zebra_consts) (s : zebra) (p : Prefix) (L : Nat)
    (hwf : zebra_wf s) :
    (bindings (mpls_prefix_set_static_input_label K s p L) p).static_in_label = L ∧
    (bindings (mpls_prefix_set_static_input_label K s p L) p).static_lsps =
      (bindings s p).static_lsps ∧
    zebra_wf (mpls_prefix_set_static_input_label K s p L) ∧
    (mpls_prefix_set_static_input_label K s p L).mpls_enabled = s.mpls_enabled ∧
    (mpls_prefix_set_static_input_label K s p L).mpls_crossconnect_list
      = s.mpls_crossconnect_list ∧
    ∀ q, q ≠ p → (mpls_prefix_set_static_input_label K s p L).table q = s.table q := by
  have hw : zebra_wf (mpls_prefix_set_static_input_label K s p L) :=
    step_wf K null_driver s (op.set_static_input_label p L) hwf
  rw [set_static_input_label_put] at hw ⊢
  have hf := put_rn_frame s p (set_static_input_label_rn K (rn_of s p) L)
  have hc := set_static_rn_config K (rn_of s p) L
  refine ⟨?_, ?_, hw, hf.1, hf.2.1, hf.2.2⟩
  · rw [put_rn_bindings]; exact hc.1
  · rw [put_rn_bindings]; exact hc.2

/-- Replaying the output lines written for the static LSPs `l` of a prefix
appends LSPs with their next hops and labels, in list order, and keeps every
property `I` that `mpls_prefix_add_static_lsp` keeps. -/
theorem replay_lsps (E : command_env) (p : Prefix) (hmax : 4294967295 ≤ E.ulong_max)
    (I : zebra → Prop)
    (hadd : ∀ t N L, I t → I (mpls_prefix_add_static_lsp E.K E.drv t p N L))
    (hp : E.cmd_ipv4_prefix_match (E.V.prefix2str p) = true)
    (hp2 : E.cmd_ipv4_match (E.V.prefix2str p) = false)
    (h1 : E.V.str2prefix (E.V.prefix2str p) = some p) (h2 : E.V.apply_mask p = p)
    (l : List route_lsp) :
    ∀ t : zebra, I t → zebra_wf t → (l.map (fun x => x.nexthop)).Nodup →
      (∀ x ∈ l, ∀ y ∈ (bindings t p).static_lsps, y.nexthop ≠ x.nexthop) →
      (∀ x ∈ l, out_label_ok x.remote_label ∧
        E.cmd_ipv4_match (E.V.inet_ntoa x.nexthop) = true ∧
        E.V.inet_aton (E.V.inet_ntoa x.nexthop) = some x.nexthop) →
      ∃ t', config_replay E (l.map (config_output_line E.V p)) t = some t' ∧ I t' ∧
        static_lsp_config (bindings t' p) = static_lsp_config (bindings t p)
          ++ l.map (fun x => (x.nexthop, x.remote_label)) ∧
        (bindings t' p).static_in_label = (bindings t p).static_in_label ∧
        zebra_wf t' ∧ t'.mpls_enabled = t.mpls_enabled ∧
        t'.mpls_crossconnect_list = t.mpls_crossconnect_list ∧
        ∀ q, q ≠ p → t'.table q = t.table q := by
  induction l with
  | nil =>
    intro t hI hwf _ _ _
    exact ⟨t, rfl, hI, by simp, rfl, hwf, rfl, rfl, fun _ _ => rfl⟩
  | cons a rest ih =>
    intro t hI hwf hnd hnew hok
    rw [List.map_cons, List.nodup_cons] at hnd
    have ha := hok a (List.mem_cons_self _ _)
    have hline := config_line_output E t p a hmax ha.1 hp hp2 h1 h2 ha.2.1 ha.2.2
    have hadd := add_static_lsp_fresh E.K E.drv t p a.nexthop a.remote_label hwf
      (hnew a (List.mem_cons_self _ _))
    obtain ⟨g1, g2, g3, g4, g5, g6⟩ := hadd
    have hnew2 : ∀ x ∈ rest, ∀ y ∈ (bindings
        (mpls_prefix_add_static_lsp E.K E.drv t p a.nexthop a.remote_label) p).static_lsps,
        y.nexthop ≠ x.nexthop := by
      intro x hx y hy
      have hy2 : (y.nexthop, y.remote_label) ∈ static_lsp_config (bindings
          (mpls_prefix_add_static_lsp E.K E.drv t p a.nexthop a.remote_label) p) :=
        List.mem_map_of_mem _ hy
      rw [g1] at hy2
      rcases List.mem_append.1 hy2 with hy3 | hy3
      · obtain ⟨z, hz, hzy⟩ := List.mem_map.1 hy3
        have hzn : z.nexthop = y.nexthop := congrArg Prod.fst hzy
        rw [← hzn]
        exact hnew x (List.mem_cons_of_mem _ hx) z hz
      · have hyn : y.nexthop = a.nexthop := congrArg Prod.fst (List.mem_singleton.1 hy3)
        rw [hyn]
        intro hax
        apply hnd.1
        rw [hax]
        exact List.mem_map_of_mem _ hx
    obtain ⟨t', r1, rI, r2, r3, r4, r5, r6, r7⟩ := ih _ (hadd t _ _ hI) g3 hnd.2 hnew2
      (fun x hx => hok x (List.mem_cons_of_mem _ hx))
    refine ⟨t', ?_, rI, ?_, r3.trans g2, r4, r5.trans g4, r6.trans g5, ?_⟩
    · show (config_line E t (config_output_line E.V p a)).bind _ = _
      rw [hline]
      exact r1
    · rw [r2, g1, List.append_assoc]
      rfl
    · intro q hq
      rw [r7 q hq, g6 q hq]

theorem bindings_of_none {s : zebra} {p : Prefix} (h : (s.table p).mpls = none) :
    bindings s p = label_bindings_new := by
  unfold bindings; rw [h]; rfl

/-- Replaying the lines written for the node of `p` on a state whose node of
`p` has no bindings record gives the node the static in-label and the static
LSPs of `s`, and keeps every property `I` that the two engine functions
keep. -/
theorem replay_block (E : command_env) (s t : zebra) (p : Prefix)
    (hmax : 4294967295 ≤ E.ulong_max) (hs : config_wf E s) (I : zebra → Prop)
    (hadd : ∀ t N L, I t → I (mpls_prefix_add_static_lsp E.K E.drv t p N L))
    (hset : ∀ t, I t → (t.table p).mpls = none →
      (bindings s p).static_in_label ≠ NO_LABEL →
      I (mpls_prefix_set_static_input_label E.K t p (bindings s p).static_in_label))
    (hI : I t)
    (hp : E.cmd_ipv4_prefix_match (E.V.prefix2str p) = true)
    (hp2 : E.cmd_ipv4_match (E.V.prefix2str p) = false)
    (h1 : E.V.str2prefix (E.V.prefix2str p) = some p) (h2 : E.V.apply_mask p = p)
    (hn : ∀ lsp ∈ (bindings s p).static_lsps,
      E.cmd_ipv4_match (E.V.inet_ntoa lsp.nexthop) = true ∧
      E.V.inet_aton (E.V.inet_ntoa lsp.nexthop) = some lsp.nexthop)
    (hwf : zebra_wf t) (hnone : (t.table p).mpls = none) :
    ∃ t', config_replay E (config_block E.V s p) t = some t' ∧ I t' ∧
      (bindings t' p).static_in_label = (bindings s p).static_in_label ∧
      static_lsp_config (bindings t' p) = static_lsp_config (bindings s p) ∧
      zebra_wf t' ∧ t'.mpls_enabled = t.mpls_enabled ∧
      t'.mpls_crossconnect_list = t.mpls_crossconnect_list ∧
      ∀ q, q ≠ p → t'.table q = t.table q := by
  have htn := bindings_of_none hnone
  cases hm : (s.table p).mpls with
  | none =>
    have hb : config_block E.V s p = [] := by unfold config_block; rw [hm]
    rw [hb, bindings_of_none hm]
    exact ⟨t, rfl, hI, by rw [htn], by rw [htn], hwf, rfl, rfl, fun _ _ => rfl⟩
  | some lb =>
    have hbs := bindings_of_some hm
    rw [hbs] at hn hset ⊢
    have hb : config_block E.V s p =
        (if lb.static_in_label ≠ NO_LABEL then [config_input_line E.V p lb.static_in_label]
         else []) ++ lb.static_lsps.map (config_output_line E.V p) := by
      unfold config_block; rw [hm]
    have hok := hs.2.2.2.1 p lb hm
    have hnd := (hs.1 p lb hm).2.2.2
    have hall : ∀ x ∈ lb.static_lsps, out_label_ok x.remote_label ∧
        E.cmd_ipv4_match (E.V.inet_ntoa x.nexthop) = true ∧
        E.V.inet_aton (E.V.inet_ntoa x.nexthop) = some x.nexthop :=
      fun x hx => ⟨hok.2 x hx, hn x hx⟩
    rw [hb]
    by_cases hl : lb.static_in_label = NO_LABEL
    · rw [if_neg (not_not.2 hl), List.nil_append]
      obtain ⟨t', r1, rI, r2, r3, r4, r5, r6, r7⟩ := replay_lsps E p hmax I hadd hp hp2 h1 h2
        lb.static_lsps t hI hwf hnd (by rw [htn]; intro x _ y hy; cases hy) hall
      refine ⟨t', r1, rI, ?_, ?_, r4, r5, r6, r7⟩
      · rw [r3, htn, hl]; rfl
      · rw [r2, htn]; rfl
    · rw [if_pos hl]
      have hin : in_label_ok lb.static_in_label := by
        rcases hok.1 with h | h
        · exact absurd h hl
        · exact h
      have hline := config_line_input E t p lb.static_in_label hmax hin hp h1 h2
      obtain ⟨g1, g2, g3, g4, g5, g6⟩ := set_static_fresh E.K t p lb.static_in_label hwf
      have hempty : (bindings (mpls_prefix_set_static_input_label E.K t p lb.static_in_label)
          p).static_lsps = [] := by rw [g2, htn]; rfl
      obtain ⟨t', r1, rI, r2, r3, r4, r5, r6, r7⟩ := replay_lsps E p hmax I hadd hp hp2 h1 h2
        lb.static_lsps _ (hset t hI hnone hl) g3 hnd
        (by rw [hempty]; intro x _ y hy; cases hy) hall
      refine ⟨t', ?_, rI, r3.trans g1, ?_, r4, r5.trans g4, r6.trans g5, ?_⟩
      · show (config_line E t (config_input_line E.V p lb.static_in_label)).bind _ = _
        rw [hline]
        exact r1
      · rw [r2]
        unfold static_lsp_config
        rw [hempty]
        rfl
      · intro q hq
        rw [r7 q hq, g6 q hq]

/-- Replaying the lines written for the nodes `ns`, none of which has a
bindings record yet, gives each of them the static in-label and the static
LSPs of `s` and leaves the other nodes. -/
theorem replay_nodes (E : command_env) (s : zebra) (hmax : 4294967295 ≤ E.ulong_max)
    (hs : config_wf E s) (I : zebra → Prop)
    (hadd : ∀ p t N L, I t → I (mpls_prefix_add_static_lsp E.K E.drv t p N L))
    (hset : ∀ p t, I t → (t.table p).mpls = none →
      (bindings s p).static_in_label ≠ NO_LABEL →
      I (mpls_prefix_set_static_input_label E.K t p (bindings s p).static_in_label))
    (ns : List Prefix) :
    ∀ t : zebra, I t → ns.Nodup → text_round_trip E ns s → zebra_wf t →
      (∀ p ∈ ns, (t.table p).mpls = none) →
      ∃ t', config_replay E ((ns.map (config_block E.V s)).flatten) t = some t' ∧ I t' ∧
        (∀ p ∈ ns, (bindings t' p).static_in_label = (bindings s p).static_in_label ∧
          static_lsp_config (bindings t' p) = static_lsp_config (bindings s p)) ∧
        zebra_wf t' ∧ t'.mpls_enabled = t.mpls_enabled ∧
        t'.mpls_crossconnect_list = t.mpls_crossconnect_list ∧
        ∀ q, q ∉ ns → t'.table q = t.table q := by
  induction ns with
  | nil =>
    intro t hI _ _ hwf _
    exact ⟨t, rfl, hI, fun p hp => (by cases hp), hwf, rfl, rfl, fun _ _ => rfl⟩
  | cons p rest ih =>
    intro t hI hnd htext hwf hnone
    rw [List.nodup_cons] at hnd
    have hp := htext.1 p (List.mem_cons_self _ _)
    obtain ⟨t1, b1, bI, b2, b3, b4, b5, b6, b7⟩ := replay_block E s t p hmax hs I (hadd p)
      (hset p) hI hp.1 hp.2.1 hp.2.2.1 hp.2.2.2.1 hp.2.2.2.2 hwf
      (hnone p (List.mem_cons_self _ _))
    have hnone1 : ∀ q ∈ rest, (t1.table q).mpls = none := by
      intro q hq
      have hqp : q ≠ p := fun h => hnd.1 (h ▸ hq)
      rw [b7 q hqp]
      exact hnone q (List.mem_cons_of_mem _ hq)
    obtain ⟨t', r1, rI, r2, r3, r4, r5, r6⟩ := ih t1 bI hnd.2
      ⟨fun q hq => htext.1 q (List.mem_cons_of_mem _ hq), htext.2⟩ b4 hnone1
    refine ⟨t', ?_, rI, ?_, r3, r4.trans b5, r5.trans b6, ?_⟩
    · rw [List.map_cons, List.flatten_cons, config_replay_append, b1]
      exact r1
    · intro q hq
      rcases List.mem_cons.1 hq with hq | hq
      · subst hq
        rw [bindings_congr (r6 q hnd.1)]
        exact ⟨b2, b3⟩
      · exact r2 q hq
    · intro q hq
      rw [List.mem_cons, not_or] at hq
      rw [r6 q hq.2, b7 q hq.1]
/-- The name `mpls_config_write` prints for a cross-connect whose interface
was found by `if_lookup_by_name`, interface objects having distinct
addresses. -/
theorem ifp_name_of_lookup (iflist : List interface) (i : interface)
    (hptr : (iflist.map (fun x => x.ptr)).Nodup)
    (hi : if_lookup_by_name iflist i.name = some i) :
    (some i.ptr).bind (if_deref iflist) = some i ∧ ifp_name iflist (some i.ptr) = i.name := by
  have hmem : i ∈ iflist := List.mem_of_find?_eq_some hi
  have hd : if_deref iflist i.ptr = some i := by
    unfold if_deref
    cases hf : iflist.find? (fun x => x.ptr == i.ptr) with
    | none =>
      have := List.find?_eq_none.1 hf i hmem
      simp at this
    | some j =>
      have hj : j ∈ iflist := List.mem_of_find?_eq_some hf
      have hjp : j.ptr = i.ptr := by simpa using List.find?_some hf
      rw [List.inj_on_of_nodup_map hptr hj hmem hjp]
  constructor
  · exact hd
  · unfold ifp_name
    rw [show (some i.ptr).bind (if_deref iflist) = if_deref iflist i.ptr from rfl, hd]

/-- Replaying the lines written for the cross-connects `l`, none of whose
incoming labels is in the table yet, appends entries with their content, in
list order. -/
theorem replay_crossconnects (E : command_env) (hmax : 4294967295 ≤ E.ulong_max)
    (hptr : (E.iflist.map (fun x => x.ptr)).Nodup) (I : zebra → Prop)
    (l : List mpls_crossconnect) :
    ∀ u : zebra, I u → xc_wf u → (l.map (fun mc => mc.in_label)).Nodup →
      (∀ mc ∈ l, ∀ (t : zebra) (i : interface), I t →
        (∀ x ∈ t.mpls_crossconnect_list, x.in_label ≠ mc.in_label) →
        I (mpls_static_crossconnect_add E.drv t mc.in_label (some i.ptr) mc.lsp.nexthop
          mc.lsp.remote_label).2) →
      (∀ mc ∈ l, ∀ x ∈ u.mpls_crossconnect_list, x.in_label ≠ mc.in_label) →
      (∀ mc ∈ l, in_label_ok mc.in_label ∧ out_label_ok mc.lsp.remote_label ∧
        (∃ i, if_lookup_by_name E.iflist i.name = some i ∧ mc.lsp.ifp = some i.ptr) ∧
        E.cmd_ipv4_match (E.V.inet_ntoa mc.lsp.nexthop) = true ∧
        E.V.inet_aton (E.V.inet_ntoa mc.lsp.nexthop) = some mc.lsp.nexthop) →
      ∃ u', config_replay E
          (l.map (fun mc => config_crossconnect_line E.V (ifp_name E.iflist mc.lsp.ifp) mc)) u
          = some u' ∧ I u' ∧
        crossconnect_config u' = crossconnect_config u
          ++ l.map (fun mc => (mc.in_label, mc.lsp.ifp, mc.lsp.nexthop, mc.lsp.remote_label)) ∧
        u'.table = u.table ∧ u'.mpls_enabled = u.mpls_enabled := by
  induction l with
  | nil =>
    intro u hI _ _ _ _ _
    exact ⟨u, rfl, hI, by simp, rfl, rfl⟩
  | cons a rest ih =>
    intro u hI hwf hnd hxc hnew hok
    rw [List.map_cons, List.nodup_cons] at hnd
    obtain ⟨hin, hout, ⟨i, hi, hifp⟩, hn, hn2⟩ := hok a (List.mem_cons_self _ _)
    have hname := (ifp_name_of_lookup E.iflist i hptr hi).2
    have hline := config_line_crossconnect E u a i hmax hin hout hi hn hn2
    have hloop := crossconnect_add_loop_absent a.in_label (some i.ptr) a.lsp.nexthop
      a.lsp.remote_label u.mpls_crossconnect_list u (hnew a (List.mem_cons_self _ _))
    have hlist := (crossconnect_add_of_loop E.drv u u a.in_label (some i.ptr) a.lsp.nexthop
      a.lsp.remote_label hloop).1
    have ht := crossconnect_add_table E.drv u u a.in_label (some i.ptr) a.lsp.nexthop
      a.lsp.remote_label hloop
    have he := crossconnect_add_enabled E.drv u u a.in_label (some i.ptr) a.lsp.nexthop
      a.lsp.remote_label hloop
    have hwf2 := crossconnect_add_wf E.drv u a.in_label (some i.ptr) a.lsp.nexthop
      a.lsp.remote_label hwf
    have hnew2 : ∀ mc ∈ rest, ∀ x ∈ (mpls_static_crossconnect_add E.drv u a.in_label
        (some i.ptr) a.lsp.nexthop a.lsp.remote_label).2.mpls_crossconnect_list,
        x.in_label ≠ mc.in_label := by
      intro mc hmc x hx
      rw [hlist] at hx
      rcases List.mem_append.1 hx with hx | hx
      · exact hnew mc (List.mem_cons_of_mem _ hmc) x hx
      · rw [List.mem_singleton.1 hx]
        intro hq
        apply hnd.1
        have hq2 : a.in_label = mc.in_label := hq
        rw [hq2]
        exact List.mem_map_of_mem _ hmc
    obtain ⟨u', r1, rI, r2, r3, r4⟩ := ih _
      (hxc a (List.mem_cons_self _ _) u i hI (hnew a (List.mem_cons_self _ _))) hwf2 hnd.2
      (fun mc hmc => hxc mc (List.mem_cons_of_mem _ hmc)) hnew2
      (fun mc hmc => hok mc (List.mem_cons_of_mem _ hmc))
    refine ⟨u', ?_, rI, ?_, r3.trans ht, r4.trans he⟩
    · show (config_line E u (config_crossconnect_line E.V (ifp_name E.iflist a.lsp.ifp) a)).bind
        _ = _
      rw [hifp, hname, hline]
      exact r1
    · rw [r2]
      unfold crossconnect_config
      rw [hlist]
      simp only [List.map_cons, List.map_append, List.map_nil, List.append_assoc,
        List.singleton_append, hifp]
      rfl

theorem mpls_config_write_eq (V : vty_env) (iflist : List interface) (nodes : List Prefix)
    (s : zebra)
    (hif : ∀ mc ∈ s.mpls_crossconnect_list, mc.lsp.ifp.bind (if_deref iflist) ≠ none) :
    mpls_config_write V iflist nodes s =
      some (0, (if s.mpls_enabled ≠ 0 then [["mpls", "ip"], ["!"]] else [])
        ++ (nodes.map (config_block V s)).flatten
        ++ s.mpls_crossconnect_list.map
            (fun mc => config_crossconnect_line V (ifp_name iflist mc.lsp.ifp) mc)
        ++ [["!"]]) := by
  unfold mpls_config_write
  dsimp only
  rw [config_write_bindings_eq, config_write_crossconnects_eq V iflist _ _ hif]

theorem fresh_engine_wf (cl : List zserv) (rt : Prefix → List rib) :
    zebra_wf (fresh_engine cl rt) := by
  intro p lb hp
  cases hp

/-- The configuration round trip, for a state that is well formed in the
sense of `config_wf`; the replay keeps every property `I` of the fresh engine
that the calls of the replay keep. -/
theorem config_round_trip (E : command_env) (cl : List zserv) (rt : Prefix → List rib)
    (nodes : List Prefix) (s : zebra) (hmax : 4294967295 ≤ E.ulong_max)
    (hptr : (E.iflist.map (fun x => x.ptr)).Nodup) (hs : config_wf E s)
    (hnd : nodes.Nodup) (hnodes : ∀ p, (s.table p).mpls ≠ none → p ∈ nodes)
    (htext : text_round_trip E nodes s) (I : zebra → Prop)
    (hI0 : I (fresh_engine cl rt)) (hip : ∀ t, I t → I (mpls_ip E.iflist t).2)
    (hadd : ∀ p t N L, I t → I (mpls_prefix_add_static_lsp E.K E.drv t p N L))
    (hset : ∀ p t, I t → (t.table p).mpls = none →
      (bindings s p).static_in_label ≠ NO_LABEL →
      I (mpls_prefix_set_static_input_label E.K t p (bindings s p).static_in_label))
    (hxc : ∀ mc ∈ s.mpls_crossconnect_list, ∀ (t : zebra) (i : interface), I t →
      (∀ x ∈ t.mpls_crossconnect_list, x.in_label ≠ mc.in_label) →
      I (mpls_static_crossconnect_add E.drv t mc.in_label (some i.ptr) mc.lsp.nexthop
        mc.lsp.remote_label).2) :
    ∃ lines s', mpls_config_write E.V E.iflist nodes s = some (0, lines) ∧
      config_replay E lines (fresh_engine cl rt) = some s' ∧ same_config s s' ∧ I s' := by
  have hif : ∀ mc ∈ s.mpls_crossconnect_list, mc.lsp.ifp.bind (if_deref E.iflist) ≠ none := by
    intro mc hmc
    obtain ⟨_, _, i, hi, hifp⟩ := hs.2.2.2.2 mc hmc
    rw [hifp, (ifp_name_of_lookup E.iflist i hptr hi).1]
    exact Option.some_ne_none _
  have hA : ∃ t0, config_replay E (if s.mpls_enabled ≠ 0 then [["mpls", "ip"], ["!"]] else [])
      (fresh_engine cl rt) = some t0 ∧ I t0 ∧ t0.table = (fresh_engine cl rt).table ∧
      t0.mpls_crossconnect_list = [] ∧ t0.mpls_enabled = s.mpls_enabled := by
    by_cases he : s.mpls_enabled = 0
    · rw [if_neg (not_not.2 he)]
      exact ⟨_, rfl, hI0, rfl, rfl, he.symm⟩
    · rw [if_pos he]
      have hf := mpls_ip_frame E.iflist (fresh_engine cl rt)
      refine ⟨(mpls_ip E.iflist (fresh_engine cl rt)).2, ?_, hip _ hI0, hf.1, hf.2.1, ?_⟩
      · show (config_line E _ ["mpls", "ip"]).bind _ = _
        rw [config_line_mpls_ip]
        show (config_line E _ ["!"]).bind _ = _
        rw [config_line_comment]
        rfl
      · rw [hf.2.2.2]
        rcases hs.2.2.1 with h | h
        · exact absurd h he
        · rw [h]; rfl
  obtain ⟨t0, a1, aI, a2, a3, a4⟩ := hA
  have hwf0 : zebra_wf t0 := by
    intro p lb hp
    rw [a2] at hp
    cases hp
  obtain ⟨t1, b1, bI, b2, b3, b4, b5, b6⟩ := replay_nodes E s hmax hs I hadd hset nodes t0 aI
    hnd htext hwf0 (fun p _ => by rw [a2]; rfl)
  have hwf1 : xc_wf t1 := by
    unfold xc_wf
    rw [b5, a3]
    exact ⟨List.nodup_nil, List.nodup_nil, fun mc hmc => by cases hmc⟩
  obtain ⟨t2, c1, cI, c2, c3, c4⟩ := replay_crossconnects E hmax hptr I
    s.mpls_crossconnect_list t1 bI hwf1 hs.2.1.1 hxc
    (by rw [b5, a3]; intro mc _ x hx; cases hx)
    (fun mc hmc => ⟨(hs.2.2.2.2 mc hmc).1, (hs.2.2.2.2 mc hmc).2.1, (hs.2.2.2.2 mc hmc).2.2,
      htext.2 mc hmc⟩)
  refine ⟨_, t2, mpls_config_write_eq E.V E.iflist nodes s hif, ?_,
    ⟨c4.trans (b4.trans a4), ?_, ?_⟩, cI⟩
  · rw [config_replay_append, config_replay_append, config_replay_append, a1]
    show ((config_replay E _ t0).bind _).bind _ = _
    rw [b1]
    show (config_replay E _ t1).bind _ = _
    rw [c1]
    show (config_line E t2 ["!"]).bind _ = _
    rw [config_line_comment]
    rfl
  · intro p
    rw [bindings_congr (congrFun c3 p)]
    by_cases hp : p ∈ nodes
    · exact b2 p hp
    · have hsn : (s.table p).mpls = none := by
        by_contra h
        exact hp (hnodes p h)
      have htn : (t1.table p).mpls = none := by
        rw [b6 p hp, a2]; rfl
      rw [bindings_of_none hsn, bindings_of_none htn]
      exact ⟨rfl, rfl⟩
  · rw [c2]
    unfold crossconnect_config
    rw [b5, a3]
    rfl

/-! ## Runs of configuration lines -/

theorem config_reachable_replay {E : command_env} {cl : List zserv} {rt : Prefix → List rib}
    (lines : List (List String)) :
    ∀ s s', config_reachable E cl rt s → config_replay E lines s = some s' →
      config_reachable E cl rt s' := by
  induction lines with
  | nil =>
    intro s s' hs h
    injection h with h
    rw [← h]; exact hs
  | cons l rest ih =>
    intro s s' hs h
    have h2 : (config_line E s l).bind (config_replay E rest) = some s' := h
    cases hl : config_line E s l with
    | none => rw [hl] at h2; cases h2
    | some s1 =>
      rw [hl] at h2
      exact ih s1 s' (config_reachable.command s s1 l hs hl) h2

theorem crossconnect_add_loop_table (in_label : Nat) (ifp : Option Nat)
    (nexthop out_label : Nat) (l : List mpls_crossconnect) :
    ∀ s, (crossconnect_add_loop in_label ifp nexthop out_label l s).2.table = s.table := by
  induction l with
  | nil => intro s; rfl
  | cons a t ih =>
    intro s
    unfold crossconnect_add_loop
    split
    · split
      · rfl
      · rw [ih, crossconnect_remove_table]
    · exact ih s

/-- The cross-connect functions leave the route table. -/
theorem crossconnect_add_table_any (drv : driver) (s : zebra) (in_label : Nat)
    (ifp : Option Nat) (nexthop out_label : Nat) :
    (mpls_static_crossconnect_add drv s in_label ifp nexthop out_label).2.table = s.table := by
  have hl := crossconnect_add_loop_table in_label ifp nexthop out_label
    s.mpls_crossconnect_list s
  cases hr : crossconnect_add_loop in_label ifp nexthop out_label s.mpls_crossconnect_list s with
  | mk b s1 =>
    rw [hr] at hl
    cases b
    · rw [crossconnect_add_table drv s s1 in_label ifp nexthop out_label hr]
      exact hl
    · unfold mpls_static_crossconnect_add
      rw [hr]
      exact hl

/-! ## States formed by the configuration commands alone -/

theorem static_only_congr (rt : Prefix → List rib) (s s' : zebra) (h : static_only rt s)
    (ht : s'.table = s.table) : static_only rt s' := by
  refine ⟨fun p => ?_, fun p => ?_⟩
  · rw [bindings_congr (congrFun ht p)]; exact h.1 p
  · rw [ht]; exact h.2 p

theorem static_only_put (rt : Prefix → List rib) (s : zebra) (p : Prefix) (c : mpls_rn)
    (h : static_only rt s)
    (hc : c.lb.ldp_in_label = NO_LABEL ∧ c.lb.selected_in_label = c.lb.static_in_label) :
    static_only rt (put_rn s p c) := by
  refine ⟨fun q => ?_, fun q => ?_⟩
  · by_cases hq : q = p
    · subst hq
      rw [put_rn_bindings]; exact hc
    · rw [bindings_congr ((put_rn_frame s p c).2.2 q hq)]; exact h.1 q
  · rw [put_rn_table]
    by_cases hq : q = p
    · subst hq
      rw [if_pos rfl]; exact h.2 q
    · rw [if_neg hq]; exact h.2 q

theorem static_only_same (rt : Prefix → List rib) (s : zebra) (p : Prefix) (c : mpls_rn)
    (h : static_only rt s) (hc : same_in_labels (bindings s p) c.lb) :
    static_only rt (put_rn s p c) :=
  static_only_put rt s p c h ⟨by rw [hc.2.1]; exact (h.1 p).1,
    by rw [hc.2.2, hc.1]; exact (h.1 p).2⟩

theorem set_static_static_only (rt : Prefix → List rib) (K : zebra_consts) (s : zebra)
    (p : Prefix) (L : Nat) (h : static_only rt s) :
    static_only rt (mpls_prefix_set_static_input_label K s p L) := by
  rw [set_static_input_label_put]
  apply static_only_put rt s p _ h
  rw [set_static_input_label_rn_eq]
  split
  · exact h.1 p
  · exact ⟨(h.1 p).1, rfl⟩

theorem remove_static_static_only (rt : Prefix → List rib) (K : zebra_consts) (s : zebra)
    (p : Prefix) (L : Nat) (h : static_only rt s) :
    static_only rt (mpls_prefix_remove_static_input_label K s p L) := by
  rw [remove_static_input_label_put]
  apply static_only_put rt s p _ h
  rw [remove_static_input_label_rn_eq]
  split
  · exact h.1 p
  · split
    · exact h.1 p
    · refine ⟨(h.1 p).1, ?_⟩
      show remove_static_selected K (rn_of s p) = NO_LABEL
      unfold remove_static_selected
      rw [if_pos (show (rn_of s p).lb.ldp_in_label = NO_LABEL from (h.1 p).1)]

theorem quiet_effect_static_only (E : command_env) (rt : Prefix → List rib) {s s' : zebra}
    (h : quiet_effect E s s') (hs : static_only rt s) : static_only rt s' := by
  induction h with
  | same s => exact hs
  | enable s => exact static_only_congr rt s _ hs (mpls_ip_frame E.iflist s).1
  | disable s => exact static_only_congr rt s _ hs (no_mpls_ip_frame E.iflist s).1
  | remove_in s p L => exact remove_static_static_only rt E.K s p L hs
  | add_out s p N L _ =>
    rw [add_static_lsp_put]
    exact static_only_same rt s p _ hs (add_static_lsp_rn_frame E.K E.drv (rn_of s p) N L).2.1
  | remove_out s p N =>
    rw [remove_static_lsp_put]
    exact static_only_same rt s p _ hs
      (remove_static_lsp_rn_frame E.K E.drv (rn_of s p) N).2.2.1
  | get s p =>
    rw [← put_rn_rn_of]
    exact static_only_same rt s p _ hs (same_in_labels_refl _)
  | xc_remove s L => exact static_only_congr rt s _ hs (crossconnect_remove_table s L)
  | trans s1 s2 s3 _ _ ih1 ih2 => exact ih2 (ih1 hs)

theorem config_effect_static_only (E : command_env) (rt : Prefix → List rib) {s s' : zebra}
    (h : config_effect E s s') (hs : static_only rt s) : static_only rt s' := by
  cases h with
  | quiet _ hq => exact quiet_effect_static_only E rt hq hs
  | set_in p L hL => exact set_static_static_only rt E.K s p L hs
  | xc_add in_label i nexthop out_label hin hout hi =>
    exact static_only_congr rt s _ hs (crossconnect_add_table_any E.drv s _ _ _ _)

theorem fresh_engine_static_only (cl : List zserv) (rt : Prefix → List rib) :
    static_only rt (fresh_engine cl rt) :=
  ⟨fun _ => ⟨rfl, rfl⟩, fun _ => rfl⟩

theorem config_reachable_static_only {E : command_env} {cl : List zserv}
    {rt : Prefix → List rib} {s : zebra} (h : config_reachable E cl rt s) :
    static_only rt s := by
  induction h with
  | start => exact fresh_engine_static_only cl rt
  | command s s' words _ hl ih =>
    exact config_effect_static_only E rt (config_line_effect E s s' words hl) ih
/-! ## The ILM table along runs of configuration lines -/

/-- A change of the flag, the allocation counter and of the calls other than
ILM calls keeps the ILM invariant. -/
theorem ilm_inv_congr (K : zebra_consts) (s s' : zebra) (hinv : ilm_inv K s)
    (ht : s'.table = s.table) (hx : s'.mpls_crossconnect_list = s.mpls_crossconnect_list)
    (ha : s.alloc ≤ s'.alloc) (hl : ∀ L, ilm_installed s'.log L = ilm_installed s.log L) :
    ilm_inv K s' := by
  obtain ⟨hap, hwf, hso, hilm⟩ := hinv
  have hb : ∀ q, bindings s' q = bindings s q := fun q => bindings_congr (congrFun ht q)
  refine ⟨⟨?_, ?_⟩, ⟨by rw [hx]; exact hwf.1, by rw [hx]; exact hwf.2.1, ?_⟩, ?_, ?_⟩
  · intro a b L hab hr h1 h2
    rw [hb a] at h1
    rw [hb b] at h2
    exact hap.1 a b L hab hr h1 h2
  · intro a L hr h1 mc hmc
    rw [hb a] at h1
    rw [hx] at hmc
    exact hap.2 a L hr h1 mc hmc
  · intro mc hmc
    rw [hx] at hmc
    exact Nat.lt_of_lt_of_le (hwf.2.2 mc hmc) ha
  · intro q
    rw [hb q]; exact hso q
  · intro L
    rw [hl L, hilm L]
    unfold ilm_programmed
    rw [node_part_congr K s s' L ht, hx]

theorem labelspace_calls_quiet (L : Nat) (iflist : List interface) (labelspace : Int)
    (b : Bool) : ilm_run L (labelspace_calls iflist labelspace) b = b := by
  apply ilm_run_quiet
  intro e he
  unfold labelspace_calls at he
  obtain ⟨i, _, hi⟩ := List.mem_map.1 he
  rw [← hi]
  rfl

theorem mpls_ip_ilm (iflist : List interface) (s : zebra) (L : Nat) :
    ilm_installed (mpls_ip iflist s).2.log L = ilm_installed s.log L := by
  unfold mpls_ip
  split
  · rfl
  · rw [set_labelspace_loop_eq]
    show ilm_installed (s.log ++ labelspace_calls iflist 0) L = _
    rw [ilm_installed_append, labelspace_calls_quiet]

theorem no_mpls_ip_ilm (iflist : List interface) (s : zebra) (L : Nat) :
    ilm_installed (no_mpls_ip iflist s).2.log L = ilm_installed s.log L := by
  unfold no_mpls_ip
  split
  · rfl
  · rw [set_labelspace_loop_eq]
    show ilm_installed (s.log ++ labelspace_calls iflist (-1)) L = _
    rw [ilm_installed_append, labelspace_calls_quiet]

theorem quiet_effect_ilm_inv (E : command_env) {s s' : zebra} (h : quiet_effect E s s')
    (hs : ilm_inv E.K s) : ilm_inv E.K s' := by
  induction h with
  | same s => exact hs
  | enable s =>
    have hf := mpls_ip_frame E.iflist s
    exact ilm_inv_congr E.K s _ hs hf.1 hf.2.1 (Nat.le_of_eq hf.2.2.1.symm)
      (mpls_ip_ilm E.iflist s)
  | disable s =>
    have hf := no_mpls_ip_frame E.iflist s
    exact ilm_inv_congr E.K s _ hs hf.1 hf.2.1 (Nat.le_of_eq hf.2.2.1.symm)
      (no_mpls_ip_ilm E.iflist s)
  | remove_in s p L => exact remove_static_ilm_inv E.K s p L hs
  | add_out s p N L _ =>
    exact mutator_ilm_inv E.K E.drv s (op.add_static_lsp p N L) hs rfl trivial
  | remove_out s p N =>
    exact mutator_ilm_inv E.K E.drv s (op.remove_static_lsp p N) hs rfl trivial
  | get s p =>
    rw [← put_rn_rn_of]
    exact put_rn_ilm_inv_same E.K s p _ hs (le_refl _) (same_in_labels_refl _) (fun _ => rfl)
  | xc_remove s L => exact crossconnect_remove_ilm_inv E.K s L hs
  | trans s1 s2 s3 _ _ ih1 ih2 => exact ih2 (ih1 hs)

theorem set_in_ilm_inv (K : zebra_consts) (s : zebra) (p : Prefix) (L : Nat)
    (hinv : ilm_inv K s) (hL : L ≠ NO_LABEL)
    (hap : labels_apart (mpls_prefix_set_static_input_label K s p L)) :
    ilm_inv K (mpls_prefix_set_static_input_label K s p L) := by
  refine set_static_ilm_inv K s p L hinv hL ?_
  rw [set_static_input_label_put] at hap
  have hf := put_rn_frame s p (set_static_input_label_rn K (rn_of s p) L)
  have hheld : label_held (bindings (put_rn s p (set_static_input_label_rn K (rn_of s p) L)) p)
      L := by
    left
    rw [put_rn_bindings]
    exact (set_static_rn_config K (rn_of s p) L).1
  intro hr
  refine ⟨fun q hq h => ?_, fun mc hmc => ?_⟩
  · apply hap.1 p q L (Ne.symm hq) hr hheld
    rw [bindings_congr (hf.2.2 q hq)]
    exact h
  · exact hap.2 p L hr hheld mc hmc

theorem crossconnect_add_has_entry (drv : driver) (s : zebra) (in_label : Nat)
    (ifp : Option Nat) (nexthop out_label : Nat)
    (hnd : (s.mpls_crossconnect_list.map (fun mc => mc.in_label)).Nodup) :
    ∃ mc ∈ (mpls_static_crossconnect_add drv s in_label ifp nexthop
      out_label).2.mpls_crossconnect_list, mc.in_label = in_label := by
  have hloop := crossconnect_add_loop_eq in_label ifp nexthop out_label
    s.mpls_crossconnect_list s hnd
  have key : ∀ s1 : zebra,
      crossconnect_add_loop in_label ifp nexthop out_label s.mpls_crossconnect_list s
        = (false, s1) →
      ∃ mc ∈ (mpls_static_crossconnect_add drv s in_label ifp nexthop
        out_label).2.mpls_crossconnect_list, mc.in_label = in_label := by
    intro s1 hl
    rw [(crossconnect_add_of_loop drv s s1 in_label ifp nexthop out_label hl).1]
    exact ⟨_, List.mem_append_right _ (List.mem_singleton_self _), rfl⟩
  cases hf : s.mpls_crossconnect_list.find? (fun mc => mc.in_label == in_label) with
  | none =>
    rw [hf] at hloop
    exact key s hloop
  | some mc =>
    rw [hf] at hloop
    dsimp only at hloop
    by_cases hsame : crossconnect_same mc ifp nexthop out_label = true
    · rw [if_pos hsame] at hloop
      have hs : (mpls_static_crossconnect_add drv s in_label ifp nexthop out_label).2 = s := by
        unfold mpls_static_crossconnect_add
        rw [hloop]
      rw [hs]
      exact ⟨mc, List.mem_of_find?_eq_some hf, by simpa using List.find?_some hf⟩
    · rw [if_neg hsame] at hloop
      exact key _ hloop

theorem xc_add_ilm_inv (K : zebra_consts) (drv : driver) (hdrv : ∀ log, 0 ≤ drv log)
    (s : zebra) (in_label : Nat) (ifp : Option Nat) (nexthop out_label : Nat)
    (hinv : ilm_inv K s)
    (hap : labels_apart (mpls_static_crossconnect_add drv s in_label ifp nexthop out_label).2) :
    ilm_inv K (mpls_static_crossconnect_add drv s in_label ifp nexthop out_label).2 := by
  refine crossconnect_add_ilm_inv K drv hdrv s in_label ifp nexthop out_label hinv ?_
  intro hr q h
  obtain ⟨mc, hmc, hl⟩ := crossconnect_add_has_entry drv s in_label ifp nexthop out_label
    hinv.2.1.1
  refine hap.2 q in_label hr ?_ mc hmc hl
  rw [bindings_congr (congrFun (crossconnect_add_table_any drv s in_label ifp nexthop
    out_label) q)]
  exact h

theorem fresh_engine_ilm_inv (K : zebra_consts) (cl : List zserv) (rt : Prefix → List rib) :
    ilm_inv K (fresh_engine cl rt) := by
  have hb : ∀ q, bindings (fresh_engine cl rt) q = label_bindings_new := fun _ => rfl
  refine ⟨⟨?_, ?_⟩, ⟨List.nodup_nil, List.nodup_nil, ?_⟩, ?_, ?_⟩
  · intro a b L _ hr ha _
    rw [hb a] at ha
    rcases ha with h | h | h <;> exact hr.1 h.symm
  · intro a L hr ha
    rw [hb a] at ha
    rcases ha with h | h | h <;> exact absurd h.symm hr.1
  · intro mc hmc
    cases hmc
  · intro q
    rw [hb q]
    intro h
    exact absurd rfl h
  · intro L
    constructor
    · intro h; cases h
    · rintro (⟨hr, q, hq⟩ | ⟨_, mc, hmc, _⟩)
      · rw [hb q] at hq
        exact absurd hq.2.symm hr.1
      · cases hmc

theorem in_label_ok_ne {L : Nat} (h : in_label_ok L) : L ≠ NO_LABEL := by
  intro hL
  have := h.2
  rw [hL] at this
  exact absurd this (by decide)

theorem config_disciplined_ilm_inv {E : command_env} {cl : List zserv}
    {rt : Prefix → List rib} (hdrv : ∀ log, 0 ≤ E.drv log) {s : zebra}
    (h : config_disciplined E cl rt s) : ilm_inv E.K s := by
  induction h with
  | start => exact fresh_engine_ilm_inv E.K cl rt
  | command s s' words _ hl hap ih =>
    have he := config_line_effect E s s' words hl
    cases he with
    | quiet _ hq => exact quiet_effect_ilm_inv E hq ih
    | set_in p L hL => exact set_in_ilm_inv E.K s p L ih (in_label_ok_ne hL) hap
    | xc_add in_label i nexthop out_label hin hout hi =>
      exact xc_add_ilm_inv E.K E.drv hdrv s in_label (some i.ptr) nexthop out_label ih hap

theorem config_disciplined_reachable {E : command_env} {cl : List zserv}
    {rt : Prefix → List rib} {s : zebra} (h : config_disciplined E cl rt s) :
    config_reachable E cl rt s := by
  induction h with
  | start => exact config_reachable.start
  | command s s' words _ hl _ ih => exact config_reachable.command s s' words ih hl

/-! ## The ILM table after the replay -/

theorem held_within_congr (s t t' : zebra) (h : held_within s t) (ht : t'.table = t.table)
    (hx : t'.mpls_crossconnect_list = t.mpls_crossconnect_list) : held_within s t' := by
  refine ⟨fun q L hr hh => ?_, fun mc hmc => ?_⟩
  · rw [bindings_congr (congrFun ht q)] at hh
    exact h.1 q L hr hh
  · rw [hx] at hmc
    exact h.2 mc hmc

theorem held_within_put (s t : zebra) (p : Prefix) (c : mpls_rn) (h : held_within s t)
    (hc : ∀ L, real_label L → label_held c.lb L → label_held (bindings s p) L) :
    held_within s (put_rn t p c) := by
  refine ⟨fun q L hr hh => ?_, h.2⟩
  by_cases hq : q = p
  · subst hq
    rw [put_rn_bindings] at hh
    exact hc L hr hh
  · rw [bindings_congr ((put_rn_frame t p c).2.2 q hq)] at hh
    exact h.1 q L hr hh

theorem replay_keep_start (K : zebra_consts) (s : zebra) (cl : List zserv)
    (rt : Prefix → List rib) :
    ilm_inv K (fresh_engine cl rt) ∧ held_within s (fresh_engine cl rt) := by
  refine ⟨fresh_engine_ilm_inv K cl rt, fun q L hr hh => ?_, fun mc hmc => (by cases hmc)⟩
  exact absurd hh (label_bindings_new_free L hr)

theorem replay_keep_ip (E : command_env) (s t : zebra)
    (h : ilm_inv E.K t ∧ held_within s t) :
    ilm_inv E.K (mpls_ip E.iflist t).2 ∧ held_within s (mpls_ip E.iflist t).2 := by
  have hf := mpls_ip_frame E.iflist t
  exact ⟨ilm_inv_congr E.K t _ h.1 hf.1 hf.2.1 (Nat.le_of_eq hf.2.2.1.symm)
    (mpls_ip_ilm E.iflist t), held_within_congr s t _ h.2 hf.1 hf.2.1⟩

theorem replay_keep_add (E : command_env) (s t : zebra) (p : Prefix) (N L : Nat)
    (h : ilm_inv E.K t ∧ held_within s t) :
    ilm_inv E.K (mpls_prefix_add_static_lsp E.K E.drv t p N L) ∧
    held_within s (mpls_prefix_add_static_lsp E.K E.drv t p N L) := by
  refine ⟨mutator_ilm_inv E.K E.drv t (op.add_static_lsp p N L) h.1 rfl trivial, ?_⟩
  rw [add_static_lsp_put]
  apply held_within_put s t p _ h.2
  intro L' hr hh
  have hf := (add_static_lsp_rn_frame E.K E.drv (rn_of t p) N L).2.1
  unfold label_held at hh
  rw [hf.1, hf.2.1, hf.2.2] at hh
  exact h.2.1 p L' hr hh

theorem replay_keep_set (K : zebra_consts) (s t : zebra) (p : Prefix)
    (hap : labels_apart s) (h : ilm_inv K t ∧ held_within s t)
    (hnone : (t.table p).mpls = none) (hne : (bindings s p).static_in_label ≠ NO_LABEL) :
    ilm_inv K (mpls_prefix_set_static_input_label K t p (bindings s p).static_in_label) ∧
    held_within s (mpls_prefix_set_static_input_label K t p (bindings s p).static_in_label) := by
  have hheld : label_held (bindings s p) (bindings s p).static_in_label := Or.inl rfl
  constructor
  · refine set_static_ilm_inv K t p _ h.1 hne ?_
    intro hr
    refine ⟨fun q hq hh => ?_, fun mc hmc hl => ?_⟩
    · exact hap.1 p q _ (Ne.symm hq) hr hheld (h.2.1 q _ hr hh)
    · obtain ⟨x, hx, hxl⟩ := h.2.2 mc hmc
      exact hap.2 p _ hr hheld x hx (hxl.trans hl)
  · rw [set_static_input_label_put]
    apply held_within_put s t p _ h.2
    intro L hr hh
    have hb : (rn_of t p).lb = label_bindings_new := bindings_of_none hnone
    rw [set_static_input_label_rn_eq] at hh
    split at hh
    · rw [hb] at hh
      exact absurd hh (label_bindings_new_free L hr)
    · rcases hh with hh | hh | hh
      · have hh2 : (bindings s p).static_in_label = L := hh
        rw [← hh2]; exact hheld
      · have hh2 : (rn_of t p).lb.ldp_in_label = L := hh
        rw [hb] at hh2
        exact absurd hh2.symm hr.1
      · have hh2 : (bindings s p).static_in_label = L := hh
        rw [← hh2]; exact hheld

theorem replay_keep_xc (K : zebra_consts) (drv : driver) (hdrv : ∀ log, 0 ≤ drv log)
    (s t : zebra) (mc : mpls_crossconnect) (ifp : Option Nat) (hap : labels_apart s)
    (hmc : mc ∈ s.mpls_crossconnect_list) (h : ilm_inv K t ∧ held_within s t)
    (hnew : ∀ x ∈ t.mpls_crossconnect_list, x.in_label ≠ mc.in_label) :
    ilm_inv K (mpls_static_crossconnect_add drv t mc.in_label ifp mc.lsp.nexthop
      mc.lsp.remote_label).2 ∧
    held_within s (mpls_static_crossconnect_add drv t mc.in_label ifp mc.lsp.nexthop
      mc.lsp.remote_label).2 := by
  constructor
  · refine crossconnect_add_ilm_inv K drv hdrv t _ _ _ _ h.1 ?_
    intro hr q hh
    exact hap.2 q _ hr (h.2.1 q _ hr hh) mc hmc rfl
  · have hloop := crossconnect_add_loop_absent mc.in_label ifp mc.lsp.nexthop
      mc.lsp.remote_label t.mpls_crossconnect_list t hnew
    have hlist := (crossconnect_add_of_loop drv t t mc.in_label ifp mc.lsp.nexthop
      mc.lsp.remote_label hloop).1
    refine ⟨fun q L hr hh => ?_, fun x hx => ?_⟩
    · rw [bindings_congr (congrFun (crossconnect_add_table_any drv t _ _ _ _) q)] at hh
      exact h.2.1 q L hr hh
    · rw [hlist] at hx
      rcases List.mem_append.1 hx with hx | hx
      · exact h.2.2 x hx
      · rw [List.mem_singleton.1 hx]
        exact ⟨mc, hmc, rfl⟩

/-- Two states formed by configuration commands alone, with the same routes
and the same configuration, both with an ILM table that holds the programmed
labels, have the same ILM table. -/
theorem ilm_same_of_config (K : zebra_consts) (rt : Prefix → List rib) (s s' : zebra)
    (hs : ilm_inv K s) (hs' : ilm_inv K s') (h1 : static_only rt s) (h2 : static_only rt s')
    (hc : same_config s s') (L : Nat) :
    ilm_installed s'.log L = ilm_installed s.log L := by
  rw [Bool.eq_iff_iff, hs'.2.2.2 L, hs.2.2.2 L]
  have hnode : ∀ p, node_on K (s'.table p).info (bindings s' p) L ↔
      node_on K (s.table p).info (bindings s p) L := by
    intro p
    unfold node_on
    rw [h2.2 p, h1.2 p, (h2.1 p).2, (h1.1 p).2, (hc.2.1 p).1]
  have hin : s'.mpls_crossconnect_list.map (fun mc => mc.in_label) =
      s.mpls_crossconnect_list.map (fun mc => mc.in_label) := by
    have := congrArg (List.map Prod.fst) hc.2.2
    unfold crossconnect_config at this
    simpa [List.map_map, Function.comp] using this
  have hxc : (∃ mc ∈ s'.mpls_crossconnect_list, mc.in_label = L) ↔
      ∃ mc ∈ s.mpls_crossconnect_list, mc.in_label = L := by
    have e1 : ∀ l : List mpls_crossconnect, (∃ mc ∈ l, mc.in_label = L) ↔
        L ∈ l.map (fun mc => mc.in_label) := by
      intro l
      rw [List.mem_map]
    rw [e1, e1, hin]
  unfold ilm_programmed
  rw [hxc]
  constructor
  · rintro (⟨hr, p, hp⟩ | h)
    · exact Or.inl ⟨hr, p, (hnode p).1 hp⟩
    · exact Or.inr h
  · rintro (⟨hr, p, hp⟩ | h)
    · exact Or.inl ⟨hr, p, (hnode p).2 hp⟩
    · exact Or.inr h
/-! ## The configuration round trip -/

/-- A state in which one prefix at most has a bindings record, with in-labels
that no cross-connect has, keeps in-labels apart. -/
theorem labels_apart_single (s : zebra) (P : Prefix)
    (h1 : ∀ q, q ≠ P → (s.table q).mpls = none)
    (h2 : ∀ mc ∈ s.mpls_crossconnect_list, ¬ label_held (bindings s P) mc.in_label) :
    labels_apart s := by
  have hnew : ∀ q, q ≠ P → ∀ L, real_label L → ¬ label_held (bindings s q) L := by
    intro q hq L hr
    rw [bindings_of_none (h1 q hq)]
    exact label_bindings_new_free L hr
  refine ⟨fun p q L hpq hr hp hq => ?_, fun p L hr hp mc hmc hl => ?_⟩
  · by_cases hpP : p = P
    · exact hnew q (fun h => hpq (hpP.trans h.symm)) L hr hq
    · exact hnew p hpP L hr hp
  · by_cases hpP : p = P
    · subst hpP
      rw [← hl] at hp
      exact h2 mc hmc hp
    · exact hnew p hpP L hr hp

theorem none_off_put (s : zebra) (P : Prefix) (c : mpls_rn)
    (h : ∀ q, q ≠ P → (s.table q).mpls = none) :
    ∀ q, q ≠ P → ((put_rn s P c).table q).mpls = none := by
  intro q hq
  rw [put_rn_table, if_neg hq]
  exact h q hq

theorem demo_config_state_off :
    (∀ q, q ≠ demo_prefix → (demo_config_state1.table q).mpls = none) ∧
    (∀ q, q ≠ demo_prefix → (demo_config_state2.table q).mpls = none) ∧
    (∀ q, q ≠ demo_prefix → (demo_config_state3.table q).mpls = none) ∧
    (∀ q, q ≠ demo_prefix → (demo_config_state4.table q).mpls = none) ∧
    (∀ q, q ≠ demo_prefix → (demo_config_state.table q).mpls = none) := by
  have h1 : ∀ q, q ≠ demo_prefix → (demo_config_state1.table q).mpls = none := by
    intro q _
    unfold demo_config_state1
    rw [(mpls_ip_frame _ _).1]
    rfl
  have h2 : ∀ q, q ≠ demo_prefix → (demo_config_state2.table q).mpls = none := by
    unfold demo_config_state2
    rw [set_static_input_label_put]
    exact none_off_put _ _ _ h1
  have h3 : ∀ q, q ≠ demo_prefix → (demo_config_state3.table q).mpls = none := by
    unfold demo_config_state3
    rw [add_static_lsp_put]
    exact none_off_put _ _ _ h2
  have h4 : ∀ q, q ≠ demo_prefix → (demo_config_state4.table q).mpls = none := by
    unfold demo_config_state4
    rw [add_static_lsp_put]
    exact none_off_put _ _ _ h3
  refine ⟨h1, h2, h3, h4, ?_⟩
  intro q hq
  unfold demo_config_state
  rw [crossconnect_add_table_any]
  exact h4 q hq

theorem demo_config_state_disciplined :
    config_disciplined demo_command_env demo_clients demo_routes demo_config_state :=
  config_disciplined.command demo_config_state4 demo_config_state _
    (config_disciplined.command demo_config_state3 demo_config_state4 _
      (config_disciplined.command demo_config_state2 demo_config_state3 _
        (config_disciplined.command demo_config_state1 demo_config_state2 _
          (config_disciplined.command (fresh_engine demo_clients demo_routes)
            demo_config_state1 ["mpls", "ip"] config_disciplined.start rfl
            (labels_apart_single _ demo_prefix demo_config_state_off.1
              (by unfold label_held; decide)))
          (show config_line demo_command_env demo_config_state1
            ["mpls", "static", "binding", "ipv4", "10.0.0.0/8", "input", "100"]
            = some demo_config_state2 from rfl)
          (labels_apart_single _ demo_prefix demo_config_state_off.2.1
            (by unfold label_held; decide)))
        (show config_line demo_command_env demo_config_state2
          ["mpls", "static", "binding", "ipv4", "10.0.0.0/8", "output", "192.0.2.1", "300"]
          = some demo_config_state3 from rfl)
        (labels_apart_single _ demo_prefix demo_config_state_off.2.2.1
          (by unfold label_held; decide)))
      (show config_line demo_command_env demo_config_state3
        ["mpls", "static", "binding", "ipv4", "10.0.0.0/8", "output", "192.0.2.9",
          "implicit-null"] = some demo_config_state4 from rfl)
      (labels_apart_single _ demo_prefix demo_config_state_off.2.2.2.1
        (by unfold label_held; decide)))
    (show config_line demo_command_env demo_config_state4
      ["mpls", "static", "crossconnect", "500", "if0", "192.0.2.2", "explicit-null"]
      = some demo_config_state from rfl)
    (labels_apart_single _ demo_prefix demo_config_state_off.2.2.2.2
      (by unfold label_held; decide))

theorem demo_config_state_nodes (p : Prefix) (hp : (demo_config_state.table p).mpls ≠ none) :
    p ∈ [ demo_prefix, demo_prefix2] := by
  by_contra hn
  exact hp (demo_config_state_off.2.2.2.2 p
    (fun h => hn (by rw [h]; exact List.mem_cons_self _ _)))

theorem shared_config_state_run :
    config_replay demo_command_env shared_config_lines (fresh_engine demo_clients demo_routes)
      = some shared_config_state := rfl

/-- C28 (counterexample): the replay does not always end in the same programmed
driver state.  With active routes to 10.0.0.0/8 and 11.0.0.0/8, after in-label
100 was bound to both prefixes and the binding of 10.0.0.0/8 was removed, the
ILM table of the recording driver has no entry for 100 (the removal took it
away); the written configuration is the binding of 11.0.0.0/8, and after its
replay on a fresh engine with the same routes the ILM table has an entry for
100. -/
theorem C28_driver_state_counterexample :
    config_reachable demo_command_env demo_clients demo_routes shared_config_state ∧
    mpls_config_write demo_vty_env demo_iflist [ demo_prefix, demo_prefix2]
        shared_config_state =
      some (0, [["mpls", "static", "binding", "ipv4", "11.0.0.0/8", "100"], ["!"]]) ∧
    config_replay demo_command_env
        [["mpls", "static", "binding", "ipv4", "11.0.0.0/8", "100"], ["!"]]
        (fresh_engine demo_clients demo_routes) = some shared_replay_state ∧
    ilm_installed shared_config_state.log 100 = false ∧
    ilm_installed shared_replay_state.log 100 = true :=
  ⟨config_reachable_replay shared_config_lines _ _ config_reachable.start
      shared_config_state_run, by decide, rfl, by decide, by decide⟩

/-! ## The selection function in closed form -/

/-- `mpls_prefix_remove_lsp` on the selected LSP of an active route. -/
theorem remove_lsp_active (K : zebra_consts) (c : mpls_rn) (lsp : route_lsp)
    (hs : c.lb.selected_lsp = some lsp) (ha : zebra_route_node_active K c.info = true) :
    mpls_prefix_remove_lsp K c lsp =
      { c with lb := { c.lb with selected_lsp := none },
               log := c.log ++ unselect_events c.lb.selected_in_label (some lsp) } := by
  rw [remove_lsp_selected K c lsp hs, if_pos ha]
  rfl

/-- `mpls_prefix_select_lsp` when a next hop is read: it returns at once if
an LSP is selected and is the candidate; otherwise the selected LSP is
unselected, the candidate is stored and programmed. -/
theorem select_lsp_eq (K : zebra_consts) (drv : driver) (c : mpls_rn) (n : Nat)
    (hn : get_prefix_nexthop K c.info = some n) :
    mpls_prefix_select_lsp K drv c =
      if c.lb.selected_lsp.isSome ∧ ptr_of c.lb.selected_lsp = ptr_of (select_candidate c.lb n)
      then c
      else
        { c with lb := { c.lb with selected_lsp := select_candidate c.lb n },
                 log := c.log ++ unselect_events c.lb.selected_in_label c.lb.selected_lsp
                   ++ select_events drv
                        (c.log ++ unselect_events c.lb.selected_in_label c.lb.selected_lsp)
                        c.p c.lb.selected_in_label (select_candidate c.lb n) } := by
  have ha := nexthop_some_active K c.info n hn
  unfold mpls_prefix_select_lsp
  rw [hn]
  dsimp only
  split
  · rfl
  · cases hs : c.lb.selected_lsp with
    | none =>
      dsimp only
      cases hc : select_candidate c.lb n with
      | none =>
        cases c with
        | mk p info lb cl al lg =>
          simp only at hs
          cases lb
          simp only at hs
          subst hs
          simp [unselect_events, select_events]
      | some sel =>
        by_cases hd : drv (c.log ++ [event.nhlfe_register sel]) < 0
        · simp [emit, hd, unselect_events, select_events]
        · by_cases hl : c.lb.selected_in_label = NO_LABEL
          · simp [emit, hd, hl, unselect_events, select_events]
          · simp [emit, hd, hl, unselect_events, select_events]
    | some old =>
      dsimp only
      rw [remove_lsp_active K c old hs ha]
      cases hc : select_candidate c.lb n with
      | none => simp [select_events]
      | some sel =>
        dsimp only
        by_cases hd : drv (c.log ++ (unselect_events c.lb.selected_in_label (some old)
            ++ [event.nhlfe_register sel])) < 0
        · simp [emit, hd, select_events]
        · by_cases hl : c.lb.selected_in_label = NO_LABEL
          · have hd2 := hd
            rw [hl] at hd2
            simp [emit, hd2, hl, select_events]
          · simp [emit, hd, hl, select_events]
/-- C35: for a node whose active route has a next hop that can be read, with
candidate `C` for it.  When `C` is not the selected LSP (pointers differ),
`mpls_prefix_select_lsp` stores `C` in `selected_lsp` and appends to the log,
in order: for a previously selected LSP, XC remove (`selected_in_label`, old)
if `selected_in_label` is not `NO_LABEL`, then NHLFE remove (old); then, if
`C` is not null, NHLFE install (`C`); and, only if the driver did not fail
that install, XC install (`selected_in_label`, `C`) if `selected_in_label` is
not `NO_LABEL`, then one RIB request for the prefix; nothing else changes.
When `C` is the selected LSP the node is left as it was. -/
theorem C35_select_lsp_driver_sequence (K : zebra_consts) (drv : driver) (c : mpls_rn)
    (N : Nat) (hN : get_prefix_nexthop K c.info = some N) :
    zebra_route_node_active K c.info = true ∧
    (ptr_of c.lb.selected_lsp ≠ ptr_of (select_candidate c.lb N) →
      mpls_prefix_select_lsp K drv c =
        { c with lb := { c.lb with selected_lsp := select_candidate c.lb N },
                 log := c.log ++ unselect_events c.lb.selected_in_label c.lb.selected_lsp
                   ++ select_events drv
                        (c.log ++ unselect_events c.lb.selected_in_label c.lb.selected_lsp)
                        c.p c.lb.selected_in_label (select_candidate c.lb N) }) ∧
    (ptr_of c.lb.selected_lsp = ptr_of (select_candidate c.lb N) →
      mpls_prefix_select_lsp K drv c = c) ∧
    (∀ log p label sel, drv (log ++ [event.nhlfe_register sel]) < 0 →
      select_events drv log p label (some sel) = [event.nhlfe_register sel]) ∧
    (∀ log p label sel, ¬ drv (log ++ [event.nhlfe_register sel]) < 0 →
      select_events drv log p label (some sel) =
        event.nhlfe_register sel ::
          ((if label ≠ NO_LABEL then [event.xc_register label sel] else [])
            ++ [event.rib_queue_add p])) := by
  refine ⟨nexthop_some_active K c.info N hN, ?_, ?_, ?_, ?_⟩
  · intro hne
    rw [select_lsp_eq K drv c N hN, if_neg (fun h => hne h.2)]
  · intro heq
    rw [select_lsp_eq K drv c N hN]
    split
    · rfl
    · rename_i hnot
      cases hs : c.lb.selected_lsp with
      | some old => exact absurd ⟨by rw [hs]; rfl, heq⟩ hnot
      | none =>
        rw [hs] at heq
        cases hc : select_candidate c.lb N with
        | some sel => rw [hc] at heq; cases heq
        | none =>
          cases c with
          | mk p info lb cl al lg =>
            simp only at hs
            cases lb
            simp only at hs
            subst hs
            simp [unselect_events, select_events]
  · intro log p label sel hd
    simp [select_events, hd]
  · intro log p label sel hd
    simp [select_events, hd]

/-- C35 (witness): after the route of 10.0.0.0/8 moved from next hop 5 to
192.0.2.1, the selection removes XC and NHLFE of the LSP to 5 and installs
NHLFE and XC of the LSP to 192.0.2.1. -/
theorem C35_select_lsp_driver_sequence_witness :
    get_prefix_nexthop quagga_consts reroute_rn.info = some demo_nexthop ∧
    ptr_of reroute_rn.lb.selected_lsp ≠ ptr_of (select_candidate reroute_rn.lb demo_nexthop) ∧
    (mpls_prefix_select_lsp quagga_consts null_driver reroute_rn).log =
      reroute_rn.log ++
        [event.xc_unregister 100 (route_lsp_new 1 5 301),
         event.nhlfe_unregister (route_lsp_new 1 5 301),
         event.nhlfe_register (route_lsp_new 2 demo_nexthop 300),
         event.xc_register 100 (route_lsp_new 2 demo_nexthop 300),
         event.rib_queue_add demo_prefix] :=
  ⟨by decide, by decide, by
    rw [(C35_select_lsp_driver_sequence quagga_consts null_driver reroute_rn demo_nexthop
      (by decide)).2.1 (by decide)]
    decide⟩

/-- C34: for a well-formed bindings record (its LSPs at distinct addresses,
the selected LSP one of them) on a node whose active route has the next hop
`N`, after `mpls_prefix_select_lsp` the selected LSP is the LDP LSP if there
is one and its next hop is `N`; otherwise the first LSP of `static_lsps`, in
list order, whose next hop is `N`; otherwise none. -/
theorem C34_select_lsp_candidate_rule (K : zebra_consts) (drv : driver) (c : mpls_rn) (N : Nat)
    (hnd : ((lsps c.lb).map (fun x => x.ptr)).Nodup) (hown : sel_owned c.lb)
    (hN : get_prefix_nexthop K c.info = some N) :
    (∀ d, c.lb.ldp_lsp = some d → d.nexthop = N →
      (mpls_prefix_select_lsp K drv c).lb.selected_lsp = some d) ∧
    ((∀ d, c.lb.ldp_lsp = some d → d.nexthop ≠ N) →
      (∀ pre l post, c.lb.static_lsps = pre ++ l :: post → (∀ x ∈ pre, x.nexthop ≠ N) →
        l.nexthop = N → (mpls_prefix_select_lsp K drv c).lb.selected_lsp = some l) ∧
      ((∀ x ∈ c.lb.static_lsps, x.nexthop ≠ N) →
        (mpls_prefix_select_lsp K drv c).lb.selected_lsp = none)) := by
  have hsel : (mpls_prefix_select_lsp K drv c).lb.selected_lsp = select_candidate c.lb N := by
    rw [select_lsp_lb K drv c hnd hown]
    simp [select_target, hN]
  rw [hsel]
  have hstat : ∀ (l : List route_lsp),
      (∀ pre x post, l = pre ++ x :: post → (∀ y ∈ pre, y.nexthop ≠ N) → x.nexthop = N →
        l.find? (fun y => y.nexthop == N) = some x) ∧
      ((∀ y ∈ l, y.nexthop ≠ N) → l.find? (fun y => y.nexthop == N) = none) := by
    intro l
    constructor
    · intro pre x post hl hpre hx
      rw [hl, List.find?_append]
      have h1 : pre.find? (fun y => y.nexthop == N) = none := by
        rw [List.find?_eq_none]
        intro y hy
        simpa using hpre y hy
      rw [h1]
      simp [List.find?_cons, hx]
    · intro hall
      rw [List.find?_eq_none]
      intro y hy
      simpa using hall y hy
  refine ⟨?_, ?_⟩
  · intro d hd hdn
    unfold select_candidate
    rw [hd]
    simp [hdn]
  · intro hldp
    have hcand : select_candidate c.lb N = c.lb.static_lsps.find? (fun y => y.nexthop == N) := by
      unfold select_candidate
      cases hd : c.lb.ldp_lsp with
      | none => rfl
      | some d =>
        dsimp only
        rw [if_neg (hldp d hd)]
    rw [hcand]
    exact hstat c.lb.static_lsps

/-- C34 (witness): on the node of 10.0.0.0/8 after its route moved to
192.0.2.1, with static LSPs to 5 and to 192.0.2.1 and no LDP LSP, the
selection ends on the static LSP to 192.0.2.1. -/
theorem C34_select_lsp_candidate_rule_witness :
    ((lsps reroute_rn.lb).map (fun x => x.ptr)).Nodup ∧ sel_owned reroute_rn.lb ∧
    get_prefix_nexthop quagga_consts reroute_rn.info = some demo_nexthop ∧
    (mpls_prefix_select_lsp quagga_consts null_driver reroute_rn).lb.selected_lsp
      = some (route_lsp_new 2 demo_nexthop 300) :=
  have hown : sel_owned reroute_rn.lb := by
    intro l hl
    have h : reroute_rn.lb.selected_lsp = some (route_lsp_new 1 5 301) := by decide
    rw [h] at hl
    cases hl
    decide
  ⟨by decide, hown, by decide,
    ((C34_select_lsp_candidate_rule quagga_consts null_driver reroute_rn demo_nexthop
      (by decide) hown (by decide)).2 (by
        intro d hd
        have h : reroute_rn.lb.ldp_lsp = none := by decide
        rw [h] at hd
        cases hd)).1 [route_lsp_new 1 5 301] (route_lsp_new 2 demo_nexthop 300) []
      (by decide) (by decide) rfl⟩

/-- C38: when `mpls_prefix_select_lsp` picks a candidate `C` that is not the
selected LSP and the driver fails the NHLFE install for `C`, the call ends
after that install with `selected_lsp` equal to `C`; a following
`mpls_prefix_select_lsp` on the node it left, with any driver and any route
that has the same next hop, leaves the node as it is: it makes no call. -/
theorem C38_no_retry_after_failed_install (K : zebra_consts) (drv drv2 : driver) (c : mpls_rn)
    (N : Nat) (C : route_lsp)
    (hN : get_prefix_nexthop K c.info = some N)
    (hC : select_candidate c.lb N = some C)
    (hne : ptr_of c.lb.selected_lsp ≠ some C.ptr)
    (hfail : drv (c.log ++ unselect_events c.lb.selected_in_label c.lb.selected_lsp
      ++ [event.nhlfe_register C]) < 0) :
    (mpls_prefix_select_lsp K drv c).lb.selected_lsp = some C ∧
    (mpls_prefix_select_lsp K drv c).log =
      c.log ++ unselect_events c.lb.selected_in_label c.lb.selected_lsp
        ++ [event.nhlfe_register C] ∧
    (mpls_prefix_select_lsp K drv c).lb.static_lsps = c.lb.static_lsps ∧
    (mpls_prefix_select_lsp K drv c).lb.ldp_lsp = c.lb.ldp_lsp ∧
    mpls_prefix_select_lsp K drv2 (mpls_prefix_select_lsp K drv c)
      = mpls_prefix_select_lsp K drv c ∧
    ∀ info, get_prefix_nexthop K info = some N →
      mpls_prefix_select_lsp K drv2 { mpls_prefix_select_lsp K drv c with info := info }
        = { mpls_prefix_select_lsp K drv c with info := info } := by
  have h1 : mpls_prefix_select_lsp K drv c =
      { c with lb := { c.lb with selected_lsp := some C },
               log := c.log ++ unselect_events c.lb.selected_in_label c.lb.selected_lsp
                 ++ [event.nhlfe_register C] } := by
    rw [select_lsp_eq K drv c N hN, hC, if_neg (fun h => hne h.2)]
    have hfail2 := hfail
    rw [List.append_assoc] at hfail2
    simp [select_events, hfail2]
  have h2 : ∀ info, get_prefix_nexthop K info = some N →
      mpls_prefix_select_lsp K drv2 { mpls_prefix_select_lsp K drv c with info := info }
        = { mpls_prefix_select_lsp K drv c with info := info } := by
    intro info hinfo
    rw [h1]
    rw [select_lsp_eq K drv2 _ N hinfo]
    have hc2 : select_candidate { c.lb with selected_lsp := some C } N = some C := by
      rw [← hC]
      unfold select_candidate
      rfl
    rw [if_pos]
    refine ⟨rfl, ?_⟩
    show ptr_of (some C) = ptr_of (select_candidate { c.lb with selected_lsp := some C } N)
    rw [hc2]
  refine ⟨by rw [h1], by rw [h1], by rw [h1], by rw [h1], ?_, h2⟩
  have := h2 c.info hN
  have hinfo : (mpls_prefix_select_lsp K drv c).info = c.info := by rw [h1]
  rw [← hinfo] at this
  exact this

/-- C38 (witness): on the node of 10.0.0.0/8 after its route moved to
192.0.2.1, with a driver that fails NHLFE installs, the LSP to 192.0.2.1 is
left selected and a second selection makes no call. -/
theorem C38_no_retry_after_failed_install_witness :
    get_prefix_nexthop quagga_consts reroute_rn.info = some demo_nexthop ∧
    select_candidate reroute_rn.lb demo_nexthop = some (route_lsp_new 2 demo_nexthop 300) ∧
    (mpls_prefix_select_lsp quagga_consts nhlfe_register_fails reroute_rn).lb.selected_lsp
      = some (route_lsp_new 2 demo_nexthop 300) ∧
    mpls_prefix_select_lsp quagga_consts null_driver
        (mpls_prefix_select_lsp quagga_consts nhlfe_register_fails reroute_rn)
      = mpls_prefix_select_lsp quagga_consts nhlfe_register_fails reroute_rn :=
  have h := C38_no_retry_after_failed_install quagga_consts nhlfe_register_fails null_driver
    reroute_rn demo_nexthop (route_lsp_new 2 demo_nexthop 300) (by decide) (by decide)
    (by decide) (by decide)
  ⟨by decide, by decide, h.1, h.2.2.2.2.1⟩
/-- `mpls_prefix_remove_lsp` makes no call on a node without active route. -/
theorem remove_lsp_inactive (K : zebra_consts) (c : mpls_rn) (lsp : route_lsp)
    (hina : zebra_route_node_active K c.info = false) :
    (mpls_prefix_remove_lsp K c lsp).log = c.log ∧
    (mpls_prefix_remove_lsp K c lsp).info = c.info := by
  unfold mpls_prefix_remove_lsp
  split
  · exact ⟨rfl, rfl⟩
  · simp [hina]

/-- C39: on a prefix whose route `zebra_route_node_active` reports as not
active, with `lsp` selected: `mpls_prefix_remove_lsp` clears `selected_lsp`
and makes no call (no XC remove, no NHLFE remove), and so do the removals of
a static or LDP LSP; the uninstall hook clears `selected_lsp` and its only
call is ILM remove (`selected_in_label`), made whenever `selected_in_label`
is not `NO_LABEL`. -/
theorem C39_withdrawal_on_inactive_route (K : zebra_consts) (drv : driver) (s : zebra)
    (p : Prefix) (lb : label_bindings) (lsp : route_lsp)
    (hlb : (s.table p).mpls = some lb)
    (hsel : lb.selected_lsp = some lsp)
    (hina : zebra_route_node_active K (s.table p).info = false) :
    mpls_prefix_remove_lsp K (rn_of s p) lsp =
      { rn_of s p with lb := { lb with selected_lsp := none } } ∧
    bindings (mpls_route_uninstall_hook K s p) p = { lb with selected_lsp := none } ∧
    (mpls_route_uninstall_hook K s p).log =
      s.log ++ (if lb.selected_in_label ≠ NO_LABEL then
        [event.ilm_unregister lb.selected_in_label] else []) ∧
    (∀ N, (mpls_prefix_remove_static_lsp K drv s p N).log = s.log) ∧
    (∀ N L, (mpls_prefix_remove_ldp_lsp K drv s p N L).log = s.log) := by
  have hb : (rn_of s p).lb = lb := bindings_of_some hlb
  have hi : zebra_route_node_active K (rn_of s p).info = false := hina
  have hrem : mpls_prefix_remove_lsp K (rn_of s p) lsp =
      { rn_of s p with lb := { lb with selected_lsp := none } } := by
    rw [remove_lsp_selected K (rn_of s p) lsp (by rw [hb]; exact hsel), hb]
    simp [hi]
  have hhook : route_uninstall_hook_rn K (rn_of s p) =
      { rn_of s p with lb := { lb with selected_lsp := none },
                       log := s.log ++ (if lb.selected_in_label ≠ NO_LABEL then
                         [event.ilm_unregister lb.selected_in_label] else []) } := by
    unfold route_uninstall_hook_rn
    rw [hb, hsel]
    dsimp only
    rw [hrem]
    by_cases hl : lb.selected_in_label = NO_LABEL
    · simp [hl, rn_of]
    · simp [hl, emit, rn_of]
  refine ⟨hrem, ?_, ?_, ?_, ?_⟩
  · unfold mpls_route_uninstall_hook
    rw [with_rn_hook, hlb]
    dsimp only
    rw [put_rn_bindings, hhook]
  · unfold mpls_route_uninstall_hook
    rw [with_rn_hook, hlb]
    dsimp only
    rw [put_rn_log, hhook]
  · intro N
    rw [remove_static_lsp_put, put_rn_log]
    unfold remove_static_lsp_rn
    split
    · rfl
    · rename_i l _
      dsimp only
      rw [(remove_lsp_inactive K (rn_of s p) l hi).2, hi]
      simp only [Bool.false_eq_true, if_false]
      exact (remove_lsp_inactive K (rn_of s p) l hi).1
  · intro N L
    rw [remove_ldp_lsp_put, put_rn_log]
    unfold remove_ldp_lsp_rn
    split
    · rfl
    · rename_i l _
      split
      · rfl
      · dsimp only
        rw [(remove_lsp_inactive K (rn_of s p) l hi).2, hi]
        simp only [Bool.false_eq_true, if_false]
        exact (remove_lsp_inactive K (rn_of s p) l hi).1

/-- C39 (witness): scenario 1 with the route taken away before the uninstall
hook runs: the hook clears the selected LSP and calls ILM remove (100) only. -/
theorem C39_withdrawal_on_inactive_route_witness :
    (withdrawn_state.table demo_prefix).mpls = some (bindings withdrawn_state demo_prefix) ∧
    (bindings withdrawn_state demo_prefix).selected_lsp
      = some (route_lsp_new 1 demo_nexthop 200) ∧
    zebra_route_node_active quagga_consts (withdrawn_state.table demo_prefix).info = false ∧
    (bindings (mpls_route_uninstall_hook quagga_consts withdrawn_state demo_prefix)
      demo_prefix).selected_lsp = none ∧
    (mpls_route_uninstall_hook quagga_consts withdrawn_state demo_prefix).log =
      withdrawn_state.log ++ [event.ilm_unregister 100] :=
  have h := C39_withdrawal_on_inactive_route quagga_consts null_driver withdrawn_state
    demo_prefix (bindings withdrawn_state demo_prefix) (route_lsp_new 1 demo_nexthop 200)
    (by decide) (by decide) (by decide)
  ⟨by decide, by decide, by decide, by rw [h.2.1], by rw [h.2.2.1]; decide⟩
/-- The loop of `mpls_static_crossconnect_add` passes over entries with other
incoming labels. -/
theorem crossconnect_add_loop_skip (in_label : Nat) (ifp : Option Nat)
    (nexthop out_label : Nat) (l r : List mpls_crossconnect) (s : zebra)
    (h : ∀ mc ∈ l, mc.in_label ≠ in_label) :
    crossconnect_add_loop in_label ifp nexthop out_label (l ++ r) s =
      crossconnect_add_loop in_label ifp nexthop out_label r s := by
  induction l with
  | nil => rfl
  | cons a t ih =>
    rw [List.cons_append]
    unfold crossconnect_add_loop
    rw [if_neg (h a (List.mem_cons_self _ _))]
    rw [ih (fun mc hmc => h mc (List.mem_cons_of_mem _ hmc))]
    cases r with
    | nil => rfl
    | cons b r2 => rfl

/-- The table after `mpls_static_crossconnect_add` for an incoming label it
did not have: the new entry is linked at the tail whatever the driver
returns, and the allocation counter moved by two. -/
theorem crossconnect_add_new_list (drv : driver) (s : zebra) (in_label : Nat)
    (ifp : Option Nat) (nexthop out_label : Nat)
    (hnew : ∀ mc ∈ s.mpls_crossconnect_list, mc.in_label ≠ in_label) :
    (mpls_static_crossconnect_add drv s in_label ifp nexthop out_label).2.mpls_crossconnect_list
      = s.mpls_crossconnect_list
        ++ [mpls_crossconnect_new s.alloc in_label ifp nexthop out_label] :=
  (crossconnect_add_of_loop drv s s in_label ifp nexthop out_label
    (crossconnect_add_loop_absent in_label ifp nexthop out_label _ s hnew)).1

/-- C37: `mpls_static_crossconnect_add (L, I, N, O)` for an incoming label `L`
the table does not have, with a driver that fails the NHLFE install, the ILM
install or the XC install: the call returns -1 and the table afterwards is
the old table followed by the entry `(L, I, N, O)`.  On the state it leaves,
a repeated add with the same arguments returns 0 and changes nothing (no
call is made), and `mpls_static_crossconnect_remove (L)` returns 0 and calls
XC remove, ILM remove and NHLFE remove for the entry. -/
theorem C37_failed_crossconnect_add_keeps_entry (drv drv2 : driver) (s : zebra)
    (L : Nat) (I : Option Nat) (N O : Nat)
    (hnew : ∀ mc ∈ s.mpls_crossconnect_list, mc.in_label ≠ L)
    (hfail :
      drv (s.log ++ [event.nhlfe_register (mpls_crossconnect_new s.alloc L I N O).lsp]) < 0 ∨
      drv (s.log ++ [event.nhlfe_register (mpls_crossconnect_new s.alloc L I N O).lsp,
        event.ilm_register L]) < 0 ∨
      drv (s.log ++ [event.nhlfe_register (mpls_crossconnect_new s.alloc L I N O).lsp,
        event.ilm_register L,
        event.xc_register L (mpls_crossconnect_new s.alloc L I N O).lsp]) < 0) :
    (mpls_static_crossconnect_add drv s L I N O).1 = -1 ∧
    (mpls_static_crossconnect_add drv s L I N O).2.mpls_crossconnect_list
      = s.mpls_crossconnect_list ++ [mpls_crossconnect_new s.alloc L I N O] ∧
    (mpls_crossconnect_new s.alloc L I N O).in_label = L ∧
    (mpls_crossconnect_new s.alloc L I N O).lsp.ifp = I ∧
    (mpls_crossconnect_new s.alloc L I N O).lsp.nexthop = N ∧
    (mpls_crossconnect_new s.alloc L I N O).lsp.remote_label = O ∧
    mpls_static_crossconnect_add drv2 (mpls_static_crossconnect_add drv s L I N O).2 L I N O
      = (0, (mpls_static_crossconnect_add drv s L I N O).2) ∧
    (mpls_static_crossconnect_remove (mpls_static_crossconnect_add drv s L I N O).2 L).1 = 0 ∧
    (mpls_static_crossconnect_remove (mpls_static_crossconnect_add drv s L I N O).2 L).2.log
      = (mpls_static_crossconnect_add drv s L I N O).2.log
        ++ [event.xc_unregister L (mpls_crossconnect_new s.alloc L I N O).lsp,
            event.ilm_unregister L,
            event.nhlfe_unregister (mpls_crossconnect_new s.alloc L I N O).lsp] := by
  have hloop := crossconnect_add_loop_absent L I N O _ s hnew
  have hall := crossconnect_add_of_loop drv s s L I N O hloop
  have hlist := hall.1
  have hret : (mpls_static_crossconnect_add drv s L I N O).1 = -1 := by
    by_cases h1 : drv (s.log ++ [event.nhlfe_register
        (mpls_crossconnect_new s.alloc L I N O).lsp]) < 0
    · exact (hall.2.1 h1).1
    · by_cases h2 : drv (s.log ++ [event.nhlfe_register
          (mpls_crossconnect_new s.alloc L I N O).lsp, event.ilm_register L]) < 0
      · exact (hall.2.2.1 h1 h2).1
      · rcases hfail with h | h | h
        · exact absurd h h1
        · exact absurd h h2
        · exact (hall.2.2.2.1 h1 h2 h).1
  have hfind : (mpls_static_crossconnect_add drv s L I N O).2.mpls_crossconnect_list.find?
      (fun x => x.in_label == L) = some (mpls_crossconnect_new s.alloc L I N O) := by
    rw [hlist, List.find?_append]
    have h0 : s.mpls_crossconnect_list.find? (fun x => x.in_label == L) = none := by
      rw [List.find?_eq_none]
      intro x hx
      simpa using hnew x hx
    rw [h0]
    simp [mpls_crossconnect_new]
  have hrm := crossconnect_remove_found _ L _ hfind
  refine ⟨hret, hlist, rfl, rfl, rfl, rfl, ?_, hrm.1, hrm.2.1⟩
  generalize hs1 : (mpls_static_crossconnect_add drv s L I N O).2 = s1 at hlist
  unfold mpls_static_crossconnect_add
  rw [hlist, crossconnect_add_loop_skip L I N O _ _ s1 hnew]
  have hsame : crossconnect_same (mpls_crossconnect_new s.alloc L I N O) I N O = true := by
    simp [crossconnect_same, mpls_crossconnect_new]
  unfold crossconnect_add_loop
  rw [if_pos (by rfl), hsame]
  rfl

/-- C37 (witness): the cross-connect (100, if0, 192.0.2.2, 300) added at
start-up with a driver whose XC install fails stays in the table. -/
theorem C37_failed_crossconnect_add_keeps_entry_witness :
    (mpls_static_crossconnect_add third_call_fails (zebra_start demo_clients) 100 demo_ifp
      demo_xc_nexthop 300).1 = -1 ∧
    failed_xc_state.mpls_crossconnect_list
      = [mpls_crossconnect_new 1 100 demo_ifp demo_xc_nexthop 300] ∧
    mpls_static_crossconnect_add null_driver failed_xc_state 100 demo_ifp demo_xc_nexthop 300
      = (0, failed_xc_state) ∧
    (mpls_static_crossconnect_remove failed_xc_state 100).1 = 0 :=
  have h := C37_failed_crossconnect_add_keeps_entry third_call_fails null_driver
    (zebra_start demo_clients) 100 demo_ifp demo_xc_nexthop 300
    (by intro mc hmc; cases hmc) (Or.inr (Or.inr (by decide)))
  ⟨h.1, h.2.1, h.2.2.2.2.2.2.1, h.2.2.2.2.2.2.2.1⟩

/-- C40: the engine does not filter Implicit Null out of its XC calls.  On a
node with an active route: when `mpls_prefix_select_lsp` selects a candidate
`lsp` whose NHLFE install does not fail, it calls XC install
(`selected_in_label`, `lsp`) exactly if `selected_in_label` is not
`NO_LABEL`, so for Implicit Null too; and setting the static or the dynamic
in-label to Implicit Null while `lsp` is selected calls ILM install (3) and
then XC install (3, `lsp`).  In the driver of `mpls_netlink.c` the ILM install
for label 3 returns 0 without a request, while the XC install for label 3
sends its request. -/
theorem C40_xc_calls_keep_implicit_null (K : zebra_consts) (drv : driver) (M : netlink_consts)
    (E : netlink_env) (c : mpls_rn) (lsp : route_lsp)
    (hact : zebra_route_node_active K c.info = true) :
    (∀ N, get_prefix_nexthop K c.info = some N → select_candidate c.lb N = some lsp →
      ptr_of c.lb.selected_lsp ≠ some lsp.ptr →
      ¬ drv (c.log ++ unselect_events c.lb.selected_in_label c.lb.selected_lsp
        ++ [event.nhlfe_register lsp]) < 0 →
      (mpls_prefix_select_lsp K drv c).lb.selected_lsp = some lsp ∧
      (mpls_prefix_select_lsp K drv c).log =
        c.log ++ unselect_events c.lb.selected_in_label c.lb.selected_lsp
          ++ [event.nhlfe_register lsp]
          ++ (if c.lb.selected_in_label ≠ NO_LABEL then
                [event.xc_register c.lb.selected_in_label lsp] else [])
          ++ [event.rib_queue_add c.p] ∧
      (c.lb.selected_in_label = MPLS_IMPLICIT_NULL →
        (mpls_prefix_select_lsp K drv c).log =
          c.log ++ unselect_events MPLS_IMPLICIT_NULL c.lb.selected_lsp
            ++ [event.nhlfe_register lsp, event.xc_register MPLS_IMPLICIT_NULL lsp,
                event.rib_queue_add c.p])) ∧
    (c.lb.selected_lsp = some lsp → c.lb.static_in_label ≠ MPLS_IMPLICIT_NULL →
      (set_static_input_label_rn K c MPLS_IMPLICIT_NULL).log =
        c.log ++ (if c.lb.selected_in_label ≠ NO_LABEL then
            [event.xc_unregister c.lb.selected_in_label lsp,
             event.ilm_unregister c.lb.selected_in_label] else [])
          ++ [event.ilm_register MPLS_IMPLICIT_NULL,
              event.xc_register MPLS_IMPLICIT_NULL lsp]
          ++ broadcast c.client_list c.p MPLS_IMPLICIT_NULL) ∧
    (c.lb.selected_lsp = some lsp → c.lb.static_in_label = NO_LABEL →
      c.lb.selected_in_label ≠ MPLS_IMPLICIT_NULL →
      (set_ldp_input_label_rn K c MPLS_IMPLICIT_NULL).log =
        c.log ++ (if c.lb.selected_in_label ≠ NO_LABEL then
            [event.xc_unregister c.lb.selected_in_label lsp,
             event.ilm_unregister c.lb.selected_in_label] else [])
          ++ [event.ilm_register MPLS_IMPLICIT_NULL,
              event.xc_register MPLS_IMPLICIT_NULL lsp]) ∧
    (∀ sent, mpls_kernel_ilm_register M E sent MPLS_IMPLICIT_NULL = (0, sent)) ∧
    (∀ sent, (mpls_kernel_xc_register M E sent MPLS_IMPLICIT_NULL lsp).2 =
      sent ++ [(rtnl_handle.rth_mpls_cmd,
        xc_request M M.MPLS_CMD_NEWXC MPLS_IMPLICIT_NULL lsp)]) := by
  refine ⟨?_, ?_, ?_, ?_, ?_⟩
  · intro N hN hC hne hd
    have hd2 := hd
    rw [List.append_assoc] at hd2
    have h1 : mpls_prefix_select_lsp K drv c =
        { c with lb := { c.lb with selected_lsp := some lsp },
                 log := c.log ++ unselect_events c.lb.selected_in_label c.lb.selected_lsp
                   ++ [event.nhlfe_register lsp]
                   ++ (if c.lb.selected_in_label ≠ NO_LABEL then
                         [event.xc_register c.lb.selected_in_label lsp] else [])
                   ++ [event.rib_queue_add c.p] } := by
      rw [select_lsp_eq K drv c N hN, hC, if_neg (fun h => hne h.2)]
      simp [select_events, hd2]
    refine ⟨by rw [h1], by rw [h1], ?_⟩
    intro h3
    rw [h1]
    show c.log ++ unselect_events c.lb.selected_in_label c.lb.selected_lsp
        ++ [event.nhlfe_register lsp]
        ++ (if c.lb.selected_in_label ≠ NO_LABEL then
              [event.xc_register c.lb.selected_in_label lsp] else [])
        ++ [event.rib_queue_add c.p] = _
    rw [h3]
    simp [MPLS_IMPLICIT_NULL, NO_LABEL]
  · intro hsel hne
    rw [set_static_input_label_rn_eq, if_neg hne]
    show c.log ++ set_static_events K c MPLS_IMPLICIT_NULL = _
    unfold set_static_events
    rw [if_pos hact, hsel]
    by_cases hl : c.lb.selected_in_label = NO_LABEL
    · simp [hl, xc_register_if, xc_unregister_if]
    · simp [hl, xc_register_if, xc_unregister_if]
  · intro hsel hst hne
    rw [set_ldp_input_label_rn_eq]
    have h1 : ¬ c.lb.static_in_label ≠ NO_LABEL := fun h => h hst
    have h2 : ¬ (MPLS_IMPLICIT_NULL ≠ NO_LABEL ∧ MPLS_IMPLICIT_NULL = c.lb.selected_in_label) :=
      fun h => hne h.2.symm
    rw [if_neg h1, if_neg h2, if_pos hact]
    show c.log ++ set_ldp_events c MPLS_IMPLICIT_NULL = _
    unfold set_ldp_events
    rw [hsel]
    by_cases hl : c.lb.selected_in_label = NO_LABEL
    · simp [hl, xc_register_if, xc_unregister_if, MPLS_IMPLICIT_NULL, NO_LABEL]
    · simp [hl, xc_register_if, xc_unregister_if, MPLS_IMPLICIT_NULL, NO_LABEL]
  · intro sent
    unfold mpls_kernel_ilm_register
    rw [if_pos rfl]
  · intro sent
    rfl

/-- C40 (witness): on 10.0.0.0/8 with an active route and Implicit Null as
in-label, adding the static LSP to the route's next hop selects it, and the
selection calls NHLFE install and XC install (3, lsp). -/
theorem C40_xc_calls_keep_implicit_null_witness :
    zebra_route_node_active quagga_consts (rn_of null_label_state demo_prefix).info = true ∧
    (mpls_prefix_select_lsp quagga_consts null_driver
      (create_static_lsp (rn_of null_label_state demo_prefix) demo_nexthop 200)).log =
      null_label_state.log
        ++ [event.nhlfe_register (route_lsp_new 1 demo_nexthop 200),
            event.xc_register MPLS_IMPLICIT_NULL (route_lsp_new 1 demo_nexthop 200),
            event.rib_queue_add demo_prefix] :=
  ⟨by decide,
    ((C40_xc_calls_keep_implicit_null quagga_consts null_driver demo_netlink_consts
      demo_netlink_env (create_static_lsp (rn_of null_label_state demo_prefix) demo_nexthop 200)
      (route_lsp_new 1 demo_nexthop 200) (by decide)).1 demo_nexthop (by decide) (by decide)
      (by decide) (by decide)).2.2 (by decide)⟩

/-! ## The remove-all command -/

/-- The loop of `vty_mpls_static_binding_output_remove_all`, run over the
static LSPs of the prefix, empties the list and leaves the in-labels and the
LDP LSP alone; it keeps a well-formed record well formed. -/
theorem remove_all_loop_clears (E : command_env) (p : Prefix) (l : List route_lsp) (s : zebra)
    (hl : (bindings s p).static_lsps = l) :
    (bindings (remove_all_loop E p l s) p).static_lsps = [] ∧
    same_in_labels (bindings s p) (bindings (remove_all_loop E p l s) p) ∧
    (bindings (remove_all_loop E p l s) p).ldp_lsp = (bindings s p).ldp_lsp ∧
    (lb_wf s.alloc (bindings s p) →
      lb_wf (remove_all_loop E p l s).alloc (bindings (remove_all_loop E p l s) p)) := by
  induction l generalizing s with
  | nil => exact ⟨hl, same_in_labels_refl _, rfl, fun h => h⟩
  | cons a t ih =>
    unfold remove_all_loop
    have hf := remove_static_lsp_rn_frame E.K E.drv (rn_of s p) a.nexthop
    have hb : (rn_of s p).lb = bindings s p := rfl
    have hfind : (rn_of s p).lb.static_lsps.find? (fun x => x.nexthop == a.nexthop) = some a := by
      rw [hb, hl]
      simp [List.find?_cons]
    have hstat : (remove_static_lsp_rn E.K E.drv (rn_of s p) a.nexthop).lb.static_lsps = t := by
      rw [hf.2.2.2.2, hfind]
      dsimp only
      rw [hb, hl]
      unfold listnode_delete
      simp [List.eraseP_cons]
    have hs1 : bindings (mpls_prefix_remove_static_lsp E.K E.drv s p a.nexthop) p =
        (remove_static_lsp_rn E.K E.drv (rn_of s p) a.nexthop).lb := by
      rw [remove_static_lsp_put, put_rn_bindings]
    have ha1 : (mpls_prefix_remove_static_lsp E.K E.drv s p a.nexthop).alloc =
        (remove_static_lsp_rn E.K E.drv (rn_of s p) a.nexthop).alloc := by
      rw [remove_static_lsp_put, put_rn_alloc]
    obtain ⟨i1, i2, i3, i4⟩ := ih (mpls_prefix_remove_static_lsp E.K E.drv s p a.nexthop)
      (by rw [hs1]; exact hstat)
    refine ⟨i1, ?_, ?_, ?_⟩
    · refine same_in_labels_trans ?_ i2
      rw [hs1]
      exact hf.2.2.1
    · rw [i3, hs1]
      exact hf.2.2.2.1
    · intro hwf
      apply i4
      rw [hs1, ha1]
      exact (remove_static_lsp_rn_wf E.K E.drv (rn_of s p) a.nexthop hwf).1

/-- C32: the command `no mpls static binding ipv4 <prefix>` (or its form with
address and mask), for a prefix text that `vty_get_prefix` reads as `p`, run
in any state: it returns `CMD_SUCCESS`; afterwards the static in-label of `p`
is `NO_LABEL`, its list of static LSPs is empty, and its LDP in-label and
LDP LSP are as before.  If the record of `p` was well formed (its LSPs at
distinct addresses, the selected LSP one of them), the selected LSP is
afterwards null or the LDP LSP, and is none of the static LSPs the record
had. -/
theorem C32_remove_all_command (E : command_env) (s : zebra) (prefix_str : String)
    (mask_str : Option String) (p : Prefix)
    (hp : vty_get_prefix E.V prefix_str mask_str = some p) :
    defun.run E s defun.no_mpls_static_binding [prefix_str]
      = no_binding_body E s prefix_str none ∧
    ∃ s', no_binding_body E s prefix_str mask_str = some (CMD_SUCCESS, s') ∧
      (bindings s' p).static_in_label = NO_LABEL ∧
      (bindings s' p).static_lsps = [] ∧
      (bindings s' p).ldp_in_label = (bindings s p).ldp_in_label ∧
      (bindings s' p).ldp_lsp = (bindings s p).ldp_lsp ∧
      (lb_wf s.alloc (bindings s p) →
        ((bindings s' p).selected_lsp = none ∨
          (bindings s' p).selected_lsp = (bindings s p).ldp_lsp) ∧
        ∀ l ∈ (bindings s p).static_lsps, (bindings s' p).selected_lsp ≠ some l) := by
  refine ⟨rfl, ?_⟩
  have hin : vty_mpls_static_binding_input E s false prefix_str mask_str none =
      some (CMD_SUCCESS, mpls_prefix_remove_static_input_label E.K s p NO_LABEL) := by
    unfold vty_mpls_static_binding_input
    rw [hp]
    rfl
  generalize hs1 : mpls_prefix_remove_static_input_label E.K s p NO_LABEL = s1 at hin
  have hout : vty_mpls_static_binding_output_remove_all E s1 prefix_str mask_str =
      (CMD_SUCCESS, remove_all_loop E p (bindings (route_node_get_mpls s1 p) p).static_lsps
        (route_node_get_mpls s1 p)) := by
    unfold vty_mpls_static_binding_output_remove_all
    rw [hp]
  have hbody : no_binding_body E s prefix_str mask_str =
      some (CMD_SUCCESS, remove_all_loop E p (bindings (route_node_get_mpls s1 p) p).static_lsps
        (route_node_get_mpls s1 p)) := by
    unfold no_binding_body
    rw [hin]
    dsimp only
    rw [hout]
    simp
  have hloop := remove_all_loop_clears E p
    (bindings (route_node_get_mpls s1 p) p).static_lsps (route_node_get_mpls s1 p) rfl
  generalize hs2 : remove_all_loop E p (bindings (route_node_get_mpls s1 p) p).static_lsps
    (route_node_get_mpls s1 p) = s2 at hbody hloop
  refine ⟨s2, hbody, ?_⟩
  have hfr := remove_static_input_label_rn_frame E.K (rn_of s p) NO_LABEL
  have hb1 : bindings s1 p = (remove_static_input_label_rn E.K (rn_of s p) NO_LABEL).lb := by
    rw [← hs1, remove_static_input_label_put, put_rn_bindings]
  have ha1 : s1.alloc = (remove_static_input_label_rn E.K (rn_of s p) NO_LABEL).alloc := by
    rw [← hs1, remove_static_input_label_put, put_rn_alloc]
  have hst1 : (bindings s1 p).static_in_label = NO_LABEL := by
    rw [hb1, remove_static_input_label_rn_eq]
    split
    · assumption
    · rw [if_neg (fun h => h.1 rfl)]
  have hldp1 : (bindings s1 p).ldp_in_label = (bindings s p).ldp_in_label := by
    rw [hb1, remove_static_input_label_rn_eq]
    split
    · rfl
    · rw [if_neg (fun h => h.1 rfl)]
      rfl
  have hg : bindings (route_node_get_mpls s1 p) p = bindings s1 p := by
    rw [← put_rn_rn_of, put_rn_bindings]
    rfl
  have hga : (route_node_get_mpls s1 p).alloc = s1.alloc := by
    rw [← put_rn_rn_of, put_rn_alloc]
    rfl
  rw [hg, hga] at hloop
  obtain ⟨l1, l2, l3, l4⟩ := hloop
  have hldp : (bindings s2 p).ldp_lsp = (bindings s p).ldp_lsp := by
    rw [l3, hb1]
    exact hfr.2.2.2.2.2.1
  refine ⟨by rw [l2.1]; exact hst1, l1, by rw [l2.2.1]; exact hldp1, hldp, ?_⟩
  intro hwf
  have hwf1 : lb_wf s1.alloc (bindings s1 p) := by
    rw [hb1, ha1]
    exact in_label_frame_wf hfr hwf
  have hwf2 := l4 hwf1
  have hcases : ∀ x, (bindings s2 p).selected_lsp = some x → (bindings s p).ldp_lsp = some x := by
    intro x hx
    have hmem := hwf2.2.2.1 x hx
    rw [lsps, l1, hldp] at hmem
    simpa using hmem
  constructor
  · cases hsel : (bindings s2 p).selected_lsp with
    | none => exact Or.inl rfl
    | some x => exact Or.inr (hcases x hsel).symm
  · intro l hl hsel
    have hd := hcases l hsel
    have hnd := hwf.1
    rw [lsps, hd, List.map_append, List.nodup_append] at hnd
    have : l.ptr ∈ (bindings s p).static_lsps.map (fun x => x.ptr) :=
      List.mem_map_of_mem _ hl
    exact hnd.2.2 this (by simp)

/-- C32 (witness): the command for 10.0.0.0/8 in the state after `bound_run`,
where the prefix has static in-label 100, two static LSPs and an LDP LSP. -/
theorem C32_remove_all_command_witness :
    vty_get_prefix demo_command_env.V "10.0.0.0/8" none = some demo_prefix ∧
    ∃ s', no_binding_body demo_command_env bound_state "10.0.0.0/8" none
        = some (CMD_SUCCESS, s') ∧
      (bindings s' demo_prefix).static_in_label = NO_LABEL ∧
      (bindings s' demo_prefix).static_lsps = [] ∧
      (bindings s' demo_prefix).ldp_lsp = (bindings bound_state demo_prefix).ldp_lsp ∧
      ((bindings s' demo_prefix).selected_lsp = none ∨
        (bindings s' demo_prefix).selected_lsp = (bindings bound_state demo_prefix).ldp_lsp) :=
  have hp : vty_get_prefix demo_command_env.V "10.0.0.0/8" none = some demo_prefix := by decide
  ⟨hp, by
    obtain ⟨s', h1, h2, h3, _, h5, h6⟩ :=
      (C32_remove_all_command demo_command_env bound_state "10.0.0.0/8" none demo_prefix hp).2
    exact ⟨s', h1, h2, h3, h5,
      (h6 (rn_of_wf bound_state demo_prefix
        (reachable_by_wf (notified_reachable bound_state_notified)))).1⟩⟩

/-! ## The next-hop test of `get_prefix_nexthop` -/

/-- `mpls_prefix_select_lsp` returns at once when `get_prefix_nexthop` finds
no next hop. -/
theorem select_lsp_no_nexthop (K : zebra_consts) (drv : driver) (c : mpls_rn)
    (h : get_prefix_nexthop K c.info = none) : mpls_prefix_select_lsp K drv c = c := by
  unfold mpls_prefix_select_lsp
  rw [h]

/-- With the header values, a flags word that has `NEXTHOP_FLAG_ACTIVE` passes
the test of `get_prefix_nexthop` against the three type constants. -/
theorem nexthop_test_ignores_type (nh : nexthop) :
    (quagga_consts.CHECK_FLAG nh.flags quagga_consts.NEXTHOP_FLAG_ACTIVE
      && (quagga_consts.CHECK_FLAG nh.flags quagga_consts.NEXTHOP_TYPE_IPV4
        || quagga_consts.CHECK_FLAG nh.flags quagga_consts.NEXTHOP_TYPE_IPV4_IFINDEX
        || quagga_consts.CHECK_FLAG nh.flags quagga_consts.NEXTHOP_TYPE_IPV4_IFNAME))
      = quagga_consts.CHECK_FLAG nh.flags quagga_consts.NEXTHOP_FLAG_ACTIVE := by
  have h1 : nh.flags &&& 1 = nh.flags % 2 := Nat.and_one_is_mod nh.flags
  have h3 : nh.flags &&& 3 = nh.flags % 4 := Nat.and_pow_two_sub_one_eq_mod nh.flags 2
  simp only [quagga_consts]
  by_cases h : nh.flags % 2 = 0
  · have : (nh.flags &&& 1 != 0) = false := by rw [h1, h]; rfl
    rw [this]
    rfl
  · have ha : (nh.flags &&& 1 != 0) = true := by
      rw [h1]
      simpa using h
    have hb : (nh.flags &&& 3 != 0) = true := by
      rw [h3]
      have : nh.flags % 4 ≠ 0 := by omega
      simpa using this
    rw [ha, hb]
    rfl

/-- C36: `get_prefix_nexthop` tests the three type constants against the flags
word of the next hop, not against its type.  With the header values every
next hop with `NEXTHOP_FLAG_ACTIVE` passes the test whatever its type.  On the
node of 10.0.0.0/8 after scenario 1, once the route is a directly connected
one (its only next hop interface-only, so that the route has no IPv4 gateway
next hop), `get_prefix_nexthop` reads the empty gateway 0.0.0.0 and
`mpls_prefix_select_lsp` does not leave the record alone: it unselects the
selected LSP and calls XC remove and NHLFE remove. -/
theorem C36_select_lsp_without_gateway_diverges :
    (∀ nh : nexthop,
      (quagga_consts.CHECK_FLAG nh.flags quagga_consts.NEXTHOP_FLAG_ACTIVE
        && (quagga_consts.CHECK_FLAG nh.flags quagga_consts.NEXTHOP_TYPE_IPV4
          || quagga_consts.CHECK_FLAG nh.flags quagga_consts.NEXTHOP_TYPE_IPV4_IFINDEX
          || quagga_consts.CHECK_FLAG nh.flags quagga_consts.NEXTHOP_TYPE_IPV4_IFNAME))
        = quagga_consts.CHECK_FLAG nh.flags quagga_consts.NEXTHOP_FLAG_ACTIVE) ∧
    spec_no_ipv4_gateway quagga_consts iface_rn.info = true ∧
    get_prefix_nexthop quagga_consts iface_rn.info = some 0 ∧
    iface_rn.lb.selected_lsp = some (route_lsp_new 1 demo_nexthop 200) ∧
    (mpls_prefix_select_lsp quagga_consts null_driver iface_rn).lb.selected_lsp = none ∧
    (mpls_prefix_select_lsp quagga_consts null_driver iface_rn).log =
      iface_rn.log ++ [event.xc_unregister 100 (route_lsp_new 1 demo_nexthop 200),
                       event.nhlfe_unregister (route_lsp_new 1 demo_nexthop 200)] ∧
    mpls_prefix_select_lsp quagga_consts null_driver iface_rn ≠ iface_rn :=
  ⟨nexthop_test_ignores_type, by decide, by decide, by decide, by decide, by decide, by decide⟩

/-! ## The NHLFE table: node-level lemmas -/

theorem nhlfe_run_append (x : Nat) (a b : List event) (v : Bool) :
    nhlfe_run x (a ++ b) v = nhlfe_run x b (nhlfe_run x a v) := by
  simp [nhlfe_run, List.foldl_append]

theorem nhlfe_installed_append (log es : List event) (x : Nat) :
    nhlfe_installed (log ++ es) x = nhlfe_run x es (nhlfe_installed log x) :=
  nhlfe_run_append x log es false

/-- Calls other than NHLFE calls leave the NHLFE table. -/
theorem nhlfe_run_quiet (x : Nat) (es : List event) (v : Bool)
    (h : ∀ e ∈ es, e.is_nhlfe = false) : nhlfe_run x es v = v := by
  induction es generalizing v with
  | nil => rfl
  | cons e t ih =>
    have he := h e (List.mem_cons_self _ _)
    have hs : nhlfe_step x v e = v := by
      cases e <;> first | rfl | cases he
    show nhlfe_run x t (nhlfe_step x v e) = v
    rw [hs]
    exact ih v (fun e' he' => h e' (List.mem_cons_of_mem _ he'))

theorem nhlfe_keeps_refl (K : zebra_consts) (c : mpls_rn) : nhlfe_keeps K c c :=
  ⟨rfl, le_refl _, fun _ h => Or.inl h, fun _ _ _ => rfl, fun _ h => h, fun h => h⟩

theorem nhlfe_keeps_trans {K : zebra_consts} {a b c : mpls_rn} (h1 : nhlfe_keeps K a b)
    (h2 : nhlfe_keeps K b c) : nhlfe_keeps K a c := by
  obtain ⟨i1, a1, f1, r1, q1, n1⟩ := h1
  obtain ⟨i2, a2, f2, r2, q2, n2⟩ := h2
  refine ⟨i2.trans i1, le_trans a1 a2, ?_, ?_, fun x h => q2 x (q1 x h), fun h => n2 (n1 h)⟩
  · intro x hx
    rcases f2 x hx with h | h
    · exact f1 x h
    · exact Or.inr (le_trans a1 h)
  · intro x hlt hnot
    have hnb : ¬ lsp_held b.lb x := by
      intro hb
      rcases f1 x hb with h | h
      · exact hnot h
      · exact absurd hlt (not_lt.2 h)
    rw [r2 x (lt_of_lt_of_le hlt a1) hnb, r1 x hlt hnot]

/-- A step that keeps the route and the selected LSP, drops LSPs or adds LSPs
at new addresses, and makes no NHLFE call. -/
theorem nhlfe_keeps_of_quiet (K : zebra_consts) (c c' : mpls_rn) (es : List event)
    (hi : c'.info = c.info) (ha : c.alloc ≤ c'.alloc)
    (hsel : c'.lb.selected_lsp = c.lb.selected_lsp)
    (hl : ∀ l ∈ lsps c'.lb, l ∈ lsps c.lb ∨ c.alloc ≤ l.ptr)
    (hlog : c'.log = c.log ++ es) (hq : ∀ e ∈ es, e.is_nhlfe = false) :
    nhlfe_keeps K c c' := by
  have hinst : ∀ x, nhlfe_installed c'.log x = nhlfe_installed c.log x := by
    intro x
    rw [hlog, nhlfe_installed_append, nhlfe_run_quiet x es _ hq]
  refine ⟨hi, ha, ?_, fun x _ _ => hinst x, ?_, ?_⟩
  · intro x hx
    rcases hx with hx | hx
    · obtain ⟨l, hl1, hl2⟩ := List.mem_map.1 hx
      rcases hl l hl1 with h | h
      · exact Or.inl (Or.inl (List.mem_map.2 ⟨l, h, hl2⟩))
      · right
        rw [← hl2]
        exact h
    · exact Or.inl (Or.inr (by rw [← hsel]; exact hx))
  · intro x h
    rw [hinst x, hi]
    unfold lsp_on at h ⊢
    rw [hsel]
    exact h
  · intro h hina
    rw [hi] at hina
    rw [hsel]
    exact h hina

theorem nhlfe_keeps_emit (K : zebra_consts) (c : mpls_rn) (e : event)
    (he : e.is_nhlfe = false) : nhlfe_keeps K c (emit c e) :=
  nhlfe_keeps_of_quiet K c (emit c e) [e] rfl (le_refl _) rfl (fun _ h => Or.inl h) rfl
    (fun e' he' => by rw [List.mem_singleton.1 he']; exact he)

theorem nhlfe_step_register (x : Nat) (b : Bool) (l : route_lsp) :
    nhlfe_step x b (event.nhlfe_register l) = if l.ptr = x then true else b := rfl

theorem nhlfe_step_unregister (x : Nat) (b : Bool) (l : route_lsp) :
    nhlfe_step x b (event.nhlfe_unregister l) = if l.ptr = x then false else b := rfl

/-- The NHLFE table after the calls of `unselect_events`. -/
theorem nhlfe_run_unselect (x : Nat) (label : Nat) (l : route_lsp) (v : Bool) :
    nhlfe_run x (unselect_events label (some l)) v = if l.ptr = x then false else v := by
  unfold unselect_events
  by_cases h : label = NO_LABEL
  · simp [h, nhlfe_run, nhlfe_step]
  · simp [h, nhlfe_run, nhlfe_step]

/-- The NHLFE table after the calls of `select_events`. -/
theorem nhlfe_run_select (drv : driver) (log : List event) (p : Prefix) (x : Nat) (label : Nat)
    (l : route_lsp) (v : Bool) :
    nhlfe_run x (select_events drv log p label (some l)) v = if l.ptr = x then true else v := by
  unfold select_events
  by_cases hd : drv (log ++ [event.nhlfe_register l]) < 0
  · simp [hd, nhlfe_run, nhlfe_step]
  · by_cases h : label = NO_LABEL
    · simp [hd, h, nhlfe_run, nhlfe_step]
    · simp [hd, h, nhlfe_run, nhlfe_step]

theorem nhlfe_keeps_remove_lsp (K : zebra_consts) (c : mpls_rn) (lsp : route_lsp) :
    nhlfe_keeps K c (mpls_prefix_remove_lsp K c lsp) := by
  by_cases hp : ptr_of c.lb.selected_lsp = some lsp.ptr
  · cases hs : c.lb.selected_lsp with
    | none => rw [hs] at hp; cases hp
    | some old =>
      have hop : old.ptr = lsp.ptr := by
        rw [hs] at hp
        simpa [ptr_of] using hp
      have hrem : mpls_prefix_remove_lsp K c lsp =
          { c with lb := { c.lb with selected_lsp := none },
                   log := c.log ++
                     (if zebra_route_node_active K c.info = true then
                        (if c.lb.selected_in_label ≠ NO_LABEL then
                           [event.xc_unregister c.lb.selected_in_label lsp] else [])
                        ++ [event.nhlfe_unregister lsp]
                      else []) } := by
        unfold mpls_prefix_remove_lsp
        have hp' : ¬ ptr_of c.lb.selected_lsp ≠ some lsp.ptr := fun h => h hp
        rw [if_neg hp']
        by_cases ha : zebra_route_node_active K c.info = true
        · by_cases hl : c.lb.selected_in_label = NO_LABEL
          · simp [ha, hl, emit]
          · simp [ha, hl, emit]
        · simp [ha]
      rw [hrem]
      have hinst : ∀ x, nhlfe_installed (c.log ++
          (if zebra_route_node_active K c.info = true then
             (if c.lb.selected_in_label ≠ NO_LABEL then
                [event.xc_unregister c.lb.selected_in_label lsp] else [])
             ++ [event.nhlfe_unregister lsp]
           else [])) x =
          if zebra_route_node_active K c.info = true ∧ lsp.ptr = x then false
          else nhlfe_installed c.log x := by
        intro x
        rw [nhlfe_installed_append]
        by_cases ha : zebra_route_node_active K c.info = true
        · by_cases hl : c.lb.selected_in_label = NO_LABEL
          · simp [ha, hl, nhlfe_run, nhlfe_step]
          · simp [ha, hl, nhlfe_run, nhlfe_step]
        · simp [ha, nhlfe_run]
      refine ⟨rfl, le_refl _, ?_, ?_, ?_, ?_⟩
      · intro x hx
        left
        rcases hx with hx | hx
        · exact Or.inl hx
        · cases hx
      · intro x _ hnot
        show nhlfe_installed _ x = _
        rw [hinst x]
        have hne : lsp.ptr ≠ x := by
          intro h
          apply hnot
          right
          rw [hp, h]
        simp [hne]
      · intro x h
        show nhlfe_installed _ x = true ↔ lsp_on K c.info _ x
        rw [hinst x]
        have hoff : ¬ lsp_on K c.info { c.lb with selected_lsp := none } x := by
          rintro ⟨_, h2⟩
          cases h2
        by_cases hx : lsp.ptr = x
        · by_cases ha : zebra_route_node_active K c.info = true
          · simp [ha, hx, hoff]
          · have hn : ¬ lsp_on K c.info c.lb x := fun h1 => ha h1.1
            have hb : ¬ nhlfe_installed c.log x = true := fun h1 => hn (h.1 h1)
            simp [ha, hb, hoff]
        · have hn : ¬ lsp_on K c.info c.lb x := by
            rintro ⟨_, h2⟩
            rw [hp] at h2
            exact hx (Option.some.inj h2)
          have hb : ¬ nhlfe_installed c.log x = true := fun h1 => hn (h.1 h1)
          simp [hx, hb, hoff]
      · intro _ _
        rfl
  · have : mpls_prefix_remove_lsp K c lsp = c := by
      unfold mpls_prefix_remove_lsp
      rw [if_pos hp]
    rw [this]
    exact nhlfe_keeps_refl K c

theorem nhlfe_keeps_select_lsp (K : zebra_consts) (drv : driver) (c : mpls_rn) :
    nhlfe_keeps K c (mpls_prefix_select_lsp K drv c) := by
  cases hn : get_prefix_nexthop K c.info with
  | none =>
    rw [select_lsp_no_nexthop K drv c hn]
    exact nhlfe_keeps_refl K c
  | some n =>
    have hact := nexthop_some_active K c.info n hn
    rw [select_lsp_eq K drv c n hn]
    split
    · exact nhlfe_keeps_refl K c
    · rename_i hnot
      have hinst : ∀ x, nhlfe_installed (c.log
          ++ unselect_events c.lb.selected_in_label c.lb.selected_lsp
          ++ select_events drv
              (c.log ++ unselect_events c.lb.selected_in_label c.lb.selected_lsp)
              c.p c.lb.selected_in_label (select_candidate c.lb n)) x =
          if ptr_of (select_candidate c.lb n) = some x then true
          else if ptr_of c.lb.selected_lsp = some x then false
          else nhlfe_installed c.log x := by
        intro x
        rw [List.append_assoc, nhlfe_installed_append, nhlfe_run_append]
        cases hc : select_candidate c.lb n with
        | none =>
          cases hs : c.lb.selected_lsp with
          | none => simp [select_events, unselect_events, nhlfe_run, ptr_of]
          | some old =>
            rw [nhlfe_run_unselect]
            simp [select_events, nhlfe_run, ptr_of]
        | some sel =>
          rw [nhlfe_run_select]
          cases hs : c.lb.selected_lsp with
          | none => simp [unselect_events, nhlfe_run, ptr_of]
          | some old =>
            rw [nhlfe_run_unselect]
            simp [ptr_of]
      refine ⟨rfl, le_refl _, ?_, ?_, ?_, ?_⟩
      · intro x hx
        left
        rcases hx with hx | hx
        · exact Or.inl hx
        · left
          cases hc : select_candidate c.lb n with
          | none =>
            have : ptr_of (none : Option route_lsp) = some x := by rw [← hc]; exact hx
            cases this
          | some sel =>
            have h2 : ptr_of (some sel) = some x := by rw [← hc]; exact hx
            have hm := (select_candidate_mem hc).1
            exact List.mem_map.2 ⟨sel, hm, by simpa [ptr_of] using h2⟩
      · intro x _ hnot2
        show nhlfe_installed _ x = _
        rw [hinst x]
        have h1 : ¬ ptr_of (select_candidate c.lb n) = some x := by
          intro h
          apply hnot2
          left
          cases hc : select_candidate c.lb n with
          | none => rw [hc] at h; cases h
          | some sel =>
            rw [hc] at h
            exact List.mem_map.2 ⟨sel, (select_candidate_mem hc).1, by simpa [ptr_of] using h⟩
        have h2 : ¬ ptr_of c.lb.selected_lsp = some x := fun h => hnot2 (Or.inr h)
        simp [h1, h2]
      · intro x h
        show nhlfe_installed _ x = true ↔ lsp_on K c.info _ x
        rw [hinst x]
        have hon : lsp_on K c.info { c.lb with selected_lsp := select_candidate c.lb n } x ↔
            ptr_of (select_candidate c.lb n) = some x := by
          unfold lsp_on
          simp [hact]
        rw [hon]
        by_cases h1 : ptr_of (select_candidate c.lb n) = some x
        · simp [h1]
        · by_cases h2 : ptr_of c.lb.selected_lsp = some x
          · simp [h1, h2]
          · have hb : ¬ nhlfe_installed c.log x = true := by
              intro hb
              exact h2 (h.1 hb).2
            simp [h1, h2, hb]
      · intro _ hina
        rw [hact] at hina
        cases hina
/-! ## The NHLFE table: the engine functions at node level -/

theorem broadcast_not_nhlfe (cl : List zserv) (p : Prefix) (label : Nat) :
    ∀ e ∈ broadcast cl p label, e.is_nhlfe = false := by
  intro e he
  unfold broadcast at he
  obtain ⟨x, _, hx⟩ := List.mem_map.1 he
  rw [← hx]
  rfl

theorem xc_unregister_if_not_nhlfe (sel : Option route_lsp) (label : Nat) :
    ∀ e ∈ xc_unregister_if sel label, e.is_nhlfe = false := by
  intro e he
  cases sel with
  | none => cases he
  | some l =>
    rw [List.mem_singleton.1 he]
    rfl

theorem xc_register_if_not_nhlfe (sel : Option route_lsp) (label : Nat) :
    ∀ e ∈ xc_register_if sel label, e.is_nhlfe = false := by
  intro e he
  cases sel with
  | none => cases he
  | some l =>
    rw [List.mem_singleton.1 he]
    rfl

theorem set_static_events_not_nhlfe (K : zebra_consts) (c : mpls_rn) (label : Nat) :
    ∀ e ∈ set_static_events K c label, e.is_nhlfe = false := by
  intro e he
  unfold set_static_events at he
  split at he
  · simp only [List.mem_append] at he
    rcases he with ((he | he) | he) | he
    · split at he
      · simp only [List.mem_append, List.mem_singleton] at he
        rcases he with he | he
        · exact xc_unregister_if_not_nhlfe _ _ e he
        · rw [he]; rfl
      · cases he
    · rw [List.mem_singleton.1 he]; rfl
    · exact xc_register_if_not_nhlfe _ _ e he
    · exact broadcast_not_nhlfe _ _ _ e he
  · cases he

theorem remove_static_events_not_nhlfe (K : zebra_consts) (c : mpls_rn) :
    ∀ e ∈ remove_static_events K c, e.is_nhlfe = false := by
  intro e he
  unfold remove_static_events at he
  split at he
  · simp only [List.mem_append] at he
    rcases he with ((he | he) | he) | he
    · exact xc_unregister_if_not_nhlfe _ _ e he
    · rw [List.mem_singleton.1 he]; rfl
    · split at he
      · cases he
      · simp only [List.mem_append, List.mem_singleton] at he
        rcases he with he | he
        · rw [he]; rfl
        · exact xc_register_if_not_nhlfe _ _ e he
    · exact broadcast_not_nhlfe _ _ _ e he
  · cases he

theorem set_ldp_events_not_nhlfe (c : mpls_rn) (label : Nat) :
    ∀ e ∈ set_ldp_events c label, e.is_nhlfe = false := by
  intro e he
  unfold set_ldp_events at he
  simp only [List.mem_append] at he
  rcases he with he | he
  · split at he
    · simp only [List.mem_append, List.mem_singleton] at he
      rcases he with he | he
      · exact xc_unregister_if_not_nhlfe _ _ e he
      · rw [he]; rfl
    · cases he
  · split at he
    · simp only [List.mem_append, List.mem_singleton] at he
      rcases he with he | he
      · rw [he]; rfl
      · exact xc_register_if_not_nhlfe _ _ e he
    · cases he

theorem nhlfe_keeps_set_static (K : zebra_consts) (c : mpls_rn) (label : Nat) :
    nhlfe_keeps K c (set_static_input_label_rn K c label) := by
  rw [set_static_input_label_rn_eq]
  split
  · exact nhlfe_keeps_refl K c
  · exact nhlfe_keeps_of_quiet K c _ (set_static_events K c label) rfl (le_refl _) rfl
      (fun _ h => Or.inl h) rfl (set_static_events_not_nhlfe K c label)

theorem nhlfe_keeps_remove_static (K : zebra_consts) (c : mpls_rn) (label : Nat) :
    nhlfe_keeps K c (remove_static_input_label_rn K c label) := by
  rw [remove_static_input_label_rn_eq]
  split
  · exact nhlfe_keeps_refl K c
  · split
    · exact nhlfe_keeps_refl K c
    · exact nhlfe_keeps_of_quiet K c _ (remove_static_events K c) rfl (le_refl _) rfl
        (fun _ h => Or.inl h) rfl (remove_static_events_not_nhlfe K c)

theorem nhlfe_keeps_set_ldp (K : zebra_consts) (c : mpls_rn) (label : Nat) :
    nhlfe_keeps K c (set_ldp_input_label_rn K c label) := by
  rw [set_ldp_input_label_rn_eq]
  have hq : ∀ (c' : mpls_rn), c' = { c with lb := { c.lb with ldp_in_label := label } } →
      nhlfe_keeps K c c' := by
    intro c' hc'
    rw [hc']
    exact nhlfe_keeps_of_quiet K c _ [] rfl (le_refl _) rfl (fun _ h => Or.inl h)
      (List.append_nil _).symm (fun _ h => by cases h)
  split
  · exact hq _ rfl
  · split
    · exact hq _ rfl
    · split
      · exact nhlfe_keeps_of_quiet K c _ (set_ldp_events c label) rfl (le_refl _) rfl
          (fun _ h => Or.inl h) rfl (set_ldp_events_not_nhlfe c label)
      · exact hq _ rfl

/-- The guarded call `if (zebra_route_node_active (rn)) mpls_prefix_select_lsp (rn);`. -/
theorem nhlfe_keeps_maybe_select (K : zebra_consts) (drv : driver) (c : mpls_rn) :
    nhlfe_keeps K c
      (if zebra_route_node_active K c.info then mpls_prefix_select_lsp K drv c else c) := by
  split
  · exact nhlfe_keeps_select_lsp K drv c
  · exact nhlfe_keeps_refl K c

theorem nhlfe_keeps_remove_static_lsp (K : zebra_consts) (drv : driver) (c : mpls_rn) (n : Nat) :
    nhlfe_keeps K c (remove_static_lsp_rn K drv c n) := by
  unfold remove_static_lsp_rn
  split
  · exact nhlfe_keeps_refl K c
  · rename_i lsp _
    dsimp only
    have h1 := nhlfe_keeps_remove_lsp K c lsp
    generalize mpls_prefix_remove_lsp K c lsp = c1 at h1 ⊢
    have h2 : ∀ c2 : mpls_rn, c2.info = c1.info → c2.alloc = c1.alloc → c2.log = c1.log →
        c2.lb.selected_lsp = c1.lb.selected_lsp → c2.lb.ldp_lsp = c1.lb.ldp_lsp →
        c2.lb.static_lsps = listnode_delete c1.lb.static_lsps lsp → nhlfe_keeps K c1 c2 := by
      intro c2 e1 e2 e3 e4 e5 e6
      refine nhlfe_keeps_of_quiet K _ _ [] e1 (le_of_eq e2.symm) e4 ?_
        (by rw [e3, List.append_nil]) (fun _ h => by cases h)
      intro l hl
      left
      simp only [lsps, List.mem_append] at hl ⊢
      rw [e5, e6] at hl
      rcases hl with hl | hl
      · exact Or.inl (List.mem_of_mem_eraseP hl)
      · exact Or.inr hl
    have h3 := nhlfe_keeps_maybe_select K drv
      { c1 with lb := { c1.lb with static_lsps := listnode_delete c1.lb.static_lsps lsp } }
    dsimp only at h3
    have h4 := h2
      { c1 with lb := { c1.lb with static_lsps := listnode_delete c1.lb.static_lsps lsp } }
      rfl rfl rfl rfl rfl rfl
    exact nhlfe_keeps_trans h1 (nhlfe_keeps_trans h4 h3)

theorem nhlfe_keeps_add_static_lsp_loop (K : zebra_consts) (drv : driver) (nexthop label : Nat)
    (l : List route_lsp) (c : mpls_rn) :
    nhlfe_keeps K c (add_static_lsp_loop K drv nexthop label l c).2 := by
  induction l generalizing c with
  | nil => exact nhlfe_keeps_refl K c
  | cons a t ih =>
    unfold add_static_lsp_loop
    split
    · split
      · exact nhlfe_keeps_refl K c
      · exact nhlfe_keeps_trans (nhlfe_keeps_remove_static_lsp K drv c a.nexthop) (ih _)
    · exact ih c

theorem nhlfe_keeps_create_static (K : zebra_consts) (c : mpls_rn) (nexthop label : Nat) :
    nhlfe_keeps K c (create_static_lsp c nexthop label) := by
  refine nhlfe_keeps_of_quiet K c _ [] rfl (Nat.le_succ _) rfl ?_ (List.append_nil _).symm
    (fun _ h => by cases h)
  intro l hl
  simp only [create_static_lsp, listnode_add, lsps, List.mem_append, List.mem_singleton] at hl
  rcases hl with (hl | hl) | hl
  · exact Or.inl (by simp [lsps, hl])
  · right
    rw [hl]
    exact le_refl _
  · exact Or.inl (by simp only [lsps, List.mem_append]; exact Or.inr hl)

theorem nhlfe_keeps_create_ldp (K : zebra_consts) (c : mpls_rn) (nexthop label : Nat) :
    nhlfe_keeps K c (create_ldp_lsp c nexthop label) := by
  refine nhlfe_keeps_of_quiet K c _ [] rfl (Nat.le_succ _) rfl ?_ (List.append_nil _).symm
    (fun _ h => by cases h)
  intro l hl
  simp only [create_ldp_lsp, lsps, List.mem_append, Option.mem_toList, Option.mem_def,
    Option.some.injEq] at hl
  rcases hl with hl | hl
  · exact Or.inl (by simp [lsps, hl])
  · right
    rw [← hl]
    exact le_refl _

theorem nhlfe_keeps_add_static_lsp (K : zebra_consts) (drv : driver) (c : mpls_rn)
    (nexthop label : Nat) : nhlfe_keeps K c (add_static_lsp_rn K drv c nexthop label) := by
  unfold add_static_lsp_rn
  have hloop := nhlfe_keeps_add_static_lsp_loop K drv nexthop label c.lb.static_lsps c
  cases hr : add_static_lsp_loop K drv nexthop label c.lb.static_lsps c with
  | mk b c1 =>
    rw [hr] at hloop
    cases b
    · dsimp only
      exact nhlfe_keeps_trans hloop (nhlfe_keeps_trans (nhlfe_keeps_create_static K c1 _ _)
        (nhlfe_keeps_maybe_select K drv _))
    · exact hloop

theorem nhlfe_keeps_drop_ldp (K : zebra_consts) (c : mpls_rn) (l : route_lsp) :
    nhlfe_keeps K c
      { mpls_prefix_remove_lsp K c l with lb := XFREE_ldp_lsp (mpls_prefix_remove_lsp K c l).lb } := by
  refine nhlfe_keeps_trans (nhlfe_keeps_remove_lsp K c l) ?_
  refine nhlfe_keeps_of_quiet K _ _ [] rfl (le_refl _) rfl ?_ (List.append_nil _).symm
    (fun _ h => by cases h)
  intro x hx
  left
  simp only [XFREE_ldp_lsp, lsps, List.mem_append, Option.toList_none, List.not_mem_nil,
    or_false] at hx
  simp only [lsps, List.mem_append]
  exact Or.inl hx

theorem nhlfe_keeps_set_ldp_lsp (K : zebra_consts) (drv : driver) (c : mpls_rn)
    (nexthop label : Nat) : nhlfe_keeps K c (set_ldp_lsp_rn K drv c nexthop label) := by
  unfold set_ldp_lsp_rn
  split
  · exact nhlfe_keeps_refl K c
  · cases hl : c.lb.ldp_lsp with
    | none =>
      dsimp only
      exact nhlfe_keeps_trans (nhlfe_keeps_create_ldp K c _ _) (nhlfe_keeps_maybe_select K drv _)
    | some l =>
      dsimp only
      exact nhlfe_keeps_trans (nhlfe_keeps_drop_ldp K c l)
        (nhlfe_keeps_trans (nhlfe_keeps_create_ldp K _ _ _) (nhlfe_keeps_maybe_select K drv _))

theorem nhlfe_keeps_remove_ldp_lsp (K : zebra_consts) (drv : driver) (c : mpls_rn)
    (nexthop label : Nat) : nhlfe_keeps K c (remove_ldp_lsp_rn K drv c nexthop label) := by
  unfold remove_ldp_lsp_rn
  split
  · exact nhlfe_keeps_refl K c
  · rename_i l _
    split
    · exact nhlfe_keeps_refl K c
    · dsimp only
      exact nhlfe_keeps_trans (nhlfe_keeps_drop_ldp K c l) (nhlfe_keeps_maybe_select K drv _)

theorem nhlfe_keeps_install_hook (K : zebra_consts) (drv : driver) (c : mpls_rn) :
    nhlfe_keeps K c (route_install_hook_rn K drv c) := by
  unfold route_install_hook_rn
  dsimp only
  refine nhlfe_keeps_trans ?_ (nhlfe_keeps_select_lsp K drv _)
  split
  · exact nhlfe_keeps_emit K c _ rfl
  · exact nhlfe_keeps_refl K c

theorem nhlfe_keeps_uninstall_hook (K : zebra_consts) (c : mpls_rn) :
    nhlfe_keeps K c (route_uninstall_hook_rn K c) := by
  unfold route_uninstall_hook_rn
  cases hs : c.lb.selected_lsp with
  | none =>
    dsimp only
    split
    · exact nhlfe_keeps_emit K c _ rfl
    · exact nhlfe_keeps_refl K c
  | some sel =>
    dsimp only
    refine nhlfe_keeps_trans (nhlfe_keeps_remove_lsp K c sel) ?_
    split
    · exact nhlfe_keeps_emit K _ _ rfl
    · exact nhlfe_keeps_refl K _
/-! ## The NHLFE table along orderly runs -/

theorem lsp_held_lt {a : Nat} {lb : label_bindings} (h : lb_wf a lb) {x : Nat}
    (hx : lsp_held lb x) : x < a := by
  rcases hx with hx | hx
  · obtain ⟨l, hl, rfl⟩ := List.mem_map.1 hx
    exact h.2.1 l hl
  · cases hs : lb.selected_lsp with
    | none => rw [hs] at hx; cases hx
    | some l =>
      rw [hs] at hx
      have : l.ptr = x := by simpa [ptr_of] using hx
      rw [← this]
      exact h.2.1 l (h.2.2.1 l hs)

theorem lsp_on_held {K : zebra_consts} {info : List rib} {lb : label_bindings} {x : Nat}
    (h : lsp_on K info lb x) : lsp_held lb x := Or.inr h.2

theorem put_rn_info (s : zebra) (p q : Prefix) (c : mpls_rn) :
    ((put_rn s p c).table q).info = (s.table q).info := by
  rw [put_rn_table]
  split
  · rename_i h; rw [h]
  · rfl

theorem put_rn_bindings_ne (s : zebra) (p q : Prefix) (c : mpls_rn) (h : q ≠ p) :
    bindings (put_rn s p c) q = bindings s q := by
  unfold bindings
  rw [put_rn_table, if_neg h]

/-- An engine function that runs on the node of `p` and keeps the NHLFE table
as `nhlfe_keeps` says keeps the invariant of orderly runs. -/
theorem nhlfe_inv_put (K : zebra_consts) (s : zebra) (p : Prefix) (c' : mpls_rn)
    (hinv : nhlfe_inv K s) (hk : nhlfe_keeps K (rn_of s p) c')
    (hwf' : zebra_wf (put_rn s p c')) : nhlfe_inv K (put_rn s p c') := by
  obtain ⟨hwf, hxc, hxlt, hxnd, hap, hapx, hoff, hset⟩ := hinv
  obtain ⟨ki, ka, kf, kr, kq, kn⟩ := hk
  have ka' : s.alloc ≤ c'.alloc := ka
  have hlt : ∀ q x, lsp_held (bindings s q) x → x < s.alloc :=
    fun q x hx => lsp_held_lt (rn_of_wf s q hwf) hx
  have hbp : bindings (put_rn s p c') p = c'.lb := put_rn_bindings s p c'
  have hbq : ∀ q, q ≠ p → bindings (put_rn s p c') q = bindings s q :=
    fun q hq => put_rn_bindings_ne s p q c' hq
  have hnew : ∀ x, lsp_held c'.lb x → lsp_held (bindings s p) x ∨ s.alloc ≤ x := kf
  refine ⟨hwf', ⟨hxc.1, hxc.2.1, fun mc hmc => lt_of_lt_of_le (hxc.2.2 mc hmc) ka'⟩,
    fun mc hmc => lt_of_lt_of_le (hxlt mc hmc) ka', hxnd, ?_, ?_, ?_, ?_⟩
  · intro a b x hab ha hb
    by_cases hap' : a = p
    · subst hap'
      rw [hbp] at ha
      rw [hbq b (Ne.symm hab)] at hb
      rcases hnew x ha with h | h
      · exact hap a b x hab h hb
      · exact absurd (hlt b x hb) (not_lt.2 h)
    · rw [hbq a hap'] at ha
      by_cases hbp' : b = p
      · subst hbp'
        rw [hbp] at hb
        rcases hnew x hb with h | h
        · exact hap a b x hab ha h
        · exact absurd (hlt a x ha) (not_lt.2 h)
      · rw [hbq b hbp'] at hb
        exact hap a b x hab ha hb
  · intro a x ha mc hmc hmx
    by_cases hap' : a = p
    · subst hap'
      rw [hbp] at ha
      rcases hnew x ha with h | h
      · exact hapx a x h mc hmc hmx
      · exact absurd (hmx ▸ hxlt mc hmc) (not_lt.2 h)
    · rw [hbq a hap'] at ha
      exact hapx a x ha mc hmc hmx
  · intro a hina
    rw [put_rn_info] at hina
    by_cases hap' : a = p
    · subst hap'
      rw [hbp]
      exact kn (hoff a) (by rw [ki]; exact hina)
    · rw [hbq a hap']
      exact hoff a hina
  · intro x
    show nhlfe_installed c'.log x = true ↔ _
    have hclaim : nhlfe_claimed K (put_rn s p c') x ↔
        lsp_on K (s.table p).info c'.lb x ∨
        (∃ q, q ≠ p ∧ lsp_on K (s.table q).info (bindings s q) x) ∨
        (∃ mc ∈ s.mpls_crossconnect_list, mc.lsp.ptr = x) := by
      unfold nhlfe_claimed
      constructor
      · rintro (⟨q, hq⟩ | h)
        · rw [put_rn_info] at hq
          by_cases hqp : q = p
          · subst hqp
            rw [hbp] at hq
            exact Or.inl hq
          · rw [hbq q hqp] at hq
            exact Or.inr (Or.inl ⟨q, hqp, hq⟩)
        · exact Or.inr (Or.inr h)
      · rintro (h | ⟨q, hqp, hq⟩ | h)
        · exact Or.inl ⟨p, by rw [put_rn_info, hbp]; exact h⟩
        · exact Or.inl ⟨q, by rw [put_rn_info, hbq q hqp]; exact hq⟩
        · exact Or.inr h
    have hclaim0 : nhlfe_claimed K s x ↔
        lsp_on K (s.table p).info (bindings s p) x ∨
        (∃ q, q ≠ p ∧ lsp_on K (s.table q).info (bindings s q) x) ∨
        (∃ mc ∈ s.mpls_crossconnect_list, mc.lsp.ptr = x) := by
      unfold nhlfe_claimed
      constructor
      · rintro (⟨q, hq⟩ | h)
        · by_cases hqp : q = p
          · subst hqp
            exact Or.inl hq
          · exact Or.inr (Or.inl ⟨q, hqp, hq⟩)
        · exact Or.inr (Or.inr h)
      · rintro (h | ⟨q, _, hq⟩ | h)
        · exact Or.inl ⟨p, h⟩
        · exact Or.inl ⟨q, hq⟩
        · exact Or.inr h
    rw [hclaim]
    by_cases hown : lsp_held (bindings s p) x ∨ s.alloc ≤ x
    · have hothers : ¬ ((∃ q, q ≠ p ∧ lsp_on K (s.table q).info (bindings s q) x) ∨
          (∃ mc ∈ s.mpls_crossconnect_list, mc.lsp.ptr = x)) := by
        rintro (⟨q, hqp, hq⟩ | ⟨mc, hmc, hmx⟩)
        · rcases hown with h | h
          · exact hap p q x (Ne.symm hqp) h (lsp_on_held hq)
          · exact absurd (hlt q x (lsp_on_held hq)) (not_lt.2 h)
        · rcases hown with h | h
          · exact hapx p x h mc hmc hmx
          · exact absurd (hmx ▸ hxlt mc hmc) (not_lt.2 h)
      have hpre : nhlfe_installed (rn_of s p).log x = true ↔
          lsp_on K (rn_of s p).info (rn_of s p).lb x := by
        show nhlfe_installed s.log x = true ↔ lsp_on K (s.table p).info (bindings s p) x
        rw [hset x, hclaim0]
        constructor
        · rintro (h | h)
          · exact h
          · exact absurd h hothers
        · exact fun h => Or.inl h
      have hpost := kq x hpre
      rw [ki] at hpost
      rw [hpost]
      constructor
      · exact fun h => Or.inl h
      · rintro (h | h)
        · exact h
        · exact absurd h hothers
    · have hnh : ¬ lsp_held (bindings s p) x := fun h => hown (Or.inl h)
      have hxlt' : x < s.alloc := not_le.1 (fun h => hown (Or.inr h))
      have hsame : nhlfe_installed c'.log x = nhlfe_installed s.log x := kr x hxlt' hnh
      rw [hsame, hset x, hclaim0]
      have h1 : ¬ lsp_on K (s.table p).info (bindings s p) x := fun h => hnh (lsp_on_held h)
      have h2 : ¬ lsp_on K (s.table p).info c'.lb x := by
        intro h
        rcases hnew x (lsp_on_held h) with h3 | h3
        · exact hnh h3
        · exact absurd hxlt' (not_lt.2 h3)
      constructor
      · rintro (h | h)
        · exact absurd h h1
        · exact Or.inr h
      · rintro (h | h)
        · exact absurd h h2
        · exact Or.inr h

/-- The node-level body of a mutator or a hook. -/
theorem nhlfe_inv_step (K : zebra_consts) (drv : driver) (s : zebra) (o : op)
    (ho : ∀ p info, o ≠ op.rib_update p info) (hinv : nhlfe_inv K s) :
    nhlfe_inv K (step K drv s o) := by
  have hw := step_wf K drv s o hinv.1
  have hook : ∀ (f : mpls_rn → mpls_rn) (p : Prefix), (∀ c, nhlfe_keeps K c (f c)) →
      zebra_wf (with_rn f s p) → nhlfe_inv K (with_rn f s p) := by
    intro f p hf hwf
    rw [with_rn_hook] at hwf ⊢
    cases hm : (s.table p).mpls with
    | none => exact hinv
    | some lb =>
      rw [hm] at hwf
      exact nhlfe_inv_put K s p _ hinv (hf _) hwf
  have hmut : ∀ (f : mpls_rn → mpls_rn) (p : Prefix), (∀ c, nhlfe_keeps K c (f c)) →
      zebra_wf (with_rn f (route_node_get_mpls s p) p) →
      nhlfe_inv K (with_rn f (route_node_get_mpls s p) p) := by
    intro f p hf hwf
    rw [with_rn_get] at hwf ⊢
    exact nhlfe_inv_put K s p _ hinv (hf _) hwf
  cases o with
  | set_static_input_label p label => exact hmut _ p (fun c => nhlfe_keeps_set_static K c label) hw
  | remove_static_input_label p label =>
    exact hmut _ p (fun c => nhlfe_keeps_remove_static K c label) hw
  | set_ldp_input_label p label => exact hmut _ p (fun c => nhlfe_keeps_set_ldp K c label) hw
  | add_static_lsp p nexthop label =>
    exact hmut _ p (fun c => nhlfe_keeps_add_static_lsp K drv c nexthop label) hw
  | remove_static_lsp p nexthop =>
    exact hmut _ p (fun c => nhlfe_keeps_remove_static_lsp K drv c nexthop) hw
  | set_ldp_lsp p nexthop label =>
    exact hmut _ p (fun c => nhlfe_keeps_set_ldp_lsp K drv c nexthop label) hw
  | remove_ldp_lsp p nexthop label =>
    exact hmut _ p (fun c => nhlfe_keeps_remove_ldp_lsp K drv c nexthop label) hw
  | route_install_hook p => exact hook _ p (fun c => nhlfe_keeps_install_hook K drv c) hw
  | route_uninstall_hook p => exact hook _ p (fun c => nhlfe_keeps_uninstall_hook K c) hw
  | rib_update p info => exact absurd rfl (ho p info)
/-- The invariant of orderly runs reads the route table, the cross-connect
table, the allocation counter and the log: a change of the RIB entries of a
node that has an active route afterwards, or that has no selected LSP, keeps
it. -/
theorem nhlfe_inv_rib_update (K : zebra_consts) (s : zebra) (p : Prefix) (info : List rib)
    (hinv : nhlfe_inv K s)
    (h : zebra_route_node_active K info = true ∨ (bindings s p).selected_lsp = none) :
    nhlfe_inv K (rib_update s p info) := by
  obtain ⟨hwf, hxc, hxlt, hxnd, hap, hapx, hoff, hset⟩ := hinv
  have hb : ∀ q, bindings (rib_update s p info) q = bindings s q := by
    intro q
    unfold bindings
    rw [rib_update_mpls]
  have hi : ∀ q, q ≠ p → ((rib_update s p info).table q).info = (s.table q).info := by
    intro q hq
    rw [rib_update_table, if_neg hq]
  have hip : ((rib_update s p info).table p).info = info := by
    rw [rib_update_table, if_pos rfl]
  have hon : ∀ q x, lsp_on K ((rib_update s p info).table q).info (bindings s q) x ↔
      lsp_on K (s.table q).info (bindings s q) x := by
    intro q x
    by_cases hq : q = p
    · subst hq
      rw [hip]
      unfold lsp_on
      rcases h with h | h
      · by_cases ha : zebra_route_node_active K (s.table q).info = true
        · rw [h, ha]
        · have hn := hoff q (by simpa using ha)
          rw [hn]
          constructor
          · rintro ⟨_, h2⟩; cases h2
          · rintro ⟨_, h2⟩; cases h2
      · rw [h]
        constructor
        · rintro ⟨_, h2⟩; cases h2
        · rintro ⟨_, h2⟩; cases h2
    · rw [hi q hq]
  refine ⟨step_wf K null_driver s (op.rib_update p info) hwf, hxc, hxlt, hxnd, ?_, ?_, ?_, ?_⟩
  · intro a b x hab ha hb'
    rw [hb] at ha hb'
    exact hap a b x hab ha hb'
  · intro a x ha
    rw [hb] at ha
    exact hapx a x ha
  · intro a hina
    rw [hb]
    by_cases hq : a = p
    · subst hq
      rw [hip] at hina
      rcases h with h | h
      · rw [h] at hina; cases hina
      · exact h
    · rw [hi a hq] at hina
      exact hoff a hina
  · intro x
    show nhlfe_installed s.log x = true ↔ _
    rw [hset x]
    unfold nhlfe_claimed
    constructor
    · rintro (⟨q, hq⟩ | hmc)
      · exact Or.inl ⟨q, by rw [hb]; exact (hon q x).2 hq⟩
      · exact Or.inr hmc
    · rintro (⟨q, hq⟩ | hmc)
      · rw [hb] at hq
        exact Or.inl ⟨q, (hon q x).1 hq⟩
      · exact Or.inr hmc

/-- The invariant of orderly runs depends on the route table, the
cross-connect table, the allocation counter and the log only. -/
theorem nhlfe_inv_congr (K : zebra_consts) (s s' : zebra) (ht : s'.table = s.table)
    (hl : s'.mpls_crossconnect_list = s.mpls_crossconnect_list) (ha : s'.alloc = s.alloc)
    (hg : s'.log = s.log) (h : nhlfe_inv K s) : nhlfe_inv K s' := by
  have hb : ∀ q, bindings s' q = bindings s q := fun q => bindings_congr (by rw [ht])
  obtain ⟨hwf, hxc, hxlt, hxnd, hap, hapx, hoff, hset⟩ := h
  refine ⟨?_, ?_, ?_, ?_, ?_, ?_, ?_, ?_⟩
  · intro p lb hp
    rw [ht] at hp
    rw [ha]
    exact hwf p lb hp
  · unfold xc_wf
    rw [hl, ha]
    exact hxc
  · rw [hl, ha]; exact hxlt
  · rw [hl]; exact hxnd
  · intro a b x hab h1 h2
    rw [hb] at h1 h2
    exact hap a b x hab h1 h2
  · intro a x h1
    rw [hb] at h1
    rw [hl]
    exact hapx a x h1
  · intro a hina
    rw [ht] at hina
    rw [hb]
    exact hoff a hina
  · intro x
    rw [hg, hset x]
    unfold nhlfe_claimed
    rw [hl, ht]
    constructor
    · rintro (⟨q, hq⟩ | h)
      · exact Or.inl ⟨q, by rw [hb]; exact hq⟩
      · exact Or.inr h
    · rintro (⟨q, hq⟩ | h)
      · rw [hb] at hq; exact Or.inl ⟨q, hq⟩
      · exact Or.inr h

/-- Taking the entry `mc` out of the cross-connect table with an NHLFE remove
for its LSP keeps the invariant. -/
theorem nhlfe_inv_xc_remove (K : zebra_consts) (s s' : zebra) (mc : mpls_crossconnect)
    (es : List event) (hm : mc ∈ s.mpls_crossconnect_list) (ht : s'.table = s.table)
    (hl : s'.mpls_crossconnect_list = s.mpls_crossconnect_list.erase mc)
    (ha : s'.alloc = s.alloc)
    (hg : s'.log = s.log ++ es ++ [event.nhlfe_unregister mc.lsp])
    (hq : ∀ e ∈ es, e.is_nhlfe = false) (hxw : xc_wf s') (h : nhlfe_inv K s) :
    nhlfe_inv K s' := by
  have hb : ∀ q, bindings s' q = bindings s q := fun q => bindings_congr (by rw [ht])
  obtain ⟨hwf, hxc, hxlt, hxnd, hap, hapx, hoff, hset⟩ := h
  have hsub : ∀ x ∈ s'.mpls_crossconnect_list, x ∈ s.mpls_crossconnect_list := by
    intro x hx
    rw [hl] at hx
    exact List.mem_of_mem_erase hx
  have hnodup : s.mpls_crossconnect_list.Nodup := List.Nodup.of_map _ hxc.2.1
  refine ⟨?_, hxw, ?_, ?_, ?_, ?_, ?_, ?_⟩
  · intro p lb hp
    rw [ht] at hp
    rw [ha]
    exact hwf p lb hp
  · intro x hx
    rw [ha]
    exact hxlt x (hsub x hx)
  · rw [hl]
    exact List.Nodup.sublist (List.Sublist.map _ (List.erase_sublist _ _)) hxnd
  · intro a b x hab h1 h2
    rw [hb] at h1 h2
    exact hap a b x hab h1 h2
  · intro a x h1 y hy
    rw [hb] at h1
    exact hapx a x h1 y (hsub y hy)
  · intro a hina
    rw [ht] at hina
    rw [hb]
    exact hoff a hina
  · intro x
    have hinst : nhlfe_installed s'.log x =
        if mc.lsp.ptr = x then false else nhlfe_installed s.log x := by
      rw [hg, nhlfe_installed_append, nhlfe_installed_append, nhlfe_run_quiet x es _ hq]
      rfl
    rw [hinst]
    unfold nhlfe_claimed
    by_cases hx : mc.lsp.ptr = x
    · rw [if_pos hx]
      constructor
      · intro h; cases h
      · rintro (⟨q, hq'⟩ | ⟨y, hy, hyx⟩)
        · rw [ht, hb] at hq'
          exact absurd hx (hapx q x (lsp_on_held hq') mc hm)
        · have hy' := hy
          rw [hl] at hy'
          have hne : y ≠ mc := ((List.Nodup.mem_erase_iff hnodup).1 hy').1
          exact absurd (List.inj_on_of_nodup_map hxnd (hsub y hy) hm (hyx.trans hx.symm)) hne
    · rw [if_neg hx, hset x]
      unfold nhlfe_claimed
      constructor
      · rintro (⟨q, hq'⟩ | ⟨y, hy, hyx⟩)
        · exact Or.inl ⟨q, by rw [ht, hb]; exact hq'⟩
        · refine Or.inr ⟨y, ?_, hyx⟩
          rw [hl]
          refine (List.Nodup.mem_erase_iff hnodup).2 ⟨?_, hy⟩
          intro hym
          rw [hym] at hyx
          exact hx hyx
      · rintro (⟨q, hq'⟩ | ⟨y, hy, hyx⟩)
        · rw [ht, hb] at hq'
          exact Or.inl ⟨q, hq'⟩
        · exact Or.inr ⟨y, hsub y hy, hyx⟩

/-- Linking a new entry, made of two new objects, into the cross-connect table
with an NHLFE install for its LSP keeps the invariant. -/
theorem nhlfe_inv_xc_add (K : zebra_consts) (s s' : zebra) (in_label : Nat) (ifp : Option Nat)
    (nexthop out_label : Nat) (es : List event) (ht : s'.table = s.table)
    (hl : s'.mpls_crossconnect_list = s.mpls_crossconnect_list
      ++ [mpls_crossconnect_new s.alloc in_label ifp nexthop out_label])
    (ha : s'.alloc = s.alloc + 2)
    (hg : s'.log = s.log
      ++ [event.nhlfe_register (mpls_crossconnect_new s.alloc in_label ifp nexthop out_label).lsp]
      ++ es)
    (hq : ∀ e ∈ es, e.is_nhlfe = false) (hxw : xc_wf s') (h : nhlfe_inv K s) :
    nhlfe_inv K s' := by
  have hb : ∀ q, bindings s' q = bindings s q := fun q => bindings_congr (by rw [ht])
  obtain ⟨hwf, hxc, hxlt, hxnd, hap, hapx, hoff, hset⟩ := h
  have hlt : ∀ q x, lsp_held (bindings s q) x → x < s.alloc :=
    fun q x hx => lsp_held_lt (rn_of_wf s q hwf) hx
  have hnp : (mpls_crossconnect_new s.alloc in_label ifp nexthop out_label).lsp.ptr
      = s.alloc + 1 := rfl
  refine ⟨?_, hxw, ?_, ?_, ?_, ?_, ?_, ?_⟩
  · intro p lb hp
    rw [ht] at hp
    rw [ha]
    exact lb_wf_mono (by omega) (hwf p lb hp)
  · intro x hx
    rw [hl, List.mem_append, List.mem_singleton] at hx
    rw [ha]
    rcases hx with hx | hx
    · have := hxlt x hx
      omega
    · rw [hx, hnp]
      omega
  · rw [hl, List.map_append, List.nodup_append]
    refine ⟨hxnd, by simp, ?_⟩
    intro a ha1 ha2
    rw [List.map_singleton, List.mem_singleton, hnp] at ha2
    obtain ⟨y, hy, hya⟩ := List.mem_map.1 ha1
    have := hxlt y hy
    omega
  · intro a b x hab h1 h2
    rw [hb] at h1 h2
    exact hap a b x hab h1 h2
  · intro a x h1 y hy
    rw [hb] at h1
    rw [hl, List.mem_append, List.mem_singleton] at hy
    rcases hy with hy | hy
    · exact hapx a x h1 y hy
    · rw [hy, hnp]
      have := hlt a x h1
      omega
  · intro a hina
    rw [ht] at hina
    rw [hb]
    exact hoff a hina
  · intro x
    have hinst : nhlfe_installed s'.log x =
        if s.alloc + 1 = x then true else nhlfe_installed s.log x := by
      rw [hg, nhlfe_installed_append, nhlfe_installed_append, nhlfe_run_quiet x es _ hq]
      rfl
    rw [hinst]
    unfold nhlfe_claimed
    by_cases hx : s.alloc + 1 = x
    · rw [if_pos hx]
      constructor
      · intro _
        refine Or.inr ⟨_, ?_, hnp.trans hx⟩
        rw [hl]
        simp
      · intro _; rfl
    · rw [if_neg hx, hset x]
      unfold nhlfe_claimed
      constructor
      · rintro (⟨q, hq'⟩ | ⟨y, hy, hyx⟩)
        · exact Or.inl ⟨q, by rw [ht, hb]; exact hq'⟩
        · refine Or.inr ⟨y, ?_, hyx⟩
          rw [hl]
          exact List.mem_append_left _ hy
      · rintro (⟨q, hq'⟩ | ⟨y, hy, hyx⟩)
        · rw [ht, hb] at hq'
          exact Or.inl ⟨q, hq'⟩
        · rw [hl, List.mem_append, List.mem_singleton] at hy
          rcases hy with hy | hy
          · exact Or.inr ⟨y, hy, hyx⟩
          · rw [hy, hnp] at hyx
            exact absurd hyx hx
theorem crossconnect_remove_nhlfe_inv (K : zebra_consts) (s : zebra) (L : Nat)
    (hinv : nhlfe_inv K s) : nhlfe_inv K (mpls_static_crossconnect_remove s L).2 := by
  have hw := (crossconnect_remove_wf s L hinv.2.1).1
  cases hf : s.mpls_crossconnect_list.find? (fun x => x.in_label == L) with
  | none =>
    have hs : (mpls_static_crossconnect_remove s L).2 = s := by
      unfold mpls_static_crossconnect_remove; rw [hf]
    rw [hs]
    exact hinv
  | some mc =>
    have hr := crossconnect_remove_found s L mc hf
    have hm : mc ∈ s.mpls_crossconnect_list := List.mem_of_find?_eq_some hf
    refine nhlfe_inv_xc_remove K s _ mc
      [event.xc_unregister L mc.lsp, event.ilm_unregister L] hm
      (crossconnect_remove_table s L) ?_ hr.2.2.2 ?_ ?_ hw hinv
    · rw [hr.2.2.1, listnode_delete_mc_erase _ mc hinv.2.1.2.1 hm]
    · rw [hr.2.1]
      simp
    · intro e he
      simp only [List.mem_cons, List.mem_singleton, List.not_mem_nil, or_false] at he
      rcases he with he | he <;> rw [he] <;> rfl

theorem crossconnect_add_new_nhlfe_inv (K : zebra_consts) (drv : driver)
    (hdrv : ∀ log, 0 ≤ drv log) (s s1 : zebra) (in_label : Nat) (ifp : Option Nat)
    (nexthop out_label : Nat) (hinv : nhlfe_inv K s1) (hxw : xc_wf s)
    (hloop : crossconnect_add_loop in_label ifp nexthop out_label s.mpls_crossconnect_list s
      = (false, s1)) :
    nhlfe_inv K (mpls_static_crossconnect_add drv s in_label ifp nexthop out_label).2 := by
  have hall := crossconnect_add_of_loop drv s s1 in_label ifp nexthop out_label hloop
  have hlog := (hall.2.2.2.2 (not_lt.2 (hdrv _)) (not_lt.2 (hdrv _)) (not_lt.2 (hdrv _))).2
  refine nhlfe_inv_xc_add K s1 _ in_label ifp nexthop out_label
    [event.ilm_register in_label,
     event.xc_register in_label (mpls_crossconnect_new s1.alloc in_label ifp nexthop out_label).lsp]
    (crossconnect_add_table drv s s1 in_label ifp nexthop out_label hloop) hall.1
    (crossconnect_add_alloc drv s s1 in_label ifp nexthop out_label hloop) ?_ ?_
    (crossconnect_add_wf drv s in_label ifp nexthop out_label hxw) hinv
  · rw [hlog]
    simp
  · intro e he
    simp only [List.mem_cons, List.mem_singleton, List.not_mem_nil, or_false] at he
    rcases he with he | he <;> rw [he] <;> rfl

theorem crossconnect_add_nhlfe_inv (K : zebra_consts) (drv : driver)
    (hdrv : ∀ log, 0 ≤ drv log) (s : zebra) (in_label : Nat) (ifp : Option Nat)
    (nexthop out_label : Nat) (hinv : nhlfe_inv K s) :
    nhlfe_inv K (mpls_static_crossconnect_add drv s in_label ifp nexthop out_label).2 := by
  have hloop := crossconnect_add_loop_eq in_label ifp nexthop out_label
    s.mpls_crossconnect_list s hinv.2.1.1
  cases hf : s.mpls_crossconnect_list.find? (fun mc => mc.in_label == in_label) with
  | none =>
    rw [hf] at hloop
    exact crossconnect_add_new_nhlfe_inv K drv hdrv s s in_label ifp nexthop out_label hinv
      hinv.2.1 hloop
  | some mc =>
    rw [hf] at hloop
    dsimp only at hloop
    by_cases hsame : crossconnect_same mc ifp nexthop out_label = true
    · rw [if_pos hsame] at hloop
      have hs : (mpls_static_crossconnect_add drv s in_label ifp nexthop out_label).2 = s := by
        unfold mpls_static_crossconnect_add
        rw [hloop]
      rw [hs]
      exact hinv
    · rw [if_neg hsame] at hloop
      exact crossconnect_add_new_nhlfe_inv K drv hdrv s _ in_label ifp nexthop out_label
        (crossconnect_remove_nhlfe_inv K s in_label hinv) hinv.2.1 hloop

theorem xc_step_nhlfe_inv (K : zebra_consts) (drv : driver) (hdrv : ∀ log, 0 ≤ drv log)
    (s : zebra) (o : xc_op) (hinv : nhlfe_inv K s) : nhlfe_inv K (xc_step drv s o) := by
  cases o with
  | add in_label ifp nexthop out_label =>
    exact crossconnect_add_nhlfe_inv K drv hdrv s in_label ifp nexthop out_label hinv
  | remove in_label => exact crossconnect_remove_nhlfe_inv K s in_label hinv

theorem zebra_start_nhlfe_inv (K : zebra_consts) (cl : List zserv) :
    nhlfe_inv K (zebra_start cl) := by
  have hb : ∀ q, bindings (zebra_start cl) q = label_bindings_new := fun _ => rfl
  have hnh : ∀ q x, ¬ lsp_held (bindings (zebra_start cl) q) x := by
    intro q x h
    rw [hb] at h
    rcases h with h | h
    · simp [lsps, label_bindings_new] at h
    · cases h
  have hxw : xc_wf (zebra_start cl) := by
    refine ⟨List.nodup_nil, List.nodup_nil, ?_⟩
    intro mc hmc
    cases hmc
  have hlt : ∀ mc ∈ (zebra_start cl).mpls_crossconnect_list,
      mc.lsp.ptr < (zebra_start cl).alloc := by
    intro mc hmc
    cases hmc
  refine ⟨zebra_start_wf cl, hxw, hlt, List.nodup_nil, fun a b x _ h _ => hnh a x h,
    fun a x h => absurd h (hnh a x), fun _ _ => rfl, ?_⟩
  intro x
  constructor
  · intro h; cases h
  · rintro (⟨q, hq⟩ | ⟨mc, hmc, _⟩)
    · exact absurd (lsp_on_held hq) (hnh q x)
    · cases hmc

/-- Along orderly runs with a driver that accepts every call the invariant
holds. -/
theorem orderly_nhlfe_inv (K : zebra_consts) (drv : driver) (hdrv : ∀ log, 0 ≤ drv log)
    (s : zebra) (h : orderly K drv s) : nhlfe_inv K s := by
  induction h with
  | start cl => exact zebra_start_nhlfe_inv K cl
  | mutator s o _ ho ih =>
    refine nhlfe_inv_step K drv s o ?_ ih
    intro p info he
    rw [he] at ho
    cases ho
  | crossconnect s o _ ih => exact xc_step_nhlfe_inv K drv hdrv s o ih
  | route_install s p info _ hact ih =>
    refine nhlfe_inv_step K drv _ _ (fun _ _ he => by cases he) ?_
    exact nhlfe_inv_rib_update K s p info ih (Or.inl hact)
  | route_uninstall s p info _ hina ih =>
    have h1 := nhlfe_inv_step K drv s (op.route_uninstall_hook p) (fun _ _ he => by cases he) ih
    refine nhlfe_inv_rib_update K _ p info h1 (Or.inr ?_)
    have hsel := (uninstall_hook_selected K s p).1
    show (bindings (mpls_route_uninstall_hook K s p) p).selected_lsp = none
    cases hm : ((mpls_route_uninstall_hook K s p).table p).mpls with
    | none =>
      have : bindings (mpls_route_uninstall_hook K s p) p = label_bindings_new := by
        unfold bindings; rw [hm]; rfl
      rw [this]
      rfl
    | some lb =>
      rw [bindings_of_some hm]
      exact hsel lb hm
/-! ## Operations leave other nodes alone -/

/-- An operation changes no node but its own, and neither the cross-connect
table nor the client list nor the MPLS flag. -/
theorem step_frame (K : zebra_consts) (drv : driver) (s : zebra) (o : op) :
    (∀ q, q ≠ o.node → (step K drv s o).table q = s.table q) ∧
    (step K drv s o).mpls_crossconnect_list = s.mpls_crossconnect_list ∧
    (step K drv s o).client_list = s.client_list ∧
    (step K drv s o).mpls_enabled = s.mpls_enabled := by
  have hput : ∀ (p : Prefix) (c : mpls_rn),
      (∀ q, q ≠ p → (put_rn s p c).table q = s.table q) ∧
      (put_rn s p c).mpls_crossconnect_list = s.mpls_crossconnect_list ∧
      (put_rn s p c).client_list = s.client_list ∧
      (put_rn s p c).mpls_enabled = s.mpls_enabled :=
    fun p c => ⟨fun q hq => by rw [put_rn_table, if_neg hq], rfl, rfl, rfl⟩
  have hmut : ∀ (f : mpls_rn → mpls_rn) (p : Prefix),
      (∀ q, q ≠ p → (with_rn f (route_node_get_mpls s p) p).table q = s.table q) ∧
      (with_rn f (route_node_get_mpls s p) p).mpls_crossconnect_list
        = s.mpls_crossconnect_list ∧
      (with_rn f (route_node_get_mpls s p) p).client_list = s.client_list ∧
      (with_rn f (route_node_get_mpls s p) p).mpls_enabled = s.mpls_enabled := by
    intro f p
    rw [with_rn_get]
    exact hput p _
  have hook : ∀ (f : mpls_rn → mpls_rn) (p : Prefix),
      (∀ q, q ≠ p → (with_rn f s p).table q = s.table q) ∧
      (with_rn f s p).mpls_crossconnect_list = s.mpls_crossconnect_list ∧
      (with_rn f s p).client_list = s.client_list ∧
      (with_rn f s p).mpls_enabled = s.mpls_enabled := by
    intro f p
    rw [with_rn_hook]
    split
    · exact ⟨fun _ _ => rfl, rfl, rfl, rfl⟩
    · exact hput p _
  cases o with
  | set_static_input_label p label => exact hmut _ p
  | remove_static_input_label p label => exact hmut _ p
  | set_ldp_input_label p label => exact hmut _ p
  | add_static_lsp p nexthop label => exact hmut _ p
  | remove_static_lsp p nexthop => exact hmut _ p
  | set_ldp_lsp p nexthop label => exact hmut _ p
  | remove_ldp_lsp p nexthop label => exact hmut _ p
  | route_install_hook p => exact hook _ p
  | route_uninstall_hook p => exact hook _ p
  | rib_update p info =>
    refine ⟨?_, rfl, rfl, rfl⟩
    intro q hq
    have hq2 : q ≠ p := hq
    show (rib_update s p info).table q = s.table q
    rw [rib_update_table, if_neg hq2]

theorem run_frame (K : zebra_consts) (drv : driver) (P : Prefix) (os : List op) (s : zebra)
    (h : ∀ o ∈ os, o.node = P) :
    (∀ q, q ≠ P → (run K drv s os).table q = s.table q) ∧
    (run K drv s os).mpls_crossconnect_list = s.mpls_crossconnect_list := by
  induction os generalizing s with
  | nil => exact ⟨fun _ _ => rfl, rfl⟩
  | cons o t ih =>
    have ho := h o (List.mem_cons_self _ _)
    have hf := step_frame K drv s o
    have ht := ih (step K drv s o) (fun o' ho' => h o' (List.mem_cons_of_mem _ ho'))
    constructor
    · intro q hq
      show (run K drv (step K drv s o) t).table q = s.table q
      rw [ht.1 q hq, hf.1 q (by rw [ho]; exact hq)]
    · show (run K drv (step K drv s o) t).mpls_crossconnect_list = s.mpls_crossconnect_list
      rw [ht.2, hf.2.1]

/-! ## The NHLFE-programmed set -/

/-- C31: with a driver that records NHLFE installs and removals and accepts
every call, in every state reached from start-up by prefix mutators,
cross-connect calls, and RIB changes announced in order (the install hook
right after the RIB gave the node an active route, the uninstall hook right
before the RIB takes the active route away), the LSP at an address has an
installed NHLFE exactly if it is the selected LSP of a prefix with an active
route or the LSP of a cross-connect entry; and it is never both. -/
theorem C31_nhlfe_programmed_set (K : zebra_consts) (drv : driver) (s : zebra)
    (hdrv : ∀ log, 0 ≤ drv log) (h : orderly K drv s) (x : Nat) :
    (nhlfe_installed s.log x = true ↔ nhlfe_claimed K s x) ∧
    ¬ ((∃ p, lsp_on K (s.table p).info (bindings s p) x) ∧
      (∃ mc ∈ s.mpls_crossconnect_list, mc.lsp.ptr = x)) := by
  have hinv := orderly_nhlfe_inv K drv hdrv s h
  refine ⟨hinv.2.2.2.2.2.2.2 x, ?_⟩
  rintro ⟨⟨p, hp⟩, mc, hmc, hx⟩
  exact hinv.2.2.2.2.2.1 p x (lsp_on_held hp) mc hmc hx

theorem nhlfe_demo_state_orderly : orderly quagga_consts null_driver nhlfe_demo_state :=
  orderly.crossconnect _ _
    (orderly.mutator _ (op.add_static_lsp demo_prefix demo_nexthop 200)
      (orderly.route_install _ demo_prefix (demo_route demo_nexthop)
        (orderly.mutator _ (op.set_static_input_label demo_prefix 100)
          (orderly.start demo_clients) rfl) (by decide)) rfl)

/-- C31 (witness): after scenario 1 and the addition of a cross-connect, the
NHLFE table holds the selected LSP of 10.0.0.0/8 (address 1) and the LSP of
the cross-connect (address 3), and nothing at address 2. -/
theorem C31_nhlfe_programmed_set_witness :
    (∀ log, 0 ≤ null_driver log) ∧ orderly quagga_consts null_driver nhlfe_demo_state ∧
    nhlfe_installed nhlfe_demo_state.log 1 = true ∧
    nhlfe_installed nhlfe_demo_state.log 3 = true ∧
    (nhlfe_installed nhlfe_demo_state.log 1 = true ↔
      nhlfe_claimed quagga_consts nhlfe_demo_state 1) ∧
    (nhlfe_installed nhlfe_demo_state.log 2 = true ↔
      nhlfe_claimed quagga_consts nhlfe_demo_state 2) ∧
    (nhlfe_installed nhlfe_demo_state.log 3 = true ↔
      nhlfe_claimed quagga_consts nhlfe_demo_state 3) :=
  ⟨fun _ => le_refl _, nhlfe_demo_state_orderly, by decide, by decide,
    (C31_nhlfe_programmed_set quagga_consts null_driver nhlfe_demo_state (fun _ => le_refl _)
      nhlfe_demo_state_orderly 1).1,
    (C31_nhlfe_programmed_set quagga_consts null_driver nhlfe_demo_state (fun _ => le_refl _)
      nhlfe_demo_state_orderly 2).1,
    (C31_nhlfe_programmed_set quagga_consts null_driver nhlfe_demo_state (fun _ => le_refl _)
      nhlfe_demo_state_orderly 3).1⟩

/-- C31 (counterexample): scenario 1, then the RIB takes the route of
10.0.0.0/8 away and calls the uninstall hook.  The hook finds the route not
active, clears the selected LSP and calls no NHLFE remove: with the driver of
`mpls_null.c`, which accepts every call, the LSP at address 1 keeps its NHLFE
while no prefix has an active route and a selected LSP and there is no
cross-connect. -/
theorem C31_nhlfe_set_counterexample :
    (∀ log, 0 ≤ null_driver log) ∧
    reachable quagga_consts null_driver late_withdrawal_state ∧
    nhlfe_installed late_withdrawal_state.log 1 = true ∧
    ¬ nhlfe_claimed quagga_consts late_withdrawal_state 1 := by
  refine ⟨fun _ => le_refl _, reachable_by_run (reachable_by.start demo_clients) _,
    by decide, ?_⟩
  have hfr := run_frame quagga_consts null_driver demo_prefix late_withdrawal_run
    (zebra_start demo_clients) (by decide)
  rintro (⟨p, hact, hsel⟩ | ⟨mc, hmc, _⟩)
  · by_cases hp : p = demo_prefix
    · subst hp
      revert hact
      decide
    · have ht : late_withdrawal_state.table p = (zebra_start demo_clients).table p :=
        hfr.1 p hp
      have hb : bindings late_withdrawal_state p = label_bindings_new := by
        unfold bindings
        rw [ht]
        rfl
      rw [hb] at hsel
      cases hsel
  · have hl : late_withdrawal_state.mpls_crossconnect_list = [] := rfl
    rw [hl] at hmc
    cases hmc

/-! ## Engine functions and the addresses of LSP records -/

theorem ptr_of_rename (f : Nat → Nat) (o : Option route_lsp) :
    ptr_of (o.map (route_lsp.rename f)) = (ptr_of o).map f := by
  cases o <;> rfl

theorem find_rename (f : Nat → Nat) (l : List route_lsp) (n : Nat) :
    (l.map (route_lsp.rename f)).find? (fun x => x.nexthop == n) =
      (l.find? (fun x => x.nexthop == n)).map (route_lsp.rename f) := by
  induction l with
  | nil => rfl
  | cons a t ih =>
    rw [List.map_cons, List.find?_cons, List.find?_cons]
    have : (route_lsp.rename f a).nexthop = a.nexthop := rfl
    rw [this]
    cases h : (a.nexthop == n)
    · exact ih
    · rfl

theorem select_candidate_rename (f : Nat → Nat) (lb : label_bindings) (n : Nat) :
    select_candidate (lb.rename f) n = (select_candidate lb n).map (route_lsp.rename f) := by
  unfold select_candidate
  have hs : (lb.rename f).static_lsps = lb.static_lsps.map (route_lsp.rename f) := rfl
  have hl : (lb.rename f).ldp_lsp = lb.ldp_lsp.map (route_lsp.rename f) := rfl
  rw [hs, hl, find_rename]
  cases lb.ldp_lsp with
  | none => rfl
  | some d =>
    simp only [Option.map_some']
    have : (route_lsp.rename f d).nexthop = d.nexthop := rfl
    rw [this]
    by_cases h : d.nexthop = n
    · rw [if_pos h, if_pos h]; rfl
    · rw [if_neg h, if_neg h]

theorem listnode_delete_rename (f : Nat → Nat) (hf : Function.Injective f)
    (l : List route_lsp) (x : route_lsp) :
    listnode_delete (l.map (route_lsp.rename f)) (x.rename f) =
      (listnode_delete l x).map (route_lsp.rename f) := by
  unfold listnode_delete
  induction l with
  | nil => rfl
  | cons a t ih =>
    have h1 : ((route_lsp.rename f a).ptr == (route_lsp.rename f x).ptr) = (a.ptr == x.ptr) := by
      show (f a.ptr == f x.ptr) = (a.ptr == x.ptr)
      by_cases h : a.ptr = x.ptr
      · simp [h]
      · have : f a.ptr ≠ f x.ptr := fun h2 => h (hf h2)
        simp [h, this]
    rw [List.map_cons, List.eraseP_cons, List.eraseP_cons, h1]
    cases (a.ptr == x.ptr)
    · show route_lsp.rename f a :: _ = _
      rw [ih]
      rfl
    · rfl

theorem unselect_events_rename (f : Nat → Nat) (label : Nat) (o : Option route_lsp) :
    unselect_events label (o.map (route_lsp.rename f)) =
      (unselect_events label o).map (event.rename f) := by
  cases o with
  | none => rfl
  | some l =>
    unfold unselect_events
    by_cases h : label = NO_LABEL
    · simp [h, event.rename]
    · simp [h, event.rename]

theorem xc_unregister_if_rename (f : Nat → Nat) (label : Nat) (o : Option route_lsp) :
    xc_unregister_if (o.map (route_lsp.rename f)) label =
      (xc_unregister_if o label).map (event.rename f) := by
  cases o <;> rfl

theorem xc_register_if_rename (f : Nat → Nat) (label : Nat) (o : Option route_lsp) :
    xc_register_if (o.map (route_lsp.rename f)) label =
      (xc_register_if o label).map (event.rename f) := by
  cases o <;> rfl

theorem broadcast_rename (f : Nat → Nat) (cl : List zserv) (p : Prefix) (label : Nat) :
    (broadcast cl p label).map (event.rename f) = broadcast cl p label := by
  unfold broadcast
  rw [List.map_map]
  rfl

theorem renamed_refl_of_fixed (f : Nat → Nat) (D : Prop) (c : mpls_rn) (a : Nat)
    (lg' : List event) (hfix : c.lb.rename f = c.lb) :
    renamed f D c.log lg' c { c with alloc := a, log := lg' } :=
  ⟨rfl, rfl, rfl, hfix.symm, fun _ => ⟨[], (List.append_nil _).symm, (List.append_nil _).symm⟩⟩

/-- Both nodes log a call, the second with the LSP record moved. -/
theorem renamed_emit {f : Nat → Nat} {D : Prop} {lg lg' : List event} {c c' : mpls_rn}
    (h : renamed f D lg lg' c c') (e : event) :
    renamed f D lg lg' (emit c e) (emit c' (e.rename f)) := by
  obtain ⟨h1, h2, h3, h4, h5⟩ := h
  refine ⟨h1, h2, h3, h4, ?_⟩
  intro hD
  obtain ⟨es, e1, e2⟩ := h5 hD
  refine ⟨es ++ [e], ?_, ?_⟩
  · show c.log ++ [e] = _
    rw [e1, List.append_assoc]
  · show c'.log ++ [e.rename f] = _
    rw [e2, List.map_append, List.append_assoc]
    rfl

/-- Both nodes get new bindings records, the second the first moved. -/
theorem renamed_lb {f : Nat → Nat} {D : Prop} {lg lg' : List event} {c c' : mpls_rn}
    (h : renamed f D lg lg' c c') (lb : label_bindings) :
    renamed f D lg lg' { c with lb := lb } { c' with lb := lb.rename f } :=
  ⟨h.1, h.2.1, h.2.2.1, rfl, h.2.2.2.2⟩

theorem renamed_remove_lsp {f : Nat → Nat} (hf : Function.Injective f) {D : Prop}
    {lg lg' : List event} {c c' : mpls_rn} (K : zebra_consts)
    (h : renamed f D lg lg' c c') (l : route_lsp) :
    renamed f D lg lg' (mpls_prefix_remove_lsp K c l)
      (mpls_prefix_remove_lsp K c' (l.rename f)) := by
  obtain ⟨h1, h2, h3, h4, h5⟩ := h
  cases c' with
  | mk p' info' lb' cl' a' lg2 =>
    simp only at h1 h2 h3 h4 h5
    subst h1 h2 h3 h4
    have hcond : ptr_of (c.lb.selected_lsp.map (route_lsp.rename f)) ≠ some (f l.ptr) ↔
        ptr_of c.lb.selected_lsp ≠ some l.ptr := by
      rw [ptr_of_rename]
      cases hp : ptr_of c.lb.selected_lsp with
      | none => simp
      | some x =>
        simp only [Option.map_some', ne_eq, Option.some.injEq]
        exact not_congr ⟨fun h2 => hf h2, fun h2 => by rw [h2]⟩
    unfold mpls_prefix_remove_lsp
    show renamed f D lg lg' _
      (if ptr_of (c.lb.selected_lsp.map (route_lsp.rename f)) ≠ some (f l.ptr) then _ else _)
    by_cases hc : ptr_of c.lb.selected_lsp ≠ some l.ptr
    · rw [if_pos hc, if_pos (hcond.2 hc)]
      exact ⟨rfl, rfl, rfl, rfl, h5⟩
    · rw [if_neg hc, if_neg (fun h2 => hc (hcond.1 h2))]
      dsimp only
      have h0 : renamed f D lg lg' { c with lb := { c.lb with selected_lsp := none } }
          { p := c.p, info := c.info, lb := { c.lb.rename f with selected_lsp := none },
            client_list := c.client_list, alloc := a', log := lg2 } :=
        ⟨rfl, rfl, rfl, rfl, h5⟩
      by_cases ha : zebra_route_node_active K c.info = true
      · rw [if_pos ha, if_pos ha]
        by_cases hl : c.lb.selected_in_label = NO_LABEL
        · have hl2 : (c.lb.rename f).selected_in_label = NO_LABEL := hl
          rw [if_neg (fun h => h hl), if_neg (fun h => h hl2)]
          exact renamed_emit h0 (event.nhlfe_unregister l)
        · have hl2 : ¬ (c.lb.rename f).selected_in_label = NO_LABEL := hl
          rw [if_pos hl, if_pos hl2]
          exact renamed_emit (renamed_emit h0 (event.xc_unregister c.lb.selected_in_label l))
            (event.nhlfe_unregister l)
      · rw [if_neg ha, if_neg ha]
        exact h0
theorem select_events_rename (f : Nat → Nat) (drv : driver) (log log' : List event) (p : Prefix)
    (label : Nat) (o : Option route_lsp)
    (hd : ∀ l, o = some l → drv (log ++ [event.nhlfe_register l]) =
      drv (log' ++ [event.nhlfe_register (l.rename f)])) :
    select_events drv log' p label (o.map (route_lsp.rename f)) =
      (select_events drv log p label o).map (event.rename f) := by
  cases o with
  | none => rfl
  | some l =>
    have h1 := hd l rfl
    unfold select_events
    simp only [Option.map_some']
    rw [← h1]
    by_cases hneg : drv (log ++ [event.nhlfe_register l]) < 0
    · simp [hneg, event.rename]
    · by_cases hl : label = NO_LABEL
      · simp [hneg, hl, event.rename]
      · simp [hneg, hl, event.rename]

theorem renamed_select_lsp {f : Nat → Nat} (hf : Function.Injective f) {D : Prop}
    {lg lg' : List event} {c c' : mpls_rn} (K : zebra_consts) (drv : driver)
    (hd : D → answers_alike drv f lg lg') (h : renamed f D lg lg' c c') :
    renamed f D lg lg' (mpls_prefix_select_lsp K drv c) (mpls_prefix_select_lsp K drv c') := by
  obtain ⟨h1, h2, h3, h4, h5⟩ := h
  cases hn : get_prefix_nexthop K c.info with
  | none =>
    rw [select_lsp_no_nexthop K drv c hn, select_lsp_no_nexthop K drv c' (by rw [h2]; exact hn)]
    exact ⟨h1, h2, h3, h4, h5⟩
  | some n =>
    rw [select_lsp_eq K drv c n hn, select_lsp_eq K drv c' n (by rw [h2]; exact hn)]
    rw [h4, h1]
    have hcand : select_candidate (c.lb.rename f) n =
        (select_candidate c.lb n).map (route_lsp.rename f) := select_candidate_rename f c.lb n
    have hsel : (c.lb.rename f).selected_lsp = c.lb.selected_lsp.map (route_lsp.rename f) := rfl
    have hin : (c.lb.rename f).selected_in_label = c.lb.selected_in_label := rfl
    rw [hcand, hsel, hin]
    have hcond : ((c.lb.selected_lsp.map (route_lsp.rename f)).isSome = true ∧
        ptr_of (c.lb.selected_lsp.map (route_lsp.rename f)) =
          ptr_of ((select_candidate c.lb n).map (route_lsp.rename f))) ↔
        (c.lb.selected_lsp.isSome = true ∧
          ptr_of c.lb.selected_lsp = ptr_of (select_candidate c.lb n)) := by
      rw [ptr_of_rename, ptr_of_rename]
      have e1 : (c.lb.selected_lsp.map (route_lsp.rename f)).isSome = c.lb.selected_lsp.isSome := by
        cases c.lb.selected_lsp <;> rfl
      rw [e1]
      have e2 : (ptr_of c.lb.selected_lsp).map f = (ptr_of (select_candidate c.lb n)).map f ↔
          ptr_of c.lb.selected_lsp = ptr_of (select_candidate c.lb n) :=
        ⟨fun h => Option.map_injective hf h, fun h => by rw [h]⟩
      rw [e2]
    by_cases hc : c.lb.selected_lsp.isSome = true ∧
        ptr_of c.lb.selected_lsp = ptr_of (select_candidate c.lb n)
    · rw [if_pos hc, if_pos (hcond.2 hc)]
      exact ⟨h1, h2, h3, h4, h5⟩
    · rw [if_neg hc, if_neg (fun h => hc (hcond.1 h))]
      refine ⟨rfl, h2, h3, rfl, ?_⟩
      intro hD
      obtain ⟨es, e1, e2⟩ := h5 hD
      refine ⟨es ++ (unselect_events c.lb.selected_in_label c.lb.selected_lsp
        ++ select_events drv
            (c.log ++ unselect_events c.lb.selected_in_label c.lb.selected_lsp)
            c.p c.lb.selected_in_label (select_candidate c.lb n)), ?_, ?_⟩
      · show c.log ++ _ ++ _ = _
        rw [e1]
        simp only [List.append_assoc]
      · show c'.log ++ unselect_events c.lb.selected_in_label
            (c.lb.selected_lsp.map (route_lsp.rename f))
          ++ select_events drv (c'.log ++ unselect_events c.lb.selected_in_label
            (c.lb.selected_lsp.map (route_lsp.rename f))) c.p c.lb.selected_in_label
            ((select_candidate c.lb n).map (route_lsp.rename f)) = _
        rw [unselect_events_rename]
        rw [select_events_rename f drv
          (c.log ++ unselect_events c.lb.selected_in_label c.lb.selected_lsp)]
        · rw [e2]
          simp only [List.map_append, List.append_assoc]
        · intro l _
          rw [e1, e2]
          have := hd hD (es ++ unselect_events c.lb.selected_in_label c.lb.selected_lsp)
            (event.nhlfe_register l)
          rw [List.map_append] at this
          simp only [List.append_assoc] at this ⊢
          exact this
theorem renamed_maybe_select {f : Nat → Nat} (hf : Function.Injective f) {D : Prop}
    {lg lg' : List event} {c c' : mpls_rn} (K : zebra_consts) (drv : driver)
    (hd : D → answers_alike drv f lg lg') (h : renamed f D lg lg' c c') :
    renamed f D lg lg'
      (if zebra_route_node_active K c.info then mpls_prefix_select_lsp K drv c else c)
      (if zebra_route_node_active K c'.info then mpls_prefix_select_lsp K drv c' else c') := by
  rw [h.2.1]
  split
  · exact renamed_select_lsp hf K drv hd h
  · exact h

theorem set_static_events_rename {f : Nat → Nat} {D : Prop} {lg lg' : List event}
    {c c' : mpls_rn} (K : zebra_consts) (h : renamed f D lg lg' c c') (label : Nat) :
    set_static_events K c' label = (set_static_events K c label).map (event.rename f) := by
  obtain ⟨h1, h2, h3, h4, -⟩ := h
  unfold set_static_events
  rw [h1, h2, h3, h4]
  have hin : (c.lb.rename f).selected_in_label = c.lb.selected_in_label := rfl
  have hsel : (c.lb.rename f).selected_lsp = c.lb.selected_lsp.map (route_lsp.rename f) := rfl
  rw [hin, hsel, xc_unregister_if_rename, xc_register_if_rename]
  split
  · split
    · simp only [List.map_append, broadcast_rename]
      rfl
    · simp only [List.map_append, broadcast_rename]
      rfl
  · rfl

theorem remove_static_events_rename {f : Nat → Nat} {D : Prop} {lg lg' : List event}
    {c c' : mpls_rn} (K : zebra_consts) (h : renamed f D lg lg' c c') :
    remove_static_events K c' = (remove_static_events K c).map (event.rename f) ∧
    remove_static_selected K c' = remove_static_selected K c := by
  obtain ⟨h1, h2, h3, h4, -⟩ := h
  unfold remove_static_events remove_static_selected
  rw [h1, h2, h3, h4]
  have hin : (c.lb.rename f).selected_in_label = c.lb.selected_in_label := rfl
  have hld : (c.lb.rename f).ldp_in_label = c.lb.ldp_in_label := rfl
  have hsel : (c.lb.rename f).selected_lsp = c.lb.selected_lsp.map (route_lsp.rename f) := rfl
  rw [hin, hld, hsel, xc_unregister_if_rename, xc_register_if_rename]
  refine ⟨?_, rfl⟩
  split
  · split
    · simp only [List.map_append, broadcast_rename, List.map_nil]
      rfl
    · simp only [List.map_append, broadcast_rename]
      rfl
  · rfl

theorem set_ldp_events_rename {f : Nat → Nat} {D : Prop} {lg lg' : List event}
    {c c' : mpls_rn} (h : renamed f D lg lg' c c') (label : Nat) :
    set_ldp_events c' label = (set_ldp_events c label).map (event.rename f) := by
  obtain ⟨h1, h2, h3, h4, -⟩ := h
  unfold set_ldp_events
  rw [h4]
  have hin : (c.lb.rename f).selected_in_label = c.lb.selected_in_label := rfl
  have hsel : (c.lb.rename f).selected_lsp = c.lb.selected_lsp.map (route_lsp.rename f) := rfl
  rw [hin, hsel, xc_unregister_if_rename, xc_register_if_rename]
  split
  · split
    · simp only [List.map_append]
      rfl
    · simp only [List.map_append, List.map_nil]
      rfl
  · split
    · simp only [List.map_append, List.map_nil]
      rfl
    · rfl

/-- Both nodes get new bindings records and log a list of calls. -/
theorem renamed_edit {f : Nat → Nat} {D : Prop} {lg lg' : List event} {c c' : mpls_rn}
    (h : renamed f D lg lg' c c') (lb lb' : label_bindings) (es es' : List event)
    (hlb : lb' = lb.rename f) (hes : es' = es.map (event.rename f)) :
    renamed f D lg lg' { c with lb := lb, log := c.log ++ es }
      { c' with lb := lb', log := c'.log ++ es' } := by
  obtain ⟨h1, h2, h3, h4, h5⟩ := h
  refine ⟨h1, h2, h3, hlb, ?_⟩
  intro hD
  obtain ⟨es0, e1, e2⟩ := h5 hD
  refine ⟨es0 ++ es, ?_, ?_⟩
  · show c.log ++ es = _
    rw [e1, List.append_assoc]
  · show c'.log ++ es' = _
    rw [e2, hes, List.map_append, List.append_assoc]

theorem renamed_set_static {f : Nat → Nat} {D : Prop} {lg lg' : List event} {c c' : mpls_rn}
    (K : zebra_consts) (h : renamed f D lg lg' c c') (label : Nat) :
    renamed f D lg lg' (set_static_input_label_rn K c label)
      (set_static_input_label_rn K c' label) := by
  rw [set_static_input_label_rn_eq, set_static_input_label_rn_eq]
  have hst : c'.lb.static_in_label = c.lb.static_in_label := by rw [h.2.2.2.1]; rfl
  rw [hst]
  split
  · exact h
  · refine renamed_edit h _ _ _ _ ?_ (set_static_events_rename K h label)
    rw [h.2.2.2.1]
    rfl

theorem renamed_remove_static {f : Nat → Nat} {D : Prop} {lg lg' : List event}
    {c c' : mpls_rn} (K : zebra_consts) (h : renamed f D lg lg' c c') (label : Nat) :
    renamed f D lg lg' (remove_static_input_label_rn K c label)
      (remove_static_input_label_rn K c' label) := by
  rw [remove_static_input_label_rn_eq, remove_static_input_label_rn_eq]
  have hst : c'.lb.static_in_label = c.lb.static_in_label := by rw [h.2.2.2.1]; rfl
  rw [hst]
  split
  · exact h
  · split
    · exact h
    · refine renamed_edit h _ _ _ _ ?_ (remove_static_events_rename K h).1
      rw [(remove_static_events_rename K h).2, h.2.2.2.1]
      rfl

theorem renamed_set_ldp {f : Nat → Nat} {D : Prop} {lg lg' : List event} {c c' : mpls_rn}
    (K : zebra_consts) (h : renamed f D lg lg' c c') (label : Nat) :
    renamed f D lg lg' (set_ldp_input_label_rn K c label)
      (set_ldp_input_label_rn K c' label) := by
  rw [set_ldp_input_label_rn_eq, set_ldp_input_label_rn_eq]
  have hst : c'.lb.static_in_label = c.lb.static_in_label := by rw [h.2.2.2.1]; rfl
  have hin : c'.lb.selected_in_label = c.lb.selected_in_label := by rw [h.2.2.2.1]; rfl
  have hq : renamed f D lg lg' { c with lb := { c.lb with ldp_in_label := label } }
      { c' with lb := { c'.lb with ldp_in_label := label } } := by
    have := renamed_lb h { c.lb with ldp_in_label := label }
    have he : ({ c.lb with ldp_in_label := label } : label_bindings).rename f =
        { c'.lb with ldp_in_label := label } := by
      rw [h.2.2.2.1]; rfl
    rw [he] at this
    exact this
  have hact : zebra_route_node_active K c'.info = zebra_route_node_active K c.info := by
    rw [h.2.1]
  rw [hst, hin, hact]
  split
  · exact hq
  · split
    · exact hq
    · split
      · refine renamed_edit h _ _ _ _ ?_ (set_ldp_events_rename h label)
        rw [h.2.2.2.1]
        rfl
      · exact hq

theorem renamed_remove_static_lsp {f : Nat → Nat} (hf : Function.Injective f) {D : Prop}
    {lg lg' : List event} {c c' : mpls_rn} (K : zebra_consts) (drv : driver)
    (hd : D → answers_alike drv f lg lg') (h : renamed f D lg lg' c c') (n : Nat) :
    renamed f D lg lg' (remove_static_lsp_rn K drv c n) (remove_static_lsp_rn K drv c' n) := by
  unfold remove_static_lsp_rn
  have hst : c'.lb.static_lsps = c.lb.static_lsps.map (route_lsp.rename f) := by
    rw [h.2.2.2.1]; rfl
  rw [hst, find_rename]
  cases hfind : c.lb.static_lsps.find? (fun x => x.nexthop == n) with
  | none => exact h
  | some lsp =>
    simp only [Option.map_some']
    have h1 := renamed_remove_lsp hf K h lsp
    generalize mpls_prefix_remove_lsp K c lsp = c1 at h1 ⊢
    generalize mpls_prefix_remove_lsp K c' (route_lsp.rename f lsp) = c1' at h1 ⊢
    have h2 : renamed f D lg lg'
        { c1 with lb := { c1.lb with static_lsps := listnode_delete c1.lb.static_lsps lsp } }
        { c1' with lb := { c1'.lb with
            static_lsps := listnode_delete c1'.lb.static_lsps (route_lsp.rename f lsp) } } := by
      refine ⟨h1.1, h1.2.1, h1.2.2.1, ?_, h1.2.2.2.2⟩
      have hb := h1.2.2.2.1
      refine label_bindings_ext_fields _ _ ⟨?_, ?_, ?_⟩ ⟨?_, ?_⟩ ?_
      · show c1'.lb.static_in_label = c1.lb.static_in_label
        rw [hb]; rfl
      · show c1'.lb.ldp_in_label = c1.lb.ldp_in_label
        rw [hb]; rfl
      · show c1'.lb.selected_in_label = c1.lb.selected_in_label
        rw [hb]; rfl
      · show listnode_delete c1'.lb.static_lsps (route_lsp.rename f lsp) =
          (listnode_delete c1.lb.static_lsps lsp).map (route_lsp.rename f)
        rw [hb, ← listnode_delete_rename f hf]
        rfl
      · show c1'.lb.ldp_lsp = c1.lb.ldp_lsp.map (route_lsp.rename f)
        rw [hb]; rfl
      · show c1'.lb.selected_lsp = c1.lb.selected_lsp.map (route_lsp.rename f)
        rw [hb]; rfl
    exact renamed_maybe_select hf K drv hd h2

theorem renamed_add_static_lsp_loop {f : Nat → Nat} (hf : Function.Injective f) {D : Prop}
    {lg lg' : List event} (K : zebra_consts) (drv : driver)
    (hd : D → answers_alike drv f lg lg') (nexthop label : Nat) (l : List route_lsp)
    (c c' : mpls_rn) (h : renamed f D lg lg' c c') :
    (add_static_lsp_loop K drv nexthop label (l.map (route_lsp.rename f)) c').1 =
      (add_static_lsp_loop K drv nexthop label l c).1 ∧
    renamed f D lg lg' (add_static_lsp_loop K drv nexthop label l c).2
      (add_static_lsp_loop K drv nexthop label (l.map (route_lsp.rename f)) c').2 := by
  induction l generalizing c c' with
  | nil => exact ⟨rfl, h⟩
  | cons a t ih =>
    rw [List.map_cons]
    unfold add_static_lsp_loop
    have e1 : (route_lsp.rename f a).nexthop = a.nexthop := rfl
    have e2 : (route_lsp.rename f a).remote_label = a.remote_label := rfl
    rw [e1, e2]
    split
    · split
      · exact ⟨rfl, h⟩
      · exact ih _ _ (renamed_remove_static_lsp hf K drv hd h a.nexthop)
    · exact ih c c' h

theorem add_static_lsp_loop_alloc (K : zebra_consts) (drv : driver) (nexthop label : Nat)
    (l : List route_lsp) (c : mpls_rn) :
    (add_static_lsp_loop K drv nexthop label l c).2.alloc = c.alloc :=
  add_static_lsp_loop_preserves K drv nexthop label (fun x => x.alloc = c.alloc)
    (fun c1 n h1 => (remove_static_lsp_rn_frame K drv c1 n).2.1.trans h1) l c rfl

theorem renamed_create_static {f : Nat → Nat} {D : Prop} {lg lg' : List event}
    {c c' : mpls_rn} (h : renamed f D lg lg' c c') (ha : f c.alloc = c'.alloc)
    (nexthop label : Nat) :
    renamed f D lg lg' (create_static_lsp c nexthop label)
      (create_static_lsp c' nexthop label) := by
  obtain ⟨h1, h2, h3, h4, h5⟩ := h
  refine ⟨h1, h2, h3, ?_, h5⟩
  refine label_bindings_ext_fields _ _ ⟨?_, ?_, ?_⟩ ⟨?_, ?_⟩ ?_
  · show c'.lb.static_in_label = c.lb.static_in_label
    rw [h4]; rfl
  · show c'.lb.ldp_in_label = c.lb.ldp_in_label
    rw [h4]; rfl
  · show c'.lb.selected_in_label = c.lb.selected_in_label
    rw [h4]; rfl
  · show listnode_add c'.lb.static_lsps (route_lsp_new c'.alloc nexthop label) =
      (listnode_add c.lb.static_lsps (route_lsp_new c.alloc nexthop label)).map
        (route_lsp.rename f)
    rw [h4, ← ha]
    simp [label_bindings.rename, listnode_add, route_lsp.rename, route_lsp_new]
  · show c'.lb.ldp_lsp = c.lb.ldp_lsp.map (route_lsp.rename f)
    rw [h4]; rfl
  · show c'.lb.selected_lsp = c.lb.selected_lsp.map (route_lsp.rename f)
    rw [h4]; rfl

theorem renamed_create_ldp {f : Nat → Nat} {D : Prop} {lg lg' : List event}
    {c c' : mpls_rn} (h : renamed f D lg lg' c c') (ha : f c.alloc = c'.alloc)
    (nexthop label : Nat) :
    renamed f D lg lg' (create_ldp_lsp c nexthop label) (create_ldp_lsp c' nexthop label) := by
  obtain ⟨h1, h2, h3, h4, h5⟩ := h
  refine ⟨h1, h2, h3, ?_, h5⟩
  refine label_bindings_ext_fields _ _ ⟨?_, ?_, ?_⟩ ⟨?_, ?_⟩ ?_
  · show c'.lb.static_in_label = c.lb.static_in_label
    rw [h4]; rfl
  · show c'.lb.ldp_in_label = c.lb.ldp_in_label
    rw [h4]; rfl
  · show c'.lb.selected_in_label = c.lb.selected_in_label
    rw [h4]; rfl
  · show c'.lb.static_lsps = c.lb.static_lsps.map (route_lsp.rename f)
    rw [h4]; rfl
  · show some (route_lsp_new c'.alloc nexthop label) =
      (some (route_lsp_new c.alloc nexthop label)).map (route_lsp.rename f)
    rw [← ha]
    rfl
  · show c'.lb.selected_lsp = c.lb.selected_lsp.map (route_lsp.rename f)
    rw [h4]; rfl

theorem renamed_add_static_lsp {f : Nat → Nat} (hf : Function.Injective f) {D : Prop}
    {lg lg' : List event} {c c' : mpls_rn} (K : zebra_consts) (drv : driver)
    (hd : D → answers_alike drv f lg lg') (h : renamed f D lg lg' c c')
    (ha : f c.alloc = c'.alloc) (nexthop label : Nat) :
    renamed f D lg lg' (add_static_lsp_rn K drv c nexthop label)
      (add_static_lsp_rn K drv c' nexthop label) := by
  unfold add_static_lsp_rn
  have hst : c'.lb.static_lsps = c.lb.static_lsps.map (route_lsp.rename f) := by
    rw [h.2.2.2.1]; rfl
  rw [hst]
  have hl := renamed_add_static_lsp_loop hf K drv hd nexthop label c.lb.static_lsps c c' h
  have a1 := add_static_lsp_loop_alloc K drv nexthop label c.lb.static_lsps c
  have a2 := add_static_lsp_loop_alloc K drv nexthop label
    (c.lb.static_lsps.map (route_lsp.rename f)) c'
  cases hr : add_static_lsp_loop K drv nexthop label c.lb.static_lsps c with
  | mk b c1 =>
    cases hr' : add_static_lsp_loop K drv nexthop label
        (c.lb.static_lsps.map (route_lsp.rename f)) c' with
    | mk b' c1' =>
      rw [hr, hr'] at hl
      rw [hr] at a1
      rw [hr'] at a2
      obtain ⟨hb, hren⟩ := hl
      simp only at hb hren a1 a2
      subst hb
      cases b'
      · dsimp only
        exact renamed_maybe_select hf K drv hd
          (renamed_create_static hren (by rw [a1, a2]; exact ha) nexthop label)
      · exact hren

theorem renamed_drop_ldp {f : Nat → Nat} (hf : Function.Injective f) {D : Prop}
    {lg lg' : List event} {c c' : mpls_rn} (K : zebra_consts)
    (h : renamed f D lg lg' c c') (l : route_lsp) :
    renamed f D lg lg'
      { mpls_prefix_remove_lsp K c l with
        lb := XFREE_ldp_lsp (mpls_prefix_remove_lsp K c l).lb }
      { mpls_prefix_remove_lsp K c' (l.rename f) with
        lb := XFREE_ldp_lsp (mpls_prefix_remove_lsp K c' (l.rename f)).lb } := by
  have h1 := renamed_remove_lsp hf K h l
  generalize mpls_prefix_remove_lsp K c l = c1 at h1 ⊢
  generalize mpls_prefix_remove_lsp K c' (route_lsp.rename f l) = c1' at h1 ⊢
  have := renamed_lb h1 (XFREE_ldp_lsp c1.lb)
  have he : (XFREE_ldp_lsp c1.lb).rename f = XFREE_ldp_lsp c1'.lb := by
    rw [h1.2.2.2.1]; rfl
  rw [he] at this
  exact this

theorem renamed_set_ldp_lsp {f : Nat → Nat} (hf : Function.Injective f) {D : Prop}
    {lg lg' : List event} {c c' : mpls_rn} (K : zebra_consts) (drv : driver)
    (hd : D → answers_alike drv f lg lg') (h : renamed f D lg lg' c c')
    (ha : f c.alloc = c'.alloc) (nexthop label : Nat) :
    renamed f D lg lg' (set_ldp_lsp_rn K drv c nexthop label)
      (set_ldp_lsp_rn K drv c' nexthop label) := by
  unfold set_ldp_lsp_rn
  have hl : c'.lb.ldp_lsp = c.lb.ldp_lsp.map (route_lsp.rename f) := by
    rw [h.2.2.2.1]; rfl
  rw [hl]
  have his : ldp_lsp_is (c.lb.ldp_lsp.map (route_lsp.rename f)) nexthop label =
      ldp_lsp_is c.lb.ldp_lsp nexthop label := by
    cases c.lb.ldp_lsp <;> rfl
  rw [his]
  split
  · exact h
  · cases hldp : c.lb.ldp_lsp with
    | none =>
      simp only [Option.map_none']
      exact renamed_maybe_select hf K drv hd (renamed_create_ldp h ha nexthop label)
    | some l =>
      simp only [Option.map_some']
      have h1 := renamed_drop_ldp hf K h l
      have a1 : (mpls_prefix_remove_lsp K c l).alloc = c.alloc := (remove_lsp_frame K c l).2
      have a2 : (mpls_prefix_remove_lsp K c' (l.rename f)).alloc = c'.alloc :=
        (remove_lsp_frame K c' (l.rename f)).2
      exact renamed_maybe_select hf K drv hd
        (renamed_create_ldp h1 (by show f (mpls_prefix_remove_lsp K c l).alloc = _
                                   rw [a1, ha]; exact a2.symm) nexthop label)

theorem renamed_remove_ldp_lsp {f : Nat → Nat} (hf : Function.Injective f) {D : Prop}
    {lg lg' : List event} {c c' : mpls_rn} (K : zebra_consts) (drv : driver)
    (hd : D → answers_alike drv f lg lg') (h : renamed f D lg lg' c c')
    (nexthop label : Nat) :
    renamed f D lg lg' (remove_ldp_lsp_rn K drv c nexthop label)
      (remove_ldp_lsp_rn K drv c' nexthop label) := by
  unfold remove_ldp_lsp_rn
  have hl : c'.lb.ldp_lsp = c.lb.ldp_lsp.map (route_lsp.rename f) := by
    rw [h.2.2.2.1]; rfl
  rw [hl]
  cases hldp : c.lb.ldp_lsp with
  | none => exact h
  | some l =>
    simp only [Option.map_some']
    have e1 : (route_lsp.rename f l).nexthop = l.nexthop := rfl
    have e2 : (route_lsp.rename f l).remote_label = l.remote_label := rfl
    rw [e1, e2]
    split
    · exact h
    · exact renamed_maybe_select hf K drv hd (renamed_drop_ldp hf K h l)

theorem renamed_install_hook {f : Nat → Nat} (hf : Function.Injective f) {D : Prop}
    {lg lg' : List event} {c c' : mpls_rn} (K : zebra_consts) (drv : driver)
    (hd : D → answers_alike drv f lg lg') (h : renamed f D lg lg' c c') :
    renamed f D lg lg' (route_install_hook_rn K drv c) (route_install_hook_rn K drv c') := by
  unfold route_install_hook_rn
  dsimp only
  have hin : c'.lb.selected_in_label = c.lb.selected_in_label := by rw [h.2.2.2.1]; rfl
  rw [hin]
  refine renamed_select_lsp hf K drv hd ?_
  split
  · exact renamed_emit h (event.ilm_register c.lb.selected_in_label)
  · exact h

theorem renamed_uninstall_hook {f : Nat → Nat} (hf : Function.Injective f) {D : Prop}
    {lg lg' : List event} {c c' : mpls_rn} (K : zebra_consts)
    (h : renamed f D lg lg' c c') :
    renamed f D lg lg' (route_uninstall_hook_rn K c) (route_uninstall_hook_rn K c') := by
  unfold route_uninstall_hook_rn
  have hsel : c'.lb.selected_lsp = c.lb.selected_lsp.map (route_lsp.rename f) := by
    rw [h.2.2.2.1]; rfl
  rw [hsel]
  have key : ∀ c1 c1' : mpls_rn, renamed f D lg lg' c1 c1' →
      renamed f D lg lg'
        (if c1.lb.selected_in_label ≠ NO_LABEL then
          emit c1 (event.ilm_unregister c1.lb.selected_in_label) else c1)
        (if c1'.lb.selected_in_label ≠ NO_LABEL then
          emit c1' (event.ilm_unregister c1'.lb.selected_in_label) else c1') := by
    intro c1 c1' h1
    have hin : c1'.lb.selected_in_label = c1.lb.selected_in_label := by rw [h1.2.2.2.1]; rfl
    rw [hin]
    split
    · exact renamed_emit h1 (event.ilm_unregister c1.lb.selected_in_label)
    · exact h1
  cases hs : c.lb.selected_lsp with
  | none =>
    simp only [Option.map_none']
    exact key c c' h
  | some sel =>
    simp only [Option.map_some']
    exact key _ _ (renamed_remove_lsp hf K h sel)

/-- Every engine function run on a node and on the node with its LSP records
moved by an injective address map gives nodes that correspond in the same
way, new LSP records being allocated at corresponding addresses. -/
theorem renamed_body {f : Nat → Nat} (hf : Function.Injective f) {D : Prop}
    {lg lg' : List event} {c c' : mpls_rn} (K : zebra_consts) (drv : driver)
    (hd : D → answers_alike drv f lg lg') (h : renamed f D lg lg' c c')
    (ha : f c.alloc = c'.alloc) (o : op) :
    renamed f D lg lg' (o.body K drv c) (o.body K drv c') := by
  cases o with
  | set_static_input_label p label => exact renamed_set_static K h label
  | remove_static_input_label p label => exact renamed_remove_static K h label
  | set_ldp_input_label p label => exact renamed_set_ldp K h label
  | add_static_lsp p nexthop label => exact renamed_add_static_lsp hf K drv hd h ha nexthop label
  | remove_static_lsp p nexthop => exact renamed_remove_static_lsp hf K drv hd h nexthop
  | set_ldp_lsp p nexthop label => exact renamed_set_ldp_lsp hf K drv hd h ha nexthop label
  | remove_ldp_lsp p nexthop label => exact renamed_remove_ldp_lsp hf K drv hd h nexthop label
  | route_install_hook p => exact renamed_install_hook hf K drv hd h
  | route_uninstall_hook p => exact renamed_uninstall_hook hf K h
  | rib_update p info => exact h
/-! ## Order independence between prefixes -/

theorem swap_addr_injective (a b : Nat) : Function.Injective (swap_addr a b) := by
  intro x y h
  unfold swap_addr at h
  by_cases hxa : x = a
  · by_cases hya : y = a
    · rw [hxa, hya]
    · rw [if_pos hxa, if_neg hya] at h
      by_cases hyb : y = b
      · rw [if_pos hyb] at h
        rw [hxa, hyb, h]
      · rw [if_neg hyb] at h
        exact absurd h.symm hyb
  · rw [if_neg hxa] at h
    by_cases hxb : x = b
    · rw [if_pos hxb] at h
      by_cases hya : y = a
      · rw [if_pos hya] at h
        rw [hxb, hya, h]
      · rw [if_neg hya] at h
        by_cases hyb : y = b
        · rw [hxb, hyb]
        · rw [if_neg hyb] at h
          exact absurd h.symm hya
    · rw [if_neg hxb] at h
      by_cases hya : y = a
      · rw [if_pos hya] at h
        exact absurd h hxb
      · rw [if_neg hya] at h
        by_cases hyb : y = b
        · rw [if_pos hyb] at h
          exact absurd h hxa
        · rw [if_neg hyb] at h
          exact h

theorem swap_addr_fixed (a b x : Nat) (hab : a ≤ b) (hx : x < a) : swap_addr a b x = x := by
  unfold swap_addr
  rw [if_neg (by omega), if_neg (by omega)]

theorem swap_addr_left (a b : Nat) : swap_addr a b a = b := by
  unfold swap_addr
  rw [if_pos rfl]

/-- An address map that fixes the addresses below the allocation counter
leaves a well-formed record as it is. -/
theorem rename_fixed (f : Nat → Nat) (a : Nat) (lb : label_bindings) (hwf : lb_wf a lb)
    (hfix : ∀ x, x < a → f x = x) : lb.rename f = lb := by
  have hl : ∀ l ∈ lsps lb, route_lsp.rename f l = l := by
    intro l hl
    unfold route_lsp.rename
    rw [hfix l.ptr (hwf.2.1 l hl)]
  have ho : ∀ o : Option route_lsp, (∀ l, o = some l → l ∈ lsps lb) →
      o.map (route_lsp.rename f) = o := by
    intro o h
    cases o with
    | none => rfl
    | some l =>
      show some (route_lsp.rename f l) = some l
      rw [hl l (h l rfl)]
  refine label_bindings_ext_fields lb (lb.rename f) ⟨rfl, rfl, rfl⟩ ⟨?_, ?_⟩ ?_
  · show lb.static_lsps.map (route_lsp.rename f) = lb.static_lsps
    have : lb.static_lsps.map (route_lsp.rename f) = lb.static_lsps.map id := by
      apply List.map_congr_left
      intro l hl'
      exact hl l (by simp [lsps, hl'])
    rw [this, List.map_id]
  · show lb.ldp_lsp.map (route_lsp.rename f) = lb.ldp_lsp
    exact ho lb.ldp_lsp (fun l h => by simp [lsps, h])
  · show lb.selected_lsp.map (route_lsp.rename f) = lb.selected_lsp
    exact ho lb.selected_lsp (fun l h => hwf.2.2.1 l h)

/-- A call of the engine runs its body on the node of its prefix; a hook does
so only if the node has a bindings record. -/
theorem step_body (K : zebra_consts) (drv : driver) (s : zebra) (o : op)
    (ho : o.is_call = true) :
    step K drv s o =
      if o.is_mutator = true ∨ ((s.table o.node).mpls).isSome = true then
        put_rn s o.node (o.body K drv (rn_of s o.node))
      else s := by
  have hook : ∀ (f : mpls_rn → mpls_rn) (p : Prefix),
      with_rn f s p = if False ∨ ((s.table p).mpls).isSome = true then
        put_rn s p (f (rn_of s p)) else s := by
    intro f p
    rw [with_rn_hook]
    cases (s.table p).mpls <;> simp
  cases o with
  | set_static_input_label p label =>
    exact (with_rn_get (op.body K drv (op.set_static_input_label p label)) s p).trans (if_pos (Or.inl rfl)).symm
  | remove_static_input_label p label =>
    exact (with_rn_get (op.body K drv (op.remove_static_input_label p label)) s p).trans (if_pos (Or.inl rfl)).symm
  | set_ldp_input_label p label =>
    exact (with_rn_get (op.body K drv (op.set_ldp_input_label p label)) s p).trans (if_pos (Or.inl rfl)).symm
  | add_static_lsp p nexthop label =>
    exact (with_rn_get (op.body K drv (op.add_static_lsp p nexthop label)) s p).trans (if_pos (Or.inl rfl)).symm
  | remove_static_lsp p nexthop =>
    exact (with_rn_get (op.body K drv (op.remove_static_lsp p nexthop)) s p).trans (if_pos (Or.inl rfl)).symm
  | set_ldp_lsp p nexthop label =>
    exact (with_rn_get (op.body K drv (op.set_ldp_lsp p nexthop label)) s p).trans (if_pos (Or.inl rfl)).symm
  | remove_ldp_lsp p nexthop label =>
    exact (with_rn_get (op.body K drv (op.remove_ldp_lsp p nexthop label)) s p).trans (if_pos (Or.inl rfl)).symm
  | route_install_hook p =>
    have := hook (route_install_hook_rn K drv) p
    simpa [step, mpls_route_install_hook, op.is_mutator, op.node, op.body] using this
  | route_uninstall_hook p =>
    have := hook (route_uninstall_hook_rn K) p
    simpa [step, mpls_route_uninstall_hook, op.is_mutator, op.node, op.body] using this
  | rib_update p info => cases ho

/-- No body of an operation lowers the allocation counter. -/
theorem body_alloc_le (K : zebra_consts) (drv : driver) (o : op) (c : mpls_rn) :
    c.alloc ≤ (o.body K drv c).alloc := by
  cases o with
  | set_static_input_label p label => exact (nhlfe_keeps_set_static K c label).2.1
  | remove_static_input_label p label => exact (nhlfe_keeps_remove_static K c label).2.1
  | set_ldp_input_label p label => exact (nhlfe_keeps_set_ldp K c label).2.1
  | add_static_lsp p nexthop label => exact (nhlfe_keeps_add_static_lsp K drv c nexthop label).2.1
  | remove_static_lsp p nexthop => exact (nhlfe_keeps_remove_static_lsp K drv c nexthop).2.1
  | set_ldp_lsp p nexthop label => exact (nhlfe_keeps_set_ldp_lsp K drv c nexthop label).2.1
  | remove_ldp_lsp p nexthop label => exact (nhlfe_keeps_remove_ldp_lsp K drv c nexthop label).2.1
  | route_install_hook p => exact (nhlfe_keeps_install_hook K drv c).2.1
  | route_uninstall_hook p => exact (nhlfe_keeps_uninstall_hook K c).2.1
  | rib_update p info => exact le_refl _

theorem step_alloc_le (K : zebra_consts) (drv : driver) (s : zebra) (o : op) :
    s.alloc ≤ (step K drv s o).alloc := by
  by_cases ho : o.is_call = true
  · rw [step_body K drv s o ho]
    split
    · exact body_alloc_le K drv o (rn_of s o.node)
    · exact le_refl _
  · cases o with
    | rib_update p info => exact le_refl _
    | _ => exact absurd rfl ho

/-- After an operation on another prefix, the node of `P` is as before but for
the allocation counter and the log. -/
theorem step_other_node (K : zebra_consts) (drv : driver) (s : zebra) (o : op) (P : Prefix)
    (hne : P ≠ o.node) :
    rn_of (step K drv s o) P =
      { rn_of s P with alloc := (step K drv s o).alloc, log := (step K drv s o).log } := by
  have hf := step_frame K drv s o
  unfold rn_of bindings
  rw [hf.1 P hne, hf.2.2.1]

/-- An operation on another prefix leaves the bindings record as it is. -/
theorem step_other_bindings (K : zebra_consts) (drv : driver) (s : zebra) (o : op) (P : Prefix)
    (hne : P ≠ o.node) : bindings (step K drv s o) P = bindings s P := by
  unfold bindings
  rw [(step_frame K drv s o).1 P hne]

/-- The operation `oP` run after an operation on another prefix leaves the
record it leaves when run first, with the addresses moved, and, if the driver
answers alike, logs the same calls, moved. -/
theorem order_half (K : zebra_consts) (drv : driver) (s : zebra) (oP oQ : op)
    (hwf : zebra_wf s) (hP : oP.is_call = true) (hne : oP.node ≠ oQ.node) (D : Prop)
    (hd : D → answers_alike drv (swap_addr s.alloc (step K drv s oQ).alloc) s.log
      (step K drv s oQ).log) :
    bindings (step K drv (step K drv s oQ) oP) oP.node =
      (bindings (step K drv s oP) oP.node).rename
        (swap_addr s.alloc (step K drv s oQ).alloc) ∧
    (D → emitted (step K drv s oQ).log (step K drv (step K drv s oQ) oP) =
      (emitted s.log (step K drv s oP)).map
        (event.rename (swap_addr s.alloc (step K drv s oQ).alloc))) := by
  have hle := step_alloc_le K drv s oQ
  have hrn := step_other_node K drv s oQ oP.node hne
  have htab : (step K drv s oQ).table oP.node = s.table oP.node :=
    (step_frame K drv s oQ).1 _ hne
  generalize step K drv s oQ = sQ at hrn htab hle hd ⊢
  have hinj : Function.Injective (swap_addr s.alloc sQ.alloc) := swap_addr_injective _ _
  have hfix : (rn_of s oP.node).lb.rename (swap_addr s.alloc sQ.alloc) = (rn_of s oP.node).lb :=
    rename_fixed _ s.alloc _ (rn_of_wf s _ hwf) (fun x hx => swap_addr_fixed _ _ x hle hx)
  have hr0 : renamed (swap_addr s.alloc sQ.alloc) D s.log sQ.log (rn_of s oP.node)
      (rn_of sQ oP.node) := by
    rw [hrn]
    exact renamed_refl_of_fixed _ D (rn_of s oP.node) sQ.alloc sQ.log hfix
  have hr := renamed_body hinj K drv hd hr0 (swap_addr_left _ _) oP
  rw [step_body K drv s oP hP, step_body K drv sQ oP hP, htab]
  by_cases hc : oP.is_mutator = true ∨ ((s.table oP.node).mpls).isSome = true
  · rw [if_pos hc, if_pos hc, put_rn_bindings, put_rn_bindings]
    refine ⟨hr.2.2.2.1, fun hD => ?_⟩
    obtain ⟨es, h1, h2⟩ := hr.2.2.2.2 hD
    rw [emitted_put_rn s _ _ es h1, emitted_put_rn sQ _ _ _ h2]
  · rw [if_neg hc, if_neg hc]
    refine ⟨?_, fun _ => ?_⟩
    · have hb : bindings sQ oP.node = bindings s oP.node := by
        unfold bindings
        rw [htab]
      rw [hb]
      exact hfix.symm
    · unfold emitted
      simp

theorem two_routes_state_wf : zebra_wf two_routes_state :=
  step_wf quagga_consts null_driver _ (op.rib_update demo_prefix2 (demo_route demo_nexthop))
    (step_wf quagga_consts null_driver _ (op.rib_update demo_prefix (demo_route demo_nexthop))
      (zebra_start_wf demo_clients))

/-- C33: in a well-formed state, for two calls of the engine (mutators or
hooks) on distinct prefixes: a call on one prefix changes neither the bindings
record of the other prefix nor the cross-connect table, whatever the state;
for every driver, the record a call leaves when it runs second is the record
it leaves when it runs first, up to an injective map of addresses that fixes
every address in use before (the two calls take their new LSP records from
one allocation counter); and a call logs the same driver calls second as
first, up to that map, provided the driver answers its calls alike in both
positions. -/
theorem C33_order_independence (K : zebra_consts) (drv : driver) (s : zebra) (oP oQ : op)
    (hwf : zebra_wf s) (hP : oP.is_call = true) (hQ : oQ.is_call = true)
    (hne : oP.node ≠ oQ.node) :
    (∀ t, bindings (step K drv t oP) oQ.node = bindings t oQ.node ∧
      (step K drv t oP).mpls_crossconnect_list = t.mpls_crossconnect_list) ∧
    (∀ t, bindings (step K drv t oQ) oP.node = bindings t oP.node ∧
      (step K drv t oQ).mpls_crossconnect_list = t.mpls_crossconnect_list) ∧
    (∀ o, Function.Injective (swap_addr s.alloc (step K drv s o).alloc) ∧
      ∀ x, x < s.alloc → swap_addr s.alloc (step K drv s o).alloc x = x) ∧
    bindings (step K drv (step K drv s oQ) oP) oP.node =
      (bindings (step K drv (step K drv s oP) oQ) oP.node).rename
        (swap_addr s.alloc (step K drv s oQ).alloc) ∧
    bindings (step K drv (step K drv s oP) oQ) oQ.node =
      (bindings (step K drv (step K drv s oQ) oP) oQ.node).rename
        (swap_addr s.alloc (step K drv s oP).alloc) ∧
    (answers_alike drv (swap_addr s.alloc (step K drv s oQ).alloc) s.log
        (step K drv s oQ).log →
      emitted (step K drv s oQ).log (step K drv (step K drv s oQ) oP) =
        (emitted s.log (step K drv s oP)).map
          (event.rename (swap_addr s.alloc (step K drv s oQ).alloc))) ∧
    (answers_alike drv (swap_addr s.alloc (step K drv s oP).alloc) s.log
        (step K drv s oP).log →
      emitted (step K drv s oP).log (step K drv (step K drv s oP) oQ) =
        (emitted s.log (step K drv s oQ)).map
          (event.rename (swap_addr s.alloc (step K drv s oP).alloc))) := by
  have hP1 := order_half K drv s oP oQ hwf hP hne False (fun h => h.elim)
  have hQ1 := order_half K drv s oQ oP hwf hQ hne.symm False (fun h => h.elim)
  refine ⟨fun t => ⟨step_other_bindings K drv t oP oQ.node hne.symm, (step_frame K drv t oP).2.1⟩,
    fun t => ⟨step_other_bindings K drv t oQ oP.node hne, (step_frame K drv t oQ).2.1⟩,
    fun o => ⟨swap_addr_injective _ _,
      fun x hx => swap_addr_fixed _ _ x (step_alloc_le K drv s o) hx⟩, ?_, ?_, ?_, ?_⟩
  · rw [step_other_bindings K drv (step K drv s oP) oQ oP.node hne]
    exact hP1.1
  · rw [step_other_bindings K drv (step K drv s oQ) oP oQ.node hne.symm]
    exact hQ1.1
  · intro hd
    exact (order_half K drv s oP oQ hwf hP hne True (fun _ => hd)).2 trivial
  · intro hd
    exact (order_half K drv s oQ oP hwf hQ hne.symm True (fun _ => hd)).2 trivial

theorem C33_order_independence_witness :
    zebra_wf two_routes_state ∧
    (op.add_static_lsp demo_prefix demo_nexthop 200).is_call = true ∧
    (op.set_ldp_lsp demo_prefix2 demo_nexthop 300).is_call = true ∧
    (op.add_static_lsp demo_prefix demo_nexthop 200).node ≠
      (op.set_ldp_lsp demo_prefix2 demo_nexthop 300).node ∧
    bindings (step quagga_consts null_driver
        (step quagga_consts null_driver two_routes_state
          (op.set_ldp_lsp demo_prefix2 demo_nexthop 300))
        (op.add_static_lsp demo_prefix demo_nexthop 200)) demo_prefix =
      (bindings (step quagga_consts null_driver
        (step quagga_consts null_driver two_routes_state
          (op.add_static_lsp demo_prefix demo_nexthop 200))
        (op.set_ldp_lsp demo_prefix2 demo_nexthop 300)) demo_prefix).rename (swap_addr 1 2) ∧
    emitted (step quagga_consts null_driver two_routes_state
          (op.set_ldp_lsp demo_prefix2 demo_nexthop 300)).log
        (step quagga_consts null_driver
          (step quagga_consts null_driver two_routes_state
            (op.set_ldp_lsp demo_prefix2 demo_nexthop 300))
          (op.add_static_lsp demo_prefix demo_nexthop 200)) =
      (emitted two_routes_state.log (step quagga_consts null_driver two_routes_state
          (op.add_static_lsp demo_prefix demo_nexthop 200))).map
        (event.rename (swap_addr 1 2)) :=
  ⟨two_routes_state_wf, rfl, rfl, by decide,
    (C33_order_independence quagga_consts null_driver two_routes_state
      (op.add_static_lsp demo_prefix demo_nexthop 200)
      (op.set_ldp_lsp demo_prefix2 demo_nexthop 300) two_routes_state_wf rfl rfl
      (by decide)).2.2.2.1,
    (C33_order_independence quagga_consts null_driver two_routes_state
      (op.add_static_lsp demo_prefix demo_nexthop 200)
      (op.set_ldp_lsp demo_prefix2 demo_nexthop 300) two_routes_state_wf rfl rfl
      (by decide)).2.2.2.2.2.1 (fun _ _ => rfl)⟩

theorem two_labelled_routes_state_wf : zebra_wf two_labelled_routes_state :=
  step_wf quagga_consts null_driver _ (op.set_static_input_label demo_prefix2 101)
    (step_wf quagga_consts null_driver _ (op.set_static_input_label demo_prefix 100)
      (step_wf quagga_consts null_driver _ (op.route_install_hook demo_prefix2)
        (step_wf quagga_consts null_driver _ (op.rib_update demo_prefix2 (demo_route demo_nexthop))
          (step_wf quagga_consts null_driver _ (op.route_install_hook demo_prefix)
            (step_wf quagga_consts null_driver _
              (op.rib_update demo_prefix (demo_route demo_nexthop))
              (zebra_start_wf demo_clients))))))

/-- C33 (counterexample): in `two_labelled_routes_state`, with a driver whose
first NHLFE install fails, the addition of the static LSP (192.0.2.1, 200) to
10.0.0.0/8 issues one driver call when it runs first, the NHLFE install that
fails, and two driver calls when it runs after the addition of a static LSP to
11.0.0.0/8, the NHLFE install and the XC install for in-label 100; no map of
addresses makes the two lists of driver calls equal.  And whatever the driver
does, the record of 10.0.0.0/8 holds the address of the new LSP, which is 1
when the operation runs first and 2 when it runs second. -/
theorem C33_driver_order_counterexample :
    zebra_wf two_labelled_routes_state ∧
    (emitted two_labelled_routes_state.log lsp_first_state).filter event.is_driver_call =
      [event.nhlfe_register (route_lsp_new 1 demo_nexthop 200)] ∧
    (emitted other_first_state.log lsp_second_state).filter event.is_driver_call =
      [event.nhlfe_register (route_lsp_new 2 demo_nexthop 200),
       event.xc_register 100 (route_lsp_new 2 demo_nexthop 200)] ∧
    (∀ f : Nat → Nat,
      (emitted other_first_state.log lsp_second_state).filter event.is_driver_call ≠
        ((emitted two_labelled_routes_state.log lsp_first_state).filter
          event.is_driver_call).map (event.rename f)) ∧
    (bindings (step quagga_consts null_driver
        (step quagga_consts null_driver two_labelled_routes_state
          (op.add_static_lsp demo_prefix demo_nexthop 200))
        (op.add_static_lsp demo_prefix2 demo_nexthop 300)) demo_prefix).static_lsps =
      [route_lsp_new 1 demo_nexthop 200] ∧
    (bindings (step quagga_consts null_driver
        (step quagga_consts null_driver two_labelled_routes_state
          (op.add_static_lsp demo_prefix2 demo_nexthop 300))
        (op.add_static_lsp demo_prefix demo_nexthop 200)) demo_prefix).static_lsps =
      [route_lsp_new 2 demo_nexthop 200] := by
  have h1 : (emitted two_labelled_routes_state.log lsp_first_state).filter
      event.is_driver_call =
      [event.nhlfe_register (route_lsp_new 1 demo_nexthop 200)] := by decide
  have h2 : (emitted other_first_state.log lsp_second_state).filter event.is_driver_call =
      [event.nhlfe_register (route_lsp_new 2 demo_nexthop 200),
       event.xc_register 100 (route_lsp_new 2 demo_nexthop 200)] := by decide
  refine ⟨two_labelled_routes_state_wf, h1, h2, fun f hf => ?_, by decide, by decide⟩
  rw [h1, h2] at hf
  have hl := congrArg List.length hf
  simp at hl

theorem no_gateway_state_notified : notified quagga_consts null_driver no_gateway_state :=
  notified.mutator _ (op.add_static_lsp demo_prefix 0 777)
    (notified.route_install _ demo_prefix iface_route (notified.start demo_clients) rfl) rfl

/-- C3 (divergence): the state after `no_gateway_run` is reached with the RIB
change notified through the install hook; the route of 10.0.0.0/8 is active
and has no IPv4 gateway next hop, so that no LSP of the record has the IPv4
next hop of the route; yet `get_prefix_nexthop` returns the address 0.0.0.0 of
the interface-only next hop, and the static LSP to 0.0.0.0 is the selected LSP
and was installed in the driver.  So the equivalence of the claim, read with
the IPv4 next hop of the route as the spec has it, fails in this state. -/
theorem C3_selected_lsp_without_ipv4_nexthop :
    notified quagga_consts null_driver no_gateway_state ∧
    zebra_route_node_active quagga_consts (no_gateway_state.table demo_prefix).info = true ∧
    spec_no_ipv4_gateway quagga_consts (no_gateway_state.table demo_prefix).info = true ∧
    spec_ipv4_nexthop quagga_consts (no_gateway_state.table demo_prefix).info = none ∧
    get_prefix_nexthop quagga_consts (no_gateway_state.table demo_prefix).info = some 0 ∧
    (no_gateway_state.table demo_prefix).mpls = some (bindings no_gateway_state demo_prefix) ∧
    (bindings no_gateway_state demo_prefix).selected_lsp = some (route_lsp_new 1 0 777) ∧
    no_gateway_state.log =
      [event.nhlfe_register (route_lsp_new 1 0 777), event.rib_queue_add demo_prefix] ∧
    ¬ ((bindings no_gateway_state demo_prefix).selected_lsp ≠ none ↔
      zebra_route_node_active quagga_consts (no_gateway_state.table demo_prefix).info = true ∧
      ∃ n, spec_ipv4_nexthop quagga_consts (no_gateway_state.table demo_prefix).info = some n ∧
        ∃ l, ((bindings no_gateway_state demo_prefix).ldp_lsp = some l ∨
          l ∈ (bindings no_gateway_state demo_prefix).static_lsps) ∧ l.nexthop = n) := by
  have hspec : spec_ipv4_nexthop quagga_consts (no_gateway_state.table demo_prefix).info
      = none := by decide
  refine ⟨no_gateway_state_notified, by decide, by decide, hspec, by decide, by decide,
    by decide, by decide, ?_⟩
  intro h
  obtain ⟨-, n, hn, -⟩ := h.1 (by decide)
  rw [hspec] at hn
  cases hn

/-! ## The XC table and the label spaces: the engine functions at node level -/

theorem xc_entry_run_append (L x : Nat) (a b : List event) (v : Bool) :
    xc_entry_run L x (a ++ b) v = xc_entry_run L x b (xc_entry_run L x a v) := by
  simp [xc_entry_run, List.foldl_append]

theorem xc_installed_append (log es : List event) (L x : Nat) :
    xc_installed (log ++ es) L x = xc_entry_run L x es (xc_installed log L x) :=
  xc_entry_run_append L x log es false

/-- Calls other than XC calls leave the XC table. -/
theorem xc_entry_run_quiet (L x : Nat) (es : List event) (v : Bool)
    (h : ∀ e ∈ es, e.is_xc = false) : xc_entry_run L x es v = v := by
  induction es generalizing v with
  | nil => rfl
  | cons e t ih =>
    have he := h e (List.mem_cons_self _ _)
    have hs : xc_entry_step L x v e = v := by
      cases e <;> first | rfl | cases he
    show xc_entry_run L x t (xc_entry_step L x v e) = v
    rw [hs]
    exact ih v (fun e' he' => h e' (List.mem_cons_of_mem _ he'))

/-- XC calls for other LSPs leave the entries of the LSP at `x`. -/
theorem xc_entry_run_other (L x : Nat) (es : List event) (v : Bool)
    (h : ∀ e ∈ es, ∀ label l, (e = event.xc_register label l ∨ e = event.xc_unregister label l) →
      l.ptr ≠ x) : xc_entry_run L x es v = v := by
  induction es generalizing v with
  | nil => rfl
  | cons e t ih =>
    have he := h e (List.mem_cons_self _ _)
    have hs : xc_entry_step L x v e = v := by
      cases e with
      | xc_register label l =>
        have := he label l (Or.inl rfl)
        simp [xc_entry_step, this]
      | xc_unregister label l =>
        have := he label l (Or.inr rfl)
        simp [xc_entry_step, this]
      | _ => rfl
    show xc_entry_run L x t (xc_entry_step L x v e) = v
    rw [hs]
    exact ih v (fun e' he' => h e' (List.mem_cons_of_mem _ he'))

theorem labelspace_run_append (i : Nat) (a b : List event) (v : Int) :
    labelspace_run i (a ++ b) v = labelspace_run i b (labelspace_run i a v) := by
  simp [labelspace_run, List.foldl_append]

theorem labelspace_of_append (log es : List event) (i : Nat) :
    labelspace_of (log ++ es) i = labelspace_run i es (labelspace_of log i) :=
  labelspace_run_append i log es (-1)

/-- Calls other than label-space calls leave the label spaces. -/
theorem labelspace_run_quiet (i : Nat) (es : List event) (v : Int)
    (h : ∀ e ∈ es, e.is_labelspace = false) : labelspace_run i es v = v := by
  induction es generalizing v with
  | nil => rfl
  | cons e t ih =>
    have he := h e (List.mem_cons_self _ _)
    have hs : labelspace_step i v e = v := by
      cases e <;> first | rfl | cases he
    show labelspace_run i t (labelspace_step i v e) = v
    rw [hs]
    exact ih v (fun e' he' => h e' (List.mem_cons_of_mem _ he'))

theorem xc_keeps_refl (K : zebra_consts) (c : mpls_rn) : xc_keeps K c c :=
  ⟨nhlfe_keeps_refl K c, fun _ _ _ _ => rfl, fun _ h => h, fun _ => rfl, fun h => h⟩

theorem xc_keeps_trans {K : zebra_consts} {a b c : mpls_rn} (h1 : xc_keeps K a b)
    (h2 : xc_keeps K b c) : xc_keeps K a c := by
  obtain ⟨n1, r1, q1, l1, d1⟩ := h1
  obtain ⟨n2, r2, q2, l2, d2⟩ := h2
  refine ⟨nhlfe_keeps_trans n1 n2, ?_, fun x h => q2 x (q1 x h),
    fun i => (l2 i).trans (l1 i), fun h => d2 (d1 h)⟩
  intro x hlt hnot L
  have hnb : ¬ lsp_held b.lb x := by
    intro hb
    rcases n1.2.2.1 x hb with h | h
    · exact hnot h
    · exact absurd hlt (not_lt.2 h)
  rw [r2 x (lt_of_lt_of_le hlt n1.2.1) hnb L, r1 x hlt hnot L]

/-- A step that keeps what `nhlfe_keeps` says, with the selected in-label, the
selected LSP and the LDP LSP unchanged, and makes neither an XC call nor a
label-space call. -/
theorem xc_keeps_of_quiet (K : zebra_consts) (c c' : mpls_rn) (es : List event)
    (hn : nhlfe_keeps K c c') (hsel : c'.lb.selected_lsp = c.lb.selected_lsp)
    (hin : c'.lb.selected_in_label = c.lb.selected_in_label)
    (hldp : c.lb.ldp_lsp = none → c'.lb.ldp_lsp = none)
    (hlog : c'.log = c.log ++ es) (hq : ∀ e ∈ es, e.is_xc = false)
    (hl : ∀ e ∈ es, e.is_labelspace = false) : xc_keeps K c c' := by
  have hinst : ∀ L x, xc_installed c'.log L x = xc_installed c.log L x := by
    intro L x
    rw [hlog, xc_installed_append, xc_entry_run_quiet L x es _ hq]
  refine ⟨hn, fun x _ _ L => hinst L x, ?_, ?_, hldp⟩
  · intro x h L
    rw [hinst L x, h L]
    unfold xc_on
    rw [hsel, hin, hn.1]
  · intro i
    rw [hlog, labelspace_of_append, labelspace_run_quiet i es _ hl]
theorem broadcast_not_labelspace (cl : List zserv) (p : Prefix) (label : Nat) :
    ∀ e ∈ broadcast cl p label, e.is_labelspace = false := by
  intro e he
  unfold broadcast at he
  obtain ⟨x, _, hx⟩ := List.mem_map.1 he
  rw [← hx]
  rfl

theorem xc_unregister_if_not_labelspace (sel : Option route_lsp) (label : Nat) :
    ∀ e ∈ xc_unregister_if sel label, e.is_labelspace = false := by
  intro e he
  cases sel with
  | none => cases he
  | some l =>
    rw [List.mem_singleton.1 he]
    rfl

theorem xc_register_if_not_labelspace (sel : Option route_lsp) (label : Nat) :
    ∀ e ∈ xc_register_if sel label, e.is_labelspace = false := by
  intro e he
  cases sel with
  | none => cases he
  | some l =>
    rw [List.mem_singleton.1 he]
    rfl

theorem set_static_events_not_labelspace (K : zebra_consts) (c : mpls_rn) (label : Nat) :
    ∀ e ∈ set_static_events K c label, e.is_labelspace = false := by
  intro e he
  unfold set_static_events at he
  split at he
  · simp only [List.mem_append] at he
    rcases he with ((he | he) | he) | he
    · split at he
      · simp only [List.mem_append, List.mem_singleton] at he
        rcases he with he | he
        · exact xc_unregister_if_not_labelspace _ _ e he
        · rw [he]; rfl
      · cases he
    · rw [List.mem_singleton.1 he]; rfl
    · exact xc_register_if_not_labelspace _ _ e he
    · exact broadcast_not_labelspace _ _ _ e he
  · cases he

theorem remove_static_events_not_labelspace (K : zebra_consts) (c : mpls_rn) :
    ∀ e ∈ remove_static_events K c, e.is_labelspace = false := by
  intro e he
  unfold remove_static_events at he
  split at he
  · simp only [List.mem_append] at he
    rcases he with ((he | he) | he) | he
    · exact xc_unregister_if_not_labelspace _ _ e he
    · rw [List.mem_singleton.1 he]; rfl
    · split at he
      · cases he
      · simp only [List.mem_append, List.mem_singleton] at he
        rcases he with he | he
        · rw [he]; rfl
        · exact xc_register_if_not_labelspace _ _ e he
    · exact broadcast_not_labelspace _ _ _ e he
  · cases he

theorem unselect_events_not_labelspace (label : Nat) (old : Option route_lsp) :
    ∀ e ∈ unselect_events label old, e.is_labelspace = false := by
  intro e he
  unfold unselect_events at he
  cases old with
  | none => cases he
  | some l =>
    simp only [List.mem_append, List.mem_singleton] at he
    rcases he with he | he
    · split at he
      · rw [List.mem_singleton.1 he]; rfl
      · cases he
    · rw [he]; rfl

theorem select_events_not_labelspace (drv : driver) (log : List event) (p : Prefix)
    (label : Nat) (sel : Option route_lsp) :
    ∀ e ∈ select_events drv log p label sel, e.is_labelspace = false := by
  intro e he
  unfold select_events at he
  cases sel with
  | none => cases he
  | some l =>
    simp only [List.mem_append, List.mem_singleton] at he
    rcases he with he | he
    · rw [he]; rfl
    · split at he
      · cases he
      · simp only [List.mem_append, List.mem_singleton] at he
        rcases he with he | he
        · split at he
          · rw [List.mem_singleton.1 he]; rfl
          · cases he
        · rw [he]; rfl

theorem broadcast_not_xc (cl : List zserv) (p : Prefix) (label : Nat) :
    ∀ e ∈ broadcast cl p label, e.is_xc = false := by
  intro e he
  unfold broadcast at he
  obtain ⟨x, _, hx⟩ := List.mem_map.1 he
  rw [← hx]
  rfl

theorem xc_run_unregister_if (L x : Nat) (sel : Option route_lsp) (label : Nat) (v : Bool) :
    xc_entry_run L x (xc_unregister_if sel label) v =
      if label = L ∧ ptr_of sel = some x then false else v := by
  cases sel with
  | none => simp [xc_unregister_if, xc_entry_run, ptr_of]
  | some l => simp [xc_unregister_if, xc_entry_run, xc_entry_step, ptr_of]

theorem xc_run_register_if (L x : Nat) (sel : Option route_lsp) (label : Nat) (v : Bool) :
    xc_entry_run L x (xc_register_if sel label) v =
      if label = L ∧ ptr_of sel = some x then true else v := by
  cases sel with
  | none => simp [xc_register_if, xc_entry_run, ptr_of]
  | some l => simp [xc_register_if, xc_entry_run, xc_entry_step, ptr_of]

/-- The XC table after the calls of `unselect_events`. -/
theorem xc_run_unselect (L x : Nat) (label : Nat) (old : Option route_lsp) (v : Bool) :
    xc_entry_run L x (unselect_events label old) v =
      if label ≠ NO_LABEL ∧ label = L ∧ ptr_of old = some x then false else v := by
  cases old with
  | none => simp [unselect_events, xc_entry_run, ptr_of]
  | some l =>
    unfold unselect_events
    by_cases h : label = NO_LABEL
    · simp [h, xc_entry_run, xc_entry_step, ptr_of]
    · simp [h, xc_entry_run, xc_entry_step, ptr_of]

/-- The XC table after the calls of `select_events`, when the driver accepts
the NHLFE install. -/
theorem xc_run_select (drv : driver) (hdrv : ∀ log, 0 ≤ drv log) (log : List event)
    (p : Prefix) (L x : Nat) (label : Nat) (sel : Option route_lsp) (v : Bool) :
    xc_entry_run L x (select_events drv log p label sel) v =
      if label ≠ NO_LABEL ∧ label = L ∧ ptr_of sel = some x then true else v := by
  cases sel with
  | none => simp [select_events, xc_entry_run, ptr_of]
  | some l =>
    unfold select_events
    have hd : ¬ drv (log ++ [event.nhlfe_register l]) < 0 := not_lt.2 (hdrv _)
    by_cases h : label = NO_LABEL
    · simp [hd, h, xc_entry_run, xc_entry_step, ptr_of]
    · simp [hd, h, xc_entry_run, xc_entry_step, ptr_of]
theorem xc_keeps_remove_lsp (K : zebra_consts) (c : mpls_rn) (lsp : route_lsp) :
    xc_keeps K c (mpls_prefix_remove_lsp K c lsp) := by
  have hn := nhlfe_keeps_remove_lsp K c lsp
  by_cases hp : ptr_of c.lb.selected_lsp = some lsp.ptr
  · cases hs : c.lb.selected_lsp with
    | none => rw [hs] at hp; cases hp
    | some old =>
      have hrem : mpls_prefix_remove_lsp K c lsp =
          { c with lb := { c.lb with selected_lsp := none },
                   log := c.log ++
                     (if zebra_route_node_active K c.info = true then
                        (if c.lb.selected_in_label ≠ NO_LABEL then
                           [event.xc_unregister c.lb.selected_in_label lsp] else [])
                        ++ [event.nhlfe_unregister lsp]
                      else []) } := by
        unfold mpls_prefix_remove_lsp
        have hp' : ¬ ptr_of c.lb.selected_lsp ≠ some lsp.ptr := fun h => h hp
        rw [if_neg hp']
        by_cases ha : zebra_route_node_active K c.info = true
        · by_cases hl : c.lb.selected_in_label = NO_LABEL
          · simp [ha, hl, emit]
          · simp [ha, hl, emit]
        · simp [ha]
      rw [hrem] at hn ⊢
      have hinst : ∀ L x, xc_installed (c.log ++
          (if zebra_route_node_active K c.info = true then
             (if c.lb.selected_in_label ≠ NO_LABEL then
                [event.xc_unregister c.lb.selected_in_label lsp] else [])
             ++ [event.nhlfe_unregister lsp]
           else [])) L x =
          if zebra_route_node_active K c.info = true ∧ c.lb.selected_in_label ≠ NO_LABEL ∧
            c.lb.selected_in_label = L ∧ lsp.ptr = x then false
          else xc_installed c.log L x := by
        intro L x
        rw [xc_installed_append]
        by_cases ha : zebra_route_node_active K c.info = true
        · by_cases hl : c.lb.selected_in_label = NO_LABEL
          · simp [ha, hl, xc_entry_run, xc_entry_step]
          · simp [ha, hl, xc_entry_run, xc_entry_step]
        · simp [ha, xc_entry_run]
      refine ⟨hn, ?_, ?_, ?_, fun h => h⟩
      · intro x _ hnot L
        show xc_installed _ L x = _
        rw [hinst L x]
        have hne : lsp.ptr ≠ x := by
          intro h
          apply hnot
          right
          rw [hp, h]
        simp [hne]
      · intro x h L
        show xc_installed _ L x = true ↔ xc_on K c.info _ L x
        rw [hinst L x]
        have hoff : ¬ xc_on K c.info { c.lb with selected_lsp := none } L x := by
          rintro ⟨_, _, _, h2⟩
          cases h2
        have hpre := h L
        by_cases hb : xc_installed c.log L x = true
        · obtain ⟨h1, h2, h3, h4⟩ := hpre.1 hb
          rw [hp] at h4
          have h5 : lsp.ptr = x := Option.some.inj h4
          have h6 : c.lb.selected_in_label ≠ NO_LABEL := by rw [h2]; exact h3
          rw [if_pos ⟨h1, h6, h2, h5⟩]
          exact ⟨fun h => (by cases h), fun h => absurd h hoff⟩
        · have hb2 : xc_installed c.log L x = false := by
            cases hx : xc_installed c.log L x
            · rfl
            · exact absurd hx hb
          rw [hb2]
          constructor
          · intro h
            split at h <;> cases h
          · exact fun h => absurd h hoff
      · intro i
        show labelspace_of _ i = _
        rw [labelspace_of_append]
        apply labelspace_run_quiet
        intro e he
        split at he
        · simp only [List.mem_append, List.mem_singleton] at he
          rcases he with he | he
          · split at he
            · rw [List.mem_singleton.1 he]; rfl
            · cases he
          · rw [he]; rfl
        · cases he
  · have : mpls_prefix_remove_lsp K c lsp = c := by
      unfold mpls_prefix_remove_lsp
      rw [if_pos hp]
    rw [this]
    exact xc_keeps_refl K c

theorem xc_keeps_select_lsp (K : zebra_consts) (drv : driver) (hdrv : ∀ log, 0 ≤ drv log)
    (c : mpls_rn) : xc_keeps K c (mpls_prefix_select_lsp K drv c) := by
  have hn := nhlfe_keeps_select_lsp K drv c
  cases hnh : get_prefix_nexthop K c.info with
  | none =>
    rw [select_lsp_no_nexthop K drv c hnh]
    exact xc_keeps_refl K c
  | some n =>
    have hact := nexthop_some_active K c.info n hnh
    rw [select_lsp_eq K drv c n hnh] at hn ⊢
    split
    · exact xc_keeps_refl K c
    · rename_i hnot
      rw [if_neg hnot] at hn
      have hinst : ∀ L x, xc_installed (c.log
          ++ unselect_events c.lb.selected_in_label c.lb.selected_lsp
          ++ select_events drv
              (c.log ++ unselect_events c.lb.selected_in_label c.lb.selected_lsp)
              c.p c.lb.selected_in_label (select_candidate c.lb n)) L x =
          if c.lb.selected_in_label ≠ NO_LABEL ∧ c.lb.selected_in_label = L ∧
            ptr_of (select_candidate c.lb n) = some x then true
          else if c.lb.selected_in_label ≠ NO_LABEL ∧ c.lb.selected_in_label = L ∧
            ptr_of c.lb.selected_lsp = some x then false
          else xc_installed c.log L x := by
        intro L x
        rw [List.append_assoc, xc_installed_append, xc_entry_run_append,
          xc_run_select drv hdrv, xc_run_unselect]
      refine ⟨hn, ?_, ?_, ?_, fun h => h⟩
      · intro x _ hnot2 L
        show xc_installed _ L x = _
        rw [hinst L x]
        have h1 : ¬ ptr_of (select_candidate c.lb n) = some x := by
          intro h
          apply hnot2
          left
          cases hc : select_candidate c.lb n with
          | none => rw [hc] at h; cases h
          | some sel =>
            rw [hc] at h
            exact List.mem_map.2 ⟨sel, (select_candidate_mem hc).1, by simpa [ptr_of] using h⟩
        have h2 : ¬ ptr_of c.lb.selected_lsp = some x := fun h => hnot2 (Or.inr h)
        simp [h1, h2]
      · intro x h L
        show xc_installed _ L x = true ↔ xc_on K c.info _ L x
        rw [hinst L x]
        have hon : xc_on K c.info { c.lb with selected_lsp := select_candidate c.lb n } L x ↔
            (c.lb.selected_in_label ≠ NO_LABEL ∧ c.lb.selected_in_label = L ∧
              ptr_of (select_candidate c.lb n) = some x) := by
          unfold xc_on
          constructor
          · rintro ⟨_, h2, h3, h4⟩
            exact ⟨by rw [h2]; exact h3, h2, h4⟩
          · rintro ⟨h2, h3, h4⟩
            exact ⟨hact, h3, by rw [← h3]; exact h2, h4⟩
        rw [hon]
        by_cases h1 : c.lb.selected_in_label ≠ NO_LABEL ∧ c.lb.selected_in_label = L ∧
            ptr_of (select_candidate c.lb n) = some x
        · rw [if_pos h1]
          exact ⟨fun _ => h1, fun _ => rfl⟩
        · rw [if_neg h1]
          by_cases h2 : c.lb.selected_in_label ≠ NO_LABEL ∧ c.lb.selected_in_label = L ∧
              ptr_of c.lb.selected_lsp = some x
          · rw [if_pos h2]
            exact ⟨fun h => (by cases h), fun h => absurd h h1⟩
          · rw [if_neg h2]
            have hb : ¬ xc_installed c.log L x = true := by
              intro hb
              obtain ⟨_, b2, b3, b4⟩ := (h L).1 hb
              exact h2 ⟨by rw [b2]; exact b3, b2, b4⟩
            exact ⟨fun h => absurd h hb, fun h => absurd h h1⟩
      · intro i
        show labelspace_of _ i = _
        rw [List.append_assoc, labelspace_of_append]
        apply labelspace_run_quiet
        intro e he
        rcases List.mem_append.1 he with he | he
        · exact unselect_events_not_labelspace _ _ e he
        · exact select_events_not_labelspace _ _ _ _ _ e he

/-- The guarded call `if (zebra_route_node_active (rn)) mpls_prefix_select_lsp (rn);`. -/
theorem xc_keeps_maybe_select (K : zebra_consts) (drv : driver) (hdrv : ∀ log, 0 ≤ drv log)
    (c : mpls_rn) :
    xc_keeps K c
      (if zebra_route_node_active K c.info then mpls_prefix_select_lsp K drv c else c) := by
  split
  · exact xc_keeps_select_lsp K drv hdrv c
  · exact xc_keeps_refl K c
theorem xc_entry_run_single (L x : Nat) (e : event) (v : Bool) (h : e.is_xc = false) :
    xc_entry_run L x [e] v = v :=
  xc_entry_run_quiet L x [e] v (fun e' he' => by rw [List.mem_singleton.1 he']; exact h)

/-- The XC table after the calls of `set_static_events`. -/
theorem xc_run_set_static (K : zebra_consts) (c : mpls_rn) (label L x : Nat) (v : Bool) :
    xc_entry_run L x (set_static_events K c label) v =
      if zebra_route_node_active K c.info = true then
        (if label = L ∧ ptr_of c.lb.selected_lsp = some x then true
         else if c.lb.selected_in_label ≠ NO_LABEL ∧ c.lb.selected_in_label = L ∧
           ptr_of c.lb.selected_lsp = some x then false
         else v)
      else v := by
  unfold set_static_events
  have hinner : xc_entry_run L x
      (if c.lb.selected_in_label ≠ NO_LABEL then
        xc_unregister_if c.lb.selected_lsp c.lb.selected_in_label
          ++ [event.ilm_unregister c.lb.selected_in_label]
       else []) v =
      if c.lb.selected_in_label ≠ NO_LABEL ∧ c.lb.selected_in_label = L ∧
        ptr_of c.lb.selected_lsp = some x then false else v := by
    by_cases hs : c.lb.selected_in_label = NO_LABEL
    · rw [if_neg (fun h => h hs), if_neg (fun h => h.1 hs)]
      rfl
    · rw [if_pos hs, xc_entry_run_append,
        xc_entry_run_single L x (event.ilm_unregister _) _ rfl, xc_run_unregister_if]
      by_cases h3 : c.lb.selected_in_label = L ∧ ptr_of c.lb.selected_lsp = some x
      · rw [if_pos h3, if_pos ⟨hs, h3⟩]
      · rw [if_neg h3, if_neg (fun h => h3 h.2)]
  by_cases ha : zebra_route_node_active K c.info = true
  · rw [if_pos ha, if_pos ha, xc_entry_run_append,
      xc_entry_run_quiet L x (broadcast _ _ _) _ (broadcast_not_xc _ _ _),
      xc_entry_run_append, xc_run_register_if, xc_entry_run_append,
      xc_entry_run_single L x (event.ilm_register label) _ rfl, hinner]
  · rw [if_neg ha, if_neg ha]
    rfl

/-- The XC table after the calls of `remove_static_events`. -/
theorem xc_run_remove_static (K : zebra_consts) (c : mpls_rn) (L x : Nat) (v : Bool) :
    xc_entry_run L x (remove_static_events K c) v =
      if zebra_route_node_active K c.info = true then
        (if c.lb.ldp_in_label ≠ NO_LABEL ∧ c.lb.ldp_in_label = L ∧
           ptr_of c.lb.selected_lsp = some x then true
         else if c.lb.selected_in_label = L ∧ ptr_of c.lb.selected_lsp = some x then false
         else v)
      else v := by
  unfold remove_static_events
  have hinner : ∀ w, xc_entry_run L x
      (if c.lb.ldp_in_label = NO_LABEL then []
       else [event.ilm_register c.lb.ldp_in_label]
         ++ xc_register_if c.lb.selected_lsp c.lb.ldp_in_label) w =
      if c.lb.ldp_in_label ≠ NO_LABEL ∧ c.lb.ldp_in_label = L ∧
        ptr_of c.lb.selected_lsp = some x then true else w := by
    intro w
    by_cases hs : c.lb.ldp_in_label = NO_LABEL
    · rw [if_pos hs, if_neg (fun h => h.1 hs)]
      rfl
    · rw [if_neg hs, xc_entry_run_append,
        xc_entry_run_single L x (event.ilm_register _) _ rfl, xc_run_register_if]
      by_cases h3 : c.lb.ldp_in_label = L ∧ ptr_of c.lb.selected_lsp = some x
      · rw [if_pos h3, if_pos ⟨hs, h3⟩]
      · rw [if_neg h3, if_neg (fun h => h3 h.2)]
  by_cases ha : zebra_route_node_active K c.info = true
  · rw [if_pos ha, if_pos ha, xc_entry_run_append,
      xc_entry_run_quiet L x (broadcast _ _ _) _ (broadcast_not_xc _ _ _),
      xc_entry_run_append, xc_entry_run_append,
      xc_entry_run_single L x (event.ilm_unregister _) _ rfl, xc_run_unregister_if, hinner]
  · rw [if_neg ha, if_neg ha]
    rfl

theorem xc_keeps_set_static (K : zebra_consts) (c : mpls_rn) (label : Nat)
    (hl : label ≠ NO_LABEL) : xc_keeps K c (set_static_input_label_rn K c label) := by
  have hn := nhlfe_keeps_set_static K c label
  rw [set_static_input_label_rn_eq] at hn ⊢
  split
  · exact xc_keeps_refl K c
  · rename_i hne
    rw [if_neg hne] at hn
    have hnp : ∀ x, ¬ lsp_held c.lb x → ¬ ptr_of c.lb.selected_lsp = some x :=
      fun x h1 h2 => h1 (Or.inr h2)
    refine ⟨hn, ?_, ?_, ?_, fun h => h⟩
    · intro x _ hnot L
      show xc_installed (c.log ++ _) L x = _
      rw [xc_installed_append, xc_run_set_static]
      have h1 := hnp x hnot
      split
      · rw [if_neg (fun h => h1 h.2), if_neg (fun h => h1 h.2.2)]
      · rfl
    · intro x h L
      show xc_installed (c.log ++ _) L x = true ↔ xc_on K c.info _ L x
      rw [xc_installed_append, xc_run_set_static]
      have hon : xc_on K c.info
          { c.lb with static_in_label := label, selected_in_label := label } L x ↔
          (zebra_route_node_active K c.info = true ∧ label = L ∧
            ptr_of c.lb.selected_lsp = some x) := by
        unfold xc_on
        constructor
        · rintro ⟨h1, h2, _, h4⟩
          exact ⟨h1, h2, h4⟩
        · rintro ⟨h1, h2, h4⟩
          exact ⟨h1, h2, by rw [← h2]; exact hl, h4⟩
      rw [hon]
      by_cases ha : zebra_route_node_active K c.info = true
      · rw [if_pos ha]
        by_cases h1 : label = L ∧ ptr_of c.lb.selected_lsp = some x
        · rw [if_pos h1]
          exact ⟨fun _ => ⟨ha, h1⟩, fun _ => rfl⟩
        · rw [if_neg h1]
          by_cases h2 : c.lb.selected_in_label ≠ NO_LABEL ∧ c.lb.selected_in_label = L ∧
              ptr_of c.lb.selected_lsp = some x
          · rw [if_pos h2]
            exact ⟨fun h => (by cases h), fun h => absurd h.2 h1⟩
          · rw [if_neg h2]
            have hb : ¬ xc_installed c.log L x = true := by
              intro hb
              obtain ⟨_, b2, b3, b4⟩ := (h L).1 hb
              exact h2 ⟨by rw [b2]; exact b3, b2, b4⟩
            exact ⟨fun h => absurd h hb, fun h => absurd h.2 h1⟩
      · rw [if_neg ha]
        have hb : ¬ xc_installed c.log L x = true := fun hb => ha ((h L).1 hb).1
        exact ⟨fun h => absurd h hb, fun h => absurd h.1 ha⟩
    · intro i
      show labelspace_of (c.log ++ _) i = _
      rw [labelspace_of_append]
      exact labelspace_run_quiet i _ _ (set_static_events_not_labelspace K c label)

theorem xc_keeps_remove_static (K : zebra_consts) (c : mpls_rn) (label : Nat) :
    xc_keeps K c (remove_static_input_label_rn K c label) := by
  have hn := nhlfe_keeps_remove_static K c label
  rw [remove_static_input_label_rn_eq] at hn ⊢
  split
  · exact xc_keeps_refl K c
  · rename_i hne
    rw [if_neg hne] at hn
    split
    · exact xc_keeps_refl K c
    · rename_i hne2
      rw [if_neg hne2] at hn
      have hnp : ∀ x, ¬ lsp_held c.lb x → ¬ ptr_of c.lb.selected_lsp = some x :=
        fun x h1 h2 => h1 (Or.inr h2)
      refine ⟨hn, ?_, ?_, ?_, fun h => h⟩
      · intro x _ hnot L
        show xc_installed (c.log ++ _) L x = _
        rw [xc_installed_append, xc_run_remove_static]
        have h1 := hnp x hnot
        split
        · rw [if_neg (fun h => h1 h.2.2), if_neg (fun h => h1 h.2)]
        · rfl
      · intro x h L
        show xc_installed (c.log ++ _) L x = true ↔ xc_on K c.info _ L x
        rw [xc_installed_append, xc_run_remove_static]
        have hon : xc_on K c.info
            { c.lb with static_in_label := NO_LABEL,
                        selected_in_label := remove_static_selected K c } L x ↔
            (zebra_route_node_active K c.info = true ∧ c.lb.ldp_in_label ≠ NO_LABEL ∧
              c.lb.ldp_in_label = L ∧ ptr_of c.lb.selected_lsp = some x) := by
          unfold xc_on remove_static_selected
          constructor
          · rintro ⟨h1, h2, h3, h4⟩
            dsimp only at h2
            by_cases hd : c.lb.ldp_in_label = NO_LABEL
            · rw [if_pos hd] at h2
              exact absurd h2.symm h3
            · rw [if_neg hd, if_pos h1] at h2
              exact ⟨h1, hd, h2, h4⟩
          · rintro ⟨h1, h2, h3, h4⟩
            refine ⟨h1, ?_, by rw [← h3]; exact h2, h4⟩
            dsimp only
            rw [if_neg h2, if_pos h1]
            exact h3
        rw [hon]
        by_cases ha : zebra_route_node_active K c.info = true
        · rw [if_pos ha]
          by_cases h1 : c.lb.ldp_in_label ≠ NO_LABEL ∧ c.lb.ldp_in_label = L ∧
              ptr_of c.lb.selected_lsp = some x
          · rw [if_pos h1]
            exact ⟨fun _ => ⟨ha, h1⟩, fun _ => rfl⟩
          · rw [if_neg h1]
            by_cases h2 : c.lb.selected_in_label = L ∧ ptr_of c.lb.selected_lsp = some x
            · rw [if_pos h2]
              exact ⟨fun h => (by cases h), fun h => absurd h.2 h1⟩
            · rw [if_neg h2]
              have hb : ¬ xc_installed c.log L x = true := by
                intro hb
                obtain ⟨_, b2, _, b4⟩ := (h L).1 hb
                exact h2 ⟨b2, b4⟩
              exact ⟨fun h => absurd h hb, fun h => absurd h.2 h1⟩
        · rw [if_neg ha]
          have hb : ¬ xc_installed c.log L x = true := fun hb => ha ((h L).1 hb).1
          exact ⟨fun h => absurd h hb, fun h => absurd h.1 ha⟩
      · intro i
        show labelspace_of (c.log ++ _) i = _
        rw [labelspace_of_append]
        exact labelspace_run_quiet i _ _ (remove_static_events_not_labelspace K c)
theorem xc_keeps_remove_static_lsp (K : zebra_consts) (drv : driver)
    (hdrv : ∀ log, 0 ≤ drv log) (c : mpls_rn) (n : Nat) :
    xc_keeps K c (remove_static_lsp_rn K drv c n) := by
  unfold remove_static_lsp_rn
  split
  · exact xc_keeps_refl K c
  · rename_i lsp _
    dsimp only
    have h1 := xc_keeps_remove_lsp K c lsp
    generalize mpls_prefix_remove_lsp K c lsp = c1 at h1 ⊢
    have h2 : ∀ c2 : mpls_rn, c2.info = c1.info → c2.alloc = c1.alloc → c2.log = c1.log →
        c2.lb.selected_lsp = c1.lb.selected_lsp → c2.lb.ldp_lsp = c1.lb.ldp_lsp →
        c2.lb.selected_in_label = c1.lb.selected_in_label →
        c2.lb.static_lsps = listnode_delete c1.lb.static_lsps lsp → xc_keeps K c1 c2 := by
      intro c2 e1 e2 e3 e4 e5 e7 e6
      have hn : nhlfe_keeps K c1 c2 := by
        refine nhlfe_keeps_of_quiet K _ _ [] e1 (le_of_eq e2.symm) e4 ?_
          (by rw [e3, List.append_nil]) (fun _ h => by cases h)
        intro l hl
        left
        simp only [lsps, List.mem_append] at hl ⊢
        rw [e5, e6] at hl
        rcases hl with hl | hl
        · exact Or.inl (List.mem_of_mem_eraseP hl)
        · exact Or.inr hl
      exact xc_keeps_of_quiet K c1 c2 [] hn e4 e7 (fun h => by rw [e5]; exact h)
        (by rw [e3, List.append_nil]) (fun _ h => by cases h) (fun _ h => by cases h)
    have h3 := xc_keeps_maybe_select K drv hdrv
      { c1 with lb := { c1.lb with static_lsps := listnode_delete c1.lb.static_lsps lsp } }
    dsimp only at h3
    have h4 := h2
      { c1 with lb := { c1.lb with static_lsps := listnode_delete c1.lb.static_lsps lsp } }
      rfl rfl rfl rfl rfl rfl rfl
    exact xc_keeps_trans h1 (xc_keeps_trans h4 h3)

theorem xc_keeps_add_static_lsp_loop (K : zebra_consts) (drv : driver)
    (hdrv : ∀ log, 0 ≤ drv log) (nexthop label : Nat) (l : List route_lsp) (c : mpls_rn) :
    xc_keeps K c (add_static_lsp_loop K drv nexthop label l c).2 := by
  induction l generalizing c with
  | nil => exact xc_keeps_refl K c
  | cons a t ih =>
    unfold add_static_lsp_loop
    split
    · split
      · exact xc_keeps_refl K c
      · exact xc_keeps_trans (xc_keeps_remove_static_lsp K drv hdrv c a.nexthop) (ih _)
    · exact ih c

theorem xc_keeps_create_static (K : zebra_consts) (c : mpls_rn) (nexthop label : Nat) :
    xc_keeps K c (create_static_lsp c nexthop label) :=
  xc_keeps_of_quiet K c _ [] (nhlfe_keeps_create_static K c nexthop label) rfl rfl
    (fun h => h) (List.append_nil _).symm (fun _ h => by cases h) (fun _ h => by cases h)

theorem xc_keeps_add_static_lsp (K : zebra_consts) (drv : driver) (hdrv : ∀ log, 0 ≤ drv log)
    (c : mpls_rn) (nexthop label : Nat) :
    xc_keeps K c (add_static_lsp_rn K drv c nexthop label) := by
  unfold add_static_lsp_rn
  have hloop := xc_keeps_add_static_lsp_loop K drv hdrv nexthop label c.lb.static_lsps c
  cases hr : add_static_lsp_loop K drv nexthop label c.lb.static_lsps c with
  | mk b c1 =>
    rw [hr] at hloop
    cases b
    · dsimp only
      exact xc_keeps_trans hloop (xc_keeps_trans (xc_keeps_create_static K c1 _ _)
        (xc_keeps_maybe_select K drv hdrv _))
    · exact hloop
/-! ## The tables of the driver along runs of configuration commands -/

theorem xc_on_held {K : zebra_consts} {info : List rib} {lb : label_bindings} {L x : Nat}
    (h : xc_on K info lb L x) : lsp_held lb x := Or.inr h.2.2.2

theorem driver_inv_put (K : zebra_consts) (iflist : List interface) (s : zebra) (p : Prefix)
    (c' : mpls_rn) (hinv : driver_inv K iflist s) (hk : xc_keeps K (rn_of s p) c')
    (hwf' : zebra_wf (put_rn s p c')) (hsel' : zebra_sel_ok K (put_rn s p c')) :
    driver_inv K iflist (put_rn s p c') := by
  obtain ⟨hn, _, hldp, hxc, hls⟩ := hinv
  obtain ⟨kn, kr, kq, kl, kd⟩ := hk
  obtain ⟨hwf, hxw, hxlt, hxnd, hap, hapx, hoff, hset⟩ := hn
  have ki := kn.1
  have kf := kn.2.2.1
  have hlt : ∀ q x, lsp_held (bindings s q) x → x < s.alloc :=
    fun q x hx => lsp_held_lt (rn_of_wf s q hwf) hx
  have hbp : bindings (put_rn s p c') p = c'.lb := put_rn_bindings s p c'
  have hbq : ∀ q, q ≠ p → bindings (put_rn s p c') q = bindings s q :=
    fun q hq => put_rn_bindings_ne s p q c' hq
  have hnew : ∀ x, lsp_held c'.lb x → lsp_held (bindings s p) x ∨ s.alloc ≤ x := kf
  refine ⟨nhlfe_inv_put K s p c' ⟨hwf, hxw, hxlt, hxnd, hap, hapx, hoff, hset⟩ kn hwf', hsel',
    ?_, ?_, ?_⟩
  · intro q
    by_cases hq : q = p
    · subst hq
      rw [hbp]
      exact kd (hldp q)
    · rw [hbq q hq]
      exact hldp q
  · intro L x
    show xc_installed c'.log L x = true ↔ _
    have hclaim : ∀ M, xc_claimed K (put_rn s p c') M x ↔
        xc_on K (s.table p).info c'.lb M x ∨
        (∃ q, q ≠ p ∧ xc_on K (s.table q).info (bindings s q) M x) ∨
        (∃ mc ∈ s.mpls_crossconnect_list, mc.in_label = M ∧ mc.lsp.ptr = x) := by
      intro M
      unfold xc_claimed
      constructor
      · rintro (⟨q, hq⟩ | h)
        · rw [put_rn_info] at hq
          by_cases hqp : q = p
          · subst hqp
            rw [hbp] at hq
            exact Or.inl hq
          · rw [hbq q hqp] at hq
            exact Or.inr (Or.inl ⟨q, hqp, hq⟩)
        · exact Or.inr (Or.inr h)
      · rintro (h | ⟨q, hqp, hq⟩ | h)
        · exact Or.inl ⟨p, by rw [put_rn_info, hbp]; exact h⟩
        · exact Or.inl ⟨q, by rw [put_rn_info, hbq q hqp]; exact hq⟩
        · exact Or.inr h
    have hclaim0 : ∀ M, xc_claimed K s M x ↔
        xc_on K (s.table p).info (bindings s p) M x ∨
        (∃ q, q ≠ p ∧ xc_on K (s.table q).info (bindings s q) M x) ∨
        (∃ mc ∈ s.mpls_crossconnect_list, mc.in_label = M ∧ mc.lsp.ptr = x) := by
      intro M
      unfold xc_claimed
      constructor
      · rintro (⟨q, hq⟩ | h)
        · by_cases hqp : q = p
          · subst hqp
            exact Or.inl hq
          · exact Or.inr (Or.inl ⟨q, hqp, hq⟩)
        · exact Or.inr (Or.inr h)
      · rintro (h | ⟨q, _, hq⟩ | h)
        · exact Or.inl ⟨p, h⟩
        · exact Or.inl ⟨q, hq⟩
        · exact Or.inr h
    rw [hclaim L]
    by_cases hown : lsp_held (bindings s p) x ∨ s.alloc ≤ x
    · have hothers : ∀ M, ¬ ((∃ q, q ≠ p ∧ xc_on K (s.table q).info (bindings s q) M x) ∨
          (∃ mc ∈ s.mpls_crossconnect_list, mc.in_label = M ∧ mc.lsp.ptr = x)) := by
        rintro M (⟨q, hqp, hq⟩ | ⟨mc, hmc, -, hmx⟩)
        · rcases hown with h | h
          · exact hap p q x (Ne.symm hqp) h (xc_on_held hq)
          · exact absurd (hlt q x (xc_on_held hq)) (not_lt.2 h)
        · rcases hown with h | h
          · exact hapx p x h mc hmc hmx
          · exact absurd (hmx ▸ hxlt mc hmc) (not_lt.2 h)
      have hpre : ∀ M, xc_installed (rn_of s p).log M x = true ↔
          xc_on K (rn_of s p).info (rn_of s p).lb M x := by
        intro M
        show xc_installed s.log M x = true ↔ xc_on K (s.table p).info (bindings s p) M x
        rw [hxc M x, hclaim0 M]
        constructor
        · rintro (h | h)
          · exact h
          · exact absurd h (hothers M)
        · exact fun h => Or.inl h
      have hpost := kq x hpre L
      rw [ki] at hpost
      rw [hpost]
      constructor
      · exact fun h => Or.inl h
      · rintro (h | h)
        · exact h
        · exact absurd h (hothers L)
    · have hnh : ¬ lsp_held (bindings s p) x := fun h => hown (Or.inl h)
      have hxlt' : x < s.alloc := not_le.1 (fun h => hown (Or.inr h))
      have hsame : xc_installed c'.log L x = xc_installed s.log L x := kr x hxlt' hnh L
      rw [hsame, hxc L x, hclaim0 L]
      have h1 : ¬ xc_on K (s.table p).info (bindings s p) L x := fun h => hnh (xc_on_held h)
      have h2 : ¬ xc_on K (s.table p).info c'.lb L x := by
        intro h
        rcases hnew x (xc_on_held h) with h3 | h3
        · exact hnh h3
        · exact absurd hxlt' (not_lt.2 h3)
      constructor
      · rintro (h | h)
        · exact absurd h h1
        · exact Or.inr h
      · rintro (h | h)
        · exact absurd h h2
        · exact Or.inr h
  · intro i
    show labelspace_of c'.log i = _
    rw [kl i]
    exact hls i

/-- A function of the static configuration run on the node of `p`. -/
theorem driver_inv_with_rn (K : zebra_consts) (iflist : List interface) (s : zebra)
    (p : Prefix) (f : mpls_rn → mpls_rn) (hinv : driver_inv K iflist s)
    (hf : ∀ c, xc_keeps K c (f c))
    (hwf' : zebra_wf (with_rn f (route_node_get_mpls s p) p))
    (hsel' : zebra_sel_ok K (with_rn f (route_node_get_mpls s p) p)) :
    driver_inv K iflist (with_rn f (route_node_get_mpls s p) p) := by
  rw [with_rn_get] at hwf' hsel' ⊢
  exact driver_inv_put K iflist s p _ hinv (hf _) hwf' hsel'

theorem driver_inv_set_static (K : zebra_consts) (iflist : List interface) (s : zebra)
    (p : Prefix) (L : Nat) (hL : L ≠ NO_LABEL) (hinv : driver_inv K iflist s) :
    driver_inv K iflist (mpls_prefix_set_static_input_label K s p L) :=
  driver_inv_with_rn K iflist s p _ hinv (fun c => xc_keeps_set_static K c L hL)
    (step_wf K null_driver s (op.set_static_input_label p L) hinv.1.1)
    (step_mutator_sel_ok K null_driver s (op.set_static_input_label p L) rfl hinv.1.1 hinv.2.1)

theorem driver_inv_remove_static (K : zebra_consts) (iflist : List interface) (s : zebra)
    (p : Prefix) (L : Nat) (hinv : driver_inv K iflist s) :
    driver_inv K iflist (mpls_prefix_remove_static_input_label K s p L) :=
  driver_inv_with_rn K iflist s p _ hinv (fun c => xc_keeps_remove_static K c L)
    (step_wf K null_driver s (op.remove_static_input_label p L) hinv.1.1)
    (step_mutator_sel_ok K null_driver s (op.remove_static_input_label p L) rfl hinv.1.1
      hinv.2.1)

theorem driver_inv_add_static_lsp (K : zebra_consts) (iflist : List interface) (drv : driver)
    (hdrv : ∀ log, 0 ≤ drv log) (s : zebra) (p : Prefix) (N L : Nat)
    (hinv : driver_inv K iflist s) :
    driver_inv K iflist (mpls_prefix_add_static_lsp K drv s p N L) :=
  driver_inv_with_rn K iflist s p _ hinv (fun c => xc_keeps_add_static_lsp K drv hdrv c N L)
    (step_wf K drv s (op.add_static_lsp p N L) hinv.1.1)
    (step_mutator_sel_ok K drv s (op.add_static_lsp p N L) rfl hinv.1.1 hinv.2.1)

theorem driver_inv_remove_static_lsp (K : zebra_consts) (iflist : List interface)
    (drv : driver) (hdrv : ∀ log, 0 ≤ drv log) (s : zebra) (p : Prefix) (N : Nat)
    (hinv : driver_inv K iflist s) :
    driver_inv K iflist (mpls_prefix_remove_static_lsp K drv s p N) :=
  driver_inv_with_rn K iflist s p _ hinv (fun c => xc_keeps_remove_static_lsp K drv hdrv c N)
    (step_wf K drv s (op.remove_static_lsp p N) hinv.1.1)
    (step_mutator_sel_ok K drv s (op.remove_static_lsp p N) rfl hinv.1.1 hinv.2.1)
/-- A step that leaves the route table: the invariant is kept if the NHLFE
invariant is and the XC table and the label spaces are as claimed. -/
theorem driver_inv_of_table (K : zebra_consts) (iflist : List interface) (s s' : zebra)
    (ht : s'.table = s.table) (hinv : driver_inv K iflist s) (hn' : nhlfe_inv K s')
    (hx : ∀ L x, xc_installed s'.log L x = true ↔ xc_claimed K s' L x)
    (hl : ∀ i, labelspace_of s'.log i = labelspace_claimed iflist s' i) :
    driver_inv K iflist s' := by
  have hb : ∀ q, bindings s' q = bindings s q := fun q => bindings_congr (by rw [ht])
  refine ⟨hn', ?_, ?_, hx, hl⟩
  · intro p lb hp
    rw [ht] at hp ⊢
    exact hinv.2.1 p lb hp
  · intro p
    rw [hb]
    exact hinv.2.2.1 p

theorem xc_claimed_congr (K : zebra_consts) (s s' : zebra) (ht : s'.table = s.table)
    (hl : s'.mpls_crossconnect_list = s.mpls_crossconnect_list) (L x : Nat) :
    xc_claimed K s' L x ↔ xc_claimed K s L x := by
  have hb : ∀ q, bindings s' q = bindings s q := fun q => bindings_congr (by rw [ht])
  unfold xc_claimed
  rw [hl, ht]
  constructor
  · rintro (⟨q, hq⟩ | h)
    · rw [hb] at hq; exact Or.inl ⟨q, hq⟩
    · exact Or.inr h
  · rintro (⟨q, hq⟩ | h)
    · exact Or.inl ⟨q, by rw [hb]; exact hq⟩
    · exact Or.inr h

/-- The NHLFE invariant reads the log through the NHLFE table only. -/
theorem nhlfe_inv_of_installed (K : zebra_consts) (s s' : zebra) (ht : s'.table = s.table)
    (hl : s'.mpls_crossconnect_list = s.mpls_crossconnect_list) (ha : s'.alloc = s.alloc)
    (hg : ∀ x, nhlfe_installed s'.log x = nhlfe_installed s.log x) (h : nhlfe_inv K s) :
    nhlfe_inv K s' := by
  have h0 : nhlfe_inv K { s' with log := s.log } :=
    nhlfe_inv_congr K s { s' with log := s.log } ht hl ha rfl h
  obtain ⟨a1, a2, a3, a4, a5, a6, a7, a8⟩ := h0
  refine ⟨a1, a2, a3, a4, a5, a6, a7, ?_⟩
  intro x
  rw [hg x]
  exact a8 x

/-- The label spaces after the calls of `labelspace_calls`. -/
theorem labelspace_run_calls (i : Nat) (iflist : List interface) (labelspace : Int) (v : Int) :
    labelspace_run i (labelspace_calls iflist labelspace) v =
      if ∃ ifp ∈ iflist, ifp.ptr = i ∧ ifp.info.mpls_enabled ≠ 0 then
        (if labelspace < 0 then -1 else labelspace)
      else v := by
  induction iflist generalizing v with
  | nil => simp [labelspace_calls, labelspace_run]
  | cons a t ih =>
    have hcons : labelspace_calls (a :: t) labelspace =
        (if a.info.mpls_enabled ≠ 0 then [event.set_interface_labelspace a.ptr labelspace]
         else []) ++ labelspace_calls t labelspace := by
      unfold labelspace_calls
      by_cases ha : a.info.mpls_enabled = 0
      · simp [ha]
      · simp [ha]
    rw [hcons, labelspace_run_append, ih]
    by_cases ht : ∃ ifp ∈ t, ifp.ptr = i ∧ ifp.info.mpls_enabled ≠ 0
    · have ht2 : ∃ ifp ∈ a :: t, ifp.ptr = i ∧ ifp.info.mpls_enabled ≠ 0 := by
        obtain ⟨ifp, h1, h2⟩ := ht
        exact ⟨ifp, List.mem_cons_of_mem _ h1, h2⟩
      rw [if_pos ht, if_pos ht2]
    · rw [if_neg ht]
      by_cases ha : a.info.mpls_enabled ≠ 0 ∧ a.ptr = i
      · have ht2 : ∃ ifp ∈ a :: t, ifp.ptr = i ∧ ifp.info.mpls_enabled ≠ 0 :=
          ⟨a, List.mem_cons_self _ _, ha.2, ha.1⟩
        rw [if_pos ha.1, if_pos ht2]
        show (if a.ptr = i then (if labelspace < 0 then -1 else labelspace) else v) = _
        rw [if_pos ha.2]
      · have hn : ¬ ∃ ifp ∈ a :: t, ifp.ptr = i ∧ ifp.info.mpls_enabled ≠ 0 := by
          rintro ⟨ifp, h1, h2⟩
          rcases List.mem_cons.1 h1 with h | h
          · rw [h] at h2
            exact ha ⟨h2.2, h2.1⟩
          · exact ht ⟨ifp, h, h2⟩
        rw [if_neg hn]
        by_cases hm : a.info.mpls_enabled ≠ 0
        · rw [if_pos hm]
          show (if a.ptr = i then (if labelspace < 0 then -1 else labelspace) else v) = _
          rw [if_neg (fun h => ha ⟨hm, h⟩)]
        · rw [if_neg hm]
          rfl

theorem labelspace_calls_not_nhlfe (iflist : List interface) (labelspace : Int) :
    ∀ e ∈ labelspace_calls iflist labelspace, e.is_nhlfe = false := by
  intro e he
  unfold labelspace_calls at he
  obtain ⟨x, _, hx⟩ := List.mem_map.1 he
  rw [← hx]
  rfl

theorem labelspace_calls_not_xc (iflist : List interface) (labelspace : Int) :
    ∀ e ∈ labelspace_calls iflist labelspace, e.is_xc = false := by
  intro e he
  unfold labelspace_calls at he
  obtain ⟨x, _, hx⟩ := List.mem_map.1 he
  rw [← hx]
  rfl

/-- A state that differs from `s` by label-space calls at the end of the log
and by the `mpls_enabled` flag. -/
theorem driver_inv_labelspace (K : zebra_consts) (iflist : List interface) (s s' : zebra)
    (labelspace : Int) (ht : s'.table = s.table)
    (hl : s'.mpls_crossconnect_list = s.mpls_crossconnect_list) (ha : s'.alloc = s.alloc)
    (hg : s'.log = s.log ++ labelspace_calls iflist labelspace)
    (hls : ∀ i, labelspace_run i (labelspace_calls iflist labelspace)
      (labelspace_claimed iflist s i) = labelspace_claimed iflist s' i)
    (hinv : driver_inv K iflist s) : driver_inv K iflist s' := by
  refine driver_inv_of_table K iflist s s' ht hinv ?_ ?_ ?_
  · refine nhlfe_inv_of_installed K s s' ht hl ha ?_ hinv.1
    intro x
    rw [hg, nhlfe_installed_append, nhlfe_run_quiet x _ _ (labelspace_calls_not_nhlfe _ _)]
  · intro L x
    rw [xc_claimed_congr K s s' ht hl, hg, xc_installed_append,
      xc_entry_run_quiet L x _ _ (labelspace_calls_not_xc _ _)]
    exact hinv.2.2.2.1 L x
  · intro i
    rw [hg, labelspace_of_append, hinv.2.2.2.2 i]
    exact hls i

theorem driver_inv_mpls_ip (K : zebra_consts) (iflist : List interface) (s : zebra)
    (hinv : driver_inv K iflist s) : driver_inv K iflist (mpls_ip iflist s).2 := by
  by_cases he : s.mpls_enabled = 0
  · have hs : (mpls_ip iflist s).2 =
        { s with log := s.log ++ labelspace_calls iflist 0, mpls_enabled := 1 } := by
      unfold mpls_ip
      rw [if_neg (not_not.2 he)]
      dsimp only
      rw [set_labelspace_loop_eq]
    rw [hs]
    refine driver_inv_labelspace K iflist s _ 0 rfl rfl rfl rfl ?_ hinv
    intro i
    have h0 : labelspace_claimed iflist s i = -1 := by
      unfold labelspace_claimed
      rw [if_neg (fun h => h.1 he)]
    rw [labelspace_run_calls, h0]
    unfold labelspace_claimed
    by_cases hi : ∃ ifp ∈ iflist, ifp.ptr = i ∧ ifp.info.mpls_enabled ≠ 0
    · have h1 : (1 : Nat) ≠ 0 ∧ ∃ ifp ∈ iflist, ifp.ptr = i ∧ ifp.info.mpls_enabled ≠ 0 :=
        ⟨by decide, hi⟩
      rw [if_pos hi, if_pos h1]
      rfl
    · have h1 : ¬ ((1 : Nat) ≠ 0 ∧ ∃ ifp ∈ iflist, ifp.ptr = i ∧ ifp.info.mpls_enabled ≠ 0) :=
        fun h => hi h.2
      rw [if_neg hi, if_neg h1]
  · have hs : (mpls_ip iflist s).2 = s := by
      unfold mpls_ip
      rw [if_pos he]
    rw [hs]
    exact hinv

theorem driver_inv_no_mpls_ip (K : zebra_consts) (iflist : List interface) (s : zebra)
    (hinv : driver_inv K iflist s) : driver_inv K iflist (no_mpls_ip iflist s).2 := by
  by_cases he : s.mpls_enabled = 0
  · have hs : (no_mpls_ip iflist s).2 = s := by
      unfold no_mpls_ip
      rw [if_pos he]
    rw [hs]
    exact hinv
  · have hs : (no_mpls_ip iflist s).2 =
        { s with log := s.log ++ labelspace_calls iflist (-1), mpls_enabled := 0 } := by
      unfold no_mpls_ip
      rw [if_neg he]
      dsimp only
      rw [set_labelspace_loop_eq]
    rw [hs]
    refine driver_inv_labelspace K iflist s _ (-1) rfl rfl rfl rfl ?_ hinv
    intro i
    have h1 : labelspace_claimed iflist
        { s with log := s.log ++ labelspace_calls iflist (-1), mpls_enabled := 0 } i = -1 := by
      unfold labelspace_claimed
      rw [if_neg (fun h => h.1 rfl)]
    rw [labelspace_run_calls, h1]
    by_cases hi : ∃ ifp ∈ iflist, ifp.ptr = i ∧ ifp.info.mpls_enabled ≠ 0
    · rw [if_pos hi]
      rfl
    · rw [if_neg hi]
      unfold labelspace_claimed
      rw [if_neg (fun h => hi h.2)]

theorem driver_inv_get (K : zebra_consts) (iflist : List interface) (s : zebra) (p : Prefix)
    (hinv : driver_inv K iflist s) : driver_inv K iflist (route_node_get_mpls s p) := by
  rw [← put_rn_rn_of]
  refine driver_inv_put K iflist s p _ hinv (xc_keeps_refl K _) ?_ ?_
  · exact put_rn_wf s p _ hinv.1.1 (le_refl _) (rn_of_wf s p hinv.1.1)
  · exact put_rn_sel_ok K s p _ (fun q lb _ hq => hinv.2.1 q lb hq)
      (rn_of_sel_ok K s p hinv.2.1)
theorem labelspace_claimed_congr (iflist : List interface) (s s' : zebra)
    (h : s'.mpls_enabled = s.mpls_enabled) (i : Nat) :
    labelspace_claimed iflist s' i = labelspace_claimed iflist s i := by
  unfold labelspace_claimed
  rw [h]

theorem driver_inv_xc_remove (K : zebra_consts) (iflist : List interface) (s : zebra) (L : Nat)
    (hinv : driver_inv K iflist s) :
    driver_inv K iflist (mpls_static_crossconnect_remove s L).2 := by
  cases hf : s.mpls_crossconnect_list.find? (fun x => x.in_label == L) with
  | none =>
    have hs : (mpls_static_crossconnect_remove s L).2 = s := by
      unfold mpls_static_crossconnect_remove; rw [hf]
    rw [hs]
    exact hinv
  | some mc =>
    have hr := crossconnect_remove_found s L mc hf
    have hm : mc ∈ s.mpls_crossconnect_list := List.mem_of_find?_eq_some hf
    have hL : mc.in_label = L := by
      have := List.find?_some hf
      simpa using this
    have ht := crossconnect_remove_table s L
    obtain ⟨hwf, hxc, hxlt, hxnd, hap, hapx, hoff, hset⟩ := hinv.1
    have hlist : (mpls_static_crossconnect_remove s L).2.mpls_crossconnect_list =
        s.mpls_crossconnect_list.erase mc := by
      rw [hr.2.2.1, listnode_delete_mc_erase _ mc hxc.2.1 hm]
    have hnodup : s.mpls_crossconnect_list.Nodup := List.Nodup.of_map _ hxc.2.1
    have hb : ∀ q, bindings (mpls_static_crossconnect_remove s L).2 q = bindings s q :=
      fun q => bindings_congr (by rw [ht])
    refine driver_inv_of_table K iflist s _ ht hinv
      (crossconnect_remove_nhlfe_inv K s L hinv.1) ?_ ?_
    · intro M x
      have hinst : xc_installed (mpls_static_crossconnect_remove s L).2.log M x =
          if L = M ∧ mc.lsp.ptr = x then false else xc_installed s.log M x := by
        rw [hr.2.1, xc_installed_append]
        simp [xc_entry_run, xc_entry_step]
      rw [hinst]
      unfold xc_claimed
      by_cases hx : L = M ∧ mc.lsp.ptr = x
      · rw [if_pos hx]
        constructor
        · intro h; cases h
        · rintro (⟨q, hq'⟩ | ⟨y, hy, -, hyx⟩)
          · rw [ht, hb] at hq'
            exact absurd hx.2 (hapx q x (xc_on_held hq') mc hm)
          · have hy' := hy
            rw [hlist] at hy'
            have hne : y ≠ mc := ((List.Nodup.mem_erase_iff hnodup).1 hy').1
            exact absurd (List.inj_on_of_nodup_map hxnd (List.mem_of_mem_erase hy') hm
              (hyx.trans hx.2.symm)) hne
      · rw [if_neg hx, hinv.2.2.2.1 M x]
        unfold xc_claimed
        constructor
        · rintro (⟨q, hq'⟩ | ⟨y, hy, hyl, hyx⟩)
          · exact Or.inl ⟨q, by rw [ht, hb]; exact hq'⟩
          · refine Or.inr ⟨y, ?_, hyl, hyx⟩
            rw [hlist]
            refine (List.Nodup.mem_erase_iff hnodup).2 ⟨?_, hy⟩
            intro hym
            rw [hym] at hyx hyl
            exact hx ⟨hL.symm.trans hyl, hyx⟩
        · rintro (⟨q, hq'⟩ | ⟨y, hy, hyl, hyx⟩)
          · rw [ht, hb] at hq'
            exact Or.inl ⟨q, hq'⟩
          · rw [hlist] at hy
            exact Or.inr ⟨y, List.mem_of_mem_erase hy, hyl, hyx⟩
    · intro i
      rw [labelspace_claimed_congr iflist s _ (crossconnect_remove_enabled s L), hr.2.1,
        labelspace_of_append, labelspace_run_quiet]
      · exact hinv.2.2.2.2 i
      · intro e he
        simp only [List.mem_cons, List.mem_singleton, List.not_mem_nil, or_false] at he
        rcases he with he | he | he <;> rw [he] <;> rfl

theorem driver_inv_xc_add_new (K : zebra_consts) (iflist : List interface) (drv : driver)
    (hdrv : ∀ log, 0 ≤ drv log) (s s1 : zebra) (in_label : Nat) (ifp : Option Nat)
    (nexthop out_label : Nat) (hinv : driver_inv K iflist s1) (hxw : xc_wf s)
    (hloop : crossconnect_add_loop in_label ifp nexthop out_label s.mpls_crossconnect_list s
      = (false, s1)) :
    driver_inv K iflist
      (mpls_static_crossconnect_add drv s in_label ifp nexthop out_label).2 := by
  have hall := crossconnect_add_of_loop drv s s1 in_label ifp nexthop out_label hloop
  have hlog := (hall.2.2.2.2 (not_lt.2 (hdrv _)) (not_lt.2 (hdrv _)) (not_lt.2 (hdrv _))).2
  have ht := crossconnect_add_table drv s s1 in_label ifp nexthop out_label hloop
  have hlist := hall.1
  obtain ⟨hwf, hxc, hxlt, hxnd, hap, hapx, hoff, hset⟩ := hinv.1
  have hlt : ∀ q x, lsp_held (bindings s1 q) x → x < s1.alloc :=
    fun q x hx => lsp_held_lt (rn_of_wf s1 q hwf) hx
  have hb : ∀ q, bindings (mpls_static_crossconnect_add drv s in_label ifp nexthop
      out_label).2 q = bindings s1 q := fun q => bindings_congr (by rw [ht])
  have hnp : (mpls_crossconnect_new s1.alloc in_label ifp nexthop out_label).lsp.ptr
      = s1.alloc + 1 := rfl
  have hnl : (mpls_crossconnect_new s1.alloc in_label ifp nexthop out_label).in_label
      = in_label := rfl
  refine driver_inv_of_table K iflist s1 _ ht hinv
    (crossconnect_add_new_nhlfe_inv K drv hdrv s s1 in_label ifp nexthop out_label hinv.1 hxw
      hloop) ?_ ?_
  · intro M x
    have hinst : xc_installed (mpls_static_crossconnect_add drv s in_label ifp nexthop
        out_label).2.log M x =
        if in_label = M ∧ s1.alloc + 1 = x then true else xc_installed s1.log M x := by
      rw [hlog, xc_installed_append]
      simp [xc_entry_run, xc_entry_step, hnp]
    rw [hinst]
    unfold xc_claimed
    by_cases hx : in_label = M ∧ s1.alloc + 1 = x
    · rw [if_pos hx]
      constructor
      · intro _
        refine Or.inr ⟨_, ?_, hnl.trans hx.1, hnp.trans hx.2⟩
        rw [hlist]
        simp
      · intro _; rfl
    · rw [if_neg hx, hinv.2.2.2.1 M x]
      unfold xc_claimed
      constructor
      · rintro (⟨q, hq'⟩ | ⟨y, hy, hyl, hyx⟩)
        · exact Or.inl ⟨q, by rw [ht, hb]; exact hq'⟩
        · refine Or.inr ⟨y, ?_, hyl, hyx⟩
          rw [hlist]
          exact List.mem_append_left _ hy
      · rintro (⟨q, hq'⟩ | ⟨y, hy, hyl, hyx⟩)
        · rw [ht, hb] at hq'
          exact Or.inl ⟨q, hq'⟩
        · rw [hlist, List.mem_append, List.mem_singleton] at hy
          rcases hy with hy | hy
          · exact Or.inr ⟨y, hy, hyl, hyx⟩
          · rw [hy] at hyx hyl
            exact absurd ⟨hyl, hyx⟩ hx
  · intro i
    rw [labelspace_claimed_congr iflist s1 _
      (crossconnect_add_enabled drv s s1 in_label ifp nexthop out_label hloop), hlog,
      labelspace_of_append, labelspace_run_quiet]
    · exact hinv.2.2.2.2 i
    · intro e he
      simp only [List.mem_cons, List.mem_singleton, List.not_mem_nil, or_false] at he
      rcases he with he | he | he <;> rw [he] <;> rfl

theorem driver_inv_xc_add (K : zebra_consts) (iflist : List interface) (drv : driver)
    (hdrv : ∀ log, 0 ≤ drv log) (s : zebra) (in_label : Nat) (ifp : Option Nat)
    (nexthop out_label : Nat) (hinv : driver_inv K iflist s) :
    driver_inv K iflist
      (mpls_static_crossconnect_add drv s in_label ifp nexthop out_label).2 := by
  have hloop := crossconnect_add_loop_eq in_label ifp nexthop out_label
    s.mpls_crossconnect_list s hinv.1.2.1.1
  cases hf : s.mpls_crossconnect_list.find? (fun mc => mc.in_label == in_label) with
  | none =>
    rw [hf] at hloop
    exact driver_inv_xc_add_new K iflist drv hdrv s s in_label ifp nexthop out_label hinv
      hinv.1.2.1 hloop
  | some mc =>
    rw [hf] at hloop
    dsimp only at hloop
    by_cases hsame : crossconnect_same mc ifp nexthop out_label = true
    · rw [if_pos hsame] at hloop
      have hs : (mpls_static_crossconnect_add drv s in_label ifp nexthop out_label).2 = s := by
        unfold mpls_static_crossconnect_add
        rw [hloop]
      rw [hs]
      exact hinv
    · rw [if_neg hsame] at hloop
      exact driver_inv_xc_add_new K iflist drv hdrv s _ in_label ifp nexthop out_label
        (driver_inv_xc_remove K iflist s in_label hinv) hinv.1.2.1 hloop

theorem fresh_engine_driver_inv (K : zebra_consts) (iflist : List interface)
    (cl : List zserv) (rt : Prefix → List rib) :
    driver_inv K iflist (fresh_engine cl rt) := by
  have hb : ∀ p, bindings (fresh_engine cl rt) p = label_bindings_new := fun p => rfl
  have hheld : ∀ x, ¬ lsp_held label_bindings_new x := by
    intro x h
    rcases h with h | h
    · simp [lsps, label_bindings_new] at h
    · cases h
  refine ⟨⟨?_, ?_, ?_, ?_, ?_, ?_, ?_, ?_⟩, ?_, ?_, ?_, ?_⟩
  · intro p lb hp
    cases hp
  · exact ⟨List.nodup_nil, List.nodup_nil, fun mc hmc => by cases hmc⟩
  · intro mc hmc
    cases hmc
  · exact List.nodup_nil
  · intro p q x _ h1 _
    rw [hb] at h1
    exact hheld x h1
  · intro p x h1
    rw [hb] at h1
    exact absurd h1 (hheld x)
  · intro p _
    rfl
  · intro x
    constructor
    · intro h; cases h
    · rintro (⟨p, hp⟩ | ⟨mc, hmc, _⟩)
      · exact absurd (lsp_on_held hp) (by rw [hb]; exact hheld x)
      · cases hmc
  · intro p lb hp
    cases hp
  · intro p
    rfl
  · intro L x
    constructor
    · intro h; cases h
    · rintro (⟨p, hp⟩ | ⟨mc, hmc, _⟩)
      · exact absurd (xc_on_held hp) (by rw [hb]; exact hheld x)
      · cases hmc
  · intro i
    rfl
theorem quiet_effect_driver_inv (E : command_env) (hdrv : ∀ log, 0 ≤ E.drv log) {s s' : zebra}
    (h : quiet_effect E s s') (hs : driver_inv E.K E.iflist s) :
    driver_inv E.K E.iflist s' := by
  induction h with
  | same s => exact hs
  | enable s => exact driver_inv_mpls_ip E.K E.iflist s hs
  | disable s => exact driver_inv_no_mpls_ip E.K E.iflist s hs
  | remove_in s p L => exact driver_inv_remove_static E.K E.iflist s p L hs
  | add_out s p N L _ => exact driver_inv_add_static_lsp E.K E.iflist E.drv hdrv s p N L hs
  | remove_out s p N => exact driver_inv_remove_static_lsp E.K E.iflist E.drv hdrv s p N hs
  | get s p => exact driver_inv_get E.K E.iflist s p hs
  | xc_remove s L => exact driver_inv_xc_remove E.K E.iflist s L hs
  | trans s1 s2 s3 _ _ ih1 ih2 => exact ih2 (ih1 hs)

theorem config_effect_driver_inv (E : command_env) (hdrv : ∀ log, 0 ≤ E.drv log)
    {s s' : zebra} (h : config_effect E s s') (hs : driver_inv E.K E.iflist s) :
    driver_inv E.K E.iflist s' := by
  cases h with
  | quiet _ hq => exact quiet_effect_driver_inv E hdrv hq hs
  | set_in p L hL =>
    refine driver_inv_set_static E.K E.iflist s p L ?_ hs
    unfold in_label_ok at hL
    unfold NO_LABEL
    omega
  | xc_add in_label i nexthop out_label _ _ _ =>
    exact driver_inv_xc_add E.K E.iflist E.drv hdrv s in_label (some i.ptr) nexthop out_label hs

/-- With a driver that accepts every call, every state reached from the fresh
engine by lines of configuration has the NHLFE table, the XC table and the
label spaces its records and its cross-connect table claim. -/
theorem config_reachable_driver_inv {E : command_env} {cl : List zserv}
    {rt : Prefix → List rib} (hdrv : ∀ log, 0 ≤ E.drv log) {s : zebra}
    (h : config_reachable E cl rt s) : driver_inv E.K E.iflist s := by
  induction h with
  | start => exact fresh_engine_driver_inv E.K E.iflist cl rt
  | command s s' words _ hline ih =>
    exact config_effect_driver_inv E hdrv (config_line_effect E s s' words hline) ih
/-! ## The driver state after the replay of a written configuration -/

/-- Without LDP LSP and with the selection up to date, a static LSP is the
selected LSP exactly when its next hop is the address `get_prefix_nexthop`
returns. -/
theorem selected_ptr_static (K : zebra_consts) (info : List rib) (lb : label_bindings)
    (a : Nat) (hwf : lb_wf a lb) (hsel : sel_ok K info lb) (hldp : lb.ldp_lsp = none)
    (l : route_lsp) (hl : l ∈ lb.static_lsps) :
    ptr_of lb.selected_lsp = some l.ptr ↔ get_prefix_nexthop K info = some l.nexthop := by
  have hls : l ∈ lsps lb := by simp [lsps, hl]
  unfold sel_ok at hsel
  cases hn : get_prefix_nexthop K info with
  | none =>
    rw [hn] at hsel
    dsimp only at hsel
    rw [hsel]
    exact ⟨fun h => (by cases h), fun h => (by cases h)⟩
  | some n =>
    rw [hn] at hsel
    dsimp only at hsel
    have hcand : select_candidate lb n = lb.static_lsps.find? (fun x => x.nexthop == n) := by
      unfold select_candidate
      rw [hldp]
    rw [hsel, hcand]
    constructor
    · intro h
      cases hf : lb.static_lsps.find? (fun x => x.nexthop == n) with
      | none => rw [hf] at h; cases h
      | some l' =>
        rw [hf] at h
        have hp : l'.ptr = l.ptr := by simpa [ptr_of] using h
        have hm : l' ∈ lb.static_lsps := List.mem_of_find?_eq_some hf
        have hn' : l'.nexthop = n := by
          have := List.find?_some hf
          simpa using this
        have heq : l' = l := ptr_inj_of_nodup hwf.1 (by simp [lsps, hm]) hls hp
        rw [← heq, hn']
    · intro h
      have hn' : l.nexthop = n := (Option.some.inj h).symm
      cases hf : lb.static_lsps.find? (fun x => x.nexthop == n) with
      | none =>
        have := List.find?_eq_none.1 hf l hl
        simp [hn'] at this
      | some l' =>
        have hm : l' ∈ lb.static_lsps := List.mem_of_find?_eq_some hf
        have hn2 : l'.nexthop = n := by
          have := List.find?_some hf
          simpa using this
        have heq : l' = l := List.inj_on_of_nodup_map hwf.2.2.2 hm hl (hn2.trans hn'.symm)
        rw [heq]
        rfl

theorem static_lsp_record {s : zebra} {p : Prefix} {l : route_lsp}
    (hl : l ∈ (bindings s p).static_lsps) : (s.table p).mpls = some (bindings s p) := by
  cases hm : (s.table p).mpls with
  | none =>
    rw [bindings_of_none hm] at hl
    cases hl
  | some lb => rw [bindings_of_some hm]

/-- The entries of the NHLFE table and of the XC table for a static LSP, read
off the configuration and the routes. -/
theorem static_lsp_tables (K : zebra_consts) (iflist : List interface)
    (rt : Prefix → List rib) (t : zebra) (hinv : driver_inv K iflist t)
    (hso : static_only rt t) (p : Prefix) (l : route_lsp)
    (hl : l ∈ (bindings t p).static_lsps) :
    (nhlfe_installed t.log l.ptr = true ↔ get_prefix_nexthop K (rt p) = some l.nexthop) ∧
    (∀ L, xc_installed t.log L l.ptr = true ↔
      get_prefix_nexthop K (rt p) = some l.nexthop ∧ (bindings t p).static_in_label = L ∧
        L ≠ NO_LABEL) := by
  obtain ⟨⟨hwf, hxw, hxlt, hxnd, hap, hapx, hoff, hset⟩, hsel, hldp, hxc, -⟩ := hinv
  have hmp := static_lsp_record hl
  have hinfo : (t.table p).info = rt p := hso.2 p
  have hptr := selected_ptr_static K (t.table p).info (bindings t p) t.alloc
    (rn_of_wf t p hwf) (hsel p _ hmp) (hldp p) l hl
  rw [hinfo] at hptr
  have hheld : lsp_held (bindings t p) l.ptr :=
    Or.inl (List.mem_map.2 ⟨l, by simp [lsps, hl], rfl⟩)
  have hq : ∀ q, lsp_held (bindings t q) l.ptr → q = p := by
    intro q h
    by_contra hne
    exact hap p q l.ptr (Ne.symm hne) hheld h
  constructor
  · rw [hset]
    unfold nhlfe_claimed
    constructor
    · rintro (⟨q, h⟩ | ⟨mc, hmc, hx⟩)
      · have := hq q (lsp_on_held h)
        subst this
        exact hptr.1 h.2
      · exact absurd hx (hapx p l.ptr hheld mc hmc)
    · intro h
      exact Or.inl ⟨p, by rw [hinfo]; exact nexthop_some_active K _ _ h, hptr.2 h⟩
  · intro L
    rw [hxc]
    unfold xc_claimed
    constructor
    · rintro (⟨q, h⟩ | ⟨mc, hmc, -, hx⟩)
      · have := hq q (xc_on_held h)
        subst this
        obtain ⟨-, h2, h3, h4⟩ := h
        exact ⟨hptr.1 h4, by rw [← (hso.1 q).2]; exact h2, h3⟩
      · exact absurd hx (hapx p l.ptr hheld mc hmc)
    · rintro ⟨h1, h2, h3⟩
      exact Or.inl ⟨p, by rw [hinfo]; exact nexthop_some_active K _ _ h1,
        by rw [(hso.1 p).2]; exact h2, h3, hptr.2 h1⟩

/-- The entries of the NHLFE table and of the XC table for the LSP of a
cross-connect. -/
theorem crossconnect_tables (K : zebra_consts) (iflist : List interface) (t : zebra)
    (hinv : driver_inv K iflist t) (mc : mpls_crossconnect)
    (hmc : mc ∈ t.mpls_crossconnect_list) :
    nhlfe_installed t.log mc.lsp.ptr = true ∧
    (∀ L, xc_installed t.log L mc.lsp.ptr = true ↔ L = mc.in_label) := by
  obtain ⟨⟨hwf, hxw, hxlt, hxnd, hap, hapx, hoff, hset⟩, hsel, hldp, hxc, -⟩ := hinv
  constructor
  · rw [hset]
    exact Or.inr ⟨mc, hmc, rfl⟩
  · intro L
    rw [hxc]
    unfold xc_claimed
    constructor
    · rintro (⟨q, h⟩ | ⟨y, hy, hyl, hyx⟩)
      · exact absurd rfl (hapx q mc.lsp.ptr (xc_on_held h) mc hmc)
      · have : y = mc := List.inj_on_of_nodup_map hxnd hy hmc hyx
        rw [← hyl, this]
    · intro h
      exact Or.inr ⟨mc, hmc, h.symm, rfl⟩

/-- The two tables have entries for static LSPs and LSPs of cross-connects
only. -/
theorem tables_known (K : zebra_consts) (iflist : List interface) (t : zebra)
    (hinv : driver_inv K iflist t) (x : Nat)
    (h : nhlfe_installed t.log x = true ∨ ∃ L, xc_installed t.log L x = true) :
    lsp_known t x := by
  obtain ⟨⟨hwf, hxw, hxlt, hxnd, hap, hapx, hoff, hset⟩, hsel, hldp, hxc, -⟩ := hinv
  have hsel2 : ∀ q, ptr_of (bindings t q).selected_lsp = some x → lsp_known t x := by
    intro q hq
    cases hs : (bindings t q).selected_lsp with
    | none => rw [hs] at hq; cases hq
    | some l =>
      rw [hs] at hq
      have hp : l.ptr = x := by simpa [ptr_of] using hq
      have hm := (rn_of_wf t q hwf).2.2.1 l hs
      have hm2 : l ∈ (bindings t q).static_lsps := by
        have : l ∈ lsps (bindings t q) := hm
        simp only [lsps, List.mem_append, hldp q, Option.toList, List.not_mem_nil,
          or_false] at this
        exact this
      exact Or.inl ⟨q, l, hm2, hp⟩
  rcases h with h | ⟨L, h⟩
  · rcases (hset x).1 h with ⟨q, hq⟩ | h2
    · exact hsel2 q hq.2
    · exact Or.inr h2
  · rcases (hxc L x).1 h with ⟨q, hq⟩ | ⟨mc, hmc, -, hx⟩
    · exact hsel2 q hq.2.2.2
    · exact Or.inr ⟨mc, hmc, hx⟩

theorem zip_map_eq {α β : Type} (f : α → β) (A B : List α) (h : A.map f = B.map f) :
    ∀ ab ∈ A.zip B, f ab.1 = f ab.2 := by
  induction A generalizing B with
  | nil => intro ab hab; cases hab
  | cons a t ih =>
    cases B with
    | nil => intro ab hab; cases hab
    | cons b u =>
      simp only [List.map_cons, List.cons.injEq] at h
      intro ab hab
      rcases List.mem_cons.1 hab with hab | hab
      · rw [hab]
        exact h.1
      · exact ih u h.2 ab hab

theorem bool_eq_of_iff {a b : Bool} {P : Prop} (ha : a = true ↔ P) (hb : b = true ↔ P) :
    a = b := by
  cases a <;> cases b
  · rfl
  · exact absurd (ha.2 (hb.1 rfl)) (by decide)
  · exact absurd (hb.2 (ha.1 rfl)) (by decide)
  · rfl

/-- Two states formed by configuration commands alone, with the same routes
and the same configuration, in both of which the tables of the driver are as
the records and the cross-connects claim, and with the same ILM table, have
the same driver state. -/
theorem driver_state_same (K : zebra_consts) (iflist : List interface)
    (rt : Prefix → List rib) (s s' : zebra) (hs : driver_inv K iflist s)
    (hs' : driver_inv K iflist s') (h1 : static_only rt s) (h2 : static_only rt s')
    (hc : same_config s s')
    (hilm : ∀ L, ilm_installed s'.log L = ilm_installed s.log L) :
    same_driver_state s s' := by
  refine ⟨?_, hilm, ?_, ?_, tables_known K iflist s hs, tables_known K iflist s' hs'⟩
  · intro i
    rw [hs.2.2.2.2 i, hs'.2.2.2.2 i]
    exact labelspace_claimed_congr iflist s s' hc.1 i
  · intro p ll hll
    have hm := List.of_mem_zip (show (ll.1, ll.2) ∈ _ from hll)
    have hf := zip_map_eq (fun l : route_lsp => (l.nexthop, l.remote_label)) _ _
      (hc.2.1 p).2.symm ll hll
    have hnh : ll.1.nexthop = ll.2.nexthop := (Prod.mk.inj hf).1
    have ha := static_lsp_tables K iflist rt s hs h1 p ll.1 hm.1
    have hb := static_lsp_tables K iflist rt s' hs' h2 p ll.2 hm.2
    rw [← hnh, (hc.2.1 p).1] at hb
    exact ⟨bool_eq_of_iff hb.1 ha.1, fun L => bool_eq_of_iff (hb.2 L) (ha.2 L)⟩
  · intro mm hmm
    have hm := List.of_mem_zip (show (mm.1, mm.2) ∈ _ from hmm)
    have hf := zip_map_eq (fun mc : mpls_crossconnect =>
      (mc.in_label, mc.lsp.ifp, mc.lsp.nexthop, mc.lsp.remote_label)) _ _ hc.2.2.symm mm hmm
    have hlab : mm.1.in_label = mm.2.in_label := (Prod.mk.inj hf).1
    have ha := crossconnect_tables K iflist s hs mm.1 hm.1
    have hb := crossconnect_tables K iflist s' hs' mm.2 hm.2
    rw [← hlab] at hb
    exact ⟨hb.1.trans ha.1.symm, fun L => bool_eq_of_iff (hb.2 L) (ha.2 L)⟩

/-- C28 (as amended): for every state `s` reached from the fresh engine by
lines of configuration, with interface objects at distinct addresses, `nodes`
listing once every prefix that has a bindings record, and a library that
reads back the texts it writes for these prefixes and for the next hops of
the state, `mpls_config_write` writes lines whose replay on a fresh engine
with the same routes ends in a state with the same `mpls_enabled` flag, the
same static in-label and the same static LSPs (next hop, outgoing label, in
list order) for every prefix, and the same cross-connects (incoming label,
interface, next hop, outgoing label, in list order).  When the driver calls
succeed and, after every line of the run that led to `s`, no label is held by
two prefixes or by a prefix and a cross-connect, the recording driver is in
the same state after the replay as in `s`: the same label space on every
interface, the same ILM table, and the same NHLFE and XC entries for the
static LSPs and the LSPs of the cross-connects, and for no other LSP. -/
theorem C28_config_round_trip (E : command_env) (cl : List zserv) (rt : Prefix → List rib)
    (nodes : List Prefix) (s : zebra) (hmax : 4294967295 ≤ E.ulong_max)
    (hptr : (E.iflist.map (fun x => x.ptr)).Nodup)
    (hreach : config_reachable E cl rt s)
    (hnd : nodes.Nodup) (hnodes : ∀ p, (s.table p).mpls ≠ none → p ∈ nodes)
    (htext : text_round_trip E nodes s) :
    ∃ lines s', mpls_config_write E.V E.iflist nodes s = some (0, lines) ∧
      config_replay E lines (fresh_engine cl rt) = some s' ∧ same_config s s' ∧
      ((∀ log, 0 ≤ E.drv log) → config_disciplined E cl rt s → same_driver_state s s') := by
  obtain ⟨lines, s', h1, h2, h3, h4⟩ := config_round_trip E cl rt nodes s hmax hptr
    (config_reachable_wf hreach) hnd hnodes htext
    (fun t => (∀ log, 0 ≤ E.drv log) → config_disciplined E cl rt s →
      ilm_inv E.K t ∧ held_within s t)
    (fun _ _ => replay_keep_start E.K s cl rt)
    (fun t ht hdrv hdis => replay_keep_ip E s t (ht hdrv hdis))
    (fun p t N L ht hdrv hdis => replay_keep_add E s t p N L (ht hdrv hdis))
    (fun p t ht hnone hne hdrv hdis =>
      replay_keep_set E.K s t p (config_disciplined_ilm_inv hdrv hdis).1 (ht hdrv hdis) hnone
        hne)
    (fun mc hmc t i ht hnew hdrv hdis =>
      replay_keep_xc E.K E.drv hdrv s t mc (some i.ptr)
        (config_disciplined_ilm_inv hdrv hdis).1 hmc (ht hdrv hdis) hnew)
  refine ⟨lines, s', h1, h2, h3, ?_⟩
  intro hdrv hdis
  have hr' : config_reachable E cl rt s' :=
    config_reachable_replay lines _ _ config_reachable.start h2
  exact driver_state_same E.K E.iflist rt s s' (config_reachable_driver_inv hdrv hreach)
    (config_reachable_driver_inv hdrv hr') (config_reachable_static_only hreach)
    (config_reachable_static_only hr') h3
    (fun L => ilm_same_of_config E.K rt s s' (config_disciplined_ilm_inv hdrv hdis)
      (h4 hdrv hdis).1 (config_reachable_static_only hreach)
      (config_reachable_static_only hr') h3 L)

/-- C28 (witness): the run of `demo_config_lines` keeps in-labels apart; in its
last state the driver has label space 0 on `if0`, the ILM entries 100 and 500,
the NHLFEs of the LSPs at 1 and 4 and the XC entries (100, 1) and (500, 4);
and the configuration written for that state is read back by a fresh engine
into the same configuration and the same driver state. -/
theorem C28_config_round_trip_witness :
    config_disciplined demo_command_env demo_clients demo_routes demo_config_state ∧
    labelspace_of demo_config_state.log 1 = 0 ∧
    ilm_installed demo_config_state.log 100 = true ∧
    ilm_installed demo_config_state.log 500 = true ∧
    nhlfe_installed demo_config_state.log 1 = true ∧
    nhlfe_installed demo_config_state.log 4 = true ∧
    xc_installed demo_config_state.log 100 1 = true ∧
    xc_installed demo_config_state.log 500 4 = true ∧
    ∃ lines s',
      mpls_config_write demo_command_env.V demo_command_env.iflist [ demo_prefix, demo_prefix2]
        demo_config_state = some (0, lines) ∧
      config_replay demo_command_env lines (fresh_engine demo_clients demo_routes) = some s' ∧
      same_config demo_config_state s' ∧ same_driver_state demo_config_state s' := by
  refine ⟨demo_config_state_disciplined, by decide, by decide, by decide, by decide, by decide,
    by decide, by decide, ?_⟩
  obtain ⟨lines, s', h1, h2, h3, h4⟩ := C28_config_round_trip demo_command_env demo_clients
    demo_routes [ demo_prefix, demo_prefix2] demo_config_state (by decide) (by decide)
    (config_disciplined_reachable demo_config_state_disciplined)
    (by decide) demo_config_state_nodes (by unfold text_round_trip; decide)
  exact ⟨lines, s', h1, h2, h3, h4 (fun _ => le_refl _) demo_config_state_disciplined⟩

end Mpls
